import Mathlib

/-!
# Probe side of the vectorized hash join (`process_hash_table_probe_impl.h`)

A shallow embedding of `ProcessHashTableProbe<JoinOpType>`: the probe loop
(`_probe_row_match`, `do_process`), the output assembler
(`build_side_output_column`, `probe_side_output_column`), the other-conjunct
applier (`do_other_join_conjuncts`, `_process_splited_equal_matched_tuples`)
and the dispatcher `process`.

Conventions of the embedding.
* Template parameters and constructor arguments are fields of `Config`.
* `std::vector::emplace_back` is `l ++ [x]`; `v[i]` is `List.getD`.
* `int`/`size_t` counters are `Nat` (no arithmetic here can overflow or go below zero on
  the paths that are modelled; a loop bound such as `current_offset - origin_offset - 1`
  that is negative in C++ runs zero times, and so does its truncated `Nat` value).
* A `ForwardIterator<Mapped>` is the chain of row references still to be visited, with the
  hash-table entry and the position of its current element (the address of `it->visited`).
* The hash table is an association list in bucket-iteration order; `find_key_with_hash` is
  the lookup of the first entry with the key (hash values only select the bucket).
* A column block is reduced to what identifies each cell: the probe row a left-side cell
  was copied from and the build coordinate a right-side cell was gathered from.
-/

namespace doris

/-- `TJoinOp`: the nine join modes. -/
inductive TJoinOp
  | INNER_JOIN
  | LEFT_OUTER_JOIN
  | RIGHT_OUTER_JOIN
  | FULL_OUTER_JOIN
  | LEFT_SEMI_JOIN
  | LEFT_ANTI_JOIN
  | NULL_AWARE_LEFT_ANTI_JOIN
  | RIGHT_SEMI_JOIN
  | RIGHT_ANTI_JOIN
  deriving DecidableEq, Repr

/-- The row-list flavor `HashTableType::Mapped`. -/
inductive RowRefKind
  | RowRefList
  | RowRefListWithFlag
  | RowRefListWithFlags
  deriving DecidableEq, Repr

/-- A build row coordinate (`block_offset`, `row_num`). -/
structure RowRef where
  block_offset : Int
  row_num : Int
  deriving DecidableEq, Repr

/-- The value stored under a key: the row list, the per-row `visited` flags
(`RowRefListWithFlags`) and the key-level `visited` flag (`RowRefListWithFlag`). -/
structure Mapped where
  rows : List (RowRef × Bool)
  visited : Bool
  deriving DecidableEq, Repr

/-- The build-side hash table: entries in iteration order. -/
structure HashTable where
  kind : RowRefKind
  entries : List (Int × Mapped)
  deriving DecidableEq, Repr

/-- `ForwardIterator<Mapped>`. `rest` starts at the current element; `ok()` is `rest ≠ []`.
`entry` and `pos` locate the current element (and so its `visited` flag) in the table. -/
structure ForwardIterator where
  entry : Nat
  pos : Nat
  rest : List RowRef
  deriving DecidableEq, Repr

/-- `ForwardIterator::ok`. -/
def ForwardIterator.ok (it : ForwardIterator) : Bool := !it.rest.isEmpty

/-- The default-constructed (empty) iterator. -/
def ForwardIterator.empty : ForwardIterator := ⟨0, 0, []⟩

/-- `mapped.begin()` for the entry at index `entry`. -/
def Mapped.begin (entry : Nat) (m : Mapped) : ForwardIterator :=
  ⟨entry, 0, m.rows.map Prod.fst⟩

/-- `key_getter.find_key_with_hash`: index of the first entry holding `key`. -/
def find_key (entries : List (Int × Mapped)) (key : Int) : Option Nat :=
  match entries with
  | [] => none
  | e :: es => if e.1 == key then some 0 else (find_key es key).map Nat.succ

/-- The probe batch: key column and its null map. -/
structure ProbeBatch where
  keys : List Int
  null_map : List Bool
  deriving DecidableEq, Repr

/-- Template parameters of `do_process` and the constructor argument `batch_size`. -/
structure Config where
  JoinOpType : TJoinOp
  batch_size : Nat
  need_null_map_for_probe : Bool
  ignore_null : Bool
  with_other_conjuncts : Bool
  is_mark_join : Bool
  deriving DecidableEq, Repr

/-- `probe_all` of `do_process` and `build_side_output_column`. -/
def probe_all (op : TJoinOp) : Bool :=
  op == TJoinOp.LEFT_OUTER_JOIN || op == TJoinOp.FULL_OUTER_JOIN

/-- `is_right_semi_anti_join` of `do_process`. -/
def is_right_semi_anti_join (op : TJoinOp) : Bool :=
  op == TJoinOp.RIGHT_ANTI_JOIN || op == TJoinOp.RIGHT_SEMI_JOIN

/-- `is_semi_anti_join` of `build_side_output_column`. -/
def is_semi_anti_join (op : TJoinOp) : Bool :=
  op == TJoinOp.RIGHT_ANTI_JOIN || op == TJoinOp.RIGHT_SEMI_JOIN ||
  op == TJoinOp.LEFT_ANTI_JOIN || op == TJoinOp.NULL_AWARE_LEFT_ANTI_JOIN ||
  op == TJoinOp.LEFT_SEMI_JOIN

/-- The modes of the first dispatch arm of the probe loop (taken without other conjuncts). -/
def is_left_semi_anti (op : TJoinOp) : Bool :=
  op == TJoinOp.LEFT_ANTI_JOIN || op == TJoinOp.NULL_AWARE_LEFT_ANTI_JOIN ||
  op == TJoinOp.LEFT_SEMI_JOIN

/-- Everything `process` reads or writes besides the output block: the join-context
fields (`probe_index`, `probe_row_match_iter`, `is_any_probe_match_row_output`, the two
outer-join null-flag columns), the scratch vectors of the engine object, the locals of
`do_process`, the trailing mark column `mcol[mcol.size() - 1]` and the hash table (for its
visited flags). -/
structure ProbeState where
  probe_index : Nat
  probe_row_match_iter : ForwardIterator
  is_any_probe_match_row_output : Bool
  tuple_is_null_left_flags : List Bool
  tuple_is_null_right_flags : List Bool
  current_offset : Nat
  all_match_one : Bool
  probe_size : Nat
  multi_matched_output_row_count : Nat
  is_the_last_sub_block : Bool
  row_count_from_last_probe : Nat
  build_block_offsets : List Int
  build_block_rows : List Int
  probe_indexs : List Nat
  visited_map : List (Option (Nat × Nat))
  same_to_prev : List Bool
  mark_column : List Bool
  hash_table : HashTable
  deriving DecidableEq, Repr

/-- `std::vector::resize(n, v)`. -/
def resize {α : Type} (l : List α) (n : Nat) (v : α) : List α :=
  l.take n ++ List.replicate (n - l.length) v

/-- `_emplace_element`. -/
def emplace_element (s : ProbeState) (block_offset block_row : Int) : ProbeState :=
  { s with
    build_block_offsets := s.build_block_offsets ++ [block_offset]
    build_block_rows := s.build_block_rows ++ [block_row]
    current_offset := s.current_offset + 1 }

/-- The loop of `_probe_row_match`:
`for (; iter.ok() && current_offset < _batch_size; ++iter)`, which also records the probe
index of every tuple. Returns the advanced iterator. -/
def probe_row_match_loop (cfg : Config) (entry : Nat) :
    Nat → List RowRef → ProbeState → ForwardIterator × ProbeState
  | pos, [], s => (⟨entry, pos, []⟩, s)
  | pos, r :: rest, s =>
    if s.current_offset < cfg.batch_size then
      let s := emplace_element s r.block_offset r.row_num
      let s := { s with probe_indexs := s.probe_indexs ++ [s.probe_index] }
      let s := if cfg.with_other_conjuncts then
          { s with visited_map := s.visited_map ++ [some (entry, pos)] } else s
      probe_row_match_loop cfg entry (pos + 1) rest s
    else (⟨entry, pos, r :: rest⟩, s)

/-- `_probe_row_match`: drain the suspended iterator first. -/
def probe_row_match (cfg : Config) (s : ProbeState) : ProbeState :=
  let it := s.probe_row_match_iter
  if !it.ok then s
  else
    let (it, s) := probe_row_match_loop cfg it.entry it.pos it.rest s
    let s := { s with probe_row_match_iter := it }
    let s := { s with row_count_from_last_probe := s.current_offset }
    let s := { s with all_match_one := s.all_match_one && (s.current_offset == 1) }
    let s := if !it.ok then { s with probe_index := s.probe_index + 1 } else s
    { s with probe_size := 1 }

/-- The uncapped loop of the mark-join-with-other-conjuncts arm:
`for (auto it = mapped.begin(); it.ok(); ++it)`. -/
def mark_match_loop (entry : Nat) : Nat → List RowRef → ProbeState → ProbeState
  | _, [], s => s
  | pos, r :: rest, s =>
    let s := emplace_element s r.block_offset r.row_num
    let s := { s with visited_map := s.visited_map ++ [some (entry, pos)] }
    mark_match_loop entry (pos + 1) rest s

/-- The capped loop of the found branch:
`for (; it.ok() && current_offset < _batch_size; ++it)`. Returns the advanced iterator. -/
def found_match_loop (cfg : Config) (entry : Nat) :
    Nat → List RowRef → ProbeState → ForwardIterator × ProbeState
  | pos, [], s => (⟨entry, pos, []⟩, s)
  | pos, r :: rest, s =>
    if s.current_offset < cfg.batch_size then
      let s := emplace_element s r.block_offset r.row_num
      let s := if cfg.with_other_conjuncts then
          { s with visited_map := s.visited_map ++ [some (entry, pos)] } else s
      found_match_loop cfg entry (pos + 1) rest s
    else (⟨entry, pos, r :: rest⟩, s)

/-- `mapped.visited = true` for the hash-table entry at index `entry`. -/
def set_key_visited (ht : HashTable) (entry : Nat) : HashTable :=
  match ht.entries.get? entry with
  | some (k, m) => { ht with entries := ht.entries.set entry (k, { m with visited := true }) }
  | none => ht

/-- The found branch of the probe loop (`find_result.is_found()`), `entry` being the index
of the entry found and `mapped` its value. -/
def found_branch (cfg : Config) (entry : Nat) (mapped : Mapped) (s : ProbeState) :
    ProbeState :=
  let origin_offset := s.current_offset
  let s :=
    if cfg.is_mark_join && cfg.with_other_conjuncts then
      let s := mark_match_loop entry 0 (mapped.rows.map Prod.fst) s
      { s with probe_index := s.probe_index + 1 }
    else if cfg.with_other_conjuncts || !is_right_semi_anti_join cfg.JoinOpType then
      let multi_match_last_offset := s.current_offset
      let (it, s) := found_match_loop cfg entry 0 (mapped.rows.map Prod.fst) s
      let s := { s with probe_row_match_iter := it }
      if !it.ok then { s with probe_index := s.probe_index + 1 }
      else if cfg.with_other_conjuncts then
        { s with multi_matched_output_row_count := s.current_offset - multi_match_last_offset }
      else s
    else { s with probe_index := s.probe_index + 1 }
  let s :=
    if s.hash_table.kind == RowRefKind.RowRefListWithFlag then
      { s with hash_table := set_key_visited s.hash_table entry }
    else s
  if cfg.with_other_conjuncts then
    { s with same_to_prev :=
        s.same_to_prev ++ [false] ++
          List.replicate (s.current_offset - origin_offset - 1) true }
  else s

/-- The test of the null-key arm: `ignore_null && need_null_map_for_probe` and
`(*null_map)[probe_index]`. -/
def is_ignored_null (cfg : Config) (probe : ProbeBatch) (probe_index : Nat) : Bool :=
  cfg.ignore_null && cfg.need_null_map_for_probe && probe.null_map.getD probe_index false

/-- `find_result` of the loop body: `empty` for a null key, the hash-table lookup otherwise;
`some entry` when found. -/
def find_result (cfg : Config) (probe : ProbeBatch) (entries : List (Int × Mapped))
    (probe_index : Nat) : Option Nat :=
  if cfg.need_null_map_for_probe && probe.null_map.getD probe_index false then none
  else find_key entries (probe.keys.getD probe_index 0)

/-- The null-key arm of the loop body (ends in `probe_index++; continue`). -/
def null_key_branch (cfg : Config) (s : ProbeState) : ProbeState :=
  let s :=
    if probe_all cfg.JoinOpType then
      let s := emplace_element s (-1) (-1)
      let s := { s with probe_indexs := s.probe_indexs ++ [s.probe_index] }
      if cfg.with_other_conjuncts then
        { s with same_to_prev := s.same_to_prev ++ [false]
                 visited_map := s.visited_map ++ [none] }
      else s
    else { s with all_match_one := false }
  { s with probe_index := s.probe_index + 1 }

/-- The LEFT_SEMI / LEFT_ANTI / NULL_AWARE_LEFT_ANTI arm without other conjuncts. -/
def semi_anti_branch (cfg : Config) (found : Bool) (s : ProbeState) : ProbeState :=
  let need_go_ahead := xor (cfg.JoinOpType != TJoinOp.LEFT_SEMI_JOIN) found
  let s :=
    if cfg.is_mark_join then
      { s with current_offset := s.current_offset + 1
               mark_column := s.mark_column ++ [need_go_ahead] }
    else { s with current_offset := s.current_offset + need_go_ahead.toNat }
  { s with probe_index := s.probe_index + 1 }

/-- The not-found arm of the loop body. -/
def not_found_branch (cfg : Config) (s : ProbeState) : ProbeState :=
  if probe_all cfg.JoinOpType || cfg.JoinOpType == TJoinOp.LEFT_ANTI_JOIN ||
      cfg.JoinOpType == TJoinOp.NULL_AWARE_LEFT_ANTI_JOIN ||
      (cfg.JoinOpType == TJoinOp.LEFT_SEMI_JOIN && cfg.is_mark_join) then
    let s := emplace_element s (-1) (-1)
    let s :=
      if cfg.with_other_conjuncts then
        { s with same_to_prev := s.same_to_prev ++ [false]
                 visited_map := s.visited_map ++ [none] }
      else s
    { s with probe_index := s.probe_index + 1 }
  else { s with probe_index := s.probe_index + 1 }

/-- The dispatch by mode of the loop body. -/
def dispatch (cfg : Config) (find_result : Option Nat) (s : ProbeState) : ProbeState :=
  if !cfg.with_other_conjuncts && is_left_semi_anti cfg.JoinOpType then
    semi_anti_branch cfg find_result.isSome s
  else
    match find_result with
    | some entry =>
      found_branch cfg entry ((s.hash_table.entries.getD entry (0, ⟨[], false⟩)).2) s
    | none => not_found_branch cfg s

/-- The two statements closing the loop body: the `all_match_one` update and
`_probe_indexs.resize(current_offset, current_probe_index)`. -/
def finish_step (current_probe_index : Nat) (s : ProbeState) : ProbeState :=
  let s := { s with
    all_match_one := s.all_match_one && (s.current_offset == s.probe_indexs.length + 1) }
  { s with probe_indexs := resize s.probe_indexs s.current_offset current_probe_index }

/-- One iteration of `while (current_offset < _batch_size && probe_index < probe_rows)`. -/
def probe_step (cfg : Config) (probe : ProbeBatch) (s : ProbeState) : ProbeState :=
  if is_ignored_null cfg probe s.probe_index then null_key_branch cfg s
  else
    finish_step s.probe_index
      (dispatch cfg (find_result cfg probe s.hash_table.entries s.probe_index) s)

/-- The probe loop `while (current_offset < _batch_size && probe_index < probe_rows)`,
run for at most `fuel` iterations. -/
def probe_loop (cfg : Config) (probe : ProbeBatch) (probe_rows : Nat) :
    Nat → ProbeState → ProbeState
  | 0, s => s
  | fuel + 1, s =>
    if s.current_offset < cfg.batch_size && s.probe_index < probe_rows then
      probe_loop cfg probe probe_rows fuel (probe_step cfg probe s)
    else s

/-- The output block: `probe` holds, per row, the probe row the left-side cells were copied
from; `build` the build coordinate the right-side cells were gathered from; `mark` the
trailing mark column. Both sides are taken to have at least one retained column. -/
structure Block where
  probe : List Nat
  build : List RowRef
  mark : List Bool
  deriving DecidableEq, Repr

/-- `Block::rows`: the size of the first column, a probe-side one whenever the probe side
is written (when it is not, for RIGHT_SEMI / RIGHT_ANTI without other conjuncts, no column
is written at all). -/
def Block.rows (b : Block) : Nat := b.probe.length

/-- `Status` of `process`: `OK`, the `InvalidArgument` this file constructs, and the kinds of
error handed on from the calls it makes (spec, section 7: ExpressionEvaluation, MemoryLimit,
Cancelled). -/
inductive Status
  | OK
  | InvalidArgument
  | ExpressionEvaluation
  | MemoryLimit
  | Cancelled
  deriving DecidableEq, Repr

/-- The other join conjuncts, evaluated row by row on the assembled block: on the probe row
and the build coordinate of the row. -/
abbrev OtherConjuncts := Nat → RowRef → Bool

/-- `_init_probe_side` and the initialisation of the locals of `do_process`. The mutable
block handed in by the caller is empty, so the mark column starts empty. -/
def init_probe_side (cfg : Config) (s : ProbeState) : ProbeState :=
  { s with
    row_count_from_last_probe := 0
    build_block_rows := []
    build_block_offsets := []
    probe_indexs := []
    visited_map := if cfg.with_other_conjuncts then [] else s.visited_map
    same_to_prev := if cfg.with_other_conjuncts then [] else s.same_to_prev
    current_offset := 0
    all_match_one := true
    probe_size := 0
    multi_matched_output_row_count := 0
    is_the_last_sub_block := false
    mark_column := [] }

/-- The part of `do_process` before the probe loop: initialisation, `_probe_row_match`
and the grouping bits of the resumed tuples. -/
def resume_probe (cfg : Config) (s : ProbeState) : ProbeState :=
  let s := init_probe_side cfg s
  let s := probe_row_match cfg s
  if cfg.with_other_conjuncts && s.probe_size != 0 then
    { s with
      is_the_last_sub_block := !s.probe_row_match_iter.ok
      same_to_prev := s.same_to_prev ++ [false] ++ List.replicate (s.current_offset - 1) true }
  else s

/-- The part of `do_process` up to and including the probe loop and the final
`probe_size` assignment. -/
def do_probe (cfg : Config) (probe : ProbeBatch) (probe_rows : Nat) (s : ProbeState) :
    ProbeState :=
  let last_probe_index := s.probe_index
  let s := resume_probe cfg s
  let s := probe_loop cfg probe probe_rows (probe_rows - s.probe_index) s
  { s with probe_size := s.probe_index - last_probe_index + s.probe_row_match_iter.ok.toNat }

/-- The build-side cells written by `build_side_output_column` for `size` rows. -/
def build_side_output_column (cfg : Config) (s : ProbeState) (size : Nat) : List RowRef :=
  if !is_semi_anti_join cfg.JoinOpType || cfg.with_other_conjuncts then
    (List.range size).map fun j =>
      ⟨s.build_block_offsets.getD j 0, s.build_block_rows.getD j 0⟩
  else []

/-- The right null-flag column after `build_side_output_column`. -/
def build_side_null_flags (cfg : Config) (s : ProbeState) (size : Nat) : List Bool :=
  if probe_all cfg.JoinOpType && !cfg.with_other_conjuncts then
    (List.range size).map fun i => s.build_block_rows.getD i 0 == -1
  else s.tuple_is_null_right_flags

/-- The probe-side cells written by `probe_side_output_column`: a range copy when
`all_match_one`, a gather by `_probe_indexs` otherwise. -/
def probe_side_output_column (s : ProbeState) (size last_probe_index probe_size : Nat)
    (all_match_one : Bool) : List Nat :=
  if all_match_one then List.range' last_probe_index probe_size
  else (List.range size).map fun i => s.probe_indexs.getD i 0

/-- The left null-flag column after `probe_side_output_column` (`resize_fill(size, 0)`). -/
def probe_side_null_flags (cfg : Config) (s : ProbeState) (size : Nat) : List Bool :=
  if cfg.JoinOpType == TJoinOp.RIGHT_OUTER_JOIN && !cfg.with_other_conjuncts then
    resize s.tuple_is_null_left_flags size false
  else s.tuple_is_null_left_flags

/-- The assembly step of `do_process`: both output-column calls and the swap into the
output block. `last_probe_index` is the probe index on entry. -/
def assemble (cfg : Config) (last_probe_index : Nat) (s : ProbeState) : ProbeState × Block :=
  let build := build_side_output_column cfg s s.current_offset
  let s := { s with tuple_is_null_right_flags := build_side_null_flags cfg s s.current_offset }
  let write_probe :=
    cfg.with_other_conjuncts || (cfg.JoinOpType != TJoinOp.RIGHT_SEMI_JOIN &&
      cfg.JoinOpType != TJoinOp.RIGHT_ANTI_JOIN)
  let probe :=
    if write_probe then
      probe_side_output_column s s.current_offset last_probe_index s.probe_size s.all_match_one
    else []
  let s :=
    if write_probe then
      { s with tuple_is_null_left_flags := probe_side_null_flags cfg s s.current_offset }
    else s
  (s, ⟨probe, build, s.mark_column⟩)

/-- `*ptr |= b` on the per-row visited flag a `_visited_map` entry points to. -/
def or_visited (ht : HashTable) (ptr : Option (Nat × Nat)) (b : Bool) : HashTable :=
  match ptr with
  | none => ht
  | some (e, p) =>
    match ht.entries.get? e with
    | none => ht
    | some (k, m) =>
      match m.rows.get? p with
      | none => ht
      | some (r, v) =>
        { ht with entries := ht.entries.set e (k, { m with rows := m.rows.set p (r, v || b) }) }

/-- What the rewrite step of `do_other_join_conjuncts` works on: the new filter column,
`null_map_data`, the mark column `matched_map`, the visited flags and
`is_any_probe_match_row_output`. -/
structure ApplierState where
  filter_map : List Bool
  null_map_data : List Bool
  matched_map : List Bool
  hash_table : HashTable
  is_any_probe_match_row_output : Bool
  deriving DecidableEq, Repr

/-- `_process_splited_equal_matched_tuples(start_row_idx, row_count, ...)`. -/
def process_splited_equal_matched_tuples (visited_map : List (Option (Nat × Nat)))
    (other_hit_column : List Bool) (start_row_idx row_count : Nat) (a : ApplierState) :
    ApplierState :=
  let a := (List.range' start_row_idx row_count).foldl (fun a i =>
    let join_hit := (visited_map.getD i none).isSome
    let other_hit := other_hit_column.getD i false
    let a := { a with null_map_data := a.null_map_data.set i (!join_hit || !other_hit) }
    let a := { a with filter_map := a.filter_map.set i other_hit }
    if join_hit then
      { a with hash_table := or_visited a.hash_table (visited_map.getD i none) other_hit }
    else a) a
  { a with is_any_probe_match_row_output :=
      a.is_any_probe_match_row_output ||
        ((a.filter_map.drop start_row_idx).take row_count).contains true }

/-- One iteration of the middle-segment loop of the LEFT_OUTER / FULL_OUTER rewrite. -/
def left_outer_middle_step (visited_map : List (Option (Nat × Nat)))
    (same_to_prev filter_column : List Bool) (a : ApplierState) (i : Nat) : ApplierState :=
  let join_hit := (visited_map.getD i none).isSome
  let other_hit := filter_column.getD i false
  let a := { a with null_map_data := a.null_map_data.set i (!join_hit || !other_hit) }
  if join_hit then
    let a := { a with hash_table := or_visited a.hash_table (visited_map.getD i none) other_hit }
    let keep := other_hit || !same_to_prev.getD i false ||
      (!filter_column.getD i false && a.filter_map.getD (i - 1) false)
    let a := { a with filter_map := a.filter_map.set i keep }
    if same_to_prev.getD i false && a.filter_map.getD i false &&
        !filter_column.getD (i - 1) false then
      { a with filter_map := a.filter_map.set (i - 1) false }
    else a
  else { a with filter_map := a.filter_map.set i true }

/-- The prefix part of the LEFT_OUTER / FULL_OUTER rewrite: the tuples continuing the
probe row of the previous call (`_row_count_from_last_probe > 0`). -/
def left_outer_prefix (s : ProbeState) (filter_column : List Bool) (a : ApplierState) :
    ApplierState :=
  if s.row_count_from_last_probe > 0 then
    let a := process_splited_equal_matched_tuples s.visited_map filter_column 0
      s.row_count_from_last_probe a
    if s.is_the_last_sub_block && !a.is_any_probe_match_row_output then
      { a with filter_map := a.filter_map.set 0 true
               null_map_data := a.null_map_data.set 0 true }
    else a
  else a

/-- The middle-segment loop of the LEFT_OUTER / FULL_OUTER rewrite:
`for (int i = _row_count_from_last_probe; i < end_idx; ++i)`. -/
def left_outer_middle (s : ProbeState) (filter_column : List Bool) (row_count : Nat)
    (a : ApplierState) : ApplierState :=
  let end_idx := row_count - s.multi_matched_output_row_count
  (List.range' s.row_count_from_last_probe (end_idx - s.row_count_from_last_probe)).foldl
    (left_outer_middle_step s.visited_map s.same_to_prev filter_column) a

/-- The suffix part of the LEFT_OUTER / FULL_OUTER rewrite: the first sub-batch of a probe
row whose matches did not fit (`multi_matched_output_row_count > 0`). -/
def left_outer_suffix (s : ProbeState) (filter_column : List Bool) (row_count : Nat)
    (a : ApplierState) : ApplierState :=
  if s.multi_matched_output_row_count > 0 then
    let a := { a with is_any_probe_match_row_output := false }
    process_splited_equal_matched_tuples s.visited_map filter_column
      (row_count - s.multi_matched_output_row_count) s.multi_matched_output_row_count a
  else a

/-- The LEFT_OUTER / FULL_OUTER rewrite of `do_other_join_conjuncts` (prefix, middle
segment, suffix). The new filter column, created uninitialised in the source, starts as
zeros; every cell below `row_count` is written. -/
def left_outer_rewrite (s : ProbeState) (filter_column : List Bool) (row_count : Nat)
    (a : ApplierState) : ApplierState :=
  let a := { a with filter_map := List.replicate row_count false
                    null_map_data := List.replicate row_count false }
  let a := left_outer_prefix s filter_column a
  let a := left_outer_middle s filter_column row_count a
  left_outer_suffix s filter_column row_count a

/-- The mark-join loop shared in shape by LEFT_SEMI and the anti modes: at every group end
push the group's filter value (negated when `negate`) to `matched_map` and keep the row. -/
def mark_rewrite (same_to_prev : List Bool) (row_count : Nat) (negate : Bool) (last : Nat)
    (a : ApplierState) : ApplierState :=
  let a := (List.range' 1 (row_count - 1)).foldl (fun a i =>
    if !same_to_prev.getD i false then
      let a := { a with
        matched_map := a.matched_map ++ [xor negate (a.filter_map.getD (i - 1) false)] }
      { a with filter_map := a.filter_map.set (i - 1) true }
    else a) a
  let a := { a with matched_map := a.matched_map ++ [xor negate (a.filter_map.getD last false)] }
  { a with filter_map := a.filter_map.set last true }

/-- The LEFT_SEMI rewrite of `do_other_join_conjuncts`. -/
def left_semi_rewrite (s : ProbeState) (filter_column : List Bool) (row_count : Nat)
    (is_mark_join : Bool) (a : ApplierState) : ApplierState :=
  let rc := s.row_count_from_last_probe
  let init : Nat × List Bool :=
    if rc > 0 then
      if a.is_any_probe_match_row_output then
        let fm := List.replicate rc false
        (1 + rc, if rc < row_count then fm ++ [filter_column.getD rc false] else fm)
      else (1, [filter_column.getD 0 false])
    else (1, [filter_column.getD 0 false])
  let start_row_idx := init.1
  let fm := (List.range' start_row_idx (row_count - start_row_idx)).foldl (fun fm i =>
    if filter_column.getD i false || (s.same_to_prev.getD i false && fm.getD (i - 1) false) then
      let fm := fm ++ [true]
      fm.set (i - 1) (!s.same_to_prev.getD i false && fm.getD (i - 1) false)
    else fm ++ [false]) init.2
  let a := { a with filter_map := fm }
  let a :=
    if s.multi_matched_output_row_count > 0 then
      { a with is_any_probe_match_row_output := a.filter_map.getD (row_count - 1) false }
    else if rc > 0 && !a.is_any_probe_match_row_output then
      if a.filter_map.getD (rc - 1) false then
        { a with is_any_probe_match_row_output := true }
      else a
    else a
  if is_mark_join then
    mark_rewrite s.same_to_prev row_count false (a.filter_map.length - 1) a
  else a

/-- The sub-block bookkeeping and group-end inversion of the LEFT_ANTI /
NULL_AWARE_LEFT_ANTI rewrite without mark join. -/
def left_anti_invert (s : ProbeState) (row_count : Nat) (a : ApplierState) : ApplierState :=
  let rc := s.row_count_from_last_probe
  let multi := s.multi_matched_output_row_count
  let take_last (a : ApplierState) : ApplierState :=
    let a := { a with is_any_probe_match_row_output := a.filter_map.getD (row_count - 1) false }
    { a with filter_map := a.filter_map.set (row_count - 1) false }
  let r : Nat × ApplierState :=
    if rc > 0 then
      let a :=
        if !a.is_any_probe_match_row_output then
          let a :=
            if a.filter_map.getD (rc - 1) false then
              { a with is_any_probe_match_row_output := true
                       filter_map := a.filter_map.set (rc - 1) false }
            else a
          if s.is_the_last_sub_block && !a.is_any_probe_match_row_output then
            { a with filter_map := a.filter_map.set 0 true }
          else a
        else a
      (row_count - multi, if multi > 0 then take_last a else a)
    else if multi > 0 then (row_count - multi, take_last a)
    else (row_count, a)
  let end_row_idx := r.1
  let a := r.2
  let a := (List.range' (1 + rc) (end_row_idx - (1 + rc))).foldl (fun a i =>
    if !s.same_to_prev.getD i false then
      { a with filter_map := a.filter_map.set (i - 1) (!a.filter_map.getD (i - 1) false) }
    else a) a
  let non_sub_blocks_matched_row_count := row_count - rc - multi
  if non_sub_blocks_matched_row_count > 0 then
    { a with filter_map :=
        a.filter_map.set (end_row_idx - 1) (!a.filter_map.getD (end_row_idx - 1) false) }
  else a

/-- The LEFT_ANTI / NULL_AWARE_LEFT_ANTI rewrite of `do_other_join_conjuncts`. The new
filter column, created uninitialised in the source, starts as zeros; every cell below
`row_count` is written. -/
def left_anti_rewrite (s : ProbeState) (filter_column : List Bool) (row_count : Nat)
    (is_mark_join : Bool) (a : ApplierState) : ApplierState :=
  let rc := s.row_count_from_last_probe
  let hit (i : Nat) : Bool := filter_column.getD i false && (s.visited_map.getD i none).isSome
  let fm0 := List.replicate row_count false
  let init : Nat × List Bool :=
    if rc > 0 && a.is_any_probe_match_row_output then
      (1 + rc, if rc < row_count then fm0.set rc (hit rc) else fm0)
    else (1, fm0.set 0 (hit 0))
  let start_row_idx := init.1
  let fm := (List.range' start_row_idx (row_count - start_row_idx)).foldl (fun fm i =>
    if ((s.visited_map.getD i none).isSome && filter_column.getD i false) ||
        (s.same_to_prev.getD i false && fm.getD (i - 1) false) then
      let fm := fm.set i true
      fm.set (i - 1) (!s.same_to_prev.getD i false && fm.getD (i - 1) false)
    else fm.set i false) init.2
  let a := { a with filter_map := fm }
  if is_mark_join then mark_rewrite s.same_to_prev row_count true (row_count - 1) a
  else left_anti_invert s row_count a

/-- The visited-flag loop of the RIGHT_SEMI / RIGHT_ANTI / RIGHT_OUTER rewrite:
`*_visited_map[i] |= filter_column_ptr[i]` for every row. -/
def right_visited_rewrite (s : ProbeState) (filter_column : List Bool) (row_count : Nat)
    (ht : HashTable) : HashTable :=
  (List.range row_count).foldl (fun ht i =>
    or_visited ht (s.visited_map.getD i none) (filter_column.getD i false)) ht

/-- Modelled from the spec: `Block::filter_block` applied to one column, which is not in
this file (§4.4 step 3, "Apply `filter_map` to the block"): the rows whose filter cell is
set are kept, in order. -/
def filter_block {α : Type} (filter : List Bool) (col : List α) : List α :=
  ((col.zip filter).filter fun p => p.2).map fun p => p.1

/-- `do_other_join_conjuncts`. The conjuncts are evaluated on every row of the assembled
block; the filter column is rewritten per join mode; the block is compacted. The trailing
mark column, which the mark-join rewrite fills with one value per kept row, stays as
it is under the compaction (§4.4, "so the mark column survives"). -/
def do_other_join_conjuncts (cfg : Config) (conj : OtherConjuncts) (s : ProbeState)
    (output_block : Block) : ProbeState × Block :=
  let row_count := output_block.rows
  if row_count == 0 then (s, output_block)
  else
    let filter_column_ptr := (List.range row_count).map fun i =>
      conj (output_block.probe.getD i 0) (output_block.build.getD i ⟨0, 0⟩)
    let a0 : ApplierState :=
      ⟨filter_column_ptr, [], output_block.mark, s.hash_table, s.is_any_probe_match_row_output⟩
    let op := cfg.JoinOpType
    if op == TJoinOp.LEFT_OUTER_JOIN || op == TJoinOp.FULL_OUTER_JOIN then
      let a := left_outer_rewrite s filter_column_ptr row_count a0
      let s := { s with
        hash_table := a.hash_table
        is_any_probe_match_row_output := a.is_any_probe_match_row_output
        tuple_is_null_right_flags :=
          s.tuple_is_null_right_flags ++ filter_block a.filter_map a.null_map_data }
      (s, ⟨filter_block a.filter_map output_block.probe,
           filter_block a.filter_map output_block.build, output_block.mark⟩)
    else if op == TJoinOp.LEFT_SEMI_JOIN || op == TJoinOp.LEFT_ANTI_JOIN ||
        op == TJoinOp.NULL_AWARE_LEFT_ANTI_JOIN then
      let a :=
        if op == TJoinOp.LEFT_SEMI_JOIN then
          left_semi_rewrite s filter_column_ptr row_count cfg.is_mark_join a0
        else left_anti_rewrite s filter_column_ptr row_count cfg.is_mark_join a0
      let s := { s with is_any_probe_match_row_output := a.is_any_probe_match_row_output }
      (s, ⟨filter_block a.filter_map output_block.probe,
           if cfg.is_mark_join then filter_block a.filter_map output_block.build else [],
           a.matched_map⟩)
    else if op == TJoinOp.RIGHT_SEMI_JOIN || op == TJoinOp.RIGHT_ANTI_JOIN then
      ({ s with hash_table := right_visited_rewrite s filter_column_ptr row_count s.hash_table },
        ⟨[], [], []⟩)
    else if op == TJoinOp.RIGHT_OUTER_JOIN then
      let filter_size := (filter_column_ptr.map Bool.toNat).sum
      let s := { s with
        hash_table := right_visited_rewrite s filter_column_ptr row_count s.hash_table
        tuple_is_null_left_flags := resize s.tuple_is_null_left_flags filter_size false }
      (s, ⟨filter_block filter_column_ptr output_block.probe,
           filter_block filter_column_ptr output_block.build, output_block.mark⟩)
    else
      (s, ⟨filter_block filter_column_ptr output_block.probe,
           filter_block filter_column_ptr output_block.build, output_block.mark⟩)

/-- `do_process` on a run in which no call out of this file fails: probe loop, output
assembly and, with other conjuncts, the applier. The error returns of the source
(`RETURN_IF_CATCH_EXCEPTION` around `probe_side_output_column`, `RETURN_IF_ERROR` on the
evaluator) are in `do_process_fallible`, which is this function when nothing fails. -/
def do_process (cfg : Config) (conj : OtherConjuncts) (probe : ProbeBatch)
    (probe_rows : Nat) (s : ProbeState) : Status × ProbeState × Block :=
  let last_probe_index := s.probe_index
  let s := do_probe cfg probe probe_rows s
  let (s, output_block) := assemble cfg last_probe_index s
  if cfg.with_other_conjuncts then
    let (s, output_block) := do_other_join_conjuncts cfg conj s output_block
    (Status.OK, s, output_block)
  else (Status.OK, s, output_block)

/-- `process`: other conjuncts need the per-row-flags row list; otherwise `do_process` is
instantiated with the two runtime flags. `cfg.with_other_conjuncts` is the argument
`have_other_join_conjunct`. On `InvalidArgument` nothing is run and the output block is the
one handed in. -/
def process (cfg : Config) (conj : OtherConjuncts) (probe : ProbeBatch) (probe_rows : Nat)
    (s : ProbeState) (output_block : Block) : Status × ProbeState × Block :=
  if s.hash_table.kind != RowRefKind.RowRefListWithFlags then
    if cfg.with_other_conjuncts then (Status.InvalidArgument, s, output_block)
    else do_process { cfg with with_other_conjuncts := false } conj probe probe_rows s
  else do_process cfg conj probe probe_rows s

/-- Modelled from the spec: the errors of the calls whose code is not in this file (section
7, "Error kinds surfaced"): the other-conjunct evaluator failed (`ExpressionEvaluation`), an
arena or column operation ran out of memory (`MemoryLimit`) or was cancelled
(`Cancelled`). -/
inductive ExternalError
  | ExpressionEvaluation
  | MemoryLimit
  | Cancelled
  deriving DecidableEq, Repr

/-- The `Status` an error of a call out of this file is surfaced as ("propagated
verbatim"). -/
def ExternalError.status : ExternalError → Status
  | ExternalError.ExpressionEvaluation => Status.ExpressionEvaluation
  | ExternalError.MemoryLimit => Status.MemoryLimit
  | ExternalError.Cancelled => Status.Cancelled

/-- Modelled from the spec: how the two calls of `do_process` that can fail end (section 7).
`column_error` is the exception thrown by the column operations of
`probe_side_output_column`, which runs under `RETURN_IF_CATCH_EXCEPTION`; `conjunct_error`
is the error `VExprContext::execute_conjuncts` returns on the block it is given, which
`do_other_join_conjuncts` hands back through `RETURN_IF_ERROR`. `none`: the call
succeeds. -/
structure ExternalCalls where
  column_error : Option ExternalError
  conjunct_error : Block → Option ExternalError

/-- `do_other_join_conjuncts` with its `Status`: `OK` at once for an empty block; the error
of the evaluator, returned before the filter column is rewritten and the block compacted;
`OK` after the rewrite and the compaction otherwise. -/
def do_other_join_conjuncts_fallible (ext : ExternalCalls) (cfg : Config)
    (conj : OtherConjuncts) (s : ProbeState) (output_block : Block) :
    Status × ProbeState × Block :=
  if output_block.rows == 0 then (Status.OK, s, output_block)
  else
    match ext.conjunct_error output_block with
    | some e => (e.status, s, output_block)
    | none =>
      let (s, output_block) := do_other_join_conjuncts cfg conj s output_block
      (Status.OK, s, output_block)

/-- `do_process` with its `Status`. An exception of `probe_side_output_column` is returned
before the swap: the output block is still the one handed in, and the engine state is what
the probe loop and `build_side_output_column` left (the left null-flag column, resized last
in `probe_side_output_column`, is not). With other conjuncts the status is the one of
`do_other_join_conjuncts`. What a failing call leaves half-written in the columns is not
modelled. -/
def do_process_fallible (ext : ExternalCalls) (cfg : Config) (conj : OtherConjuncts)
    (probe : ProbeBatch) (probe_rows : Nat) (s : ProbeState) (output_block : Block) :
    Status × ProbeState × Block :=
  let last_probe_index := s.probe_index
  let s := do_probe cfg probe probe_rows s
  let write_probe :=
    cfg.with_other_conjuncts || (cfg.JoinOpType != TJoinOp.RIGHT_SEMI_JOIN &&
      cfg.JoinOpType != TJoinOp.RIGHT_ANTI_JOIN)
  match (if write_probe then ext.column_error else none) with
  | some e =>
    (e.status,
      { s with tuple_is_null_right_flags := build_side_null_flags cfg s s.current_offset },
      output_block)
  | none =>
    let (s, output_block) := assemble cfg last_probe_index s
    if cfg.with_other_conjuncts then
      do_other_join_conjuncts_fallible ext cfg conj s output_block
    else (Status.OK, s, output_block)

/-- `process` with its `Status`: `InvalidArgument`, with nothing run, for other conjuncts on
a row list without per-row flags; the status of `do_process` otherwise. -/
def process_fallible (ext : ExternalCalls) (cfg : Config) (conj : OtherConjuncts)
    (probe : ProbeBatch) (probe_rows : Nat) (s : ProbeState) (output_block : Block) :
    Status × ProbeState × Block :=
  if s.hash_table.kind != RowRefKind.RowRefListWithFlags then
    if cfg.with_other_conjuncts then (Status.InvalidArgument, s, output_block)
    else
      do_process_fallible ext { cfg with with_other_conjuncts := false } conj probe probe_rows s
        output_block
  else do_process_fallible ext cfg conj probe probe_rows s output_block

/-- Both calls fail: a column operation with `MemoryLimit`, the evaluator with
`ExpressionEvaluation`. -/
def ExternalCalls.fail : ExternalCalls :=
  ⟨some ExternalError.MemoryLimit, fun _ => some ExternalError.ExpressionEvaluation⟩

/-- What one loop iteration does to the counters, in every mode: `s` before, `s'` after. -/
def StepSummary (cfg : Config) (s s' : ProbeState) : Prop :=
  s.current_offset ≤ s'.current_offset ∧
  s'.probe_indexs =
    s.probe_indexs ++ List.replicate (s'.current_offset - s.current_offset) s.probe_index ∧
  s'.probe_index + s'.probe_row_match_iter.ok.toNat = s.probe_index + 1 ∧
  (s'.probe_row_match_iter.ok = true → cfg.batch_size ≤ s'.current_offset) ∧
  (¬(cfg.is_mark_join = true ∧ cfg.with_other_conjuncts = true) →
    s'.current_offset ≤ cfg.batch_size) ∧
  s'.all_match_one = (s.all_match_one && (s'.current_offset == s.current_offset + 1))

/-- The invariant of the probe loop that holds in every mode; `p0` is `last_probe_index`. -/
def LoopInv (cfg : Config) (p0 : Nat) (s : ProbeState) : Prop :=
  s.probe_indexs.length = s.current_offset ∧
  (s.probe_row_match_iter.ok = true → cfg.batch_size ≤ s.current_offset) ∧
  (¬(cfg.is_mark_join = true ∧ cfg.with_other_conjuncts = true) →
    s.current_offset ≤ cfg.batch_size) ∧
  (s.all_match_one = true →
    s.probe_index + s.probe_row_match_iter.ok.toNat = p0 + s.current_offset ∧
    s.probe_indexs = List.range' p0 s.current_offset) ∧
  p0 ≤ s.probe_index

/-- The engine state at the start of a probe batch: nothing probed, no suspended iterator,
empty scratch vectors and null-flag columns. -/
def ProbeState.fresh (ht : HashTable) : ProbeState :=
  { probe_index := 0
    probe_row_match_iter := ForwardIterator.empty
    is_any_probe_match_row_output := false
    tuple_is_null_left_flags := []
    tuple_is_null_right_flags := []
    current_offset := 0
    all_match_one := true
    probe_size := 0
    multi_matched_output_row_count := 0
    is_the_last_sub_block := false
    row_count_from_last_probe := 0
    build_block_offsets := []
    build_block_rows := []
    probe_indexs := []
    visited_map := []
    same_to_prev := []
    mark_column := []
    hash_table := ht }

/-- An empty output block. -/
def Block.empty : Block := ⟨[], [], []⟩

/-- A hash table with the single key `key`, stored with the `n` build rows
`(0,0), ..., (0,n-1)`, all flags clear. -/
def single_key_table (kind : RowRefKind) (key : Int) (n : Nat) : HashTable :=
  ⟨kind, [(key, ⟨(List.range n).map fun i => (⟨0, i⟩, false), false⟩)]⟩

/-- Every row list of the table is non-empty. -/
def rows_nonempty (ht : HashTable) : Prop :=
  ∀ e ∈ ht.entries, e.2.rows ≠ []

instance (ht : HashTable) : Decidable (rows_nonempty ht) := by
  unfold rows_nonempty; infer_instance

/-- The keys and row coordinates of the table, without the visited flags: the part of the
hash table that probing never changes. -/
def skeleton (entries : List (Int × Mapped)) : List (Int × List RowRef) :=
  entries.map fun e => (e.1, e.2.rows.map Prod.fst)

/-- The coordinates of the row list stored at index `entry`. -/
def entry_rows (entries : List (Int × Mapped)) (entry : Nat) : List RowRef :=
  (entries.getD entry (0, ⟨[], false⟩)).2.rows.map Prod.fst

/-- The tuples (probe row, build coordinate) probe row `i` contributes in the modes that
expand row lists (INNER, LEFT_OUTER, RIGHT_OUTER, FULL_OUTER) without other conjuncts: the
row list of its key when found, one `(-1,-1)` padding tuple for LEFT_OUTER / FULL_OUTER when
the key is null or not found, nothing otherwise. -/
def row_tuples (cfg : Config) (probe : ProbeBatch) (entries : List (Int × Mapped))
    (i : Nat) : List (Nat × RowRef) :=
  if is_ignored_null cfg probe i then
    if probe_all cfg.JoinOpType then [(i, ⟨-1, -1⟩)] else []
  else
    match find_result cfg probe entries i with
    | some e => (entry_rows entries e).map fun r => (i, r)
    | none => if probe_all cfg.JoinOpType then [(i, ⟨-1, -1⟩)] else []

/-- The tuples still to be emitted from state `s` for the probe rows below `probe_rows`:
the rest of the suspended row list, then the contributions of the probe rows not yet
examined. -/
def remaining (cfg : Config) (probe : ProbeBatch) (entries : List (Int × Mapped))
    (probe_rows : Nat) (s : ProbeState) : List (Nat × RowRef) :=
  (s.probe_row_match_iter.rest.map fun r => (s.probe_index, r)) ++
    (List.range' (s.probe_index + s.probe_row_match_iter.ok.toNat)
      (probe_rows - (s.probe_index + s.probe_row_match_iter.ok.toNat))).flatMap
      (row_tuples cfg probe entries)

/-- The tuples held in the scratch vectors: probe index and build coordinate. -/
def scratch_tuples (s : ProbeState) : List (Nat × RowRef) :=
  List.zip s.probe_indexs (List.zipWith RowRef.mk s.build_block_offsets s.build_block_rows)

/-- The rows of a block as tuples (probe row, build coordinate). -/
def Block.tuples (b : Block) : List (Nat × RowRef) := List.zip b.probe b.build

/-- INNER, LEFT_OUTER, RIGHT_OUTER, FULL_OUTER: the modes whose probe loop expands row
lists when there are no other conjuncts. -/
def expands_rows (op : TJoinOp) : Bool :=
  !is_left_semi_anti op && !is_right_semi_anti_join op

/-- The invariant of the probe loop in the row-expanding modes without other conjuncts:
the tuples emitted so far followed by those still to come are the fixed list `T`. -/
def EmitInv (cfg : Config) (probe : ProbeBatch) (entries : List (Int × Mapped))
    (probe_rows : Nat) (T : List (Nat × RowRef)) (s : ProbeState) : Prop :=
  skeleton s.hash_table.entries = skeleton entries ∧
  s.build_block_offsets.length = s.current_offset ∧
  s.build_block_rows.length = s.current_offset ∧
  scratch_tuples s ++ remaining cfg probe entries probe_rows s = T

/-- The caller's test that a probe batch is finished: `probe_index == probe_rows` and no
iterator is suspended. -/
def batch_exhausted (probe_rows : Nat) (s : ProbeState) : Bool :=
  s.probe_index == probe_rows && !s.probe_row_match_iter.ok

/-- Calling `process` repeatedly on one probe batch until the batch is exhausted, at most
`fuel` times: the output blocks in call order and the final state. Every call gets an empty
output block. -/
def process_until_exhausted (cfg : Config) (conj : OtherConjuncts) (probe : ProbeBatch)
    (probe_rows : Nat) : Nat → ProbeState → List Block × ProbeState
  | 0, s => ([], s)
  | fuel + 1, s =>
    if batch_exhausted probe_rows s then ([], s)
    else
      let r := process cfg conj probe probe_rows s Block.empty
      let rest := process_until_exhausted cfg conj probe probe_rows fuel r.2.1
      (r.2.2 :: rest.1, rest.2)

/-- The tuples of a sequence of output blocks, concatenated in call order. -/
def concat_tuples (blocks : List Block) : List (Nat × RowRef) :=
  blocks.flatMap Block.tuples

/-- The relational specification of the INNER join on one probe batch, in the words of the
specification: for the probe rows `0 .. probe_rows - 1` in order, the row list of the probe
row's key in row-list order, and nothing for a null or absent key. -/
def inner_join_spec (ht : HashTable) (probe : ProbeBatch) (need_null_map_for_probe : Bool)
    (probe_rows : Nat) : List (Nat × RowRef) :=
  (List.range probe_rows).flatMap fun i =>
    if need_null_map_for_probe && probe.null_map.getD i false then []
    else
      match find_key ht.entries (probe.keys.getD i 0) with
      | none => []
      | some e => (entry_rows ht.entries e).map fun r => (i, r)

/-- The contribution of probe row `i` to a LEFT_OUTER / FULL_OUTER join without other
conjuncts, in the words of the specification: the build rows of its key's row list when the
key is non-null and found, one tuple with build coordinate `(-1,-1)` when the key is null or
not found. -/
def left_outer_row_spec (ht : HashTable) (probe : ProbeBatch)
    (need_null_map_for_probe : Bool) (i : Nat) : List (Nat × RowRef) :=
  if need_null_map_for_probe && probe.null_map.getD i false then [(i, ⟨-1, -1⟩)]
  else
    match find_key ht.entries (probe.keys.getD i 0) with
    | none => [(i, ⟨-1, -1⟩)]
    | some e => (entry_rows ht.entries e).map fun r => (i, r)

/-- The output blocks of `n` successive `process` calls on one probe batch, whether or not
the batch is exhausted on the way. -/
def process_calls (cfg : Config) (conj : OtherConjuncts) (probe : ProbeBatch)
    (probe_rows : Nat) : Nat → ProbeState → List Block
  | 0, _ => []
  | n + 1, s =>
    let r := process cfg conj probe probe_rows s Block.empty
    r.2.2 :: process_calls cfg conj probe probe_rows n r.2.1

/-- `found` for probe row `i` in the semi/anti arm: the key is not null and the table holds
it (`find_result.is_found()`). -/
def is_found (cfg : Config) (probe : ProbeBatch) (entries : List (Int × Mapped))
    (i : Nat) : Bool :=
  (find_result cfg probe entries i).isSome

/-- `want = ((mode == LEFT_SEMI) == found)` for probe row `i`. -/
def want (cfg : Config) (probe : ProbeBatch) (entries : List (Int × Mapped))
    (i : Nat) : Bool :=
  (cfg.JoinOpType == TJoinOp.LEFT_SEMI_JOIN) == is_found cfg probe entries i

/-- The invariant of the probe loop in the semi/anti arm without other conjuncts, `p0` being
the probe index and `ht` the hash table on entry: the table and the (empty) iterator are
untouched, and the scratch probe indices and the mark column list the rows examined so far:
those with `want` without mark join, all of them (with `want` as mark) with mark join. -/
def SemiInv (cfg : Config) (probe : ProbeBatch) (p0 : Nat) (ht : HashTable)
    (s : ProbeState) : Prop :=
  s.hash_table = ht ∧ s.probe_row_match_iter.ok = false ∧ p0 ≤ s.probe_index ∧
  (cfg.is_mark_join = false →
    s.probe_indexs =
      (List.range' p0 (s.probe_index - p0)).filter (want cfg probe ht.entries) ∧
    s.mark_column = []) ∧
  (cfg.is_mark_join = true →
    s.probe_indexs = List.range' p0 (s.probe_index - p0) ∧
    s.mark_column = (List.range' p0 (s.probe_index - p0)).map (want cfg probe ht.entries))

/-- What one loop iteration does to the scratch vectors and to the fields it leaves alone,
in every mode: the vectors only grow, the grouping bits appended (if any) start with
`false`, the sub-block bookkeeping, the null-flag columns and (unless the key-level
flag is in use) the hash table are untouched, and `multi_matched_output_row_count`, when it
is assigned, counts tuples emitted by this iteration. -/
def StepExt (s s' : ProbeState) : Prop :=
  (∃ A, s'.build_block_offsets = s.build_block_offsets ++ A) ∧
  (∃ B, s'.build_block_rows = s.build_block_rows ++ B) ∧
  (∃ V, s'.visited_map = s.visited_map ++ V) ∧
  (∃ Y, s'.same_to_prev = s.same_to_prev ++ Y ∧ Y.head?.getD false = false) ∧
  s'.row_count_from_last_probe = s.row_count_from_last_probe ∧
  s'.is_the_last_sub_block = s.is_the_last_sub_block ∧
  s'.is_any_probe_match_row_output = s.is_any_probe_match_row_output ∧
  s'.tuple_is_null_right_flags = s.tuple_is_null_right_flags ∧
  s'.tuple_is_null_left_flags = s.tuple_is_null_left_flags ∧
  (s.hash_table.kind ≠ RowRefKind.RowRefListWithFlag → s'.hash_table = s.hash_table) ∧
  s'.hash_table.kind = s.hash_table.kind ∧
  s.current_offset ≤ s'.current_offset ∧
  (s'.multi_matched_output_row_count = s.multi_matched_output_row_count ∨
    s'.multi_matched_output_row_count + s.current_offset ≤ s'.current_offset)

/-- With other conjuncts every tuple has its build coordinate and its `_visited_map` entry:
the three vectors are as long as `current_offset`. -/
def ScratchLen (s : ProbeState) : Prop :=
  s.build_block_offsets.length = s.current_offset ∧
  s.build_block_rows.length = s.current_offset ∧
  s.visited_map.length = s.current_offset

/-- The shape of the scratch vectors when there are other conjuncts and no mark column.
Either no probe row is split by this call (and once the iterator is exhausted every tuple
belongs to a probe row before `probe_index`), or the call ends inside the row list of
`probe_index`: the last `multi_matched_output_row_count` tuples are the first tuples of that
list, and the iterator stands right after them. -/
def SplitInv (cfg : Config) (probe : ProbeBatch) (s : ProbeState) : Prop :=
  (s.multi_matched_output_row_count = 0 ∧
    (s.probe_row_match_iter.ok = false → ∀ x ∈ s.probe_indexs, x < s.probe_index)) ∨
  (0 < s.multi_matched_output_row_count ∧
    ∃ (e : Nat) (X : List Nat) (A B : List Int) (V : List (Option (Nat × Nat))),
      find_result cfg probe s.hash_table.entries s.probe_index = some e ∧
      s.probe_row_match_iter = ⟨e, s.multi_matched_output_row_count,
        (entry_rows s.hash_table.entries e).drop s.multi_matched_output_row_count⟩ ∧
      s.multi_matched_output_row_count < (entry_rows s.hash_table.entries e).length ∧
      s.probe_indexs = X ++ List.replicate s.multi_matched_output_row_count s.probe_index ∧
      (∀ x ∈ X, x < s.probe_index) ∧
      s.build_block_offsets = A ++ ((entry_rows s.hash_table.entries e).take
        s.multi_matched_output_row_count).map RowRef.block_offset ∧
      s.build_block_rows = B ++ ((entry_rows s.hash_table.entries e).take
        s.multi_matched_output_row_count).map RowRef.row_num ∧
      s.visited_map = V ++ (List.range' 0 s.multi_matched_output_row_count).map
        (fun p => some (e, p)))

/-- The rows one `process` call added to the output, each with the right null flag the call
appended for it to `_tuple_is_null_right_flags`: (probe row, build coordinate, null flag).
`before` is the state the call started from. -/
def tagged_output (before : ProbeState) (r : Status × ProbeState × Block) :
    List (Nat × RowRef × Bool) :=
  List.zip r.2.2.probe (List.zip r.2.2.build
    (r.2.1.tuple_is_null_right_flags.drop before.tuple_is_null_right_flags.length))

/-- Calling `process` again and again while probe row `p` is suspended (the probe index
stands at `p` and the iterator is non-empty), at most `fuel` times: the tagged rows of every
call in call order, and the final state. Every call gets an empty output block. -/
def process_while_row (cfg : Config) (conj : OtherConjuncts) (probe : ProbeBatch)
    (probe_rows : Nat) (p : Nat) : Nat → ProbeState → List (List (Nat × RowRef × Bool)) × ProbeState
  | 0, s => ([], s)
  | fuel + 1, s =>
    if s.probe_index == p && s.probe_row_match_iter.ok then
      let r := process cfg conj probe probe_rows s Block.empty
      let rest := process_while_row cfg conj probe probe_rows p fuel r.2.1
      (tagged_output s r :: rest.1, rest.2)
    else ([], s)

/-- A call that leaves a probe row split, followed by the calls that finish that probe row:
the tagged rows emitted for that probe row over all these calls, in order, and the state
after the last of them. -/
def process_split_row (cfg : Config) (conj : OtherConjuncts) (probe : ProbeBatch)
    (probe_rows : Nat) (s : ProbeState) (fuel : Nat) :
    List (Nat × RowRef × Bool) × ProbeState :=
  let r1 := process cfg conj probe probe_rows s Block.empty
  let later := process_while_row cfg conj probe probe_rows r1.2.1.probe_index fuel r1.2.1
  ((tagged_output s r1 ++ later.1.flatten).filter (fun x => x.1 == r1.2.1.probe_index), later.2)

/-- The grouping bits after the probe loop with other conjuncts: one bit per tuple, the
first bit clear, and no more groups (clear bits) than tuples or than `batch_size`. -/
def GroupInv (cfg : Config) (s : ProbeState) : Prop :=
  s.same_to_prev.length = s.current_offset ∧
  s.same_to_prev.count false ≤ s.current_offset ∧
  s.same_to_prev.count false ≤ cfg.batch_size ∧
  s.same_to_prev.head?.getD false = false

/-- Every cell of `filter_map` below `m` that is not the last of its group is clear. -/
def OnlyLast (same_to_prev filter_map : List Bool) (m : Nat) : Prop :=
  ∀ j, j + 1 < m → same_to_prev.getD (j + 1) false = true → filter_map.getD j false = false

/-- What `process_data_in_hashtable` keeps between calls: `hash_table_ctx.inited` and
`hash_table_ctx.iter` (the index of the current entry; `end()` is the number of entries),
the per-key iterator `_outer_join_pull_visited_iter` (the rows it still has to visit, each
with its own `visited` flag; `ok()` is "non-empty") and the left null-flag column. -/
structure DrainState where
  inited : Bool
  iter : Nat
  visited_iter : List (RowRef × Bool)
  tuple_is_null_left_flags : List Bool
  deriving DecidableEq, Repr

/-- What one `process_data_in_hashtable` call returns: the status, the state, the
registered locations `_build_blocks_locs` (after `resize(block_size)`, before the sort), the
gathers issued by `insert_build_rows` as (block offset, row numbers), and `*eos`. -/
structure DrainResult where
  status : Status
  state : DrainState
  locs : List RowRef
  gathers : List (Int × List Int)
  eos : Bool
  deriving DecidableEq, Repr

/-- Modelled from the spec: `hash_table_ctx.init_once()`, which is not in this file (§4.6,
"Walk the hash table once (`init_once` idempotence)"): the first call puts the table
iterator at `begin()`, later calls change nothing. -/
def init_once (st : DrainState) : DrainState :=
  if st.inited then st else { st with inited := true, iter := 0 }

/-- The row loops of `process_data_in_hashtable`:
`for (; visited_iter.ok() && block_size < _batch_size; ++visited_iter)`. With the key-level
flag (`per_row = false`) every row is registered; with per-row flags a row is registered
when its own `visited` flag equals `wanted` (true for RIGHT_SEMI, false otherwise).
`block_size` is `locs.length`. -/
def drain_rows (batch_size : Nat) (per_row wanted : Bool) :
    List (RowRef × Bool) → List RowRef → List (RowRef × Bool) × List RowRef
  | [], locs => ([], locs)
  | (r, v) :: rest, locs =>
    if locs.length < batch_size then
      drain_rows batch_size per_row wanted rest
        (if !per_row || v == wanted then locs ++ [r] else locs)
    else ((r, v) :: rest, locs)

/-- The table loop `for (; iter != hash_table.end() && block_size < _batch_size; ++iter)`,
on the entries from `iter` on. A `break` leaves `iter` on the entry whose row list was
cut. -/
def drain_table (kind : RowRefKind) (batch_size : Nat) (wanted : Bool) :
    List (Int × Mapped) → Nat → List (RowRef × Bool) → List RowRef →
    Nat × List (RowRef × Bool) × List RowRef
  | [], iter, visited_iter, locs => (iter, visited_iter, locs)
  | e :: es, iter, visited_iter, locs =>
    if locs.length < batch_size then
      if kind == RowRefKind.RowRefListWithFlag then
        if e.2.visited == wanted then
          let r := drain_rows batch_size false wanted e.2.rows locs
          if !r.1.isEmpty then (iter, r.1, r.2)
          else drain_table kind batch_size wanted es (iter + 1) r.1 r.2
        else drain_table kind batch_size wanted es (iter + 1) visited_iter locs
      else
        let r := drain_rows batch_size true wanted e.2.rows locs
        if !r.1.isEmpty then (iter, r.1, r.2)
        else drain_table kind batch_size wanted es (iter + 1) r.1 r.2
    else (iter, visited_iter, locs)

/-- Modelled from the spec: `std::sort` with the comparator `a.first > b.first`, which is not
in this file (§4.6, "Sort accumulated tuples by `block_offset`"): the locations in
descending block offset; ties keep their order here. -/
def sort_locs (locs : List RowRef) : List RowRef :=
  locs.insertionSort (fun a b => b.block_offset ≤ a.block_offset)

/-- The grouping loop over the sorted locations (`while (start < _build_blocks_locs.size())`):
one gather per maximal run of equal block offset. -/
def gather_runs : Nat → List RowRef → List (Int × List Int)
  | 0, _ => []
  | _ + 1, [] => []
  | fuel + 1, x :: xs =>
    (x.block_offset,
      ((x :: xs).takeWhile (fun y => x.block_offset == y.block_offset)).map RowRef.row_num) ::
    gather_runs fuel ((x :: xs).dropWhile (fun y => x.block_offset == y.block_offset))

/-- `process_data_in_hashtable` for a table with `build_blocks` build blocks. The plain
row list is refused. -/
def process_data_in_hashtable (cfg : Config) (build_blocks : Nat) (ht : HashTable)
    (st : DrainState) : DrainResult :=
  if ht.kind == RowRefKind.RowRefList then
    ⟨Status.InvalidArgument, st, [], [], false⟩
  else
    let st := init_once st
    let wanted := cfg.JoinOpType == TJoinOp.RIGHT_SEMI_JOIN
    let per_row := ht.kind != RowRefKind.RowRefListWithFlag
    let resumed : Nat × List (RowRef × Bool) × List RowRef :=
      if !st.visited_iter.isEmpty then
        let r := drain_rows cfg.batch_size per_row wanted st.visited_iter []
        (if r.1.isEmpty then st.iter + 1 else st.iter, r.1, r.2)
      else (st.iter, st.visited_iter, [])
    let t := drain_table ht.kind cfg.batch_size wanted (ht.entries.drop resumed.1)
      resumed.1 resumed.2.1 resumed.2.2
    let locs := t.2.2
    let gathers : List (Int × List Int) :=
      if build_blocks > 1 then gather_runs locs.length (sort_locs locs)
      else if build_blocks == 1 then [(0, locs.map RowRef.row_num)]
      else []
    let flags :=
      if cfg.JoinOpType == TJoinOp.RIGHT_OUTER_JOIN ||
          cfg.JoinOpType == TJoinOp.FULL_OUTER_JOIN then
        resize st.tuple_is_null_left_flags locs.length true
      else st.tuple_is_null_left_flags
    ⟨Status.OK,
      { st with iter := t.1, visited_iter := t.2.1, tuple_is_null_left_flags := flags },
      locs, gathers, t.1 == ht.entries.length⟩

/-- The state before the first drain call: the table iterator not yet initialised, no
suspended per-key iterator. -/
def DrainState.fresh : DrainState := ⟨false, 0, [], []⟩

/-- Calling `process_data_in_hashtable` until it reports eos, at most `fuel` times: the
registered locations of every call in call order, and whether eos was reported. -/
def drain_until_eos (cfg : Config) (build_blocks : Nat) (ht : HashTable) :
    Nat → DrainState → List (List RowRef) × Bool
  | 0, _ => ([], false)
  | fuel + 1, st =>
    let r := process_data_in_hashtable cfg build_blocks ht st
    if r.eos then ([r.locs], true)
    else
      let rest := drain_until_eos cfg build_blocks ht fuel r.state
      (r.locs :: rest.1, rest.2)

/-- The rows of a row list the drain registers: all of them with the key-level flag, those
whose own flag equals `wanted` with per-row flags. -/
def qual_rows (per_row wanted : Bool) (rows : List (RowRef × Bool)) : List RowRef :=
  (rows.filter fun r => !per_row || r.2 == wanted).map Prod.fst

/-- The rows of one table entry the drain has to register. -/
def qual_entry (kind : RowRefKind) (wanted : Bool) (e : Int × Mapped) : List RowRef :=
  if kind == RowRefKind.RowRefListWithFlag then
    if e.2.visited == wanted then qual_rows false wanted e.2.rows else []
  else qual_rows true wanted e.2.rows

/-- The locations the drain still has to register from state `st`: what is left of the
suspended row list, then the entries after it. -/
def drain_remaining (cfg : Config) (ht : HashTable) (st : DrainState) : List RowRef :=
  qual_rows (ht.kind != RowRefKind.RowRefListWithFlag)
    (cfg.JoinOpType == TJoinOp.RIGHT_SEMI_JOIN) st.visited_iter ++
  (ht.entries.drop (if st.visited_iter.isEmpty then st.iter else st.iter + 1)).flatMap
    (qual_entry ht.kind (cfg.JoinOpType == TJoinOp.RIGHT_SEMI_JOIN))

/-- The states the drain moves through: the table iterator initialised and within the
table, and strictly inside it while a row list is suspended. -/
def DrainInv (ht : HashTable) (st : DrainState) : Prop :=
  st.inited = true ∧ st.iter ≤ ht.entries.length ∧
  (st.visited_iter ≠ [] → st.iter < ht.entries.length)

/-- The drain state after `k` successive `process_data_in_hashtable` calls. -/
def drain_calls (cfg : Config) (build_blocks : Nat) (ht : HashTable) :
    Nat → DrainState → DrainState
  | 0, st => st
  | k + 1, st =>
    (process_data_in_hashtable cfg build_blocks ht (drain_calls cfg build_blocks ht k st)).state

/-- A build side with the keys 1, 2, 3, one row each: `(0,0)`, `(0,1)`, `(0,2)`; all flags
clear. -/
def build_123 (kind : RowRefKind) : HashTable :=
  ⟨kind, [(1, ⟨[(⟨0, 0⟩, false)], false⟩), (2, ⟨[(⟨0, 1⟩, false)], false⟩),
    (3, ⟨[(⟨0, 2⟩, false)], false⟩)]⟩

/-- The table `build_123` with per-row flags after a RIGHT_ANTI probe (other conjuncts that
accept every tuple) with the single probe key 2. -/
def build_123_probed_2 : HashTable :=
  (process ⟨TJoinOp.RIGHT_ANTI_JOIN, 2, false, false, true, false⟩ (fun _ _ => true)
    ⟨[2], []⟩ 1 (ProbeState.fresh (build_123 RowRefKind.RowRefListWithFlags))
    Block.empty).2.1.hash_table

/-- A build side with the key-level flag: key 1 with the rows `(0,0)`, `(0,1)`, `(0,2)` and
key 2 with the rows `(1,0)`, `(1,1)`, after a RIGHT_OUTER probe with the single probe
key 2. -/
def build_two_keys_probed_2 : HashTable :=
  (process ⟨TJoinOp.RIGHT_OUTER_JOIN, 4, false, false, false, false⟩ (fun _ _ => true)
    ⟨[2], []⟩ 1
    (ProbeState.fresh ⟨RowRefKind.RowRefListWithFlag,
      [(1, ⟨[(⟨0, 0⟩, false), (⟨0, 1⟩, false), (⟨0, 2⟩, false)], false⟩),
       (2, ⟨[(⟨1, 0⟩, false), (⟨1, 1⟩, false)], false⟩)]⟩)
    Block.empty).2.1.hash_table

/-- The key-level flag `mapped.visited` of the hash-table entry at index `entry`. -/
def key_visited (ht : HashTable) (entry : Nat) : Bool :=
  (ht.entries.getD entry (0, ⟨[], false⟩)).2.visited

/-- The keys and the row lists (coordinates and per-row flags) of the table: everything
but the key-level flags. -/
def rows_part (ht : HashTable) : List (Int × List (RowRef × Bool)) :=
  ht.entries.map fun e => (e.1, e.2.rows)

/-- The probe rows `from ≤ i < to` whose lookup finds the entry `entry`. -/
def found_by (cfg : Config) (probe : ProbeBatch) (entries : List (Int × Mapped))
    (lo hi entry : Nat) : Bool :=
  (List.range' lo (hi - lo)).any fun i => find_result cfg probe entries i == some entry

/-- The loop invariant of RIGHT_SEMI / RIGHT_ANTI without other conjuncts over the
key-level flag: nothing emitted, rows `p0 ≤ i < probe_index` examined, key flags raised
exactly for the keys they found. `ht0` is the table on entry. -/
def RightSemiInv (cfg : Config) (probe : ProbeBatch) (probe_rows p0 : Nat) (ht0 : HashTable)
    (t : ProbeState) : Prop :=
  t.current_offset = 0 ∧ t.build_block_offsets = [] ∧ t.build_block_rows = [] ∧
  t.probe_indexs = [] ∧ t.mark_column = [] ∧ t.probe_row_match_iter.ok = false ∧
  p0 ≤ t.probe_index ∧ t.probe_index ≤ max p0 probe_rows ∧
  t.hash_table.kind = RowRefKind.RowRefListWithFlag ∧
  rows_part t.hash_table = rows_part ht0 ∧
  ∀ e, key_visited t.hash_table e =
    (key_visited ht0 e || found_by cfg probe ht0.entries p0 t.probe_index e)

/-- The per-row flag `visited` of the row at position `pos` of the row list of the hash-table
entry at index `entry`. -/
def row_visited (ht : HashTable) (entry pos : Nat) : Bool :=
  ((ht.entries.getD entry (0, ⟨[], false⟩)).2.rows.getD pos (⟨0, 0⟩, false)).2

/-- The statement `*_visited_map[i] |= filter_column_ptr[i]` run for the tuples `i` of a
list, in order. -/
def visited_fold (visited_map : List (Option (Nat × Nat))) (filter_column : List Bool)
    (l : List Nat) (ht : HashTable) : HashTable :=
  l.foldl (fun ht i => or_visited ht (visited_map.getD i none) (filter_column.getD i false)) ht

/-- The tuples one `process` call with other conjuncts emits before filtering, each as its
`_visited_map` entry (the build row it references, `none` for a padded tuple) and the value
of the other conjuncts on it. -/
def call_tuples (cfg : Config) (conj : OtherConjuncts) (probe : ProbeBatch)
    (probe_rows : Nat) (s : ProbeState) : List (Option (Nat × Nat) × Bool) :=
  let d := do_probe cfg probe probe_rows s
  let b := (assemble cfg s.probe_index d).2
  (List.range b.rows).map fun i =>
    (d.visited_map.getD i none, conj (b.probe.getD i 0) (b.build.getD i ⟨0, 0⟩))

/-- One tuple of the scratch vectors as the applier reads it: the probe index, the build
coordinate, whether the `_visited_map` entry is non-null (the tuple has a build row), and
the `_same_to_prev` bit. -/
structure ScratchRow where
  probe_index : Nat
  build : RowRef
  has_build : Bool
  same_to_prev : Bool
  deriving DecidableEq, Repr

/-- The tuples held in the scratch vectors with other conjuncts, one record per tuple. -/
def scratch_rows (s : ProbeState) : List ScratchRow :=
  (List.range s.current_offset).map fun i =>
    ⟨s.probe_indexs.getD i 0, ⟨s.build_block_offsets.getD i 0, s.build_block_rows.getD i 0⟩,
      (s.visited_map.getD i none).isSome, s.same_to_prev.getD i false⟩

/-- With other conjuncts the five scratch vectors hold one cell per tuple. -/
def ColsLen (s : ProbeState) : Prop :=
  s.probe_indexs.length = s.current_offset ∧
  s.build_block_offsets.length = s.current_offset ∧
  s.build_block_rows.length = s.current_offset ∧
  s.visited_map.length = s.current_offset ∧
  s.same_to_prev.length = s.current_offset

/-- The not-found arm pads with a `(-1,-1)` tuple in these modes. -/
def pads_not_found (cfg : Config) : Bool :=
  probe_all cfg.JoinOpType || cfg.JoinOpType == TJoinOp.LEFT_ANTI_JOIN ||
    cfg.JoinOpType == TJoinOp.NULL_AWARE_LEFT_ANTI_JOIN ||
    (cfg.JoinOpType == TJoinOp.LEFT_SEMI_JOIN && cfg.is_mark_join)

/-- The tuples probe row `i` contributes to the scratch vectors with other conjuncts, each
as (build coordinate, has a build row): the row list of its key when found; one `(-1,-1)`
padding tuple without build row in the not-found arm of the padding modes and in the
null-key arm of LEFT_OUTER / FULL_OUTER; nothing otherwise. -/
def other_row_tuples (cfg : Config) (probe : ProbeBatch) (entries : List (Int × Mapped))
    (i : Nat) : List (RowRef × Bool) :=
  if is_ignored_null cfg probe i then
    if probe_all cfg.JoinOpType then [(⟨-1, -1⟩, false)] else []
  else
    match find_result cfg probe entries i with
    | some e => (entry_rows entries e).map fun r => (r, true)
    | none => if pads_not_found cfg then [(⟨-1, -1⟩, false)] else []

/-- The scratch records of one group: the tuples `ts` of probe row `i`, the first with
`same_to_prev = false`, the others with `same_to_prev = true`. -/
def group_rows (i : Nat) : List (RowRef × Bool) → List ScratchRow
  | [] => []
  | t :: ts => ⟨i, t.1, t.2, false⟩ :: ts.map fun u => ⟨i, u.1, u.2, true⟩

/-- How many tuples of a row list of length `len` one loop iteration takes when
`current_offset` tuples are already in the batch: all of them with mark join (the loop of
that arm is not capped), as many as fit otherwise. -/
def taken (cfg : Config) (current_offset len : Nat) : Nat :=
  if cfg.is_mark_join then len else min (cfg.batch_size - current_offset) len

/-- The scratch records of the probe rows `lo ≤ i < hi`, each row's contribution taken
whole. -/
def rows_records (cfg : Config) (probe : ProbeBatch) (entries : List (Int × Mapped))
    (lo hi : Nat) : List ScratchRow :=
  (List.range' lo (hi - lo)).flatMap fun i =>
    group_rows i (other_row_tuples cfg probe entries i)

/-- The invariant of the probe loop with other conjuncts, `t0` being the state on loop
entry. While no iterator is suspended the scratch vectors hold, after the records of `t0`,
the whole contributions of the probe rows examined. Once the iterator is suspended (the
batch is then full) they end with the first `multi_matched_output_row_count` tuples of the
row list of `probe_index`, and the iterator stands right after them. -/
def ShapeInv (cfg : Config) (probe : ProbeBatch) (t0 t : ProbeState) : Prop :=
  ColsLen t ∧ t.hash_table = t0.hash_table ∧ t0.probe_index ≤ t.probe_index ∧
  t.mark_column = t0.mark_column ∧
  (t.probe_row_match_iter.ok = false →
    scratch_rows t = scratch_rows t0 ++
      rows_records cfg probe t0.hash_table.entries t0.probe_index t.probe_index ∧
    t.multi_matched_output_row_count = t0.multi_matched_output_row_count) ∧
  (t.probe_row_match_iter.ok = true →
    cfg.is_mark_join = false ∧ cfg.batch_size ≤ t.current_offset ∧
    ∃ e, find_result cfg probe t0.hash_table.entries t.probe_index = some e ∧
      0 < t.multi_matched_output_row_count ∧
      t.multi_matched_output_row_count < (entry_rows t0.hash_table.entries e).length ∧
      t.probe_row_match_iter = ⟨e, t.multi_matched_output_row_count,
        (entry_rows t0.hash_table.entries e).drop t.multi_matched_output_row_count⟩ ∧
      scratch_rows t = scratch_rows t0 ++
        rows_records cfg probe t0.hash_table.entries t0.probe_index t.probe_index ++
        group_rows t.probe_index
          (((entry_rows t0.hash_table.entries e).map fun r => (r, true)).take
            t.multi_matched_output_row_count))

/-- The closed form of the carry loop of the LEFT_SEMI and LEFT_ANTI rewrites. `c` is the
filter cell of the tuple before the list; each element of the list is a tuple's
(`same_to_prev`, hit). The result holds the final cell of the tuple before the list and of
every tuple of the list: a cell is cleared when the next tuple belongs to the same group,
and the last cell of a group is set iff some tuple of the group hit. -/
def carry_fm (c : Bool) : List (Bool × Bool) → List Bool
  | [] => [c]
  | (s, h) :: rest => (!s && c) :: carry_fm (h || (s && c)) rest

/-- What the carry loop sees of a tuple with other conjuncts: whether it "hits". In
LEFT_SEMI the value of the other conjuncts on the tuple; in the anti modes that value
AND-ed with "the tuple has a build row". -/
def tuple_hit (cfg : Config) (conj : OtherConjuncts) (i : Nat) (t : RowRef × Bool) : Bool :=
  (cfg.JoinOpType == TJoinOp.LEFT_SEMI_JOIN || t.2) && conj i t.1

/-- The scratch records of a list of groups, each a probe row with the tuples taken for
it. -/
def groups_rows (G : List (Nat × List (RowRef × Bool))) : List ScratchRow :=
  G.flatMap fun g => group_rows g.1 g.2

/-- The filter column the carry loop leaves for a list of groups: per non-empty group, the
cells before the last clear and the last cell set iff some tuple of the group hits. -/
def groups_fm (h : Nat → RowRef × Bool → Bool) (G : List (Nat × List (RowRef × Bool))) :
    List Bool :=
  G.flatMap fun g =>
    match g.2 with
    | [] => []
    | _ :: ts => List.replicate ts.length false ++ [g.2.any (h g.1)]

/-- Per tuple of a list of groups, the `same_to_prev` bit of the tuple after it, and
`false` after the last tuple: `false` marks the last tuple of every non-empty group. -/
def groups_next (G : List (Nat × List (RowRef × Bool))) : List Bool :=
  G.flatMap fun g =>
    match g.2 with
    | [] => []
    | _ :: ts => List.replicate ts.length true ++ [false]

/-- Whether a probe row whose tuples in the block are `ts` is output on account of them:
in LEFT_SEMI iff some tuple hits; in the anti modes iff it has a tuple and none hits. -/
def row_out (cfg : Config) (conj : OtherConjuncts) (i : Nat) (ts : List (RowRef × Bool)) :
    Bool :=
  if cfg.JoinOpType == TJoinOp.LEFT_SEMI_JOIN then ts.any (tuple_hit cfg conj i)
  else !ts.isEmpty && !ts.any (tuple_hit cfg conj i)

/-- A filter column with one cell per tuple of the groups `G`: clear on every tuple but the
last of its group, `v` of the group on the last one. -/
def groups_cells (v : Nat → List (RowRef × Bool) → Bool)
    (G : List (Nat × List (RowRef × Bool))) : List Bool :=
  G.flatMap fun g =>
    match g.2 with
    | [] => []
    | _ :: ts => List.replicate ts.length false ++ [v g.1 g.2]

/-- Whether the probe row suspended in `s` is still to be output by a later call of a
LEFT_SEMI / LEFT_ANTI / NULL_AWARE_LEFT_ANTI join with other conjuncts: no earlier
sub-block of the row had a hit (`is_any_probe_match_row_output` is clear), and the tuples
still in the iterator make the row an output row. -/
def pending_out (cfg : Config) (conj : OtherConjuncts) (s : ProbeState) : Bool :=
  s.probe_row_match_iter.ok && !s.is_any_probe_match_row_output &&
    row_out cfg conj s.probe_index (s.probe_row_match_iter.rest.map fun r => (r, true))

/-- The probe rows `lo ≤ i < hi` that a LEFT_SEMI / LEFT_ANTI / NULL_AWARE_LEFT_ANTI join
with other conjuncts outputs, in order. -/
def rows_out (cfg : Config) (conj : OtherConjuncts) (probe : ProbeBatch)
    (entries : List (Int × Mapped)) (lo hi : Nat) : List Nat :=
  (List.range' lo (hi - lo)).filter fun i =>
    row_out cfg conj i (other_row_tuples cfg probe entries i)

/-- The probe rows still to be output from state `s` for the probe rows below `probe_rows`:
the suspended row if it is pending, then the output rows among those not yet examined. -/
def expected_out (cfg : Config) (conj : OtherConjuncts) (probe : ProbeBatch)
    (entries : List (Int × Mapped)) (probe_rows : Nat) (s : ProbeState) : List Nat :=
  (if pending_out cfg conj s then [s.probe_index] else []) ++
    rows_out cfg conj probe entries
      (s.probe_index + s.probe_row_match_iter.ok.toNat) probe_rows

/-- One more than the number of tuples of every probe row `lo ≤ i < hi`, summed. -/
def rows_bound (cfg : Config) (probe : ProbeBatch) (entries : List (Int × Mapped))
    (lo hi : Nat) : Nat :=
  ((List.range' lo (hi - lo)).map fun i =>
    (other_row_tuples cfg probe entries i).length + 1).sum

/-- A bound on the number of calls still needed from state `s`: the tuples left in the
iterator, and for every probe row not yet examined its tuples and one. -/
def calls_bound (cfg : Config) (probe : ProbeBatch) (entries : List (Int × Mapped))
    (probe_rows : Nat) (s : ProbeState) : Nat :=
  s.probe_row_match_iter.rest.length +
    rows_bound cfg probe entries
      (s.probe_index + s.probe_row_match_iter.ok.toNat) probe_rows

/-- What one LEFT_SEMI / LEFT_ANTI / NULL_AWARE_LEFT_ANTI call with other conjuncts and
without mark join does, `s` being the state before and `r` the result: the hash table is
untouched, the probe rows output followed by those still expected are those expected before,
the bound on the calls left decreases, the block has no build or mark column, and in the
anti modes every row output lies between the old and the new probe index. -/
def CallOk (cfg : Config) (conj : OtherConjuncts) (probe : ProbeBatch) (probe_rows : Nat)
    (s : ProbeState) (r : Status × ProbeState × Block) : Prop :=
  r.1 = Status.OK ∧ r.2.1.hash_table = s.hash_table ∧
  r.2.1.probe_index + r.2.1.probe_row_match_iter.ok.toNat ≤ probe_rows ∧
  r.2.2.probe ++ expected_out cfg conj probe s.hash_table.entries probe_rows r.2.1 =
    expected_out cfg conj probe s.hash_table.entries probe_rows s ∧
  (batch_exhausted probe_rows s = false →
    calls_bound cfg probe s.hash_table.entries probe_rows r.2.1 <
      calls_bound cfg probe s.hash_table.entries probe_rows s) ∧
  r.2.2.build = [] ∧ r.2.2.mark = [] ∧
  (cfg.JoinOpType ≠ TJoinOp.LEFT_SEMI_JOIN →
    ∀ i ∈ r.2.2.probe, s.probe_index ≤ i ∧ i < r.2.1.probe_index)

/-- The suspended iterator is coherent with the probe row `probe_index` designates: when
`probe_row_match_iter` is non-empty, the key of that probe row is found in the table, at
entry `e`, the first `k ≥ 1` rows of the row list of `e` have been passed, and the iterator
stands at row `k` of that list with the rows from `k` on still to be emitted. -/
def SuspendedAt (cfg : Config) (probe : ProbeBatch) (entries : List (Int × Mapped))
    (s : ProbeState) : Prop :=
  s.probe_row_match_iter.ok = true →
    ∃ e k, find_result cfg probe entries s.probe_index = some e ∧ 0 < k ∧
      s.probe_row_match_iter = ⟨e, k, (entry_rows entries e).drop k⟩

/-- No build row stored in the table has the row number `-1`, which `_emplace_element(-1,
-1)` uses for the padded tuple (row numbers index into a build block). -/
def rows_valid (ht : HashTable) : Prop :=
  ∀ e ∈ ht.entries, ∀ x ∈ e.2.rows, x.1.row_num ≠ -1

instance (ht : HashTable) : Decidable (rows_valid ht) := by
  unfold rows_valid; infer_instance

/-- The last element of a list of probe indices, `prev` for the empty list. -/
def last_or (prev : Option Nat) : List Nat → Option Nat
  | [] => prev
  | x :: xs => last_or (some x) xs

/-- The grouping bits a column of probe indices determines, `prev` being the probe index
before the first cell (`none` at the start of the column): a bit is set exactly when the
cell holds the probe index of the cell before it. -/
def same_to_prev_of (prev : Option Nat) : List Nat → List Bool
  | [] => []
  | x :: xs => decide (prev = some x) :: same_to_prev_of (some x) xs

/-- What the LEFT_OUTER / FULL_OUTER rewrite owes cell `j`: the null-map cell is `!join_hit
|| !other_hit`, and a tuple with a build row that passes the other conjuncts is kept. -/
def OuterCell (visited_map : List (Option (Nat × Nat))) (filter_column : List Bool)
    (a : ApplierState) (j : Nat) : Prop :=
  a.null_map_data[j]? =
    some (!(visited_map.getD j none).isSome || !filter_column.getD j false) ∧
  ((visited_map.getD j none).isSome = true → filter_column.getD j false = true →
    a.filter_map[j]? = some true)

/-! ## Key pre-serialization (`_pre_serialize_key`) -/

/-- `size_t` arithmetic wraps at `2^64`. -/
def size_t_mod : Nat := 2 ^ 64

/-- Modelled from the spec: a key column as `_pre_serialize_key` uses it; the column classes
are not in this file (§4.1, "estimated total size `row_count × max_row_byte_size`", "each
slot tracks actual length"). `max_row_byte_size` is `get_max_row_byte_size()`;
`row_byte_size[i]` is the number of bytes the serialization of row `i` takes. -/
structure KeyColumn where
  max_row_byte_size : Nat
  row_byte_size : List Nat
  deriving DecidableEq, Repr

/-- Where a `StringRef` points: nowhere, to the allocation number `chunk` of `_arena`, or
`offset` bytes into `_serialized_key_buffer`. -/
inductive KeyLoc
  | null
  | arena (chunk : Nat)
  | buffer (offset : Nat)
  deriving DecidableEq, Repr

/-- `StringRef`: `data` and `size`. -/
structure StringRef where
  data : KeyLoc
  size : Nat
  deriving DecidableEq, Repr

/-- Modelled from the spec: `Arena`, which is not in this file (§4.1, "scratch arena",
"a secondary arena that is cleared per batch"): the sizes of its allocations, in order. -/
structure Arena where
  chunks : List Nat
  deriving DecidableEq, Repr

/-- Modelled from the spec: `Arena::size`, the bytes allocated. -/
def Arena.size (a : Arena) : Nat := a.chunks.sum

/-- Modelled from the spec: `Arena::clear`. -/
def Arena.clear (_ : Arena) : Arena := ⟨[]⟩

/-- Modelled from the spec: `Arena::alloc(n)`: the number of the new allocation and the
arena after it. -/
def Arena.alloc (a : Arena) (n : Nat) : Nat × Arena := (a.chunks.length, ⟨a.chunks ++ [n]⟩)

/-- The members `_pre_serialize_key` reads and writes: `_arena` and `_serialize_key_arena`
(`none` for a null pointer), `_serialized_key_buffer_size`, whether
`_serialized_key_buffer` has been allocated, and the counter
`_join_context->_probe_arena_memory_usage`. -/
structure KeyEncoderState where
  arena : Option Arena
  serialize_key_arena : Option Arena
  serialized_key_buffer_size : Nat
  serialized_key_buffer : Option Nat
  probe_arena_memory_usage : Int
  deriving DecidableEq, Repr

/-- The two arms of `if (total_bytes > config::pre_serialize_keys_limit_bytes)`. -/
inductive KeyStrategy
  | per_row_arena
  | bounded_buffer
  deriving DecidableEq, Repr

/-- What a call of `_pre_serialize_key` leaves: the members, `serialized_keys`, and which
arm of the `if` ran (`strategy` is not a program variable). -/
structure PreSerializeResult where
  state : KeyEncoderState
  serialized_keys : List StringRef
  strategy : KeyStrategy
  deriving DecidableEq, Repr

/-- `max_one_row_byte_size` of `_pre_serialize_key`: the `size_t` sum of
`get_max_row_byte_size()` over the key columns. -/
def max_one_row_byte_size (key_columns : List KeyColumn) : Nat :=
  key_columns.foldl (fun acc c => (acc + c.max_row_byte_size) % size_t_mod) 0

/-- `total_bytes` of `_pre_serialize_key`: `max_one_row_byte_size * key_rows` in `size_t`. -/
def total_bytes (key_columns : List KeyColumn) (key_rows : Nat) : Nat :=
  (max_one_row_byte_size key_columns * key_rows) % size_t_mod

/-- Modelled from the spec: `serialize_keys_to_pool_contiguous(i, keys_size, key_columns,
arena)`, which is not in this file (§4.1, "allocate each row's serialized form
individually"): one allocation holding the serializations of row `i` of every key column,
one after the other. -/
def serialize_keys_to_pool_contiguous (i : Nat) (key_columns : List KeyColumn) (arena : Arena) :
    StringRef × Arena :=
  let size := (key_columns.map fun c => c.row_byte_size.getD i 0).sum
  let r := arena.alloc size
  (⟨KeyLoc.arena r.1, size⟩, r.2)

/-- Modelled from the spec: `column->serialize_vec(keys, num_rows, max_row_byte_size)`,
which is not in this file (§4.1, "Columns append into these slots in order; each slot tracks
actual length"): the serialization of row `i` is appended to slot `i`, for `i < num_rows`. -/
def serialize_vec (c : KeyColumn) (keys : List StringRef) (num_rows : Nat) : List StringRef :=
  (List.range num_rows).foldl (fun keys i =>
    let k := keys.getD i ⟨KeyLoc.null, 0⟩
    keys.set i { k with size := k.size + c.row_byte_size.getD i 0 }) keys

/-- `_pre_serialize_key(key_columns, key_rows, serialized_keys)`. `limit` is
`config::pre_serialize_keys_limit_bytes` as the comparison with the `size_t` estimate reads
it. -/
def pre_serialize_key (limit : Nat) (key_columns : List KeyColumn) (key_rows : Nat)
    (st : KeyEncoderState) (serialized_keys : List StringRef) : PreSerializeResult :=
  let serialized_keys :=
    if serialized_keys.length < key_rows then resize serialized_keys key_rows ⟨KeyLoc.null, 0⟩
    else serialized_keys
  let max_one_row := max_one_row_byte_size key_columns
  let total := total_bytes key_columns key_rows
  if total > limit then
    let old_probe_keys_memory_usage : Nat :=
      match st.arena with
      | none => 0
      | some a => a.size
    let arena0 : Arena :=
      match st.arena with
      | none => ⟨[]⟩
      | some a => a
    let arena0 := arena0.clear
    let r := (List.range key_rows).foldl (fun (p : List StringRef × Arena) i =>
      let k := serialize_keys_to_pool_contiguous i key_columns p.2
      (p.1.set i k.1, k.2)) (serialized_keys, arena0)
    ⟨{ st with
        arena := some r.2
        probe_arena_memory_usage :=
          st.probe_arena_memory_usage + ((r.2.size : Int) - old_probe_keys_memory_usage) },
      r.1, KeyStrategy.per_row_arena⟩
  else
    let sk_arena : Arena :=
      match st.serialize_key_arena with
      | none => ⟨[]⟩
      | some a => a
    let st := { st with serialize_key_arena := some sk_arena }
    let st :=
      if total > st.serialized_key_buffer_size then
        let a := (sk_arena.clear).alloc total
        { st with
          probe_arena_memory_usage :=
            st.probe_arena_memory_usage - st.serialized_key_buffer_size + total
          serialized_key_buffer_size := total
          serialize_key_arena := some a.2
          serialized_key_buffer := some a.1 }
      else st
    let keys := (List.range key_rows).foldl (fun (keys : List StringRef) i =>
      keys.set i ⟨KeyLoc.buffer ((i * max_one_row) % size_t_mod), 0⟩) serialized_keys
    let keys := key_columns.foldl (fun keys c => serialize_vec c keys key_rows) keys
    ⟨st, keys, KeyStrategy.bounded_buffer⟩

/-! ## Invariants of the scratch vectors in every mode -/

/-- The build coordinates of the scratch tuples: both vectors are equally long and never
longer than `current_offset`; they are as long as `current_offset` except in the LEFT_SEMI
/ LEFT_ANTI / NULL_AWARE_LEFT_ANTI arm without other conjuncts, which counts an output row
without storing a build coordinate. -/
def BuildLen (cfg : Config) (s : ProbeState) : Prop :=
  s.build_block_offsets.length = s.build_block_rows.length ∧
  s.build_block_offsets.length ≤ s.current_offset ∧
  (¬(cfg.with_other_conjuncts = false ∧ is_left_semi_anti cfg.JoinOpType = true) →
    s.build_block_offsets.length = s.current_offset)

/-- A bound on the number of `process` calls still needed on a probe batch from state `s`,
`L` being a bound on the length of every row list: `L + 1` for every probe row not yet
examined, and the rows left in the suspended iterator. -/
def calls_left (probe_rows L : Nat) (s : ProbeState) : Nat :=
  (probe_rows - (s.probe_index + s.probe_row_match_iter.ok.toNat)) * (L + 1) +
    s.probe_row_match_iter.rest.length

/-- An INNER configuration with `batch_size = 2`, without other conjuncts. -/
def inner_batch_2 : Config := ⟨TJoinOp.INNER_JOIN, 2, false, false, false, false⟩

/-- A fresh engine over a table with the single key `7`, stored with three build rows. -/
def fresh_three_rows : ProbeState :=
  ProbeState.fresh (single_key_table RowRefKind.RowRefList 7 3)

/-- A build side over two build blocks with the key-level flag: key 1 with the rows `(0,0)`
and `(1,0)`, key 2 with the rows `(0,1)` and `(1,1)`; all flags clear. -/
def build_two_blocks : HashTable :=
  ⟨RowRefKind.RowRefListWithFlag,
    [(1, ⟨[(⟨0, 0⟩, false), (⟨1, 0⟩, false)], false⟩),
     (2, ⟨[(⟨0, 1⟩, false), (⟨1, 1⟩, false)], false⟩)]⟩

/-- The first RIGHT_OUTER drain call on `build_two_blocks`, with `batch_size = 8`. -/
def drain_two_blocks : DrainResult :=
  process_data_in_hashtable ⟨TJoinOp.RIGHT_OUTER_JOIN, 8, false, false, false, false⟩ 2
    build_two_blocks DrainState.fresh

/-- The resize of `serialized_keys` on entry to `_pre_serialize_key`:
`if (serialized_keys.size() < key_rows) serialized_keys.resize(key_rows)`. -/
def resize_keys (key_rows : Nat) (serialized_keys : List StringRef) : List StringRef :=
  if serialized_keys.length < key_rows then resize serialized_keys key_rows ⟨KeyLoc.null, 0⟩
  else serialized_keys

/-- The slot loop of the buffer arm of `_pre_serialize_key`, before any column is
serialized: `serialized_keys[i].data = _serialized_key_buffer + i * max_one_row_byte_size;
serialized_keys[i].size = 0` for `i < key_rows`. -/
def assign_slots (key_rows max_one_row : Nat) (serialized_keys : List StringRef) :
    List StringRef :=
  (List.range key_rows).foldl (fun (keys : List StringRef) i =>
    keys.set i ⟨KeyLoc.buffer ((i * max_one_row) % size_t_mod), 0⟩) serialized_keys

/-- A sequence of `_pre_serialize_key` calls on one engine, each with its key columns and
its number of rows; the members and the caller's `serialized_keys` vector are handed on
from call to call. -/
def pre_serialize_key_calls (limit : Nat) :
    List (List KeyColumn × Nat) → KeyEncoderState → List StringRef →
      KeyEncoderState × List StringRef
  | [], st, keys => (st, keys)
  | c :: cs, st, keys =>
    let r := pre_serialize_key limit c.1 c.2 st keys
    pre_serialize_key_calls limit cs r.state r.serialized_keys

/-- Two key columns of two rows: max row byte sizes 8 and 4. -/
def two_key_columns : List KeyColumn := [⟨8, [3, 5]⟩, ⟨4, [1, 2]⟩]

/-- The members of `_pre_serialize_key` on a new engine: no arena, no buffer. -/
def encoder_fresh : KeyEncoderState := ⟨none, none, 0, none, 0⟩

/-- The call of `_pre_serialize_key` on `two_key_columns` with the limit 100, on a new
engine and an empty `serialized_keys`. -/
def two_rows_call : PreSerializeResult :=
  pre_serialize_key 100 two_key_columns 2 encoder_fresh []

/-- Every build row coordinate stored in the table is non-negative: block offsets and row
numbers index into the build blocks. -/
def coords_nonneg (ht : HashTable) : Prop :=
  ∀ e ∈ ht.entries, ∀ x ∈ e.2.rows, 0 ≤ x.1.block_offset ∧ 0 ≤ x.1.row_num

instance (ht : HashTable) : Decidable (coords_nonneg ht) := by
  unfold coords_nonneg; infer_instance

/-- The scratch tuples are padding or table rows, cell by cell: a pair (block offset, row
number) is `(-1, -1)` or non-negative in both parts, and with other conjuncts a pair (row
number, `_visited_map` entry) is `-1` with a null pointer or a non-negative row number with
a pointer. -/
def PadInv (cfg : Config) (s : ProbeState) : Prop :=
  (∀ x ∈ List.zip s.build_block_offsets s.build_block_rows,
    (x.1 = -1 ∧ x.2 = -1) ∨ (0 ≤ x.1 ∧ 0 ≤ x.2)) ∧
  (cfg.with_other_conjuncts = true →
    ∀ x ∈ List.zip s.build_block_rows s.visited_map,
      (x.1 = -1 ∧ x.2 = none) ∨ (0 ≤ x.1 ∧ x.2.isSome = true))

/-- A LEFT_OUTER configuration with other conjuncts and `batch_size = 2`. -/
def left_outer_other_2 : Config := ⟨TJoinOp.LEFT_OUTER_JOIN, 2, true, false, true, false⟩

/-- The engine after one call of `left_outer_other_2` on the probe keys 7, 9 over a
per-row-flags table with the single key `7`, stored with three build rows: two rows are
emitted and the iterator is suspended on the third. -/
def suspended_three_rows : ProbeState :=
  (process left_outer_other_2 (fun _ _ => true) ⟨[7, 9], []⟩ 2
    (ProbeState.fresh (single_key_table RowRefKind.RowRefListWithFlags 7 3)) Block.empty).2.1

/-- The state after the probe loop of the next call: the third row of key 7, then a padding
tuple for the key 9. -/
def padded_probe : ProbeState :=
  do_probe left_outer_other_2 ⟨[7, 9], []⟩ 2 suspended_three_rows

/-- The suspended iterator, if any, stands in the row list of the key probe row
`probe_index` found (in the table with the entries `entries`), and that key is marked
visited. -/
def SuspendedVisited (cfg : Config) (probe : ProbeBatch) (entries : List (Int × Mapped))
    (s : ProbeState) : Prop :=
  s.probe_row_match_iter.ok = true →
    ∃ e, find_result cfg probe entries s.probe_index = some e ∧
      (∀ r ∈ s.probe_row_match_iter.rest, r ∈ entry_rows entries e) ∧
      key_visited s.hash_table e = true

/-- Every scratch tuple is the padding tuple or pairs its probe row with a row of the key
that probe row found, and that key is marked visited. -/
def VisitedInv (cfg : Config) (probe : ProbeBatch) (entries : List (Int × Mapped))
    (s : ProbeState) : Prop :=
  ∀ x ∈ scratch_tuples s, x.2 = ⟨-1, -1⟩ ∨
    ∃ e, find_result cfg probe entries x.1 = some e ∧ x.2 ∈ entry_rows entries e ∧
      key_visited s.hash_table e = true

/-- A RIGHT_OUTER configuration without other conjuncts and with `batch_size = 2`. -/
def right_outer_2 : Config := ⟨TJoinOp.RIGHT_OUTER_JOIN, 2, false, false, false, false⟩

/-- The engine after one call of `right_outer_2` on the probe keys 7, 9 over a key-level-flag
table with the single key `7`, stored with three build rows: two rows are emitted and the
iterator is suspended on the third. -/
def suspended_key_flag : ProbeState :=
  (process right_outer_2 (fun _ _ => true) ⟨[7, 9], []⟩ 2
    (ProbeState.fresh (single_key_table RowRefKind.RowRefListWithFlag 7 3)) Block.empty).2.1

/-- The next call of `right_outer_2` from `suspended_key_flag`. -/
def resumed_key_flag_call : Status × ProbeState × Block :=
  process right_outer_2 (fun _ _ => true) ⟨[7, 9], []⟩ 2 suspended_key_flag Block.empty

/-! ## The row indices `do_other_join_conjuncts` subscripts with -/

/-- The row indices `_process_splited_equal_matched_tuples(start_row_idx, row_count, ...)`
subscripts `_visited_map`, `other_hit_column`, `null_map_data`, `filter_map` and the null
maps of the right columns with: every `i` of `for (int i = start_row_idx; i < end_row_idx;
++i)`. -/
def process_splited_indices (start_row_idx : Int) (row_count : Nat) : List Int :=
  (List.range row_count).map fun (j : Nat) => start_row_idx + (j : Int)

/-- The indices a mark-join loop subscripts with: `_same_to_prev[i]` for `1 ≤ i <
row_count`, `filter_map[i - 1]` at every group start, and the last cell `last` of
`filter_map`. -/
def mark_indices (same_to_prev : List Bool) (row_count : Nat) (last : Int) : List Int :=
  ((List.range' 1 (row_count - 1)).flatMap fun (i : Nat) =>
    [(i : Int)] ++ if !same_to_prev.getD i false then [(i : Int) - 1] else []) ++ [last]

/-- The row indices the LEFT_OUTER / FULL_OUTER rewrite subscripts with, in program order.
`end_idx = row_count - multi_matched_output_row_count` and the start of the last segment
are computed in the integers, as the `int` locals hold them. In the middle loop
`filter_map[i - 1]` or `filter_column_ptr[i - 1]` is evaluated exactly when `join_hit` and
`_same_to_prev[i]` hold: with `other_hit` clear the first, with `other_hit` set (so that
`filter_map[i]` is set) the second. -/
def left_outer_indices (s : ProbeState) (filter_column : List Bool) (row_count : Nat)
    (a : ApplierState) : List Int :=
  let rc := s.row_count_from_last_probe
  let multi := s.multi_matched_output_row_count
  let a := { a with filter_map := List.replicate row_count false
                    null_map_data := List.replicate row_count false }
  let first : List Int :=
    if rc > 0 then
      let a1 := process_splited_equal_matched_tuples s.visited_map filter_column 0 rc a
      process_splited_indices 0 rc ++
        (if s.is_the_last_sub_block && !a1.is_any_probe_match_row_output then [0] else [])
    else []
  let end_idx : Int := (row_count : Int) - (multi : Int)
  let middle : List Int :=
    (List.range' rc (end_idx - (rc : Int)).toNat).flatMap fun (i : Nat) =>
      [(i : Int)] ++
        if (s.visited_map.getD i none).isSome && s.same_to_prev.getD i false then
          [(i : Int) - 1]
        else []
  let last : List Int :=
    if multi > 0 then process_splited_indices ((row_count : Int) - (multi : Int)) multi
    else []
  first ++ middle ++ last ++ (List.range row_count).map Int.ofNat

/-- The row indices the LEFT_SEMI rewrite subscripts with, in program order. In the loop
`filter_map[i - 1]` is evaluated exactly when `filter_column_ptr[i]` or `_same_to_prev[i]`
holds. `filter_map.size()` at the mark-join step is the number of cells pushed: those
before the loop and one per iteration. -/
def left_semi_indices (s : ProbeState) (filter_column : List Bool) (row_count : Nat)
    (is_mark_join : Bool) (a : ApplierState) : List Int :=
  let rc := s.row_count_from_last_probe
  let init : Nat × List Int × Nat :=
    if rc > 0 then
      if a.is_any_probe_match_row_output then
        (1 + rc, if rc < row_count then ([(rc : Int)], rc + 1) else ([], rc))
      else (1, [0], 1)
    else (1, [0], 1)
  let start_row_idx := init.1
  let loop : List Int :=
    (List.range' start_row_idx (row_count - start_row_idx)).flatMap fun (i : Nat) =>
      [(i : Int)] ++
        if filter_column.getD i false || s.same_to_prev.getD i false then [(i : Int) - 1]
        else []
  let size := init.2.2 + (row_count - start_row_idx)
  let flag : List Int :=
    if s.multi_matched_output_row_count > 0 then [(row_count : Int) - 1]
    else if rc > 0 && !a.is_any_probe_match_row_output then [(rc : Int) - 1]
    else []
  init.2.1 ++ loop ++ flag ++
    (if is_mark_join then mark_indices s.same_to_prev row_count ((size : Int) - 1) else [])

/-- The carry loop of the LEFT_ANTI / NULL_AWARE_LEFT_ANTI rewrite: `filter_map` as it
stands before the mark-join step or the inversion. -/
def left_anti_carry (s : ProbeState) (filter_column : List Bool) (row_count : Nat)
    (a : ApplierState) : List Bool :=
  let rc := s.row_count_from_last_probe
  let hit (i : Nat) : Bool := filter_column.getD i false && (s.visited_map.getD i none).isSome
  let fm0 := List.replicate row_count false
  let init : Nat × List Bool :=
    if rc > 0 && a.is_any_probe_match_row_output then
      (1 + rc, if rc < row_count then fm0.set rc (hit rc) else fm0)
    else (1, fm0.set 0 (hit 0))
  (List.range' init.1 (row_count - init.1)).foldl (fun fm i =>
    if ((s.visited_map.getD i none).isSome && filter_column.getD i false) ||
        (s.same_to_prev.getD i false && fm.getD (i - 1) false) then
      let fm := fm.set i true
      fm.set (i - 1) (!s.same_to_prev.getD i false && fm.getD (i - 1) false)
    else fm.set i false) init.2

/-- The row indices the sub-block bookkeeping and the inversion of the LEFT_ANTI /
NULL_AWARE_LEFT_ANTI rewrite subscript with (no mark join). `end_row_idx` is an `int`;
`non_sub_blocks_matched_row_count` is a `size_t` difference, positive exactly when it is
not zero. -/
def left_anti_invert_indices (s : ProbeState) (row_count : Nat) (a : ApplierState) :
    List Int :=
  let rc := s.row_count_from_last_probe
  let multi := s.multi_matched_output_row_count
  let r : Int × List Int :=
    if rc > 0 then
      let first : List Int :=
        if !a.is_any_probe_match_row_output then
          let any := a.filter_map.getD (rc - 1) false
          [(rc : Int) - 1] ++ (if s.is_the_last_sub_block && !any then [0] else [])
        else []
      ((row_count : Int) - (multi : Int),
        first ++ (if multi > 0 then [(row_count : Int) - 1] else []))
    else if multi > 0 then ((row_count : Int) - (multi : Int), [(row_count : Int) - 1])
    else ((row_count : Int), [])
  let end_row_idx := r.1
  let loop : List Int :=
    (List.range' (1 + rc) (end_row_idx - ((1 + rc : Nat) : Int)).toNat).flatMap fun (i : Nat) =>
      [(i : Int)] ++ if !s.same_to_prev.getD i false then [(i : Int) - 1] else []
  let non_sub_blocks_matched_row_count : Int :=
    ((row_count : Int) - (rc : Int) - (multi : Int)) % (size_t_mod : Int)
  r.2 ++ loop ++ (if non_sub_blocks_matched_row_count ≠ 0 then [end_row_idx - 1] else [])

/-- The row indices the LEFT_ANTI / NULL_AWARE_LEFT_ANTI rewrite subscripts with, in
program order. In the loop `filter_map[i - 1]` is evaluated exactly when the tuple passes
(`_visited_map[i] && filter_column_ptr[i]`) or `_same_to_prev[i]` holds. -/
def left_anti_indices (s : ProbeState) (filter_column : List Bool) (row_count : Nat)
    (is_mark_join : Bool) (a : ApplierState) : List Int :=
  let rc := s.row_count_from_last_probe
  let init : Nat × List Int :=
    if rc > 0 && a.is_any_probe_match_row_output then
      (1 + rc, (List.range rc).map Int.ofNat ++ (if rc < row_count then [(rc : Int)] else []))
    else (1, [0])
  let loop : List Int :=
    (List.range' init.1 (row_count - init.1)).flatMap fun (i : Nat) =>
      [(i : Int)] ++
        if ((s.visited_map.getD i none).isSome && filter_column.getD i false) ||
            s.same_to_prev.getD i false then [(i : Int) - 1]
        else []
  init.2 ++ loop ++
    (if is_mark_join then mark_indices s.same_to_prev row_count ((row_count : Int) - 1)
     else left_anti_invert_indices s row_count
      { a with filter_map := left_anti_carry s filter_column row_count a })

/-- Every row index `do_other_join_conjuncts` subscripts `filter_column_ptr`, `filter_map`,
`null_map_data`, `_visited_map`, `_same_to_prev` or a right null map with, in program
order; an index `i - 1` is computed in the integers. The arguments are those of
`do_other_join_conjuncts`. -/
def do_other_join_conjuncts_indices (cfg : Config) (conj : OtherConjuncts) (s : ProbeState)
    (output_block : Block) : List Int :=
  let row_count := output_block.rows
  if row_count == 0 then []
  else
    let filter_column_ptr := (List.range row_count).map fun i =>
      conj (output_block.probe.getD i 0) (output_block.build.getD i ⟨0, 0⟩)
    let a0 : ApplierState :=
      ⟨filter_column_ptr, [], output_block.mark, s.hash_table, s.is_any_probe_match_row_output⟩
    let op := cfg.JoinOpType
    if op == TJoinOp.LEFT_OUTER_JOIN || op == TJoinOp.FULL_OUTER_JOIN then
      left_outer_indices s filter_column_ptr row_count a0
    else if op == TJoinOp.LEFT_SEMI_JOIN then
      left_semi_indices s filter_column_ptr row_count cfg.is_mark_join a0
    else if op == TJoinOp.LEFT_ANTI_JOIN || op == TJoinOp.NULL_AWARE_LEFT_ANTI_JOIN then
      left_anti_indices s filter_column_ptr row_count cfg.is_mark_join a0
    else if op == TJoinOp.RIGHT_SEMI_JOIN || op == TJoinOp.RIGHT_ANTI_JOIN ||
        op == TJoinOp.RIGHT_OUTER_JOIN then
      (List.range row_count).map Int.ofNat
    else []

/-- A LEFT_ANTI configuration with other conjuncts and `batch_size = 2`. -/
def left_anti_other_2 : Config := ⟨TJoinOp.LEFT_ANTI_JOIN, 2, false, false, true, false⟩

/-- The engine after one call of `left_anti_other_2`, with other conjuncts that reject every
tuple, on the probe keys 7, 9 over a per-row-flags table with the single key `7`, stored
with three build rows: the iterator is suspended on the third row. -/
def suspended_left_anti : ProbeState :=
  (process left_anti_other_2 (fun _ _ => false) ⟨[7, 9], []⟩ 2
    (ProbeState.fresh (single_key_table RowRefKind.RowRefListWithFlags 7 3)) Block.empty).2.1

/-- The state after the probe loop of the next call: the third row of key 7, resumed, and a
padding tuple for the key 9. -/
def resumed_left_anti : ProbeState :=
  do_probe left_anti_other_2 ⟨[7, 9], []⟩ 2 suspended_left_anti

/-- A FULL_OUTER call without other conjuncts, `batch_size = 3`, on the probe keys 7, null, 9
over a key-level-flag table with the single key `7`, stored with two build rows. -/
def full_outer_call : Status × ProbeState × Block :=
  process ⟨TJoinOp.FULL_OUTER_JOIN, 3, true, false, false, false⟩ (fun _ _ => true)
    ⟨[7, 0, 9], [false, true, false]⟩ 3
    (ProbeState.fresh (single_key_table RowRefKind.RowRefListWithFlag 7 2)) Block.empty

/-- An INNER configuration with `batch_size = 4`, without other conjuncts. -/
def inner_batch_4 : Config := ⟨TJoinOp.INNER_JOIN, 4, false, false, false, false⟩

/-- The engine after one call of `inner_batch_2` on the probe keys 9, 7, 7 over
`fresh_three_rows`: two rows of key 7 are emitted for probe row 1 and the iterator is
suspended on the third. -/
def suspended_inner : ProbeState :=
  (process inner_batch_2 (fun _ _ => true) ⟨[9, 7, 7], []⟩ 3 fresh_three_rows Block.empty).2.1

/-- The invariant of the probe loop behind `do_probe_matches`; `s` is the state on entry of
the call, `t` a state of the loop. -/
def MatchesInv (cfg : Config) (probe : ProbeBatch) (s t : ProbeState) : Prop :=
  skeleton t.hash_table.entries = skeleton s.hash_table.entries ∧
  t.build_block_offsets.length = t.current_offset ∧
  t.build_block_rows.length = t.current_offset ∧
  s.probe_index + s.probe_row_match_iter.ok.toNat ≤
    t.probe_index + t.probe_row_match_iter.ok.toNat ∧
  (∀ x ∈ scratch_tuples t, x.1 < t.probe_index + t.probe_row_match_iter.ok.toNat) ∧
  (s.probe_row_match_iter.ok = true → s.probe_index < t.probe_index →
    (scratch_tuples t).filter (fun x => x.1 == s.probe_index) =
      s.probe_row_match_iter.rest.map fun b => (s.probe_index, b)) ∧
  (∀ p e, s.probe_index + s.probe_row_match_iter.ok.toNat ≤ p → p < t.probe_index →
    find_result cfg probe s.hash_table.entries p = some e →
    (scratch_tuples t).filter (fun x => x.1 == p) =
      (entry_rows s.hash_table.entries e).map fun b => (p, b))

/-! ## Lemmas and theorems -/

/-! ## Closed forms of the row-list loops -/

theorem found_match_loop_eq (cfg : Config) (entry : Nat) (rows : List RowRef) :
    ∀ (pos : Nat) (s : ProbeState),
    found_match_loop cfg entry pos rows s =
      (⟨entry, pos + min (cfg.batch_size - s.current_offset) rows.length,
          rows.drop (min (cfg.batch_size - s.current_offset) rows.length)⟩,
       { s with
         build_block_offsets := s.build_block_offsets ++
           ((rows.take (min (cfg.batch_size - s.current_offset) rows.length)).map
             RowRef.block_offset)
         build_block_rows := s.build_block_rows ++
           ((rows.take (min (cfg.batch_size - s.current_offset) rows.length)).map
             RowRef.row_num)
         current_offset := s.current_offset + min (cfg.batch_size - s.current_offset) rows.length
         visited_map := if cfg.with_other_conjuncts then
             s.visited_map ++ ((List.range' pos
               (min (cfg.batch_size - s.current_offset) rows.length)).map
                 fun p => some (entry, p))
           else s.visited_map }) := by
  induction rows with
  | nil => intro pos s; cases s; simp [found_match_loop]
  | cons r rest ih =>
    intro pos s
    by_cases h : s.current_offset < cfg.batch_size
    · have hk : min (cfg.batch_size - s.current_offset) (rest.length + 1) =
          min (cfg.batch_size - (s.current_offset + 1)) rest.length + 1 := by omega
      simp only [found_match_loop, h, if_true, ih, List.length_cons, hk]
      cases hc : cfg.with_other_conjuncts <;>
        simp [emplace_element, List.range'_succ, Nat.add_assoc, Nat.add_comm 1]
    · have hk : min (cfg.batch_size - s.current_offset) (rest.length + 1) = 0 := by omega
      cases s
      simp_all [found_match_loop]

theorem probe_row_match_loop_eq (cfg : Config) (entry : Nat) (rows : List RowRef) :
    ∀ (pos : Nat) (s : ProbeState),
    probe_row_match_loop cfg entry pos rows s =
      (⟨entry, pos + min (cfg.batch_size - s.current_offset) rows.length,
          rows.drop (min (cfg.batch_size - s.current_offset) rows.length)⟩,
       { s with
         build_block_offsets := s.build_block_offsets ++
           ((rows.take (min (cfg.batch_size - s.current_offset) rows.length)).map
             RowRef.block_offset)
         build_block_rows := s.build_block_rows ++
           ((rows.take (min (cfg.batch_size - s.current_offset) rows.length)).map
             RowRef.row_num)
         probe_indexs := s.probe_indexs ++
           List.replicate (min (cfg.batch_size - s.current_offset) rows.length) s.probe_index
         current_offset := s.current_offset + min (cfg.batch_size - s.current_offset) rows.length
         visited_map := if cfg.with_other_conjuncts then
             s.visited_map ++ ((List.range' pos
               (min (cfg.batch_size - s.current_offset) rows.length)).map
                 fun p => some (entry, p))
           else s.visited_map }) := by
  induction rows with
  | nil => intro pos s; cases s; simp [probe_row_match_loop]
  | cons r rest ih =>
    intro pos s
    by_cases h : s.current_offset < cfg.batch_size
    · have hk : min (cfg.batch_size - s.current_offset) (rest.length + 1) =
          min (cfg.batch_size - (s.current_offset + 1)) rest.length + 1 := by omega
      simp only [probe_row_match_loop, h, if_true, ih, List.length_cons, hk]
      cases hc : cfg.with_other_conjuncts <;>
        simp [emplace_element, List.range'_succ, Nat.add_assoc, Nat.add_comm 1,
          List.replicate_succ]
    · have hk : min (cfg.batch_size - s.current_offset) (rest.length + 1) = 0 := by omega
      cases s
      simp_all [probe_row_match_loop]

theorem mark_match_loop_eq (entry : Nat) (rows : List RowRef) :
    ∀ (pos : Nat) (s : ProbeState),
    mark_match_loop entry pos rows s =
       { s with
         build_block_offsets := s.build_block_offsets ++ rows.map RowRef.block_offset
         build_block_rows := s.build_block_rows ++ rows.map RowRef.row_num
         current_offset := s.current_offset + rows.length
         visited_map :=
             s.visited_map ++ ((List.range' pos rows.length).map fun p => some (entry, p)) } := by
  induction rows with
  | nil => intro pos s; cases s; simp [mark_match_loop]
  | cons r rest ih =>
    intro pos s
    simp only [mark_match_loop, ih]
    simp [emplace_element, List.range'_succ, Nat.add_assoc, Nat.add_comm 1]

theorem ok_eq_false_iff (it : ForwardIterator) : it.ok = false ↔ it.rest = [] := by
  cases it with
  | mk e p r => cases r <;> simp [ForwardIterator.ok]

theorem ok_eq_true_iff (it : ForwardIterator) : it.ok = true ↔ it.rest ≠ [] := by
  cases it with
  | mk e p r => cases r <;> simp [ForwardIterator.ok]

theorem resize_append_replicate {α : Type} (l : List α) (n : Nat) (v : α)
    (h : l.length ≤ n) : resize l n v = l ++ List.replicate (n - l.length) v := by
  simp [resize, List.take_of_length_le h]

theorem null_key_branch_summary (cfg : Config) (s : ProbeState)
    (_h1 : s.probe_indexs.length = s.current_offset)
    (hok : s.probe_row_match_iter.ok = false) (hc : s.current_offset < cfg.batch_size) :
    StepSummary cfg s (null_key_branch cfg s) := by
  unfold StepSummary null_key_branch
  cases hp : probe_all cfg.JoinOpType <;> cases ho : cfg.with_other_conjuncts <;>
    simp [emplace_element, hok] <;> omega

theorem finish_step_semi_summary (cfg : Config) (found : Bool) (s : ProbeState)
    (h1 : s.probe_indexs.length = s.current_offset)
    (hok : s.probe_row_match_iter.ok = false) (hc : s.current_offset < cfg.batch_size) :
    StepSummary cfg s (finish_step s.probe_index (semi_anti_branch cfg found s)) := by
  unfold StepSummary finish_step semi_anti_branch
  cases hm : cfg.is_mark_join <;>
    cases hg : xor (cfg.JoinOpType != TJoinOp.LEFT_SEMI_JOIN) found <;>
    simp [hok, h1, resize, hg] <;> omega

theorem finish_step_not_found_summary (cfg : Config) (s : ProbeState)
    (h1 : s.probe_indexs.length = s.current_offset)
    (hok : s.probe_row_match_iter.ok = false) (hc : s.current_offset < cfg.batch_size) :
    StepSummary cfg s (finish_step s.probe_index (not_found_branch cfg s)) := by
  unfold StepSummary finish_step not_found_branch
  split_ifs <;> simp [hok, h1, resize, emplace_element] <;> omega

theorem finish_step_found_summary (cfg : Config) (entry : Nat) (m : Mapped) (s : ProbeState)
    (h1 : s.probe_indexs.length = s.current_offset)
    (hok : s.probe_row_match_iter.ok = false) (hc : s.current_offset < cfg.batch_size) :
    StepSummary cfg s (finish_step s.probe_index (found_branch cfg entry m s)) := by
  unfold StepSummary finish_step found_branch
  simp only [found_match_loop_eq, mark_match_loop_eq]
  split_ifs <;> simp_all [resize, ok_eq_false_iff, ForwardIterator.ok] <;> omega

theorem probe_step_summary (cfg : Config) (probe : ProbeBatch) (s : ProbeState)
    (h1 : s.probe_indexs.length = s.current_offset)
    (hok : s.probe_row_match_iter.ok = false) (hc : s.current_offset < cfg.batch_size) :
    StepSummary cfg s (probe_step cfg probe s) := by
  unfold probe_step
  split_ifs with hn
  · exact null_key_branch_summary cfg s h1 hok hc
  · unfold dispatch
    split_ifs with hs
    · exact finish_step_semi_summary cfg _ s h1 hok hc
    · cases find_result cfg probe s.hash_table.entries s.probe_index with
      | none => exact finish_step_not_found_summary cfg s h1 hok hc
      | some e => exact finish_step_found_summary cfg e _ s h1 hok hc

theorem probe_step_inv (cfg : Config) (probe : ProbeBatch) (p0 : Nat) (s : ProbeState)
    (h : LoopInv cfg p0 s) (hc : s.current_offset < cfg.batch_size) :
    LoopInv cfg p0 (probe_step cfg probe s) := by
  obtain ⟨h1, h2, h3, h4, h7⟩ := h
  have hok : s.probe_row_match_iter.ok = false := by
    cases hk : s.probe_row_match_iter.ok
    · rfl
    · have := h2 hk; omega
  obtain ⟨g1, g2, g3, g4, g5, g6⟩ := probe_step_summary cfg probe s h1 hok hc
  have hle : (probe_step cfg probe s).probe_row_match_iter.ok.toNat ≤ 1 := Bool.toNat_le _
  refine ⟨?_, g4, g5, ?_, by omega⟩
  · rw [g2]; simp; omega
  · intro ha
    rw [g6] at ha
    simp at ha
    obtain ⟨ha1, ha2⟩ := ha
    obtain ⟨h5, h6⟩ := h4 ha1
    simp [hok] at h5
    refine ⟨by omega, ?_⟩
    rw [g2, ha2, h6]
    have : s.current_offset + 1 - s.current_offset = 1 := by omega
    rw [this, List.range'_concat, h5]
    simp

theorem probe_loop_stop (cfg : Config) (probe : ProbeBatch) (probe_rows fuel : Nat)
    (s : ProbeState)
    (h : ¬(s.current_offset < cfg.batch_size ∧ s.probe_index < probe_rows)) :
    probe_loop cfg probe probe_rows fuel s = s := by
  cases fuel with
  | zero => rfl
  | succ n =>
    simp only [probe_loop]
    split_ifs with hc
    · exact absurd (by simpa using hc) h
    · rfl

theorem probe_loop_step (cfg : Config) (probe : ProbeBatch) (probe_rows fuel : Nat)
    (s : ProbeState)
    (h : s.current_offset < cfg.batch_size ∧ s.probe_index < probe_rows) :
    probe_loop cfg probe probe_rows (fuel + 1) s =
      probe_loop cfg probe probe_rows fuel (probe_step cfg probe s) := by
  simp [probe_loop, h.1, h.2]

/-- Induction over the probe loop: a property that holds on entry and is kept by every
iteration taken under the loop condition holds on exit. -/
theorem probe_loop_induct (cfg : Config) (probe : ProbeBatch) (probe_rows : Nat)
    (I : ProbeState → Prop)
    (hstep : ∀ s, I s → s.current_offset < cfg.batch_size → s.probe_index < probe_rows →
      I (probe_step cfg probe s)) :
    ∀ (fuel : Nat) (s : ProbeState), I s → I (probe_loop cfg probe probe_rows fuel s) := by
  intro fuel
  induction fuel with
  | zero => intro s hs; exact hs
  | succ n ih =>
    intro s hs
    by_cases hc : s.current_offset < cfg.batch_size ∧ s.probe_index < probe_rows
    · rw [probe_loop_step _ _ _ _ _ hc]
      exact ih _ (hstep s hs hc.1 hc.2)
    · rw [probe_loop_stop _ _ _ _ _ hc]
      exact hs

theorem probe_loop_inv (cfg : Config) (probe : ProbeBatch) (probe_rows p0 fuel : Nat)
    (s : ProbeState) (h : LoopInv cfg p0 s) :
    LoopInv cfg p0 (probe_loop cfg probe probe_rows fuel s) :=
  probe_loop_induct cfg probe probe_rows (LoopInv cfg p0)
    (fun s hs hc _ => probe_step_inv cfg probe p0 s hs hc) fuel s h

/-- With `probe_rows - probe_index` iterations allowed the loop runs to its exit: the loop
condition is false in the state returned. -/
theorem probe_loop_exit (cfg : Config) (probe : ProbeBatch) (probe_rows p0 : Nat) :
    ∀ (fuel : Nat) (s : ProbeState), LoopInv cfg p0 s → probe_rows - s.probe_index ≤ fuel →
      ¬((probe_loop cfg probe probe_rows fuel s).current_offset < cfg.batch_size ∧
        (probe_loop cfg probe probe_rows fuel s).probe_index < probe_rows) := by
  intro fuel
  induction fuel with
  | zero => intro s _ hf; simp [probe_loop]; omega
  | succ n ih =>
    intro s hs hf
    by_cases hc : s.current_offset < cfg.batch_size ∧ s.probe_index < probe_rows
    · rw [probe_loop_step _ _ _ _ _ hc]
      have hok : s.probe_row_match_iter.ok = false := by
        cases hk : s.probe_row_match_iter.ok
        · rfl
        · have := hs.2.1 hk; omega
      obtain ⟨g1, g2, g3, g4, g5, g6⟩ := probe_step_summary cfg probe s hs.1 hok hc.1
      have hinv := probe_step_inv cfg probe p0 s hs hc.1
      cases hk : (probe_step cfg probe s).probe_row_match_iter.ok
      · simp [hk] at g3
        exact ih _ hinv (by omega)
      · have hb := g4 hk
        have hstop : ¬((probe_step cfg probe s).current_offset < cfg.batch_size ∧
            (probe_step cfg probe s).probe_index < probe_rows) := by omega
        rw [probe_loop_stop _ _ _ _ _ hstop]
        exact hstop
    · rw [probe_loop_stop _ _ _ _ _ hc]
      exact hc

theorem ok_drop (e p k : Nat) (l : List RowRef) :
    (ForwardIterator.mk e p (l.drop k)).ok = decide (k < l.length) := by
  simp only [ForwardIterator.ok]
  by_cases h : k < l.length
  · have : l.drop k ≠ [] := by simp; omega
    cases hd : l.drop k with
    | nil => exact absurd hd this
    | cons a b => simp [h]
  · have : l.drop k = [] := by simp; omega
    simp [this, h]

/-- The counters after `_probe_row_match` when an iterator was suspended: `k` tuples of the
resumed probe row are emitted, `k` being the smaller of the batch size and the number of
rows left. -/
theorem resume_probe_ok (cfg : Config) (s : ProbeState)
    (hok : s.probe_row_match_iter.ok = true) :
    let k := min cfg.batch_size s.probe_row_match_iter.rest.length
    let s' := resume_probe cfg s
    s'.current_offset = k ∧ s'.probe_indexs = List.replicate k s.probe_index ∧
    s'.probe_row_match_iter = ⟨s.probe_row_match_iter.entry, s.probe_row_match_iter.pos + k,
      s.probe_row_match_iter.rest.drop k⟩ ∧
    s'.probe_index = s.probe_index + (if k < s.probe_row_match_iter.rest.length then 0 else 1) ∧
    s'.all_match_one = (k == 1) ∧
    s'.build_block_offsets = (s.probe_row_match_iter.rest.take k).map RowRef.block_offset ∧
    s'.build_block_rows = (s.probe_row_match_iter.rest.take k).map RowRef.row_num ∧
    s'.row_count_from_last_probe = k ∧ s'.hash_table = s.hash_table ∧
    s'.mark_column = [] ∧ s'.multi_matched_output_row_count = 0 := by
  intro k s'
  have hs' : s' = resume_probe cfg s := rfl
  unfold resume_probe probe_row_match init_probe_side at hs'
  simp only [probe_row_match_loop_eq, hok, Bool.not_true, Bool.false_eq_true, if_false,
    ok_drop, Nat.sub_zero] at hs'
  have hk : min cfg.batch_size s.probe_row_match_iter.rest.length = k := rfl
  rw [hk] at hs'
  by_cases hlt : k < s.probe_row_match_iter.rest.length
  · simp only [hlt, decide_True, Bool.not_true, Bool.false_eq_true, if_false] at hs'
    rw [hs']
    split_ifs <;> simp
  · simp only [hlt, decide_False, Bool.not_false, if_true] at hs'
    rw [hs']
    split_ifs <;> simp

/-- Without a suspended iterator `_probe_row_match` returns at once. -/
theorem resume_probe_not_ok (cfg : Config) (s : ProbeState)
    (hok : s.probe_row_match_iter.ok = false) :
    resume_probe cfg s = init_probe_side cfg s := by
  unfold resume_probe probe_row_match
  have h1 : (init_probe_side cfg s).probe_row_match_iter = s.probe_row_match_iter := rfl
  have h2 : (init_probe_side cfg s).probe_size = 0 := rfl
  simp [h1, hok, h2]

theorem resume_probe_inv (cfg : Config) (s : ProbeState) :
    LoopInv cfg s.probe_index (resume_probe cfg s) := by
  cases hok : s.probe_row_match_iter.ok
  · rw [resume_probe_not_ok cfg s hok]
    simp [LoopInv, init_probe_side, hok]
  · obtain ⟨h1, h2, h3, h4, h5, -⟩ := resume_probe_ok cfg s hok
    rw [ok_eq_true_iff] at hok
    have hlen : 0 < s.probe_row_match_iter.rest.length := List.length_pos.mpr hok
    unfold LoopInv
    rw [h1, h2, h3, h4, h5, ok_drop]
    refine ⟨by simp, ?_, fun _ => by omega, ?_, by omega⟩
    · intro h; simp at h; omega
    · intro h
      simp at h
      rw [h]
      split_ifs with hlt <;> simp [hlt]

theorem resume_probe_probe_index_ge (cfg : Config) (s : ProbeState) :
    s.probe_index ≤ (resume_probe cfg s).probe_index := by
  cases hok : s.probe_row_match_iter.ok
  · rw [resume_probe_not_ok cfg s hok]; exact le_refl _
  · obtain ⟨-, -, -, h4, -⟩ := resume_probe_ok cfg s hok
    rw [h4]; omega

/-- The state after the probe loop satisfies the loop invariant, the loop condition is
false in it (the loop has run to its exit), and `probe_size` is as assigned. -/
theorem do_probe_inv (cfg : Config) (probe : ProbeBatch) (probe_rows : Nat) (s : ProbeState) :
    LoopInv cfg s.probe_index (do_probe cfg probe probe_rows s) ∧
    ¬((do_probe cfg probe probe_rows s).current_offset < cfg.batch_size ∧
      (do_probe cfg probe probe_rows s).probe_index < probe_rows) ∧
    (do_probe cfg probe probe_rows s).probe_size =
      (do_probe cfg probe probe_rows s).probe_index - s.probe_index +
        (do_probe cfg probe probe_rows s).probe_row_match_iter.ok.toNat := by
  have h0 := resume_probe_inv cfg s
  have h1 := probe_loop_inv cfg probe probe_rows s.probe_index
    (probe_rows - (resume_probe cfg s).probe_index) _ h0
  have h2 := probe_loop_exit cfg probe probe_rows s.probe_index
    (probe_rows - (resume_probe cfg s).probe_index) _ h0 (le_refl _)
  exact ⟨h1, h2, rfl⟩

/-! ## Row-count bound of the output block when the probe loop is capped -/

theorem filter_block_length_le {α : Type} (f : List Bool) (col : List α) :
    (filter_block f col).length ≤ col.length := by
  unfold filter_block
  rw [List.length_map]
  refine (List.length_filter_le _ _).trans ?_
  rw [List.length_zip]
  exact Nat.min_le_left _ _

theorem assemble_rows_le (cfg : Config) (p0 : Nat) (s : ProbeState)
    (hinv : LoopInv cfg p0 s)
    (hsize : s.probe_size = s.probe_index - p0 + s.probe_row_match_iter.ok.toNat)
    (hbound : s.current_offset ≤ cfg.batch_size) :
    (assemble cfg p0 s).2.rows ≤ cfg.batch_size := by
  obtain ⟨h1, h2, h3, h4, h5⟩ := hinv
  unfold assemble Block.rows probe_side_output_column
  simp only
  split_ifs with hw ha
  · obtain ⟨h6, -⟩ := h4 ha
    simp only [List.length_range']
    omega
  · simpa using hbound
  · simp

theorem do_other_join_conjuncts_rows_le (cfg : Config) (conj : OtherConjuncts)
    (s : ProbeState) (b : Block) :
    (do_other_join_conjuncts cfg conj s b).2.rows ≤ b.rows := by
  unfold do_other_join_conjuncts
  simp only [Block.rows]
  split_ifs <;> simp [filter_block_length_le]

theorem do_probe_with (cfg : Config) (probe : ProbeBatch) (probe_rows : Nat) (s : ProbeState)
    (x : Nat) :
    ({ do_probe cfg probe probe_rows s with probe_size := x }).current_offset =
      (do_probe cfg probe probe_rows s).current_offset := rfl

/-- In every mode and for every flag combination other than mark join together with other
conjuncts, the block `do_process` returns has at most `batch_size` rows. -/
theorem do_process_rows_le (cfg : Config) (conj : OtherConjuncts) (probe : ProbeBatch)
    (probe_rows : Nat) (s : ProbeState)
    (h : ¬(cfg.is_mark_join = true ∧ cfg.with_other_conjuncts = true)) :
    (do_process cfg conj probe probe_rows s).2.2.rows ≤ cfg.batch_size := by
  obtain ⟨hinv, -, hsize⟩ := do_probe_inv cfg probe probe_rows s
  have hb := hinv.2.2.1 h
  have ha := assemble_rows_le cfg s.probe_index _ hinv hsize hb
  unfold do_process
  simp only
  split_ifs
  · exact (do_other_join_conjuncts_rows_le cfg conj _ _).trans ha
  · exact ha


/-! ## The row-expanding modes without other conjuncts (C2, C3, C4, C7) -/

theorem find_key_skeleton (key : Int) :
    ∀ (e1 e2 : List (Int × Mapped)), skeleton e1 = skeleton e2 →
      find_key e1 key = find_key e2 key := by
  intro e1
  induction e1 with
  | nil => intro e2 h; cases e2 <;> simp_all [skeleton]
  | cons a t ih =>
    intro e2 h
    cases e2 with
    | nil => simp [skeleton] at h
    | cons b u =>
      simp only [skeleton, List.map_cons, List.cons.injEq, Prod.mk.injEq] at h
      obtain ⟨⟨hk, -⟩, ht⟩ := h
      simp only [find_key, hk, ih u ht]

theorem entry_rows_skeleton (i : Nat) :
    ∀ (e1 e2 : List (Int × Mapped)), skeleton e1 = skeleton e2 →
      entry_rows e1 i = entry_rows e2 i := by
  induction i with
  | zero =>
    intro e1 e2 h
    cases e1 <;> cases e2 <;> simp_all [skeleton, entry_rows]
  | succ n ih =>
    intro e1 e2 h
    cases e1 with
    | nil => cases e2 <;> simp_all [skeleton, entry_rows]
    | cons a t =>
      cases e2 with
      | nil => simp [skeleton] at h
      | cons b u =>
        simp only [skeleton, List.map_cons, List.cons.injEq] at h
        have := ih t u h.2
        simpa [entry_rows] using this

theorem find_result_skeleton (cfg : Config) (probe : ProbeBatch) (i : Nat)
    (e1 e2 : List (Int × Mapped)) (h : skeleton e1 = skeleton e2) :
    find_result cfg probe e1 i = find_result cfg probe e2 i := by
  unfold find_result
  rw [find_key_skeleton _ e1 e2 h]

theorem skeleton_set_key_visited (ht : HashTable) (entry : Nat) :
    skeleton (set_key_visited ht entry).entries = skeleton ht.entries := by
  unfold set_key_visited
  cases hg : ht.entries.get? entry with
  | none => rfl
  | some km =>
    obtain ⟨k, m⟩ := km
    simp only [skeleton]
    apply List.ext_getElem?
    intro i
    by_cases hi : i = entry
    · subst hi
      have hlt : i < ht.entries.length := by
        rw [List.get?_eq_getElem?] at hg
        exact (List.getElem?_eq_some_iff.mp hg).1
      rw [List.get?_eq_getElem?] at hg
      have hget : ht.entries[i] = (k, m) := (List.getElem?_eq_some_iff.mp hg).2
      simp [List.getElem?_map, List.getElem?_set, hlt, hget]
    · simp only [List.getElem?_map]
      rw [List.getElem?_set_ne (Ne.symm hi)]

theorem expands_rows_cases (op : TJoinOp) (h : expands_rows op = true) :
    is_left_semi_anti op = false ∧ is_right_semi_anti_join op = false ∧
    (op == TJoinOp.LEFT_ANTI_JOIN) = false ∧ (op == TJoinOp.NULL_AWARE_LEFT_ANTI_JOIN) = false ∧
    (op == TJoinOp.LEFT_SEMI_JOIN) = false := by
  cases op <;> simp_all [expands_rows, is_left_semi_anti, is_right_semi_anti_join]

/-- The found arm in a row-expanding mode without other conjuncts: `k` rows of the list are
emitted, `k` being the smaller of the room left in the batch and the list length. -/
theorem found_step_expand (cfg : Config) (entry : Nat) (m : Mapped) (s : ProbeState)
    (ho : cfg.with_other_conjuncts = false) (hm : expands_rows cfg.JoinOpType = true)
    (h1 : s.probe_indexs.length = s.current_offset) :
    let rows := m.rows.map Prod.fst
    let k := min (cfg.batch_size - s.current_offset) rows.length
    let s' := finish_step s.probe_index (found_branch cfg entry m s)
    s'.current_offset = s.current_offset + k ∧
    s'.probe_indexs = s.probe_indexs ++ List.replicate k s.probe_index ∧
    s'.build_block_offsets = s.build_block_offsets ++ (rows.take k).map RowRef.block_offset ∧
    s'.build_block_rows = s.build_block_rows ++ (rows.take k).map RowRef.row_num ∧
    s'.probe_row_match_iter = ⟨entry, k, rows.drop k⟩ ∧
    s'.probe_index = s.probe_index + (if k < rows.length then 0 else 1) ∧
    skeleton s'.hash_table.entries = skeleton s.hash_table.entries := by
  intro rows k s'
  obtain ⟨-, hr, -⟩ := expands_rows_cases _ hm
  have hs' : s' = finish_step s.probe_index (found_branch cfg entry m s) := rfl
  unfold finish_step found_branch at hs'
  simp only [found_match_loop_eq, ho, hr, Bool.and_false, Bool.false_eq_true, if_false,
    Bool.not_false, Bool.or_true, if_true, ok_drop, Nat.zero_add] at hs'
  have hk : min (cfg.batch_size - s.current_offset) (List.map Prod.fst m.rows).length = k := rfl
  rw [hk] at hs'
  have hrows : List.map Prod.fst m.rows = rows := rfl
  rw [hrows] at hs'
  by_cases hlt : k < rows.length
  · simp only [hlt, decide_True, Bool.not_true, Bool.false_eq_true, if_false] at hs'
    rw [hs']
    split_ifs <;> simp [resize, h1, skeleton_set_key_visited]
  · simp only [hlt, decide_False, Bool.not_false, if_true] at hs'
    rw [hs']
    split_ifs <;> simp [resize, h1, skeleton_set_key_visited]

theorem zip_replicate_rows (i : Nat) (l : List RowRef) :
    List.zip (List.replicate l.length i)
      (List.zipWith RowRef.mk (l.map RowRef.block_offset) (l.map RowRef.row_num)) =
    l.map fun r => (i, r) := by
  induction l with
  | nil => rfl
  | cons a t ih =>
    simp only [List.length_cons, List.replicate_succ, List.map_cons, List.zipWith_cons_cons,
      List.zip_cons_cons, ih]

theorem scratch_tuples_append (s s' : ProbeState) (i : Nat) (l : List RowRef)
    (h1 : s.probe_indexs.length = s.current_offset)
    (h2 : s.build_block_offsets.length = s.current_offset)
    (h3 : s.build_block_rows.length = s.current_offset)
    (g1 : s'.probe_indexs = s.probe_indexs ++ List.replicate l.length i)
    (g2 : s'.build_block_offsets = s.build_block_offsets ++ l.map RowRef.block_offset)
    (g3 : s'.build_block_rows = s.build_block_rows ++ l.map RowRef.row_num) :
    scratch_tuples s' = scratch_tuples s ++ l.map fun r => (i, r) := by
  unfold scratch_tuples
  rw [g1, g2, g3, List.zipWith_append _ _ _ _ _ (by omega), List.zip_append, zip_replicate_rows]
  simp [List.length_zipWith, h1, h2, h3]

theorem remaining_not_ok (cfg : Config) (probe : ProbeBatch) (entries : List (Int × Mapped))
    (probe_rows : Nat) (s : ProbeState) (hok : s.probe_row_match_iter.ok = false)
    (hlt : s.probe_index < probe_rows) :
    remaining cfg probe entries probe_rows s =
      row_tuples cfg probe entries s.probe_index ++
        (List.range' (s.probe_index + 1) (probe_rows - (s.probe_index + 1))).flatMap
          (row_tuples cfg probe entries) := by
  unfold remaining
  have hrest : s.probe_row_match_iter.rest = [] := (ok_eq_false_iff _).mp hok
  have hn : probe_rows - s.probe_index = (probe_rows - (s.probe_index + 1)) + 1 := by
    omega
  simp only [hok, hrest, List.map_nil, List.nil_append, Bool.toNat_false, Nat.add_zero]
  rw [hn, List.range'_succ, List.flatMap_cons]

/-- What `remaining` is after an iteration that examined probe row `i` and left `rest` of
its row list suspended (`rest = []` when the row was finished). -/
theorem remaining_after (cfg : Config) (probe : ProbeBatch) (entries : List (Int × Mapped))
    (probe_rows i : Nat) (s' : ProbeState) (e p : Nat) (rest : List RowRef)
    (hit : s'.probe_row_match_iter = ⟨e, p, rest⟩)
    (hidx : s'.probe_index = i + (if rest = [] then 1 else 0)) :
    remaining cfg probe entries probe_rows s' =
      (rest.map fun r => (i, r)) ++
        (List.range' (i + 1) (probe_rows - (i + 1))).flatMap (row_tuples cfg probe entries) := by
  unfold remaining
  rw [hit, hidx]
  cases rest with
  | nil => simp [ForwardIterator.ok]
  | cons a t => simp [ForwardIterator.ok]

/-- One iteration keeps `EmitInv`, given what it emitted (`l`) and what it left suspended
(`rest`) of the contribution of the probe row examined. -/
theorem emit_inv_step (cfg : Config) (probe : ProbeBatch) (entries : List (Int × Mapped))
    (probe_rows : Nat) (T : List (Nat × RowRef)) (s s' : ProbeState)
    (l rest : List RowRef) (e p : Nat)
    (hE : EmitInv cfg probe entries probe_rows T s)
    (h1 : s.probe_indexs.length = s.current_offset)
    (hok : s.probe_row_match_iter.ok = false) (hlt : s.probe_index < probe_rows)
    (hrow : row_tuples cfg probe entries s.probe_index =
      (l ++ rest).map fun r => (s.probe_index, r))
    (g0 : s'.current_offset = s.current_offset + l.length)
    (g1 : s'.probe_indexs = s.probe_indexs ++ List.replicate l.length s.probe_index)
    (g2 : s'.build_block_offsets = s.build_block_offsets ++ l.map RowRef.block_offset)
    (g3 : s'.build_block_rows = s.build_block_rows ++ l.map RowRef.row_num)
    (g4 : s'.probe_row_match_iter = ⟨e, p, rest⟩)
    (g5 : s'.probe_index = s.probe_index + (if rest = [] then 1 else 0))
    (g6 : skeleton s'.hash_table.entries = skeleton s.hash_table.entries) :
    EmitInv cfg probe entries probe_rows T s' := by
  obtain ⟨e1, e2, e3, e4⟩ := hE
  refine ⟨g6.trans e1, ?_, ?_, ?_⟩
  · rw [g2]; simp; omega
  · rw [g3]; simp; omega
  · rw [scratch_tuples_append s s' s.probe_index l h1 e2 e3 g1 g2 g3,
      remaining_after cfg probe entries probe_rows s.probe_index s' e p rest g4 g5, ← e4,
      remaining_not_ok cfg probe entries probe_rows s hok hlt, hrow]
    simp

theorem probe_step_emit (cfg : Config) (probe : ProbeBatch) (entries : List (Int × Mapped))
    (probe_rows p0 : Nat) (T : List (Nat × RowRef)) (s : ProbeState)
    (ho : cfg.with_other_conjuncts = false) (hm : expands_rows cfg.JoinOpType = true)
    (hL : LoopInv cfg p0 s) (hE : EmitInv cfg probe entries probe_rows T s)
    (hc : s.current_offset < cfg.batch_size) (hlt : s.probe_index < probe_rows) :
    EmitInv cfg probe entries probe_rows T (probe_step cfg probe s) := by
  have h1 := hL.1
  have hok : s.probe_row_match_iter.ok = false := by
    cases hk : s.probe_row_match_iter.ok
    · rfl
    · have := hL.2.1 hk; omega
  have hrest : s.probe_row_match_iter.rest = [] := (ok_eq_false_iff _).mp hok
  have hiter : (⟨s.probe_row_match_iter.entry, s.probe_row_match_iter.pos, []⟩ :
      ForwardIterator) = s.probe_row_match_iter := by
    rw [← hrest]
  obtain ⟨hsa, hrsa, ha1, ha2, ha3⟩ := expands_rows_cases _ hm
  unfold probe_step
  by_cases hn : is_ignored_null cfg probe s.probe_index = true
  · rw [if_pos hn]
    cases hp : probe_all cfg.JoinOpType
    · refine emit_inv_step cfg probe entries probe_rows T s _ [] []
        s.probe_row_match_iter.entry s.probe_row_match_iter.pos hE h1 hok hlt ?_
        ?_ ?_ ?_ ?_ ?_ ?_ ?_ <;> simp [row_tuples, hn, hp, null_key_branch, hiter]
    · refine emit_inv_step cfg probe entries probe_rows T s _ [⟨-1, -1⟩] []
        s.probe_row_match_iter.entry s.probe_row_match_iter.pos hE h1 hok hlt
        ?_ ?_ ?_ ?_ ?_ ?_ ?_ ?_ <;>
        simp [row_tuples, hn, hp, null_key_branch, ho, emplace_element, hiter]
  · rw [if_neg hn]
    have hfr := find_result_skeleton cfg probe s.probe_index _ _ hE.1
    unfold dispatch
    simp only [ho, hsa, Bool.not_false, Bool.and_false, Bool.false_eq_true, if_false]
    cases hf : find_result cfg probe s.hash_table.entries s.probe_index with
    | none =>
      rw [hf] at hfr
      simp only
      cases hp : probe_all cfg.JoinOpType
      · refine emit_inv_step cfg probe entries probe_rows T s _ [] []
          s.probe_row_match_iter.entry s.probe_row_match_iter.pos hE h1 hok hlt ?_
          ?_ ?_ ?_ ?_ ?_ ?_ ?_ <;>
          simp [row_tuples, hn, hp, ← hfr, not_found_branch, finish_step, ha1, ha2, ha3,
            resize, h1, hiter]
      · refine emit_inv_step cfg probe entries probe_rows T s _ [⟨-1, -1⟩] []
          s.probe_row_match_iter.entry s.probe_row_match_iter.pos hE h1 hok
          hlt ?_ ?_ ?_ ?_ ?_ ?_ ?_ ?_ <;>
          simp [row_tuples, hn, hp, ← hfr, not_found_branch, finish_step, ha1, ha2, ha3,
            resize, h1, ho, emplace_element, hiter]
    | some en =>
      rw [hf] at hfr
      simp only
      obtain ⟨f1, f2, f3, f4, f5, f6, f7⟩ :=
        found_step_expand cfg en (s.hash_table.entries.getD en (0, ⟨[], false⟩)).2 s ho hm h1
      have hrows : List.map Prod.fst (s.hash_table.entries.getD en (0, ⟨[], false⟩)).2.rows =
          entry_rows entries en := entry_rows_skeleton en _ _ hE.1
      rw [hrows] at f1 f2 f3 f4 f5 f6
      have hklen : (List.take (min (cfg.batch_size - s.current_offset)
          (entry_rows entries en).length) (entry_rows entries en)).length =
          min (cfg.batch_size - s.current_offset) (entry_rows entries en).length := by
        simp
      refine emit_inv_step cfg probe entries probe_rows T s _
        ((entry_rows entries en).take
          (min (cfg.batch_size - s.current_offset) (entry_rows entries en).length))
        ((entry_rows entries en).drop
          (min (cfg.batch_size - s.current_offset) (entry_rows entries en).length))
        _ _ hE h1 hok hlt ?_ ?_ ?_ f3 f4 f5 ?_ f7
      · simp [row_tuples, hn, ← hfr]
      · rw [f1, hklen]
      · rw [f2, hklen]
      · rw [f6]
        congr 1
        by_cases hk : min (cfg.batch_size - s.current_offset) (entry_rows entries en).length <
            (entry_rows entries en).length
        · have : ¬ (entry_rows entries en).length ≤
              min (cfg.batch_size - s.current_offset) (entry_rows entries en).length := by
            omega
          simp [hk, this]
        · have : (entry_rows entries en).length ≤
              min (cfg.batch_size - s.current_offset) (entry_rows entries en).length := by
            omega
          simp [hk, this]

theorem zip_replicate_rows_of_length (i n : Nat) (l : List RowRef) (h : l.length = n) :
    List.zip (List.replicate n i)
      (List.zipWith RowRef.mk (l.map RowRef.block_offset) (l.map RowRef.row_num)) =
    l.map fun r => (i, r) := by
  subst h
  exact zip_replicate_rows i l

theorem remaining_nil (cfg : Config) (probe : ProbeBatch) (entries : List (Int × Mapped))
    (probe_rows : Nat) (s : ProbeState) (hok : s.probe_row_match_iter.ok = false)
    (hge : probe_rows ≤ s.probe_index) :
    remaining cfg probe entries probe_rows s = [] := by
  unfold remaining
  have hz : probe_rows - (s.probe_index + 0) = 0 := by omega
  simp only [hok, (ok_eq_false_iff _).mp hok, Bool.toNat_false, hz, List.range'_zero,
    List.map_nil, List.flatMap_nil, List.append_nil]

theorem resume_probe_emit (cfg : Config) (probe : ProbeBatch) (probe_rows : Nat)
    (s : ProbeState) :
    EmitInv cfg probe s.hash_table.entries probe_rows
      (remaining cfg probe s.hash_table.entries probe_rows s) (resume_probe cfg s) := by
  cases hok : s.probe_row_match_iter.ok
  · rw [resume_probe_not_ok cfg s hok]
    refine ⟨rfl, rfl, rfl, ?_⟩
    simp [scratch_tuples, init_probe_side, remaining]
  · obtain ⟨h1, h2, h3, h4, -, h6, h7, -, h9, -⟩ := resume_probe_ok cfg s hok
    have hklen : (List.take (min cfg.batch_size s.probe_row_match_iter.rest.length)
        s.probe_row_match_iter.rest).length =
        min cfg.batch_size s.probe_row_match_iter.rest.length := by simp
    refine ⟨by rw [h9], by rw [h6, h1]; simp, by rw [h7, h1]; simp, ?_⟩
    have hs : scratch_tuples (resume_probe cfg s) =
        (List.take (min cfg.batch_size s.probe_row_match_iter.rest.length)
          s.probe_row_match_iter.rest).map fun r => (s.probe_index, r) := by
      unfold scratch_tuples
      rw [h2, h6, h7]
      exact zip_replicate_rows_of_length _ _ _ hklen
    have hr := remaining_after cfg probe s.hash_table.entries probe_rows s.probe_index
      (resume_probe cfg s) _ _ _ h3 (by
        rw [h4]
        congr 1
        by_cases hk : min cfg.batch_size s.probe_row_match_iter.rest.length <
            s.probe_row_match_iter.rest.length
        · have : ¬ s.probe_row_match_iter.rest.length ≤
              min cfg.batch_size s.probe_row_match_iter.rest.length := by omega
          simp [hk, this]
        · have : s.probe_row_match_iter.rest.length ≤
              min cfg.batch_size s.probe_row_match_iter.rest.length := by omega
          simp [hk, this])
    rw [hs, hr]
    unfold remaining
    rw [hok]
    simp only [Bool.toNat_true, ← List.append_assoc, ← List.map_append, List.take_append_drop]

theorem scratch_tuples_length (s : ProbeState)
    (h1 : s.probe_indexs.length = s.current_offset)
    (h2 : s.build_block_offsets.length = s.current_offset)
    (h3 : s.build_block_rows.length = s.current_offset) :
    (scratch_tuples s).length = s.current_offset := by
  simp [scratch_tuples, h1, h2, h3]

/-- One call in a row-expanding mode without other conjuncts: the scratch vectors hold the
first `batch_size` of the tuples that were still to be emitted, and the rest is still to
be emitted afterwards. -/
theorem do_probe_emit (cfg : Config) (probe : ProbeBatch) (probe_rows : Nat) (s : ProbeState)
    (ho : cfg.with_other_conjuncts = false) (hm : expands_rows cfg.JoinOpType = true) :
    scratch_tuples (do_probe cfg probe probe_rows s) =
      (remaining cfg probe s.hash_table.entries probe_rows s).take cfg.batch_size ∧
    remaining cfg probe s.hash_table.entries probe_rows (do_probe cfg probe probe_rows s) =
      (remaining cfg probe s.hash_table.entries probe_rows s).drop cfg.batch_size ∧
    skeleton (do_probe cfg probe probe_rows s).hash_table.entries =
      skeleton s.hash_table.entries ∧
    (do_probe cfg probe probe_rows s).build_block_offsets.length =
      (do_probe cfg probe probe_rows s).current_offset ∧
    (do_probe cfg probe probe_rows s).build_block_rows.length =
      (do_probe cfg probe probe_rows s).current_offset := by
  obtain ⟨hL, hex, -⟩ := do_probe_inv cfg probe probe_rows s
  have hE : EmitInv cfg probe s.hash_table.entries probe_rows
      (remaining cfg probe s.hash_table.entries probe_rows s)
      (do_probe cfg probe probe_rows s) := by
    have := probe_loop_induct cfg probe probe_rows
      (fun t => LoopInv cfg s.probe_index t ∧ EmitInv cfg probe s.hash_table.entries probe_rows
        (remaining cfg probe s.hash_table.entries probe_rows s) t)
      (fun t ht hc hlt => ⟨probe_step_inv cfg probe _ t ht.1 hc,
        probe_step_emit cfg probe _ probe_rows _ _ t ho hm ht.1 ht.2 hc hlt⟩)
      (probe_rows - (resume_probe cfg s).probe_index) (resume_probe cfg s)
      ⟨resume_probe_inv cfg s, resume_probe_emit cfg probe probe_rows s⟩
    exact this.2
  obtain ⟨e1, e2, e3, e4⟩ := hE
  obtain ⟨l1, l2, l3, -, -⟩ := hL
  have hb := l3 (by simp [ho])
  have hlen := scratch_tuples_length _ l1 e2 e3
  refine ⟨?_, ?_, e1, e2, e3⟩
  · by_cases hc : (do_probe cfg probe probe_rows s).current_offset < cfg.batch_size
    · have hidx : ¬ (do_probe cfg probe probe_rows s).probe_index < probe_rows :=
        fun h => hex ⟨hc, h⟩
      have hok : (do_probe cfg probe probe_rows s).probe_row_match_iter.ok = false := by
        cases hk : (do_probe cfg probe probe_rows s).probe_row_match_iter.ok
        · rfl
        · have := l2 hk; omega
      have hrem : remaining cfg probe s.hash_table.entries probe_rows
          (do_probe cfg probe probe_rows s) = [] :=
        remaining_nil cfg probe _ probe_rows _ hok (by omega)
      rw [hrem, List.append_nil] at e4
      rw [← e4, List.take_of_length_le (by omega)]
    · have : (do_probe cfg probe probe_rows s).current_offset = cfg.batch_size := by omega
      rw [← e4, List.take_left' (by omega)]
  · by_cases hc : (do_probe cfg probe probe_rows s).current_offset < cfg.batch_size
    · have hidx : ¬ (do_probe cfg probe probe_rows s).probe_index < probe_rows :=
        fun h => hex ⟨hc, h⟩
      have hok : (do_probe cfg probe probe_rows s).probe_row_match_iter.ok = false := by
        cases hk : (do_probe cfg probe probe_rows s).probe_row_match_iter.ok
        · rfl
        · have := l2 hk; omega
      have hrem : remaining cfg probe s.hash_table.entries probe_rows
          (do_probe cfg probe probe_rows s) = [] :=
        remaining_nil cfg probe _ probe_rows _ hok (by omega)
      rw [hrem, List.append_nil] at e4
      rw [hrem, ← e4, List.drop_of_length_le (by omega)]
    · have : (do_probe cfg probe probe_rows s).current_offset = cfg.batch_size := by omega
      rw [← e4, List.drop_left' (by omega)]

theorem row_tuples_skeleton (cfg : Config) (probe : ProbeBatch) (i : Nat)
    (e1 e2 : List (Int × Mapped)) (h : skeleton e1 = skeleton e2) :
    row_tuples cfg probe e1 i = row_tuples cfg probe e2 i := by
  unfold row_tuples
  rw [find_result_skeleton cfg probe i e1 e2 h]
  cases find_result cfg probe e2 i with
  | none => rfl
  | some e => simp only [entry_rows_skeleton e e1 e2 h]

theorem remaining_skeleton (cfg : Config) (probe : ProbeBatch) (probe_rows : Nat)
    (s : ProbeState) (e1 e2 : List (Int × Mapped)) (h : skeleton e1 = skeleton e2) :
    remaining cfg probe e1 probe_rows s = remaining cfg probe e2 probe_rows s := by
  unfold remaining
  have : row_tuples cfg probe e1 = row_tuples cfg probe e2 :=
    funext fun i => row_tuples_skeleton cfg probe i e1 e2 h
  rw [this]

theorem range_map_getD {α : Type} (l : List α) (d : α) (n : Nat) (h : l.length = n) :
    ((List.range n).map fun i => l.getD i d) = l := by
  subst h
  apply List.ext_getElem
  · simp
  · intro i h1 h2
    simp at h1
    simp [List.getElem?_eq_getElem h1]

theorem range_map_rowref (bo br : List Int) (n : Nat) (h1 : bo.length = n)
    (h2 : br.length = n) :
    ((List.range n).map fun j => (⟨bo.getD j 0, br.getD j 0⟩ : RowRef)) =
      List.zipWith RowRef.mk bo br := by
  apply List.ext_getElem
  · simp [h1, h2]
  · intro i g1 g2
    simp at g1
    have g3 : i < bo.length := h1 ▸ g1
    have g4 : i < br.length := h2 ▸ g1
    simp [List.getElem?_eq_getElem g3, List.getElem?_eq_getElem g4]

/-- Soundness of the assembly in a mode that writes both sides: the rows of the assembled
block are the scratch tuples, whether the probe side was range-copied or gathered. -/
theorem assemble_tuples (cfg : Config) (p0 : Nat) (s : ProbeState)
    (hinv : LoopInv cfg p0 s)
    (hsize : s.probe_size = s.probe_index - p0 + s.probe_row_match_iter.ok.toNat)
    (h2 : s.build_block_offsets.length = s.current_offset)
    (h3 : s.build_block_rows.length = s.current_offset)
    (hb : (!is_semi_anti_join cfg.JoinOpType || cfg.with_other_conjuncts) = true) :
    (assemble cfg p0 s).2.tuples = scratch_tuples s := by
  obtain ⟨l1, l2, l3, l4, l5⟩ := hinv
  have hw : (cfg.with_other_conjuncts || (cfg.JoinOpType != TJoinOp.RIGHT_SEMI_JOIN &&
      cfg.JoinOpType != TJoinOp.RIGHT_ANTI_JOIN)) = true := by
    cases hc : cfg.with_other_conjuncts
    · cases hop : cfg.JoinOpType <;> simp_all [is_semi_anti_join]
    · simp
  unfold assemble Block.tuples scratch_tuples build_side_output_column
    probe_side_output_column
  simp only [hb, hw, if_true]
  rw [range_map_rowref _ _ _ h2 h3]
  congr 1
  split_ifs with ha
  · obtain ⟨h6, h7⟩ := l4 ha
    rw [h7, hsize]
    congr 1
    omega
  · exact range_map_getD _ _ _ l1

theorem assemble_state (cfg : Config) (p0 : Nat) (s : ProbeState) :
    (assemble cfg p0 s).1.probe_index = s.probe_index ∧
    (assemble cfg p0 s).1.probe_row_match_iter = s.probe_row_match_iter ∧
    (assemble cfg p0 s).1.hash_table = s.hash_table := by
  unfold assemble
  simp only
  split_ifs <;> exact ⟨rfl, rfl, rfl⟩

theorem remaining_congr_state (cfg : Config) (probe : ProbeBatch)
    (entries : List (Int × Mapped)) (probe_rows : Nat) (s t : ProbeState)
    (h1 : t.probe_index = s.probe_index)
    (h2 : t.probe_row_match_iter = s.probe_row_match_iter) :
    remaining cfg probe entries probe_rows t = remaining cfg probe entries probe_rows s := by
  unfold remaining
  rw [h1, h2]

/-- The probe index never passes `probe_rows`, and stays below it while an iterator is
suspended. -/
theorem do_probe_within (cfg : Config) (probe : ProbeBatch) (probe_rows : Nat)
    (s : ProbeState) (h : s.probe_index + s.probe_row_match_iter.ok.toNat ≤ probe_rows) :
    (do_probe cfg probe probe_rows s).probe_index +
      (do_probe cfg probe probe_rows s).probe_row_match_iter.ok.toNat ≤ probe_rows := by
  have h0 : (resume_probe cfg s).probe_index +
      (resume_probe cfg s).probe_row_match_iter.ok.toNat ≤ probe_rows := by
    cases hok : s.probe_row_match_iter.ok
    · rw [resume_probe_not_ok cfg s hok]
      simpa [init_probe_side] using h
    · obtain ⟨-, -, h3, h4, -⟩ := resume_probe_ok cfg s hok
      rw [h3, h4, ok_drop]
      rw [hok] at h
      simp only [Bool.toNat_true] at h
      split_ifs with hk <;> simp [hk] <;> omega
  have := probe_loop_induct cfg probe probe_rows
    (fun t => LoopInv cfg s.probe_index t ∧
      t.probe_index + t.probe_row_match_iter.ok.toNat ≤ probe_rows)
    (fun t ht hc hlt => by
      have hok : t.probe_row_match_iter.ok = false := by
        cases hk : t.probe_row_match_iter.ok
        · rfl
        · have := ht.1.2.1 hk; omega
      obtain ⟨-, -, g3, -⟩ := probe_step_summary cfg probe t ht.1.1 hok hc
      exact ⟨probe_step_inv cfg probe _ t ht.1 hc, by omega⟩)
    (probe_rows - (resume_probe cfg s).probe_index) (resume_probe cfg s)
    ⟨resume_probe_inv cfg s, h0⟩
  exact this.2

/-- One `do_process` call in a row-expanding mode without other conjuncts, `T` being the
tuples still to be emitted on entry: the output block holds the first `batch_size` tuples
of `T`, the rest of `T` is still to be emitted, and when `T` is shorter than `batch_size`
every probe row has been examined. -/
theorem do_process_expand (cfg : Config) (conj : OtherConjuncts) (probe : ProbeBatch)
    (probe_rows : Nat) (s : ProbeState)
    (ho : cfg.with_other_conjuncts = false) (hm : expands_rows cfg.JoinOpType = true) :
    (do_process cfg conj probe probe_rows s).1 = Status.OK ∧
    (do_process cfg conj probe probe_rows s).2.2.tuples =
      (remaining cfg probe s.hash_table.entries probe_rows s).take cfg.batch_size ∧
    remaining cfg probe s.hash_table.entries probe_rows
        (do_process cfg conj probe probe_rows s).2.1 =
      (remaining cfg probe s.hash_table.entries probe_rows s).drop cfg.batch_size ∧
    skeleton (do_process cfg conj probe probe_rows s).2.1.hash_table.entries =
      skeleton s.hash_table.entries ∧
    (s.probe_index + s.probe_row_match_iter.ok.toNat ≤ probe_rows →
      (do_process cfg conj probe probe_rows s).2.1.probe_index +
        (do_process cfg conj probe probe_rows s).2.1.probe_row_match_iter.ok.toNat
          ≤ probe_rows) ∧
    ((remaining cfg probe s.hash_table.entries probe_rows s).length < cfg.batch_size →
      probe_rows ≤ (do_process cfg conj probe probe_rows s).2.1.probe_index ∧
      (do_process cfg conj probe probe_rows s).2.1.probe_row_match_iter.ok = false) := by
  obtain ⟨hL, hex, hsize⟩ := do_probe_inv cfg probe probe_rows s
  obtain ⟨e1, e2, e3, e4, e5⟩ := do_probe_emit cfg probe probe_rows s ho hm
  obtain ⟨a1, a2, a3⟩ := assemble_state cfg s.probe_index (do_probe cfg probe probe_rows s)
  have hb : (!is_semi_anti_join cfg.JoinOpType || cfg.with_other_conjuncts) = true := by
    cases hop : cfg.JoinOpType <;> simp_all [is_semi_anti_join, expands_rows,
      is_left_semi_anti, is_right_semi_anti_join]
  have ht := assemble_tuples cfg s.probe_index _ hL hsize e4 e5 hb
  have hdo : do_process cfg conj probe probe_rows s =
      (Status.OK, (assemble cfg s.probe_index (do_probe cfg probe probe_rows s)).1,
        (assemble cfg s.probe_index (do_probe cfg probe probe_rows s)).2) := by
    unfold do_process
    simp [ho]
  rw [hdo]
  refine ⟨rfl, by rw [ht, e1], ?_, by rw [a3, e3], ?_, ?_⟩
  · rw [remaining_congr_state _ _ _ _ _ _ a1 a2, e2]
  · intro hw
    simp only [a1, a2]
    exact do_probe_within cfg probe probe_rows s hw
  · intro hlen
    simp only [a1, a2]
    have hlen' := scratch_tuples_length _ hL.1 e4 e5
    rw [e1, List.length_take] at hlen'
    have hc : (do_probe cfg probe probe_rows s).current_offset < cfg.batch_size := by omega
    have hok : (do_probe cfg probe probe_rows s).probe_row_match_iter.ok = false := by
      cases hk : (do_probe cfg probe probe_rows s).probe_row_match_iter.ok
      · rfl
      · have := hL.2.1 hk; omega
    refine ⟨?_, hok⟩
    by_contra hcon
    exact hex ⟨hc, by omega⟩

theorem process_eq_do_process (cfg : Config) (conj : OtherConjuncts) (probe : ProbeBatch)
    (probe_rows : Nat) (s : ProbeState) (b : Block)
    (ho : cfg.with_other_conjuncts = false) :
    process cfg conj probe probe_rows s b = do_process cfg conj probe probe_rows s := by
  have hcfg : { cfg with with_other_conjuncts := false } = cfg := by
    cases cfg; simp_all
  unfold process
  rw [hcfg]
  simp [ho]

theorem batch_exhausted_iff (probe_rows : Nat) (s : ProbeState) :
    batch_exhausted probe_rows s = true ↔
      s.probe_index = probe_rows ∧ s.probe_row_match_iter.ok = false := by
  simp [batch_exhausted]

/-- Repeated calls in a row-expanding mode without other conjuncts, with `batch_size ≥ 1`:
given enough calls the batch is exhausted, and the output blocks concatenated are the tuples
that were still to be emitted at the start. -/
theorem process_until_exhausted_expand (cfg : Config) (conj : OtherConjuncts)
    (probe : ProbeBatch) (probe_rows : Nat)
    (ho : cfg.with_other_conjuncts = false) (hm : expands_rows cfg.JoinOpType = true)
    (hb : 1 ≤ cfg.batch_size) :
    ∀ (fuel : Nat) (s : ProbeState),
      s.probe_index + s.probe_row_match_iter.ok.toNat ≤ probe_rows →
      (remaining cfg probe s.hash_table.entries probe_rows s).length +
        (if batch_exhausted probe_rows s then 0 else 1) ≤ fuel →
      concat_tuples (process_until_exhausted cfg conj probe probe_rows fuel s).1 =
        remaining cfg probe s.hash_table.entries probe_rows s ∧
      batch_exhausted probe_rows
        (process_until_exhausted cfg conj probe probe_rows fuel s).2 = true := by
  intro fuel
  induction fuel with
  | zero =>
    intro s _ hf
    have hex : batch_exhausted probe_rows s = true := by
      by_contra hne
      simp [hne] at hf
    simp only [hex, if_true, Nat.add_zero, Nat.le_zero, List.length_eq_zero] at hf
    simp [process_until_exhausted, concat_tuples, hf, hex]
  | succ n ih =>
    intro s hw hf
    by_cases hex : batch_exhausted probe_rows s = true
    · have hrem : remaining cfg probe s.hash_table.entries probe_rows s = [] := by
        obtain ⟨h1, h2⟩ := (batch_exhausted_iff _ _).mp hex
        exact remaining_nil cfg probe _ probe_rows s h2 (by omega)
      simp [process_until_exhausted, hex, concat_tuples, hrem]
    · simp only [hex, Bool.false_eq_true, if_false] at hf
      obtain ⟨-, p2, p3, p4, p5, p6⟩ := do_process_expand cfg conj probe probe_rows s ho hm
      have hrem' := remaining_skeleton cfg probe probe_rows
        (do_process cfg conj probe probe_rows s).2.1 _ _ p4
      have hmeasure : (remaining cfg probe
          (do_process cfg conj probe probe_rows s).2.1.hash_table.entries probe_rows
          (do_process cfg conj probe probe_rows s).2.1).length +
          (if batch_exhausted probe_rows (do_process cfg conj probe probe_rows s).2.1
            then 0 else 1) ≤ n := by
        rw [hrem', p3, List.length_drop]
        by_cases hlen : (remaining cfg probe s.hash_table.entries probe_rows s).length = 0
        · obtain ⟨q1, q2⟩ := p6 (by omega)
          have q3 := p5 hw
          have : batch_exhausted probe_rows (do_process cfg conj probe probe_rows s).2.1
              = true := by
            rw [batch_exhausted_iff]
            rw [q2] at q3
            simp at q3
            exact ⟨by omega, q2⟩
          simp [this, hlen]
        · split_ifs <;> omega
      obtain ⟨i1, i2⟩ := ih _ (p5 hw) hmeasure
      simp only [process_until_exhausted, hex, Bool.false_eq_true, if_false,
        process_eq_do_process cfg conj probe probe_rows s Block.empty ho]
      refine ⟨?_, i2⟩
      simp only [concat_tuples, List.flatMap_cons] at i1 ⊢
      rw [i1, p2, hrem', p3, List.take_append_drop]

theorem do_process_expand_rows (cfg : Config) (conj : OtherConjuncts) (probe : ProbeBatch)
    (probe_rows : Nat) (s : ProbeState)
    (ho : cfg.with_other_conjuncts = false) (hm : expands_rows cfg.JoinOpType = true) :
    (do_process cfg conj probe probe_rows s).2.2.rows =
      min cfg.batch_size (remaining cfg probe s.hash_table.entries probe_rows s).length := by
  obtain ⟨hL, -, -⟩ := do_probe_inv cfg probe probe_rows s
  obtain ⟨e1, -, -, e4, e5⟩ := do_probe_emit cfg probe probe_rows s ho hm
  have hlen := scratch_tuples_length _ hL.1 e4 e5
  rw [e1, List.length_take] at hlen
  have hdo : do_process cfg conj probe probe_rows s =
      (Status.OK, (assemble cfg s.probe_index (do_probe cfg probe probe_rows s)).1,
        (assemble cfg s.probe_index (do_probe cfg probe probe_rows s)).2) := by
    unfold do_process
    simp [ho]
  have hw : (cfg.with_other_conjuncts || (cfg.JoinOpType != TJoinOp.RIGHT_SEMI_JOIN &&
      cfg.JoinOpType != TJoinOp.RIGHT_ANTI_JOIN)) = true := by
    cases hop : cfg.JoinOpType <;> simp_all [expands_rows, is_right_semi_anti_join]
  obtain ⟨l1, l2, l3, l4, l5⟩ := hL
  rw [hdo, hlen]
  unfold assemble Block.rows probe_side_output_column
  simp only [hw, if_true]
  split_ifs with ha
  · obtain ⟨h6, -⟩ := l4 ha
    simp only [List.length_range', do_probe]
    simp only [do_probe] at h6 l5
    omega
  · simp

theorem remaining_fresh_inner (cfg : Config) (probe : ProbeBatch) (ht : HashTable)
    (probe_rows : Nat) (hop : cfg.JoinOpType = TJoinOp.INNER_JOIN) :
    remaining cfg probe ht.entries probe_rows (ProbeState.fresh ht) =
      inner_join_spec ht probe cfg.need_null_map_for_probe probe_rows := by
  unfold remaining inner_join_spec
  simp only [ProbeState.fresh, ForwardIterator.empty, ForwardIterator.ok, List.isEmpty_nil,
    Bool.not_true, Bool.toNat_false, List.map_nil, List.nil_append, Nat.add_zero,
    Nat.sub_zero, List.range_eq_range']
  congr 1
  funext i
  unfold row_tuples is_ignored_null find_result
  rw [hop]
  generalize find_key ht.entries (probe.keys.getD i 0) = fk
  cases cfg.ignore_null <;> cases cfg.need_null_map_for_probe <;>
    cases probe.null_map.getD i false <;> cases fk <;> simp [probe_all]

theorem fresh_within (ht : HashTable) (probe_rows : Nat) :
    (ProbeState.fresh ht).probe_index +
      (ProbeState.fresh ht).probe_row_match_iter.ok.toNat ≤ probe_rows := by
  simp [ProbeState.fresh, ForwardIterator.empty, ForwardIterator.ok]

/-- C2: INNER join without other conjuncts, `batch_size ≥ 1`. Calling `process` repeatedly
on one probe batch, starting from the fresh state, until `probe_index == probe_rows` with no
iterator suspended: any number of calls allowed beyond the size of the result is enough to
reach that state, and then the emitted (probe row, block_offset, row_num) tuples,
concatenated in call order, are exactly the row lists of the probe rows' keys, for the probe
rows in order and each list in row-list order, with nothing for a null or absent key. -/
theorem C2_inner_join_complete (cfg : Config) (conj : OtherConjuncts) (probe : ProbeBatch)
    (probe_rows : Nat) (ht : HashTable) (fuel : Nat)
    (hop : cfg.JoinOpType = TJoinOp.INNER_JOIN)
    (ho : cfg.with_other_conjuncts = false)
    (hb : 1 ≤ cfg.batch_size)
    (hfuel : (inner_join_spec ht probe cfg.need_null_map_for_probe probe_rows).length + 1
      ≤ fuel) :
    concat_tuples
        (process_until_exhausted cfg conj probe probe_rows fuel (ProbeState.fresh ht)).1 =
      inner_join_spec ht probe cfg.need_null_map_for_probe probe_rows ∧
    batch_exhausted probe_rows
        (process_until_exhausted cfg conj probe probe_rows fuel (ProbeState.fresh ht)).2 =
      true := by
  have hm : expands_rows cfg.JoinOpType = true := by rw [hop]; rfl
  have hr := remaining_fresh_inner cfg probe ht probe_rows hop
  have hrun := process_until_exhausted_expand cfg conj probe probe_rows ho hm hb fuel
    (ProbeState.fresh ht) (fresh_within ht probe_rows) (by
      have : (ProbeState.fresh ht).hash_table = ht := rfl
      rw [this, hr]
      split_ifs <;> omega)
  have : (ProbeState.fresh ht).hash_table = ht := rfl
  rw [this, hr] at hrun
  exact hrun

theorem C2_inner_join_complete_witness :
    (⟨TJoinOp.INNER_JOIN, 2, false, false, false, false⟩ : Config).JoinOpType =
      TJoinOp.INNER_JOIN ∧
    (⟨TJoinOp.INNER_JOIN, 2, false, false, false, false⟩ : Config).with_other_conjuncts =
      false ∧
    1 ≤ (⟨TJoinOp.INNER_JOIN, 2, false, false, false, false⟩ : Config).batch_size ∧
    (inner_join_spec ⟨RowRefKind.RowRefList,
        [(1, ⟨[(⟨0, 0⟩, false)], false⟩), (2, ⟨[(⟨0, 1⟩, false)], false⟩),
         (3, ⟨[(⟨0, 2⟩, false)], false⟩)]⟩ ⟨[3, 1, 1, 4], []⟩ false 4).length + 1 ≤ 4 ∧
    concat_tuples
        (process_until_exhausted ⟨TJoinOp.INNER_JOIN, 2, false, false, false, false⟩
          (fun _ _ => true) ⟨[3, 1, 1, 4], []⟩ 4 4
          (ProbeState.fresh ⟨RowRefKind.RowRefList,
            [(1, ⟨[(⟨0, 0⟩, false)], false⟩), (2, ⟨[(⟨0, 1⟩, false)], false⟩),
             (3, ⟨[(⟨0, 2⟩, false)], false⟩)]⟩)).1 =
      [(0, ⟨0, 2⟩), (1, ⟨0, 0⟩), (2, ⟨0, 0⟩)] :=
  ⟨rfl, rfl, by decide, by decide,
    (C2_inner_join_complete ⟨TJoinOp.INNER_JOIN, 2, false, false, false, false⟩
      (fun _ _ => true) ⟨[3, 1, 1, 4], []⟩ 4 ⟨RowRefKind.RowRefList,
        [(1, ⟨[(⟨0, 0⟩, false)], false⟩), (2, ⟨[(⟨0, 1⟩, false)], false⟩),
         (3, ⟨[(⟨0, 2⟩, false)], false⟩)]⟩ 4 rfl rfl (by decide) (by decide)).1.trans
      (by decide)⟩

/-- C3: resumption fidelity without other conjuncts, for INNER, LEFT_OUTER, FULL_OUTER and
RIGHT_OUTER and every `batch_size ≥ 1`. Successive `process` calls from the fresh state
exhaust the probe batch after finitely many calls, and the tuples they emit, concatenated,
are the tuples a single call emits whose batch size is at least the total output size. -/
theorem C3_resumption_fidelity (cfg : Config) (conj : OtherConjuncts) (probe : ProbeBatch)
    (probe_rows : Nat) (ht : HashTable)
    (hm : expands_rows cfg.JoinOpType = true)
    (ho : cfg.with_other_conjuncts = false)
    (hb : 1 ≤ cfg.batch_size) :
    ∃ n, ∀ fuel, n ≤ fuel →
      batch_exhausted probe_rows
        (process_until_exhausted cfg conj probe probe_rows fuel (ProbeState.fresh ht)).2 =
          true ∧
      ∀ B, (concat_tuples (process_until_exhausted cfg conj probe probe_rows fuel
          (ProbeState.fresh ht)).1).length ≤ B →
        (process { cfg with batch_size := B } conj probe probe_rows (ProbeState.fresh ht)
          Block.empty).2.2.tuples =
        concat_tuples (process_until_exhausted cfg conj probe probe_rows fuel
          (ProbeState.fresh ht)).1 := by
  refine ⟨(remaining cfg probe ht.entries probe_rows (ProbeState.fresh ht)).length + 1, ?_⟩
  intro fuel hfuel
  have hrun := process_until_exhausted_expand cfg conj probe probe_rows ho hm hb fuel
    (ProbeState.fresh ht) (fresh_within ht probe_rows) (by
      have : (ProbeState.fresh ht).hash_table = ht := rfl
      rw [this]
      split_ifs <;> omega)
  have hht : (ProbeState.fresh ht).hash_table = ht := rfl
  rw [hht] at hrun
  refine ⟨hrun.2, ?_⟩
  intro B hB
  rw [hrun.1] at hB ⊢
  rw [process_eq_do_process _ conj probe probe_rows _ Block.empty (by exact ho)]
  have hsingle := (do_process_expand { cfg with batch_size := B } conj probe probe_rows
    (ProbeState.fresh ht) ho hm).2.1
  rw [hsingle, hht]
  exact List.take_of_length_le hB

theorem C3_resumption_fidelity_witness :
    expands_rows (⟨TJoinOp.RIGHT_OUTER_JOIN, 2, false, false, false, false⟩ :
      Config).JoinOpType = true ∧
    (⟨TJoinOp.RIGHT_OUTER_JOIN, 2, false, false, false, false⟩ :
      Config).with_other_conjuncts = false ∧
    1 ≤ (⟨TJoinOp.RIGHT_OUTER_JOIN, 2, false, false, false, false⟩ : Config).batch_size ∧
    ∃ n, ∀ fuel, n ≤ fuel →
      batch_exhausted 3
        (process_until_exhausted ⟨TJoinOp.RIGHT_OUTER_JOIN, 2, false, false, false, false⟩
          (fun _ _ => true) ⟨[7, 8, 7], []⟩ 3 fuel
          (ProbeState.fresh (single_key_table RowRefKind.RowRefListWithFlag 7 3))).2 = true ∧
      ∀ B, (concat_tuples (process_until_exhausted
          ⟨TJoinOp.RIGHT_OUTER_JOIN, 2, false, false, false, false⟩
          (fun _ _ => true) ⟨[7, 8, 7], []⟩ 3 fuel
          (ProbeState.fresh (single_key_table RowRefKind.RowRefListWithFlag 7 3))).1).length
            ≤ B →
        (process { (⟨TJoinOp.RIGHT_OUTER_JOIN, 2, false, false, false, false⟩ : Config) with
            batch_size := B }
          (fun _ _ => true) ⟨[7, 8, 7], []⟩ 3
          (ProbeState.fresh (single_key_table RowRefKind.RowRefListWithFlag 7 3))
          Block.empty).2.2.tuples =
        concat_tuples (process_until_exhausted
          ⟨TJoinOp.RIGHT_OUTER_JOIN, 2, false, false, false, false⟩
          (fun _ _ => true) ⟨[7, 8, 7], []⟩ 3 fuel
          (ProbeState.fresh (single_key_table RowRefKind.RowRefListWithFlag 7 3))).1 :=
  ⟨rfl, rfl, by decide,
    C3_resumption_fidelity ⟨TJoinOp.RIGHT_OUTER_JOIN, 2, false, false, false, false⟩
      (fun _ _ => true) ⟨[7, 8, 7], []⟩ 3 (single_key_table RowRefKind.RowRefListWithFlag 7 3)
      rfl rfl (by decide)⟩

theorem filter_flatMap_ne (f : Nat → List (Nat × RowRef))
    (hf : ∀ j, ∀ t ∈ f j, t.1 = j) (l : List Nat) (i : Nat) (hi : i ∉ l) :
    (l.flatMap f).filter (fun t => t.1 == i) = [] := by
  rw [List.filter_eq_nil_iff]
  intro t ht
  rw [List.mem_flatMap] at ht
  obtain ⟨j, hj, htj⟩ := ht
  have := hf j t htj
  simp only [beq_iff_eq]
  intro h
  rw [this] at h
  exact hi (h ▸ hj)

theorem filter_flatMap_range (f : Nat → List (Nat × RowRef))
    (hf : ∀ j, ∀ t ∈ f j, t.1 = j) :
    ∀ (n i : Nat), i < n → ((List.range n).flatMap f).filter (fun t => t.1 == i) = f i := by
  intro n
  induction n with
  | zero => intro i hi; omega
  | succ n ih =>
    intro i hi
    rw [List.range_succ, List.flatMap_append, List.filter_append]
    by_cases h : i = n
    · subst h
      rw [filter_flatMap_ne f hf _ _ (by simp)]
      simp only [List.flatMap_cons, List.flatMap_nil, List.append_nil, List.nil_append]
      rw [List.filter_eq_self]
      intro t ht
      simp [hf i t ht]
    · rw [ih i (by omega)]
      have : ([n].flatMap f).filter (fun t => t.1 == i) = [] :=
        filter_flatMap_ne f hf _ _ (by simp; omega)
      rw [this, List.append_nil]

theorem remaining_fresh_outer (cfg : Config) (probe : ProbeBatch) (ht : HashTable)
    (probe_rows : Nat) (hop : probe_all cfg.JoinOpType = true) :
    remaining cfg probe ht.entries probe_rows (ProbeState.fresh ht) =
      (List.range probe_rows).flatMap
        (left_outer_row_spec ht probe cfg.need_null_map_for_probe) := by
  unfold remaining
  simp only [ProbeState.fresh, ForwardIterator.empty, ForwardIterator.ok, List.isEmpty_nil,
    Bool.not_true, Bool.toNat_false, List.map_nil, List.nil_append, Nat.add_zero,
    Nat.sub_zero, List.range_eq_range']
  congr 1
  funext i
  unfold row_tuples is_ignored_null find_result left_outer_row_spec
  rw [hop]
  generalize find_key ht.entries (probe.keys.getD i 0) = fk
  cases cfg.ignore_null <;> cases cfg.need_null_map_for_probe <;>
    cases probe.null_map.getD i false <;> cases fk <;> simp

theorem left_outer_row_spec_fst (ht : HashTable) (probe : ProbeBatch) (b : Bool) (j : Nat) :
    ∀ t ∈ left_outer_row_spec ht probe b j, t.1 = j := by
  intro t ht'
  unfold left_outer_row_spec at ht'
  split_ifs at ht'
  · simp at ht'; rw [ht']
  · split at ht'
    · simp at ht'; rw [ht']
    · simp only [List.mem_map] at ht'
      obtain ⟨r, -, hr⟩ := ht'
      rw [← hr]

/-- C4: LEFT_OUTER / FULL_OUTER without other conjuncts, `batch_size ≥ 1`. Over the calls
that exhaust a probe batch (any number of calls allowed beyond the size of the result is
enough), the emitted tuples are, for the probe rows in order, each row's contribution: the
build rows of its key's row list when the key is non-null and found, exactly one tuple with
build coordinate `(-1,-1)` when the key is null or not found. In particular the tuples
carrying probe index `i` are exactly that one contribution, never both kinds. -/
theorem C4_left_outer_contribution (cfg : Config) (conj : OtherConjuncts)
    (probe : ProbeBatch) (probe_rows : Nat) (ht : HashTable) (fuel : Nat)
    (hop : probe_all cfg.JoinOpType = true)
    (ho : cfg.with_other_conjuncts = false)
    (hb : 1 ≤ cfg.batch_size)
    (hfuel : ((List.range probe_rows).flatMap
      (left_outer_row_spec ht probe cfg.need_null_map_for_probe)).length + 1 ≤ fuel) :
    batch_exhausted probe_rows
        (process_until_exhausted cfg conj probe probe_rows fuel (ProbeState.fresh ht)).2 =
      true ∧
    concat_tuples
        (process_until_exhausted cfg conj probe probe_rows fuel (ProbeState.fresh ht)).1 =
      (List.range probe_rows).flatMap
        (left_outer_row_spec ht probe cfg.need_null_map_for_probe) ∧
    ∀ i, i < probe_rows →
      (concat_tuples
        (process_until_exhausted cfg conj probe probe_rows fuel (ProbeState.fresh ht)).1).filter
          (fun t => t.1 == i) =
        left_outer_row_spec ht probe cfg.need_null_map_for_probe i := by
  have hm : expands_rows cfg.JoinOpType = true := by
    cases hc : cfg.JoinOpType <;> simp_all [probe_all, expands_rows, is_left_semi_anti,
      is_right_semi_anti_join]
  have hr := remaining_fresh_outer cfg probe ht probe_rows hop
  have hht : (ProbeState.fresh ht).hash_table = ht := rfl
  have hrun := process_until_exhausted_expand cfg conj probe probe_rows ho hm hb fuel
    (ProbeState.fresh ht) (fresh_within ht probe_rows) (by
      rw [hht, hr]
      split_ifs <;> omega)
  rw [hht, hr] at hrun
  refine ⟨hrun.2, hrun.1, ?_⟩
  intro i hi
  rw [hrun.1]
  exact filter_flatMap_range _ (left_outer_row_spec_fst ht probe _) probe_rows i hi

theorem C4_left_outer_contribution_witness :
    probe_all (⟨TJoinOp.FULL_OUTER_JOIN, 2, true, true, false, false⟩ : Config).JoinOpType
      = true ∧
    (⟨TJoinOp.FULL_OUTER_JOIN, 2, true, true, false, false⟩ : Config).with_other_conjuncts
      = false ∧
    1 ≤ (⟨TJoinOp.FULL_OUTER_JOIN, 2, true, true, false, false⟩ : Config).batch_size ∧
    ((List.range 3).flatMap (left_outer_row_spec
      (single_key_table RowRefKind.RowRefListWithFlag 7 3)
      ⟨[7, 0, 8], [false, true, false]⟩ true)).length + 1 ≤ 6 ∧
    concat_tuples
        (process_until_exhausted ⟨TJoinOp.FULL_OUTER_JOIN, 2, true, true, false, false⟩
          (fun _ _ => true) ⟨[7, 0, 8], [false, true, false]⟩ 3 6
          (ProbeState.fresh (single_key_table RowRefKind.RowRefListWithFlag 7 3))).1 =
      [(0, ⟨0, 0⟩), (0, ⟨0, 1⟩), (0, ⟨0, 2⟩), (1, ⟨-1, -1⟩), (2, ⟨-1, -1⟩)] :=
  ⟨rfl, rfl, by decide, by decide,
    (C4_left_outer_contribution ⟨TJoinOp.FULL_OUTER_JOIN, 2, true, true, false, false⟩
      (fun _ _ => true) ⟨[7, 0, 8], [false, true, false]⟩ 3
      (single_key_table RowRefKind.RowRefListWithFlag 7 3) 6 rfl rfl (by decide)
      (by decide)).2.1.trans (by decide)⟩

theorem process_calls_rows (cfg : Config) (conj : OtherConjuncts) (probe : ProbeBatch)
    (probe_rows : Nat)
    (ho : cfg.with_other_conjuncts = false) (hm : expands_rows cfg.JoinOpType = true) :
    ∀ (j : Nat) (s : ProbeState),
      ((process_calls cfg conj probe probe_rows (j + 1) s).getD j Block.empty).rows =
        min cfg.batch_size
          ((remaining cfg probe s.hash_table.entries probe_rows s).length -
            j * cfg.batch_size) := by
  intro j
  induction j with
  | zero =>
    intro s
    simp only [process_calls, List.getD_cons_zero, Nat.zero_mul, Nat.sub_zero,
      process_eq_do_process cfg conj probe probe_rows s Block.empty ho]
    exact do_process_expand_rows cfg conj probe probe_rows s ho hm
  | succ j ih =>
    intro s
    obtain ⟨-, -, p3, p4, -⟩ := do_process_expand cfg conj probe probe_rows s ho hm
    have hrem' := remaining_skeleton cfg probe probe_rows
      (do_process cfg conj probe probe_rows s).2.1 _ _ p4
    have := ih (do_process cfg conj probe probe_rows s).2.1
    rw [hrem', p3, List.length_drop] at this
    rw [process_calls]
    simp only [List.getD_cons_succ,
      process_eq_do_process cfg conj probe probe_rows s Block.empty ho]
    rw [this]
    congr 1
    rw [Nat.add_mul, Nat.one_mul]
    omega

/-- C7: LEFT_OUTER without other conjuncts, a probe batch of one row whose key is found
with `n` build rows, `batch_size = b` (any `b`, so in particular `b ≥ 1`). Counting calls
from `j = 0`, call `j` emits `min(b, n - j*b)` tuples while `j*b < n`, and every later call
emits none. -/
theorem C7_left_outer_explosion (cfg : Config) (conj : OtherConjuncts) (probe : ProbeBatch)
    (ht : HashTable) (e n : Nat)
    (hop : cfg.JoinOpType = TJoinOp.LEFT_OUTER_JOIN)
    (ho : cfg.with_other_conjuncts = false)
    (hfind : find_result cfg probe ht.entries 0 = some e)
    (hn : (entry_rows ht.entries e).length = n) :
    ∀ j, ((process_calls cfg conj probe 1 (j + 1) (ProbeState.fresh ht)).getD j
        Block.empty).rows =
      if j * cfg.batch_size < n then min cfg.batch_size (n - j * cfg.batch_size) else 0 := by
  intro j
  have hm : expands_rows cfg.JoinOpType = true := by rw [hop]; rfl
  have hnull : is_ignored_null cfg probe 0 = false := by
    unfold find_result at hfind
    unfold is_ignored_null
    split_ifs at hfind with h
    simp only [Bool.and_eq_true, not_and, Bool.not_eq_true] at h
    cases hi : cfg.ignore_null <;> cases hnn : cfg.need_null_map_for_probe <;> simp_all
  have hT : (remaining cfg probe (ProbeState.fresh ht).hash_table.entries 1
      (ProbeState.fresh ht)).length = n := by
    have hht : (ProbeState.fresh ht).hash_table = ht := rfl
    rw [hht]
    simp [remaining, ProbeState.fresh, ForwardIterator.empty, ForwardIterator.ok,
      row_tuples, hnull, hfind, hn]
  rw [process_calls_rows cfg conj probe 1 ho hm j (ProbeState.fresh ht), hT]
  split_ifs with h
  · rfl
  · have : n - j * cfg.batch_size = 0 := by omega
    rw [this]; simp

theorem C7_left_outer_explosion_witness :
    (⟨TJoinOp.LEFT_OUTER_JOIN, 2, false, false, false, false⟩ : Config).JoinOpType =
      TJoinOp.LEFT_OUTER_JOIN ∧
    (⟨TJoinOp.LEFT_OUTER_JOIN, 2, false, false, false, false⟩ : Config).with_other_conjuncts
      = false ∧
    find_result ⟨TJoinOp.LEFT_OUTER_JOIN, 2, false, false, false, false⟩ ⟨[7], []⟩
      (single_key_table RowRefKind.RowRefList 7 5).entries 0 = some 0 ∧
    (entry_rows (single_key_table RowRefKind.RowRefList 7 5).entries 0).length = 5 ∧
    (∀ j, ((process_calls ⟨TJoinOp.LEFT_OUTER_JOIN, 2, false, false, false, false⟩
        (fun _ _ => true) ⟨[7], []⟩ 1 (j + 1)
        (ProbeState.fresh (single_key_table RowRefKind.RowRefList 7 5))).getD j
        Block.empty).rows =
      if j * 2 < 5 then min 2 (5 - j * 2) else 0) ∧
    (process_calls ⟨TJoinOp.LEFT_OUTER_JOIN, 2, false, false, false, false⟩
        (fun _ _ => true) ⟨[7], []⟩ 1 4
        (ProbeState.fresh (single_key_table RowRefKind.RowRefList 7 5))).map Block.rows =
      [2, 2, 1, 0] :=
  ⟨rfl, rfl, by decide, by decide,
    C7_left_outer_explosion ⟨TJoinOp.LEFT_OUTER_JOIN, 2, false, false, false, false⟩
      (fun _ _ => true) ⟨[7], []⟩ (single_key_table RowRefKind.RowRefList 7 5) 0 5
      rfl rfl (by decide) (by decide),
    by decide⟩

/-! ## LEFT_SEMI / LEFT_ANTI / NULL_AWARE_LEFT_ANTI without other conjuncts (C5, C6, C8) -/

theorem need_go_ahead_eq_want (cfg : Config) (probe : ProbeBatch)
    (entries : List (Int × Mapped)) (i : Nat) :
    xor (cfg.JoinOpType != TJoinOp.LEFT_SEMI_JOIN) (find_result cfg probe entries i).isSome =
      want cfg probe entries i := by
  unfold want is_found bne
  cases h1 : (cfg.JoinOpType == TJoinOp.LEFT_SEMI_JOIN) <;>
    cases h2 : (find_result cfg probe entries i).isSome <;> rfl

/-- One iteration of the probe loop in the semi/anti arm when the null-key arm is not
taken: the counters and vectors after it. -/
theorem semi_anti_step (cfg : Config) (probe : ProbeBatch) (s : ProbeState)
    (hmode : is_left_semi_anti cfg.JoinOpType = true)
    (ho : cfg.with_other_conjuncts = false)
    (hnull : is_ignored_null cfg probe s.probe_index = false)
    (hlen : s.probe_indexs.length = s.current_offset) :
    (probe_step cfg probe s).probe_index = s.probe_index + 1 ∧
    (probe_step cfg probe s).probe_row_match_iter = s.probe_row_match_iter ∧
    (probe_step cfg probe s).hash_table = s.hash_table ∧
    (probe_step cfg probe s).build_block_offsets = s.build_block_offsets ∧
    (probe_step cfg probe s).build_block_rows = s.build_block_rows ∧
    (cfg.is_mark_join = false →
      (probe_step cfg probe s).current_offset = s.current_offset +
        (want cfg probe s.hash_table.entries s.probe_index).toNat ∧
      (probe_step cfg probe s).probe_indexs = s.probe_indexs ++
        (if want cfg probe s.hash_table.entries s.probe_index then [s.probe_index] else []) ∧
      (probe_step cfg probe s).mark_column = s.mark_column) ∧
    (cfg.is_mark_join = true →
      (probe_step cfg probe s).current_offset = s.current_offset + 1 ∧
      (probe_step cfg probe s).probe_indexs = s.probe_indexs ++ [s.probe_index] ∧
      (probe_step cfg probe s).mark_column =
        s.mark_column ++ [want cfg probe s.hash_table.entries s.probe_index]) := by
  unfold probe_step dispatch finish_step semi_anti_branch
  simp only [hnull, Bool.false_eq_true, if_false, ho, hmode, Bool.not_false, Bool.and_self,
    if_true, need_go_ahead_eq_want]
  cases hm : cfg.is_mark_join <;>
    cases hw : want cfg probe s.hash_table.entries s.probe_index <;>
    simp [resize, hlen]

theorem range'_snoc_index (p0 i : Nat) (h : p0 ≤ i) :
    List.range' p0 (i + 1 - p0) = List.range' p0 (i - p0) ++ [i] := by
  have h1 : i + 1 - p0 = (i - p0) + 1 := by omega
  rw [h1, List.range'_concat]
  congr 2
  omega

theorem semi_inv_step (cfg : Config) (probe : ProbeBatch) (p0 : Nat) (ht : HashTable)
    (s : ProbeState)
    (hmode : is_left_semi_anti cfg.JoinOpType = true)
    (ho : cfg.with_other_conjuncts = false)
    (hnull : ∀ i, is_ignored_null cfg probe i = false)
    (hlen : s.probe_indexs.length = s.current_offset)
    (hS : SemiInv cfg probe p0 ht s) :
    SemiInv cfg probe p0 ht (probe_step cfg probe s) := by
  obtain ⟨s1, s2, s3, s4, s5⟩ := hS
  obtain ⟨g1, g2, g3, -, -, g6, g7⟩ :=
    semi_anti_step cfg probe s hmode ho (hnull _) hlen
  refine ⟨g3.trans s1, by rw [g2]; exact s2, by omega, ?_, ?_⟩
  · intro hm
    obtain ⟨-, g8, g9⟩ := g6 hm
    obtain ⟨s6, s7⟩ := s4 hm
    rw [g8, g9, g1, s6, s7, range'_snoc_index p0 _ s3, List.filter_append, s1]
    refine ⟨?_, rfl⟩
    congr 1
    cases hw : want cfg probe ht.entries s.probe_index <;> simp [hw]
  · intro hm
    obtain ⟨-, g8, g9⟩ := g7 hm
    obtain ⟨s6, s7⟩ := s5 hm
    rw [g8, g9, g1, s6, s7, range'_snoc_index p0 _ s3, s1]
    simp

theorem assemble_probe (cfg : Config) (p0 : Nat) (s : ProbeState)
    (hinv : LoopInv cfg p0 s)
    (hsize : s.probe_size = s.probe_index - p0 + s.probe_row_match_iter.ok.toNat)
    (hw : (cfg.with_other_conjuncts || (cfg.JoinOpType != TJoinOp.RIGHT_SEMI_JOIN &&
      cfg.JoinOpType != TJoinOp.RIGHT_ANTI_JOIN)) = true) :
    (assemble cfg p0 s).2.probe = s.probe_indexs ∧
    (assemble cfg p0 s).2.mark = s.mark_column := by
  obtain ⟨l1, l2, l3, l4, l5⟩ := hinv
  unfold assemble probe_side_output_column
  simp only [hw, if_true]
  refine ⟨?_, trivial⟩
  split_ifs with ha
  · obtain ⟨h6, h7⟩ := l4 ha
    rw [h7, hsize]
    congr 1
    omega
  · exact range_map_getD _ _ _ l1

/-- One `do_process` call in the semi/anti arm (no other conjuncts, no suspended iterator,
no ignored null key): the probe-side column and the mark column of the block list the probe
rows examined in this call, from the entry index up to the exit index. -/
theorem do_process_semi_anti (cfg : Config) (conj : OtherConjuncts) (probe : ProbeBatch)
    (probe_rows : Nat) (s : ProbeState)
    (hmode : is_left_semi_anti cfg.JoinOpType = true)
    (ho : cfg.with_other_conjuncts = false)
    (hnull : ∀ i, is_ignored_null cfg probe i = false)
    (hok : s.probe_row_match_iter.ok = false) :
    s.probe_index ≤ (do_process cfg conj probe probe_rows s).2.1.probe_index ∧
    (do_process cfg conj probe probe_rows s).2.2.build = [] ∧
    (cfg.is_mark_join = false →
      (do_process cfg conj probe probe_rows s).2.2.probe =
        (List.range' s.probe_index
          ((do_process cfg conj probe probe_rows s).2.1.probe_index - s.probe_index)).filter
          (want cfg probe s.hash_table.entries) ∧
      (do_process cfg conj probe probe_rows s).2.2.mark = []) ∧
    (cfg.is_mark_join = true →
      (do_process cfg conj probe probe_rows s).2.2.probe =
        List.range' s.probe_index
          ((do_process cfg conj probe probe_rows s).2.1.probe_index - s.probe_index) ∧
      (do_process cfg conj probe probe_rows s).2.2.mark =
        (List.range' s.probe_index
          ((do_process cfg conj probe probe_rows s).2.1.probe_index - s.probe_index)).map
          (want cfg probe s.hash_table.entries)) := by
  obtain ⟨hL, -, hsize⟩ := do_probe_inv cfg probe probe_rows s
  have hS : SemiInv cfg probe s.probe_index s.hash_table
      (do_probe cfg probe probe_rows s) := by
    have h0 : SemiInv cfg probe s.probe_index s.hash_table (resume_probe cfg s) := by
      rw [resume_probe_not_ok cfg s hok]
      refine ⟨rfl, hok, le_refl _, ?_, ?_⟩ <;> intro _ <;> simp [init_probe_side]
    have := probe_loop_induct cfg probe probe_rows
      (fun t => LoopInv cfg s.probe_index t ∧ SemiInv cfg probe s.probe_index s.hash_table t)
      (fun t ht hc _ => ⟨probe_step_inv cfg probe _ t ht.1 hc,
        semi_inv_step cfg probe _ _ t hmode ho hnull ht.1.1 ht.2⟩)
      (probe_rows - (resume_probe cfg s).probe_index) (resume_probe cfg s)
      ⟨resume_probe_inv cfg s, h0⟩
    exact this.2
  have hw : (cfg.with_other_conjuncts || (cfg.JoinOpType != TJoinOp.RIGHT_SEMI_JOIN &&
      cfg.JoinOpType != TJoinOp.RIGHT_ANTI_JOIN)) = true := by
    cases hop : cfg.JoinOpType <;> simp_all [is_left_semi_anti]
  obtain ⟨a1, a2⟩ := assemble_probe cfg s.probe_index _ hL hsize hw
  obtain ⟨b1, -, -⟩ := assemble_state cfg s.probe_index (do_probe cfg probe probe_rows s)
  have hbuild : (assemble cfg s.probe_index (do_probe cfg probe probe_rows s)).2.build = [] := by
    unfold assemble build_side_output_column
    have : is_semi_anti_join cfg.JoinOpType = true := by
      cases hop : cfg.JoinOpType <;> simp_all [is_left_semi_anti, is_semi_anti_join]
    simp [this, ho]
  have hdo : do_process cfg conj probe probe_rows s =
      (Status.OK, (assemble cfg s.probe_index (do_probe cfg probe probe_rows s)).1,
        (assemble cfg s.probe_index (do_probe cfg probe probe_rows s)).2) := by
    unfold do_process
    simp [ho]
  obtain ⟨s1, s2, s3, s4, s5⟩ := hS
  rw [hdo]
  simp only [b1, a1, a2, hbuild]
  exact ⟨s3, trivial, s4, s5⟩

theorem ignore_null_false_not_ignored (cfg : Config) (probe : ProbeBatch)
    (h : cfg.ignore_null = false) (i : Nat) : is_ignored_null cfg probe i = false := by
  simp [is_ignored_null, h]

theorem null_key_not_found (cfg : Config) (probe : ProbeBatch)
    (entries : List (Int × Mapped)) (i : Nat)
    (h1 : cfg.need_null_map_for_probe = true) (h2 : probe.null_map.getD i false = true) :
    is_found cfg probe entries i = false := by
  unfold is_found find_result
  rw [h1, h2]
  rfl

/-- C5: LEFT_SEMI / LEFT_ANTI / NULL_AWARE_LEFT_ANTI without other conjuncts and without
mark join, `ignore_null = false`. (1) Every iteration of the probe loop, that is every
probe row examined, advances `probe_index` by exactly one and emits exactly one tuple,
carrying the row's probe index, when `want = ((mode == LEFT_SEMI) == found)` holds, and
nothing otherwise. (2) A null probe key counts as not found, so `want` holds for it exactly
in the anti modes. (3) Hence the probe-side column of the block one call returns (entered
without a suspended iterator) lists, in order, the probe rows examined in the call for
which `want` holds, and there are no build-side cells. -/
theorem C5_semi_anti_emits_iff_want (cfg : Config) (conj : OtherConjuncts)
    (probe : ProbeBatch) (probe_rows : Nat) (s : ProbeState)
    (hmode : is_left_semi_anti cfg.JoinOpType = true)
    (ho : cfg.with_other_conjuncts = false)
    (hmark : cfg.is_mark_join = false)
    (hign : cfg.ignore_null = false) :
    (∀ t : ProbeState, t.probe_indexs.length = t.current_offset →
      (probe_step cfg probe t).probe_index = t.probe_index + 1 ∧
      (probe_step cfg probe t).probe_indexs = t.probe_indexs ++
        (if want cfg probe t.hash_table.entries t.probe_index then [t.probe_index] else []) ∧
      (probe_step cfg probe t).current_offset = t.current_offset +
        (if want cfg probe t.hash_table.entries t.probe_index then 1 else 0)) ∧
    (∀ i, cfg.need_null_map_for_probe = true → probe.null_map.getD i false = true →
      is_found cfg probe s.hash_table.entries i = false ∧
      want cfg probe s.hash_table.entries i = (cfg.JoinOpType != TJoinOp.LEFT_SEMI_JOIN)) ∧
    (s.probe_row_match_iter.ok = false →
      s.probe_index ≤ (process cfg conj probe probe_rows s Block.empty).2.1.probe_index ∧
      (process cfg conj probe probe_rows s Block.empty).2.2.probe =
        (List.range' s.probe_index
          ((process cfg conj probe probe_rows s Block.empty).2.1.probe_index -
            s.probe_index)).filter (want cfg probe s.hash_table.entries) ∧
      (process cfg conj probe probe_rows s Block.empty).2.2.build = []) := by
  have hnull := ignore_null_false_not_ignored cfg probe hign
  refine ⟨?_, ?_, ?_⟩
  · intro t hlen
    obtain ⟨g1, -, -, -, -, g6, -⟩ := semi_anti_step cfg probe t hmode ho (hnull _) hlen
    obtain ⟨g7, g8, -⟩ := g6 hmark
    refine ⟨g1, g8, ?_⟩
    rw [g7]
    cases want cfg probe t.hash_table.entries t.probe_index <;> rfl
  · intro i h1 h2
    have hf := null_key_not_found cfg probe s.hash_table.entries i h1 h2
    refine ⟨hf, ?_⟩
    unfold want bne
    rw [hf]
    cases (cfg.JoinOpType == TJoinOp.LEFT_SEMI_JOIN) <;> rfl
  · intro hok
    rw [process_eq_do_process cfg conj probe probe_rows s Block.empty ho]
    obtain ⟨d1, d2, d3, -⟩ := do_process_semi_anti cfg conj probe probe_rows s hmode ho hnull hok
    exact ⟨d1, (d3 hmark).1, d2⟩

theorem C5_semi_anti_emits_iff_want_witness :
    is_left_semi_anti (⟨TJoinOp.NULL_AWARE_LEFT_ANTI_JOIN, 10, true, false, false, false⟩ :
      Config).JoinOpType = true ∧
    (⟨TJoinOp.NULL_AWARE_LEFT_ANTI_JOIN, 10, true, false, false, false⟩ :
      Config).with_other_conjuncts = false ∧
    (⟨TJoinOp.NULL_AWARE_LEFT_ANTI_JOIN, 10, true, false, false, false⟩ :
      Config).is_mark_join = false ∧
    (⟨TJoinOp.NULL_AWARE_LEFT_ANTI_JOIN, 10, true, false, false, false⟩ :
      Config).ignore_null = false ∧
    (process ⟨TJoinOp.NULL_AWARE_LEFT_ANTI_JOIN, 10, true, false, false, false⟩
        (fun _ _ => true) ⟨[7, 0, 8], [false, true, false]⟩ 3
        (ProbeState.fresh (single_key_table RowRefKind.RowRefList 7 2)) Block.empty).2.2.probe =
      [1, 2] :=
  ⟨rfl, rfl, rfl, rfl,
    ((C5_semi_anti_emits_iff_want
      ⟨TJoinOp.NULL_AWARE_LEFT_ANTI_JOIN, 10, true, false, false, false⟩
      (fun _ _ => true) ⟨[7, 0, 8], [false, true, false]⟩ 3
      (ProbeState.fresh (single_key_table RowRefKind.RowRefList 7 2)) rfl rfl rfl rfl).2.2
        rfl).2.1.trans (by decide)⟩

/-- C6: mark join for LEFT_SEMI / LEFT_ANTI / NULL_AWARE_LEFT_ANTI without other conjuncts,
when no null key is ignored. (1) Every iteration of the probe loop, that is every probe row
examined, advances `probe_index` by one, adds exactly one output row (carrying the row's
probe index) and appends `want = ((mode == LEFT_SEMI) == found)` to the mark column.
(2) Hence in the block one call returns (entered without a suspended iterator) the
probe-side column lists the probe rows examined in the call, the mark column holds `want`
of each of them, and the mark column is as long as the block has rows. -/
theorem C6_mark_join_want (cfg : Config) (conj : OtherConjuncts)
    (probe : ProbeBatch) (probe_rows : Nat) (s : ProbeState)
    (hmode : is_left_semi_anti cfg.JoinOpType = true)
    (ho : cfg.with_other_conjuncts = false)
    (hmark : cfg.is_mark_join = true)
    (hnull : ∀ i, is_ignored_null cfg probe i = false) :
    (∀ t : ProbeState, t.probe_indexs.length = t.current_offset →
      (probe_step cfg probe t).probe_index = t.probe_index + 1 ∧
      (probe_step cfg probe t).probe_indexs = t.probe_indexs ++ [t.probe_index] ∧
      (probe_step cfg probe t).current_offset = t.current_offset + 1 ∧
      (probe_step cfg probe t).mark_column =
        t.mark_column ++ [want cfg probe t.hash_table.entries t.probe_index]) ∧
    (s.probe_row_match_iter.ok = false →
      s.probe_index ≤ (process cfg conj probe probe_rows s Block.empty).2.1.probe_index ∧
      (process cfg conj probe probe_rows s Block.empty).2.2.probe =
        List.range' s.probe_index
          ((process cfg conj probe probe_rows s Block.empty).2.1.probe_index -
            s.probe_index) ∧
      (process cfg conj probe probe_rows s Block.empty).2.2.mark =
        (List.range' s.probe_index
          ((process cfg conj probe probe_rows s Block.empty).2.1.probe_index -
            s.probe_index)).map (want cfg probe s.hash_table.entries) ∧
      (process cfg conj probe probe_rows s Block.empty).2.2.mark.length =
        (process cfg conj probe probe_rows s Block.empty).2.2.rows) := by
  refine ⟨?_, ?_⟩
  · intro t hlen
    obtain ⟨g1, -, -, -, -, -, g7⟩ := semi_anti_step cfg probe t hmode ho (hnull _) hlen
    obtain ⟨g8, g9, g10⟩ := g7 hmark
    exact ⟨g1, g9, g8, g10⟩
  · intro hok
    rw [process_eq_do_process cfg conj probe probe_rows s Block.empty ho]
    obtain ⟨d1, -, -, d4⟩ := do_process_semi_anti cfg conj probe probe_rows s hmode ho hnull hok
    obtain ⟨d5, d6⟩ := d4 hmark
    refine ⟨d1, d5, d6, ?_⟩
    rw [d6, Block.rows, d5]
    simp

theorem C6_mark_join_want_witness :
    is_left_semi_anti (⟨TJoinOp.LEFT_SEMI_JOIN, 10, false, false, false, true⟩ :
      Config).JoinOpType = true ∧
    (⟨TJoinOp.LEFT_SEMI_JOIN, 10, false, false, false, true⟩ :
      Config).with_other_conjuncts = false ∧
    (⟨TJoinOp.LEFT_SEMI_JOIN, 10, false, false, false, true⟩ : Config).is_mark_join = true ∧
    (∀ i, is_ignored_null ⟨TJoinOp.LEFT_SEMI_JOIN, 10, false, false, false, true⟩
      ⟨[1, 2, 3], []⟩ i = false) ∧
    (process ⟨TJoinOp.LEFT_SEMI_JOIN, 10, false, false, false, true⟩
        (fun _ _ => true) ⟨[1, 2, 3], []⟩ 3
        (ProbeState.fresh (single_key_table RowRefKind.RowRefList 2 1)) Block.empty).2.2.mark =
      [false, true, false] ∧
    (process ⟨TJoinOp.LEFT_SEMI_JOIN, 10, false, false, false, true⟩
        (fun _ _ => true) ⟨[1, 2, 3], []⟩ 3
        (ProbeState.fresh (single_key_table RowRefKind.RowRefList 2 1)) Block.empty).2.2.rows =
      3 :=
  ⟨rfl, rfl, rfl, fun _ => rfl,
    ((C6_mark_join_want ⟨TJoinOp.LEFT_SEMI_JOIN, 10, false, false, false, true⟩
      (fun _ _ => true) ⟨[1, 2, 3], []⟩ 3
      (ProbeState.fresh (single_key_table RowRefKind.RowRefList 2 1)) rfl rfl rfl
      (fun _ => rfl)).2 rfl).2.2.1.trans (by decide),
    by decide⟩

theorem null_key_step_semi_anti (cfg : Config) (probe : ProbeBatch) (s : ProbeState)
    (hmode : is_left_semi_anti cfg.JoinOpType = true)
    (hnull : is_ignored_null cfg probe s.probe_index = true) :
    (probe_step cfg probe s).probe_indexs = s.probe_indexs ∧
    (probe_step cfg probe s).current_offset = s.current_offset ∧
    (probe_step cfg probe s).probe_index = s.probe_index + 1 ∧
    (probe_step cfg probe s).probe_row_match_iter = s.probe_row_match_iter := by
  have hp : probe_all cfg.JoinOpType = false := by
    cases hop : cfg.JoinOpType <;> simp_all [is_left_semi_anti, probe_all]
  unfold probe_step null_key_branch
  simp [hnull, hp]

/-- In the semi/anti arm with `ignore_null` no scratch probe index designates a null key,
at any point of a call entered without a suspended iterator. -/
theorem do_probe_no_null (cfg : Config) (probe : ProbeBatch) (probe_rows : Nat)
    (s : ProbeState)
    (hmode : is_left_semi_anti cfg.JoinOpType = true)
    (ho : cfg.with_other_conjuncts = false)
    (hmark : cfg.is_mark_join = false)
    (hneed : cfg.need_null_map_for_probe = true)
    (hign : cfg.ignore_null = true)
    (hok : s.probe_row_match_iter.ok = false) :
    ∀ i ∈ (do_probe cfg probe probe_rows s).probe_indexs,
      probe.null_map.getD i false = false := by
  have h0 : (resume_probe cfg s).probe_row_match_iter.ok = false ∧
      ∀ i ∈ (resume_probe cfg s).probe_indexs, probe.null_map.getD i false = false := by
    rw [resume_probe_not_ok cfg s hok]
    exact ⟨hok, by simp [init_probe_side]⟩
  have := probe_loop_induct cfg probe probe_rows
    (fun t => LoopInv cfg s.probe_index t ∧ t.probe_row_match_iter.ok = false ∧
      ∀ i ∈ t.probe_indexs, probe.null_map.getD i false = false)
    (fun t ht hc _ => by
      refine ⟨probe_step_inv cfg probe _ t ht.1 hc, ?_⟩
      cases hn : probe.null_map.getD t.probe_index false
      · have hnull : is_ignored_null cfg probe t.probe_index = false := by
          unfold is_ignored_null
          rw [hn, Bool.and_false]
        obtain ⟨-, g2, -, -, -, g6, -⟩ := semi_anti_step cfg probe t hmode ho hnull ht.1.1
        obtain ⟨-, g8, -⟩ := g6 hmark
        refine ⟨by rw [g2]; exact ht.2.1, ?_⟩
        intro i hi
        rw [g8, List.mem_append] at hi
        rcases hi with hi | hi
        · exact ht.2.2 i hi
        · split_ifs at hi
          · simp at hi; rw [hi]; exact hn
          · simp at hi
      · have hnull : is_ignored_null cfg probe t.probe_index = true := by
          unfold is_ignored_null
          rw [hn, hneed, hign]
          rfl
        obtain ⟨g1, -, -, g4⟩ := null_key_step_semi_anti cfg probe t hmode hnull
        refine ⟨by rw [g4]; exact ht.2.1, ?_⟩
        rw [g1]
        exact ht.2.2)
    (probe_rows - (resume_probe cfg s).probe_index) (resume_probe cfg s)
    ⟨resume_probe_inv cfg s, h0⟩
  exact this.2.2

/-- C8, counterexample: NULL_AWARE_LEFT_ANTI without other conjuncts and without mark join,
with the probe null map supplied and `ignore_null = false`; probe `{1, null}` against build
`{1}`. The call returns one row, the null probe row (probe index 1), not zero rows. -/
theorem C8_counterexample :
    (process ⟨TJoinOp.NULL_AWARE_LEFT_ANTI_JOIN, 10, true, false, false, false⟩
        (fun _ _ => true) ⟨[1, 0], [false, true]⟩ 2
        (ProbeState.fresh (single_key_table RowRefKind.RowRefList 1 1)) Block.empty).2.2.probe =
      [1] ∧
    ¬((process ⟨TJoinOp.NULL_AWARE_LEFT_ANTI_JOIN, 10, true, false, false, false⟩
        (fun _ _ => true) ⟨[1, 0], [false, true]⟩ 2
        (ProbeState.fresh (single_key_table RowRefKind.RowRefList 1 1)) Block.empty).2.2.rows =
      0) := by
  decide

/-- C8 (as amended): NULL_AWARE_LEFT_ANTI without other conjuncts and without mark join,
with the probe null map supplied. With `ignore_null = true` no probe row whose key is null
is in the output of a call (entered without a suspended iterator). With
`ignore_null = false` a probe row whose key is null counts as not found and the iteration
that examines it emits it. -/
theorem C8_null_aware_anti_null_key (cfg : Config) (conj : OtherConjuncts)
    (probe : ProbeBatch) (probe_rows : Nat) (s : ProbeState)
    (hop : cfg.JoinOpType = TJoinOp.NULL_AWARE_LEFT_ANTI_JOIN)
    (ho : cfg.with_other_conjuncts = false)
    (hmark : cfg.is_mark_join = false)
    (hneed : cfg.need_null_map_for_probe = true) :
    (cfg.ignore_null = true → s.probe_row_match_iter.ok = false →
      ∀ i ∈ (process cfg conj probe probe_rows s Block.empty).2.2.probe,
        probe.null_map.getD i false = false) ∧
    (cfg.ignore_null = false →
      ∀ t : ProbeState, t.probe_indexs.length = t.current_offset →
        probe.null_map.getD t.probe_index false = true →
        (probe_step cfg probe t).probe_indexs = t.probe_indexs ++ [t.probe_index] ∧
        (probe_step cfg probe t).current_offset = t.current_offset + 1 ∧
        (probe_step cfg probe t).probe_index = t.probe_index + 1) := by
  have hmode : is_left_semi_anti cfg.JoinOpType = true := by rw [hop]; rfl
  refine ⟨?_, ?_⟩
  · intro hign hok
    rw [process_eq_do_process cfg conj probe probe_rows s Block.empty ho]
    obtain ⟨hL, -, hsize⟩ := do_probe_inv cfg probe probe_rows s
    have hw : (cfg.with_other_conjuncts || (cfg.JoinOpType != TJoinOp.RIGHT_SEMI_JOIN &&
        cfg.JoinOpType != TJoinOp.RIGHT_ANTI_JOIN)) = true := by
      rw [hop, ho]; rfl
    obtain ⟨a1, -⟩ := assemble_probe cfg s.probe_index _ hL hsize hw
    have hdo : do_process cfg conj probe probe_rows s =
        (Status.OK, (assemble cfg s.probe_index (do_probe cfg probe probe_rows s)).1,
          (assemble cfg s.probe_index (do_probe cfg probe probe_rows s)).2) := by
      unfold do_process
      simp [ho]
    rw [hdo]
    simp only [a1]
    exact do_probe_no_null cfg probe probe_rows s hmode ho hmark hneed hign hok
  · intro hign t hlen hn
    have hnull := ignore_null_false_not_ignored cfg probe hign
    obtain ⟨g1, -, -, -, -, g6, -⟩ := semi_anti_step cfg probe t hmode ho (hnull _) hlen
    obtain ⟨g7, g8, -⟩ := g6 hmark
    have hf := null_key_not_found cfg probe t.hash_table.entries t.probe_index hneed hn
    have hw : want cfg probe t.hash_table.entries t.probe_index = true := by
      unfold want
      rw [hf, hop]
      rfl
    rw [hw] at g7 g8
    exact ⟨by simpa using g8, by simpa using g7, g1⟩

theorem C8_null_aware_anti_null_key_witness :
    (⟨TJoinOp.NULL_AWARE_LEFT_ANTI_JOIN, 10, true, true, false, false⟩ :
      Config).JoinOpType = TJoinOp.NULL_AWARE_LEFT_ANTI_JOIN ∧
    (⟨TJoinOp.NULL_AWARE_LEFT_ANTI_JOIN, 10, true, true, false, false⟩ :
      Config).with_other_conjuncts = false ∧
    (⟨TJoinOp.NULL_AWARE_LEFT_ANTI_JOIN, 10, true, true, false, false⟩ :
      Config).is_mark_join = false ∧
    (⟨TJoinOp.NULL_AWARE_LEFT_ANTI_JOIN, 10, true, true, false, false⟩ :
      Config).need_null_map_for_probe = true ∧
    (∀ i ∈ (process ⟨TJoinOp.NULL_AWARE_LEFT_ANTI_JOIN, 10, true, true, false, false⟩
        (fun _ _ => true) ⟨[1, 0], [false, true]⟩ 2
        (ProbeState.fresh (single_key_table RowRefKind.RowRefList 1 1)) Block.empty).2.2.probe,
      (⟨[1, 0], [false, true]⟩ : ProbeBatch).null_map.getD i false = false) ∧
    (process ⟨TJoinOp.NULL_AWARE_LEFT_ANTI_JOIN, 10, true, true, false, false⟩
        (fun _ _ => true) ⟨[1, 0], [false, true]⟩ 2
        (ProbeState.fresh (single_key_table RowRefKind.RowRefList 1 1)) Block.empty).2.2.rows =
      0 :=
  ⟨rfl, rfl, rfl, rfl,
    (C8_null_aware_anti_null_key
      ⟨TJoinOp.NULL_AWARE_LEFT_ANTI_JOIN, 10, true, true, false, false⟩
      (fun _ _ => true) ⟨[1, 0], [false, true]⟩ 2
      (ProbeState.fresh (single_key_table RowRefKind.RowRefList 1 1)) rfl rfl rfl rfl).1
        rfl rfl,
    by decide⟩

/-! ## LEFT_OUTER / FULL_OUTER with other conjuncts (C9, C10) -/

/-- C9, the code at the failing input: LEFT_OUTER with other conjuncts, `batch_size = 10`,
one probe row whose key has the two build rows `(0,0)` and `(0,1)`, the conjuncts accepting
`(0,0)` only. The group lies in the middle segment of one call and has a passing tuple, yet
the block holds two rows: the passing tuple and the failing tuple `(0,1)` that follows it,
with right null flags `[0, 1]`, that is, a null-padded row next to a real match. -/
theorem C9_failing_tuple_after_passing_is_kept :
    (process ⟨TJoinOp.LEFT_OUTER_JOIN, 10, false, false, true, false⟩
        (fun _ r => r.row_num == 0) ⟨[7], []⟩ 1
        (ProbeState.fresh (single_key_table RowRefKind.RowRefListWithFlags 7 2))
        Block.empty).2.2.tuples = [(0, ⟨0, 0⟩), (0, ⟨0, 1⟩)] ∧
    (process ⟨TJoinOp.LEFT_OUTER_JOIN, 10, false, false, true, false⟩
        (fun _ r => r.row_num == 0) ⟨[7], []⟩ 1
        (ProbeState.fresh (single_key_table RowRefKind.RowRefListWithFlags 7 2))
        Block.empty).2.1.tuple_is_null_right_flags = [false, true] ∧
    (do_probe ⟨TJoinOp.LEFT_OUTER_JOIN, 10, false, false, true, false⟩ ⟨[7], []⟩ 1
        (ProbeState.fresh (single_key_table RowRefKind.RowRefListWithFlags 7 2))).same_to_prev
      = [false, true] ∧
    (do_probe ⟨TJoinOp.LEFT_OUTER_JOIN, 10, false, false, true, false⟩ ⟨[7], []⟩ 1
        (ProbeState.fresh (single_key_table RowRefKind.RowRefListWithFlags 7 2))
      ).row_count_from_last_probe = 0 ∧
    (do_probe ⟨TJoinOp.LEFT_OUTER_JOIN, 10, false, false, true, false⟩ ⟨[7], []⟩ 1
        (ProbeState.fresh (single_key_table RowRefKind.RowRefListWithFlags 7 2))
      ).multi_matched_output_row_count = 0 := by
  decide

theorem foldl_set_length {α : Type} (g : Nat → α) (is : List Nat) :
    ∀ (l : List α), (is.foldl (fun l i => l.set i (g i)) l).length = l.length := by
  induction is with
  | nil => intro l; rfl
  | cons i is ih => intro l; simp [List.foldl_cons, ih]

theorem foldl_set_getElem? {α : Type} (g : Nat → α) (is : List Nat) :
    ∀ (l : List α) (j : Nat),
      (is.foldl (fun l i => l.set i (g i)) l)[j]? =
        if j ∈ is ∧ j < l.length then some (g j) else l[j]? := by
  induction is with
  | nil => intro l j; simp
  | cons i is ih =>
    intro l j
    rw [List.foldl_cons, ih]
    simp only [List.length_set, List.mem_cons, List.getElem?_set]
    by_cases h1 : j ∈ is
    · by_cases h2 : j < l.length
      · simp [h1, h2]
      · simp only [h1, h2, and_false, or_true, if_false]
        split_ifs with h3 h4
        · omega
        · exact (List.getElem?_eq_none (by omega)).symm
        · rfl
    · by_cases h3 : i = j
      · subst h3
        by_cases h2 : i < l.length
        · simp [h1, h2]
        · simp [h1, h2]
          omega
      · have h4 : ¬ j = i := fun h => h3 h.symm
        simp [h1, h3, h4]

/-- The effect of `_process_splited_equal_matched_tuples` on the filter column, the null map
and the flag, field by field. -/
theorem process_splited_fields (vm : List (Option (Nat × Nat))) (hit : List Bool)
    (start cnt : Nat) (a : ApplierState) :
    (process_splited_equal_matched_tuples vm hit start cnt a).filter_map =
      (List.range' start cnt).foldl (fun l i => l.set i (hit.getD i false)) a.filter_map ∧
    (process_splited_equal_matched_tuples vm hit start cnt a).null_map_data =
      (List.range' start cnt).foldl
        (fun l i => l.set i (!(vm.getD i none).isSome || !hit.getD i false))
        a.null_map_data ∧
    (process_splited_equal_matched_tuples vm hit start cnt a).matched_map = a.matched_map ∧
    (process_splited_equal_matched_tuples vm hit start cnt a).is_any_probe_match_row_output =
      (a.is_any_probe_match_row_output ||
        ((((List.range' start cnt).foldl (fun l i => l.set i (hit.getD i false))
          a.filter_map).drop start).take cnt).contains true) := by
  unfold process_splited_equal_matched_tuples
  simp only
  have key : ∀ (is : List Nat) (a : ApplierState),
      (is.foldl (fun a i =>
        let join_hit := (vm.getD i none).isSome
        let other_hit := hit.getD i false
        let a := { a with null_map_data := a.null_map_data.set i (!join_hit || !other_hit) }
        let a := { a with filter_map := a.filter_map.set i other_hit }
        if join_hit then
          { a with hash_table := or_visited a.hash_table (vm.getD i none) other_hit }
        else a) a).filter_map =
        is.foldl (fun l i => l.set i (hit.getD i false)) a.filter_map ∧
      (is.foldl (fun a i =>
        let join_hit := (vm.getD i none).isSome
        let other_hit := hit.getD i false
        let a := { a with null_map_data := a.null_map_data.set i (!join_hit || !other_hit) }
        let a := { a with filter_map := a.filter_map.set i other_hit }
        if join_hit then
          { a with hash_table := or_visited a.hash_table (vm.getD i none) other_hit }
        else a) a).null_map_data =
        is.foldl (fun l i => l.set i (!(vm.getD i none).isSome || !hit.getD i false))
          a.null_map_data ∧
      (is.foldl (fun a i =>
        let join_hit := (vm.getD i none).isSome
        let other_hit := hit.getD i false
        let a := { a with null_map_data := a.null_map_data.set i (!join_hit || !other_hit) }
        let a := { a with filter_map := a.filter_map.set i other_hit }
        if join_hit then
          { a with hash_table := or_visited a.hash_table (vm.getD i none) other_hit }
        else a) a).matched_map = a.matched_map ∧
      (is.foldl (fun a i =>
        let join_hit := (vm.getD i none).isSome
        let other_hit := hit.getD i false
        let a := { a with null_map_data := a.null_map_data.set i (!join_hit || !other_hit) }
        let a := { a with filter_map := a.filter_map.set i other_hit }
        if join_hit then
          { a with hash_table := or_visited a.hash_table (vm.getD i none) other_hit }
        else a) a).is_any_probe_match_row_output = a.is_any_probe_match_row_output := by
    intro is
    induction is with
    | nil => intro a; exact ⟨rfl, rfl, rfl, rfl⟩
    | cons i is ih =>
      intro a
      simp only [List.foldl_cons]
      obtain ⟨h1, h2, h3, h4⟩ := ih (
        if (vm.getD i none).isSome = true then
          { a with null_map_data := a.null_map_data.set i
                     (!(vm.getD i none).isSome || !hit.getD i false)
                   filter_map := a.filter_map.set i (hit.getD i false)
                   hash_table := or_visited a.hash_table (vm.getD i none) (hit.getD i false) }
        else
          { a with null_map_data := a.null_map_data.set i
                     (!(vm.getD i none).isSome || !hit.getD i false)
                   filter_map := a.filter_map.set i (hit.getD i false) })
      rw [h1, h2, h3, h4]
      split_ifs <;> exact ⟨rfl, rfl, rfl, rfl⟩
  obtain ⟨k1, k2, k3, k4⟩ := key (List.range' start cnt) a
  exact ⟨k1, k2, k3, by rw [k4, k1]⟩

theorem left_outer_middle_step_frame (vm : List (Option (Nat × Nat)))
    (same hit : List Bool) (a : ApplierState) (i : Nat) :
    (left_outer_middle_step vm same hit a i).is_any_probe_match_row_output =
      a.is_any_probe_match_row_output ∧
    (left_outer_middle_step vm same hit a i).matched_map = a.matched_map ∧
    (left_outer_middle_step vm same hit a i).filter_map.length = a.filter_map.length ∧
    (left_outer_middle_step vm same hit a i).null_map_data.length = a.null_map_data.length ∧
    ∀ j, i ≠ j → (i - 1 = j → same.getD i false = false) →
      (left_outer_middle_step vm same hit a i).filter_map[j]? = a.filter_map[j]? ∧
      (left_outer_middle_step vm same hit a i).null_map_data[j]? = a.null_map_data[j]? := by
  unfold left_outer_middle_step
  simp only
  refine ⟨?_, ?_, ?_, ?_, ?_⟩
  · split_ifs <;> rfl
  · split_ifs <;> rfl
  · split_ifs <;> simp
  · split_ifs <;> simp
  · intro j h1 h2
    split_ifs with c1 c2
    · have hs : same.getD i false = true := by
        simp only [Bool.and_eq_true] at c2
        exact c2.1.1
      have h3 : i - 1 ≠ j := fun h => by rw [h2 h] at hs; exact Bool.false_ne_true hs
      simp [List.getElem?_set, h1, h3]
    · simp [List.getElem?_set, h1]
    · simp [List.getElem?_set, h1]

theorem left_outer_middle_frame (s : ProbeState) (hit : List Bool) (row_count : Nat)
    (a : ApplierState) :
    (left_outer_middle s hit row_count a).is_any_probe_match_row_output =
      a.is_any_probe_match_row_output ∧
    (left_outer_middle s hit row_count a).matched_map = a.matched_map ∧
    (left_outer_middle s hit row_count a).filter_map.length = a.filter_map.length ∧
    (left_outer_middle s hit row_count a).null_map_data.length = a.null_map_data.length ∧
    ∀ j, (j < s.row_count_from_last_probe ∧
          s.same_to_prev.getD s.row_count_from_last_probe false = false) ∨
        row_count - s.multi_matched_output_row_count ≤ j →
      (left_outer_middle s hit row_count a).filter_map[j]? = a.filter_map[j]? ∧
      (left_outer_middle s hit row_count a).null_map_data[j]? = a.null_map_data[j]? := by
  unfold left_outer_middle
  simp only
  have key : ∀ (is : List Nat) (a : ApplierState),
      (is.foldl (left_outer_middle_step s.visited_map s.same_to_prev hit) a
        ).is_any_probe_match_row_output = a.is_any_probe_match_row_output ∧
      (is.foldl (left_outer_middle_step s.visited_map s.same_to_prev hit) a).matched_map =
        a.matched_map ∧
      (is.foldl (left_outer_middle_step s.visited_map s.same_to_prev hit) a
        ).filter_map.length = a.filter_map.length ∧
      (is.foldl (left_outer_middle_step s.visited_map s.same_to_prev hit) a
        ).null_map_data.length = a.null_map_data.length ∧
      ∀ j, (∀ i ∈ is, i ≠ j ∧ (i - 1 = j → s.same_to_prev.getD i false = false)) →
        (is.foldl (left_outer_middle_step s.visited_map s.same_to_prev hit) a
          ).filter_map[j]? = a.filter_map[j]? ∧
        (is.foldl (left_outer_middle_step s.visited_map s.same_to_prev hit) a
          ).null_map_data[j]? = a.null_map_data[j]? := by
    intro is
    induction is with
    | nil => intro a; exact ⟨rfl, rfl, rfl, rfl, fun _ _ => ⟨rfl, rfl⟩⟩
    | cons i is ih =>
      intro a
      simp only [List.foldl_cons]
      obtain ⟨f1, f2, f3, f4, f5⟩ :=
        left_outer_middle_step_frame s.visited_map s.same_to_prev hit a i
      obtain ⟨g1, g2, g3, g4, g5⟩ :=
        ih (left_outer_middle_step s.visited_map s.same_to_prev hit a i)
      refine ⟨g1.trans f1, g2.trans f2, g3.trans f3, g4.trans f4, ?_⟩
      intro j hj
      obtain ⟨k1, k2⟩ := g5 j (fun i' hi' => hj i' (List.mem_cons_of_mem _ hi'))
      obtain ⟨k3, k4⟩ := f5 j (hj i (List.mem_cons_self _ _)).1 (hj i (List.mem_cons_self _ _)).2
      exact ⟨k1.trans k3, k2.trans k4⟩
  obtain ⟨k1, k2, k3, k4, k5⟩ := key (List.range' s.row_count_from_last_probe
    (row_count - s.multi_matched_output_row_count - s.row_count_from_last_probe)) a
  refine ⟨k1, k2, k3, k4, ?_⟩
  intro j hj
  apply k5
  intro i hi
  rw [List.mem_range'_1] at hi
  rcases hj with ⟨h1, h2⟩ | h1
  · refine ⟨by omega, ?_⟩
    intro h3
    have : i = s.row_count_from_last_probe := by omega
    rw [this]; exact h2
  · refine ⟨by omega, ?_⟩
    intro h3
    omega

theorem foldl_set_range'_eq {α : Type} (g : Nat → α) (start cnt : Nat) (l : List α)
    (h : start + cnt ≤ l.length) :
    (List.range' start cnt).foldl (fun l i => l.set i (g i)) l =
      l.take start ++ (List.range' start cnt).map g ++ l.drop (start + cnt) := by
  apply List.ext_getElem?
  intro j
  rw [foldl_set_getElem?]
  by_cases h1 : j < start
  · have : ¬ (j ∈ List.range' start cnt) := by rw [List.mem_range'_1]; omega
    rw [if_neg (fun hh => this hh.1), List.append_assoc,
      List.getElem?_append_left (by simp; omega), List.getElem?_take_of_lt h1]
  · by_cases h2 : j < start + cnt
    · rw [if_pos ⟨List.mem_range'_1.mpr ⟨by omega, h2⟩, by omega⟩, List.append_assoc,
        List.getElem?_append_right (by simp; omega),
        List.getElem?_append_left (by simp; omega)]
      simp only [List.length_take, List.getElem?_map]
      have h3 : min start l.length = start := by omega
      rw [h3, List.getElem?_range' _ _ (by omega)]
      simp only [Option.map_some', Nat.one_mul]
      congr 2
      omega
    · have : ¬ (j ∈ List.range' start cnt) := by rw [List.mem_range'_1]; omega
      rw [if_neg (fun hh => this hh.1), List.getElem?_append_right (by simp; omega)]
      simp only [List.length_append, List.length_take, List.length_map, List.length_range',
        List.getElem?_drop]
      congr 1
      omega

theorem contains_true_map {α : Type} (f : α → Bool) (l : List α) :
    (l.map f).contains true = l.any f := by
  induction l with
  | nil => rfl
  | cons a t ih =>
    simp only [List.map_cons, List.contains_cons, List.any_cons, ih]
    cases f a <;> simp

/-- The suffix part of the rewrite, on columns of `row_count` cells: the cells of the
suffix hold the conjunct results and the null flags, the cells before are untouched, and
the flag is whether any tuple of the suffix passed. -/
theorem left_outer_suffix_eq (s : ProbeState) (hit : List Bool) (row_count : Nat)
    (a : ApplierState)
    (hm : 0 < s.multi_matched_output_row_count)
    (hle : s.multi_matched_output_row_count ≤ row_count)
    (h1 : a.filter_map.length = row_count) (h2 : a.null_map_data.length = row_count) :
    (left_outer_suffix s hit row_count a).filter_map =
      a.filter_map.take (row_count - s.multi_matched_output_row_count) ++
        (List.range' (row_count - s.multi_matched_output_row_count)
          s.multi_matched_output_row_count).map (fun i => hit.getD i false) ∧
    (left_outer_suffix s hit row_count a).null_map_data =
      a.null_map_data.take (row_count - s.multi_matched_output_row_count) ++
        (List.range' (row_count - s.multi_matched_output_row_count)
          s.multi_matched_output_row_count).map
          (fun i => !(s.visited_map.getD i none).isSome || !hit.getD i false) ∧
    (left_outer_suffix s hit row_count a).is_any_probe_match_row_output =
      ((List.range' (row_count - s.multi_matched_output_row_count)
          s.multi_matched_output_row_count).map (fun i => hit.getD i false)).contains true := by
  unfold left_outer_suffix
  rw [if_pos hm]
  obtain ⟨f1, f2, -, f4⟩ := process_splited_fields s.visited_map hit
    (row_count - s.multi_matched_output_row_count) s.multi_matched_output_row_count
    { a with is_any_probe_match_row_output := false }
  have e1 := foldl_set_range'_eq (fun i => hit.getD i false)
    (row_count - s.multi_matched_output_row_count) s.multi_matched_output_row_count
    a.filter_map (by omega)
  have e2 := foldl_set_range'_eq
    (fun i => !(s.visited_map.getD i none).isSome || !hit.getD i false)
    (row_count - s.multi_matched_output_row_count) s.multi_matched_output_row_count
    a.null_map_data (by omega)
  have hd1 : a.filter_map.drop (row_count - s.multi_matched_output_row_count +
      s.multi_matched_output_row_count) = [] := by
    apply List.drop_of_length_le; omega
  have hd2 : a.null_map_data.drop (row_count - s.multi_matched_output_row_count +
      s.multi_matched_output_row_count) = [] := by
    apply List.drop_of_length_le; omega
  rw [hd1, List.append_nil] at e1
  rw [hd2, List.append_nil] at e2
  simp only at f1 f2 f4
  rw [e1] at f1 f4
  rw [e2] at f2
  refine ⟨f1, f2, ?_⟩
  rw [f4]
  have hlen : (a.filter_map.take (row_count - s.multi_matched_output_row_count)).length =
      row_count - s.multi_matched_output_row_count := by
    rw [List.length_take]; omega
  rw [List.drop_left' hlen, List.take_of_length_le (by simp)]
  simp

theorem set_zero_append {α : Type} (l r : List α) (v : α) (h : 0 < l.length) :
    (l ++ r).set 0 v = l.set 0 v ++ r := by
  cases l with
  | nil => simp at h
  | cons a t => rfl

/-- The prefix part of the rewrite, on columns of `row_count` cells: the first
`_row_count_from_last_probe` cells hold the conjunct results and the null flags, unless this
is the last sub-block and no tuple of the probe row has passed so far, in which case cell 0
is kept and flagged null; the cells after the prefix are untouched. -/
theorem left_outer_prefix_eq (s : ProbeState) (hit : List Bool) (row_count : Nat)
    (a : ApplierState)
    (hrc : 0 < s.row_count_from_last_probe)
    (hle : s.row_count_from_last_probe ≤ row_count)
    (h1 : a.filter_map.length = row_count) (h2 : a.null_map_data.length = row_count) :
    ( left_outer_prefix s hit a).filter_map =
      (if (s.is_the_last_sub_block && !(a.is_any_probe_match_row_output ||
          ((List.range' 0 s.row_count_from_last_probe).map
            (fun i => hit.getD i false)).contains true)) = true then
        ((List.range' 0 s.row_count_from_last_probe).map
          (fun i => hit.getD i false)).set 0 true
       else (List.range' 0 s.row_count_from_last_probe).map (fun i => hit.getD i false)) ++
        a.filter_map.drop s.row_count_from_last_probe ∧
    ( left_outer_prefix s hit a).null_map_data =
      (if (s.is_the_last_sub_block && !(a.is_any_probe_match_row_output ||
          ((List.range' 0 s.row_count_from_last_probe).map
            (fun i => hit.getD i false)).contains true)) = true then
        ((List.range' 0 s.row_count_from_last_probe).map
          (fun i => !(s.visited_map.getD i none).isSome || !hit.getD i false)).set 0 true
       else (List.range' 0 s.row_count_from_last_probe).map
          (fun i => !(s.visited_map.getD i none).isSome || !hit.getD i false)) ++
        a.null_map_data.drop s.row_count_from_last_probe ∧
    ( left_outer_prefix s hit a).is_any_probe_match_row_output =
      (a.is_any_probe_match_row_output ||
        ((List.range' 0 s.row_count_from_last_probe).map
          (fun i => hit.getD i false)).contains true) := by
  unfold left_outer_prefix
  rw [if_pos hrc]
  obtain ⟨f1, f2, -, f4⟩ := process_splited_fields s.visited_map hit
    0 s.row_count_from_last_probe a
  have e1 := foldl_set_range'_eq (fun i => hit.getD i false)
    0 s.row_count_from_last_probe a.filter_map (by omega)
  have e2 := foldl_set_range'_eq
    (fun i => !(s.visited_map.getD i none).isSome || !hit.getD i false)
    0 s.row_count_from_last_probe a.null_map_data (by omega)
  simp only [List.take_zero, List.nil_append, Nat.zero_add] at e1 e2
  rw [e1] at f1 f4
  rw [e2] at f2
  have hlen : ((List.range' 0 s.row_count_from_last_probe).map
      (fun i => hit.getD i false)).length = s.row_count_from_last_probe := by simp
  rw [List.drop_zero, List.take_left' hlen] at f4
  simp only
  rw [f4]
  split_ifs with hc
  · simp only [f1, f2]
    refine ⟨set_zero_append _ _ _ (by simp; omega), set_zero_append _ _ _ (by simp; omega),
      trivial⟩
  · exact ⟨f1, f2, f4⟩

theorem left_outer_prefix_length (s : ProbeState) (hit : List Bool) (row_count : Nat)
    (a : ApplierState)
    (hle : s.row_count_from_last_probe ≤ row_count)
    (h1 : a.filter_map.length = row_count) (h2 : a.null_map_data.length = row_count) :
    ( left_outer_prefix s hit a).filter_map.length = row_count ∧
    ( left_outer_prefix s hit a).null_map_data.length = row_count := by
  by_cases hrc : 0 < s.row_count_from_last_probe
  · obtain ⟨e1, e2, -⟩ := left_outer_prefix_eq s hit row_count a hrc hle h1 h2
    rw [e1, e2]
    constructor <;> split_ifs <;> simp <;> omega
  · unfold left_outer_prefix
    rw [if_neg hrc]
    exact ⟨h1, h2⟩

theorem take_eq_of_getElem? {α : Type} (l1 l2 : List α) (n : Nat)
    (h : ∀ j, j < n → l1[j]? = l2[j]?) : l1.take n = l2.take n := by
  apply List.ext_getElem?
  intro j
  rw [List.getElem?_take, List.getElem?_take]
  split_ifs with hj
  · exact h j hj
  · rfl

theorem drop_eq_of_getElem? {α : Type} (l1 l2 : List α) (n : Nat)
    (h : ∀ j, n ≤ j → l1[j]? = l2[j]?) : l1.drop n = l2.drop n := by
  apply List.ext_getElem?
  intro j
  rw [List.getElem?_drop, List.getElem?_drop]
  exact h _ (by omega)

/-- The LEFT_OUTER / FULL_OUTER rewrite on the prefix: what the filter column and the null
map hold, after the whole rewrite, on the tuples continuing the probe row of the previous
call. -/
theorem left_outer_rewrite_prefix (s : ProbeState) (hit : List Bool) (row_count : Nat)
    (a0 : ApplierState)
    (hrc : 0 < s.row_count_from_last_probe)
    (hsum : s.row_count_from_last_probe + s.multi_matched_output_row_count ≤ row_count)
    (hsame : s.same_to_prev.getD s.row_count_from_last_probe false = false) :
    (left_outer_rewrite s hit row_count a0).filter_map.length = row_count ∧
    (left_outer_rewrite s hit row_count a0).null_map_data.length = row_count ∧
    (left_outer_rewrite s hit row_count a0).filter_map.take s.row_count_from_last_probe =
      (if (s.is_the_last_sub_block && !(a0.is_any_probe_match_row_output ||
          ((List.range' 0 s.row_count_from_last_probe).map
            (fun i => hit.getD i false)).contains true)) = true then
        ((List.range' 0 s.row_count_from_last_probe).map
          (fun i => hit.getD i false)).set 0 true
       else (List.range' 0 s.row_count_from_last_probe).map (fun i => hit.getD i false)) ∧
    (left_outer_rewrite s hit row_count a0).null_map_data.take s.row_count_from_last_probe =
      (if (s.is_the_last_sub_block && !(a0.is_any_probe_match_row_output ||
          ((List.range' 0 s.row_count_from_last_probe).map
            (fun i => hit.getD i false)).contains true)) = true then
        ((List.range' 0 s.row_count_from_last_probe).map
          (fun i => !(s.visited_map.getD i none).isSome || !hit.getD i false)).set 0 true
       else (List.range' 0 s.row_count_from_last_probe).map
          (fun i => !(s.visited_map.getD i none).isSome || !hit.getD i false)) ∧
    (s.multi_matched_output_row_count = 0 →
      (left_outer_rewrite s hit row_count a0).is_any_probe_match_row_output =
        (a0.is_any_probe_match_row_output ||
          ((List.range' 0 s.row_count_from_last_probe).map
            (fun i => hit.getD i false)).contains true)) := by
  unfold left_outer_rewrite
  simp only
  generalize ha : ({ a0 with filter_map := List.replicate row_count false
                             null_map_data := List.replicate row_count false } :
    ApplierState) = a
  have h1 : a.filter_map.length = row_count := by rw [← ha]; simp
  have h2 : a.null_map_data.length = row_count := by rw [← ha]; simp
  have h3 : a.is_any_probe_match_row_output = a0.is_any_probe_match_row_output := by
    rw [← ha]
  obtain ⟨p1, p2, p3⟩ := left_outer_prefix_eq s hit row_count a hrc (by omega) h1 h2
  obtain ⟨q1, q2⟩ := left_outer_prefix_length s hit row_count a (by omega) h1 h2
  obtain ⟨m1, -, m3, m4, m5⟩ :=
    left_outer_middle_frame s hit row_count ( left_outer_prefix s hit a)
  have hA : ((left_outer_middle s hit row_count ( left_outer_prefix s hit a)).filter_map.take
      s.row_count_from_last_probe = ( left_outer_prefix s hit a).filter_map.take
      s.row_count_from_last_probe) :=
    take_eq_of_getElem? _ _ _ (fun j hj => (m5 j (Or.inl ⟨hj, hsame⟩)).1)
  have hB : ((left_outer_middle s hit row_count ( left_outer_prefix s hit a)
      ).null_map_data.take s.row_count_from_last_probe =
      ( left_outer_prefix s hit a).null_map_data.take s.row_count_from_last_probe) :=
    take_eq_of_getElem? _ _ _ (fun j hj => (m5 j (Or.inl ⟨hj, hsame⟩)).2)
  have hlenH : ∀ (g : Nat → Bool) (b : Bool),
      (if b = true then ((List.range' 0 s.row_count_from_last_probe).map g).set 0 true
        else (List.range' 0 s.row_count_from_last_probe).map g).length =
        s.row_count_from_last_probe := by
    intro g b; split_ifs <;> simp
  rw [p1, List.take_left' (hlenH _ _)] at hA
  rw [p2, List.take_left' (hlenH _ _)] at hB
  rw [h3] at hA hB p3
  by_cases hm : 0 < s.multi_matched_output_row_count
  · obtain ⟨s1, s2, -⟩ := left_outer_suffix_eq s hit row_count
      (left_outer_middle s hit row_count ( left_outer_prefix s hit a)) hm (by omega)
      (m3.trans q1) (m4.trans q2)
    refine ⟨?_, ?_, ?_, ?_, fun h => by omega⟩
    · rw [s1]; simp [m3, q1]; omega
    · rw [s2]; simp [m4, q2]; omega
    · rw [s1, List.take_append_of_le_length (by simp [m3, q1]; omega),
        List.take_take, Nat.min_eq_left (by omega), hA]
    · rw [s2, List.take_append_of_le_length (by simp [m4, q2]; omega),
        List.take_take, Nat.min_eq_left (by omega), hB]
  · have hs : left_outer_suffix s hit row_count
        (left_outer_middle s hit row_count ( left_outer_prefix s hit a)) =
        left_outer_middle s hit row_count ( left_outer_prefix s hit a) := by
      unfold left_outer_suffix
      rw [if_neg hm]
    rw [hs]
    exact ⟨m3.trans q1, m4.trans q2, hA, hB, fun _ => m1.trans p3⟩

/-- The LEFT_OUTER / FULL_OUTER rewrite on the suffix: what the filter column, the null map
and the flag hold, after the whole rewrite, for the first sub-batch of a probe row whose
matches did not fit. -/
theorem left_outer_rewrite_suffix (s : ProbeState) (hit : List Bool) (row_count : Nat)
    (a0 : ApplierState)
    (hm : 0 < s.multi_matched_output_row_count)
    (hsum : s.row_count_from_last_probe + s.multi_matched_output_row_count ≤ row_count) :
    (left_outer_rewrite s hit row_count a0).filter_map.length = row_count ∧
    (left_outer_rewrite s hit row_count a0).null_map_data.length = row_count ∧
    (left_outer_rewrite s hit row_count a0).filter_map.drop
        (row_count - s.multi_matched_output_row_count) =
      (List.range' (row_count - s.multi_matched_output_row_count)
          s.multi_matched_output_row_count).map (fun i => hit.getD i false) ∧
    (left_outer_rewrite s hit row_count a0).null_map_data.drop
        (row_count - s.multi_matched_output_row_count) =
      (List.range' (row_count - s.multi_matched_output_row_count)
          s.multi_matched_output_row_count).map
          (fun i => !(s.visited_map.getD i none).isSome || !hit.getD i false) ∧
    (left_outer_rewrite s hit row_count a0).is_any_probe_match_row_output =
      ((List.range' (row_count - s.multi_matched_output_row_count)
          s.multi_matched_output_row_count).map (fun i => hit.getD i false)).contains true := by
  unfold left_outer_rewrite
  simp only
  generalize ha : ({ a0 with filter_map := List.replicate row_count false
                             null_map_data := List.replicate row_count false } :
    ApplierState) = a
  have h1 : a.filter_map.length = row_count := by rw [← ha]; simp
  have h2 : a.null_map_data.length = row_count := by rw [← ha]; simp
  obtain ⟨q1, q2⟩ := left_outer_prefix_length s hit row_count a (by omega) h1 h2
  obtain ⟨-, -, m3, m4, -⟩ :=
    left_outer_middle_frame s hit row_count ( left_outer_prefix s hit a)
  obtain ⟨s1, s2, s3⟩ := left_outer_suffix_eq s hit row_count
    (left_outer_middle s hit row_count ( left_outer_prefix s hit a)) hm (by omega)
    (m3.trans q1) (m4.trans q2)
  have hl1 : ((left_outer_middle s hit row_count ( left_outer_prefix s hit a)).filter_map.take
      (row_count - s.multi_matched_output_row_count)).length =
      row_count - s.multi_matched_output_row_count := by
    rw [List.length_take, m3, q1]; omega
  have hl2 : ((left_outer_middle s hit row_count ( left_outer_prefix s hit a)
      ).null_map_data.take (row_count - s.multi_matched_output_row_count)).length =
      row_count - s.multi_matched_output_row_count := by
    rw [List.length_take, m4, q2]; omega
  refine ⟨?_, ?_, ?_, ?_, s3⟩
  · rw [s1, List.length_append, hl1]; simp; omega
  · rw [s2, List.length_append, hl2]; simp; omega
  · rw [s1, List.drop_left' hl1]
  · rw [s2, List.drop_left' hl2]

/-- The found arm, field by field. `k` is the number of rows of the list it emits: all of
them with mark join and other conjuncts, as many as fit in the batch in the capped arm,
none for RIGHT_SEMI / RIGHT_ANTI without other conjuncts. -/
theorem found_branch_fields (cfg : Config) (entry : Nat) (m : Mapped) (s : ProbeState) :
    let rows := m.rows.map Prod.fst
    let uncapped := cfg.is_mark_join && cfg.with_other_conjuncts
    let capped := !uncapped &&
      (cfg.with_other_conjuncts || !is_right_semi_anti_join cfg.JoinOpType)
    let k := if uncapped then rows.length
      else if capped then min (cfg.batch_size - s.current_offset) rows.length else 0
    let s' := found_branch cfg entry m s
    s'.build_block_offsets = s.build_block_offsets ++ (rows.take k).map RowRef.block_offset ∧
    s'.build_block_rows = s.build_block_rows ++ (rows.take k).map RowRef.row_num ∧
    s'.current_offset = s.current_offset + k ∧
    s'.visited_map = (if cfg.with_other_conjuncts then
      s.visited_map ++ (List.range' 0 k).map (fun p => some (entry, p)) else s.visited_map) ∧
    s'.same_to_prev = (if cfg.with_other_conjuncts then
      s.same_to_prev ++ [false] ++ List.replicate (k - 1) true else s.same_to_prev) ∧
    s'.probe_row_match_iter =
      (if capped then ⟨entry, k, rows.drop k⟩ else s.probe_row_match_iter) ∧
    s'.probe_index = s.probe_index + (if capped && decide (k < rows.length) then 0 else 1) ∧
    s'.multi_matched_output_row_count =
      (if capped && decide (k < rows.length) && cfg.with_other_conjuncts then k
       else s.multi_matched_output_row_count) ∧
    s'.row_count_from_last_probe = s.row_count_from_last_probe ∧
    s'.is_the_last_sub_block = s.is_the_last_sub_block ∧
    s'.is_any_probe_match_row_output = s.is_any_probe_match_row_output ∧
    s'.tuple_is_null_right_flags = s.tuple_is_null_right_flags ∧
    s'.tuple_is_null_left_flags = s.tuple_is_null_left_flags ∧
    s'.probe_indexs = s.probe_indexs ∧
    s'.all_match_one = s.all_match_one ∧
    s'.mark_column = s.mark_column ∧
    s'.hash_table = (if s.hash_table.kind == RowRefKind.RowRefListWithFlag then
      set_key_visited s.hash_table entry else s.hash_table) := by
  intro rows uncapped capped k s'
  have hs' : s' = found_branch cfg entry m s := rfl
  have hrows : List.map Prod.fst m.rows = rows := rfl
  unfold found_branch at hs'
  simp only [found_match_loop_eq, mark_match_loop_eq, ok_drop, Nat.zero_add, hrows] at hs'
  have hk : k = if uncapped then rows.length
      else if capped then min (cfg.batch_size - s.current_offset) rows.length else 0 := rfl
  have hu : uncapped = (cfg.is_mark_join && cfg.with_other_conjuncts) := rfl
  have hc : capped = (!uncapped &&
      (cfg.with_other_conjuncts || !is_right_semi_anti_join cfg.JoinOpType)) := rfl
  clear_value k uncapped capped s'
  cases hm : cfg.is_mark_join <;> cases ho : cfg.with_other_conjuncts <;>
    cases hr : is_right_semi_anti_join cfg.JoinOpType <;>
    simp only [hm, ho, hr, Bool.and_self, Bool.and_false, Bool.false_and, Bool.false_eq_true,
      if_false, if_true, Bool.or_self, Bool.not_false, Bool.not_true, Bool.or_true,
      Bool.true_or, Bool.or_false, Bool.true_and, Bool.and_true, Bool.false_or] at hs' hu hc <;>
    subst hu <;> subst hc <;>
    simp only [Bool.false_eq_true, if_false, if_true, Bool.not_false, Bool.not_true] at hk <;>
    subst hk
  all_goals
    have hkb : (s.hash_table.kind == RowRefKind.RowRefListWithFlag) = decide
        (s.hash_table.kind = RowRefKind.RowRefListWithFlag) := by
      cases hq : s.hash_table.kind <;> rfl
    by_cases hlt : min (cfg.batch_size - s.current_offset) rows.length < rows.length <;>
    by_cases hkind : s.hash_table.kind = RowRefKind.RowRefListWithFlag
  all_goals
    try simp only [hlt, decide_True, decide_False, Bool.not_true, Bool.not_false,
      Bool.false_eq_true, if_false, if_true] at hs'
    try simp only [hkb, hkind, decide_True, decide_False, Bool.false_eq_true, if_false,
      if_true] at hs'
    subst hs'
    simp [hlt, hkind]

theorem step_ext_refl (s : ProbeState) : StepExt s s :=
  ⟨⟨[], by simp⟩, ⟨[], by simp⟩, ⟨[], by simp⟩, ⟨[], by simp⟩, rfl, rfl, rfl, rfl, rfl,
    fun _ => rfl, rfl, le_refl _, Or.inl rfl⟩

theorem step_ext_trans (s t u : ProbeState) (h1 : StepExt s t) (h2 : StepExt t u) :
    StepExt s u := by
  obtain ⟨⟨A, a⟩, ⟨B, b⟩, ⟨V, v⟩, ⟨Y, y, y'⟩, r1, r2, r3, r4, r5, r6, r7, r8, r9⟩ := h1
  obtain ⟨⟨A', a'⟩, ⟨B', b'⟩, ⟨V', v'⟩, ⟨Y', z, z'⟩, q1, q2, q3, q4, q5, q6, q7, q8, q9⟩ := h2
  refine ⟨⟨A ++ A', by rw [a', a, List.append_assoc]⟩,
    ⟨B ++ B', by rw [b', b, List.append_assoc]⟩,
    ⟨V ++ V', by rw [v', v, List.append_assoc]⟩,
    ⟨Y ++ Y', by rw [z, y, List.append_assoc], ?_⟩,
    q1.trans r1, q2.trans r2, q3.trans r3, q4.trans r4, q5.trans r5, ?_, q7.trans r7,
    le_trans r8 q8, ?_⟩
  · cases Y with
    | nil => simpa using z'
    | cons c Y'' => simpa using y'
  · intro h
    rw [q6 (by rw [r7]; exact h), r6 h]
  · rcases q9 with q9 | q9
    · rcases r9 with r9 | r9
      · exact Or.inl (q9.trans r9)
      · exact Or.inr (by omega)
    · exact Or.inr (by omega)

theorem kind_beq_false (k : RowRefKind) (h : k ≠ RowRefKind.RowRefListWithFlag) :
    (k == RowRefKind.RowRefListWithFlag) = false := by
  cases k <;> simp_all

theorem set_key_visited_kind (ht : HashTable) (entry : Nat) :
    (set_key_visited ht entry).kind = ht.kind := by
  unfold set_key_visited
  split <;> rfl

theorem null_key_branch_ext (cfg : Config) (s : ProbeState) :
    StepExt s (null_key_branch cfg s) := by
  unfold StepExt null_key_branch
  cases hp : probe_all cfg.JoinOpType <;> cases ho : cfg.with_other_conjuncts <;>
    simp [emplace_element]

theorem finish_step_ext (i : Nat) (s t : ProbeState) (h : StepExt s t) :
    StepExt s (finish_step i t) := by
  unfold finish_step
  exact h

theorem semi_anti_branch_ext (cfg : Config) (found : Bool) (s : ProbeState) :
    StepExt s (semi_anti_branch cfg found s) := by
  unfold StepExt semi_anti_branch
  cases hm : cfg.is_mark_join <;> simp

theorem not_found_branch_ext (cfg : Config) (s : ProbeState) :
    StepExt s (not_found_branch cfg s) := by
  unfold StepExt not_found_branch
  split_ifs <;> simp [emplace_element]

theorem found_branch_ext (cfg : Config) (entry : Nat) (m : Mapped) (s : ProbeState) :
    StepExt s (found_branch cfg entry m s) := by
  obtain ⟨f1, f2, f3, f4, f5, -, -, f8, f9, f10, f11, f12, f13, -, -, -, f17⟩ :=
    found_branch_fields cfg entry m s
  refine ⟨⟨_, f1⟩, ⟨_, f2⟩, ?_, ?_, f9, f10, f11, f12, f13, ?_, ?_, by omega, ?_⟩
  · rw [f4]
    by_cases ho : cfg.with_other_conjuncts = true
    · rw [if_pos ho]; exact ⟨_, rfl⟩
    · rw [if_neg ho]; exact ⟨[], (List.append_nil _).symm⟩
  · rw [f5]
    by_cases ho : cfg.with_other_conjuncts = true
    · rw [if_pos ho]; exact ⟨_, List.append_assoc _ _ _, rfl⟩
    · rw [if_neg ho]; exact ⟨[], (List.append_nil _).symm, rfl⟩
  · intro hk
    rw [f17]
    rw [kind_beq_false _ hk]
    rfl
  · rw [f17]
    split_ifs
    · exact set_key_visited_kind _ _
    · rfl
  · rw [f8, f3]
    by_cases hc : ((!(cfg.is_mark_join && cfg.with_other_conjuncts) &&
        (cfg.with_other_conjuncts || !is_right_semi_anti_join cfg.JoinOpType)) &&
        decide ((if (cfg.is_mark_join && cfg.with_other_conjuncts) = true then
          (m.rows.map Prod.fst).length
          else if (!(cfg.is_mark_join && cfg.with_other_conjuncts) &&
            (cfg.with_other_conjuncts || !is_right_semi_anti_join cfg.JoinOpType)) = true
          then min (cfg.batch_size - s.current_offset) (m.rows.map Prod.fst).length else 0) <
          (m.rows.map Prod.fst).length) && cfg.with_other_conjuncts) = true
    · rw [if_pos hc]; exact Or.inr (by omega)
    · rw [if_neg hc]; exact Or.inl rfl

theorem probe_step_ext (cfg : Config) (probe : ProbeBatch) (s : ProbeState) :
    StepExt s (probe_step cfg probe s) := by
  unfold probe_step
  split_ifs with hn
  · exact null_key_branch_ext cfg s
  · apply finish_step_ext
    unfold dispatch
    split_ifs with hs
    · exact semi_anti_branch_ext cfg _ s
    · cases find_result cfg probe s.hash_table.entries s.probe_index with
      | none => exact not_found_branch_ext cfg s
      | some e => exact found_branch_ext cfg e _ s

/-- The fields `_probe_row_match` and the grouping step set when an iterator was suspended
and there are other conjuncts. -/
theorem resume_probe_ok_other (cfg : Config) (s : ProbeState)
    (hok : s.probe_row_match_iter.ok = true) (ho : cfg.with_other_conjuncts = true) :
    let k := min cfg.batch_size s.probe_row_match_iter.rest.length
    let s' := resume_probe cfg s
    s'.visited_map = (List.range' s.probe_row_match_iter.pos k).map
      (fun p => some (s.probe_row_match_iter.entry, p)) ∧
    s'.same_to_prev = [false] ++ List.replicate (k - 1) true ∧
    s'.is_the_last_sub_block = !decide (k < s.probe_row_match_iter.rest.length) ∧
    s'.is_any_probe_match_row_output = s.is_any_probe_match_row_output ∧
    s'.tuple_is_null_right_flags = s.tuple_is_null_right_flags ∧
    s'.tuple_is_null_left_flags = s.tuple_is_null_left_flags := by
  intro k s'
  have hs' : s' = resume_probe cfg s := rfl
  unfold resume_probe probe_row_match init_probe_side at hs'
  simp only [probe_row_match_loop_eq, hok, ho, Bool.not_true, Bool.false_eq_true, if_false,
    if_true, ok_drop, Nat.sub_zero, Bool.true_and] at hs'
  have hk : min cfg.batch_size s.probe_row_match_iter.rest.length = k := rfl
  rw [hk] at hs'
  by_cases hlt : k < s.probe_row_match_iter.rest.length
  · simp only [hlt, decide_True, Bool.not_true, Bool.false_eq_true, if_false] at hs'
    rw [hs']
    simp [ForwardIterator.ok, hlt]
  · simp only [hlt, decide_False, Bool.not_false, if_true] at hs'
    rw [hs']
    simp [ForwardIterator.ok, hlt]
    omega

theorem resume_probe_ext (cfg : Config) (s : ProbeState) :
    (resume_probe cfg s).hash_table = s.hash_table ∧
    (resume_probe cfg s).is_any_probe_match_row_output = s.is_any_probe_match_row_output ∧
    (resume_probe cfg s).tuple_is_null_right_flags = s.tuple_is_null_right_flags ∧
    (resume_probe cfg s).tuple_is_null_left_flags = s.tuple_is_null_left_flags ∧
    (resume_probe cfg s).multi_matched_output_row_count = 0 ∧
    (resume_probe cfg s).row_count_from_last_probe = (resume_probe cfg s).current_offset := by
  cases hok : s.probe_row_match_iter.ok
  · rw [resume_probe_not_ok cfg s hok]
    exact ⟨rfl, rfl, rfl, rfl, rfl, rfl⟩
  · obtain ⟨h1, -, -, -, -, -, -, h8, h9, -, h11⟩ := resume_probe_ok cfg s hok
    have hs' : resume_probe cfg s = resume_probe cfg s := rfl
    refine ⟨h9, ?_, ?_, ?_, h11, h8.trans h1.symm⟩
    all_goals
      unfold resume_probe probe_row_match init_probe_side
      simp only [probe_row_match_loop_eq, hok, Bool.not_true, Bool.false_eq_true, if_false]
      split_ifs <;> rfl

theorem resume_probe_scratch_len (cfg : Config) (s : ProbeState)
    (ho : cfg.with_other_conjuncts = true) : ScratchLen (resume_probe cfg s) := by
  cases hok : s.probe_row_match_iter.ok
  · rw [resume_probe_not_ok cfg s hok]
    simp [ScratchLen, init_probe_side, ho]
  · obtain ⟨h1, -, -, -, -, h6, h7, -⟩ := resume_probe_ok cfg s hok
    obtain ⟨g1, -⟩ := resume_probe_ok_other cfg s hok ho
    unfold ScratchLen
    rw [h1, h6, h7, g1]
    simp

theorem probe_step_scratch_len (cfg : Config) (probe : ProbeBatch) (s : ProbeState)
    (ho : cfg.with_other_conjuncts = true) (h : ScratchLen s) :
    ScratchLen (probe_step cfg probe s) := by
  obtain ⟨h1, h2, h3⟩ := h
  unfold probe_step
  split_ifs with hn
  · unfold ScratchLen null_key_branch
    cases hp : probe_all cfg.JoinOpType <;> simp [emplace_element, ho, h1, h2, h3]
  · unfold dispatch finish_step
    simp only [ho, Bool.not_true, Bool.false_and, Bool.false_eq_true, if_false]
    cases find_result cfg probe s.hash_table.entries s.probe_index with
    | none =>
      unfold ScratchLen not_found_branch
      simp only
      split_ifs <;> simp [emplace_element, ho, h1, h2, h3]
    | some e =>
      obtain ⟨f1, f2, f3, f4, -⟩ :=
        found_branch_fields cfg e (s.hash_table.entries.getD e (0, ⟨[], false⟩)).2 s
      unfold ScratchLen
      simp only
      rw [f1, f2, f3, f4, if_pos ho]
      simp only [List.length_append, List.length_map, List.length_take, List.length_range',
        h1, h2, h3]
      refine ⟨?_, ?_, trivial⟩ <;> split_ifs <;> omega

theorem do_probe_scratch_len (cfg : Config) (probe : ProbeBatch) (probe_rows : Nat)
    (s : ProbeState) (ho : cfg.with_other_conjuncts = true) :
    ScratchLen (do_probe cfg probe probe_rows s) :=
  probe_loop_induct cfg probe probe_rows ScratchLen
    (fun t ht _ _ => probe_step_scratch_len cfg probe t ho ht)
    (probe_rows - (resume_probe cfg s).probe_index) (resume_probe cfg s)
    (resume_probe_scratch_len cfg s ho)

theorem probe_loop_ext (cfg : Config) (probe : ProbeBatch) (probe_rows : Nat)
    (fuel : Nat) (s : ProbeState) :
    StepExt s (probe_loop cfg probe probe_rows fuel s) :=
  probe_loop_induct cfg probe probe_rows (StepExt s)
    (fun t ht _ _ => step_ext_trans s t _ ht (probe_step_ext cfg probe t)) fuel s
    (step_ext_refl s)

theorem null_key_branch_frame (cfg : Config) (s : ProbeState) :
    (null_key_branch cfg s).probe_row_match_iter = s.probe_row_match_iter ∧
    (null_key_branch cfg s).multi_matched_output_row_count =
      s.multi_matched_output_row_count := by
  unfold null_key_branch
  cases hp : probe_all cfg.JoinOpType <;> cases ho : cfg.with_other_conjuncts <;>
    simp [emplace_element]

theorem not_found_branch_frame (cfg : Config) (s : ProbeState) :
    (not_found_branch cfg s).probe_row_match_iter = s.probe_row_match_iter ∧
    (not_found_branch cfg s).multi_matched_output_row_count =
      s.multi_matched_output_row_count := by
  unfold not_found_branch
  split_ifs <;> simp [emplace_element]

theorem probe_step_split (cfg : Config) (probe : ProbeBatch) (s : ProbeState)
    (ho : cfg.with_other_conjuncts = true) (hm : cfg.is_mark_join = false)
    (hkind : s.hash_table.kind ≠ RowRefKind.RowRefListWithFlag)
    (h1 : s.probe_indexs.length = s.current_offset)
    (hok : s.probe_row_match_iter.ok = false) (hc : s.current_offset < cfg.batch_size)
    (h : SplitInv cfg probe s) : SplitInv cfg probe (probe_step cfg probe s) := by
  obtain ⟨-, g2, g3, -⟩ := probe_step_summary cfg probe s h1 hok hc
  have hleft : s.multi_matched_output_row_count = 0 ∧ ∀ x ∈ s.probe_indexs, x < s.probe_index := by
    rcases h with ⟨a, b⟩ | ⟨a, e, X, A, B, V, -, hit, hlt, -⟩
    · exact ⟨a, b hok⟩
    · exfalso
      rw [hit, ok_drop] at hok
      simp at hok
      omega
  obtain ⟨hmz, hidx⟩ := hleft
  have easy : (probe_step cfg probe s).probe_row_match_iter.ok = false →
      (probe_step cfg probe s).multi_matched_output_row_count = 0 →
      SplitInv cfg probe (probe_step cfg probe s) := by
    intro hok' hm'
    left
    refine ⟨hm', fun _ x hx => ?_⟩
    rw [hok'] at g3
    simp only [Bool.toNat_false, Nat.add_zero] at g3
    rw [g2, List.mem_append] at hx
    rcases hx with hx | hx
    · have := hidx x hx; omega
    · have := (List.mem_replicate.mp hx).2; omega
  by_cases hn : is_ignored_null cfg probe s.probe_index = true
  · have hst : probe_step cfg probe s = null_key_branch cfg s := by
      unfold probe_step; rw [if_pos hn]
    obtain ⟨n1, n2⟩ := null_key_branch_frame cfg s
    apply easy
    · rw [hst, n1]; exact hok
    · rw [hst, n2]; exact hmz
  · cases hf : find_result cfg probe s.hash_table.entries s.probe_index with
    | none =>
      have hst : probe_step cfg probe s = finish_step s.probe_index (not_found_branch cfg s) := by
        unfold probe_step dispatch; rw [if_neg hn, hf]; simp [ho]
      obtain ⟨n1, n2⟩ := not_found_branch_frame cfg s
      apply easy
      · rw [hst]; exact n1.symm ▸ hok
      · rw [hst]; exact n2.symm ▸ hmz
    | some e =>
      have hst : probe_step cfg probe s = finish_step s.probe_index
          (found_branch cfg e ((s.hash_table.entries.getD e (0, ⟨[], false⟩)).2) s) := by
        unfold probe_step dispatch; rw [if_neg hn, hf]; simp [ho]
      obtain ⟨f1, f2, f3, f4, -, f6, f7, f8, -, -, -, -, -, -, -, -, f17⟩ :=
        found_branch_fields cfg e ((s.hash_table.entries.getD e (0, ⟨[], false⟩)).2) s
      simp only [hm, ho, Bool.false_and, Bool.false_eq_true, if_false, Bool.not_false,
        Bool.true_or, Bool.and_self, if_true, Bool.true_and, Bool.and_true,
        kind_beq_false _ hkind] at f1 f2 f3 f4 f6 f7 f8 f17
      have hrows : List.map Prod.fst (s.hash_table.entries.getD e (0, ⟨[], false⟩)).2.rows =
          entry_rows s.hash_table.entries e := rfl
      rw [hrows] at f1 f2 f3 f4 f6 f7 f8
      obtain ⟨k, hk⟩ : ∃ k, k = min (cfg.batch_size - s.current_offset)
          (entry_rows s.hash_table.entries e).length := ⟨_, rfl⟩
      rw [← hk] at f1 f2 f3 f4 f6 f7 f8
      by_cases hlt : k < (entry_rows s.hash_table.entries e).length
      · simp only [hlt, decide_True, if_true] at f7 f8
        right
        have e3 : (probe_step cfg probe s).current_offset = s.current_offset + k := by
          rw [hst]; exact f3
        have e8 : (probe_step cfg probe s).multi_matched_output_row_count = k := by
          rw [hst]; exact f8
        have e7 : (probe_step cfg probe s).probe_index = s.probe_index := by
          rw [hst]; exact f7
        have e17 : (probe_step cfg probe s).hash_table = s.hash_table := by
          rw [hst]; exact f17
        have e6 : (probe_step cfg probe s).probe_row_match_iter =
            ⟨e, k, (entry_rows s.hash_table.entries e).drop k⟩ := by
          rw [hst]; exact f6
        have e1 : (probe_step cfg probe s).build_block_offsets = s.build_block_offsets ++
            ((entry_rows s.hash_table.entries e).take k).map RowRef.block_offset := by
          rw [hst]; exact f1
        have e2 : (probe_step cfg probe s).build_block_rows = s.build_block_rows ++
            ((entry_rows s.hash_table.entries e).take k).map RowRef.row_num := by
          rw [hst]; exact f2
        have e4 : (probe_step cfg probe s).visited_map = s.visited_map ++
            (List.range' 0 k).map (fun p => some (e, p)) := by
          rw [hst]; exact f4
        rw [e8, e7, e17]
        refine ⟨by omega, e, s.probe_indexs, s.build_block_offsets, s.build_block_rows,
          s.visited_map, hf, e6, hlt, ?_, hidx, e1, e2, e4⟩
        rw [g2, e3]
        congr 2
        omega
      · simp only [hlt, decide_False, Bool.false_eq_true, if_false, Nat.add_zero] at f7 f8
        apply easy
        · rw [hst]
          show (found_branch cfg e _ s).probe_row_match_iter.ok = false
          rw [f6, ok_drop]
          simp [hlt]
        · rw [hst]; exact f8.trans hmz

theorem do_probe_split (cfg : Config) (probe : ProbeBatch) (probe_rows : Nat)
    (s : ProbeState) (ho : cfg.with_other_conjuncts = true) (hm : cfg.is_mark_join = false)
    (hkind : s.hash_table.kind ≠ RowRefKind.RowRefListWithFlag) :
    SplitInv cfg probe (do_probe cfg probe probe_rows s) := by
  have key := probe_loop_induct cfg probe probe_rows
    (fun t => LoopInv cfg s.probe_index t ∧ SplitInv cfg probe t ∧
      t.hash_table.kind ≠ RowRefKind.RowRefListWithFlag)
    (fun t ht hc _ => by
      obtain ⟨a, b, c⟩ := ht
      have hok : t.probe_row_match_iter.ok = false := by
        cases hk : t.probe_row_match_iter.ok
        · rfl
        · have := a.2.1 hk; omega
      refine ⟨probe_step_inv cfg probe _ t a hc,
        probe_step_split cfg probe t ho hm c a.1 hok hc b, ?_⟩
      have := (probe_step_ext cfg probe t).2.2.2.2.2.2.2.2.2.2.1
      rw [this]; exact c)
    (probe_rows - (resume_probe cfg s).probe_index) (resume_probe cfg s) ?_
  · exact key.2.1
  · refine ⟨resume_probe_inv cfg s, ?_, ?_⟩
    · left
      refine ⟨(resume_probe_ext cfg s).2.2.2.2.1, ?_⟩
      cases hok : s.probe_row_match_iter.ok
      · rw [resume_probe_not_ok cfg s hok]
        intro _ x hx
        simp [init_probe_side] at hx
      · obtain ⟨-, h2, h3, h4, -⟩ := resume_probe_ok cfg s hok
        intro hok' x hx
        rw [h3, ok_drop] at hok'
        rw [h2] at hx
        rw [h4]
        have := (List.mem_replicate.mp hx).2
        simp at hok'
        rw [if_neg (by omega)]
        omega
    · rw [(resume_probe_ext cfg s).1]; exact hkind

/-! ## LEFT_OUTER / FULL_OUTER with other conjuncts: a probe row split over calls (C10) -/

theorem filter_block_nil_left {α : Type} (c : List α) : filter_block [] c = [] := by
  simp [filter_block]

theorem filter_block_nil_right {α : Type} (f : List Bool) :
    filter_block f ([] : List α) = [] := by
  simp [filter_block]

theorem filter_block_cons {α : Type} (b : Bool) (f : List Bool) (x : α) (c : List α) :
    filter_block (b :: f) (x :: c) =
      (if b then [x] else []) ++ filter_block f c := by
  cases b <;> simp [filter_block]

theorem filter_block_append {α : Type} (f1 f2 : List Bool) (c1 c2 : List α)
    (h : f1.length = c1.length) :
    filter_block (f1 ++ f2) (c1 ++ c2) = filter_block f1 c1 ++ filter_block f2 c2 := by
  unfold filter_block
  rw [List.zip_append h.symm, List.filter_append, List.map_append]

theorem filter_block_zip {α β : Type} (f : List Bool) (a : List α) (b : List β) :
    filter_block f (List.zip a b) = List.zip (filter_block f a) (filter_block f b) := by
  induction f generalizing a b with
  | nil => simp [filter_block_nil_left]
  | cons x f ih =>
    cases a with
    | nil => simp [filter_block_nil_right]
    | cons y a =>
      cases b with
      | nil => simp [filter_block_nil_right]
      | cons z b =>
        rw [List.zip_cons_cons, filter_block_cons, filter_block_cons, filter_block_cons, ih]
        cases x <;> simp

theorem filter_block_passing {α : Type} (f : α → Bool) (p : Nat) (l : List α) :
    filter_block (l.map f)
      (List.zip (List.replicate l.length p) (List.zip l (l.map fun r => !f r))) =
      (l.filter f).map (fun r => (p, r, false)) := by
  induction l with
  | nil => simp [filter_block_nil_left]
  | cons a l ih =>
    simp only [List.map_cons, List.length_cons, List.replicate_succ, List.zip_cons_cons,
      filter_block_cons, ih, List.filter_cons]
    cases h : f a <;> simp

theorem filter_block_all_false {α : Type} (f : List Bool) (c : List α)
    (h : ∀ b ∈ f, b = false) : filter_block f c = [] := by
  induction f generalizing c with
  | nil => exact filter_block_nil_left c
  | cons x f ih =>
    cases c with
    | nil => exact filter_block_nil_right _
    | cons y c =>
      rw [filter_block_cons, ih c (fun b hb => h b (List.mem_cons_of_mem _ hb)),
        h x (List.mem_cons_self _ _)]
      rfl

theorem filter_block_padded {α : Type} (f : α → Bool) (p : Nat) (a : α) (l : List α)
    (h : ∀ r ∈ a :: l, f r = false) :
    filter_block (((a :: l).map f).set 0 true)
      (List.zip (List.replicate (a :: l).length p)
        (List.zip (a :: l) (((a :: l).map fun r => !f r).set 0 true))) =
      [(p, a, true)] := by
  simp only [List.map_cons, List.set_cons_zero, List.length_cons, List.replicate_succ,
    List.zip_cons_cons, filter_block_cons, if_true]
  rw [filter_block_all_false]
  · rfl
  · intro b hb
    obtain ⟨r, hr, rfl⟩ := List.mem_map.mp hb
    exact h r (List.mem_cons_of_mem _ hr)

theorem range_map_zipWith {α β γ : Type} (g : α → β → γ) (l1 : List α) (l2 : List β)
    (d1 : α) (d2 : β) (n : Nat) (h1 : l1.length = n) (h2 : l2.length = n) :
    ((List.range n).map fun i => g (l1.getD i d1) (l2.getD i d2)) = List.zipWith g l1 l2 := by
  apply List.ext_getElem
  · simp [h1, h2]
  · intro i hi1 hi2
    simp only [List.length_map, List.length_range] at hi1
    simp [List.getD, List.getElem?_eq_getElem (h1 ▸ hi1), List.getElem?_eq_getElem (h2 ▸ hi1)]

theorem assemble_build (cfg : Config) (p0 : Nat) (s : ProbeState)
    (h2 : s.build_block_offsets.length = s.current_offset)
    (h3 : s.build_block_rows.length = s.current_offset)
    (hb : (!is_semi_anti_join cfg.JoinOpType || cfg.with_other_conjuncts) = true) :
    (assemble cfg p0 s).2.build =
      List.zipWith RowRef.mk s.build_block_offsets s.build_block_rows := by
  unfold assemble build_side_output_column
  simp only [hb, if_true]
  exact range_map_rowref _ _ _ h2 h3

theorem assemble_fst_other (cfg : Config) (p0 : Nat) (s : ProbeState)
    (ho : cfg.with_other_conjuncts = true) : (assemble cfg p0 s).1 = s := by
  unfold assemble build_side_null_flags probe_side_null_flags
  simp [ho]

theorem or_visited_kind (ht : HashTable) (ptr : Option (Nat × Nat)) (b : Bool) :
    (or_visited ht ptr b).kind = ht.kind := by
  unfold or_visited
  cases ptr with
  | none => rfl
  | some ep =>
    obtain ⟨e, p⟩ := ep
    simp only
    cases ht.entries.get? e with
    | none => rfl
    | some km =>
      obtain ⟨k, m⟩ := km
      simp only
      cases m.rows.get? p with
      | none => rfl
      | some rv => rfl

theorem foldl_applier_kind (f : ApplierState → Nat → ApplierState)
    (hf : ∀ a i, (f a i).hash_table.kind = a.hash_table.kind) (l : List Nat)
    (a : ApplierState) : (l.foldl f a).hash_table.kind = a.hash_table.kind := by
  induction l generalizing a with
  | nil => rfl
  | cons x l ih => rw [List.foldl_cons, ih, hf]

theorem process_splited_kind (vm : List (Option (Nat × Nat))) (hit : List Bool)
    (start cnt : Nat) (a : ApplierState) :
    (process_splited_equal_matched_tuples vm hit start cnt a).hash_table.kind =
      a.hash_table.kind := by
  unfold process_splited_equal_matched_tuples
  simp only
  apply foldl_applier_kind
  intro a i
  split_ifs
  · exact or_visited_kind _ _ _
  · rfl

theorem left_outer_rewrite_kind (s : ProbeState) (hit : List Bool) (row_count : Nat)
    (a : ApplierState) :
    (left_outer_rewrite s hit row_count a).hash_table.kind = a.hash_table.kind := by
  unfold left_outer_rewrite left_outer_suffix left_outer_middle left_outer_prefix
  simp only
  have hmid : ∀ (l : List Nat) (a : ApplierState),
      (l.foldl (left_outer_middle_step s.visited_map s.same_to_prev hit) a).hash_table.kind =
        a.hash_table.kind := by
    intro l a
    apply foldl_applier_kind
    intro a i
    unfold left_outer_middle_step
    simp only
    split_ifs <;> first | exact or_visited_kind _ _ _ | rfl
  split_ifs <;>
    simp only [process_splited_kind, hmid]

theorem do_probe_frame (cfg : Config) (probe : ProbeBatch) (probe_rows : Nat)
    (s : ProbeState) :
    (do_probe cfg probe probe_rows s).tuple_is_null_right_flags = s.tuple_is_null_right_flags ∧
    (do_probe cfg probe probe_rows s).is_any_probe_match_row_output =
      s.is_any_probe_match_row_output ∧
    (do_probe cfg probe probe_rows s).hash_table.kind = s.hash_table.kind ∧
    (s.hash_table.kind ≠ RowRefKind.RowRefListWithFlag →
      (do_probe cfg probe probe_rows s).hash_table = s.hash_table) := by
  obtain ⟨r1, r2, r3, -⟩ := resume_probe_ext cfg s
  obtain ⟨-, -, -, -, -, -, e7, e8, -, e10, e11, -⟩ := probe_loop_ext cfg probe probe_rows
    (probe_rows - (resume_probe cfg s).probe_index) (resume_probe cfg s)
  refine ⟨e8.trans r3, e7.trans r2, ?_, ?_⟩
  · show (probe_loop cfg probe probe_rows _ (resume_probe cfg s)).hash_table.kind = _
    rw [e11, r1]
  · intro hk
    show (probe_loop cfg probe probe_rows _ (resume_probe cfg s)).hash_table = _
    rw [e10 (by rw [r1]; exact hk), r1]

/-- What `do_process` returns for LEFT_OUTER / FULL_OUTER with other conjuncts, in terms of
the state after the probe loop and the rewritten filter column. -/
theorem do_process_left_outer (cfg : Config) (conj : OtherConjuncts) (probe : ProbeBatch)
    (probe_rows : Nat) (s : ProbeState) (ho : cfg.with_other_conjuncts = true)
    (hop : cfg.JoinOpType = TJoinOp.LEFT_OUTER_JOIN ∨
      cfg.JoinOpType = TJoinOp.FULL_OUTER_JOIN)
    (hpos : 0 < (do_probe cfg probe probe_rows s).current_offset) :
    let v := do_probe cfg probe probe_rows s
    let hit := List.zipWith conj v.probe_indexs
      (List.zipWith RowRef.mk v.build_block_offsets v.build_block_rows)
    let a := left_outer_rewrite v hit v.current_offset
      ⟨hit, [], v.mark_column, v.hash_table, v.is_any_probe_match_row_output⟩
    do_process cfg conj probe probe_rows s =
      (Status.OK,
       { v with hash_table := a.hash_table
                is_any_probe_match_row_output := a.is_any_probe_match_row_output
                tuple_is_null_right_flags :=
                  v.tuple_is_null_right_flags ++ filter_block a.filter_map a.null_map_data },
       ⟨filter_block a.filter_map v.probe_indexs,
        filter_block a.filter_map
          (List.zipWith RowRef.mk v.build_block_offsets v.build_block_rows),
        v.mark_column⟩) := by
  intro v hit a
  obtain ⟨hinv, -, hsize⟩ := do_probe_inv cfg probe probe_rows s
  obtain ⟨l1, l2, -⟩ := do_probe_scratch_len cfg probe probe_rows s ho
  have hv : do_probe cfg probe probe_rows s = v := rfl
  rw [hv] at hinv hsize l1 l2 hpos
  have hw : (cfg.with_other_conjuncts || (cfg.JoinOpType != TJoinOp.RIGHT_SEMI_JOIN &&
      cfg.JoinOpType != TJoinOp.RIGHT_ANTI_JOIN)) = true := by rw [ho]; rfl
  have hsa : (!is_semi_anti_join cfg.JoinOpType || cfg.with_other_conjuncts) = true := by
    rw [ho]; simp
  obtain ⟨ap, am⟩ := assemble_probe cfg s.probe_index v hinv hsize hw
  have ab := assemble_build cfg s.probe_index v l1 l2 hsa
  have af := assemble_fst_other cfg s.probe_index v ho
  have hA : assemble cfg s.probe_index v =
      (v, ⟨v.probe_indexs, List.zipWith RowRef.mk v.build_block_offsets v.build_block_rows,
        v.mark_column⟩) := by
    apply Prod.ext
    · exact af
    · show (assemble cfg s.probe_index v).2 = _
      cases hb : (assemble cfg s.probe_index v).2 with
      | mk pr bu ma =>
        rw [hb] at ap am ab
        simp only at ap am ab
        rw [ap, am, ab]
  have hrows : (⟨v.probe_indexs,
      List.zipWith RowRef.mk v.build_block_offsets v.build_block_rows,
      v.mark_column⟩ : Block).rows = v.current_offset := hinv.1
  have hlenB : (List.zipWith RowRef.mk v.build_block_offsets v.build_block_rows).length =
      v.current_offset := by simp [l1, l2]
  have hhit : ((List.range v.current_offset).map fun i =>
      conj (v.probe_indexs.getD i 0)
        ((List.zipWith RowRef.mk v.build_block_offsets v.build_block_rows).getD i ⟨0, 0⟩)) =
      hit := range_map_zipWith conj _ _ 0 ⟨0, 0⟩ _ hinv.1 hlenB
  have hne : (v.current_offset == 0) = false := by
    cases h : v.current_offset == 0
    · rfl
    · have := beq_iff_eq.mp h; omega
  have hopb : (cfg.JoinOpType == TJoinOp.LEFT_OUTER_JOIN ||
      cfg.JoinOpType == TJoinOp.FULL_OUTER_JOIN) = true := by
    rcases hop with h | h <;> rw [h] <;> rfl
  unfold do_process
  simp only [hv, hA, ho, if_true]
  unfold do_other_join_conjuncts
  simp only [hrows, hne, Bool.false_eq_true, if_false, hhit, hopb, if_true]

theorem probe_loop_idx (cfg : Config) (probe : ProbeBatch) (probe_rows p0 fuel : Nat)
    (u : ProbeState) (h : LoopInv cfg p0 u) :
    (∃ X, (probe_loop cfg probe probe_rows fuel u).probe_indexs = u.probe_indexs ++ X ∧
      ∀ x ∈ X, u.probe_index ≤ x) ∧
    u.probe_index ≤ (probe_loop cfg probe probe_rows fuel u).probe_index := by
  have key := probe_loop_induct cfg probe probe_rows
    (fun t => LoopInv cfg p0 t ∧
      (∃ X, t.probe_indexs = u.probe_indexs ++ X ∧ ∀ x ∈ X, u.probe_index ≤ x) ∧
      u.probe_index ≤ t.probe_index)
    (fun t ht hc _ => by
      obtain ⟨a, ⟨X, hX, hge⟩, c⟩ := ht
      have hok : t.probe_row_match_iter.ok = false := by
        cases hk : t.probe_row_match_iter.ok
        · rfl
        · have := a.2.1 hk; omega
      obtain ⟨-, g2, g3, -⟩ := probe_step_summary cfg probe t a.1 hok hc
      have hle := Bool.toNat_le (probe_step cfg probe t).probe_row_match_iter.ok
      refine ⟨probe_step_inv cfg probe _ t a hc, ⟨X ++ List.replicate
        ((probe_step cfg probe t).current_offset - t.current_offset) t.probe_index, ?_, ?_⟩,
        by omega⟩
      · rw [g2, hX, List.append_assoc]
      · intro x hx
        rcases List.mem_append.mp hx with hx | hx
        · exact hge x hx
        · have := (List.mem_replicate.mp hx).2; omega)
    fuel u ⟨h, ⟨[], (List.append_nil _).symm, fun _ hx => absurd hx (List.not_mem_nil _)⟩,
      Nat.le_refl _⟩
  exact key.2

theorem zipWith_mk_map (l : List RowRef) :
    List.zipWith RowRef.mk (l.map RowRef.block_offset) (l.map RowRef.row_num) = l := by
  induction l with
  | nil => rfl
  | cons a l ih => simp [ih]

/-- The state after the probe loop of a call that starts with probe row `p` suspended:
the call first continues the row list of `p` with `k = min(batch_size, remaining)` tuples,
and whatever the loop adds afterwards belongs to later probe rows. -/
theorem do_probe_resumed (cfg : Config) (probe : ProbeBatch) (probe_rows : Nat)
    (t : ProbeState) (e pos : Nat) (rest : List RowRef)
    (ho : cfg.with_other_conjuncts = true) (hb : 1 ≤ cfg.batch_size)
    (hit : t.probe_row_match_iter = ⟨e, pos, rest⟩) (hne : rest ≠ []) :
    let k := min cfg.batch_size rest.length
    let v := do_probe cfg probe probe_rows t
    (∃ X C V Y, v.probe_indexs = List.replicate k t.probe_index ++ X ∧
      (∀ x ∈ X, t.probe_index + 1 ≤ x) ∧
      List.zipWith RowRef.mk v.build_block_offsets v.build_block_rows = rest.take k ++ C ∧
      v.visited_map = (List.range' pos k).map (fun q => some (e, q)) ++ V ∧
      v.same_to_prev = ([false] ++ List.replicate (k - 1) true) ++ Y ∧
      Y.head?.getD false = false) ∧
    v.row_count_from_last_probe = k ∧
    (v.multi_matched_output_row_count = 0 ∨
      v.multi_matched_output_row_count + k ≤ v.current_offset) ∧
    k ≤ v.current_offset ∧
    v.is_the_last_sub_block = !decide (k < rest.length) ∧
    (k < rest.length → v.probe_index = t.probe_index ∧
      v.probe_row_match_iter = ⟨e, pos + k, rest.drop k⟩ ∧ v.current_offset = k) ∧
    (¬k < rest.length → t.probe_index < v.probe_index) := by
  intro k v
  have hok : t.probe_row_match_iter.ok = true := by
    rw [hit, ok_eq_true_iff]; exact hne
  have hlen : 0 < rest.length := List.length_pos.mpr hne
  obtain ⟨r1, r2, r3, r4, -, r6, r7, r8, -, -, r11⟩ := resume_probe_ok cfg t hok
  obtain ⟨o1, o2, o3, -⟩ := resume_probe_ok_other cfg t hok ho
  simp only [hit] at r1 r2 r3 r4 r6 r7 r8 o1 o2 o3
  have hk : min cfg.batch_size rest.length = k := rfl
  rw [hk] at r1 r2 r3 r4 r6 r7 r8 o1 o2 o3
  have hkpos : 0 < k := by omega
  have hinv := resume_probe_inv cfg t
  obtain ⟨⟨X, hX, hXge⟩, hpi⟩ := probe_loop_idx cfg probe probe_rows t.probe_index
    (probe_rows - (resume_probe cfg t).probe_index) (resume_probe cfg t) hinv
  obtain ⟨⟨A, hA⟩, ⟨B, hB⟩, ⟨V, hV⟩, ⟨Y, hY, hYh⟩, e5, e6, -, -, -, -, -, e12, e13⟩ :=
    probe_loop_ext cfg probe probe_rows
      (probe_rows - (resume_probe cfg t).probe_index) (resume_probe cfg t)
  obtain ⟨l1, l2, -⟩ := do_probe_scratch_len cfg probe probe_rows t ho
  have hstop : k < rest.length → probe_loop cfg probe probe_rows
      (probe_rows - (resume_probe cfg t).probe_index) (resume_probe cfg t) =
        resume_probe cfg t := by
    intro hlt
    apply probe_loop_stop
    rw [r1]
    omega
  refine ⟨⟨X, List.zipWith RowRef.mk A B, V, Y, ?_, ?_, ?_, ?_, ?_, hYh⟩, ?_, ?_, ?_, ?_, ?_, ?_⟩
  · show (probe_loop cfg probe probe_rows _ (resume_probe cfg t)).probe_indexs = _
    rw [hX, r2]
  · intro x hx
    by_cases hlt : k < rest.length
    · have := hstop hlt
      rw [this] at hX
      have hnil : X = [] := by
        have := congrArg List.length hX
        simp only [List.length_append] at this
        exact List.length_eq_zero.mp (by omega)
      rw [hnil] at hx
      exact absurd hx (List.not_mem_nil _)
    · have := hXge x hx
      rw [r4, if_neg hlt] at this
      exact this
  · show List.zipWith RowRef.mk
      (probe_loop cfg probe probe_rows _ (resume_probe cfg t)).build_block_offsets
      (probe_loop cfg probe probe_rows _ (resume_probe cfg t)).build_block_rows = _
    rw [hA, hB, r6, r7, List.zipWith_append _ _ _ _ _ (by simp), zipWith_mk_map]
  · show (probe_loop cfg probe probe_rows _ (resume_probe cfg t)).visited_map = _
    rw [hV, o1]
  · show (probe_loop cfg probe probe_rows _ (resume_probe cfg t)).same_to_prev = _
    rw [hY, o2]
  · show (probe_loop cfg probe probe_rows _ (resume_probe cfg t)).row_count_from_last_probe = _
    rw [e5, r8]
  · show (probe_loop cfg probe probe_rows _
        (resume_probe cfg t)).multi_matched_output_row_count = 0 ∨
      (probe_loop cfg probe probe_rows _
        (resume_probe cfg t)).multi_matched_output_row_count + k ≤
      (probe_loop cfg probe probe_rows _ (resume_probe cfg t)).current_offset
    rw [r11, r1] at e13
    exact e13
  · show k ≤ (probe_loop cfg probe probe_rows _ (resume_probe cfg t)).current_offset
    rw [r1] at e12
    exact e12
  · show (probe_loop cfg probe probe_rows _ (resume_probe cfg t)).is_the_last_sub_block = _
    rw [e6, o3]
  · intro hlt
    show (probe_loop cfg probe probe_rows _ (resume_probe cfg t)).probe_index = _ ∧
      (probe_loop cfg probe probe_rows _ (resume_probe cfg t)).probe_row_match_iter = _ ∧
      (probe_loop cfg probe probe_rows _ (resume_probe cfg t)).current_offset = _
    rw [hstop hlt, r4, r3, r1, if_pos hlt]
    exact ⟨rfl, rfl, rfl⟩
  · intro hlt
    show _ < (probe_loop cfg probe probe_rows _ (resume_probe cfg t)).probe_index
    have h4 : (resume_probe cfg t).probe_index = t.probe_index + 1 := by
      rw [r4, if_neg hlt]
    omega

theorem getD_append_left {α : Type} (l1 l2 : List α) (d : α) (i : Nat) (h : i < l1.length) :
    (l1 ++ l2).getD i d = l1.getD i d := by
  rw [List.getD_eq_getElem?_getD, List.getD_eq_getElem?_getD, List.getElem?_append_left h]

theorem getD_append_right {α : Type} (l1 l2 : List α) (d : α) (i : Nat) :
    (l1 ++ l2).getD (l1.length + i) d = l2.getD i d := by
  rw [List.getD_eq_getElem?_getD, List.getD_eq_getElem?_getD,
    List.getElem?_append_right (Nat.le_add_right _ _), Nat.add_sub_cancel_left]

theorem map_range'_eq_map {α β : Type} (s : Nat) (l : List α) (d : α) (g : Nat → β)
    (f : α → β) (h : ∀ i, i < l.length → g (s + i) = f (l.getD i d)) :
    (List.range' s l.length).map g = l.map f := by
  apply List.ext_getElem
  · simp
  · intro i h1 h2
    simp only [List.length_map, List.length_range'] at h1
    simp only [List.getElem_map, List.getElem_range', Nat.one_mul]
    rw [h i h1]
    rw [List.getD_eq_getElem?_getD, List.getElem?_eq_getElem h1]
    rfl

theorem zipWith_replicate_left {α β : Type} (g : Nat → α → β) (p : Nat) (l : List α) :
    List.zipWith g (List.replicate l.length p) l = l.map (g p) := by
  induction l with
  | nil => rfl
  | cons a l ih => simp [List.replicate_succ, ih]

theorem filter_block_subset {α : Type} (f : List Bool) (c : List α) (x : α)
    (h : x ∈ filter_block f c) : x ∈ c := by
  unfold filter_block at h
  obtain ⟨y, hy, rfl⟩ := List.mem_map.mp h
  exact (List.of_mem_zip (List.mem_filter.mp hy).1).1

theorem filter_fst_passing (p : Nat) (l : List RowRef) (b : Bool) :
    (l.map (fun r => (p, r, b))).filter (fun x => x.1 == p) = l.map (fun r => (p, r, b)) := by
  rw [List.filter_eq_self]
  intro x hx
  obtain ⟨r, -, rfl⟩ := List.mem_map.mp hx
  simp

theorem filter_fst_later {β : Type} (p : Nat) (f : List Bool) (X : List Nat) (T : List β)
    (h : ∀ x ∈ X, p + 1 ≤ x) :
    (filter_block f (List.zip X T)).filter (fun x => x.1 == p) = [] := by
  rw [List.filter_eq_nil_iff]
  intro x hx
  have hx2 := filter_block_subset _ _ _ hx
  obtain ⟨a, b⟩ := x
  have := h a (List.of_mem_zip hx2).1
  simp
  omega

theorem filter_fst_earlier {β : Type} (p : Nat) (f : List Bool) (X : List Nat) (T : List β)
    (h : ∀ x ∈ X, x < p) :
    (filter_block f (List.zip X T)).filter (fun x => x.1 == p) = [] := by
  rw [List.filter_eq_nil_iff]
  intro x hx
  have hx2 := filter_block_subset _ _ _ hx
  obtain ⟨a, b⟩ := x
  have := h a (List.of_mem_zip hx2).1
  simp
  omega

theorem process_other_eq (cfg : Config) (conj : OtherConjuncts) (probe : ProbeBatch)
    (probe_rows : Nat) (s : ProbeState) (b : Block)
    (hkind : s.hash_table.kind = RowRefKind.RowRefListWithFlags) :
    process cfg conj probe probe_rows s b = do_process cfg conj probe probe_rows s := by
  unfold process
  simp [hkind]

/-- The tagged rows of a LEFT_OUTER / FULL_OUTER call with other conjuncts, from the state
after the probe loop: the scratch tuples with the rewritten null flags, compacted by the
rewritten filter column. -/
theorem tagged_output_left_outer (cfg : Config) (conj : OtherConjuncts) (probe : ProbeBatch)
    (probe_rows : Nat) (s : ProbeState) (ho : cfg.with_other_conjuncts = true)
    (hop : cfg.JoinOpType = TJoinOp.LEFT_OUTER_JOIN ∨
      cfg.JoinOpType = TJoinOp.FULL_OUTER_JOIN)
    (hpos : 0 < (do_probe cfg probe probe_rows s).current_offset) :
    let v := do_probe cfg probe probe_rows s
    let hit := List.zipWith conj v.probe_indexs
      (List.zipWith RowRef.mk v.build_block_offsets v.build_block_rows)
    let a := left_outer_rewrite v hit v.current_offset
      ⟨hit, [], v.mark_column, v.hash_table, v.is_any_probe_match_row_output⟩
    tagged_output s (do_process cfg conj probe probe_rows s) =
      filter_block a.filter_map (List.zip v.probe_indexs
        (List.zip (List.zipWith RowRef.mk v.build_block_offsets v.build_block_rows)
          a.null_map_data)) ∧
    (do_process cfg conj probe probe_rows s).2.1.probe_index = v.probe_index ∧
    (do_process cfg conj probe probe_rows s).2.1.probe_row_match_iter =
      v.probe_row_match_iter ∧
    (do_process cfg conj probe probe_rows s).2.1.is_any_probe_match_row_output =
      a.is_any_probe_match_row_output ∧
    (do_process cfg conj probe probe_rows s).2.1.hash_table.kind = s.hash_table.kind ∧
    (do_process cfg conj probe probe_rows s).2.1.multi_matched_output_row_count =
      v.multi_matched_output_row_count := by
  intro v hit a
  have hdo := do_process_left_outer cfg conj probe probe_rows s ho hop hpos
  simp only at hdo
  rw [hdo]
  obtain ⟨f1, -, f3, -⟩ := do_probe_frame cfg probe probe_rows s
  refine ⟨?_, rfl, rfl, rfl, ?_, rfl⟩
  · unfold tagged_output
    simp only
    rw [f1, List.drop_left, filter_block_zip, filter_block_zip]
  · show (left_outer_rewrite _ _ _ _).hash_table.kind = _
    rw [left_outer_rewrite_kind]
    exact f3

/-- One call that starts with probe row `p` suspended, LEFT_OUTER / FULL_OUTER with other
conjuncts: the rows it emits for `p` are the passing tuples among the `k` it continues
with, except that the final sub-batch emits its tuple 0 null-flagged when nothing passed
so far; and where the call leaves the state. -/
theorem process_resumed (cfg : Config) (conj : OtherConjuncts) (probe : ProbeBatch)
    (probe_rows : Nat) (t : ProbeState) (e pos : Nat) (rest : List RowRef)
    (hop : cfg.JoinOpType = TJoinOp.LEFT_OUTER_JOIN ∨
      cfg.JoinOpType = TJoinOp.FULL_OUTER_JOIN)
    (ho : cfg.with_other_conjuncts = true) (hb : 1 ≤ cfg.batch_size)
    (hkind : t.hash_table.kind = RowRefKind.RowRefListWithFlags)
    (hit : t.probe_row_match_iter = ⟨e, pos, rest⟩) (hne : rest ≠ []) :
    let k := min cfg.batch_size rest.length
    let r := process cfg conj probe probe_rows t Block.empty
    (tagged_output t r).filter (fun x => x.1 == t.probe_index) =
      (if (!decide (k < rest.length) && !(t.is_any_probe_match_row_output ||
          (rest.take k).any (conj t.probe_index))) = true
        then [(t.probe_index, rest.getD 0 ⟨0, 0⟩, true)]
        else ((rest.take k).filter (conj t.probe_index)).map
          (fun x => (t.probe_index, x, false))) ∧
    r.2.1.hash_table.kind = RowRefKind.RowRefListWithFlags ∧
    (k < rest.length → r.2.1.probe_index = t.probe_index ∧
      r.2.1.probe_row_match_iter = ⟨e, pos + k, rest.drop k⟩ ∧
      r.2.1.is_any_probe_match_row_output = (t.is_any_probe_match_row_output ||
        (rest.take k).any (conj t.probe_index))) ∧
    (¬k < rest.length → t.probe_index < r.2.1.probe_index) := by
  intro k r
  have hlen : 0 < rest.length := List.length_pos.mpr hne
  have hkpos : 0 < k := by
    have : k = min cfg.batch_size rest.length := rfl
    omega
  have hkle : k ≤ rest.length := Nat.min_le_right _ _
  obtain ⟨⟨X, C, V, Y, hP, hX, hB, hV, hY, hYh⟩, hrc, hmulti, hkn, hlast, hmid, hfin⟩ :=
    do_probe_resumed cfg probe probe_rows t e pos rest ho hb hit hne
  have hk : min cfg.batch_size rest.length = k := rfl
  rw [hk] at hP hB hV hY hrc hmulti hkn hlast hmid hfin
  have hpos : 0 < (do_probe cfg probe probe_rows t).current_offset := by omega
  obtain ⟨g1, g2, g3, g4, g5, -⟩ :=
    tagged_output_left_outer cfg conj probe probe_rows t ho hop hpos
  obtain ⟨-, fany, -, -⟩ := do_probe_frame cfg probe probe_rows t
  have hr : r = do_process cfg conj probe probe_rows t :=
    process_other_eq cfg conj probe probe_rows t Block.empty hkind
  rw [hr]
  -- the state after the probe loop and the conjunct column
  generalize hv : do_probe cfg probe probe_rows t = v at *
  have htk : (rest.take k).length = k := by rw [List.length_take]; omega
  have hhit : List.zipWith conj v.probe_indexs
      (List.zipWith RowRef.mk v.build_block_offsets v.build_block_rows) =
      (rest.take k).map (conj t.probe_index) ++ List.zipWith conj X C := by
    rw [hP, hB, List.zipWith_append _ _ _ _ _ (by rw [List.length_replicate, htk])]
    congr 1
    have := zipWith_replicate_left conj t.probe_index (rest.take k)
    rw [htk] at this
    exact this
  rw [hhit] at g1 g4
  generalize hhdef : (rest.take k).map (conj t.probe_index) ++ List.zipWith conj X C = hitc
    at g1 g4
  have hsame : v.same_to_prev.getD v.row_count_from_last_probe false = false := by
    rw [hY, hrc]
    have h1 : ([false] ++ List.replicate (k - 1) true).length = k := by
      simp; omega
    have := getD_append_right ([false] ++ List.replicate (k - 1) true) Y false 0
    rw [h1, Nat.add_zero] at this
    rw [this]
    cases Y with
    | nil => rfl
    | cons y Y => exact hYh
  have hsum : v.row_count_from_last_probe + v.multi_matched_output_row_count ≤
      v.current_offset := by
    rw [hrc]; omega
  obtain ⟨lF, lN, tF, tN, tAny⟩ := left_outer_rewrite_prefix v hitc v.current_offset
    ⟨hitc, [], v.mark_column, v.hash_table, v.is_any_probe_match_row_output⟩
    (by rw [hrc]; exact hkpos) hsum hsame
  generalize hadef : left_outer_rewrite v hitc v.current_offset
      ⟨hitc, [], v.mark_column, v.hash_table, v.is_any_probe_match_row_output⟩ = a at *
  simp only [hrc, fany, hlast] at tF tN tAny
  have hH : (List.range' 0 k).map (fun i => hitc.getD i false) =
      (rest.take k).map (conj t.probe_index) := by
    have := map_range'_eq_map 0 ((rest.take k).map (conj t.probe_index)) false
      (fun i => hitc.getD i false) id (fun i hi => by
        simp only [Nat.zero_add, id]
        rw [← hhdef]
        exact getD_append_left _ _ _ _ hi)
    rw [List.length_map, htk, List.map_id] at this
    exact this
  have hN : (List.range' 0 k).map
      (fun i => !(v.visited_map.getD i none).isSome || !hitc.getD i false) =
      (rest.take k).map (fun x => !conj t.probe_index x) := by
    have := map_range'_eq_map 0 ((rest.take k).map (conj t.probe_index)) false
      (fun i => !(v.visited_map.getD i none).isSome || !hitc.getD i false)
      (fun b => !b) (fun i hi => by
        simp only [Nat.zero_add]
        rw [← hhdef, getD_append_left _ _ _ _ hi, hV, getD_append_left _ _ _ _
          (by rw [List.length_map, List.length_range']
              rw [List.length_map, htk] at hi; exact hi)]
        rw [List.length_map, htk] at hi
        rw [List.getD_eq_getElem?_getD (List.map _ (List.range' pos k)),
          List.getElem?_map, List.getElem?_range' _ _ hi]
        rfl)
    rw [List.length_map, htk, List.map_map] at this
    exact this
  rw [hH, contains_true_map] at tF tN tAny
  rw [hN] at tN
  -- split the columns at k
  have hsplit : filter_block a.filter_map (List.zip v.probe_indexs
      (List.zip (List.zipWith RowRef.mk v.build_block_offsets v.build_block_rows)
        a.null_map_data)) =
      filter_block (a.filter_map.take k) (List.zip (List.replicate k t.probe_index)
        (List.zip (rest.take k) (a.null_map_data.take k))) ++
      filter_block (a.filter_map.drop k) (List.zip X
        (List.zip C (a.null_map_data.drop k))) := by
    have hNk : (a.null_map_data.take k).length = k := by
      rw [List.length_take]; omega
    have hFk : (a.filter_map.take k).length = k := by
      rw [List.length_take]; omega
    rw [← filter_block_append _ _ _ _ (by
      rw [hFk, List.length_zip, List.length_zip, List.length_replicate, htk, hNk]; simp)]
    rw [List.take_append_drop, ← List.zip_append (by
      rw [List.length_replicate, List.length_zip, htk, hNk]; simp), ← hP,
      ← List.zip_append (by rw [htk, hNk]), ← hB, List.take_append_drop]
  refine ⟨?_, g5.trans hkind, ?_, ?_⟩
  · rw [g1, hsplit, List.filter_append, filter_fst_later _ _ _ _ hX, List.append_nil, tF, tN]
    by_cases hc : (!decide (k < rest.length) && !(t.is_any_probe_match_row_output ||
        (rest.take k).any (conj t.probe_index))) = true
    · rw [if_pos hc, if_pos hc, if_pos hc]
      simp only [Bool.and_eq_true, Bool.not_eq_true', Bool.or_eq_false_iff,
        List.any_eq_false] at hc
      obtain ⟨-, -, hall⟩ := hc
      cases hrk : rest.take k with
      | nil => rw [hrk] at htk; simp at htk; omega
      | cons x l =>
        have hx0 : rest.getD 0 ⟨0, 0⟩ = x := by
          cases rest with
          | nil => exact absurd rfl hne
          | cons y rest =>
            have : k = (k - 1) + 1 := by omega
            rw [this, List.take_succ_cons] at hrk
            simp only [List.cons.injEq] at hrk
            rw [← hrk.1]; rfl
        rw [hrk] at hall htk
        have := filter_block_padded (conj t.probe_index) t.probe_index x l
          (fun r hr => by simpa using hall r hr)
        rw [htk] at this
        rw [this, hx0]
        simp
    · rw [if_neg hc, if_neg hc, if_neg hc]
      have := filter_block_passing (conj t.probe_index) t.probe_index (rest.take k)
      rw [htk] at this
      rw [this, filter_fst_passing]
  · intro hlt
    obtain ⟨m1, m2, m3⟩ := hmid hlt
    refine ⟨g2.trans m1, g3.trans m2, ?_⟩
    rw [g4]
    apply tAny
    omega
  · intro hlt
    rw [g2]
    exact hfin hlt

/-- The call that splits a probe row, LEFT_OUTER / FULL_OUTER with other conjuncts: the
probe loop ends inside the row list of the probe row it stands at. The rows the call emits
for that probe row are the passing tuples among the first `multi_matched_output_row_count`
of the list, and the iterator is left right after them. -/
theorem process_first_split (cfg : Config) (conj : OtherConjuncts) (probe : ProbeBatch)
    (probe_rows : Nat) (s : ProbeState)
    (hop : cfg.JoinOpType = TJoinOp.LEFT_OUTER_JOIN ∨
      cfg.JoinOpType = TJoinOp.FULL_OUTER_JOIN)
    (ho : cfg.with_other_conjuncts = true) (hm : cfg.is_mark_join = false)
    (hkind : s.hash_table.kind = RowRefKind.RowRefListWithFlags)
    (hsplit : 0 < (do_probe cfg probe probe_rows s).multi_matched_output_row_count) :
    let r := process cfg conj probe probe_rows s Block.empty
    let p := (do_probe cfg probe probe_rows s).probe_index
    let m := (do_probe cfg probe probe_rows s).multi_matched_output_row_count
    ∃ e, find_result cfg probe s.hash_table.entries p = some e ∧
      m < (entry_rows s.hash_table.entries e).length ∧
      (tagged_output s r).filter (fun x => x.1 == p) =
        (((entry_rows s.hash_table.entries e).take m).filter (conj p)).map
          (fun x => (p, x, false)) ∧
      r.2.1.probe_index = p ∧
      r.2.1.probe_row_match_iter = ⟨e, m, (entry_rows s.hash_table.entries e).drop m⟩ ∧
      r.2.1.is_any_probe_match_row_output =
        ((entry_rows s.hash_table.entries e).take m).any (conj p) ∧
      r.2.1.hash_table.kind = RowRefKind.RowRefListWithFlags ∧
      r.2.1.multi_matched_output_row_count = m ∧ 1 ≤ cfg.batch_size := by
  intro r p m
  have hp : p = (do_probe cfg probe probe_rows s).probe_index := rfl
  have hmdef : m = (do_probe cfg probe probe_rows s).multi_matched_output_row_count := rfl
  clear_value p m
  subst hp hmdef
  have hk2 : s.hash_table.kind ≠ RowRefKind.RowRefListWithFlag := by rw [hkind]; decide
  have hr : r = do_process cfg conj probe probe_rows s :=
    process_other_eq cfg conj probe probe_rows s Block.empty hkind
  obtain ⟨-, -, -, fht⟩ := do_probe_frame cfg probe probe_rows s
  have fht := fht hk2
  obtain ⟨hinv, -, -⟩ := do_probe_inv cfg probe probe_rows s
  obtain ⟨l1, l2, l3⟩ := do_probe_scratch_len cfg probe probe_rows s ho
  have hsum0 : (do_probe cfg probe probe_rows s).row_count_from_last_probe +
      (do_probe cfg probe probe_rows s).multi_matched_output_row_count ≤
      (do_probe cfg probe probe_rows s).current_offset := by
    obtain ⟨-, -, -, -, r5, r6⟩ := resume_probe_ext cfg s
    obtain ⟨-, -, -, -, e5, -, -, -, -, -, -, e12, e13⟩ :=
      probe_loop_ext cfg probe probe_rows
        (probe_rows - (resume_probe cfg s).probe_index) (resume_probe cfg s)
    show (probe_loop cfg probe probe_rows _ (resume_probe cfg s)).row_count_from_last_probe +
      (probe_loop cfg probe probe_rows _ (resume_probe cfg s)).multi_matched_output_row_count ≤
      (probe_loop cfg probe probe_rows _ (resume_probe cfg s)).current_offset
    have hs2 : 0 < (probe_loop cfg probe probe_rows
      (probe_rows - (resume_probe cfg s).probe_index)
      (resume_probe cfg s)).multi_matched_output_row_count := hsplit
    rw [e5, r6]
    omega
  have hpos : 0 < (do_probe cfg probe probe_rows s).current_offset := by omega
  obtain ⟨g1, g2, g3, g4, g5, g6⟩ :=
    tagged_output_left_outer cfg conj probe probe_rows s ho hop hpos
  have hsp := do_probe_split cfg probe probe_rows s ho hm hk2
  rw [hr]
  generalize hv : do_probe cfg probe probe_rows s = v at *
  rcases hsp with ⟨hz, -⟩ | ⟨-, e, X, A, B, V, hf, hiter, hlt, hP, hX, hbo, hbr, hvm⟩
  · omega
  rw [fht] at hf hiter hlt hbo hbr
  generalize hL : entry_rows s.hash_table.entries e = L at *
  generalize hpd : v.probe_index = p at *
  generalize hmd : v.multi_matched_output_row_count = m at *
  have htk : (L.take m).length = m := by rw [List.length_take]; omega
  have hlX : X.length + m = v.current_offset := by
    have := congrArg List.length hP
    rw [hinv.1, List.length_append, List.length_replicate] at this
    exact this.symm
  have hlA : A.length = X.length := by
    have := congrArg List.length hbo
    rw [l1, List.length_append, List.length_map, htk] at this
    omega
  have hlB : B.length = X.length := by
    have := congrArg List.length hbr
    rw [l2, List.length_append, List.length_map, htk] at this
    omega
  have hlV : V.length = X.length := by
    have := congrArg List.length hvm
    rw [l3, List.length_append, List.length_map, List.length_range'] at this
    omega
  have hend : v.current_offset - m = X.length := by omega
  have hBv : List.zipWith RowRef.mk v.build_block_offsets v.build_block_rows =
      List.zipWith RowRef.mk A B ++ L.take m := by
    rw [hbo, hbr, List.zipWith_append _ _ _ _ _ (by rw [hlA, hlB]), zipWith_mk_map]
  have hlC : (List.zipWith RowRef.mk A B).length = X.length := by
    rw [List.length_zipWith, hlA, hlB]; simp
  have hhit : List.zipWith conj v.probe_indexs
      (List.zipWith RowRef.mk v.build_block_offsets v.build_block_rows) =
      List.zipWith conj X (List.zipWith RowRef.mk A B) ++ (L.take m).map (conj p) := by
    rw [hP, hBv, List.zipWith_append _ _ _ _ _ hlC.symm]
    congr 1
    have := zipWith_replicate_left conj p (L.take m)
    rw [htk] at this
    exact this
  rw [hhit] at g1 g4
  generalize hhdef : List.zipWith conj X (List.zipWith RowRef.mk A B) ++
    (L.take m).map (conj p) = hitc at g1 g4
  have hlH : (List.zipWith conj X (List.zipWith RowRef.mk A B)).length = X.length := by
    rw [List.length_zipWith, hlC]; simp
  obtain ⟨lF, lN, dF, dN, dAny⟩ := left_outer_rewrite_suffix v hitc v.current_offset
    ⟨hitc, [], v.mark_column, v.hash_table, v.is_any_probe_match_row_output⟩
    (by rw [hmd]; exact hsplit) (by rw [hmd]; exact hsum0)
  generalize hadef : left_outer_rewrite v hitc v.current_offset
      ⟨hitc, [], v.mark_column, v.hash_table, v.is_any_probe_match_row_output⟩ = a at *
  simp only [hmd, hend] at dF dN dAny
  have hH : (List.range' X.length m).map (fun i => hitc.getD i false) =
      (L.take m).map (conj p) := by
    have := map_range'_eq_map X.length ((L.take m).map (conj p)) false
      (fun i => hitc.getD i false) id (fun i _ => by
        simp only [id]
        rw [← hhdef, ← hlH]
        exact getD_append_right _ _ _ _)
    rw [List.length_map, htk, List.map_id] at this
    exact this
  have hN : (List.range' X.length m).map
      (fun i => !(v.visited_map.getD i none).isSome || !hitc.getD i false) =
      (L.take m).map (fun x => !conj p x) := by
    have := map_range'_eq_map X.length ((L.take m).map (conj p)) false
      (fun i => !(v.visited_map.getD i none).isSome || !hitc.getD i false)
      (fun b => !b) (fun i hi => by
        simp only
        rw [List.length_map, htk] at hi
        have e1 : hitc.getD (X.length + i) false =
            ((L.take m).map (conj p)).getD i false := by
          rw [← hhdef, ← hlH]
          exact getD_append_right _ _ _ _
        have e2 : v.visited_map.getD (X.length + i) none = some (e, i) := by
          rw [hvm, ← hlV, getD_append_right, List.getD_eq_getElem?_getD,
            List.getElem?_map, List.getElem?_range' _ _ hi]
          simp
        rw [e1, e2]
        rfl)
    rw [List.length_map, htk, List.map_map] at this
    exact this
  rw [hH] at dF dAny
  rw [hN] at dN
  rw [contains_true_map] at dAny
  have hsplit2 : filter_block a.filter_map (List.zip v.probe_indexs
      (List.zip (List.zipWith RowRef.mk v.build_block_offsets v.build_block_rows)
        a.null_map_data)) =
      filter_block (a.filter_map.take X.length) (List.zip X
        (List.zip (List.zipWith RowRef.mk A B) (a.null_map_data.take X.length))) ++
      filter_block (a.filter_map.drop X.length) (List.zip (List.replicate m p)
        (List.zip (L.take m) (a.null_map_data.drop X.length))) := by
    have hNk : (a.null_map_data.take X.length).length = X.length := by
      rw [List.length_take]; omega
    have hFk : (a.filter_map.take X.length).length = X.length := by
      rw [List.length_take]; omega
    rw [← filter_block_append _ _ _ _ (by
      rw [hFk, List.length_zip, List.length_zip, hlC, hNk]; simp)]
    rw [List.take_append_drop, ← List.zip_append (by
      rw [List.length_zip, hlC, hNk]; simp), ← hP,
      ← List.zip_append (by rw [hlC, hNk]), ← hBv, List.take_append_drop]
  have hb1 : 1 ≤ cfg.batch_size := by
    have := hinv.2.2.1 (by simp [hm])
    omega
  refine ⟨e, hf, ?_, ?_, g2, ?_, ?_, g5.trans hkind, g6, hb1⟩
  · rw [hL]; exact hlt
  rotate_left
  · rw [hL]; exact g3.trans hiter
  · rw [hL]; exact g4.trans dAny
  rw [hL]
  rw [g1, hsplit2, List.filter_append, filter_fst_earlier _ _ _ _ hX, List.nil_append, dF, dN]
  have := filter_block_passing (conj p) p (L.take m)
  rw [htk] at this
  rw [this, filter_fst_passing]

theorem process_while_row_done (cfg : Config) (conj : OtherConjuncts) (probe : ProbeBatch)
    (probe_rows p fuel : Nat) (s : ProbeState) (h : s.probe_index ≠ p) :
    process_while_row cfg conj probe probe_rows p fuel s = ([], s) := by
  cases fuel with
  | zero => rfl
  | succ n =>
    unfold process_while_row
    have : (s.probe_index == p) = false := by
      cases hq : s.probe_index == p
      · rfl
      · exact absurd (beq_iff_eq.mp hq) h
    simp [this]

theorem getD_drop {α : Type} (l : List α) (n i : Nat) (d : α) :
    (l.drop n).getD i d = l.getD (n + i) d := by
  rw [List.getD_eq_getElem?_getD, List.getD_eq_getElem?_getD, List.getElem?_drop]

theorem any_take_drop {α : Type} (f : α → Bool) (l : List α) (n : Nat) :
    l.any f = ((l.take n).any f || (l.drop n).any f) := by
  conv_lhs => rw [← List.take_append_drop n l]
  rw [List.any_append]

theorem filter_take_drop {α : Type} (f : α → Bool) (l : List α) (n : Nat) :
    (l.take n).filter f ++ (l.drop n).filter f = l.filter f := by
  rw [← List.filter_append, List.take_append_drop]

theorem filter_eq_nil_of_any_false {α : Type} (f : α → Bool) (l : List α)
    (h : l.any f = false) : l.filter f = [] := by
  rw [List.filter_eq_nil_iff]
  intro x hx
  rw [List.any_eq_false] at h
  exact h x hx

/-- The calls that finish a suspended probe row, LEFT_OUTER / FULL_OUTER with other
conjuncts: with `rest` the matches still to come and enough calls allowed, the rows emitted
for the probe row are the passing tuples of `rest`; when nothing passed before and nothing
passes in `rest`, the one row emitted is tuple 0 of the final sub-batch, null-flagged. -/
theorem process_while_row_result (cfg : Config) (conj : OtherConjuncts) (probe : ProbeBatch)
    (probe_rows : Nat) (p e : Nat)
    (hop : cfg.JoinOpType = TJoinOp.LEFT_OUTER_JOIN ∨
      cfg.JoinOpType = TJoinOp.FULL_OUTER_JOIN)
    (ho : cfg.with_other_conjuncts = true) (hb : 1 ≤ cfg.batch_size) :
    ∀ (fuel : Nat) (rest : List RowRef) (t : ProbeState) (pos : Nat),
      rest.length ≤ fuel → rest ≠ [] → t.probe_row_match_iter = ⟨e, pos, rest⟩ →
      t.probe_index = p → t.hash_table.kind = RowRefKind.RowRefListWithFlags →
      ((process_while_row cfg conj probe probe_rows p fuel t).1.flatten.filter
          (fun x => x.1 == p) =
        (if (t.is_any_probe_match_row_output || rest.any (conj p)) = true then
          (rest.filter (conj p)).map (fun x => (p, x, false))
         else [(p, rest.getD (cfg.batch_size * ((rest.length - 1) / cfg.batch_size)) ⟨0, 0⟩,
           true)])) ∧
      ¬((process_while_row cfg conj probe probe_rows p fuel t).2.probe_index = p ∧
        (process_while_row cfg conj probe probe_rows p fuel t).2.probe_row_match_iter.ok
          = true) := by
  intro fuel
  induction fuel with
  | zero =>
    intro rest t pos hle hne
    have := List.length_pos.mpr hne
    omega
  | succ n ih =>
    intro rest t pos hle hne hit hp hkind
    have hlen := List.length_pos.mpr hne
    have hok : t.probe_row_match_iter.ok = true := by
      rw [hit, ok_eq_true_iff]; exact hne
    obtain ⟨c1, c2, c3, c4⟩ :=
      process_resumed cfg conj probe probe_rows t e pos rest hop ho hb hkind hit hne
    rw [hp] at c1 c3 c4
    have hunf : process_while_row cfg conj probe probe_rows p (n + 1) t =
        (tagged_output t (process cfg conj probe probe_rows t Block.empty) ::
          (process_while_row cfg conj probe probe_rows p n
            (process cfg conj probe probe_rows t Block.empty).2.1).1,
         (process_while_row cfg conj probe probe_rows p n
            (process cfg conj probe probe_rows t Block.empty).2.1).2) := by
      conv_lhs => unfold process_while_row
      simp [hp, hok]
    rw [hunf]
    simp only [List.flatten_cons, List.filter_append]
    rw [c1]
    by_cases hlt : min cfg.batch_size rest.length < rest.length
    · have hkb : min cfg.batch_size rest.length = cfg.batch_size := by omega
      rw [hkb] at c1 c3 hlt ⊢
      obtain ⟨d1, d2, d3⟩ := c3 hlt
      have hne2 : rest.drop cfg.batch_size ≠ [] := by
        intro h
        have := congrArg List.length h
        rw [List.length_drop] at this
        simp at this
        omega
      obtain ⟨i1, i2⟩ := ih (rest.drop cfg.batch_size) _ (pos + cfg.batch_size)
        (by rw [List.length_drop]; omega) hne2 d2 d1 c2
      refine ⟨?_, i2⟩
      rw [i1, d3]
      simp only [hlt, decide_True, Bool.not_true, Bool.false_and, Bool.false_eq_true, if_false]
      rw [Bool.or_assoc, ← any_take_drop]
      by_cases hany : (t.is_any_probe_match_row_output || rest.any (conj p)) = true
      · rw [if_pos hany, if_pos hany, ← List.map_append, filter_take_drop]
      · rw [if_neg hany, if_neg hany]
        have hf : (rest.take cfg.batch_size).any (conj p) = false := by
          simp only [Bool.not_eq_true, Bool.or_eq_false_iff] at hany
          have := hany.2
          rw [any_take_drop (conj p) rest cfg.batch_size, Bool.or_eq_false_iff] at this
          exact this.1
        rw [filter_eq_nil_of_any_false _ _ hf, List.map_nil, List.nil_append, getD_drop,
          List.length_drop]
        have harith : cfg.batch_size + cfg.batch_size *
            ((rest.length - cfg.batch_size - 1) / cfg.batch_size) =
            cfg.batch_size * ((rest.length - 1) / cfg.batch_size) := by
          have h1 : rest.length - 1 = (rest.length - cfg.batch_size - 1) + cfg.batch_size := by
            omega
          rw [h1, Nat.add_div_right _ (by omega : 0 < cfg.batch_size), Nat.mul_succ,
            Nat.add_comm]
        rw [harith]
    · have hkl : min cfg.batch_size rest.length = rest.length := by omega
      rw [hkl] at c1 hlt ⊢
      have hgt := c4 (by rw [hkl]; exact hlt)
      rw [process_while_row_done _ _ _ _ _ _ _ (by omega)]
      refine ⟨?_, ?_⟩
      · simp only [List.flatten_nil, List.filter_nil, List.append_nil, hlt, decide_False,
          Bool.not_false, Bool.true_and, List.take_length]
        have hdiv : (rest.length - 1) / cfg.batch_size = 0 :=
          Nat.div_eq_of_lt (by omega)
        rw [hdiv, Nat.mul_zero]
        by_cases hany : (t.is_any_probe_match_row_output || rest.any (conj p)) = true
        · rw [if_pos hany, hany]; rfl
        · rw [if_neg hany]
          simp only [Bool.not_eq_true] at hany
          rw [hany]; rfl
      · intro h
        simp only at h
        omega

theorem do_process_multi (cfg : Config) (conj : OtherConjuncts) (probe : ProbeBatch)
    (probe_rows : Nat) (s : ProbeState) (ho : cfg.with_other_conjuncts = true) :
    (do_process cfg conj probe probe_rows s).2.1.multi_matched_output_row_count =
      (do_probe cfg probe probe_rows s).multi_matched_output_row_count := by
  have hA : assemble cfg s.probe_index (do_probe cfg probe probe_rows s) =
      (do_probe cfg probe probe_rows s,
        (assemble cfg s.probe_index (do_probe cfg probe probe_rows s)).2) :=
    Prod.ext (assemble_fst_other cfg s.probe_index _ ho) rfl
  unfold do_process
  simp only [ho, if_true]
  rw [hA]
  simp only
  unfold do_other_join_conjuncts
  simp only
  split_ifs <;> rfl

/-- C10: LEFT_OUTER / FULL_OUTER with other conjuncts (no mark column), a `process` call
that ends inside the row list `L` of probe row `p` after `first` of its tuples, followed by
the calls that finish `p`. Over all these calls the rows emitted for `p` are exactly the
tuples of `L` that pass the other conjuncts, in order and with null flag 0, if any tuple
passes; if none passes in any sub-batch, exactly one row is emitted for `p`: tuple 0 of the
final sub-batch, with null flag 1. With at least `|L|` calls allowed the probe row is
finished. -/
theorem C10_split_row_survivors (cfg : Config) (conj : OtherConjuncts) (probe : ProbeBatch)
    (probe_rows : Nat) (s : ProbeState)
    (hop : cfg.JoinOpType = TJoinOp.LEFT_OUTER_JOIN ∨
      cfg.JoinOpType = TJoinOp.FULL_OUTER_JOIN)
    (ho : cfg.with_other_conjuncts = true) (hm : cfg.is_mark_join = false)
    (hkind : s.hash_table.kind = RowRefKind.RowRefListWithFlags)
    (hsplit : 0 < (process cfg conj probe probe_rows s
      Block.empty).2.1.multi_matched_output_row_count) :
    let r1 := process cfg conj probe probe_rows s Block.empty
    let p := r1.2.1.probe_index
    let first := r1.2.1.multi_matched_output_row_count
    ∃ e, find_result cfg probe s.hash_table.entries p = some e ∧
      let L := entry_rows s.hash_table.entries e
      first < L.length ∧
      ∀ fuel, L.length ≤ fuel →
        (process_split_row cfg conj probe probe_rows s fuel).1 =
          (if L.any (conj p) = true then (L.filter (conj p)).map (fun x => (p, x, false))
           else [(p, L.getD (first + cfg.batch_size *
             ((L.length - first - 1) / cfg.batch_size)) ⟨0, 0⟩, true)]) ∧
        ¬((process_split_row cfg conj probe probe_rows s fuel).2.probe_index = p ∧
          (process_split_row cfg conj probe probe_rows s fuel).2.probe_row_match_iter.ok
            = true) := by
  intro r1 p first
  have hr : r1 = do_process cfg conj probe probe_rows s :=
    process_other_eq cfg conj probe probe_rows s Block.empty hkind
  have hsplit2 : 0 < (do_probe cfg probe probe_rows s).multi_matched_output_row_count := by
    rw [← do_process_multi cfg conj probe probe_rows s ho, ← hr]
    exact hsplit
  obtain ⟨e, hf, hlt, c3, c4, c5, c6, c7, c8, hb⟩ :=
    process_first_split cfg conj probe probe_rows s hop ho hm hkind hsplit2
  have hp : (do_probe cfg probe probe_rows s).probe_index = p := c4.symm
  have hfirst : (do_probe cfg probe probe_rows s).multi_matched_output_row_count = first :=
    c8.symm
  rw [hp] at hf c3 c6
  rw [hfirst] at hlt c3 c5 c6
  refine ⟨e, hf, hlt, ?_⟩
  intro fuel hfuel
  have hne : (entry_rows s.hash_table.entries e).drop first ≠ [] := by
    intro h
    have := congrArg List.length h
    rw [List.length_drop] at this
    simp at this
    omega
  obtain ⟨i1, i2⟩ := process_while_row_result cfg conj probe probe_rows p e hop ho hb fuel
    ((entry_rows s.hash_table.entries e).drop first) r1.2.1 first
    (by rw [List.length_drop]; omega) hne c5 rfl c7
  refine ⟨?_, i2⟩
  show (tagged_output s r1 ++ (process_while_row cfg conj probe probe_rows p fuel
    r1.2.1).1.flatten).filter (fun x => x.1 == p) = _
  rw [List.filter_append, c3, i1, c6, ← any_take_drop]
  by_cases hany : (entry_rows s.hash_table.entries e).any (conj p) = true
  · rw [if_pos hany, if_pos hany, ← List.map_append, filter_take_drop]
  · rw [if_neg hany, if_neg hany]
    have hf2 : ((entry_rows s.hash_table.entries e).take first).any (conj p) = false := by
      simp only [Bool.not_eq_true] at hany
      rw [any_take_drop (conj p) _ first, Bool.or_eq_false_iff] at hany
      exact hany.1
    rw [filter_eq_nil_of_any_false _ _ hf2, List.map_nil, List.nil_append, getD_drop,
      List.length_drop]

theorem C10_split_row_survivors_witness :
    ((⟨TJoinOp.LEFT_OUTER_JOIN, 2, false, false, true, false⟩ : Config).JoinOpType =
        TJoinOp.LEFT_OUTER_JOIN ∨
      (⟨TJoinOp.LEFT_OUTER_JOIN, 2, false, false, true, false⟩ : Config).JoinOpType =
        TJoinOp.FULL_OUTER_JOIN) ∧
    (⟨TJoinOp.LEFT_OUTER_JOIN, 2, false, false, true, false⟩ : Config).with_other_conjuncts
      = true ∧
    (⟨TJoinOp.LEFT_OUTER_JOIN, 2, false, false, true, false⟩ : Config).is_mark_join = false ∧
    (ProbeState.fresh (single_key_table RowRefKind.RowRefListWithFlags 7 5)).hash_table.kind =
      RowRefKind.RowRefListWithFlags ∧
    0 < (process ⟨TJoinOp.LEFT_OUTER_JOIN, 2, false, false, true, false⟩ (fun _ _ => false)
      ⟨[7], []⟩ 1 (ProbeState.fresh (single_key_table RowRefKind.RowRefListWithFlags 7 5))
      Block.empty).2.1.multi_matched_output_row_count ∧
    (∃ e, find_result ⟨TJoinOp.LEFT_OUTER_JOIN, 2, false, false, true, false⟩ ⟨[7], []⟩
        (ProbeState.fresh (single_key_table RowRefKind.RowRefListWithFlags 7 5)).hash_table.entries
        (process ⟨TJoinOp.LEFT_OUTER_JOIN, 2, false, false, true, false⟩ (fun _ _ => false)
          ⟨[7], []⟩ 1 (ProbeState.fresh (single_key_table RowRefKind.RowRefListWithFlags 7 5))
          Block.empty).2.1.probe_index = some e) ∧
    (process_split_row ⟨TJoinOp.LEFT_OUTER_JOIN, 2, false, false, true, false⟩
      (fun _ _ => false) ⟨[7], []⟩ 1
      (ProbeState.fresh (single_key_table RowRefKind.RowRefListWithFlags 7 5)) 5).1 =
      [(0, ⟨0, 4⟩, true)] ∧
    (process_split_row ⟨TJoinOp.LEFT_OUTER_JOIN, 2, false, false, true, false⟩
      (fun _ r => r.row_num == 1 || r.row_num == 4) ⟨[7], []⟩ 1
      (ProbeState.fresh (single_key_table RowRefKind.RowRefListWithFlags 7 5)) 5).1 =
      [(0, ⟨0, 1⟩, false), (0, ⟨0, 4⟩, false)] :=
  ⟨Or.inl rfl, rfl, rfl, rfl, by decide,
    (C10_split_row_survivors ⟨TJoinOp.LEFT_OUTER_JOIN, 2, false, false, true, false⟩
      (fun _ _ => false) ⟨[7], []⟩ 1
      (ProbeState.fresh (single_key_table RowRefKind.RowRefListWithFlags 7 5))
      (Or.inl rfl) rfl rfl rfl (by decide)).imp (fun _ h => h.1),
    by decide, by decide⟩

/-! ## Mark join with other conjuncts: grouping bits and the group-last filter -/

theorem find_key_lt (entries : List (Int × Mapped)) (key : Int) (e : Nat)
    (h : find_key entries key = some e) : e < entries.length := by
  induction entries generalizing e with
  | nil => simp [find_key] at h
  | cons x xs ih =>
    unfold find_key at h
    split_ifs at h with hx
    · simp only [Option.some.injEq] at h
      subst h
      simp
    · cases hf : find_key xs key with
      | none => rw [hf] at h; simp at h
      | some e2 =>
        rw [hf] at h
        simp only [Option.map_some', Option.some.injEq] at h
        subst h
        have := ih e2 hf
        simp
        omega

theorem find_result_lt (cfg : Config) (probe : ProbeBatch) (entries : List (Int × Mapped))
    (i e : Nat) (h : find_result cfg probe entries i = some e) : e < entries.length := by
  unfold find_result at h
  split_ifs at h
  exact find_key_lt _ _ _ h

theorem rows_length_pos (ht : HashTable) (e : Nat) (hne : rows_nonempty ht)
    (he : e < ht.entries.length) :
    0 < ((ht.entries.getD e (0, ⟨[], false⟩)).2.rows.map Prod.fst).length := by
  rw [List.getD_eq_getElem?_getD, List.getElem?_eq_getElem he]
  simp only [Option.getD_some, List.length_map]
  exact List.length_pos.mpr (hne _ (List.getElem_mem he))

theorem group_inv_append (cfg : Config) (stp : List Bool) (offset k : Nat)
    (hk : 1 ≤ k) (hc : offset < cfg.batch_size)
    (h1 : stp.length = offset) (h2 : stp.count false ≤ offset)
    (h4 : stp.head?.getD false = false) :
    (stp ++ [false] ++ List.replicate (k - 1) true).length = offset + k ∧
    (stp ++ [false] ++ List.replicate (k - 1) true).count false ≤ offset + k ∧
    (stp ++ [false] ++ List.replicate (k - 1) true).count false ≤ cfg.batch_size ∧
    (stp ++ [false] ++ List.replicate (k - 1) true).head?.getD false = false := by
  have hcount : (stp ++ [false] ++ List.replicate (k - 1) true).count false =
      stp.count false + 1 := by
    rw [List.count_append, List.count_append, List.count_replicate]
    simp
  refine ⟨?_, ?_, ?_, ?_⟩
  · simp [h1]; omega
  · rw [hcount]; omega
  · rw [hcount]; omega
  · cases stp with
    | nil => rfl
    | cons a l => exact h4

theorem null_key_branch_group (cfg : Config) (s : ProbeState)
    (ho : cfg.with_other_conjuncts = true) (hc : s.current_offset < cfg.batch_size)
    (h : GroupInv cfg s) : GroupInv cfg (null_key_branch cfg s) := by
  obtain ⟨h1, h2, h3, h4⟩ := h
  have key := group_inv_append cfg s.same_to_prev s.current_offset 1 (Nat.le_refl _) hc h1 h2 h4
  simp only [Nat.sub_self, List.replicate_zero, List.append_nil] at key
  unfold GroupInv null_key_branch
  cases hp : probe_all cfg.JoinOpType
  · simp [h1, h2, h3, h4]
  · simp only [ho, if_true, emplace_element]
    exact key

theorem not_found_branch_group (cfg : Config) (s : ProbeState)
    (ho : cfg.with_other_conjuncts = true) (hc : s.current_offset < cfg.batch_size)
    (h : GroupInv cfg s) : GroupInv cfg (not_found_branch cfg s) := by
  obtain ⟨h1, h2, h3, h4⟩ := h
  have key := group_inv_append cfg s.same_to_prev s.current_offset 1 (Nat.le_refl _) hc h1 h2 h4
  simp only [Nat.sub_self, List.replicate_zero, List.append_nil] at key
  unfold GroupInv not_found_branch
  split_ifs
  · simp only [emplace_element]
    exact key
  · exact ⟨h1, h2, h3, h4⟩

theorem probe_step_group (cfg : Config) (probe : ProbeBatch) (s : ProbeState)
    (ho : cfg.with_other_conjuncts = true) (hne : rows_nonempty s.hash_table)
    (hc : s.current_offset < cfg.batch_size) (h : GroupInv cfg s) :
    GroupInv cfg (probe_step cfg probe s) := by
  unfold probe_step
  split_ifs with hn
  · exact null_key_branch_group cfg s ho hc h
  · unfold dispatch finish_step
    simp only [ho, Bool.not_true, Bool.false_and, Bool.false_eq_true, if_false]
    cases hf : find_result cfg probe s.hash_table.entries s.probe_index with
    | none => exact not_found_branch_group cfg s ho hc h
    | some e =>
      obtain ⟨h1, h2, h3, h4⟩ := h
      have hlen := rows_length_pos s.hash_table e hne (find_result_lt _ _ _ _ _ hf)
      obtain ⟨-, -, f3, -, f5, -⟩ :=
        found_branch_fields cfg e (s.hash_table.entries.getD e (0, ⟨[], false⟩)).2 s
      simp only [ho, if_true, Bool.and_true, Bool.true_or] at f3 f5
      unfold GroupInv
      simp only
      rw [f3, f5]
      apply group_inv_append cfg _ _ _ _ hc h1 h2 h4
      cases cfg.is_mark_join
      · simp only [Bool.false_eq_true, if_false, Bool.not_false, if_true]
        omega
      · simp only [if_true]
        omega

theorem do_probe_group (cfg : Config) (probe : ProbeBatch) (probe_rows : Nat)
    (s : ProbeState) (ho : cfg.with_other_conjuncts = true) (hb : 1 ≤ cfg.batch_size)
    (hne : rows_nonempty s.hash_table)
    (hkind : s.hash_table.kind ≠ RowRefKind.RowRefListWithFlag) :
    GroupInv cfg (do_probe cfg probe probe_rows s) := by
  obtain ⟨r1, -⟩ := resume_probe_ext cfg s
  have key := probe_loop_induct cfg probe probe_rows
    (fun t => GroupInv cfg t ∧ t.hash_table = s.hash_table)
    (fun t ht hc _ => by
      obtain ⟨a, b⟩ := ht
      refine ⟨probe_step_group cfg probe t ho (b ▸ hne) hc a, ?_⟩
      rw [(probe_step_ext cfg probe t).2.2.2.2.2.2.2.2.2.1 (by rw [b]; exact hkind), b])
    (probe_rows - (resume_probe cfg s).probe_index) (resume_probe cfg s) ?_
  · exact key.1
  · refine ⟨?_, r1⟩
    cases hok : s.probe_row_match_iter.ok
    · rw [resume_probe_not_ok cfg s hok]
      simp [GroupInv, init_probe_side, ho]
    · obtain ⟨g1, -⟩ := resume_probe_ok cfg s hok
      obtain ⟨o1, o2, -⟩ := resume_probe_ok_other cfg s hok ho
      rw [ok_eq_true_iff] at hok
      have hlen : 0 < s.probe_row_match_iter.rest.length := List.length_pos.mpr hok
      have := group_inv_append cfg [] 0 (min cfg.batch_size s.probe_row_match_iter.rest.length)
        (by omega) (by omega) rfl (by simp) rfl
      simp only [List.nil_append, Nat.zero_add] at this
      unfold GroupInv
      rw [g1, o2]
      exact this

theorem foldl_range'_induct {α : Type} (f : α → Nat → α) (I : α → Nat → Prop) :
    ∀ (n s : Nat) (x : α), I x s → (∀ x i, s ≤ i → i < s + n → I x i → I (f x i) (i + 1)) →
      I ((List.range' s n).foldl f x) (s + n) := by
  intro n
  induction n with
  | zero => intro s x h _; exact h
  | succ n ih =>
    intro s x h hstep
    rw [List.range'_succ, List.foldl_cons]
    have := ih (s + 1) (f x s) (hstep x s (Nat.le_refl _) (by omega) h)
      (fun y i h1 h2 hy => hstep y i (by omega) (by omega) hy)
    rw [show s + (n + 1) = s + 1 + n by omega]
    exact this

theorem only_last_mono (stp fm : List Bool) (m m2 : Nat) (h : OnlyLast stp fm m2)
    (hle : m ≤ m2) : OnlyLast stp fm m :=
  fun j hj hs => h j (by omega) hs

theorem getD_set_ne (l : List Bool) (i j : Nat) (b : Bool) (h : i ≠ j) :
    (l.set i b).getD j false = l.getD j false := by
  rw [List.getD_eq_getElem?_getD, List.getD_eq_getElem?_getD, List.getElem?_set_ne h]

theorem getD_set_self_false (l : List Bool) (i : Nat) :
    (l.set i false).getD i false = false := by
  rw [List.getD_eq_getElem?_getD, List.getElem?_set]
  simp only [if_true]
  split_ifs <;> rfl

theorem getD_append_one_lt (l : List Bool) (b : Bool) (j : Nat) (h : j < l.length) :
    (l ++ [b]).getD j false = l.getD j false :=
  getD_append_left l [b] false j h

/-- The LEFT_SEMI carry loop: appended cell by cell, the filter keeps at most the last
cell of every group set. -/
theorem semi_fold_only_last (stp filter_column : List Bool) (start n : Nat) (fm0 : List Bool)
    (hlen : fm0.length = start) (h0 : OnlyLast stp fm0 start) :
    let fm := (List.range' start n).foldl (fun fm i =>
      if filter_column.getD i false || (stp.getD i false && fm.getD (i - 1) false) then
        let fm := fm ++ [true]
        fm.set (i - 1) (!stp.getD i false && fm.getD (i - 1) false)
      else fm ++ [false]) fm0
    fm.length = start + n ∧ OnlyLast stp fm (start + n) := by
  intro fm
  refine foldl_range'_induct _ (fun fm i => fm.length = i ∧ OnlyLast stp fm i) n start fm0
    ⟨hlen, h0⟩ ?_
  intro x i hsi _ hx
  obtain ⟨hl, hx⟩ := hx
  simp only
  split_ifs with hc
  · refine ⟨by simp [hl], ?_⟩
    intro j hj hstp
    by_cases hji : j = i - 1
    · subst hji
      have : i - 1 + 1 = i := by omega
      rw [this] at hstp
      rw [hstp]
      simp only [Bool.not_true, Bool.false_and]
      exact getD_set_self_false _ _
    · rw [getD_set_ne _ _ _ _ (fun h => hji h.symm),
        getD_append_one_lt _ _ _ (by omega)]
      exact hx j (by omega) hstp
  · refine ⟨by simp [hl], ?_⟩
    intro j hj hstp
    rw [getD_append_one_lt _ _ _ (by omega)]
    by_cases hji : j = i - 1
    · subst hji
      have : i - 1 + 1 = i := by omega
      rw [this] at hstp
      simp only [hstp, Bool.true_and, Bool.or_eq_true, not_or, Bool.not_eq_true] at hc
      exact hc.2
    · exact hx j (by omega) hstp

/-- The LEFT_ANTI carry loop, on a column of fixed length. -/
theorem anti_fold_only_last (stp filter_column : List Bool)
    (vm : List (Option (Nat × Nat))) (start n : Nat) (fm0 : List Bool)
    (h0 : OnlyLast stp fm0 start) :
    let fm := (List.range' start n).foldl (fun fm i =>
      if ((vm.getD i none).isSome && filter_column.getD i false) ||
          (stp.getD i false && fm.getD (i - 1) false) then
        let fm := fm.set i true
        fm.set (i - 1) (!stp.getD i false && fm.getD (i - 1) false)
      else fm.set i false) fm0
    fm.length = fm0.length ∧ OnlyLast stp fm (start + n) := by
  intro fm
  refine foldl_range'_induct _ (fun fm i => fm.length = fm0.length ∧ OnlyLast stp fm i)
    n start fm0 ⟨rfl, h0⟩ ?_
  intro x i hsi _ hx
  obtain ⟨hl, hx⟩ := hx
  simp only
  split_ifs with hc
  · refine ⟨by simp [hl], ?_⟩
    intro j hj hstp
    by_cases hji : j = i - 1
    · subst hji
      have : i - 1 + 1 = i := by omega
      rw [this] at hstp
      rw [hstp]
      simp only [Bool.not_true, Bool.false_and]
      exact getD_set_self_false _ _
    · rw [getD_set_ne _ _ _ _ (fun h => hji h.symm), getD_set_ne _ _ _ _ (by omega)]
      exact hx j (by omega) hstp
  · refine ⟨by simp [hl], ?_⟩
    intro j hj hstp
    rw [getD_set_ne _ _ _ _ (by omega)]
    by_cases hji : j = i - 1
    · subst hji
      have : i - 1 + 1 = i := by omega
      rw [this] at hstp
      simp only [hstp, Bool.true_and, Bool.or_eq_true, not_or, Bool.not_eq_true] at hc
      exact hc.2
    · exact hx j (by omega) hstp

/-- The mark-join loop only sets cells that end a group. -/
theorem mark_rewrite_only_last (stp : List Bool) (n : Nat) (negate : Bool) (a : ApplierState)
    (h0 : OnlyLast stp a.filter_map n) :
    (mark_rewrite stp n negate (n - 1) a).filter_map.length = a.filter_map.length ∧
    OnlyLast stp (mark_rewrite stp n negate (n - 1) a).filter_map n := by
  unfold mark_rewrite
  simp only
  have key := foldl_range'_induct (fun (a : ApplierState) i =>
      if !stp.getD i false then
        let a := { a with
          matched_map := a.matched_map ++ [xor negate (a.filter_map.getD (i - 1) false)] }
        { a with filter_map := a.filter_map.set (i - 1) true }
      else a)
    (fun b _ => b.filter_map.length = a.filter_map.length ∧ OnlyLast stp b.filter_map n)
    (n - 1) 1 a ⟨rfl, h0⟩ (fun x i h1 _ hx => by
      obtain ⟨hl, hx⟩ := hx
      simp only
      split_ifs with hc
      · refine ⟨by simp [hl], ?_⟩
        intro j hj hstp
        simp only
        by_cases hji : j = i - 1
        · subst hji
          have : i - 1 + 1 = i := by omega
          rw [this] at hstp
          rw [hstp] at hc
          simp at hc
        · rw [getD_set_ne _ _ _ _ (fun h => hji h.symm)]
          exact hx j hj hstp
      · exact ⟨hl, hx⟩)
  obtain ⟨k1, k2⟩ := key
  refine ⟨?_, ?_⟩
  · simp only [List.length_set]
    exact k1
  intro j hj hstp
  rw [getD_set_ne _ _ _ _ (by omega)]
  exact k2 j hj hstp

theorem count_true_only_last (stp fm : List Bool)
    (hlen : fm.length = stp.length + 1)
    (h : ∀ j, j < stp.length → stp.getD j false = true → fm.getD j false = false) :
    fm.count true ≤ stp.count false + 1 := by
  induction stp generalizing fm with
  | nil =>
    have := List.count_le_length true fm
    simp at hlen
    simp
    omega
  | cons y t ih =>
    cases fm with
    | nil => simp at hlen
    | cons x fm =>
      have hlen2 : fm.length = t.length + 1 := by simpa using hlen
      have ih2 := ih fm hlen2 (fun j hj hs => by
        have := h (j + 1) (by simp; omega) (by simpa using hs)
        simpa using this)
      have h0 := h 0 (by simp)
      simp only [List.getD_cons_zero] at h0
      rw [List.count_cons, List.count_cons]
      cases x <;> cases y <;> simp_all
      all_goals omega

theorem filter_block_length_le_count {α : Type} (f : List Bool) (col : List α) :
    (filter_block f col).length ≤ f.count true := by
  induction f generalizing col with
  | nil => rw [filter_block_nil_left]; simp
  | cons x f ih =>
    cases col with
    | nil => rw [filter_block_nil_right]; simp
    | cons y col =>
      rw [filter_block_cons, List.length_append, List.count_cons]
      have := ih col
      cases x <;> simp <;> omega

/-- A filter column that keeps at most the last cell of every group keeps at most as many
rows as there are groups. -/
theorem only_last_rows_le {α : Type} (stp fm : List Bool) (col : List α) (n : Nat)
    (hn : 0 < n) (h1 : stp.length = n) (h2 : fm.length = n)
    (hh : stp.head?.getD false = false) (h : OnlyLast stp fm n) :
    (filter_block fm col).length ≤ stp.count false := by
  refine (filter_block_length_le_count fm col).trans ?_
  cases stp with
  | nil => simp at h1; omega
  | cons y t =>
    simp only [List.head?_cons, Option.getD_some] at hh
    subst hh
    have := count_true_only_last t fm (by simp at h1; omega) (fun j hj hs => by
      apply h j (by simp at h1; omega)
      simpa using hs)
    simp
    omega

theorem mark_rewrite_after (stp : List Bool) (n : Nat) (negate : Bool) (last : Nat)
    (a : ApplierState) (hl : a.filter_map.length = n) (hlast : last = n - 1)
    (h0 : OnlyLast stp a.filter_map n) :
    (mark_rewrite stp n negate last a).filter_map.length = n ∧
    OnlyLast stp (mark_rewrite stp n negate last a).filter_map n := by
  subst hlast
  obtain ⟨k1, k2⟩ := mark_rewrite_only_last stp n negate a h0
  exact ⟨k1.trans hl, k2⟩

theorem only_last_replicate (stp : List Bool) (k m : Nat) :
    OnlyLast stp (List.replicate k false) m := by
  intro j _ _
  rw [List.getD_eq_getElem?_getD, List.getElem?_replicate]
  split_ifs <;> rfl

theorem left_semi_rewrite_only_last (s : ProbeState) (hit : List Bool) (n : Nat)
    (a0 : ApplierState) (hn : 0 < n) (hrc : s.row_count_from_last_probe ≤ n) :
    (left_semi_rewrite s hit n true a0).filter_map.length = n ∧
    OnlyLast s.same_to_prev (left_semi_rewrite s hit n true a0).filter_map n := by
  have hC : ∀ x : Bool,
      let fm := (List.range' 1 (n - 1)).foldl (fun fm i =>
        if hit.getD i false || (s.same_to_prev.getD i false && fm.getD (i - 1) false) then
          let fm := fm ++ [true]
          fm.set (i - 1) (!s.same_to_prev.getD i false && fm.getD (i - 1) false)
        else fm ++ [false]) [x]
      fm.length = n ∧ OnlyLast s.same_to_prev fm n := by
    intro x
    have := semi_fold_only_last s.same_to_prev hit 1 (n - 1) [x] rfl
      (fun j hj _ => by omega)
    rw [show 1 + (n - 1) = n by omega] at this
    exact this
  have hA : s.row_count_from_last_probe < n → ∀ x : Bool,
      let fm := (List.range' (1 + s.row_count_from_last_probe)
          (n - (1 + s.row_count_from_last_probe))).foldl (fun fm i =>
        if hit.getD i false || (s.same_to_prev.getD i false && fm.getD (i - 1) false) then
          let fm := fm ++ [true]
          fm.set (i - 1) (!s.same_to_prev.getD i false && fm.getD (i - 1) false)
        else fm ++ [false]) (List.replicate s.row_count_from_last_probe false ++ [x])
      fm.length = n ∧ OnlyLast s.same_to_prev fm n := by
    intro hlt x
    have := semi_fold_only_last s.same_to_prev hit (1 + s.row_count_from_last_probe)
      (n - (1 + s.row_count_from_last_probe))
      (List.replicate s.row_count_from_last_probe false ++ [x])
      (by simp; omega)
      (fun j hj _ => by
        rw [getD_append_left _ _ _ _ (by simp; omega)]
        exact only_last_replicate s.same_to_prev _ (j + 2) j (by omega) (by assumption))
    rw [show 1 + s.row_count_from_last_probe + (n - (1 + s.row_count_from_last_probe)) = n
      by omega] at this
    exact this
  have hB : ¬s.row_count_from_last_probe < n →
      let fm := (List.range' (1 + s.row_count_from_last_probe)
          (n - (1 + s.row_count_from_last_probe))).foldl (fun fm i =>
        if hit.getD i false || (s.same_to_prev.getD i false && fm.getD (i - 1) false) then
          let fm := fm ++ [true]
          fm.set (i - 1) (!s.same_to_prev.getD i false && fm.getD (i - 1) false)
        else fm ++ [false]) (List.replicate s.row_count_from_last_probe false)
      fm.length = n ∧ OnlyLast s.same_to_prev fm n := by
    intro hlt
    have h0 : n - (1 + s.row_count_from_last_probe) = 0 := by omega
    rw [h0]
    simp only [List.range'_zero, List.foldl_nil, List.length_replicate]
    exact ⟨by omega, only_last_replicate _ _ _⟩
  unfold left_semi_rewrite
  simp only [if_true]
  split_ifs with c1 c2 c3
  all_goals
    first
    | exact mark_rewrite_after _ _ _ _ _ (hC _).1 (congrArg (fun k => k - 1) (hC _).1) (hC _).2
    | exact mark_rewrite_after _ _ _ _ _ (hA (by assumption) _).1
        (congrArg (fun k => k - 1) (hA (by assumption) _).1) (hA (by assumption) _).2
    | exact mark_rewrite_after _ _ _ _ _ (hB (by assumption)).1
        (congrArg (fun k => k - 1) (hB (by assumption)).1) (hB (by assumption)).2

theorem left_anti_rewrite_only_last (s : ProbeState) (hit : List Bool) (n : Nat)
    (a0 : ApplierState) :
    (left_anti_rewrite s hit n true a0).filter_map.length = n ∧
    OnlyLast s.same_to_prev (left_anti_rewrite s hit n true a0).filter_map n := by
  have hgen : ∀ (start : Nat) (fm0 : List Bool), fm0.length = n →
      OnlyLast s.same_to_prev fm0 start →
      let fm := (List.range' start (n - start)).foldl (fun fm i =>
        if ((s.visited_map.getD i none).isSome && hit.getD i false) ||
            (s.same_to_prev.getD i false && fm.getD (i - 1) false) then
          let fm := fm.set i true
          fm.set (i - 1) (!s.same_to_prev.getD i false && fm.getD (i - 1) false)
        else fm.set i false) fm0
      fm.length = n ∧ OnlyLast s.same_to_prev fm n := by
    intro start fm0 hl h0
    obtain ⟨k1, k2⟩ := anti_fold_only_last s.same_to_prev hit s.visited_map start (n - start)
      fm0 h0
    exact ⟨k1.trans hl, only_last_mono _ _ _ _ k2 (by omega)⟩
  have hset : ∀ (k : Nat) (x : Bool) (m : Nat), m ≤ k + 1 →
      OnlyLast s.same_to_prev ((List.replicate n false).set k x) m := by
    intro k x m hm j hj _
    rw [getD_set_ne _ _ _ _ (by omega)]
    exact only_last_replicate s.same_to_prev n m j hj (by assumption)
  unfold left_anti_rewrite
  simp only [if_true]
  split_ifs
  all_goals
    first
    | exact mark_rewrite_after _ _ _ _ _
        (hgen _ _ (by simp) (hset _ _ _ (by omega))).1 rfl
        (hgen _ _ (by simp) (hset _ _ _ (by omega))).2
    | exact mark_rewrite_after _ _ _ _ _
        (hgen _ _ (by simp) (only_last_replicate _ _ _)).1 rfl
        (hgen _ _ (by simp) (only_last_replicate _ _ _)).2

/-- Mark join with other conjuncts in the semi and anti modes: the probe loop is not capped,
but the rewritten filter keeps one row per probe-row group, and there are at most
`batch_size` groups. -/
theorem do_process_rows_le_mark (cfg : Config) (conj : OtherConjuncts) (probe : ProbeBatch)
    (probe_rows : Nat) (s : ProbeState)
    (ho : cfg.with_other_conjuncts = true) (hmk : cfg.is_mark_join = true)
    (hop : is_semi_anti_join cfg.JoinOpType = true) (hb : 1 ≤ cfg.batch_size)
    (hne : rows_nonempty s.hash_table)
    (hkind : s.hash_table.kind ≠ RowRefKind.RowRefListWithFlag) :
    (do_process cfg conj probe probe_rows s).2.2.rows ≤ cfg.batch_size := by
  obtain ⟨hinv, -, hsize⟩ := do_probe_inv cfg probe probe_rows s
  obtain ⟨g1, g2, g3, g4⟩ := do_probe_group cfg probe probe_rows s ho hb hne hkind
  have hrc : (do_probe cfg probe probe_rows s).row_count_from_last_probe ≤
      (do_probe cfg probe probe_rows s).current_offset := by
    obtain ⟨-, -, -, -, -, r6⟩ := resume_probe_ext cfg s
    obtain ⟨-, -, -, -, e5, -, -, -, -, -, -, e12, -⟩ :=
      probe_loop_ext cfg probe probe_rows
        (probe_rows - (resume_probe cfg s).probe_index) (resume_probe cfg s)
    show (probe_loop cfg probe probe_rows _ (resume_probe cfg s)).row_count_from_last_probe ≤
      (probe_loop cfg probe probe_rows _ (resume_probe cfg s)).current_offset
    rw [e5, r6]
    exact e12
  have hw : (cfg.with_other_conjuncts || (cfg.JoinOpType != TJoinOp.RIGHT_SEMI_JOIN &&
      cfg.JoinOpType != TJoinOp.RIGHT_ANTI_JOIN)) = true := by rw [ho]; rfl
  obtain ⟨ap, -⟩ := assemble_probe cfg s.probe_index _ hinv hsize hw
  have af := assemble_fst_other cfg s.probe_index (do_probe cfg probe probe_rows s) ho
  generalize hv : do_probe cfg probe probe_rows s = v at *
  have hA : assemble cfg s.probe_index v = (v, (assemble cfg s.probe_index v).2) :=
    Prod.ext af rfl
  have hrows : (assemble cfg s.probe_index v).2.rows = v.current_offset := by
    unfold Block.rows
    rw [ap]
    exact hinv.1
  unfold do_process
  simp only [hv, ho, if_true]
  rw [hA]
  simp only
  generalize hblk : (assemble cfg s.probe_index v).2 = blk at *
  unfold do_other_join_conjuncts
  simp only [hrows, hmk, if_true]
  by_cases hz : v.current_offset = 0
  · simp only [hz, beq_self_eq_true, if_true]
    rw [hrows, hz]
    exact Nat.zero_le _
  · have hz2 : (v.current_offset == 0) = false := by
      cases h : v.current_offset == 0
      · rfl
      · exact absurd (beq_iff_eq.mp h) hz
    simp only [hz2, Bool.false_eq_true, if_false]
    have hpos : 0 < v.current_offset := Nat.pos_of_ne_zero hz
    cases hopc : cfg.JoinOpType <;> rw [hopc] at hop <;>
      first
      | exact absurd hop (by decide)
      | skip
    · -- LEFT_SEMI
      simp only [show (TJoinOp.LEFT_SEMI_JOIN == TJoinOp.LEFT_OUTER_JOIN) = false from rfl,
        show (TJoinOp.LEFT_SEMI_JOIN == TJoinOp.FULL_OUTER_JOIN) = false from rfl,
        show (TJoinOp.LEFT_SEMI_JOIN == TJoinOp.LEFT_SEMI_JOIN) = true from rfl,
        Bool.or_self, Bool.false_eq_true, if_false, Bool.true_or, if_true, Block.rows]
      obtain ⟨k1, k2⟩ := left_semi_rewrite_only_last v
        ((List.range v.current_offset).map fun i =>
          conj (blk.probe.getD i 0) (blk.build.getD i ⟨0, 0⟩)) v.current_offset
        ⟨(List.range v.current_offset).map fun i =>
          conj (blk.probe.getD i 0) (blk.build.getD i ⟨0, 0⟩), [], blk.mark, v.hash_table,
          v.is_any_probe_match_row_output⟩ hpos hrc
      exact (only_last_rows_le _ _ _ _ hpos g1 k1 g4 k2).trans g3
    · -- LEFT_ANTI
      simp only [show (TJoinOp.LEFT_ANTI_JOIN == TJoinOp.LEFT_OUTER_JOIN) = false from rfl,
        show (TJoinOp.LEFT_ANTI_JOIN == TJoinOp.FULL_OUTER_JOIN) = false from rfl,
        show (TJoinOp.LEFT_ANTI_JOIN == TJoinOp.LEFT_SEMI_JOIN) = false from rfl,
        show (TJoinOp.LEFT_ANTI_JOIN == TJoinOp.LEFT_ANTI_JOIN) = true from rfl,
        Bool.or_self, Bool.false_eq_true, if_false, Bool.true_or, Bool.or_true, Bool.false_or,
        if_true, Block.rows]
      obtain ⟨k1, k2⟩ := left_anti_rewrite_only_last v
        ((List.range v.current_offset).map fun i =>
          conj (blk.probe.getD i 0) (blk.build.getD i ⟨0, 0⟩)) v.current_offset
        ⟨(List.range v.current_offset).map fun i =>
          conj (blk.probe.getD i 0) (blk.build.getD i ⟨0, 0⟩), [], blk.mark, v.hash_table,
          v.is_any_probe_match_row_output⟩
      exact (only_last_rows_le _ _ _ _ hpos g1 k1 g4 k2).trans g3
    · -- NULL_AWARE_LEFT_ANTI
      simp only [
        show (TJoinOp.NULL_AWARE_LEFT_ANTI_JOIN == TJoinOp.LEFT_OUTER_JOIN) = false from rfl,
        show (TJoinOp.NULL_AWARE_LEFT_ANTI_JOIN == TJoinOp.FULL_OUTER_JOIN) = false from rfl,
        show (TJoinOp.NULL_AWARE_LEFT_ANTI_JOIN == TJoinOp.LEFT_SEMI_JOIN) = false from rfl,
        show (TJoinOp.NULL_AWARE_LEFT_ANTI_JOIN == TJoinOp.LEFT_ANTI_JOIN) = false from rfl,
        show (TJoinOp.NULL_AWARE_LEFT_ANTI_JOIN == TJoinOp.NULL_AWARE_LEFT_ANTI_JOIN) = true
          from rfl,
        Bool.or_self, Bool.false_eq_true, if_false, Bool.true_or, Bool.or_true, Bool.false_or,
        if_true, Block.rows]
      obtain ⟨k1, k2⟩ := left_anti_rewrite_only_last v
        ((List.range v.current_offset).map fun i =>
          conj (blk.probe.getD i 0) (blk.build.getD i ⟨0, 0⟩)) v.current_offset
        ⟨(List.range v.current_offset).map fun i =>
          conj (blk.probe.getD i 0) (blk.build.getD i ⟨0, 0⟩), [], blk.mark, v.hash_table,
          v.is_any_probe_match_row_output⟩
      exact (only_last_rows_le _ _ _ _ hpos g1 k1 g4 k2).trans g3
    · -- RIGHT_SEMI
      simp [Block.rows]
    · -- RIGHT_ANTI
      simp [Block.rows]

/-! ## The batch cap on the output block (C1) -/

/-- C1 (as amended): for every join mode, every `batch_size ≥ 1` and every hash table whose
row lists are non-empty, a `process` call that is accepted (status OK) returns an output
block of at most `batch_size` rows, unless it is a mark join with other conjuncts in one of
the modes INNER, LEFT_OUTER, RIGHT_OUTER, FULL_OUTER (the modes that are not semi or anti
joins). -/
theorem C1_output_rows_le_batch_size (cfg : Config) (conj : OtherConjuncts)
    (probe : ProbeBatch) (probe_rows : Nat) (s : ProbeState) (output_block : Block)
    (hb : 1 ≤ cfg.batch_size) (hne : rows_nonempty s.hash_table)
    (hmode : ¬(cfg.is_mark_join = true ∧ cfg.with_other_conjuncts = true ∧
      is_semi_anti_join cfg.JoinOpType = false))
    (hok : (process cfg conj probe probe_rows s output_block).1 = Status.OK) :
    (process cfg conj probe probe_rows s output_block).2.2.rows ≤ cfg.batch_size := by
  unfold process at hok ⊢
  by_cases h1 : (s.hash_table.kind != RowRefKind.RowRefListWithFlags) = true
  · by_cases h2 : cfg.with_other_conjuncts = true
    · simp [h1, h2] at hok
    · rw [if_pos h1, if_neg h2]
      exact do_process_rows_le { cfg with with_other_conjuncts := false } conj probe
        probe_rows s (by simp)
  · rw [if_neg h1]
    by_cases hflags : cfg.is_mark_join = true ∧ cfg.with_other_conjuncts = true
    · have hkind : s.hash_table.kind = RowRefKind.RowRefListWithFlags := by
        cases hk : s.hash_table.kind <;> simp [hk] at h1 ⊢
      have hsa : is_semi_anti_join cfg.JoinOpType = true := by
        cases hq : is_semi_anti_join cfg.JoinOpType
        · exact absurd ⟨hflags.1, hflags.2, hq⟩ hmode
        · rfl
      exact do_process_rows_le_mark cfg conj probe probe_rows s hflags.2 hflags.1 hsa hb hne
        (by rw [hkind]; decide)
    · exact do_process_rows_le cfg conj probe probe_rows s hflags

/-- C1, counterexample: mark join with other conjuncts in each of the modes INNER,
LEFT_OUTER, RIGHT_OUTER and FULL_OUTER, per-row-flags table with one key of five build rows
(all row lists non-empty), `batch_size = 1`, one probe row with that key and conjuncts that
accept every row. `process` accepts the call and returns a block of five rows. -/
theorem C1_counterexample :
    rows_nonempty (single_key_table RowRefKind.RowRefListWithFlags 7 5) ∧
    (∀ op ∈ [TJoinOp.INNER_JOIN, TJoinOp.LEFT_OUTER_JOIN, TJoinOp.RIGHT_OUTER_JOIN,
        TJoinOp.FULL_OUTER_JOIN],
      (process ⟨op, 1, false, false, true, true⟩ (fun _ _ => true) ⟨[7], []⟩ 1
        (ProbeState.fresh (single_key_table RowRefKind.RowRefListWithFlags 7 5))
        Block.empty).1 = Status.OK ∧
      ¬((process ⟨op, 1, false, false, true, true⟩ (fun _ _ => true) ⟨[7], []⟩ 1
        (ProbeState.fresh (single_key_table RowRefKind.RowRefListWithFlags 7 5))
        Block.empty).2.2.rows ≤ 1)) := by
  decide

theorem C1_output_rows_le_batch_size_witness :
    1 ≤ (⟨TJoinOp.LEFT_SEMI_JOIN, 2, false, false, true, true⟩ : Config).batch_size ∧
    rows_nonempty
      (ProbeState.fresh (single_key_table RowRefKind.RowRefListWithFlags 7 5)).hash_table ∧
    ¬((⟨TJoinOp.LEFT_SEMI_JOIN, 2, false, false, true, true⟩ : Config).is_mark_join = true ∧
      (⟨TJoinOp.LEFT_SEMI_JOIN, 2, false, false, true, true⟩ : Config).with_other_conjuncts
        = true ∧
      is_semi_anti_join
        (⟨TJoinOp.LEFT_SEMI_JOIN, 2, false, false, true, true⟩ : Config).JoinOpType = false) ∧
    (process ⟨TJoinOp.LEFT_SEMI_JOIN, 2, false, false, true, true⟩
      (fun _ r => r.row_num == 1) ⟨[7, 8], []⟩ 2
      (ProbeState.fresh (single_key_table RowRefKind.RowRefListWithFlags 7 5))
      Block.empty).1 = Status.OK ∧
    (process ⟨TJoinOp.LEFT_SEMI_JOIN, 2, false, false, true, true⟩
      (fun _ r => r.row_num == 1) ⟨[7, 8], []⟩ 2
      (ProbeState.fresh (single_key_table RowRefKind.RowRefListWithFlags 7 5))
      Block.empty).2.2.rows ≤ 2 :=
  ⟨by decide, by decide, by decide, by decide,
    C1_output_rows_le_batch_size ⟨TJoinOp.LEFT_SEMI_JOIN, 2, false, false, true, true⟩
      (fun _ r => r.row_num == 1) ⟨[7, 8], []⟩ 2
      (ProbeState.fresh (single_key_table RowRefKind.RowRefListWithFlags 7 5))
      Block.empty (by decide) (by decide) (by decide) (by decide)⟩

/-! ## The drain `process_data_in_hashtable` (C17, C18, C19, C20) -/

theorem drain_rows_spec (b : Nat) (per_row wanted : Bool) :
    ∀ (rest : List (RowRef × Bool)) (locs : List RowRef),
      (drain_rows b per_row wanted rest locs).2 =
        locs ++ (qual_rows per_row wanted rest).take (b - locs.length) ∧
      qual_rows per_row wanted (drain_rows b per_row wanted rest locs).1 =
        (qual_rows per_row wanted rest).drop (b - locs.length) ∧
      ((drain_rows b per_row wanted rest locs).1 ≠ [] →
        b ≤ (drain_rows b per_row wanted rest locs).2.length) ∧
      (locs.length ≤ b → (drain_rows b per_row wanted rest locs).2.length ≤ b) := by
  intro rest
  induction rest with
  | nil =>
    intro locs
    simp [drain_rows, qual_rows]
  | cons x rest ih =>
    intro locs
    obtain ⟨r, v⟩ := x
    unfold drain_rows
    by_cases hlt : locs.length < b
    · rw [if_pos hlt]
      by_cases he : (!per_row || v == wanted) = true
      · rw [if_pos he]
        obtain ⟨i1, i2, i3, i4⟩ := ih (locs ++ [r])
        have hq : qual_rows per_row wanted ((r, v) :: rest) =
            r :: qual_rows per_row wanted rest := by
          simp only [qual_rows, List.filter_cons, he, if_true, List.map_cons]
        have hb : b - locs.length = (b - (locs ++ [r]).length) + 1 := by
          simp; omega
        refine ⟨?_, ?_, i3, fun _ => i4 (by simp; omega)⟩
        · rw [i1, hq, hb, List.take_succ_cons, List.append_assoc]
          rfl
        · rw [i2, hq, hb, List.drop_succ_cons]
      · rw [if_neg he]
        obtain ⟨i1, i2, i3, i4⟩ := ih locs
        have hq : qual_rows per_row wanted ((r, v) :: rest) =
            qual_rows per_row wanted rest := by
          simp only [qual_rows, List.filter_cons, he, Bool.false_eq_true, if_false]
        rw [hq]
        exact ⟨i1, i2, i3, i4⟩
    · rw [if_neg hlt]
      have hz : b - locs.length = 0 := by omega
      rw [hz]
      refine ⟨by simp, by simp, fun _ => by simp; omega, fun h => h⟩

theorem isEmpty_eq_false_iff {α : Type} (l : List α) : ((!l.isEmpty) = true) ↔ l ≠ [] := by
  cases l <;> simp

/-- The table loop registers the next locations of the entries it is given, up to the
batch cap, and stops either at the end of the table or with the batch full. -/
theorem drain_table_spec (kind : RowRefKind) (b : Nat) (wanted : Bool) :
    ∀ (es : List (Int × Mapped)) (iter : Nat) (locs : List RowRef),
      locs.length ≤ b →
      let t := drain_table kind b wanted es iter [] locs
      t.2.2 = locs ++ (es.flatMap (qual_entry kind wanted)).take (b - locs.length) ∧
      qual_rows (kind != RowRefKind.RowRefListWithFlag) wanted t.2.1 ++
        ((es.drop (if t.2.1.isEmpty then t.1 - iter else t.1 - iter + 1)).flatMap
          (qual_entry kind wanted)) =
        (es.flatMap (qual_entry kind wanted)).drop (b - locs.length) ∧
      iter ≤ t.1 ∧ t.1 ≤ iter + es.length ∧
      (t.2.1 ≠ [] → t.1 < iter + es.length) ∧
      (t.1 < iter + es.length → b ≤ t.2.2.length) ∧
      t.2.2.length ≤ b := by
  intro es
  induction es with
  | nil =>
    intro iter locs hle
    simp [drain_table, qual_rows]
    exact hle
  | cons e es ih =>
    intro iter locs hle
    unfold drain_table
    by_cases hlt : locs.length < b
    · rw [if_pos hlt]
      -- the entry either runs its row list or is skipped
      have hrun : ∀ (per_row : Bool),
          (kind != RowRefKind.RowRefListWithFlag) = per_row →
          qual_entry kind wanted e = qual_rows per_row wanted e.2.rows →
          ∀ t, t = (if (!(drain_rows b per_row wanted e.2.rows locs).1.isEmpty) = true then
              (iter, (drain_rows b per_row wanted e.2.rows locs).1,
                (drain_rows b per_row wanted e.2.rows locs).2)
            else drain_table kind b wanted es (iter + 1)
              (drain_rows b per_row wanted e.2.rows locs).1
              (drain_rows b per_row wanted e.2.rows locs).2) →
          t.2.2 = locs ++ ((e :: es).flatMap (qual_entry kind wanted)).take (b - locs.length) ∧
          qual_rows (kind != RowRefKind.RowRefListWithFlag) wanted t.2.1 ++
            (((e :: es).drop (if t.2.1.isEmpty then t.1 - iter else t.1 - iter + 1)).flatMap
              (qual_entry kind wanted)) =
            ((e :: es).flatMap (qual_entry kind wanted)).drop (b - locs.length) ∧
          iter ≤ t.1 ∧ t.1 ≤ iter + (e :: es).length ∧
          (t.2.1 ≠ [] → t.1 < iter + (e :: es).length) ∧
          (t.1 < iter + (e :: es).length → b ≤ t.2.2.length) ∧
          t.2.2.length ≤ b := by
        intro per_row hpr hq t ht0
        obtain ⟨d1, d2, d3, d4⟩ := drain_rows_spec b per_row wanted e.2.rows locs
        generalize drain_rows b per_row wanted e.2.rows locs = r at ht0 d1 d2 d3 d4
        have hfm : (e :: es).flatMap (qual_entry kind wanted) =
            qual_rows per_row wanted e.2.rows ++ es.flatMap (qual_entry kind wanted) := by
          simp only [List.flatMap_cons, hq]
        have hdrop : ∀ k, (e :: es).drop (k + 1) = es.drop k := fun k => rfl
        by_cases hne : r.1 ≠ []
        · have ht : t = (iter, r.1, r.2) := by
            rw [ht0, if_pos ((isEmpty_eq_false_iff _).mpr hne)]
          have hfull := d3 hne
          have hlen2 := d4 hle
          have hqne : (qual_rows per_row wanted e.2.rows).length ≥ b - locs.length := by
            have := congrArg List.length d1
            rw [List.length_append, List.length_take] at this
            omega
          have hemp : r.1.isEmpty = false := by
            cases h : r.1 with
            | nil => exact absurd h hne
            | cons a l => rfl
          rw [ht]
          simp only [hemp, hpr, Bool.false_eq_true, if_false, Nat.sub_self, Nat.zero_add,
            List.drop_succ_cons, List.drop_zero, List.length_cons]
          refine ⟨?_, ?_, Nat.le_refl _, by omega, fun _ => by omega, fun _ => hfull, hlen2⟩
          · rw [d1, hfm, List.take_append_of_le_length hqne]
          · rw [d2, hfm, List.drop_append_of_le_length hqne]
        · have hnil : r.1 = [] := not_not.mp hne
          have ht : t = drain_table kind b wanted es (iter + 1) [] r.2 := by
            rw [ht0, hnil]
            rfl
          have hlen2 := d4 hle
          obtain ⟨i1, i2, i3, i4, i5, i6, i7⟩ := ih (iter + 1) r.2 hlen2
          rw [← ht] at i1 i2 i3 i4 i5 i6 i7
          rw [hnil] at d2
          have hqd : (qual_rows per_row wanted e.2.rows).drop (b - locs.length) = [] := by
            rw [← d2]; simp [qual_rows]
          have hqlen : (qual_rows per_row wanted e.2.rows).length ≤ b - locs.length := by
            have := congrArg List.length hqd
            rw [List.length_drop] at this
            simp at this
            omega
          have hr2 : r.2 = locs ++ qual_rows per_row wanted e.2.rows := by
            rw [d1, List.take_of_length_le hqlen]
          have hb2 : b - r.2.length =
              b - locs.length - (qual_rows per_row wanted e.2.rows).length := by
            rw [hr2, List.length_append]; omega
          rw [hb2] at i1 i2
          have e1 : (if t.2.1.isEmpty = true then t.1 - iter else t.1 - iter + 1) =
              (if t.2.1.isEmpty = true then t.1 - (iter + 1)
                else t.1 - (iter + 1) + 1) + 1 := by
            split_ifs <;> omega
          refine ⟨?_, ?_, by omega, by simp only [List.length_cons]; omega,
            fun h => by simp only [List.length_cons]; have := i5 h; omega,
            fun h => i6 (by simp only [List.length_cons] at h; omega), i7⟩
          · rw [i1, hfm, hr2, List.take_append_eq_append_take,
              List.take_of_length_le hqlen, List.append_assoc]
          · rw [e1, hdrop, i2, hfm, List.drop_append_eq_append_drop,
              List.drop_of_length_le hqlen, List.nil_append]
      by_cases hk : kind = RowRefKind.RowRefListWithFlag
      · have hkb : (kind == RowRefKind.RowRefListWithFlag) = true := by rw [hk]; rfl
        have hpr : (kind != RowRefKind.RowRefListWithFlag) = false := by rw [hk]; rfl
        rw [if_pos hkb]
        by_cases hv : (e.2.visited == wanted) = true
        · rw [if_pos hv]
          exact hrun false hpr (by simp only [qual_entry, hkb, hv, if_true]) _ rfl
        · rw [if_neg hv]
          have hq : qual_entry kind wanted e = [] := by
            simp only [qual_entry, hkb, hv, if_true, Bool.false_eq_true, if_false]
          obtain ⟨i1, i2, i3, i4, i5, i6, i7⟩ := ih (iter + 1) locs hle
          have hfm : (e :: es).flatMap (qual_entry kind wanted) =
              es.flatMap (qual_entry kind wanted) := by
            simp only [List.flatMap_cons, hq, List.nil_append]
          simp only
          generalize drain_table kind b wanted es (iter + 1) [] locs = t at *
          have hdrop : ∀ k, (e :: es).drop (k + 1) = es.drop k := fun k => rfl
          have e1 : (if t.2.1.isEmpty = true then t.1 - iter else t.1 - iter + 1) =
              (if t.2.1.isEmpty = true then t.1 - (iter + 1) else t.1 - (iter + 1) + 1) + 1 := by
            split_ifs <;> omega
          refine ⟨by rw [i1, hfm], by rw [e1, hdrop, i2, hfm], by omega,
            by simp only [List.length_cons]; omega,
            fun h => by simp only [List.length_cons]; have := i5 h; omega,
            fun h => i6 (by simp only [List.length_cons] at h; omega), i7⟩
      · have hkb : (kind == RowRefKind.RowRefListWithFlag) = false := by
          cases kind <;> first | rfl | exact absurd rfl hk
        have hpr : (kind != RowRefKind.RowRefListWithFlag) = true := by
          cases kind <;> first | rfl | exact absurd rfl hk
        rw [if_neg (by rw [hkb]; decide)]
        exact hrun true hpr (by simp only [qual_entry, hkb, Bool.false_eq_true, if_false]) _ rfl
    · rw [if_neg hlt]
      have hz : b - locs.length = 0 := by omega
      simp only [hz, List.take_zero, List.append_nil, List.drop_zero, List.isEmpty_nil,
        if_true, Nat.sub_self, qual_rows, List.filter_nil, List.map_nil, List.nil_append,
        List.length_cons, List.not_mem_nil, ne_eq, not_true_eq_false, false_implies,
        true_and, Nat.le_refl, Nat.le_add_right, and_true]
      exact ⟨fun _ => by omega, hle⟩

theorem drain_table_full (kind : RowRefKind) (b : Nat) (wanted : Bool)
    (es : List (Int × Mapped)) (iter : Nat) (vi : List (RowRef × Bool)) (locs : List RowRef)
    (h : b ≤ locs.length) : drain_table kind b wanted es iter vi locs = (iter, vi, locs) := by
  cases es with
  | nil => rfl
  | cons e es =>
    unfold drain_table
    rw [if_neg (by omega)]

theorem drain_table_length_le (kind : RowRefKind) (b : Nat) (wanted : Bool) :
    ∀ (es : List (Int × Mapped)) (iter : Nat) (vi : List (RowRef × Bool))
      (locs : List RowRef), locs.length ≤ b →
      (drain_table kind b wanted es iter vi locs).2.2.length ≤ b := by
  intro es
  induction es with
  | nil => intro iter vi locs h; exact h
  | cons e es ih =>
    intro iter vi locs h
    unfold drain_table
    have h1 := (drain_rows_spec b false wanted e.2.rows locs).2.2.2 h
    have h2 := (drain_rows_spec b true wanted e.2.rows locs).2.2.2 h
    simp only
    split_ifs
    all_goals
      (first | exact h1 | exact h2 | exact h | exact ih _ _ _ h1 | exact ih _ _ _ h2 |
        exact ih _ _ _ h)

theorem init_once_idem (st : DrainState) : init_once (init_once st) = init_once st := by
  unfold init_once
  cases h : st.inited <;> simp [h]

theorem process_data_init_once (cfg : Config) (n : Nat) (ht : HashTable) (st : DrainState) :
    (process_data_in_hashtable cfg n ht st).locs =
      (process_data_in_hashtable cfg n ht (init_once st)).locs ∧
    (process_data_in_hashtable cfg n ht st).eos =
      (process_data_in_hashtable cfg n ht (init_once st)).eos ∧
    (ht.kind ≠ RowRefKind.RowRefList →
      (process_data_in_hashtable cfg n ht st).state =
        (process_data_in_hashtable cfg n ht (init_once st)).state) := by
  by_cases h : (ht.kind == RowRefKind.RowRefList) = true
  · unfold process_data_in_hashtable
    simp only [h, if_true]
    exact ⟨trivial, trivial, fun hk => absurd (by simpa using h) hk⟩
  · have h2 : (ht.kind == RowRefKind.RowRefList) = false := by
      cases hq : ht.kind == RowRefKind.RowRefList
      · rfl
      · exact absurd hq h
    unfold process_data_in_hashtable
    simp only [h2, Bool.false_eq_true, if_false, init_once_idem]
    exact ⟨trivial, trivial, fun _ => trivial⟩

theorem drain_inv_init_once (ht : HashTable) (st : DrainState) (h : DrainInv ht st) :
    init_once st = st := by
  unfold init_once
  rw [if_pos h.1]

/-- One drain call on a table with flags: it registers the next `batch_size` locations the
drain still has to register, leaves the rest for later calls, reports eos only when nothing
is left, and a call that does not report eos has filled its batch. -/
theorem drain_call_spec (cfg : Config) (n : Nat) (ht : HashTable) (st : DrainState)
    (hk : ht.kind ≠ RowRefKind.RowRefList) (hinv : DrainInv ht st) :
    (process_data_in_hashtable cfg n ht st).status = Status.OK ∧
    (process_data_in_hashtable cfg n ht st).locs =
      (drain_remaining cfg ht st).take cfg.batch_size ∧
    drain_remaining cfg ht (process_data_in_hashtable cfg n ht st).state =
      (drain_remaining cfg ht st).drop cfg.batch_size ∧
    DrainInv ht (process_data_in_hashtable cfg n ht st).state ∧
    ((process_data_in_hashtable cfg n ht st).eos = true →
      (process_data_in_hashtable cfg n ht st).state.iter = ht.entries.length ∧
      (process_data_in_hashtable cfg n ht st).state.visited_iter = []) ∧
    ((process_data_in_hashtable cfg n ht st).eos = false →
      cfg.batch_size ≤ (process_data_in_hashtable cfg n ht st).locs.length) := by
  obtain ⟨h1, h2, h3⟩ := hinv
  have hkb : (ht.kind == RowRefKind.RowRefList) = false := by
    cases hq : ht.kind <;> first | rfl | exact absurd hq hk
  have hlen : ∀ i, i ≤ ht.entries.length → i + (ht.entries.drop i).length = ht.entries.length := by
    intro i hi
    rw [List.length_drop]; omega
  unfold process_data_in_hashtable
  rw [hkb, drain_inv_init_once ht st ⟨h1, h2, h3⟩]
  simp only [Bool.false_eq_true, if_false]
  generalize hw : (cfg.JoinOpType == TJoinOp.RIGHT_SEMI_JOIN) = wanted
  unfold drain_remaining
  simp only [hw]
  by_cases hvi : st.visited_iter = []
  · -- no suspended row list
    simp only [hvi, List.isEmpty_nil, Bool.not_true, Bool.false_eq_true, if_false, if_true]
    obtain ⟨i1, i2, i3, i4, i5, i6, i7⟩ := drain_table_spec ht.kind cfg.batch_size wanted
      (ht.entries.drop st.iter) st.iter [] (Nat.zero_le _)
    simp only [List.length_nil, Nat.sub_zero, List.nil_append] at i1 i2
    generalize drain_table ht.kind cfg.batch_size wanted (ht.entries.drop st.iter) st.iter [] []
      = t at *
    rw [hlen _ h2] at i4 i5 i6
    have hq0 : qual_rows (ht.kind != RowRefKind.RowRefListWithFlag) wanted [] = [] := rfl
    rw [hq0, List.nil_append]
    refine ⟨trivial, i1, ?_, ⟨h1, i4, i5⟩, ?_, ?_⟩
    · rw [← i2, List.drop_drop]
      congr 3
      split_ifs <;> omega
    · intro he
      have : t.1 = ht.entries.length := by simpa using he
      refine ⟨this, ?_⟩
      by_contra hne
      have := i5 hne
      omega
    · intro he
      apply i6
      have : t.1 ≠ ht.entries.length := by simpa using he
      omega
  · -- a suspended row list is resumed first
    have hemp : st.visited_iter.isEmpty = false := by
      cases h : st.visited_iter with
      | nil => exact absurd h hvi
      | cons a l => rfl
    have hlt := h3 hvi
    simp only [hemp, Bool.not_false, if_true, Bool.false_eq_true, if_false]
    obtain ⟨d1, d2, d3, d4⟩ := drain_rows_spec cfg.batch_size
      (ht.kind != RowRefKind.RowRefListWithFlag) wanted st.visited_iter []
    simp only [List.length_nil, Nat.sub_zero, List.nil_append] at d1 d2 d3 d4
    generalize drain_rows cfg.batch_size (ht.kind != RowRefKind.RowRefListWithFlag) wanted
      st.visited_iter [] = r at *
    by_cases hr : r.1 = []
    · -- the row list is finished; the table loop goes on
      simp only [hr, List.isEmpty_nil, if_true]
      rw [hr] at d2
      have hq0 : qual_rows (ht.kind != RowRefKind.RowRefListWithFlag) wanted [] = [] := rfl
      rw [hq0] at d2
      have hqlen : (qual_rows (ht.kind != RowRefKind.RowRefListWithFlag) wanted
          st.visited_iter).length ≤ cfg.batch_size := by
        have := congrArg List.length d2
        rw [List.length_drop] at this
        simp at this
        omega
      have hr2 : r.2 = qual_rows (ht.kind != RowRefKind.RowRefListWithFlag) wanted
          st.visited_iter := by
        rw [d1, List.take_of_length_le hqlen]
      obtain ⟨i1, i2, i3, i4, i5, i6, i7⟩ := drain_table_spec ht.kind cfg.batch_size wanted
        (ht.entries.drop (st.iter + 1)) (st.iter + 1) r.2 (by rw [hr2]; exact hqlen)
      generalize drain_table ht.kind cfg.batch_size wanted (ht.entries.drop (st.iter + 1))
        (st.iter + 1) [] r.2 = t at *
      rw [hlen _ (by omega)] at i4 i5 i6
      rw [hr2] at i1 i2
      refine ⟨trivial, ?_, ?_, ⟨h1, i4, i5⟩, ?_, ?_⟩
      · rw [i1, List.take_append_eq_append_take, List.take_of_length_le hqlen]
      · rw [List.drop_append_eq_append_drop, List.drop_of_length_le hqlen, List.nil_append,
          ← i2, List.drop_drop]
        congr 3
        split_ifs <;> omega
      · intro he
        have : t.1 = ht.entries.length := by simpa using he
        refine ⟨this, ?_⟩
        by_contra hne
        have := i5 hne
        omega
      · intro he
        apply i6
        have : t.1 ≠ ht.entries.length := by simpa using he
        omega
    · -- the batch is full inside the row list
      have hremp : r.1.isEmpty = false := by
        cases h : r.1 with
        | nil => exact absurd h hr
        | cons a l => rfl
      have hfull := d3 hr
      simp only [hremp, Bool.false_eq_true, if_false]
      rw [drain_table_full _ _ _ _ _ _ _ hfull]
      simp only [hremp, Bool.false_eq_true, if_false]
      have hqlen : cfg.batch_size ≤ (qual_rows (ht.kind != RowRefKind.RowRefListWithFlag)
          wanted st.visited_iter).length := by
        have := congrArg List.length d1
        rw [List.length_take] at this
        omega
      refine ⟨trivial, ?_, ?_, ⟨h1, h2, fun _ => hlt⟩, ?_, fun _ => hfull⟩
      · rw [d1, List.take_append_of_le_length hqlen]
      · rw [d2, List.drop_append_of_le_length hqlen]
      · intro he
        have : st.iter = ht.entries.length := by simpa using he
        omega

/-- Run to eos: with more calls allowed than locations are left, the drain reports eos, and
the locations registered over all calls are exactly the ones that were left, in order. -/
theorem drain_until_eos_spec (cfg : Config) (n : Nat) (ht : HashTable)
    (hk : ht.kind ≠ RowRefKind.RowRefList) (hb : 1 ≤ cfg.batch_size) :
    ∀ (fuel : Nat) (st : DrainState), DrainInv ht st →
      (drain_remaining cfg ht st).length < fuel →
      (drain_until_eos cfg n ht fuel st).2 = true ∧
      (drain_until_eos cfg n ht fuel st).1.flatten = drain_remaining cfg ht st := by
  intro fuel
  induction fuel with
  | zero => intro st _ h; omega
  | succ f ih =>
    intro st hinv hf
    obtain ⟨-, c2, c3, c4, c5, c6⟩ := drain_call_spec cfg n ht st hk hinv
    unfold drain_until_eos
    simp only
    cases he : (process_data_in_hashtable cfg n ht st).eos
    · have hfull := c6 he
      rw [c2, List.length_take] at hfull
      have hlt : (drain_remaining cfg ht (process_data_in_hashtable cfg n ht st).state).length
          < f := by
        rw [c3, List.length_drop]; omega
      obtain ⟨i1, i2⟩ := ih _ c4 hlt
      simp only [Bool.false_eq_true, if_false]
      refine ⟨i1, ?_⟩
      rw [List.flatten_cons, i2, c2, c3, List.take_append_drop]
    · obtain ⟨e1, e2⟩ := c5 he
      simp only [if_true]
      refine ⟨trivial, ?_⟩
      have hrem : drain_remaining cfg ht (process_data_in_hashtable cfg n ht st).state = [] := by
        unfold drain_remaining
        rw [e1, e2]
        simp [qual_rows]
      rw [c3] at hrem
      have := congrArg List.length hrem
      rw [List.length_drop] at this
      simp only [List.length_nil] at this
      simp only [List.flatten_cons, List.flatten_nil, List.append_nil]
      rw [c2, List.take_of_length_le (by omega)]

theorem drain_until_eos_fresh (cfg : Config) (n : Nat) (ht : HashTable)
    (hk : ht.kind ≠ RowRefKind.RowRefList) (hb : 1 ≤ cfg.batch_size) (fuel : Nat)
    (hf : (ht.entries.flatMap
      (qual_entry ht.kind (cfg.JoinOpType == TJoinOp.RIGHT_SEMI_JOIN))).length < fuel) :
    (drain_until_eos cfg n ht fuel DrainState.fresh).2 = true ∧
    (drain_until_eos cfg n ht fuel DrainState.fresh).1.flatten =
      ht.entries.flatMap (qual_entry ht.kind (cfg.JoinOpType == TJoinOp.RIGHT_SEMI_JOIN)) := by
  have hinv : DrainInv ht (init_once DrainState.fresh) :=
    ⟨rfl, Nat.zero_le _, fun h => absurd rfl h⟩
  have hrem : drain_remaining cfg ht (init_once DrainState.fresh) =
      ht.entries.flatMap (qual_entry ht.kind (cfg.JoinOpType == TJoinOp.RIGHT_SEMI_JOIN)) := by
    simp [drain_remaining, init_once, DrainState.fresh, qual_rows]
  have key := drain_until_eos_spec cfg n ht hk hb fuel (init_once DrainState.fresh) hinv
    (by rw [hrem]; exact hf)
  rw [hrem] at key
  have heq : drain_until_eos cfg n ht fuel DrainState.fresh =
      drain_until_eos cfg n ht fuel (init_once DrainState.fresh) := by
    cases fuel with
    | zero => rfl
    | succ f =>
      obtain ⟨p1, p2, p3⟩ := process_data_init_once cfg n ht DrainState.fresh
      unfold drain_until_eos
      simp only [p1, p2, p3 hk]
  rw [heq]
  exact key

/-- C17: the drain over per-row flags (`RowRefListWithFlags`) with `batch_size ≥ 1`, called
from the start until it reports eos. With more calls allowed than the table has rows, eos is
reported, and the locations registered over all calls are exactly the build rows whose own
`visited` flag equals the wanted polarity (set for RIGHT_SEMI, clear for the other modes),
each once, in table order. The run stops at the first eos, so eos comes only when no
qualifying row is left. -/
theorem C17_drain_per_row_flags (cfg : Config) (build_blocks : Nat) (ht : HashTable)
    (fuel : Nat) (hkind : ht.kind = RowRefKind.RowRefListWithFlags)
    (hb : 1 ≤ cfg.batch_size)
    (hfuel : (ht.entries.flatMap fun e => e.2.rows).length < fuel) :
    (drain_until_eos cfg build_blocks ht fuel DrainState.fresh).2 = true ∧
    (drain_until_eos cfg build_blocks ht fuel DrainState.fresh).1.flatten =
      ht.entries.flatMap fun e =>
        (e.2.rows.filter fun r => r.2 == (cfg.JoinOpType == TJoinOp.RIGHT_SEMI_JOIN)).map
          Prod.fst := by
  have hq : ∀ e : Int × Mapped,
      qual_entry ht.kind (cfg.JoinOpType == TJoinOp.RIGHT_SEMI_JOIN) e =
        (e.2.rows.filter fun r => r.2 == (cfg.JoinOpType == TJoinOp.RIGHT_SEMI_JOIN)).map
          Prod.fst := by
    intro e
    rw [hkind]
    simp [qual_entry, qual_rows]
  have hfm : ht.entries.flatMap
      (qual_entry ht.kind (cfg.JoinOpType == TJoinOp.RIGHT_SEMI_JOIN)) =
      ht.entries.flatMap fun e =>
        (e.2.rows.filter fun r => r.2 == (cfg.JoinOpType == TJoinOp.RIGHT_SEMI_JOIN)).map
          Prod.fst := by
    congr 1
    funext e
    exact hq e
  have hlen : (ht.entries.flatMap
      (qual_entry ht.kind (cfg.JoinOpType == TJoinOp.RIGHT_SEMI_JOIN))).length ≤
      (ht.entries.flatMap fun e => e.2.rows).length := by
    rw [hfm]
    generalize ht.entries = es
    induction es with
    | nil => simp
    | cons e es ih =>
      simp only [List.flatMap_cons, List.length_append, List.length_map]
      have := List.length_filter_le
        (fun r : RowRef × Bool => r.2 == (cfg.JoinOpType == TJoinOp.RIGHT_SEMI_JOIN)) e.2.rows
      omega
  have key := drain_until_eos_fresh cfg build_blocks ht (by rw [hkind]; decide) hb fuel
    (by omega)
  rw [hfm] at key
  exact key

/-- C18: the drain over the key-level flag (`RowRefListWithFlag`) with `batch_size ≥ 1`,
called from the start until it reports eos. With more calls allowed than the table has rows,
eos is reported, and the locations registered over all calls are, key by key in table
order, the whole row list in list order of every key whose `visited` flag has the wanted
polarity (set for RIGHT_SEMI, clear otherwise), and nothing of the other keys; this holds
for every batch size, so also when a row list is cut by the cap and resumed. -/
theorem C18_drain_key_flag (cfg : Config) (build_blocks : Nat) (ht : HashTable)
    (fuel : Nat) (hkind : ht.kind = RowRefKind.RowRefListWithFlag)
    (hb : 1 ≤ cfg.batch_size)
    (hfuel : (ht.entries.flatMap fun e => e.2.rows).length < fuel) :
    (drain_until_eos cfg build_blocks ht fuel DrainState.fresh).2 = true ∧
    (drain_until_eos cfg build_blocks ht fuel DrainState.fresh).1.flatten =
      ht.entries.flatMap fun e =>
        if e.2.visited == (cfg.JoinOpType == TJoinOp.RIGHT_SEMI_JOIN) then
          e.2.rows.map Prod.fst
        else [] := by
  have hq : ∀ e : Int × Mapped,
      qual_entry ht.kind (cfg.JoinOpType == TJoinOp.RIGHT_SEMI_JOIN) e =
        if e.2.visited == (cfg.JoinOpType == TJoinOp.RIGHT_SEMI_JOIN) then
          e.2.rows.map Prod.fst
        else [] := by
    intro e
    rw [hkind]
    simp [qual_entry, qual_rows]
  have hfm : ht.entries.flatMap
      (qual_entry ht.kind (cfg.JoinOpType == TJoinOp.RIGHT_SEMI_JOIN)) =
      ht.entries.flatMap fun e =>
        if e.2.visited == (cfg.JoinOpType == TJoinOp.RIGHT_SEMI_JOIN) then
          e.2.rows.map Prod.fst
        else [] := by
    congr 1
    funext e
    exact hq e
  have hlen : (ht.entries.flatMap
      (qual_entry ht.kind (cfg.JoinOpType == TJoinOp.RIGHT_SEMI_JOIN))).length ≤
      (ht.entries.flatMap fun e => e.2.rows).length := by
    rw [hfm]
    generalize ht.entries = es
    induction es with
    | nil => simp
    | cons e es ih =>
      simp only [List.flatMap_cons, List.length_append]
      split_ifs
      · simp only [List.length_map]; omega
      · simp only [List.length_nil]; omega
  have key := drain_until_eos_fresh cfg build_blocks ht (by rw [hkind]; decide) hb fuel
    (by omega)
  rw [hfm] at key
  exact key

/-- C19: for every drain call, from every state and for every `batch_size ≥ 0`, the number
of locations registered (`block_size`) is at most `batch_size`. A registration writes
`_build_blocks_locs[block_size++]`, that is at the index `locs.length`, so every write index
is below `batch_size` and the closing `DCHECK(block_size <= _batch_size)` holds. -/
theorem C19_drain_block_size_le (cfg : Config) (build_blocks : Nat) (ht : HashTable)
    (st : DrainState) :
    (process_data_in_hashtable cfg build_blocks ht st).locs.length ≤ cfg.batch_size := by
  by_cases h1 : (ht.kind == RowRefKind.RowRefList) = true
  · unfold process_data_in_hashtable
    rw [if_pos h1]
    exact Nat.zero_le _
  · unfold process_data_in_hashtable
    rw [if_neg h1]
    dsimp only
    apply drain_table_length_le
    by_cases hv : (!(init_once st).visited_iter.isEmpty) = true
    · rw [if_pos hv]
      exact (drain_rows_spec cfg.batch_size _ _ _ []).2.2.2 (Nat.zero_le _)
    · rw [if_neg hv]
      exact Nat.zero_le _

theorem drain_at_end (cfg : Config) (n : Nat) (ht : HashTable) (u : DrainState)
    (h1 : u.inited = true) (h2 : u.iter = ht.entries.length) (h3 : u.visited_iter = [])
    (hk : ht.kind ≠ RowRefKind.RowRefList) :
    (process_data_in_hashtable cfg n ht u).locs = [] ∧
    (process_data_in_hashtable cfg n ht u).eos = true ∧
    (process_data_in_hashtable cfg n ht u).state.inited = true ∧
    (process_data_in_hashtable cfg n ht u).state.iter = ht.entries.length ∧
    (process_data_in_hashtable cfg n ht u).state.visited_iter = [] := by
  have hinv : DrainInv ht u := ⟨h1, by omega, fun h => absurd h3 h⟩
  obtain ⟨-, c2, -, c4, c5, c6⟩ := drain_call_spec cfg n ht u hk hinv
  have hrem : drain_remaining cfg ht u = [] := by
    unfold drain_remaining
    rw [h2, h3]
    simp [qual_rows]
  rw [hrem] at c2
  have he : (process_data_in_hashtable cfg n ht u).eos = true := by
    unfold process_data_in_hashtable
    have hkb : (ht.kind == RowRefKind.RowRefList) = false := by
      cases hq : ht.kind <;> first | rfl | exact absurd hq hk
    rw [hkb, drain_inv_init_once ht u hinv]
    simp only [Bool.false_eq_true, if_false, h3, List.isEmpty_nil, Bool.not_true, h2,
      List.drop_length]
    simp [drain_table]
  exact ⟨by rw [c2]; simp, he, c4.1, (c5 he).1, (c5 he).2⟩

theorem drain_calls_inv (cfg : Config) (n : Nat) (ht : HashTable)
    (hk : ht.kind ≠ RowRefKind.RowRefList) :
    ∀ j, DrainInv ht (init_once (drain_calls cfg n ht j DrainState.fresh)) := by
  intro j
  induction j with
  | zero => exact ⟨rfl, Nat.zero_le _, fun h => absurd rfl h⟩
  | succ j ih =>
    show DrainInv ht (init_once (process_data_in_hashtable cfg n ht _).state)
    rw [(process_data_init_once cfg n ht _).2.2 hk]
    have := (drain_call_spec cfg n ht _ hk ih).2.2.2.1
    rw [drain_inv_init_once ht _ this]
    exact this

/-- C20: once a drain call (the call number `j + 1` from the start) has reported eos, every
further call registers no location, issues no row to gather, reports eos again and leaves
the table iterator and the per-key iterator as that call left them. -/
theorem C20_drain_idempotent (cfg : Config) (build_blocks : Nat) (ht : HashTable)
    (j k : Nat)
    (heos : (process_data_in_hashtable cfg build_blocks ht
      (drain_calls cfg build_blocks ht j DrainState.fresh)).eos = true) :
    (process_data_in_hashtable cfg build_blocks ht
      (drain_calls cfg build_blocks ht (j + 1 + k) DrainState.fresh)).locs = [] ∧
    ((process_data_in_hashtable cfg build_blocks ht
      (drain_calls cfg build_blocks ht (j + 1 + k) DrainState.fresh)).gathers.flatMap
        Prod.snd) = [] ∧
    (process_data_in_hashtable cfg build_blocks ht
      (drain_calls cfg build_blocks ht (j + 1 + k) DrainState.fresh)).eos = true ∧
    (process_data_in_hashtable cfg build_blocks ht
      (drain_calls cfg build_blocks ht (j + 1 + k) DrainState.fresh)).state.iter =
      (drain_calls cfg build_blocks ht (j + 1) DrainState.fresh).iter ∧
    (process_data_in_hashtable cfg build_blocks ht
      (drain_calls cfg build_blocks ht (j + 1 + k) DrainState.fresh)).state.visited_iter =
      (drain_calls cfg build_blocks ht (j + 1) DrainState.fresh).visited_iter := by
  have hk : ht.kind ≠ RowRefKind.RowRefList := by
    intro h
    unfold process_data_in_hashtable at heos
    rw [h] at heos
    simp at heos
  have hinvj := drain_calls_inv cfg build_blocks ht hk j
  have heos2 : (process_data_in_hashtable cfg build_blocks ht
      (init_once (drain_calls cfg build_blocks ht j DrainState.fresh))).eos = true := by
    rw [← (process_data_init_once cfg build_blocks ht _).2.1]; exact heos
  obtain ⟨-, -, -, c4, c5, -⟩ := drain_call_spec cfg build_blocks ht _ hk hinvj
  obtain ⟨e1, e2⟩ := c5 heos2
  have hst : drain_calls cfg build_blocks ht (j + 1) DrainState.fresh =
      (process_data_in_hashtable cfg build_blocks ht
        (init_once (drain_calls cfg build_blocks ht j DrainState.fresh))).state := by
    show (process_data_in_hashtable cfg build_blocks ht _).state = _
    exact (process_data_init_once cfg build_blocks ht _).2.2 hk
  have hall : ∀ k, (drain_calls cfg build_blocks ht (j + 1 + k) DrainState.fresh).inited = true ∧
      (drain_calls cfg build_blocks ht (j + 1 + k) DrainState.fresh).iter = ht.entries.length ∧
      (drain_calls cfg build_blocks ht (j + 1 + k) DrainState.fresh).visited_iter = [] := by
    intro k
    induction k with
    | zero =>
      rw [Nat.add_zero, hst]
      exact ⟨c4.1, e1, e2⟩
    | succ k ih =>
      obtain ⟨a1, a2, a3⟩ := ih
      obtain ⟨-, -, b3, b4, b5⟩ := drain_at_end cfg build_blocks ht _ a1 a2 a3 hk
      exact ⟨b3, b4, b5⟩
  obtain ⟨a1, a2, a3⟩ := hall k
  obtain ⟨b1, b2, -, b4, b5⟩ := drain_at_end cfg build_blocks ht _ a1 a2 a3 hk
  obtain ⟨z1, z2, z3⟩ := hall 0
  rw [Nat.add_zero] at z2 z3
  refine ⟨b1, ?_, b2, b4.trans z2.symm, b5.trans z3.symm⟩
  have hg : (process_data_in_hashtable cfg build_blocks ht
      (drain_calls cfg build_blocks ht (j + 1 + k) DrainState.fresh)).gathers =
      if build_blocks > 1 then gather_runs
          (process_data_in_hashtable cfg build_blocks ht
            (drain_calls cfg build_blocks ht (j + 1 + k) DrainState.fresh)).locs.length
          (sort_locs (process_data_in_hashtable cfg build_blocks ht
            (drain_calls cfg build_blocks ht (j + 1 + k) DrainState.fresh)).locs)
      else if build_blocks == 1 then [(0, (process_data_in_hashtable cfg build_blocks ht
            (drain_calls cfg build_blocks ht (j + 1 + k) DrainState.fresh)).locs.map
              RowRef.row_num)]
      else [] := by
    unfold process_data_in_hashtable
    have hkb : (ht.kind == RowRefKind.RowRefList) = false := by
      cases hq : ht.kind <;> first | rfl | exact absurd hq hk
    simp only [hkb, Bool.false_eq_true, if_false]
  rw [hg, b1]
  split_ifs <;> simp [gather_runs]

theorem C17_drain_per_row_flags_witness :
    build_123_probed_2.kind = RowRefKind.RowRefListWithFlags ∧
    1 ≤ (⟨TJoinOp.RIGHT_ANTI_JOIN, 1, false, false, true, false⟩ : Config).batch_size ∧
    (build_123_probed_2.entries.flatMap fun e => e.2.rows).length < 4 ∧
    ((drain_until_eos ⟨TJoinOp.RIGHT_ANTI_JOIN, 1, false, false, true, false⟩ 1
        build_123_probed_2 4 DrainState.fresh).2 = true ∧
      (drain_until_eos ⟨TJoinOp.RIGHT_ANTI_JOIN, 1, false, false, true, false⟩ 1
        build_123_probed_2 4 DrainState.fresh).1.flatten =
        build_123_probed_2.entries.flatMap fun e =>
          (e.2.rows.filter fun r => r.2 ==
            ((⟨TJoinOp.RIGHT_ANTI_JOIN, 1, false, false, true, false⟩ : Config).JoinOpType ==
              TJoinOp.RIGHT_SEMI_JOIN)).map Prod.fst) ∧
    (drain_until_eos ⟨TJoinOp.RIGHT_ANTI_JOIN, 1, false, false, true, false⟩ 1
      build_123_probed_2 4 DrainState.fresh).1 = [[⟨0, 0⟩], [⟨0, 2⟩]] :=
  ⟨by decide, by decide, by decide,
    C17_drain_per_row_flags ⟨TJoinOp.RIGHT_ANTI_JOIN, 1, false, false, true, false⟩ 1
      build_123_probed_2 4 (by decide) (by decide) (by decide),
    by decide⟩

theorem C18_drain_key_flag_witness :
    build_two_keys_probed_2.kind = RowRefKind.RowRefListWithFlag ∧
    1 ≤ (⟨TJoinOp.RIGHT_OUTER_JOIN, 2, false, false, false, false⟩ : Config).batch_size ∧
    (build_two_keys_probed_2.entries.flatMap fun e => e.2.rows).length < 6 ∧
    ((drain_until_eos ⟨TJoinOp.RIGHT_OUTER_JOIN, 2, false, false, false, false⟩ 2
        build_two_keys_probed_2 6 DrainState.fresh).2 = true ∧
      (drain_until_eos ⟨TJoinOp.RIGHT_OUTER_JOIN, 2, false, false, false, false⟩ 2
        build_two_keys_probed_2 6 DrainState.fresh).1.flatten =
        build_two_keys_probed_2.entries.flatMap fun e =>
          if e.2.visited ==
              ((⟨TJoinOp.RIGHT_OUTER_JOIN, 2, false, false, false, false⟩ : Config).JoinOpType
                == TJoinOp.RIGHT_SEMI_JOIN) then
            e.2.rows.map Prod.fst
          else []) ∧
    (drain_until_eos ⟨TJoinOp.RIGHT_OUTER_JOIN, 2, false, false, false, false⟩ 2
      build_two_keys_probed_2 6 DrainState.fresh).1 = [[⟨0, 0⟩, ⟨0, 1⟩], [⟨0, 2⟩]] :=
  ⟨by decide, by decide, by decide,
    C18_drain_key_flag ⟨TJoinOp.RIGHT_OUTER_JOIN, 2, false, false, false, false⟩ 2
      build_two_keys_probed_2 6 (by decide) (by decide) (by decide),
    by decide⟩

theorem C20_drain_idempotent_witness :
    (process_data_in_hashtable ⟨TJoinOp.RIGHT_ANTI_JOIN, 1, false, false, true, false⟩ 1
      build_123_probed_2
      (drain_calls ⟨TJoinOp.RIGHT_ANTI_JOIN, 1, false, false, true, false⟩ 1
        build_123_probed_2 1 DrainState.fresh)).eos = true ∧
    (process_data_in_hashtable ⟨TJoinOp.RIGHT_ANTI_JOIN, 1, false, false, true, false⟩ 1
      build_123_probed_2
      (drain_calls ⟨TJoinOp.RIGHT_ANTI_JOIN, 1, false, false, true, false⟩ 1
        build_123_probed_2 (1 + 1 + 2) DrainState.fresh)).locs = [] ∧
    (process_data_in_hashtable ⟨TJoinOp.RIGHT_ANTI_JOIN, 1, false, false, true, false⟩ 1
      build_123_probed_2
      (drain_calls ⟨TJoinOp.RIGHT_ANTI_JOIN, 1, false, false, true, false⟩ 1
        build_123_probed_2 (1 + 1 + 2) DrainState.fresh)).eos = true :=
  ⟨by decide,
    (C20_drain_idempotent ⟨TJoinOp.RIGHT_ANTI_JOIN, 1, false, false, true, false⟩ 1
      build_123_probed_2 1 2 (by decide)).1,
    (C20_drain_idempotent ⟨TJoinOp.RIGHT_ANTI_JOIN, 1, false, false, true, false⟩ 1
      build_123_probed_2 1 2 (by decide)).2.2.1⟩

/-! ## RIGHT_SEMI / RIGHT_ANTI over the key-level flag (C16) -/

theorem rows_part_set_key_visited (ht : HashTable) (entry : Nat) :
    rows_part (set_key_visited ht entry) = rows_part ht := by
  unfold set_key_visited rows_part
  cases hg : ht.entries.get? entry with
  | none => rfl
  | some km =>
    obtain ⟨k, m⟩ := km
    simp only
    apply List.ext_getElem?
    intro i
    simp only [List.getElem?_map, List.getElem?_set]
    by_cases hi : entry = i
    · subst hi
      rw [List.get?_eq_getElem?] at hg
      have hlt : entry < ht.entries.length := by
        by_contra hc
        rw [List.getElem?_eq_none (by omega)] at hg
        exact Option.noConfusion hg
      simp [hlt, hg]
    · simp [hi]

theorem key_visited_set_key_visited (ht : HashTable) (entry e : Nat)
    (hlt : entry < ht.entries.length) :
    key_visited (set_key_visited ht entry) e = (key_visited ht e || decide (entry = e)) := by
  unfold set_key_visited key_visited
  cases hg : ht.entries.get? entry with
  | none =>
    rw [List.get?_eq_getElem?, List.getElem?_eq_getElem hlt] at hg
    exact Option.noConfusion hg
  | some km =>
    obtain ⟨k, m⟩ := km
    simp only [List.getD_eq_getElem?_getD, List.getElem?_set]
    by_cases hi : entry = e
    · subst hi
      simp [hlt]
    · simp [hi]

theorem found_by_succ (cfg : Config) (probe : ProbeBatch) (entries : List (Int × Mapped))
    (lo hi entry : Nat) (h : lo ≤ hi) :
    found_by cfg probe entries lo (hi + 1) entry =
      (found_by cfg probe entries lo hi entry ||
        (find_result cfg probe entries hi == some entry)) := by
  unfold found_by
  have e1 : hi + 1 - lo = (hi - lo) + 1 := by omega
  rw [e1, List.range'_concat, List.any_append]
  have e2 : lo + (hi - lo) = hi := by omega
  simp [e2]

/-- One loop iteration in RIGHT_SEMI / RIGHT_ANTI without other conjuncts: nothing is
emitted, the probe index advances by one and the key found, if any, is marked on the
key-level-flag row list. -/
theorem probe_step_right_semi_anti (cfg : Config) (probe : ProbeBatch) (t : ProbeState)
    (hop : cfg.JoinOpType = TJoinOp.RIGHT_SEMI_JOIN ∨ cfg.JoinOpType = TJoinOp.RIGHT_ANTI_JOIN)
    (hother : cfg.with_other_conjuncts = false)
    (h0 : t.current_offset = 0) (hpi : t.probe_indexs = []) :
    let t' := probe_step cfg probe t
    t'.current_offset = 0 ∧ t'.build_block_offsets = t.build_block_offsets ∧
    t'.build_block_rows = t.build_block_rows ∧ t'.probe_indexs = [] ∧
    t'.probe_row_match_iter = t.probe_row_match_iter ∧
    t'.probe_index = t.probe_index + 1 ∧ t'.mark_column = t.mark_column ∧
    t'.hash_table =
      (match find_result cfg probe t.hash_table.entries t.probe_index with
       | some e =>
         if t.hash_table.kind == RowRefKind.RowRefListWithFlag then
           set_key_visited t.hash_table e
         else t.hash_table
       | none => t.hash_table) := by
  intro t'
  have ht' : t' = probe_step cfg probe t := rfl
  clear_value t'
  unfold probe_step at ht'
  have hpa : probe_all cfg.JoinOpType = false := by
    rcases hop with h | h <;> rw [h] <;> rfl
  have hlsa : is_left_semi_anti cfg.JoinOpType = false := by
    rcases hop with h | h <;> rw [h] <;> rfl
  have hrsa : is_right_semi_anti_join cfg.JoinOpType = true := by
    rcases hop with h | h <;> rw [h] <;> rfl
  by_cases hn : is_ignored_null cfg probe t.probe_index = true
  · rw [if_pos hn] at ht'
    have hfr : find_result cfg probe t.hash_table.entries t.probe_index = none := by
      unfold is_ignored_null at hn
      unfold find_result
      simp only [Bool.and_eq_true] at hn
      rw [hn.1.2, hn.2]
      rfl
    rw [hfr]
    subst ht'
    simp [null_key_branch, hpa, h0, hpi]
  · rw [if_neg hn] at ht'
    cases hfr : find_result cfg probe t.hash_table.entries t.probe_index with
    | none =>
      rw [hfr] at ht'
      subst ht'
      have hne1 : (cfg.JoinOpType == TJoinOp.LEFT_ANTI_JOIN) = false := by
        rcases hop with h | h <;> rw [h] <;> rfl
      have hne2 : (cfg.JoinOpType == TJoinOp.NULL_AWARE_LEFT_ANTI_JOIN) = false := by
        rcases hop with h | h <;> rw [h] <;> rfl
      have hne3 : (cfg.JoinOpType == TJoinOp.LEFT_SEMI_JOIN) = false := by
        rcases hop with h | h <;> rw [h] <;> rfl
      simp [dispatch, hother, hlsa, not_found_branch, hpa, hne1, hne2, hne3, finish_step,
        resize, h0, hpi]
    | some e =>
      rw [hfr] at ht'
      have hd : dispatch cfg (some e) t =
          found_branch cfg e ((t.hash_table.entries.getD e (0, ⟨[], false⟩)).2) t := by
        simp [dispatch, hother, hlsa]
      rw [hd] at ht'
      have hf := found_branch_fields cfg e ((t.hash_table.entries.getD e (0, ⟨[], false⟩)).2) t
      simp only [hother, hrsa, Bool.and_false, Bool.not_false, Bool.not_true, Bool.or_false,
        Bool.and_self, Bool.false_eq_true, if_false, List.take_zero, List.map_nil,
        List.append_nil, Nat.add_zero, Bool.false_and] at hf
      obtain ⟨f1, f2, f3, -, -, f6, f7, -, -, -, -, -, -, f14, f15, f16, f17⟩ := hf
      subst ht'
      simp only [finish_step]
      refine ⟨?_, f1, f2, ?_, f6, f7, f16, f17⟩
      · rw [f3]; exact h0
      · rw [f3, f14, h0, hpi]; rfl

theorem skeleton_of_rows_part (h1 h2 : HashTable) (h : rows_part h1 = rows_part h2) :
    skeleton h1.entries = skeleton h2.entries := by
  have e : ∀ ht : HashTable,
      skeleton ht.entries = (rows_part ht).map fun x => (x.1, x.2.map Prod.fst) := by
    intro ht
    simp [skeleton, rows_part]
  rw [e h1, e h2, h]

theorem right_semi_inv_step (cfg : Config) (probe : ProbeBatch) (probe_rows p0 : Nat)
    (ht0 : HashTable)
    (hop : cfg.JoinOpType = TJoinOp.RIGHT_SEMI_JOIN ∨ cfg.JoinOpType = TJoinOp.RIGHT_ANTI_JOIN)
    (hother : cfg.with_other_conjuncts = false) (t : ProbeState)
    (hI : RightSemiInv cfg probe probe_rows p0 ht0 t) (hlt : t.probe_index < probe_rows) :
    RightSemiInv cfg probe probe_rows p0 ht0 (probe_step cfg probe t) := by
  obtain ⟨i1, i2, i3, i4, i5, i6, i7, i8, i9, i10, i11⟩ := hI
  obtain ⟨s1, s2, s3, s4, s5, s6, s7, s8⟩ :=
    probe_step_right_semi_anti cfg probe t hop hother i1 i4
  have hfr : find_result cfg probe t.hash_table.entries t.probe_index =
      find_result cfg probe ht0.entries t.probe_index :=
    find_result_skeleton cfg probe _ _ _ (skeleton_of_rows_part _ _ i10)
  refine ⟨s1, by rw [s2, i2], by rw [s3, i3], s4, by rw [s7, i5], by rw [s5, i6],
    by omega, by omega, ?_, ?_, ?_⟩
  · rw [s8]
    split
    · rw [i9]; simp only [beq_self_eq_true, if_true]; rw [set_key_visited_kind, i9]
    · exact i9
  · rw [s8]
    split
    · rw [i9]; simp only [beq_self_eq_true, if_true]; rw [rows_part_set_key_visited, i10]
    · exact i10
  · intro e
    rw [s8, s6, found_by_succ _ _ _ _ _ _ i7, ← hfr]
    cases hf : find_result cfg probe t.hash_table.entries t.probe_index with
    | none =>
      simp only
      rw [i11 e]
      simp
    | some e0 =>
      simp only [i9, beq_self_eq_true, if_true]
      rw [key_visited_set_key_visited _ _ _ (find_result_lt _ _ _ _ _ hf), i11 e]
      by_cases he : e0 = e
      · simp [he]
      · have hb1 : (e0 == e) = false := beq_eq_false_iff_ne.mpr he
        have hb2 : decide (e0 = e) = false := decide_eq_false he
        simp [hb1, hb2]

theorem right_semi_inv_loop (cfg : Config) (probe : ProbeBatch) (probe_rows p0 : Nat)
    (ht0 : HashTable)
    (hop : cfg.JoinOpType = TJoinOp.RIGHT_SEMI_JOIN ∨ cfg.JoinOpType = TJoinOp.RIGHT_ANTI_JOIN)
    (hother : cfg.with_other_conjuncts = false) (hb : 1 ≤ cfg.batch_size) :
    ∀ (fuel : Nat) (t : ProbeState), RightSemiInv cfg probe probe_rows p0 ht0 t →
      probe_rows - t.probe_index ≤ fuel →
      RightSemiInv cfg probe probe_rows p0 ht0 (probe_loop cfg probe probe_rows fuel t) ∧
      (probe_loop cfg probe probe_rows fuel t).probe_index = max t.probe_index probe_rows := by
  intro fuel
  induction fuel with
  | zero =>
    intro t hI hf
    refine ⟨hI, ?_⟩
    simp only [probe_loop]
    omega
  | succ n ih =>
    intro t hI hf
    by_cases hc : t.current_offset < cfg.batch_size ∧ t.probe_index < probe_rows
    · rw [probe_loop_step _ _ _ _ _ hc]
      have hI' := right_semi_inv_step cfg probe probe_rows p0 ht0 hop hother t hI hc.2
      have hpi : (probe_step cfg probe t).probe_index = t.probe_index + 1 :=
        (probe_step_right_semi_anti cfg probe t hop hother hI.1 hI.2.2.2.1).2.2.2.2.2.1
      obtain ⟨a, b⟩ := ih _ hI' (by rw [hpi]; omega)
      refine ⟨a, ?_⟩
      rw [b, hpi]
      omega
    · rw [probe_loop_stop _ _ _ _ _ hc]
      refine ⟨hI, ?_⟩
      have h0 := hI.1
      have : ¬ t.probe_index < probe_rows := fun h => hc ⟨by omega, h⟩
      omega

/-- C16, the claim as stated fails for `batch_size = 0`: the loop condition
`current_offset < _batch_size` is false at once, so the call examines no probe row
(`probe_index` stays 0 although one row remains) and the key the row would have found keeps
its visited bit clear. -/
theorem C16_counterexample :
    let cfg : Config := ⟨TJoinOp.RIGHT_SEMI_JOIN, 0, false, false, false, false⟩
    let ht := build_123 RowRefKind.RowRefListWithFlag
    let r := process cfg (fun _ _ => true) ⟨[2], []⟩ 1 (ProbeState.fresh ht) Block.empty
    r.1 = Status.OK ∧ r.2.1.probe_index = 0 ∧
    find_result cfg ⟨[2], []⟩ ht.entries 0 = some 1 ∧
    key_visited r.2.1.hash_table 1 = false := by
  decide

/-- C16 (amended with `batch_size ≥ 1`): RIGHT_SEMI / RIGHT_ANTI without other conjuncts
over the key-level-flag row list. A `process` call entered without a suspended row-list
iterator (the state this mode always leaves) emits no output tuple: `current_offset` is 0,
the three scratch vectors and the output block are empty. It examines every remaining probe
row (`probe_index` ends at `probe_rows`), leaves no iterator suspended, and on return the
visited bit of every key equals its value before the call OR-ed with "some probe row
`probe_index ≤ i < probe_rows` has a non-null key whose lookup finds that key"; the table
kind, the keys and the row lists with their per-row flags are unchanged. -/
theorem C16_right_semi_anti_key_flag (cfg : Config) (conj : OtherConjuncts)
    (probe : ProbeBatch) (probe_rows : Nat) (s : ProbeState) (output_block : Block)
    (hop : cfg.JoinOpType = TJoinOp.RIGHT_SEMI_JOIN ∨ cfg.JoinOpType = TJoinOp.RIGHT_ANTI_JOIN)
    (hother : cfg.with_other_conjuncts = false)
    (hkind : s.hash_table.kind = RowRefKind.RowRefListWithFlag)
    (hb : 1 ≤ cfg.batch_size)
    (hiter : s.probe_row_match_iter.ok = false) :
    let r := process cfg conj probe probe_rows s output_block
    r.1 = Status.OK ∧
    r.2.1.current_offset = 0 ∧ r.2.1.build_block_offsets = [] ∧
    r.2.1.build_block_rows = [] ∧ r.2.1.probe_indexs = [] ∧
    r.2.2 = Block.empty ∧
    r.2.1.probe_index = max s.probe_index probe_rows ∧
    r.2.1.probe_row_match_iter.ok = false ∧
    (∀ e, key_visited r.2.1.hash_table e =
      (key_visited s.hash_table e ||
        found_by cfg probe s.hash_table.entries s.probe_index probe_rows e)) ∧
    r.2.1.hash_table.kind = s.hash_table.kind ∧
    rows_part r.2.1.hash_table = rows_part s.hash_table := by
  intro r
  have hr : r = process cfg conj probe probe_rows s output_block := rfl
  clear_value r
  have hcfg : ({ cfg with with_other_conjuncts := false } : Config) = cfg := by
    cases cfg
    simp only at hother
    subst hother
    rfl
  have hsa : is_semi_anti_join cfg.JoinOpType = true := by
    rcases hop with h | h <;> rw [h] <;> rfl
  have hw1 : (cfg.JoinOpType != TJoinOp.RIGHT_SEMI_JOIN &&
      cfg.JoinOpType != TJoinOp.RIGHT_ANTI_JOIN) = false := by
    rcases hop with h | h <;> rw [h] <;> rfl
  unfold process at hr
  rw [hkind] at hr
  simp only [hother, hcfg, show (RowRefKind.RowRefListWithFlag !=
    RowRefKind.RowRefListWithFlags) = true from rfl, if_true, Bool.false_eq_true,
    if_false] at hr
  unfold do_process at hr
  simp only [hother, Bool.false_eq_true, if_false] at hr
  have hI0 : RightSemiInv cfg probe probe_rows s.probe_index s.hash_table
      (resume_probe cfg s) := by
    rw [resume_probe_not_ok cfg s hiter]
    refine ⟨rfl, rfl, rfl, rfl, rfl, hiter, Nat.le_refl _, ?_, hkind, rfl, ?_⟩
    · show s.probe_index ≤ max s.probe_index probe_rows
      omega
    · intro e
      have hp : (init_probe_side cfg s).probe_index = s.probe_index := rfl
      show key_visited s.hash_table e = _
      simp [found_by, hp]
  have hpi0 : (resume_probe cfg s).probe_index = s.probe_index := by
    rw [resume_probe_not_ok cfg s hiter]; rfl
  obtain ⟨hI, hend0⟩ := right_semi_inv_loop cfg probe probe_rows s.probe_index s.hash_table
    hop hother hb (probe_rows - (resume_probe cfg s).probe_index) (resume_probe cfg s) hI0
    (Nat.le_refl _)
  have hend : (probe_loop cfg probe probe_rows (probe_rows - (resume_probe cfg s).probe_index)
      (resume_probe cfg s)).probe_index = max s.probe_index probe_rows := by
    rw [hend0, hpi0]
  obtain ⟨i1, i2, i3, i4, i5, i6, -, -, i9, i10, i11⟩ := hI
  have hdp : ∀ x, do_probe cfg probe probe_rows s =
      x → x.current_offset = 0 ∧ x.build_block_offsets = [] ∧ x.build_block_rows = [] ∧
      x.probe_indexs = [] ∧ x.mark_column = [] ∧ x.probe_row_match_iter.ok = false ∧
      x.hash_table.kind = RowRefKind.RowRefListWithFlag ∧
      rows_part x.hash_table = rows_part s.hash_table ∧
      x.probe_index = max s.probe_index probe_rows ∧
      ∀ e, key_visited x.hash_table e = (key_visited s.hash_table e ||
        found_by cfg probe s.hash_table.entries s.probe_index x.probe_index e) := by
    intro x hx
    subst hx
    unfold do_probe
    exact ⟨i1, i2, i3, i4, i5, i6, i9, i10, hend, i11⟩
  obtain ⟨d1, d2, d3, d4, d5, d6, d7, d8, d9, d10⟩ := hdp _ rfl
  generalize do_probe cfg probe probe_rows s = x at hr d1 d2 d3 d4 d5 d6 d7 d8 d9 d10
  have hfb : ∀ e, found_by cfg probe s.hash_table.entries s.probe_index x.probe_index e =
      found_by cfg probe s.hash_table.entries s.probe_index probe_rows e := by
    intro e
    unfold found_by
    rw [d9]
    congr 2
    omega
  subst hr
  unfold assemble
  simp only [hother, hw1, hsa, build_side_output_column, Bool.or_false, Bool.not_true,
    Bool.false_eq_true, if_false, Bool.or_self]
  refine ⟨trivial, d1, d2, d3, d4, ?_, d9, d6, ?_, ?_, d8⟩
  · rw [d5]; rfl
  · intro e
    rw [← hfb e]
    exact d10 e
  · rw [d7, hkind]

theorem C16_right_semi_anti_key_flag_witness :
    let cfg : Config := ⟨TJoinOp.RIGHT_ANTI_JOIN, 1, false, false, false, false⟩
    let ht := build_123 RowRefKind.RowRefListWithFlag
    let s := ProbeState.fresh ht
    let r := process cfg (fun _ _ => true) ⟨[2, 5, 2], []⟩ 3 s Block.empty
    (r.2.1.probe_index = 3 ∧
      (List.range 3).map (key_visited r.2.1.hash_table) = [false, true, false]) ∧
    (r.1 = Status.OK ∧
    r.2.1.current_offset = 0 ∧ r.2.1.build_block_offsets = [] ∧
    r.2.1.build_block_rows = [] ∧ r.2.1.probe_indexs = [] ∧
    r.2.2 = Block.empty ∧
    r.2.1.probe_index = max s.probe_index 3 ∧
    r.2.1.probe_row_match_iter.ok = false ∧
    (∀ e, key_visited r.2.1.hash_table e =
      (key_visited s.hash_table e ||
        found_by cfg ⟨[2, 5, 2], []⟩ s.hash_table.entries s.probe_index 3 e)) ∧
    r.2.1.hash_table.kind = s.hash_table.kind ∧
    rows_part r.2.1.hash_table = rows_part s.hash_table) :=
  ⟨by decide, C16_right_semi_anti_key_flag ⟨TJoinOp.RIGHT_ANTI_JOIN, 1, false, false, false, false⟩
    (fun _ _ => true) ⟨[2, 5, 2], []⟩ 3 (ProbeState.fresh (build_123 RowRefKind.RowRefListWithFlag))
    Block.empty (Or.inr rfl) rfl rfl (by decide) rfl⟩

/-! ## Visited bits with other conjuncts (C15) -/

theorem or_visited_entries_length (ht : HashTable) (ptr : Option (Nat × Nat)) (b : Bool) :
    (or_visited ht ptr b).entries.length = ht.entries.length := by
  unfold or_visited
  split
  · rfl
  · split
    · rfl
    · split
      · rfl
      · simp

theorem or_visited_skeleton (ht : HashTable) (ptr : Option (Nat × Nat)) (b : Bool) :
    skeleton (or_visited ht ptr b).entries = skeleton ht.entries := by
  unfold or_visited
  split
  · rfl
  · next e p =>
    split
    · rfl
    · next k m hg =>
      split
      · rfl
      · next r v hr =>
        simp only [skeleton]
        apply List.ext_getElem?
        intro i
        simp only [List.getElem?_map, List.getElem?_set]
        rw [List.get?_eq_getElem?] at hg hr
        by_cases hi : e = i
        · subst hi
          have hlt : e < ht.entries.length := by
            by_contra hc
            rw [List.getElem?_eq_none (by omega)] at hg
            exact Option.noConfusion hg
          simp only [hlt, if_true, hg, Option.map_some', List.map_set]
          congr 2
          apply List.ext_getElem?
          intro j
          simp only [List.getElem?_set, List.getElem?_map]
          by_cases hj : p = j
          · subst hj
            have hlt2 : p < m.rows.length := by
              by_contra hc
              rw [List.getElem?_eq_none (by omega)] at hr
              exact Option.noConfusion hr
            simp [hlt2, hr]
          · simp [hj]
        · simp [hi]

theorem or_visited_row_visited (ht : HashTable) (ptr : Option (Nat × Nat)) (b : Bool)
    (e p : Nat) (he : e < ht.entries.length)
    (hp : p < (entry_rows ht.entries e).length) :
    row_visited (or_visited ht ptr b) e p =
      (row_visited ht e p || (ptr == some (e, p) && b)) := by
  have hp2 : p < (ht.entries[e]).2.rows.length := by
    simpa [entry_rows, List.getD_eq_getElem?_getD, he] using hp
  unfold or_visited
  split
  · simp
  · next e0 p0 =>
    split
    · next hg =>
      rw [List.get?_eq_getElem?] at hg
      have hne : (some (e0, p0) == some (e, p)) = false := by
        apply beq_eq_false_iff_ne.mpr
        intro h
        have h1 : e0 = e := (Prod.mk.inj (Option.some.inj h)).1
        subst h1
        rw [List.getElem?_eq_getElem he] at hg
        exact Option.noConfusion hg
      rw [hne, Bool.false_and, Bool.or_false]
    · next k m hg =>
      rw [List.get?_eq_getElem?] at hg
      split
      · next hr =>
        rw [List.get?_eq_getElem?] at hr
        have hne : (some (e0, p0) == some (e, p)) = false := by
          apply beq_eq_false_iff_ne.mpr
          intro h
          obtain ⟨h1, h2⟩ := Prod.mk.inj (Option.some.inj h)
          subst h1 h2
          rw [List.getElem?_eq_getElem he] at hg
          have hm : ht.entries[e0] = (k, m) := Option.some.inj hg
          rw [hm] at hp2
          rw [List.getElem?_eq_getElem hp2] at hr
          exact Option.noConfusion hr
        rw [hne, Bool.false_and, Bool.or_false]
      · next r v hr =>
        rw [List.get?_eq_getElem?] at hr
        simp only [row_visited, List.getD_eq_getElem?_getD, List.getElem?_set]
        by_cases h1 : e0 = e
        · subst h1
          simp only [he, if_true, Option.getD_some, hg, List.getElem?_set]
          by_cases h2 : p0 = p
          · subst h2
            have hlt : p0 < m.rows.length := by
              by_contra hc
              rw [List.getElem?_eq_none (by omega)] at hr
              exact Option.noConfusion hr
            simp [hlt, hr]
          · have hne : (some (e0, p0) == some (e0, p)) = false := by
              apply beq_eq_false_iff_ne.mpr
              intro h
              exact h2 (Prod.mk.inj (Option.some.inj h)).2
            simp only [h2, if_false, hne, Bool.false_and, Bool.or_false]
        · have hne : (some (e0, p0) == some (e, p)) = false := by
            apply beq_eq_false_iff_ne.mpr
            intro h
            exact h1 (Prod.mk.inj (Option.some.inj h)).1
          simp only [h1, if_false, hne, Bool.false_and, Bool.or_false]

theorem visited_fold_entries_length (vm : List (Option (Nat × Nat))) (hit : List Bool)
    (l : List Nat) : ∀ ht : HashTable,
    (visited_fold vm hit l ht).entries.length = ht.entries.length ∧
    skeleton (visited_fold vm hit l ht).entries = skeleton ht.entries := by
  induction l with
  | nil => intro ht; exact ⟨rfl, rfl⟩
  | cons i l ih =>
    intro ht
    unfold visited_fold
    rw [List.foldl_cons]
    obtain ⟨a, b⟩ := ih (or_visited ht (vm.getD i none) (hit.getD i false))
    unfold visited_fold at a b
    rw [a, b, or_visited_entries_length, or_visited_skeleton]
    exact ⟨rfl, rfl⟩

theorem entry_rows_of_skeleton (e1 e2 : List (Int × Mapped)) (h : skeleton e1 = skeleton e2)
    (e : Nat) : entry_rows e1 e = entry_rows e2 e := by
  have key : ∀ es : List (Int × Mapped),
      entry_rows es e = ((skeleton es).getD e (0, [])).2 := by
    intro es
    simp only [entry_rows, skeleton, List.getD_eq_getElem?_getD, List.getElem?_map]
    cases es[e]? <;> rfl
  rw [key e1, key e2, h]

/-- The closed form of the visited-flag loop: the flag of a build row ends as its value
before OR-ed with "some tuple of the list points to the row and passes". -/
theorem visited_fold_row_visited (vm : List (Option (Nat × Nat))) (hit : List Bool)
    (e p : Nat) (l : List Nat) : ∀ ht : HashTable, e < ht.entries.length →
    p < (entry_rows ht.entries e).length →
    row_visited (visited_fold vm hit l ht) e p =
      (row_visited ht e p ||
        l.any fun i => vm.getD i none == some (e, p) && hit.getD i false) := by
  induction l with
  | nil => intro ht _ _; simp [visited_fold]
  | cons i l ih =>
    intro ht he hp
    have h1 := ih (or_visited ht (vm.getD i none) (hit.getD i false))
      (by rw [or_visited_entries_length]; exact he)
      (by rw [entry_rows_of_skeleton _ _ (or_visited_skeleton _ _ _)]; exact hp)
    unfold visited_fold at h1 ⊢
    rw [List.foldl_cons, h1, or_visited_row_visited ht _ _ e p he hp, List.any_cons,
      Bool.or_assoc]

theorem visited_fold_append (vm : List (Option (Nat × Nat))) (hit : List Bool)
    (l1 l2 : List Nat) (ht : HashTable) :
    visited_fold vm hit (l1 ++ l2) ht = visited_fold vm hit l2 (visited_fold vm hit l1 ht) := by
  unfold visited_fold
  rw [List.foldl_append]

theorem foldl_applier_hash_table (f : ApplierState → Nat → ApplierState)
    (vm : List (Option (Nat × Nat))) (hit : List Bool)
    (hf : ∀ a i, (f a i).hash_table =
      or_visited a.hash_table (vm.getD i none) (hit.getD i false))
    (l : List Nat) : ∀ a : ApplierState,
    (l.foldl f a).hash_table = visited_fold vm hit l a.hash_table := by
  induction l with
  | nil => intro a; rfl
  | cons i l ih =>
    intro a
    rw [List.foldl_cons, ih (f a i), hf a i]
    rfl

theorem or_visited_none (ht : HashTable) (b : Bool) : or_visited ht none b = ht := rfl

theorem process_splited_hash_table (vm : List (Option (Nat × Nat))) (hit : List Bool)
    (start cnt : Nat) (a : ApplierState) :
    (process_splited_equal_matched_tuples vm hit start cnt a).hash_table =
      visited_fold vm hit (List.range' start cnt) a.hash_table := by
  unfold process_splited_equal_matched_tuples
  simp only
  apply foldl_applier_hash_table
  intro a i
  split_ifs with h
  · rfl
  · have hn : vm.getD i none = none := by
      cases hv : vm.getD i none with
      | none => rfl
      | some x => rw [hv] at h; exact absurd rfl h
    rw [hn, or_visited_none]

theorem left_outer_middle_hash_table (s : ProbeState) (hit : List Bool) (l : List Nat)
    (a : ApplierState) :
    (l.foldl (left_outer_middle_step s.visited_map s.same_to_prev hit) a).hash_table =
      visited_fold s.visited_map hit l a.hash_table := by
  apply foldl_applier_hash_table
  intro a i
  unfold left_outer_middle_step
  simp only
  by_cases h : (s.visited_map.getD i none).isSome = true
  · simp only [h, if_true]
    split_ifs <;> rfl
  · have hn : s.visited_map.getD i none = none := by
      cases hv : s.visited_map.getD i none with
      | none => rfl
      | some x => rw [hv] at h; exact absurd rfl h
    simp only [hn, Option.isSome_none, Bool.false_eq_true, if_false, or_visited_none]

theorem left_outer_prefix_hash_table (s : ProbeState) (hit : List Bool) (a : ApplierState) :
    ( left_outer_prefix s hit a).hash_table =
      visited_fold s.visited_map hit (List.range' 0 s.row_count_from_last_probe)
        a.hash_table := by
  unfold left_outer_prefix
  by_cases hrc : s.row_count_from_last_probe > 0
  · simp only [hrc, if_true]
    split_ifs
    · exact process_splited_hash_table _ _ _ _ _
    · exact process_splited_hash_table _ _ _ _ _
  · have h0 : s.row_count_from_last_probe = 0 := by omega
    simp only [hrc, if_false, h0]
    rfl

theorem left_outer_middle_eq_hash_table (s : ProbeState) (hit : List Bool) (row_count : Nat)
    (a : ApplierState) :
    (left_outer_middle s hit row_count a).hash_table =
      visited_fold s.visited_map hit (List.range' s.row_count_from_last_probe
        (row_count - s.multi_matched_output_row_count - s.row_count_from_last_probe))
        a.hash_table := by
  unfold left_outer_middle
  exact left_outer_middle_hash_table s hit _ a

theorem left_outer_suffix_hash_table (s : ProbeState) (hit : List Bool) (row_count : Nat)
    (a : ApplierState) :
    (left_outer_suffix s hit row_count a).hash_table =
      visited_fold s.visited_map hit (List.range' (row_count - s.multi_matched_output_row_count)
        s.multi_matched_output_row_count) a.hash_table := by
  unfold left_outer_suffix
  by_cases hmu : s.multi_matched_output_row_count > 0
  · simp only [hmu, if_true]
    exact process_splited_hash_table _ _ _ _ _
  · have h0 : s.multi_matched_output_row_count = 0 := by omega
    simp only [hmu, if_false, h0]
    rfl

/-- The visited flags after the LEFT_OUTER / FULL_OUTER rewrite: prefix, middle segment and
suffix together run `*_visited_map[i] |= other_hit` once for every tuple of the block. -/
theorem left_outer_rewrite_hash_table (s : ProbeState) (hit : List Bool) (row_count : Nat)
    (a : ApplierState)
    (hle : s.row_count_from_last_probe + s.multi_matched_output_row_count ≤ row_count) :
    (left_outer_rewrite s hit row_count a).hash_table =
      visited_fold s.visited_map hit (List.range row_count) a.hash_table := by
  have hsplit : List.range row_count =
      List.range' 0 s.row_count_from_last_probe ++
      (List.range' s.row_count_from_last_probe
        (row_count - s.multi_matched_output_row_count - s.row_count_from_last_probe) ++
       List.range' (row_count - s.multi_matched_output_row_count)
        s.multi_matched_output_row_count) := by
    rw [List.range_eq_range']
    obtain ⟨mid, hmid⟩ : ∃ mid, mid =
      row_count - s.multi_matched_output_row_count - s.row_count_from_last_probe := ⟨_, rfl⟩
    rw [← hmid]
    have e1 : row_count = s.row_count_from_last_probe +
        (mid + s.multi_matched_output_row_count) := by omega
    have e2 : row_count - s.multi_matched_output_row_count =
        s.row_count_from_last_probe + mid := by omega
    rw [e2]
    conv_lhs => rw [e1]
    rw [List.range'_append_1]
    have h3 := List.range'_append_1 0 s.row_count_from_last_probe
      (s.multi_matched_output_row_count + mid)
    rw [Nat.zero_add] at h3
    rw [h3]
    congr 1
    omega
  rw [hsplit, visited_fold_append, visited_fold_append]
  unfold left_outer_rewrite
  simp only
  rw [left_outer_suffix_hash_table, left_outer_middle_eq_hash_table,
    left_outer_prefix_hash_table]

/-- The prefix and the suffix tuples of a call are disjoint parts of its block. -/
theorem do_probe_rc_multi (cfg : Config) (probe : ProbeBatch) (probe_rows : Nat)
    (s : ProbeState) :
    (do_probe cfg probe probe_rows s).row_count_from_last_probe +
      (do_probe cfg probe probe_rows s).multi_matched_output_row_count ≤
      (do_probe cfg probe probe_rows s).current_offset := by
  obtain ⟨-, -, -, -, r5, r6⟩ := resume_probe_ext cfg s
  obtain ⟨-, -, -, -, e5, -, -, -, -, -, -, e12, e13⟩ :=
    probe_loop_ext cfg probe probe_rows (probe_rows - (resume_probe cfg s).probe_index)
      (resume_probe cfg s)
  show (probe_loop cfg probe probe_rows (probe_rows - (resume_probe cfg s).probe_index)
      (resume_probe cfg s)).row_count_from_last_probe +
    (probe_loop cfg probe probe_rows (probe_rows - (resume_probe cfg s).probe_index)
      (resume_probe cfg s)).multi_matched_output_row_count ≤
    (probe_loop cfg probe probe_rows (probe_rows - (resume_probe cfg s).probe_index)
      (resume_probe cfg s)).current_offset
  rw [e5, r6]
  rcases e13 with h | h
  · rw [h, r5]; omega
  · omega

theorem any_congr_mem {α : Type} (f g : α → Bool) (l : List α)
    (h : ∀ x ∈ l, f x = g x) : l.any f = l.any g := by
  induction l with
  | nil => rfl
  | cons a l ih =>
    rw [List.any_cons, List.any_cons, h a (List.mem_cons_self _ _),
      ih (fun x hx => h x (List.mem_cons_of_mem _ hx))]

theorem any_map_fn {α β : Type} (f : α → β) (p : β → Bool) (l : List α) :
    (l.map f).any p = l.any fun x => p (f x) := by
  induction l with
  | nil => rfl
  | cons a l ih => rw [List.map_cons, List.any_cons, List.any_cons, ih]

/-- The visited flags after the applier in the four modes that maintain them: the statement
`*_visited_map[i] |= filter_column_ptr[i]` has run once for every tuple of the block. -/
theorem applier_hash_table (cfg : Config) (conj : OtherConjuncts) (s : ProbeState)
    (b : Block)
    (hop : cfg.JoinOpType = TJoinOp.RIGHT_SEMI_JOIN ∨ cfg.JoinOpType = TJoinOp.RIGHT_ANTI_JOIN ∨
      cfg.JoinOpType = TJoinOp.RIGHT_OUTER_JOIN ∨ cfg.JoinOpType = TJoinOp.FULL_OUTER_JOIN)
    (hle : s.row_count_from_last_probe + s.multi_matched_output_row_count ≤ b.rows) :
    (do_other_join_conjuncts cfg conj s b).1.hash_table =
      visited_fold s.visited_map
        ((List.range b.rows).map fun i => conj (b.probe.getD i 0) (b.build.getD i ⟨0, 0⟩))
        (List.range b.rows) s.hash_table := by
  unfold do_other_join_conjuncts
  by_cases h0 : (b.rows == 0) = true
  · have hz : b.rows = 0 := beq_iff_eq.mp h0
    simp only [h0, if_true, hz]
    rfl
  · simp only [h0, Bool.false_eq_true, if_false]
    rcases hop with h | h | h | h
    · rw [h]
      simp only [show (TJoinOp.RIGHT_SEMI_JOIN == TJoinOp.LEFT_OUTER_JOIN) = false from rfl,
        show (TJoinOp.RIGHT_SEMI_JOIN == TJoinOp.FULL_OUTER_JOIN) = false from rfl,
        show (TJoinOp.RIGHT_SEMI_JOIN == TJoinOp.LEFT_SEMI_JOIN) = false from rfl,
        show (TJoinOp.RIGHT_SEMI_JOIN == TJoinOp.LEFT_ANTI_JOIN) = false from rfl,
        show (TJoinOp.RIGHT_SEMI_JOIN == TJoinOp.NULL_AWARE_LEFT_ANTI_JOIN) = false from rfl,
        show (TJoinOp.RIGHT_SEMI_JOIN == TJoinOp.RIGHT_SEMI_JOIN) = true from rfl,
        Bool.or_self, Bool.false_eq_true, if_false, Bool.true_or, if_true]
      rfl
    · rw [h]
      simp only [show (TJoinOp.RIGHT_ANTI_JOIN == TJoinOp.LEFT_OUTER_JOIN) = false from rfl,
        show (TJoinOp.RIGHT_ANTI_JOIN == TJoinOp.FULL_OUTER_JOIN) = false from rfl,
        show (TJoinOp.RIGHT_ANTI_JOIN == TJoinOp.LEFT_SEMI_JOIN) = false from rfl,
        show (TJoinOp.RIGHT_ANTI_JOIN == TJoinOp.LEFT_ANTI_JOIN) = false from rfl,
        show (TJoinOp.RIGHT_ANTI_JOIN == TJoinOp.NULL_AWARE_LEFT_ANTI_JOIN) = false from rfl,
        show (TJoinOp.RIGHT_ANTI_JOIN == TJoinOp.RIGHT_ANTI_JOIN) = true from rfl,
        Bool.or_self, Bool.false_eq_true, if_false, Bool.or_true, if_true]
      rfl
    · rw [h]
      simp only [show (TJoinOp.RIGHT_OUTER_JOIN == TJoinOp.LEFT_OUTER_JOIN) = false from rfl,
        show (TJoinOp.RIGHT_OUTER_JOIN == TJoinOp.FULL_OUTER_JOIN) = false from rfl,
        show (TJoinOp.RIGHT_OUTER_JOIN == TJoinOp.LEFT_SEMI_JOIN) = false from rfl,
        show (TJoinOp.RIGHT_OUTER_JOIN == TJoinOp.LEFT_ANTI_JOIN) = false from rfl,
        show (TJoinOp.RIGHT_OUTER_JOIN == TJoinOp.NULL_AWARE_LEFT_ANTI_JOIN) = false from rfl,
        show (TJoinOp.RIGHT_OUTER_JOIN == TJoinOp.RIGHT_SEMI_JOIN) = false from rfl,
        show (TJoinOp.RIGHT_OUTER_JOIN == TJoinOp.RIGHT_ANTI_JOIN) = false from rfl,
        show (TJoinOp.RIGHT_OUTER_JOIN == TJoinOp.RIGHT_OUTER_JOIN) = true from rfl,
        Bool.or_self, Bool.false_eq_true, if_false, if_true]
      rfl
    · rw [h]
      simp only [show (TJoinOp.FULL_OUTER_JOIN == TJoinOp.LEFT_OUTER_JOIN) = false from rfl,
        show (TJoinOp.FULL_OUTER_JOIN == TJoinOp.FULL_OUTER_JOIN) = true from rfl,
        Bool.or_true, if_true]
      exact left_outer_rewrite_hash_table s _ b.rows _ hle

/-- The flag of every build row after a `process` call with other conjuncts, in the four
modes that maintain the flags. -/
theorem process_row_visited (cfg : Config) (conj : OtherConjuncts) (probe : ProbeBatch)
    (probe_rows : Nat) (s : ProbeState) (output_block : Block)
    (hop : cfg.JoinOpType = TJoinOp.RIGHT_SEMI_JOIN ∨ cfg.JoinOpType = TJoinOp.RIGHT_ANTI_JOIN ∨
      cfg.JoinOpType = TJoinOp.RIGHT_OUTER_JOIN ∨ cfg.JoinOpType = TJoinOp.FULL_OUTER_JOIN)
    (ho : cfg.with_other_conjuncts = true)
    (hkind : s.hash_table.kind = RowRefKind.RowRefListWithFlags) (e p : Nat)
    (he : e < s.hash_table.entries.length)
    (hp : p < (entry_rows s.hash_table.entries e).length) :
    row_visited (process cfg conj probe probe_rows s output_block).2.1.hash_table e p =
      (row_visited s.hash_table e p ||
        (call_tuples cfg conj probe probe_rows s).any fun t => t.1 == some (e, p) && t.2) := by
  rw [process_other_eq cfg conj probe probe_rows s output_block hkind]
  have hne : s.hash_table.kind ≠ RowRefKind.RowRefListWithFlag := by
    rw [hkind]; exact fun h => RowRefKind.noConfusion h
  obtain ⟨hinv, -, hsize⟩ := do_probe_inv cfg probe probe_rows s
  have hht := (do_probe_frame cfg probe probe_rows s).2.2.2 hne
  have hrm := do_probe_rc_multi cfg probe probe_rows s
  have hw : (cfg.with_other_conjuncts || (cfg.JoinOpType != TJoinOp.RIGHT_SEMI_JOIN &&
      cfg.JoinOpType != TJoinOp.RIGHT_ANTI_JOIN)) = true := by rw [ho]; rfl
  have hap := (assemble_probe cfg s.probe_index _ hinv hsize hw).1
  have af := assemble_fst_other cfg s.probe_index (do_probe cfg probe probe_rows s) ho
  unfold call_tuples
  unfold do_process
  simp only [ho, if_true]
  generalize hd : do_probe cfg probe probe_rows s = d at hinv hht hrm hap af
  have hA : assemble cfg s.probe_index d = (d, (assemble cfg s.probe_index d).2) :=
    Prod.ext af rfl
  have hrows : (assemble cfg s.probe_index d).2.rows = d.current_offset := by
    unfold Block.rows
    rw [hap]
    exact hinv.1
  generalize (assemble cfg s.probe_index d).2 = b at hA hrows
  rw [hA]
  simp only
  rw [applier_hash_table cfg conj d b hop (by rw [hrows]; exact hrm), hht,
    visited_fold_row_visited _ _ e p _ s.hash_table he hp]
  rw [any_map_fn]
  congr 1
  apply any_congr_mem
  intro i hi
  have hi2 : i < b.rows := List.mem_range.mp hi
  rw [List.getD_eq_getElem?_getD ((List.range b.rows).map _), List.getElem?_map,
    List.getElem?_range hi2]
  rfl

/-- C15: visited bits with other conjuncts over per-row flags, for RIGHT_SEMI, RIGHT_ANTI,
RIGHT_OUTER and FULL_OUTER. After a `process` call the visited bit of every build row
(position `p` of the row list of entry `e`) equals its value before the call OR-ed with
"some tuple emitted in this call references that row (its `_visited_map` entry points to
it) and passed the other conjuncts". Hence a bit that was set stays set, and a bit is not
raised for a row whose every tuple in this call failed the conjuncts; the tuples of the
prefix and suffix sub-batch segments are among `call_tuples`. -/
theorem C15_visited_bits (cfg : Config) (conj : OtherConjuncts) (probe : ProbeBatch)
    (probe_rows : Nat) (s : ProbeState) (output_block : Block) (e p : Nat)
    (hop : cfg.JoinOpType = TJoinOp.RIGHT_SEMI_JOIN ∨ cfg.JoinOpType = TJoinOp.RIGHT_ANTI_JOIN ∨
      cfg.JoinOpType = TJoinOp.RIGHT_OUTER_JOIN ∨ cfg.JoinOpType = TJoinOp.FULL_OUTER_JOIN)
    (ho : cfg.with_other_conjuncts = true)
    (hkind : s.hash_table.kind = RowRefKind.RowRefListWithFlags)
    (he : e < s.hash_table.entries.length)
    (hp : p < (entry_rows s.hash_table.entries e).length) :
    let r := process cfg conj probe probe_rows s output_block
    let tuples := call_tuples cfg conj probe probe_rows s
    row_visited r.2.1.hash_table e p =
      (row_visited s.hash_table e p || tuples.any fun t => t.1 == some (e, p) && t.2) ∧
    (row_visited s.hash_table e p = true → row_visited r.2.1.hash_table e p = true) ∧
    ((∀ t ∈ tuples, t.1 = some (e, p) → t.2 = false) →
      row_visited r.2.1.hash_table e p = row_visited s.hash_table e p) := by
  intro r tuples
  have h := process_row_visited cfg conj probe probe_rows s output_block hop ho hkind e p he hp
  refine ⟨h, ?_, ?_⟩
  · intro hv
    show row_visited (process cfg conj probe probe_rows s output_block).2.1.hash_table e p = true
    rw [h, hv]
    rfl
  · intro hall
    show row_visited (process cfg conj probe probe_rows s output_block).2.1.hash_table e p = _
    rw [h]
    have hany : ((call_tuples cfg conj probe probe_rows s).any
        fun t => t.1 == some (e, p) && t.2) = false := by
      rw [List.any_eq_false]
      intro t ht
      by_cases h1 : t.1 = some (e, p)
      · rw [hall t ht h1]; simp
      · have : (t.1 == some (e, p)) = false := beq_eq_false_iff_ne.mpr h1
        rw [this]; simp
    rw [hany, Bool.or_false]

theorem C15_visited_bits_witness :
    let cfg : Config := ⟨TJoinOp.FULL_OUTER_JOIN, 2, false, false, true, false⟩
    let conj : OtherConjuncts := fun _ r => r.row_num == 2
    let ht := single_key_table RowRefKind.RowRefListWithFlags 7 3
    let s := (process cfg conj ⟨[7], []⟩ 1 (ProbeState.fresh ht) Block.empty).2.1
    let r := process cfg conj ⟨[7], []⟩ 1 s Block.empty
    let tuples := call_tuples cfg conj ⟨[7], []⟩ 1 s
    (s.row_count_from_last_probe = 0 ∧ s.multi_matched_output_row_count = 2 ∧
      r.2.1.row_count_from_last_probe = 1 ∧ tuples = [(some (0, 2), true)] ∧
      (List.range 3).map (row_visited s.hash_table 0) = [false, false, false] ∧
      (List.range 3).map (row_visited r.2.1.hash_table 0) = [false, false, true]) ∧
    (row_visited r.2.1.hash_table 0 2 =
      (row_visited s.hash_table 0 2 || tuples.any fun t => t.1 == some (0, 2) && t.2) ∧
    (row_visited s.hash_table 0 2 = true → row_visited r.2.1.hash_table 0 2 = true) ∧
    ((∀ t ∈ tuples, t.1 = some (0, 2) → t.2 = false) →
      row_visited r.2.1.hash_table 0 2 = row_visited s.hash_table 0 2)) :=
  ⟨by decide, C15_visited_bits ⟨TJoinOp.FULL_OUTER_JOIN, 2, false, false, true, false⟩
    (fun _ r => r.row_num == 2) ⟨[7], []⟩ 1
    (process ⟨TJoinOp.FULL_OUTER_JOIN, 2, false, false, true, false⟩ (fun _ r => r.row_num == 2)
      ⟨[7], []⟩ 1 (ProbeState.fresh (single_key_table RowRefKind.RowRefListWithFlags 7 3))
      Block.empty).2.1
    Block.empty 0 2 (Or.inr (Or.inr (Or.inr rfl))) rfl (by decide) (by decide) (by decide)⟩

/-! ## The scratch vectors with other conjuncts, group by group -/

theorem group_rows_length (i : Nat) (ts : List (RowRef × Bool)) :
    (group_rows i ts).length = ts.length := by
  cases ts <;> simp [group_rows]

theorem scratch_rows_length (s : ProbeState) : (scratch_rows s).length = s.current_offset := by
  simp [scratch_rows]

/-- Appending `k` cells to each scratch vector appends `k` records. -/
theorem scratch_rows_extend (t t' : ProbeState) (k : Nat) (P : List Nat) (A B : List Int)
    (V : List (Option (Nat × Nat))) (S : List Bool) (hlen : ColsLen t)
    (h1 : t'.probe_indexs = t.probe_indexs ++ P)
    (h2 : t'.build_block_offsets = t.build_block_offsets ++ A)
    (h3 : t'.build_block_rows = t.build_block_rows ++ B)
    (h4 : t'.visited_map = t.visited_map ++ V)
    (h5 : t'.same_to_prev = t.same_to_prev ++ S)
    (hP : P.length = k) (hA : A.length = k) (hB : B.length = k) (hV : V.length = k)
    (hS : S.length = k) (hco : t'.current_offset = t.current_offset + k) :
    scratch_rows t' = scratch_rows t ++ (List.range k).map (fun j =>
      (⟨P.getD j 0, ⟨A.getD j 0, B.getD j 0⟩, (V.getD j none).isSome, S.getD j false⟩ :
        ScratchRow)) ∧
    ColsLen t' := by
  obtain ⟨l1, l2, l3, l4, l5⟩ := hlen
  refine ⟨?_, ?_⟩
  · unfold scratch_rows
    rw [hco, List.range_add, List.map_append, h1, h2, h3, h4, h5]
    congr 1
    · apply List.map_congr_left
      intro i hi
      have hi2 : i < t.current_offset := List.mem_range.mp hi
      rw [getD_append_left _ _ _ _ (by omega), getD_append_left _ _ _ _ (by omega),
        getD_append_left _ _ _ _ (by omega), getD_append_left _ _ _ _ (by omega),
        getD_append_left _ _ _ _ (by omega)]
    · rw [List.map_map]
      apply List.map_congr_left
      intro j _
      simp only [Function.comp]
      have e1 := getD_append_right t.probe_indexs P 0 j
      have e2 := getD_append_right t.build_block_offsets A 0 j
      have e3 := getD_append_right t.build_block_rows B 0 j
      have e4 := getD_append_right t.visited_map V none j
      have e5 := getD_append_right t.same_to_prev S false j
      rw [l1] at e1
      rw [l2] at e2
      rw [l3] at e3
      rw [l4] at e4
      rw [l5] at e5
      rw [e1, e2, e3, e4, e5]
  · unfold ColsLen
    rw [h1, h2, h3, h4, h5, hco]
    simp only [List.length_append]
    omega

theorem group_rows_getElem? (i : Nat) (ts : List (RowRef × Bool)) (j : Nat) :
    (group_rows i ts)[j]? = ts[j]?.map (fun t => (⟨i, t.1, t.2, j != 0⟩ : ScratchRow)) := by
  cases ts with
  | nil => simp [group_rows]
  | cons t ts =>
    cases j with
    | zero => simp [group_rows]
    | succ j =>
      simp only [group_rows, List.getElem?_cons_succ, List.getElem?_map]
      cases ts[j]? <;> simp

/-- The records appended by the found arm form the group of the row-list tuples taken. -/
theorem found_rows_group (i e pos k : Nat) (rows : List RowRef) (hk : k ≤ rows.length) :
    (List.range k).map (fun j =>
      (⟨(List.replicate k i).getD j 0,
        ⟨((rows.take k).map RowRef.block_offset).getD j 0,
         ((rows.take k).map RowRef.row_num).getD j 0⟩,
        (((List.range' pos k).map fun p => some (e, p)).getD j none).isSome,
        ([false] ++ List.replicate (k - 1) true).getD j false⟩ : ScratchRow)) =
    group_rows i ((rows.map fun r => (r, true)).take k) := by
  apply List.ext_getElem?
  intro j
  rw [group_rows_getElem?, List.getElem?_map]
  by_cases hj : j < k
  · have hj2 : j < rows.length := by omega
    rw [List.getElem?_range hj, List.getElem?_take_of_lt hj, List.getElem?_map,
      List.getElem?_eq_getElem hj2]
    simp only [Option.map_some']
    congr 1
    have e1 : (List.replicate k i).getD j 0 = i := by
      rw [List.getD_eq_getElem?_getD, List.getElem?_replicate]; simp [hj]
    have e2 : ((rows.take k).map RowRef.block_offset).getD j 0 = rows[j].block_offset := by
      rw [List.getD_eq_getElem?_getD, List.getElem?_map, List.getElem?_take_of_lt hj,
        List.getElem?_eq_getElem hj2]
      rfl
    have e3 : ((rows.take k).map RowRef.row_num).getD j 0 = rows[j].row_num := by
      rw [List.getD_eq_getElem?_getD, List.getElem?_map, List.getElem?_take_of_lt hj,
        List.getElem?_eq_getElem hj2]
      rfl
    have e4 : (((List.range' pos k).map fun p => some (e, p)).getD j none).isSome = true := by
      rw [List.getD_eq_getElem?_getD, List.getElem?_map, List.getElem?_range' _ _ hj]
      rfl
    have e5 : ([false] ++ List.replicate (k - 1) true).getD j false = (j != 0) := by
      cases j with
      | zero => rfl
      | succ j =>
        rw [List.getD_eq_getElem?_getD]
        simp only [List.singleton_append, List.getElem?_cons_succ, List.getElem?_replicate]
        have : j < k - 1 := by omega
        simp [this]
    rw [e1, e2, e3, e4, e5]
  · rw [List.getElem?_eq_none (by simp; omega), List.getElem?_eq_none (by simp; omega)]
    rfl

/-- The record appended for a padding tuple. -/
theorem padded_group (i : Nat) :
    (List.range 1).map (fun j =>
      (⟨([i] : List Nat).getD j 0, ⟨([-1] : List Int).getD j 0, ([-1] : List Int).getD j 0⟩,
        (([none] : List (Option (Nat × Nat))).getD j none).isSome,
        ([false] : List Bool).getD j false⟩ : ScratchRow)) =
    group_rows i [(⟨-1, -1⟩, false)] := by
  rfl

theorem resize_extend {α : Type} (l : List α) (k : Nat) (v : α) :
    resize l (l.length + k) v = l ++ List.replicate k v := by
  unfold resize
  rw [List.take_of_length_le (by omega)]
  congr 2
  omega

theorem taken_le (cfg : Config) (co len : Nat) : taken cfg co len ≤ len := by
  unfold taken
  split_ifs
  · exact Nat.le_refl _
  · exact Nat.min_le_right _ _

/-- One loop iteration with other conjuncts appends to the scratch vectors the group of the
tuples it takes from the row's contribution; it suspends the iterator exactly when it could
not take them all. -/
theorem probe_step_other (cfg : Config) (probe : ProbeBatch) (t : ProbeState)
    (ho : cfg.with_other_conjuncts = true)
    (hkind : t.hash_table.kind ≠ RowRefKind.RowRefListWithFlag)
    (hne : rows_nonempty t.hash_table) (hlen : ColsLen t)
    (hok : t.probe_row_match_iter.ok = false) (hc : t.current_offset < cfg.batch_size) :
    let T := other_row_tuples cfg probe t.hash_table.entries t.probe_index
    let k := taken cfg t.current_offset T.length
    let t' := probe_step cfg probe t
    scratch_rows t' = scratch_rows t ++ group_rows t.probe_index (T.take k) ∧
    ColsLen t' ∧
    t'.current_offset = t.current_offset + k ∧
    t'.hash_table = t.hash_table ∧
    t'.probe_index = t.probe_index + (if k < T.length then 0 else 1) ∧
    t'.probe_row_match_iter.ok = decide (k < T.length) ∧
    (k < T.length → 0 < k ∧ cfg.is_mark_join = false ∧
      ∃ e, find_result cfg probe t.hash_table.entries t.probe_index = some e ∧
        t'.probe_row_match_iter = ⟨e, k, (entry_rows t.hash_table.entries e).drop k⟩ ∧
        t'.multi_matched_output_row_count = k) ∧
    (¬ k < T.length →
      t'.multi_matched_output_row_count = t.multi_matched_output_row_count) ∧
    t'.mark_column = t.mark_column := by
  intro T k t'
  have hT : T = other_row_tuples cfg probe t.hash_table.entries t.probe_index := rfl
  have hk : k = taken cfg t.current_offset T.length := rfl
  have ht' : t' = probe_step cfg probe t := rfl
  clear_value T k t'
  obtain ⟨l1, l2, l3, l4, l5⟩ := hlen
  unfold probe_step at ht'
  unfold other_row_tuples at hT
  by_cases hn : is_ignored_null cfg probe t.probe_index = true
  · rw [if_pos hn] at ht' hT
    by_cases hpa : probe_all cfg.JoinOpType = true
    · rw [if_pos hpa] at hT
      have hk1 : k = 1 := by
        rw [hk, hT]
        unfold taken
        split_ifs
        · rfl
        · simp only [List.length_singleton]; omega
      have hfields : t'.probe_indexs = t.probe_indexs ++ [t.probe_index] ∧
          t'.build_block_offsets = t.build_block_offsets ++ [-1] ∧
          t'.build_block_rows = t.build_block_rows ++ [-1] ∧
          t'.visited_map = t.visited_map ++ [none] ∧
          t'.same_to_prev = t.same_to_prev ++ [false] ∧
          t'.current_offset = t.current_offset + 1 ∧
          t'.hash_table = t.hash_table ∧ t'.probe_index = t.probe_index + 1 ∧
          t'.probe_row_match_iter = t.probe_row_match_iter ∧
          t'.multi_matched_output_row_count = t.multi_matched_output_row_count ∧
          t'.mark_column = t.mark_column := by
        rw [ht']
        simp [null_key_branch, hpa, ho, emplace_element]
      obtain ⟨f1, f2, f3, f4, f5, f6, f7, f8, f9, f10, f11⟩ := hfields
      obtain ⟨e1, e2⟩ := scratch_rows_extend t t' 1 _ _ _ _ _ ⟨l1, l2, l3, l4, l5⟩ f1 f2 f3 f4 f5
        rfl rfl rfl rfl rfl f6
      rw [padded_group] at e1
      have hTk : T.take k = [(⟨-1, -1⟩, false)] := by rw [hT, hk1]; rfl
      have hlt : ¬ k < T.length := by rw [hT, hk1]; simp
      refine ⟨by rw [hTk]; exact e1, e2, by rw [hk1]; exact f6, f7, ?_, ?_, ?_, ?_, f11⟩
      · rw [if_neg hlt]; exact f8
      · rw [f9, hok]; exact (decide_eq_false hlt).symm
      · intro h; exact absurd h hlt
      · intro _; exact f10
    · rw [if_neg hpa] at hT
      have hpa' : probe_all cfg.JoinOpType = false := by
        cases h : probe_all cfg.JoinOpType
        · rfl
        · exact absurd h hpa
      have hk0 : k = 0 := by
        have := taken_le cfg t.current_offset T.length
        rw [← hk, hT] at this
        simpa using this
      have hfields : t'.probe_indexs = t.probe_indexs ++ [] ∧
          t'.build_block_offsets = t.build_block_offsets ++ [] ∧
          t'.build_block_rows = t.build_block_rows ++ [] ∧
          t'.visited_map = t.visited_map ++ [] ∧
          t'.same_to_prev = t.same_to_prev ++ [] ∧
          t'.current_offset = t.current_offset + 0 ∧
          t'.hash_table = t.hash_table ∧ t'.probe_index = t.probe_index + 1 ∧
          t'.probe_row_match_iter = t.probe_row_match_iter ∧
          t'.multi_matched_output_row_count = t.multi_matched_output_row_count ∧
          t'.mark_column = t.mark_column := by
        rw [ht']
        simp [null_key_branch, hpa']
      obtain ⟨f1, f2, f3, f4, f5, f6, f7, f8, f9, f10, f11⟩ := hfields
      obtain ⟨e1, e2⟩ := scratch_rows_extend t t' 0 _ _ _ _ _ ⟨l1, l2, l3, l4, l5⟩ f1 f2 f3 f4 f5
        rfl rfl rfl rfl rfl f6
      have hlt : ¬ k < T.length := by rw [hT, hk0]; simp
      refine ⟨?_, e2, by rw [hk0]; exact f6, f7, ?_, ?_, ?_, ?_, f11⟩
      · rw [hT]; simpa [group_rows] using e1
      · rw [if_neg hlt]; exact f8
      · rw [f9, hok]; exact (decide_eq_false hlt).symm
      · intro h; exact absurd h hlt
      · intro _; exact f10
  · rw [if_neg hn] at ht' hT
    cases hfr : find_result cfg probe t.hash_table.entries t.probe_index with
    | none =>
      rw [hfr] at ht' hT
      have hd : dispatch cfg none t = not_found_branch cfg t := by
        simp [dispatch, ho]
      rw [hd] at ht'
      simp only at hT
      by_cases hpad : pads_not_found cfg = true
      · rw [if_pos hpad] at hT
        have hk1 : k = 1 := by
          rw [hk, hT]
          unfold taken
          split_ifs
          · rfl
          · simp only [List.length_singleton]; omega
        have hfields : t'.probe_indexs = t.probe_indexs ++ [t.probe_index] ∧
            t'.build_block_offsets = t.build_block_offsets ++ [-1] ∧
            t'.build_block_rows = t.build_block_rows ++ [-1] ∧
            t'.visited_map = t.visited_map ++ [none] ∧
            t'.same_to_prev = t.same_to_prev ++ [false] ∧
            t'.current_offset = t.current_offset + 1 ∧
            t'.hash_table = t.hash_table ∧ t'.probe_index = t.probe_index + 1 ∧
            t'.probe_row_match_iter = t.probe_row_match_iter ∧
            t'.multi_matched_output_row_count = t.multi_matched_output_row_count ∧
            t'.mark_column = t.mark_column := by
          rw [ht']
          unfold pads_not_found at hpad
          have hr := resize_extend t.probe_indexs 1 t.probe_index
          rw [l1] at hr
          simp [not_found_branch, hpad, ho, emplace_element, finish_step, hr]
        obtain ⟨f1, f2, f3, f4, f5, f6, f7, f8, f9, f10, f11⟩ := hfields
        obtain ⟨e1, e2⟩ := scratch_rows_extend t t' 1 _ _ _ _ _ ⟨l1, l2, l3, l4, l5⟩
          f1 f2 f3 f4 f5 rfl rfl rfl rfl rfl f6
        rw [padded_group] at e1
        have hTk : T.take k = [(⟨-1, -1⟩, false)] := by rw [hT, hk1]; rfl
        have hlt : ¬ k < T.length := by rw [hT, hk1]; simp
        refine ⟨by rw [hTk]; exact e1, e2, by rw [hk1]; exact f6, f7, ?_, ?_, ?_, ?_, f11⟩
        · rw [if_neg hlt]; exact f8
        · rw [f9, hok]; exact (decide_eq_false hlt).symm
        · intro h; exact absurd h hlt
        · intro _; exact f10
      · rw [if_neg hpad] at hT
        have hpad' : pads_not_found cfg = false := by
          cases h : pads_not_found cfg
          · rfl
          · exact absurd h hpad
        have hk0 : k = 0 := by
          have := taken_le cfg t.current_offset T.length
          rw [← hk, hT] at this
          simpa using this
        have hfields : t'.probe_indexs = t.probe_indexs ++ [] ∧
            t'.build_block_offsets = t.build_block_offsets ++ [] ∧
            t'.build_block_rows = t.build_block_rows ++ [] ∧
            t'.visited_map = t.visited_map ++ [] ∧
            t'.same_to_prev = t.same_to_prev ++ [] ∧
            t'.current_offset = t.current_offset + 0 ∧
            t'.hash_table = t.hash_table ∧ t'.probe_index = t.probe_index + 1 ∧
            t'.probe_row_match_iter = t.probe_row_match_iter ∧
            t'.multi_matched_output_row_count = t.multi_matched_output_row_count ∧
            t'.mark_column = t.mark_column := by
          rw [ht']
          unfold pads_not_found at hpad'
          have hr := resize_extend t.probe_indexs 0 t.probe_index
          rw [l1] at hr
          simp only [Nat.add_zero, List.replicate_zero, List.append_nil] at hr
          simp [not_found_branch, hpad', finish_step, hr]
        obtain ⟨f1, f2, f3, f4, f5, f6, f7, f8, f9, f10, f11⟩ := hfields
        obtain ⟨e1, e2⟩ := scratch_rows_extend t t' 0 _ _ _ _ _ ⟨l1, l2, l3, l4, l5⟩
          f1 f2 f3 f4 f5 rfl rfl rfl rfl rfl f6
        have hlt : ¬ k < T.length := by rw [hT, hk0]; simp
        refine ⟨?_, e2, by rw [hk0]; exact f6, f7, ?_, ?_, ?_, ?_, f11⟩
        · rw [hT]; simpa [group_rows] using e1
        · rw [if_neg hlt]; exact f8
        · rw [f9, hok]; exact (decide_eq_false hlt).symm
        · intro h; exact absurd h hlt
        · intro _; exact f10
    | some e =>
      rw [hfr] at ht' hT
      have hd : dispatch cfg (some e) t =
          found_branch cfg e ((t.hash_table.entries.getD e (0, ⟨[], false⟩)).2) t := by
        simp [dispatch, ho]
      rw [hd] at ht'
      simp only at hT
      have hf := found_branch_fields cfg e ((t.hash_table.entries.getD e (0, ⟨[], false⟩)).2) t
      have hrows : ((t.hash_table.entries.getD e (0, ⟨[], false⟩)).2.rows.map Prod.fst) =
          entry_rows t.hash_table.entries e := rfl
      simp only [hrows, ho, Bool.and_true, Bool.true_or] at hf
      have hpos : 0 < (entry_rows t.hash_table.entries e).length :=
        rows_length_pos t.hash_table e hne (find_result_lt _ _ _ _ _ hfr)
      have hTl : T.length = (entry_rows t.hash_table.entries e).length := by
        rw [hT, List.length_map]
      have hkk : (if cfg.is_mark_join = true then (entry_rows t.hash_table.entries e).length
          else if (!cfg.is_mark_join) = true then
            min (cfg.batch_size - t.current_offset) (entry_rows t.hash_table.entries e).length
          else 0) = k := by
        rw [hk, hTl]
        unfold taken
        cases cfg.is_mark_join <;> simp
      rw [hkk] at hf
      obtain ⟨f1, f2, f3, f4, f5, f6, f7, f8, -, -, -, -, -, f14, -, f16, f17⟩ := hf
      simp only [if_true] at f4 f5
      have hkpos : 0 < k := by
        rw [hk, hTl]
        unfold taken
        split_ifs
        · exact hpos
        · omega
      have hkle : k ≤ (entry_rows t.hash_table.entries e).length := by
        rw [← hTl, hk]; exact taken_le _ _ _
      have hkindb : (t.hash_table.kind == RowRefKind.RowRefListWithFlag) = false :=
        beq_eq_false_iff_ne.mpr hkind
      rw [hkindb] at f17
      simp only [Bool.false_eq_true, if_false] at f17
      have hr := resize_extend t.probe_indexs k t.probe_index
      rw [l1] at hr
      have g1 : t'.probe_indexs = t.probe_indexs ++ List.replicate k t.probe_index := by
        rw [ht']
        simp only [finish_step]
        rw [f14, f3, hr]
      have g2 : t'.build_block_offsets = t.build_block_offsets ++
          ((entry_rows t.hash_table.entries e).take k).map RowRef.block_offset := by
        rw [ht']; exact f1
      have g3 : t'.build_block_rows = t.build_block_rows ++
          ((entry_rows t.hash_table.entries e).take k).map RowRef.row_num := by
        rw [ht']; exact f2
      have g4 : t'.visited_map = t.visited_map ++
          (List.range' 0 k).map (fun p => some (e, p)) := by
        rw [ht']; exact f4
      have g5 : t'.same_to_prev = t.same_to_prev ++ ([false] ++ List.replicate (k - 1) true) := by
        rw [ht']
        simp only [finish_step]
        rw [f5, List.append_assoc]
      have g6 : t'.current_offset = t.current_offset + k := by
        rw [ht']; exact f3
      obtain ⟨e1, e2⟩ := scratch_rows_extend t t' k _ _ _ _ _ ⟨l1, l2, l3, l4, l5⟩
        g1 g2 g3 g4 g5 (by simp) (by simp; omega) (by simp; omega) (by simp)
        (by simp; omega) g6
      rw [found_rows_group t.probe_index e 0 k _ hkle] at e1
      refine ⟨by rw [hT]; exact e1, e2, g6, by rw [ht']; exact f17, ?_, ?_, ?_, ?_,
        by rw [ht']; exact f16⟩
      · rw [ht']
        simp only [finish_step]
        rw [f7, hTl]
        cases hm : cfg.is_mark_join
        · simp
        · have : k = (entry_rows t.hash_table.entries e).length := by
            rw [hk, hTl]; unfold taken; simp [hm]
          simp [this]
      · rw [ht']
        simp only [finish_step]
        rw [f6, hTl]
        cases hm : cfg.is_mark_join
        · simp only [Bool.not_false, if_true]
          exact ok_drop _ _ _ _
        · have : k = (entry_rows t.hash_table.entries e).length := by
            rw [hk, hTl]; unfold taken; simp [hm]
          simp [hok, this]
      · intro hlt
        rw [hTl] at hlt
        have hm : cfg.is_mark_join = false := by
          cases hm : cfg.is_mark_join
          · rfl
          · have : k = (entry_rows t.hash_table.entries e).length := by
              rw [hk, hTl]; unfold taken; simp [hm]
            omega
        refine ⟨hkpos, hm, e, rfl, ?_, ?_⟩
        · rw [ht']
          simp only [finish_step]
          rw [f6]
          simp [hm]
        · rw [ht']
          simp only [finish_step]
          rw [f8]
          simp [hm, hlt]
      · intro hlt
        rw [hTl] at hlt
        rw [ht']
        simp only [finish_step]
        rw [f8]
        simp [hlt]

theorem ignored_null_find_result (cfg : Config) (probe : ProbeBatch)
    (entries : List (Int × Mapped)) (i : Nat) (h : is_ignored_null cfg probe i = true) :
    find_result cfg probe entries i = none := by
  unfold is_ignored_null at h
  unfold find_result
  simp only [Bool.and_eq_true] at h
  rw [h.1.2, h.2]
  rfl

theorem other_row_tuples_found (cfg : Config) (probe : ProbeBatch)
    (entries : List (Int × Mapped)) (i e : Nat) (h : find_result cfg probe entries i = some e) :
    other_row_tuples cfg probe entries i = (entry_rows entries e).map fun r => (r, true) := by
  unfold other_row_tuples
  have hn : is_ignored_null cfg probe i = false := by
    cases hc : is_ignored_null cfg probe i
    · rfl
    · rw [ignored_null_find_result cfg probe entries i hc] at h
      exact Option.noConfusion h
  rw [hn, h]
  rfl

theorem rows_records_succ (cfg : Config) (probe : ProbeBatch) (entries : List (Int × Mapped))
    (lo hi : Nat) (h : lo ≤ hi) :
    rows_records cfg probe entries lo (hi + 1) =
      rows_records cfg probe entries lo hi ++
        group_rows hi (other_row_tuples cfg probe entries hi) := by
  unfold rows_records
  have e1 : hi + 1 - lo = (hi - lo) + 1 := by omega
  rw [e1, List.range'_concat, List.flatMap_append]
  have e2 : lo + 1 * (hi - lo) = hi := by omega
  rw [e2]
  simp

theorem rows_records_self (cfg : Config) (probe : ProbeBatch) (entries : List (Int × Mapped))
    (lo : Nat) : rows_records cfg probe entries lo lo = [] := by
  simp [rows_records]

theorem shape_inv_step (cfg : Config) (probe : ProbeBatch) (t0 t : ProbeState)
    (ho : cfg.with_other_conjuncts = true)
    (hkind : t0.hash_table.kind ≠ RowRefKind.RowRefListWithFlag)
    (hne : rows_nonempty t0.hash_table)
    (hI : ShapeInv cfg probe t0 t) (hc : t.current_offset < cfg.batch_size) :
    ShapeInv cfg probe t0 (probe_step cfg probe t) := by
  obtain ⟨i1, i2, i3, i4, i5, i6⟩ := hI
  have hok : t.probe_row_match_iter.ok = false := by
    cases h : t.probe_row_match_iter.ok
    · rfl
    · have := (i6 h).2.1
      omega
  obtain ⟨i5a, i5b⟩ := i5 hok
  obtain ⟨s1, s2, s3, s4, s5, s6, s7, s8, s9⟩ := probe_step_other cfg probe t ho
    (by rw [i2]; exact hkind) (by rw [i2]; exact hne) i1 hok hc
  rw [i2] at s1 s3 s4 s5 s6 s7 s8
  generalize hK : taken cfg t.current_offset
    (other_row_tuples cfg probe t0.hash_table.entries t.probe_index).length = K
    at s1 s3 s5 s6 s7 s8
  have hkle : K ≤ (other_row_tuples cfg probe t0.hash_table.entries t.probe_index).length := by
    rw [← hK]; exact taken_le _ _ _
  refine ⟨s2, s4, by rw [s5]; omega, by rw [s9, i4], ?_, ?_⟩
  · intro hok'
    rw [s6] at hok'
    have hlt : ¬ K <
        (other_row_tuples cfg probe t0.hash_table.entries t.probe_index).length := by
      intro h
      rw [decide_eq_true h] at hok'
      exact Bool.noConfusion hok'
    rw [if_neg hlt] at s5
    rw [s5, rows_records_succ _ _ _ _ _ i3, s1, i5a, List.append_assoc,
      List.take_of_length_le (by omega)]
    exact ⟨rfl, by rw [s8 hlt, i5b]⟩
  · intro hok'
    rw [s6] at hok'
    have hlt := of_decide_eq_true hok'
    obtain ⟨hkpos, hm, e, hfe, hit, hmu⟩ := s7 hlt
    have hT := other_row_tuples_found cfg probe _ _ _ hfe
    rw [if_pos hlt] at s5
    rw [hT] at hlt s1 hK
    rw [List.length_map] at hlt hK
    have hoff : cfg.batch_size ≤ (probe_step cfg probe t).current_offset := by
      rw [s3, ← hK]
      rw [← hK] at hlt
      unfold taken at hlt ⊢
      rw [hm] at hlt ⊢
      simp only [Bool.false_eq_true, if_false] at hlt ⊢
      omega
    refine ⟨hm, hoff, e, by rw [s5]; exact hfe, by rw [hmu]; exact hkpos, ?_, ?_, ?_⟩
    · rw [hmu]
      exact hlt
    · rw [hit, hmu]
    · rw [s1, i5a, s5, hmu, Nat.add_zero]

theorem shape_inv_refl (cfg : Config) (probe : ProbeBatch) (t0 : ProbeState)
    (hlen : ColsLen t0) (hok : t0.probe_row_match_iter.ok = false) :
    ShapeInv cfg probe t0 t0 := by
  refine ⟨hlen, rfl, Nat.le_refl _, rfl, ?_, ?_⟩
  · intro _
    rw [rows_records_self, List.append_nil]
    exact ⟨rfl, rfl⟩
  · intro h
    rw [hok] at h
    exact Bool.noConfusion h

theorem shape_inv_loop (cfg : Config) (probe : ProbeBatch) (probe_rows : Nat)
    (t0 : ProbeState) (ho : cfg.with_other_conjuncts = true)
    (hkind : t0.hash_table.kind ≠ RowRefKind.RowRefListWithFlag)
    (hne : rows_nonempty t0.hash_table) (hlen : ColsLen t0)
    (hok : t0.probe_row_match_iter.ok = false) (fuel : Nat) :
    ShapeInv cfg probe t0 (probe_loop cfg probe probe_rows fuel t0) :=
  probe_loop_induct cfg probe probe_rows (ShapeInv cfg probe t0)
    (fun t ht hc _ => shape_inv_step cfg probe t0 t ho hkind hne ht hc) fuel t0
    (shape_inv_refl cfg probe t0 hlen hok)

theorem init_probe_side_cols (cfg : Config) (s : ProbeState)
    (ho : cfg.with_other_conjuncts = true) :
    ColsLen (init_probe_side cfg s) ∧ scratch_rows (init_probe_side cfg s) = [] := by
  refine ⟨?_, ?_⟩
  · simp [ColsLen, init_probe_side, ho]
  · simp [scratch_rows, init_probe_side]

/-- The scratch records after the resumption of a suspended iterator: the group of the
tuples taken from the rest of the row list. -/
theorem resume_probe_shape (cfg : Config) (s : ProbeState)
    (ho : cfg.with_other_conjuncts = true) (hb : 1 ≤ cfg.batch_size)
    (hok : s.probe_row_match_iter.ok = true) :
    let k := min cfg.batch_size s.probe_row_match_iter.rest.length
    scratch_rows (resume_probe cfg s) =
      group_rows s.probe_index ((s.probe_row_match_iter.rest.map fun r => (r, true)).take k) ∧
    ColsLen (resume_probe cfg s) := by
  intro k
  have hk : k = min cfg.batch_size s.probe_row_match_iter.rest.length := rfl
  obtain ⟨h1, h2, -, -, -, h6, h7, -, -, -, -⟩ := resume_probe_ok cfg s hok
  obtain ⟨g1, g2, -⟩ := resume_probe_ok_other cfg s hok ho
  rw [← hk] at h1 h2 h6 h7 g1 g2
  clear_value k
  obtain ⟨c1, c2⟩ := init_probe_side_cols cfg s ho
  have e0 : (init_probe_side cfg s).probe_indexs = [] := rfl
  have e1 : (init_probe_side cfg s).build_block_offsets = [] := rfl
  have e2 : (init_probe_side cfg s).build_block_rows = [] := rfl
  have e3 : (init_probe_side cfg s).visited_map = [] := by simp [init_probe_side, ho]
  have e4 : (init_probe_side cfg s).same_to_prev = [] := by simp [init_probe_side, ho]
  have e5 : (init_probe_side cfg s).current_offset = 0 := rfl
  have hl : 0 < s.probe_row_match_iter.rest.length :=
    List.length_pos.mpr ((ok_eq_true_iff _).mp hok)
  have hkpos : 0 < k := by rw [hk]; omega
  have hkle : k ≤ s.probe_row_match_iter.rest.length := by rw [hk]; exact Nat.min_le_right _ _
  obtain ⟨r1, r2⟩ := scratch_rows_extend (init_probe_side cfg s) (resume_probe cfg s) k
    (List.replicate k s.probe_index)
    ((s.probe_row_match_iter.rest.take k).map RowRef.block_offset)
    ((s.probe_row_match_iter.rest.take k).map RowRef.row_num)
    ((List.range' s.probe_row_match_iter.pos k).map fun p =>
      some (s.probe_row_match_iter.entry, p))
    ([false] ++ List.replicate (k - 1) true)
    c1 (by rw [e0, h2]; rfl) (by rw [e1, h6]; rfl) (by rw [e2, h7]; rfl)
    (by rw [e3, g1]; rfl) (by rw [e4, g2]; rfl) (by simp)
    (by rw [List.length_map, List.length_take]; omega)
    (by rw [List.length_map, List.length_take]; omega)
    (by simp) (by simp; omega) (by rw [e5, h1]; simp)
  rw [c2, List.nil_append, found_rows_group s.probe_index s.probe_row_match_iter.entry
    s.probe_row_match_iter.pos k s.probe_row_match_iter.rest hkle] at r1
  exact ⟨r1, r2⟩

/-- What every call with other conjuncts leaves in place or resets before the applier
runs, and the sub-block bookkeeping of the resumption. -/
theorem do_probe_shape_common (cfg : Config) (probe : ProbeBatch) (probe_rows : Nat)
    (s : ProbeState) (ho : cfg.with_other_conjuncts = true)
    (hkind : s.hash_table.kind ≠ RowRefKind.RowRefListWithFlag) :
    let d := do_probe cfg probe probe_rows s
    d.hash_table = s.hash_table ∧
    d.is_any_probe_match_row_output = s.is_any_probe_match_row_output ∧
    d.current_offset = (scratch_rows d).length ∧
    (s.probe_row_match_iter.ok = false → d.row_count_from_last_probe = 0) ∧
    (s.probe_row_match_iter.ok = true →
      d.row_count_from_last_probe = min cfg.batch_size s.probe_row_match_iter.rest.length ∧
      d.is_the_last_sub_block =
        decide (s.probe_row_match_iter.rest.length ≤ cfg.batch_size)) := by
  intro d
  obtain ⟨-, f2, -, f4⟩ := do_probe_frame cfg probe probe_rows s
  obtain ⟨-, -, -, -, e5, e6, -⟩ :=
    probe_loop_ext cfg probe probe_rows (probe_rows - (resume_probe cfg s).probe_index)
      (resume_probe cfg s)
  have hrc : d.row_count_from_last_probe = (resume_probe cfg s).row_count_from_last_probe := e5
  have hls : d.is_the_last_sub_block = (resume_probe cfg s).is_the_last_sub_block := e6
  refine ⟨f4 hkind, f2, (scratch_rows_length d).symm, ?_, ?_⟩
  · intro hok
    rw [hrc, resume_probe_not_ok cfg s hok]
    rfl
  · intro hok
    obtain ⟨-, -, -, -, -, -, -, h8, -⟩ := resume_probe_ok cfg s hok
    obtain ⟨-, -, g3, -⟩ := resume_probe_ok_other cfg s hok ho
    refine ⟨by rw [hrc, h8], ?_⟩
    rw [hls, g3]
    by_cases h : s.probe_row_match_iter.rest.length ≤ cfg.batch_size
    · rw [Nat.min_eq_right h]
      simp [h]
    · rw [Nat.min_eq_left (by omega)]
      simp [h]
      omega

/-- A call whose resumed row list does not fit in the batch: the block is the next
`batch_size` tuples of that list, and the iterator stays suspended on the row. -/
theorem do_probe_shape_split (cfg : Config) (probe : ProbeBatch) (probe_rows : Nat)
    (s : ProbeState) (ho : cfg.with_other_conjuncts = true) (hb : 1 ≤ cfg.batch_size)
    (hok : s.probe_row_match_iter.ok = true)
    (hlt : cfg.batch_size < s.probe_row_match_iter.rest.length) :
    let d := do_probe cfg probe probe_rows s
    scratch_rows d = group_rows s.probe_index
      ((s.probe_row_match_iter.rest.map fun r => (r, true)).take cfg.batch_size) ∧
    d.probe_index = s.probe_index ∧
    d.probe_row_match_iter = ⟨s.probe_row_match_iter.entry,
      s.probe_row_match_iter.pos + cfg.batch_size,
      s.probe_row_match_iter.rest.drop cfg.batch_size⟩ ∧
    d.multi_matched_output_row_count = 0 ∧ d.mark_column = [] := by
  intro d
  obtain ⟨h1, -, h3, h4, -, -, -, -, -, h10, h11⟩ := resume_probe_ok cfg s hok
  obtain ⟨r1, -⟩ := resume_probe_shape cfg s ho hb hok
  have hk : min cfg.batch_size s.probe_row_match_iter.rest.length = cfg.batch_size :=
    Nat.min_eq_left (by omega)
  simp only [hk] at h1 h3 h4 r1
  have hstop : probe_loop cfg probe probe_rows (probe_rows - (resume_probe cfg s).probe_index)
      (resume_probe cfg s) = resume_probe cfg s :=
    probe_loop_stop _ _ _ _ _ (by rw [h1]; omega)
  have hd : d = { resume_probe cfg s with
      probe_size := (resume_probe cfg s).probe_index - s.probe_index +
        (resume_probe cfg s).probe_row_match_iter.ok.toNat } := by
    show do_probe cfg probe probe_rows s = _
    unfold do_probe
    simp only [hstop]
  rw [hd]
  refine ⟨r1, ?_, h3, h11, h10⟩
  show (resume_probe cfg s).probe_index = s.probe_index
  rw [h4, if_pos hlt]
  rfl

/-- A call that finishes the resumed row list (if any) and runs the probe loop: after the
resumed tuples the block holds the whole contributions of the rows examined and, when the
last row list did not fit, the first tuples of that list. -/
theorem do_probe_shape_run (cfg : Config) (probe : ProbeBatch) (probe_rows : Nat)
    (s : ProbeState) (ho : cfg.with_other_conjuncts = true) (hb : 1 ≤ cfg.batch_size)
    (hkind : s.hash_table.kind ≠ RowRefKind.RowRefListWithFlag)
    (hne : rows_nonempty s.hash_table)
    (hfit : s.probe_row_match_iter.rest.length ≤ cfg.batch_size) :
    let d := do_probe cfg probe probe_rows s
    let pre := group_rows s.probe_index (s.probe_row_match_iter.rest.map fun r => (r, true))
    let p := s.probe_index + s.probe_row_match_iter.ok.toNat
    p ≤ d.probe_index ∧ d.mark_column = [] ∧
    ¬(d.current_offset < cfg.batch_size ∧ d.probe_index < probe_rows) ∧
    (d.probe_row_match_iter.ok = false →
      scratch_rows d = pre ++ rows_records cfg probe s.hash_table.entries p d.probe_index ∧
      d.multi_matched_output_row_count = 0) ∧
    (d.probe_row_match_iter.ok = true →
      cfg.is_mark_join = false ∧
      ∃ e, find_result cfg probe s.hash_table.entries d.probe_index = some e ∧
        0 < d.multi_matched_output_row_count ∧
        d.multi_matched_output_row_count < (entry_rows s.hash_table.entries e).length ∧
        d.probe_row_match_iter = ⟨e, d.multi_matched_output_row_count,
          (entry_rows s.hash_table.entries e).drop d.multi_matched_output_row_count⟩ ∧
        scratch_rows d = pre ++ rows_records cfg probe s.hash_table.entries p d.probe_index ++
          group_rows d.probe_index
            (((entry_rows s.hash_table.entries e).map fun r => (r, true)).take
              d.multi_matched_output_row_count)) := by
  intro d pre p
  have hexit := (do_probe_inv cfg probe probe_rows s).2.1
  have ht0 : ColsLen (resume_probe cfg s) ∧
      (resume_probe cfg s).probe_row_match_iter.ok = false ∧
      (resume_probe cfg s).probe_index = p ∧
      (resume_probe cfg s).hash_table = s.hash_table ∧
      (resume_probe cfg s).mark_column = [] ∧
      (resume_probe cfg s).multi_matched_output_row_count = 0 ∧
      scratch_rows (resume_probe cfg s) = pre := by
    cases hok : s.probe_row_match_iter.ok
    · rw [resume_probe_not_ok cfg s hok]
      obtain ⟨c1, c2⟩ := init_probe_side_cols cfg s ho
      have hrest : s.probe_row_match_iter.rest = [] := (ok_eq_false_iff _).mp hok
      refine ⟨c1, hok, ?_, rfl, rfl, rfl, ?_⟩
      · show s.probe_index = s.probe_index + s.probe_row_match_iter.ok.toNat
        rw [hok]; rfl
      · rw [c2]
        show [] = group_rows s.probe_index (s.probe_row_match_iter.rest.map fun r => (r, true))
        rw [hrest]
        rfl
    · obtain ⟨-, -, h3, h4, -, -, -, -, h9, h10, h11⟩ := resume_probe_ok cfg s hok
      obtain ⟨r1, r2⟩ := resume_probe_shape cfg s ho hb hok
      have hk : min cfg.batch_size s.probe_row_match_iter.rest.length =
          s.probe_row_match_iter.rest.length := Nat.min_eq_right hfit
      simp only [hk, Nat.lt_irrefl, if_false] at h3 h4 r1
      refine ⟨r2, ?_, ?_, h9, h10, h11, ?_⟩
      · rw [h3]; simp [ForwardIterator.ok]
      · rw [h4]
        show s.probe_index + 1 = s.probe_index + s.probe_row_match_iter.ok.toNat
        rw [hok]; rfl
      · rw [r1, List.take_of_length_le (by simp)]
  obtain ⟨t1, t2, t3, t4, t5, t6, t7⟩ := ht0
  have hI := shape_inv_loop cfg probe probe_rows (resume_probe cfg s) ho
    (by rw [t4]; exact hkind) (by rw [t4]; exact hne) t1 t2
    (probe_rows - (resume_probe cfg s).probe_index)
  have hd : d = { probe_loop cfg probe probe_rows
      (probe_rows - (resume_probe cfg s).probe_index) (resume_probe cfg s) with
      probe_size := (probe_loop cfg probe probe_rows
        (probe_rows - (resume_probe cfg s).probe_index) (resume_probe cfg s)).probe_index -
          s.probe_index +
        (probe_loop cfg probe probe_rows
          (probe_rows - (resume_probe cfg s).probe_index)
          (resume_probe cfg s)).probe_row_match_iter.ok.toNat } := rfl
  generalize probe_loop cfg probe probe_rows
    (probe_rows - (resume_probe cfg s).probe_index) (resume_probe cfg s) = L at hI hd
  obtain ⟨-, -, i3, i4, i5, i6⟩ := hI
  rw [t3] at i3
  rw [t4, t3, t7] at i5 i6
  rw [t6] at i5
  rw [t5] at i4
  have hsr : scratch_rows d = scratch_rows L := by rw [hd]; rfl
  have h1 : d.probe_index = L.probe_index := by rw [hd]
  have h2 : d.probe_row_match_iter = L.probe_row_match_iter := by rw [hd]
  have h3 : d.multi_matched_output_row_count = L.multi_matched_output_row_count := by rw [hd]
  have h4 : d.mark_column = L.mark_column := by rw [hd]
  rw [hsr, h1, h2, h3, h4]
  rw [h1] at hexit
  exact ⟨i3, i4, hexit, i5, fun h => ⟨(i6 h).1, (i6 h).2.2⟩⟩

/-! ## The carry loops of the LEFT_SEMI / LEFT_ANTI rewrites in closed form -/

theorem getD_append_singleton (F : List Bool) (c : Bool) (X : List Bool) :
    (F ++ c :: X).getD F.length false = c := by
  rw [List.getD_eq_getElem?_getD, List.getElem?_append_right (Nat.le_refl _)]
  simp

theorem set_append_singleton (F : List Bool) (c v : Bool) (X : List Bool) :
    (F ++ c :: X).set F.length v = F ++ v :: X := by
  rw [List.set_append_right _ _ (Nat.le_refl _)]
  simp

/-- The LEFT_SEMI carry loop, started behind the cells `F` with the pending cell `c`. -/
theorem semi_fold_carry (stp fc : List Bool) :
    ∀ (m s : Nat) (F : List Bool) (c : Bool), F.length + 1 = s →
    (List.range' s m).foldl (fun fm i =>
      if fc.getD i false || (stp.getD i false && fm.getD (i - 1) false) then
        let fm := fm ++ [true]
        fm.set (i - 1) (!stp.getD i false && fm.getD (i - 1) false)
      else fm ++ [false]) (F ++ [c]) =
    F ++ carry_fm c ((List.range' s m).map fun i => (stp.getD i false, fc.getD i false)) := by
  intro m
  induction m with
  | zero => intro s F c _; rfl
  | succ m ih =>
    intro s F c hs
    rw [List.range'_succ, List.foldl_cons, List.map_cons, carry_fm]
    have hs1 : s - 1 = F.length := by omega
    have hstep : (if fc.getD s false || (stp.getD s false && (F ++ [c]).getD (s - 1) false) then
        let fm := (F ++ [c]) ++ [true]
        fm.set (s - 1) (!stp.getD s false && fm.getD (s - 1) false)
      else (F ++ [c]) ++ [false]) =
        (F ++ [!stp.getD s false && c]) ++ [fc.getD s false || (stp.getD s false && c)] := by
      rw [hs1, getD_append_singleton]
      simp only [List.append_assoc, List.singleton_append, getD_append_singleton,
        set_append_singleton]
      cases fc.getD s false <;> cases stp.getD s false <;> cases c <;> rfl
    rw [hstep, ih (s + 1) _ _ (by simp; omega), List.append_assoc]
    rfl

/-- The LEFT_ANTI carry loop, on a column of fixed length: the cells behind `F` and the
pending cell `c` are still to be written. -/
theorem anti_fold_carry (stp : List Bool) (hit : Nat → Bool) :
    ∀ (m s : Nat) (F : List Bool) (c : Bool) (Z : List Bool), F.length + 1 = s →
    Z.length = m →
    (List.range' s m).foldl (fun fm i =>
      if hit i || (stp.getD i false && fm.getD (i - 1) false) then
        let fm := fm.set i true
        fm.set (i - 1) (!stp.getD i false && fm.getD (i - 1) false)
      else fm.set i false) (F ++ c :: Z) =
    F ++ carry_fm c ((List.range' s m).map fun i => (stp.getD i false, hit i)) := by
  intro m
  induction m with
  | zero =>
    intro s F c Z _ hZ
    have : Z = [] := List.eq_nil_of_length_eq_zero hZ
    rw [this]
    rfl
  | succ m ih =>
    intro s F c Z hs hZ
    cases Z with
    | nil => simp at hZ
    | cons z Z =>
      rw [List.range'_succ, List.foldl_cons, List.map_cons, carry_fm]
      have hs1 : s - 1 = F.length := by omega
      have hsF : s = (F ++ [c]).length := by simp; omega
      have e1 : ∀ v, (F ++ c :: z :: Z).set s v = F ++ c :: v :: Z := by
        intro v
        have := set_append_singleton (F ++ [c]) z v Z
        rw [← hsF] at this
        simpa using this
      have hstep : (if hit s || (stp.getD s false && (F ++ c :: z :: Z).getD (s - 1) false) then
          let fm := (F ++ c :: z :: Z).set s true
          fm.set (s - 1) (!stp.getD s false && fm.getD (s - 1) false)
        else (F ++ c :: z :: Z).set s false) =
          (F ++ [!stp.getD s false && c]) ++ (hit s || (stp.getD s false && c)) :: Z := by
        rw [hs1, getD_append_singleton]
        simp only [e1, getD_append_singleton, set_append_singleton, List.append_assoc,
          List.singleton_append]
        cases hit s <;> cases stp.getD s false <;> cases c <;> rfl
      rw [hstep, ih (s + 1) _ _ Z (by simp; omega) (by simpa using hZ), List.append_assoc]
      rfl

theorem carry_fm_run (h : Nat → RowRef × Bool → Bool) (i : Nat) (rest : List ScratchRow) :
    ∀ (ts : List (RowRef × Bool)) (c : Bool),
    carry_fm c (((ts.map fun u => (⟨i, u.1, u.2, true⟩ : ScratchRow)) ++ rest).map
      fun r => (r.same_to_prev, h r.probe_index (r.build, r.has_build))) =
    List.replicate ts.length false ++
      carry_fm (c || ts.any (h i))
        (rest.map fun r => (r.same_to_prev, h r.probe_index (r.build, r.has_build))) := by
  intro ts
  induction ts with
  | nil => intro c; simp
  | cons u ts ih =>
    intro c
    rw [List.map_cons, List.cons_append, List.map_cons, carry_fm, ih, List.length_cons,
      List.replicate_succ, List.any_cons, List.cons_append]
    simp only [Bool.not_true, Bool.false_and, Bool.true_and]
    congr 3
    cases c <;> cases h i u <;> cases ts.any (h i) <;> rfl

/-- The carry loop over a list of groups. -/
theorem carry_fm_groups (h : Nat → RowRef × Bool → Bool) :
    ∀ (G : List (Nat × List (RowRef × Bool))) (c : Bool),
    carry_fm c ((groups_rows G).map
      fun r => (r.same_to_prev, h r.probe_index (r.build, r.has_build))) =
    c :: groups_fm h G := by
  intro G
  induction G with
  | nil => intro c; rfl
  | cons g G ih =>
    intro c
    obtain ⟨i, ts⟩ := g
    cases ts with
    | nil =>
      have e1 : groups_rows ((i, []) :: G) = groups_rows G := by
        simp [groups_rows, group_rows]
      have e2 : groups_fm h ((i, []) :: G) = groups_fm h G := by
        simp [groups_fm]
      rw [e1, e2]
      exact ih c
    | cons t ts =>
      have e1 : groups_rows ((i, t :: ts) :: G) =
          (⟨i, t.1, t.2, false⟩ : ScratchRow) ::
            ((ts.map fun u => (⟨i, u.1, u.2, true⟩ : ScratchRow)) ++ groups_rows G) := by
        simp [groups_rows, group_rows]
      have e2 : groups_fm h ((i, t :: ts) :: G) =
          List.replicate ts.length false ++ [(t :: ts).any (h i)] ++ groups_fm h G := by
        simp [groups_fm]
      rw [e1, e2, List.map_cons, carry_fm, carry_fm_run, ih]
      simp only [Bool.not_false, Bool.true_and, Bool.false_and, Bool.or_false, List.any_cons,
        List.append_assoc, List.singleton_append]

theorem groups_fm_length (h : Nat → RowRef × Bool → Bool)
    (G : List (Nat × List (RowRef × Bool))) :
    (groups_fm h G).length = (groups_rows G).length := by
  induction G with
  | nil => rfl
  | cons g G ih =>
    obtain ⟨i, ts⟩ := g
    cases ts with
    | nil => simpa [groups_fm, groups_rows, group_rows] using ih
    | cons t ts =>
      simp only [groups_fm, groups_rows, List.flatMap_cons, List.length_append,
        group_rows, List.length_cons, List.length_map, List.length_replicate,
        List.length_singleton] at ih ⊢
      rw [ih]
      simp [List.length_nil]

theorem groups_next_length (G : List (Nat × List (RowRef × Bool))) :
    (groups_next G).length = (groups_rows G).length := by
  induction G with
  | nil => rfl
  | cons g G ih =>
    obtain ⟨i, ts⟩ := g
    cases ts with
    | nil => simpa [groups_next, groups_rows, group_rows] using ih
    | cons t ts =>
      simp only [groups_next, groups_rows, List.flatMap_cons, List.length_append,
        group_rows, List.length_cons, List.length_map, List.length_replicate,
        List.length_singleton] at ih ⊢
      rw [ih]
      simp [List.length_nil]

/-- The `same_to_prev` bits of a list of groups, shifted by one tuple. -/
theorem groups_next_eq (G : List (Nat × List (RowRef × Bool))) :
    (groups_rows G).map ScratchRow.same_to_prev ++ [false] = false :: groups_next G := by
  induction G with
  | nil => rfl
  | cons g G ih =>
    obtain ⟨i, ts⟩ := g
    cases ts with
    | nil =>
      have e1 : groups_rows ((i, []) :: G) = groups_rows G := by
        simp [groups_rows, group_rows]
      have e2 : groups_next ((i, []) :: G) = groups_next G := by
        simp [groups_next]
      rw [e1, e2]
      exact ih
    | cons t ts =>
      have e1 : groups_rows ((i, t :: ts) :: G) =
          (⟨i, t.1, t.2, false⟩ : ScratchRow) ::
            ((ts.map fun u => (⟨i, u.1, u.2, true⟩ : ScratchRow)) ++ groups_rows G) := by
        simp [groups_rows, group_rows]
      have e2 : groups_next ((i, t :: ts) :: G) =
          List.replicate ts.length true ++ [false] ++ groups_next G := by
        simp [groups_next]
      rw [e1, e2, List.map_cons, List.map_append, List.cons_append, List.append_assoc, ih]
      have e3 : (ts.map fun u => (⟨i, u.1, u.2, true⟩ : ScratchRow)).map
          ScratchRow.same_to_prev = List.replicate ts.length true := by
        rw [List.map_map]
        apply List.ext_getElem
        · simp
        · intro n h1 h2
          simp
      rw [e3]
      simp

/-- A loop that visits the group boundaries: at every tuple `i` that starts a group it
rewrites the cell of the tuple before with `g` and pushes `em` of its old value. -/
theorem bound_fold (stp : List Bool) (step : ApplierState → Nat → ApplierState)
    (g : Bool → Bool) (em : Bool → List Bool)
    (hstep : ∀ a i, step a i =
      if !stp.getD i false then
        { a with filter_map := a.filter_map.set (i - 1) (g (a.filter_map.getD (i - 1) false))
                 matched_map := a.matched_map ++ em (a.filter_map.getD (i - 1) false) }
      else a) :
    ∀ (m s : Nat) (F X R : List Bool) (a : ApplierState), F.length + 1 = s → X.length = m →
      a.filter_map = F ++ X ++ R →
      (List.range' s m).foldl step a =
        { a with
          filter_map := F ++ List.zipWith (fun x q => if q then x else g x) X
            ((List.range' s m).map fun i => stp.getD i false) ++ R
          matched_map := a.matched_map ++
            (List.zip X ((List.range' s m).map fun i => stp.getD i false)).flatMap
              fun p => if p.2 then [] else em p.1 } := by
  intro m
  induction m with
  | zero =>
    intro s F X R a _ hX hfm
    have : X = [] := List.eq_nil_of_length_eq_zero hX
    subst this
    simp only [List.range'_zero, List.foldl_nil, List.map_nil, List.zipWith_nil_right,
      List.zip_nil_right, List.flatMap_nil, List.append_nil] at hfm ⊢
    rw [← hfm]
  | succ m ih =>
    intro s F X R a hs hX hfm
    cases X with
    | nil => simp at hX
    | cons x X =>
      rw [List.range'_succ, List.foldl_cons, hstep]
      have hs1 : s - 1 = F.length := by omega
      have hfm' : a.filter_map = F ++ x :: (X ++ R) := by
        rw [hfm]; simp
      have hget : a.filter_map.getD (s - 1) false = x := by
        rw [hs1, hfm', getD_append_singleton]
      have hset : ∀ v, a.filter_map.set (s - 1) v = (F ++ [v]) ++ X ++ R := by
        intro v
        rw [hs1, hfm', set_append_singleton]
        simp
      rw [hget, hset]
      cases hq : stp.getD s false
      · simp only [Bool.not_false, if_true]
        rw [ih (s + 1) (F ++ [g x]) X R _ (by simp; omega) (by simpa using hX) rfl]
        simp only [List.map_cons, List.zipWith_cons_cons, List.zip_cons_cons,
          List.flatMap_cons, hq, Bool.false_eq_true, if_false, List.append_assoc,
          List.singleton_append, List.cons_append, List.nil_append]
      · simp only [Bool.not_true, Bool.false_eq_true, if_false]
        rw [ih (s + 1) (F ++ [x]) X R a (by simp; omega) (by simpa using hX)
          (by rw [hfm]; simp)]
        simp only [List.map_cons, List.zipWith_cons_cons, List.zip_cons_cons,
          List.flatMap_cons, hq, if_true, List.append_assoc,
          List.singleton_append, List.cons_append, List.nil_append]

theorem dropLast_append_getLast_getD (l : List Bool) (h : l ≠ []) :
    l = l.dropLast ++ [l.getD (l.length - 1) false] := by
  have := (List.dropLast_append_getLast h).symm
  rw [List.getLast_eq_getElem] at this
  rw [List.getD_eq_getElem?_getD, List.getElem?_eq_getElem (by
    have := List.length_pos.mpr h; omega)]
  exact this

/-- The mark-join loop in closed form: the last cell of every group is kept, and its old
value (negated when `negate`) is pushed to the mark column. -/
theorem mark_rewrite_closed (stp : List Bool) (n : Nat) (negate : Bool) (a : ApplierState)
    (hn : 1 ≤ n) (hlen : a.filter_map.length = n) :
    let Q := ((List.range' 1 (n - 1)).map fun i => stp.getD i false) ++ [false]
    mark_rewrite stp n negate (n - 1) a =
      { a with
        filter_map := List.zipWith (fun x q => if q then x else true) a.filter_map Q
        matched_map := a.matched_map ++
          (List.zip a.filter_map Q).flatMap fun p => if p.2 then [] else [xor negate p.1] } := by
  intro Q
  have hne : a.filter_map ≠ [] := by
    intro h; rw [h] at hlen; simp at hlen; omega
  have hsplit := dropLast_append_getLast_getD a.filter_map hne
  rw [hlen] at hsplit
  obtain ⟨l, hl⟩ : ∃ l, l = a.filter_map.getD (n - 1) false := ⟨_, rfl⟩
  obtain ⟨X, hX⟩ : ∃ X, X = a.filter_map.dropLast := ⟨_, rfl⟩
  rw [← hl, ← hX] at hsplit
  have hXlen : X.length = n - 1 := by rw [hX, List.length_dropLast, hlen]
  unfold mark_rewrite
  have hf := bound_fold stp (fun a i =>
    if !stp.getD i false then
      let a := { a with
        matched_map := a.matched_map ++ [xor negate (a.filter_map.getD (i - 1) false)] }
      { a with filter_map := a.filter_map.set (i - 1) true }
    else a) (fun _ => true) (fun x => [xor negate x])
    (by intro a i; dsimp only) (n - 1) 1 [] X [l] a rfl hXlen
    (by rw [hsplit]; simp)
  simp only at hf ⊢
  rw [hf]
  simp only [List.nil_append]
  have hQlen : ((List.range' 1 (n - 1)).map fun i => stp.getD i false).length = n - 1 := by
    simp
  have hzl : (List.zipWith (fun x q => if q = true then x else true) X
      ((List.range' 1 (n - 1)).map fun i => stp.getD i false)).length = n - 1 := by
    rw [List.length_zipWith, hXlen, hQlen, Nat.min_self]
  have hg : (List.zipWith (fun x q => if q = true then x else true) X
      ((List.range' 1 (n - 1)).map fun i => stp.getD i false) ++ [l]).getD (n - 1) false = l := by
    have := getD_append_singleton (List.zipWith (fun x q => if q = true then x else true) X
      ((List.range' 1 (n - 1)).map fun i => stp.getD i false)) l []
    rw [hzl] at this
    exact this
  have hs : (List.zipWith (fun x q => if q = true then x else true) X
      ((List.range' 1 (n - 1)).map fun i => stp.getD i false) ++ [l]).set (n - 1) true =
      List.zipWith (fun x q => if q = true then x else true) X
      ((List.range' 1 (n - 1)).map fun i => stp.getD i false) ++ [true] := by
    have := set_append_singleton (List.zipWith (fun x q => if q = true then x else true) X
      ((List.range' 1 (n - 1)).map fun i => stp.getD i false)) l true []
    rw [hzl] at this
    exact this
  rw [hg, hs]
  have hz1 : List.zipWith (fun x q => if q = true then x else true) a.filter_map Q =
      List.zipWith (fun x q => if q = true then x else true) X
        ((List.range' 1 (n - 1)).map fun i => stp.getD i false) ++ [true] := by
    rw [hsplit]
    show List.zipWith _ (X ++ [l])
      (((List.range' 1 (n - 1)).map fun i => stp.getD i false) ++ [false]) = _
    rw [List.zipWith_append _ _ _ _ _ (by rw [hXlen, hQlen])]
    rfl
  have hz2 : List.zip a.filter_map Q =
      List.zip X ((List.range' 1 (n - 1)).map fun i => stp.getD i false) ++ [(l, false)] := by
    rw [hsplit]
    show List.zip (X ++ [l])
      (((List.range' 1 (n - 1)).map fun i => stp.getD i false) ++ [false]) = _
    rw [List.zip_append (by rw [hXlen, hQlen])]
    rfl
  rw [hz1, hz2, List.flatMap_append]
  simp

theorem carry_fm_tail (s h : Bool) (rest : List (Bool × Bool)) :
    (carry_fm false ((s, h) :: rest)).tail = carry_fm h rest := by
  simp [carry_fm]

theorem range'_map_cons {α : Type} (f : Nat → α) (s m : Nat) :
    (List.range' s (m + 1)).map f = f s :: (List.range' (s + 1) m).map f := by
  rw [List.range'_succ, List.map_cons]

/-- The filter column after the LEFT_SEMI carry loop, in closed form. -/
theorem left_semi_rewrite_fm (s : ProbeState) (fc : List Bool) (n : Nat)
    (a : ApplierState) (hn : 1 ≤ n) (hrc : s.row_count_from_last_probe ≤ n) :
    let rc := s.row_count_from_last_probe
    let pairs := fun (lo m : Nat) =>
      (List.range' lo m).map fun i => (s.same_to_prev.getD i false, fc.getD i false)
    let fm := if rc > 0 ∧ a.is_any_probe_match_row_output = true then
        List.replicate rc false ++ (carry_fm false (pairs rc (n - rc))).tail
      else (carry_fm false (pairs 0 n)).tail
    left_semi_rewrite s fc n false a =
      { a with
        filter_map := fm
        is_any_probe_match_row_output :=
          if s.multi_matched_output_row_count > 0 then fm.getD (n - 1) false
          else if rc > 0 ∧ a.is_any_probe_match_row_output = false then fm.getD (rc - 1) false
          else a.is_any_probe_match_row_output } := by
  intro rc pairs fm
  have hrcd : rc = s.row_count_from_last_probe := rfl
  have hpairs : pairs = fun (lo m : Nat) =>
      (List.range' lo m).map fun i => (s.same_to_prev.getD i false, fc.getD i false) := rfl
  have hbasic : (List.range' 1 (n - 1)).foldl (fun fm i =>
      if fc.getD i false || (s.same_to_prev.getD i false && fm.getD (i - 1) false) then
        let fm := fm ++ [true]
        fm.set (i - 1) (!s.same_to_prev.getD i false && fm.getD (i - 1) false)
      else fm ++ [false]) [fc.getD 0 false] = (carry_fm false (pairs 0 n)).tail := by
    have := semi_fold_carry s.same_to_prev fc (n - 1) 1 [] (fc.getD 0 false) rfl
    simp only [List.nil_append] at this
    rw [this, hpairs]
    obtain ⟨k, hk⟩ : ∃ k, n = k + 1 := ⟨n - 1, by omega⟩
    subst hk
    simp only [Nat.add_sub_cancel]
    rw [range'_map_cons, carry_fm_tail]
  have hpre : rc > 0 → (List.range' (1 + rc) (n - (1 + rc))).foldl (fun fm i =>
      if fc.getD i false || (s.same_to_prev.getD i false && fm.getD (i - 1) false) then
        let fm := fm ++ [true]
        fm.set (i - 1) (!s.same_to_prev.getD i false && fm.getD (i - 1) false)
      else fm ++ [false])
      (if rc < n then List.replicate rc false ++ [fc.getD rc false] else List.replicate rc false) =
      List.replicate rc false ++ (carry_fm false (pairs rc (n - rc))).tail := by
    intro _
    by_cases hlt : rc < n
    · rw [if_pos hlt]
      have := semi_fold_carry s.same_to_prev fc (n - (1 + rc)) (1 + rc)
        (List.replicate rc false) (fc.getD rc false) (by simp; omega)
      rw [this, hpairs]
      obtain ⟨k, hk⟩ : ∃ k, n - rc = k + 1 := ⟨n - rc - 1, by omega⟩
      have hk2 : n - (1 + rc) = k := by omega
      simp only [hk, hk2]
      rw [range'_map_cons, carry_fm_tail, Nat.add_comm 1 rc]
    · rw [if_neg hlt]
      have h0 : n - (1 + rc) = 0 := by omega
      have h1 : n - rc = 0 := by omega
      rw [h0, hpairs]
      simp only [h1, List.range'_zero, List.foldl_nil, List.map_nil, carry_fm, List.tail_cons,
        List.append_nil]
  have hfm : fm = if rc > 0 ∧ a.is_any_probe_match_row_output = true then
        List.replicate rc false ++ (carry_fm false (pairs rc (n - rc))).tail
      else (carry_fm false (pairs 0 n)).tail := rfl
  clear_value fm pairs
  unfold left_semi_rewrite
  simp only [← hrcd, Bool.false_eq_true, if_false]
  by_cases h1 : rc > 0
  · cases h2 : a.is_any_probe_match_row_output
    · simp only [h1, h2, if_true, Bool.false_eq_true, if_false, and_false, and_true,
        Bool.not_false, Bool.and_true, decide_True] at hfm ⊢
      rw [hbasic, ← hfm]
      split_ifs <;> first | rfl | (cases a; simp_all)
    · simp only [h1, h2, if_true, and_self, Bool.not_true, Bool.and_false,
        Bool.false_eq_true, if_false, and_false] at hfm ⊢
      rw [hpre h1, ← hfm]
      split_ifs <;> first | rfl | (cases a; simp_all)
  · simp only [h1, if_false, false_and, decide_False, Bool.false_and, Bool.false_eq_true]
      at hfm ⊢
    rw [hbasic, ← hfm]
    split_ifs <;> rfl

/-! ## From the scratch vectors to groups -/

theorem drop_range'_zero (lo n : Nat) :
    (List.range' 0 n).drop lo = List.range' lo (n - lo) := by
  apply List.ext_getElem?
  intro i
  rw [List.getElem?_drop]
  by_cases h : lo + i < n
  · rw [List.getElem?_range' _ _ h, List.getElem?_range' _ _ (by omega)]
    simp
  · rw [List.getElem?_eq_none (by simp; omega), List.getElem?_eq_none (by simp; omega)]

theorem scratch_rows_drop (d : ProbeState) (lo : Nat) :
    (scratch_rows d).drop lo = (List.range' lo (d.current_offset - lo)).map fun i =>
      (⟨d.probe_indexs.getD i 0,
        ⟨d.build_block_offsets.getD i 0, d.build_block_rows.getD i 0⟩,
        (d.visited_map.getD i none).isSome, d.same_to_prev.getD i false⟩ : ScratchRow) := by
  unfold scratch_rows
  rw [← List.map_drop, List.range_eq_range', drop_range'_zero]

/-- The (`same_to_prev`, hit) pairs the carry loops read from index `lo` on are those of the
scratch records from `lo` on. -/
theorem scratch_pairs (d : ProbeState) (H : Nat → Bool) (hit : ScratchRow → Bool)
    (hH : ∀ i, i < d.current_offset → H i = hit ⟨d.probe_indexs.getD i 0,
      ⟨d.build_block_offsets.getD i 0, d.build_block_rows.getD i 0⟩,
      (d.visited_map.getD i none).isSome, d.same_to_prev.getD i false⟩) (lo : Nat) :
    ((List.range' lo (d.current_offset - lo)).map fun i => (d.same_to_prev.getD i false, H i)) =
      ((scratch_rows d).drop lo).map fun r => (r.same_to_prev, hit r) := by
  rw [scratch_rows_drop, List.map_map]
  apply List.map_congr_left
  intro i hi
  have hi2 : i < d.current_offset := by
    have := List.mem_range'_1.mp hi
    omega
  simp only [Function.comp]
  rw [hH i hi2]

theorem scratch_rows_getD_map (d : ProbeState) (f : ScratchRow → Bool) (i : Nat)
    (hi : i < d.current_offset) :
    ((scratch_rows d).map f).getD i false = f ⟨d.probe_indexs.getD i 0,
      ⟨d.build_block_offsets.getD i 0, d.build_block_rows.getD i 0⟩,
      (d.visited_map.getD i none).isSome, d.same_to_prev.getD i false⟩ := by
  unfold scratch_rows
  rw [List.getD_eq_getElem?_getD, List.getElem?_map, List.getElem?_map,
    List.getElem?_range hi]
  rfl

/-- The columns of the assembled block as projections of the scratch records. -/
theorem scratch_rows_columns (d : ProbeState) (hlen : ColsLen d) :
    d.probe_indexs = (scratch_rows d).map ScratchRow.probe_index ∧
    List.zipWith RowRef.mk d.build_block_offsets d.build_block_rows =
      (scratch_rows d).map ScratchRow.build := by
  obtain ⟨l1, l2, l3, -, -⟩ := hlen
  refine ⟨?_, ?_⟩
  · apply List.ext_getElem?
    intro i
    unfold scratch_rows
    rw [List.map_map, List.getElem?_map]
    by_cases hi : i < d.current_offset
    · rw [List.getElem?_range hi, List.getElem?_eq_getElem (by omega)]
      simp only [Option.map_some', Function.comp]
      rw [List.getD_eq_getElem?_getD, List.getElem?_eq_getElem (by omega)]
      rfl
    · rw [List.getElem?_eq_none (by omega), List.getElem?_eq_none (by simp; omega)]
      rfl
  · apply List.ext_getElem?
    intro i
    unfold scratch_rows
    rw [List.map_map, List.getElem?_map]
    by_cases hi : i < d.current_offset
    · rw [List.getElem?_range hi, List.getElem?_eq_getElem (by simp; omega)]
      simp only [Option.map_some', Function.comp, List.getElem_zipWith]
      rw [List.getD_eq_getElem?_getD, List.getElem?_eq_getElem (by omega),
        List.getD_eq_getElem?_getD, List.getElem?_eq_getElem (by omega)]
      rfl
    · rw [List.getElem?_eq_none (by simp; omega), List.getElem?_eq_none (by simp; omega)]
      rfl

theorem groups_rows_append (A B : List (Nat × List (RowRef × Bool))) :
    groups_rows (A ++ B) = groups_rows A ++ groups_rows B := by
  simp [groups_rows]

theorem groups_rows_single (i : Nat) (ts : List (RowRef × Bool)) :
    groups_rows [(i, ts)] = group_rows i ts := by
  simp [groups_rows]

theorem groups_fm_append (h : Nat → RowRef × Bool → Bool)
    (A B : List (Nat × List (RowRef × Bool))) :
    groups_fm h (A ++ B) = groups_fm h A ++ groups_fm h B := by
  simp [groups_fm]

theorem groups_next_append (A B : List (Nat × List (RowRef × Bool))) :
    groups_next (A ++ B) = groups_next A ++ groups_next B := by
  simp [groups_next]

theorem group_rows_probe (i : Nat) (ts : List (RowRef × Bool)) :
    (group_rows i ts).map ScratchRow.probe_index = List.replicate ts.length i := by
  cases ts with
  | nil => rfl
  | cons t ts =>
    simp only [group_rows, List.map_cons, List.map_map, List.length_cons, List.replicate_succ]
    congr 1
    apply List.ext_getElem
    · simp
    · intro n h1 h2
      simp

theorem filter_block_replicate_false {α : Type} (k : Nat) (c : List α) :
    filter_block (List.replicate k false) c = [] :=
  filter_block_all_false _ _ (fun _ hb => (List.mem_replicate.mp hb).2)

/-- The rows the filter column of a list of groups keeps: the probe row of every group
with a hit, once. -/
theorem filter_block_groups (h : Nat → RowRef × Bool → Bool) :
    ∀ G : List (Nat × List (RowRef × Bool)),
    filter_block (groups_fm h G) ((groups_rows G).map ScratchRow.probe_index) =
      G.flatMap fun g => if g.2.any (h g.1) then [g.1] else [] := by
  intro G
  induction G with
  | nil => simp [groups_fm, groups_rows, filter_block_nil_left]
  | cons g G ih =>
    obtain ⟨i, ts⟩ := g
    have e1 : groups_rows ((i, ts) :: G) = group_rows i ts ++ groups_rows G := by
      simp [groups_rows]
    have e2 : groups_fm h ((i, ts) :: G) = groups_fm h [(i, ts)] ++ groups_fm h G :=
      groups_fm_append h [(i, ts)] G
    rw [e1, e2, List.map_append, filter_block_append _ _ _ _ (by
      rw [groups_fm_length, groups_rows_single, List.length_map]), ih, List.flatMap_cons,
      group_rows_probe]
    congr 1
    cases ts with
    | nil => simp [groups_fm, filter_block_nil_left]
    | cons t ts =>
      simp only [groups_fm, List.flatMap_cons, List.flatMap_nil, List.append_nil,
        List.length_cons]
      rw [List.replicate_succ', filter_block_append _ _ _ _ (by simp),
        filter_block_replicate_false, List.nil_append, filter_block_cons,
        filter_block_nil_left, List.append_nil]


theorem groups_fm_single_cons (h : Nat → RowRef × Bool → Bool) (i : Nat) (t : RowRef × Bool)
    (ts : List (RowRef × Bool)) :
    groups_fm h [(i, t :: ts)] = List.replicate ts.length false ++ [(t :: ts).any (h i)] := by
  simp [groups_fm]

theorem groups_fm_single_nil (h : Nat → RowRef × Bool → Bool) (i : Nat) :
    groups_fm h [(i, [])] = [] := by
  simp [groups_fm]

theorem groups_fm_single_getD (h : Nat → RowRef × Bool → Bool) (i : Nat)
    (ts : List (RowRef × Bool)) (X Y : List Bool) (hne : ts ≠ []) :
    (X ++ groups_fm h [(i, ts)] ++ Y).getD (X.length + ts.length - 1) false =
      ts.any (h i) := by
  cases ts with
  | nil => exact absurd rfl hne
  | cons t ts =>
    rw [groups_fm_single_cons]
    have e : X ++ (List.replicate ts.length false ++ [(t :: ts).any (h i)]) ++ Y =
        (X ++ List.replicate ts.length false) ++ (t :: ts).any (h i) :: Y := by simp
    have e2 : X.length + (t :: ts).length - 1 =
        (X ++ List.replicate ts.length false).length := by simp
    rw [e, e2, getD_append_singleton]

theorem tuple_hit_semi (cfg : Config) (conj : OtherConjuncts)
    (hop : cfg.JoinOpType = TJoinOp.LEFT_SEMI_JOIN) (i : Nat) (t : RowRef × Bool) :
    tuple_hit cfg conj i t = conj i t.1 := by
  simp [tuple_hit, hop]

theorem tuple_hit_anti (cfg : Config) (conj : OtherConjuncts)
    (hop : cfg.JoinOpType ≠ TJoinOp.LEFT_SEMI_JOIN) (i : Nat) (t : RowRef × Bool) :
    tuple_hit cfg conj i t = (t.2 && conj i t.1) := by
  have : (cfg.JoinOpType == TJoinOp.LEFT_SEMI_JOIN) = false := beq_eq_false_iff_ne.mpr hop
  simp [tuple_hit, this]

/-- The LEFT_SEMI rewrite without mark join on a block made of the resumed tuples `PT` of
probe row `ps`, the groups `Mid` and the first tuples `ST` of the row list of `pd`: the rows
kept and the new `is_any_probe_match_row_output`. -/
theorem semi_applier (cfg : Config) (conj : OtherConjuncts) (d : ProbeState)
    (a0 : ApplierState) (ps pd : Nat) (PT ST : List (RowRef × Bool))
    (Mid : List (Nat × List (RowRef × Bool)))
    (hop : cfg.JoinOpType = TJoinOp.LEFT_SEMI_JOIN)
    (hRS : scratch_rows d = group_rows ps PT ++ groups_rows Mid ++ group_rows pd ST)
    (hrc : d.row_count_from_last_probe = PT.length)
    (hmu : d.multi_matched_output_row_count = ST.length)
    (hn : 0 < d.current_offset) (fc : List Bool)
    (hfc : fc = (scratch_rows d).map fun r => conj r.probe_index r.build)
    (a : ApplierState) (ha : a = left_semi_rewrite d fc d.current_offset false a0) :
    filter_block a.filter_map ((scratch_rows d).map ScratchRow.probe_index) =
      (if a0.is_any_probe_match_row_output then []
        else if PT.any (tuple_hit cfg conj ps) then [ps] else []) ++
      (Mid.flatMap fun g => if g.2.any (tuple_hit cfg conj g.1) then [g.1] else []) ++
      (if ST.any (tuple_hit cfg conj pd) then [pd] else []) ∧
    a.is_any_probe_match_row_output =
      (if ST ≠ [] then ST.any (tuple_hit cfg conj pd)
       else if PT ≠ [] ∧ a0.is_any_probe_match_row_output = false then
         PT.any (tuple_hit cfg conj ps)
       else a0.is_any_probe_match_row_output) ∧
    a.matched_map = a0.matched_map ∧ a.filter_map.length = d.current_offset := by
  have hlenRS := scratch_rows_length d
  have hG : scratch_rows d = groups_rows ((ps, PT) :: (Mid ++ [(pd, ST)])) := by
    rw [hRS]
    simp [groups_rows]
  have hG2 : (scratch_rows d).drop d.row_count_from_last_probe =
      groups_rows (Mid ++ [(pd, ST)]) := by
    rw [hRS, hrc, List.append_assoc]
    rw [List.drop_left' (group_rows_length ps PT)]
    simp [groups_rows]
  have hnval : d.current_offset =
      PT.length + (groups_rows Mid).length + ST.length := by
    rw [← hlenRS, hRS]
    simp [group_rows_length, Nat.add_assoc]
  have hH : ∀ i, i < d.current_offset → fc.getD i false =
      (fun r : ScratchRow => tuple_hit cfg conj r.probe_index (r.build, r.has_build))
        ⟨d.probe_indexs.getD i 0,
          ⟨d.build_block_offsets.getD i 0, d.build_block_rows.getD i 0⟩,
          (d.visited_map.getD i none).isSome, d.same_to_prev.getD i false⟩ := by
    intro i hi
    rw [hfc, scratch_rows_getD_map d _ i hi]
    simp only [tuple_hit_semi cfg conj hop]
  have hp0 := scratch_pairs d (fun i => fc.getD i false)
    (fun r : ScratchRow => tuple_hit cfg conj r.probe_index (r.build, r.has_build)) hH 0
  have hp1 := scratch_pairs d (fun i => fc.getD i false)
    (fun r : ScratchRow => tuple_hit cfg conj r.probe_index (r.build, r.has_build)) hH
    d.row_count_from_last_probe
  simp only [Nat.sub_zero, List.drop_zero] at hp0 hp1
  rw [hG, ] at hp0
  rw [hG2] at hp1
  have hrcle : d.row_count_from_last_probe ≤ d.current_offset := by omega
  have key := left_semi_rewrite_fm d fc d.current_offset a0 hn hrcle
  simp only at key
  rw [hp0, hp1, carry_fm_groups, carry_fm_groups, List.tail_cons, List.tail_cons] at key
  have hsplitG : groups_fm (tuple_hit cfg conj) ((ps, PT) :: (Mid ++ [(pd, ST)])) =
      groups_fm (tuple_hit cfg conj) [(ps, PT)] ++ groups_fm (tuple_hit cfg conj) Mid ++
        groups_fm (tuple_hit cfg conj) [(pd, ST)] := by
    rw [← groups_fm_append, ← groups_fm_append]
    rfl
  have hsplitM : groups_fm (tuple_hit cfg conj) (Mid ++ [(pd, ST)]) =
      groups_fm (tuple_hit cfg conj) Mid ++ groups_fm (tuple_hit cfg conj) [(pd, ST)] :=
    groups_fm_append _ _ _
  have hl1 : (groups_fm (tuple_hit cfg conj) [(ps, PT)]).length = PT.length := by
    rw [groups_fm_length, groups_rows_single, group_rows_length]
  have hl2 : (groups_fm (tuple_hit cfg conj) Mid).length = (groups_rows Mid).length :=
    groups_fm_length _ _
  have hl3 : (groups_fm (tuple_hit cfg conj) [(pd, ST)]).length = ST.length := by
    rw [groups_fm_length, groups_rows_single, group_rows_length]
  have hcol : (scratch_rows d).map ScratchRow.probe_index =
      (group_rows ps PT).map ScratchRow.probe_index ++
        (groups_rows (Mid ++ [(pd, ST)])).map ScratchRow.probe_index := by
    rw [hRS, List.append_assoc, List.map_append, groups_rows_append, groups_rows_single]
  have hfbM := filter_block_groups (tuple_hit cfg conj) (Mid ++ [(pd, ST)])
  rw [List.flatMap_append] at hfbM
  simp only [List.flatMap_cons, List.flatMap_nil, List.append_nil] at hfbM
  have hfbP : filter_block (groups_fm (tuple_hit cfg conj) [(ps, PT)])
      ((group_rows ps PT).map ScratchRow.probe_index) =
      if PT.any (tuple_hit cfg conj ps) then [ps] else [] := by
    have := filter_block_groups (tuple_hit cfg conj) [(ps, PT)]
    rw [groups_rows_single] at this
    simpa using this
  have hPT0 : d.row_count_from_last_probe > 0 ↔ PT ≠ [] := by
    rw [hrc]
    exact List.length_pos
  have hST0 : d.multi_matched_output_row_count > 0 ↔ ST ≠ [] := by
    rw [hmu]
    exact List.length_pos
  rw [ha, key]
  by_cases hc : d.row_count_from_last_probe > 0 ∧ a0.is_any_probe_match_row_output = true
  · have hany := hc.2
    have hPTne := hPT0.mp hc.1
    simp only [hc, and_self, if_true, hany, Bool.true_eq_false, and_false, if_false]
    refine ⟨?_, ?_, trivial, ?_⟩
    · rw [hcol, filter_block_append _ _ _ _ (by simp [hrc, group_rows_length]),
        filter_block_replicate_false, hfbM]
      simp
    · by_cases hst : ST ≠ []
      · rw [if_pos (hST0.mpr hst), if_pos hst, hsplitM, ← List.append_assoc]
        have := groups_fm_single_getD (tuple_hit cfg conj) pd ST
          (List.replicate d.row_count_from_last_probe false ++
            groups_fm (tuple_hit cfg conj) Mid) [] hst
        rw [List.append_nil] at this
        rw [← this]
        congr 1
        simp only [List.length_append, List.length_replicate, hl2]
        omega
      · rw [if_neg (fun h => hst (hST0.mp h)), if_neg hst]
    · rw [List.length_append, List.length_replicate, hsplitM, List.length_append, hl2, hl3]
      omega
  · simp only [hc, if_false]
    refine ⟨?_, ?_, trivial, ?_⟩
    · have hG' : groups_fm (tuple_hit cfg conj) ((ps, PT) :: (Mid ++ [(pd, ST)])) =
          groups_fm (tuple_hit cfg conj) [(ps, PT)] ++
            groups_fm (tuple_hit cfg conj) (Mid ++ [(pd, ST)]) :=
        groups_fm_append _ [(ps, PT)] _
      rw [hcol, hG', filter_block_append _ _ _ _ (by simp [hl1, group_rows_length]), hfbM,
        hfbP]
      cases hany : a0.is_any_probe_match_row_output
      · simp
      · have hPTnil : PT = [] := by
          by_contra hne
          exact hc ⟨hPT0.mpr hne, hany⟩
        simp [hPTnil]
    · by_cases hst : ST ≠ []
      · rw [if_pos (hST0.mpr hst), if_pos hst, hsplitG]
        have := groups_fm_single_getD (tuple_hit cfg conj) pd ST
          (groups_fm (tuple_hit cfg conj) [(ps, PT)] ++
            groups_fm (tuple_hit cfg conj) Mid) [] hst
        rw [List.append_nil] at this
        rw [← this]
        congr 1
        simp only [List.length_append, hl1, hl2]
        omega
      · rw [if_neg (fun h => hst (hST0.mp h)), if_neg hst]
        by_cases hp : PT ≠ [] ∧ a0.is_any_probe_match_row_output = false
        · rw [if_pos ⟨hPT0.mpr hp.1, hp.2⟩, if_pos hp, hsplitG, List.append_assoc]
          have := groups_fm_single_getD (tuple_hit cfg conj) ps PT []
            (groups_fm (tuple_hit cfg conj) Mid ++ groups_fm (tuple_hit cfg conj) [(pd, ST)])
            hp.1
          rw [List.nil_append] at this
          rw [← this, hrc]
          simp
        · rw [if_neg (fun h => hp ⟨hPT0.mp h.1, h.2⟩), if_neg hp]
    · rw [hsplitG, List.length_append, List.length_append, hl1, hl2, hl3]
      omega


theorem set_getD_self (l : List Bool) (i : Nat) : l.set i (l.getD i false) = l := by
  apply List.ext_getElem?
  intro j
  rw [List.getElem?_set]
  by_cases h : i = j
  · subst h
    by_cases hl : i < l.length
    · simp [hl, List.getD_eq_getElem?_getD, List.getElem?_eq_getElem hl]
    · simp [hl, List.getElem?_eq_none (Nat.le_of_not_lt hl)]
  · simp [h]

theorem set_append_left_lt (P X : List Bool) (i : Nat) (v : Bool) (h : i < P.length) :
    (P ++ X).set i v = P.set i v ++ X :=
  List.set_append_left _ _ h

theorem getD_append_left_lt (P X : List Bool) (i : Nat) (h : i < P.length) :
    (P ++ X).getD i false = P.getD i false :=
  getD_append_left _ _ _ _ h

theorem set_append_right_ge (P X : List Bool) (i : Nat) (v : Bool) :
    (P ++ X).set (P.length + i) v = P ++ X.set i v := by
  rw [List.set_append_right _ _ (Nat.le_add_right _ _), Nat.add_sub_cancel_left]

/-- The LEFT_ANTI carry loop of `left_anti_rewrite` in closed form, before the mark-join
loop or the inversion. -/
theorem left_anti_rewrite_fm (s : ProbeState) (fc : List Bool) (n : Nat) (mk : Bool)
    (a : ApplierState) (hn : 1 ≤ n) (hrc : s.row_count_from_last_probe ≤ n) :
    let rc := s.row_count_from_last_probe
    let pairs := fun (lo m : Nat) =>
      (List.range' lo m).map fun i =>
        (s.same_to_prev.getD i false, ((s.visited_map.getD i none).isSome && fc.getD i false))
    let fm := if rc > 0 ∧ a.is_any_probe_match_row_output = true then
        List.replicate rc false ++ (carry_fm false (pairs rc (n - rc))).tail
      else (carry_fm false (pairs 0 n)).tail
    left_anti_rewrite s fc n mk a =
      if mk then mark_rewrite s.same_to_prev n true (n - 1) { a with filter_map := fm }
      else left_anti_invert s n { a with filter_map := fm } := by
  intro rc pairs fm
  have hrcd : rc = s.row_count_from_last_probe := rfl
  have hpairs : pairs = fun (lo m : Nat) =>
      (List.range' lo m).map fun i =>
        (s.same_to_prev.getD i false,
          ((s.visited_map.getD i none).isSome && fc.getD i false)) := rfl
  have hcomm : ∀ i, (fc.getD i false && (s.visited_map.getD i none).isSome) =
      ((s.visited_map.getD i none).isSome && fc.getD i false) := fun i => Bool.and_comm _ _
  have hbasic : (List.range' 1 (n - 1)).foldl (fun fm i =>
      if ((s.visited_map.getD i none).isSome && fc.getD i false) ||
          (s.same_to_prev.getD i false && fm.getD (i - 1) false) then
        let fm := fm.set i true
        fm.set (i - 1) (!s.same_to_prev.getD i false && fm.getD (i - 1) false)
      else fm.set i false)
      ((List.replicate n false).set 0
        (fc.getD 0 false && (s.visited_map.getD 0 none).isSome)) =
      (carry_fm false (pairs 0 n)).tail := by
    obtain ⟨k, hk⟩ : ∃ k, n = k + 1 := ⟨n - 1, by omega⟩
    subst hk
    have := anti_fold_carry s.same_to_prev
      (fun i => ((s.visited_map.getD i none).isSome && fc.getD i false)) k 1 []
      (fc.getD 0 false && (s.visited_map.getD 0 none).isSome) (List.replicate k false) rfl
      (by simp)
    simp only [List.nil_append] at this
    simp only [Nat.add_sub_cancel, List.replicate_succ, List.set_cons_zero]
    rw [this, hpairs]
    simp only
    rw [range'_map_cons, carry_fm_tail, hcomm]
  have hpre : rc > 0 → (List.range' (1 + rc) (n - (1 + rc))).foldl (fun fm i =>
      if ((s.visited_map.getD i none).isSome && fc.getD i false) ||
          (s.same_to_prev.getD i false && fm.getD (i - 1) false) then
        let fm := fm.set i true
        fm.set (i - 1) (!s.same_to_prev.getD i false && fm.getD (i - 1) false)
      else fm.set i false)
      (if rc < n then (List.replicate n false).set rc
        (fc.getD rc false && (s.visited_map.getD rc none).isSome)
        else List.replicate n false) =
      List.replicate rc false ++ (carry_fm false (pairs rc (n - rc))).tail := by
    intro _
    by_cases hlt : rc < n
    · rw [if_pos hlt]
      obtain ⟨k, hk⟩ : ∃ k, n - rc = k + 1 := ⟨n - rc - 1, by omega⟩
      have hk2 : n - (1 + rc) = k := by omega
      have hsplit : List.replicate n false =
          List.replicate rc false ++ false :: List.replicate k false := by
        have : n = rc + (k + 1) := by omega
        rw [this, List.replicate_add, List.replicate_succ]
      have hset : (List.replicate n false).set rc
          (fc.getD rc false && (s.visited_map.getD rc none).isSome) =
          List.replicate rc false ++
            (fc.getD rc false && (s.visited_map.getD rc none).isSome) ::
              List.replicate k false := by
        rw [hsplit]
        have := set_append_singleton (List.replicate rc false) false
          (fc.getD rc false && (s.visited_map.getD rc none).isSome) (List.replicate k false)
        rw [List.length_replicate] at this
        exact this
      have := anti_fold_carry s.same_to_prev
        (fun i => ((s.visited_map.getD i none).isSome && fc.getD i false)) k (1 + rc)
        (List.replicate rc false) (fc.getD rc false && (s.visited_map.getD rc none).isSome)
        (List.replicate k false) (by simp; omega) (by simp)
      rw [hset, hk2, this, hpairs]
      simp only [hk]
      rw [range'_map_cons, carry_fm_tail, Nat.add_comm 1 rc, hcomm]
    · rw [if_neg hlt]
      have h0 : n - (1 + rc) = 0 := by omega
      have h1 : n - rc = 0 := by omega
      have h2 : List.replicate n false = List.replicate rc false := by
        congr 1
        omega
      rw [h0, hpairs, h2]
      simp only [h1, List.range'_zero, List.foldl_nil, List.map_nil, carry_fm, List.tail_cons,
        List.append_nil]
  have hfm : fm = if rc > 0 ∧ a.is_any_probe_match_row_output = true then
        List.replicate rc false ++ (carry_fm false (pairs rc (n - rc))).tail
      else (carry_fm false (pairs 0 n)).tail := rfl
  clear_value fm
  unfold left_anti_rewrite
  simp only [← hrcd]
  by_cases h1 : rc > 0
  · cases h2 : a.is_any_probe_match_row_output
    · simp only [h1, h2, Bool.and_false, Bool.false_eq_true, if_false, and_false,
        decide_True] at hfm ⊢
      rw [hbasic, ← hfm]
    · simp only [h1, h2, Bool.and_true, decide_True, if_true, and_self] at hfm ⊢
      rw [hpre h1, ← hfm]
  · simp only [h1, decide_False, Bool.false_and, Bool.false_eq_true, if_false, false_and]
      at hfm ⊢
    rw [hbasic, ← hfm]


/-- The inversion loop of `left_anti_invert` and the statement after it: the last cell of
every group between the prefix and the suffix is inverted. -/
theorem anti_invert_mid (s : ProbeState) (a : ApplierState) (P M S : List Bool) (e k : Nat)
    (hfm : a.filter_map = P ++ M ++ S) (hP : P.length = s.row_count_from_last_probe)
    (he : e = P.length + M.length) (hk : k = M.length) :
    (let b := (List.range' (1 + s.row_count_from_last_probe)
        (e - (1 + s.row_count_from_last_probe))).foldl (fun a i =>
      if !s.same_to_prev.getD i false then
        { a with filter_map := a.filter_map.set (i - 1) (!a.filter_map.getD (i - 1) false) }
      else a) a
    if k > 0 then
      { b with filter_map := b.filter_map.set (e - 1) (!b.filter_map.getD (e - 1) false) }
    else b) =
    { a with filter_map := (P ++ List.zipWith (fun x q => if q then x else !x) M
        (((List.range' (1 + s.row_count_from_last_probe) (M.length - 1)).map
          fun i => s.same_to_prev.getD i false) ++ [false]) ++ S) } := by
  by_cases hM : M = []
  · subst hM
    have hk0 : k = 0 := by rw [hk]; rfl
    have he0 : e - (1 + s.row_count_from_last_probe) = 0 := by
      rw [he, hP]; simp
    simp only [hk0, he0, List.range'_zero, List.foldl_nil, Nat.lt_irrefl, if_false,
      List.zipWith_nil_left, List.append_nil, gt_iff_lt]
    cases a
    simp only at hfm
    simp [hfm]
  · have hsplit := dropLast_append_getLast_getD M hM
    obtain ⟨l, hl⟩ : ∃ l, l = M.getD (M.length - 1) false := ⟨_, rfl⟩
    obtain ⟨X, hX⟩ : ∃ X, X = M.dropLast := ⟨_, rfl⟩
    rw [← hl, ← hX] at hsplit
    have hMpos : 0 < M.length := List.length_pos.mpr hM
    have hXlen : X.length = M.length - 1 := by rw [hX, List.length_dropLast]
    have hem : e - (1 + s.row_count_from_last_probe) = M.length - 1 := by
      rw [he, hP]; omega
    have hf := bound_fold s.same_to_prev (fun a i =>
      if !s.same_to_prev.getD i false then
        { a with filter_map := a.filter_map.set (i - 1) (!a.filter_map.getD (i - 1) false) }
      else a) (fun x => !x) (fun _ => [])
      (by intro a i; dsimp only; split_ifs <;> simp) (M.length - 1)
      (1 + s.row_count_from_last_probe) P X (l :: S) a (by rw [hP]; omega) hXlen
      (by rw [hfm, hsplit]; simp)
    have hkpos : k > 0 := by rw [hk]; exact hMpos
    simp only at hf
    simp only [hem, hkpos, if_true]
    rw [hf]
    simp only
    have hQlen0 : ((List.range' (1 + s.row_count_from_last_probe) (M.length - 1)).map
        fun i => s.same_to_prev.getD i false).length = X.length := by simp [hXlen]
    generalize ((List.range' (1 + s.row_count_from_last_probe) (M.length - 1)).map
        fun i => s.same_to_prev.getD i false) = Q at hQlen0 ⊢
    have hzl : (P ++ List.zipWith (fun x q => if q = true then x else !x) X Q).length =
        e - 1 := by
      rw [List.length_append, List.length_zipWith, hQlen0, Nat.min_self, he, hXlen]
      omega
    have hg := getD_append_singleton
      (P ++ List.zipWith (fun x q => if q = true then x else !x) X Q) l S
    have hs := set_append_singleton
      (P ++ List.zipWith (fun x q => if q = true then x else !x) X Q) l (!l) S
    rw [hzl] at hg hs
    rw [hg, hs]
    have hz1 : List.zipWith (fun x q => if q = true then x else !x) M (Q ++ [false]) =
        List.zipWith (fun x q => if q = true then x else !x) X Q ++ [!l] := by
      rw [hsplit, List.zipWith_append _ _ _ _ _ hQlen0.symm]
      rfl
    rw [hz1]
    have hnil : ((X.zip Q).flatMap
        fun p => if p.2 = true then ([] : List Bool) else []) = [] := by
      rw [List.flatMap_eq_nil_iff]
      intro p _
      split_ifs <;> rfl
    cases a
    simp [hnil]

/-- The sub-block bookkeeping and inversion of `left_anti_invert` in closed form, on a
filter column made of the prefix cells `P`, the cells `M` of the whole groups and the
suffix cells `S`. -/
theorem left_anti_invert_closed (s : ProbeState) (n rc multi : Nat) (a : ApplierState)
    (P M S : List Bool) (hfm : a.filter_map = P ++ M ++ S)
    (hrc : s.row_count_from_last_probe = rc) (hmu : s.multi_matched_output_row_count = multi)
    (hP : P.length = rc) (hS : S.length = multi)
    (hn : n = P.length + M.length + S.length) :
    let pl := P.getD (rc - 1) false
    let P1 := if rc > 0 ∧ a.is_any_probe_match_row_output = false then
        (if s.is_the_last_sub_block = true ∧ pl = false then (P.set (rc - 1) false).set 0 true
         else P.set (rc - 1) false)
      else P
    let ia1 := if rc > 0 ∧ a.is_any_probe_match_row_output = false then pl
      else a.is_any_probe_match_row_output
    let S1 := if multi > 0 then S.set (multi - 1) false else S
    let ia2 := if multi > 0 then S.getD (multi - 1) false else ia1
    let M1 := List.zipWith (fun x q => if q then x else !x) M
      (((List.range' (1 + rc) (M.length - 1)).map fun i => s.same_to_prev.getD i false) ++
        [false])
    left_anti_invert s n a =
      { a with filter_map := (P1 ++ M1 ++ S1), is_any_probe_match_row_output := ia2 } := by
  intro pl P1 ia1 S1 ia2 M1
  have hpl : pl = P.getD (rc - 1) false := rfl
  have hia1 : ia1 = if rc > 0 ∧ a.is_any_probe_match_row_output = false then pl
      else a.is_any_probe_match_row_output := rfl
  have hP1 : P1 = if rc > 0 ∧ a.is_any_probe_match_row_output = false then
        (if s.is_the_last_sub_block = true ∧ pl = false then (P.set (rc - 1) false).set 0 true
         else P.set (rc - 1) false)
      else P := rfl
  have hS1 : S1 = if multi > 0 then S.set (multi - 1) false else S := rfl
  have hia2 : ia2 = if multi > 0 then S.getD (multi - 1) false else ia1 := rfl
  have hM1 : M1 = List.zipWith (fun x q => if q then x else !x) M
      (((List.range' (1 + rc) (M.length - 1)).map fun i => s.same_to_prev.getD i false) ++
        [false]) := rfl
  clear_value M1 ia2 S1 ia1 P1 pl
  have hP1len : P1.length = P.length := by
    rw [hP1]
    split_ifs <;> simp
  have hlast_get : ∀ (Z : List Bool), Z.length = P.length →
      multi > 0 → (Z ++ M ++ S).getD (n - 1) false = S.getD (multi - 1) false := by
    intro Z hZ hm
    have e1 : n - 1 = (Z ++ M).length + (multi - 1) := by
      rw [List.length_append, hZ, hn, hS]
      omega
    rw [e1, getD_append_right]
  have hlast_set : ∀ (Z : List Bool), Z.length = P.length →
      multi > 0 → (Z ++ M ++ S).set (n - 1) false = Z ++ M ++ S.set (multi - 1) false := by
    intro Z hZ hm
    have e1 : n - 1 = (Z ++ M).length + (multi - 1) := by
      rw [List.length_append, hZ, hn, hS]
      omega
    rw [e1, set_append_right_ge]
  have hpre_get : rc > 0 → (P ++ M ++ S).getD (rc - 1) false = pl := by
    intro h
    rw [hpl, List.append_assoc, getD_append_left_lt _ _ _ (by omega)]
  have hpre_set : ∀ v, rc > 0 →
      (P ++ M ++ S).set (rc - 1) v = P.set (rc - 1) v ++ M ++ S := by
    intro v h
    rw [List.append_assoc, set_append_left_lt _ _ _ _ (by omega), List.append_assoc]
  have hpre_set0 : ∀ (Z : List Bool), Z.length = P.length → rc > 0 →
      (Z ++ M ++ S).set 0 true = Z.set 0 true ++ M ++ S := by
    intro Z hZ h
    rw [List.append_assoc, set_append_left_lt _ _ _ _ (by omega), List.append_assoc]
  have hPself : pl = false → P.set (rc - 1) false = P := by
    intro h
    have := set_getD_self P (rc - 1)
    rw [← hpl, h] at this
    exact this
  unfold left_anti_invert
  lift_lets
  intro rc' multi' take_last a1 a2 r e b
  have hrc' : rc' = rc := hrc
  have hmu' : multi' = multi := hmu
  have htl : ∀ (Z : List Bool) (ia : Bool), Z.length = P.length → multi > 0 →
      take_last { a with filter_map := Z ++ M ++ S, is_any_probe_match_row_output := ia } =
        { a with filter_map := Z ++ M ++ S.set (multi - 1) false,
                 is_any_probe_match_row_output := S.getD (multi - 1) false } := by
    intro Z ia hZ hm
    show ({ filter_map := (Z ++ M ++ S).set (n - 1) false,
            null_map_data := a.null_map_data,
            matched_map := a.matched_map,
            hash_table := a.hash_table,
            is_any_probe_match_row_output := (Z ++ M ++ S).getD (n - 1) false } :
          ApplierState) = _
    rw [hlast_get Z hZ hm, hlast_set Z hZ hm]
  have haeq : a = { a with filter_map := P ++ M ++ S,
                           is_any_probe_match_row_output := a.is_any_probe_match_row_output } := by
    cases a
    simp only at hfm
    simp [hfm]
  have ha2 : rc > 0 → a2 = { a with filter_map := P1 ++ M ++ S,
                                    is_any_probe_match_row_output := ia1 } := by
    intro h0
    have hc0 : rc' > 0 := by rw [hrc']; exact h0
    cases hia : a.is_any_probe_match_row_output
    · have hP1' : P1 = if s.is_the_last_sub_block = true ∧ pl = false then
          (P.set (rc - 1) false).set 0 true else P.set (rc - 1) false := by
        rw [hP1, if_pos ⟨h0, hia⟩]
      have hia1' : ia1 = pl := by rw [hia1, if_pos ⟨h0, hia⟩]
      have ha1 : a1 = if pl = true then
          { a with filter_map := P.set (rc - 1) false ++ M ++ S,
                   is_any_probe_match_row_output := true }
          else a := by
        show (if a.filter_map.getD (rc' - 1) false = true then
          { a with is_any_probe_match_row_output := true,
                   filter_map := a.filter_map.set (rc' - 1) false } else a) = _
        rw [hrc', hfm, hpre_get h0, hpre_set false h0]
      show (if (!a.is_any_probe_match_row_output) = true then
          if (s.is_the_last_sub_block && !a1.is_any_probe_match_row_output) = true then
            { a1 with filter_map := a1.filter_map.set 0 true }
          else a1
        else a) = _
      rw [hia, ha1, hP1', hia1']
      cases hplv : pl
      · have hPs := hPself hplv
        cases hls : s.is_the_last_sub_block
        · simp only [Bool.not_false, if_true, Bool.false_eq_true, if_false, hia,
            Bool.false_and, false_and, hPs]
          conv_lhs => rw [haeq]
          rw [hia]
        · simp only [Bool.not_false, if_true, Bool.false_eq_true, if_false, hia,
            Bool.true_and, and_self, hPs, hfm, hpre_set0 P rfl h0]
      · simp only [Bool.not_false, if_true, Bool.not_true, Bool.and_false,
          Bool.false_eq_true, if_false, Bool.true_eq_false, and_false]
    · have hP1' : P1 = P := by
        rw [hP1, if_neg (by intro h; rw [hia] at h; exact Bool.noConfusion h.2)]
      have hia1' : ia1 = true := by
        rw [hia1, if_neg (by intro h; rw [hia] at h; exact Bool.noConfusion h.2), hia]
      show (if (!a.is_any_probe_match_row_output) = true then
          if (s.is_the_last_sub_block && !a1.is_any_probe_match_row_output) = true then
            { a1 with filter_map := a1.filter_map.set 0 true }
          else a1
        else a) = _
      rw [hia, hP1', hia1']
      simp only [Bool.not_true, Bool.false_eq_true, if_false]
      conv_lhs => rw [haeq]
      rw [hia]
  have hr : r = (n - multi, { a with filter_map := P1 ++ M ++ S1,
                                     is_any_probe_match_row_output := ia2 }) := by
    show (if rc' > 0 then (n - multi', if multi' > 0 then take_last a2 else a2)
      else if multi' > 0 then (n - multi', take_last a) else (n, a)) = _
    rw [hrc', hmu']
    by_cases h0 : rc > 0
    · rw [if_pos h0, ha2 h0]
      by_cases hm : multi > 0
      · rw [if_pos hm, htl P1 ia1 hP1len hm, hS1, hia2, if_pos hm, if_pos hm]
      · rw [if_neg hm, hS1, hia2, if_neg hm, if_neg hm]
    · have hP1' : P1 = P := by rw [hP1, if_neg (fun h => h0 h.1)]
      have hia1' : ia1 = a.is_any_probe_match_row_output := by
        rw [hia1, if_neg (fun h => h0 h.1)]
      rw [if_neg h0]
      by_cases hm : multi > 0
      · rw [if_pos hm]
        conv_lhs => rw [haeq]
        rw [htl P _ rfl hm, hS1, hia2, if_pos hm, if_pos hm, hP1']
      · have hm0 : multi = 0 := by omega
        rw [if_neg hm, hS1, hia2, if_neg hm, if_neg hm, hP1', hia1', hm0, Nat.sub_zero]
        conv_lhs => rw [haeq]
  have he : e = n - multi := by
    show r.1 = _
    rw [hr]
  have hb : b = { a with filter_map := P1 ++ M ++ S1,
                         is_any_probe_match_row_output := ia2 } := by
    show r.2 = _
    rw [hr]
  have hmid := anti_invert_mid s b P1 M S1 (n - multi) (n - rc - multi) (by rw [hb])
    (by rw [hP1len, hP, hrc]) (by rw [hP1len, hn, ← hS]; omega)
    (by rw [hn, ← hP, ← hS]; omega)
  rw [hrc, ← hM1] at hmid
  clear_value b e r a2 a1 take_last multi' rc'
  subst hrc' hmu' he
  subst hb
  dsimp only at hmid ⊢
  exact hmid

theorem groups_fm_eq_cells (h : Nat → RowRef × Bool → Bool)
    (G : List (Nat × List (RowRef × Bool))) :
    groups_fm h G = groups_cells (fun i ts => ts.any (h i)) G := rfl

theorem groups_cells_length (v : Nat → List (RowRef × Bool) → Bool)
    (G : List (Nat × List (RowRef × Bool))) :
    (groups_cells v G).length = (groups_rows G).length := by
  induction G with
  | nil => rfl
  | cons g G ih =>
    obtain ⟨i, ts⟩ := g
    cases ts with
    | nil => simpa [groups_cells, groups_rows, group_rows] using ih
    | cons t ts =>
      simp only [groups_cells, groups_rows, group_rows, List.flatMap_cons, List.length_append,
        List.length_replicate, List.length_cons, List.length_nil, List.length_map] at ih ⊢
      omega

theorem groups_cells_cons (v : Nat → List (RowRef × Bool) → Bool)
    (g : Nat × List (RowRef × Bool)) (G : List (Nat × List (RowRef × Bool))) :
    groups_cells v (g :: G) = groups_cells v [g] ++ groups_cells v G := by
  simp [groups_cells]

theorem groups_next_cons (g : Nat × List (RowRef × Bool))
    (G : List (Nat × List (RowRef × Bool))) :
    groups_next (g :: G) = groups_next [g] ++ groups_next G := by
  simp [groups_next]

theorem groups_rows_cons (g : Nat × List (RowRef × Bool))
    (G : List (Nat × List (RowRef × Bool))) :
    groups_rows (g :: G) = group_rows g.1 g.2 ++ groups_rows G := by
  simp [groups_rows]

theorem zipWith_replicate_both {α β γ : Type} (f : α → β → γ) (k : Nat) (x : α) (y : β) :
    List.zipWith f (List.replicate k x) (List.replicate k y) = List.replicate k (f x y) := by
  induction k with
  | zero => rfl
  | succ k ih => simp [List.replicate_succ, ih]

theorem groups_fm_cons (h : Nat → RowRef × Bool → Bool) (g : Nat × List (RowRef × Bool))
    (G : List (Nat × List (RowRef × Bool))) :
    groups_fm h (g :: G) = groups_fm h [g] ++ groups_fm h G :=
  groups_fm_append h [g] G

/-- Combining, cell by cell, the carried filter column of the groups with the grouping bit
of the next tuple: what `f` makes of a clear cell inside a group, and of the group's value
at a group end. -/
theorem zipWith_groups (f : Bool → Bool → Bool) (hf : f false true = false)
    (h : Nat → RowRef × Bool → Bool) (G : List (Nat × List (RowRef × Bool))) :
    List.zipWith f (groups_fm h G) (groups_next G) =
      groups_cells (fun i ts => f (ts.any (h i)) false) G := by
  induction G with
  | nil => rfl
  | cons g G ih =>
    obtain ⟨i, ts⟩ := g
    rw [groups_cells_cons, groups_next_cons, groups_fm_cons,
      List.zipWith_append, ih]
    · congr 1
      cases ts with
      | nil => rfl
      | cons t ts =>
        simp only [groups_cells, groups_fm, groups_next, List.flatMap_cons, List.flatMap_nil,
          List.append_nil]
        rw [List.zipWith_append _ _ _ _ _ (by simp), zipWith_replicate_both, hf]
        rfl
    · rw [groups_fm_length, groups_next_length, groups_rows_single]

/-- The values the mark-join loop pushes: one per non-empty group. -/
theorem zip_groups_marks (neg : Bool) (h : Nat → RowRef × Bool → Bool)
    (G : List (Nat × List (RowRef × Bool))) :
    ((List.zip (groups_fm h G) (groups_next G)).flatMap fun p =>
        if p.2 then [] else [xor neg p.1]) =
      G.flatMap fun g => if g.2.isEmpty then [] else [xor neg (g.2.any (h g.1))] := by
  induction G with
  | nil => rfl
  | cons g G ih =>
    obtain ⟨i, ts⟩ := g
    rw [groups_next_cons, groups_fm_cons,
      List.zip_append (by rw [groups_fm_length, groups_next_length]),
      List.flatMap_append, ih, List.flatMap_cons]
    congr 1
    cases ts with
    | nil => rfl
    | cons t ts =>
      simp only [groups_fm, groups_next, List.flatMap_cons, List.flatMap_nil,
        List.append_nil]
      rw [List.zip_append (by simp), List.flatMap_append]
      have e : ((List.zip (List.replicate ts.length false)
          (List.replicate ts.length true)).flatMap fun p : Bool × Bool =>
          if p.2 then [] else [xor neg p.1]) = [] := by
        rw [List.flatMap_eq_nil_iff]
        intro p hp
        have := (List.of_mem_zip hp).2
        rw [List.mem_replicate] at this
        simp [this.2]
      rw [e]
      simp

theorem filter_block_group {α : Type} (f : ScratchRow → α) (i : Nat) (t : RowRef × Bool)
    (ts : List (RowRef × Bool)) (b : Bool) :
    filter_block (List.replicate ts.length false ++ [b]) ((group_rows i (t :: ts)).map f) =
      if b then [f ⟨i, ((t :: ts).getLast (List.cons_ne_nil t ts)).1,
        ((t :: ts).getLast (List.cons_ne_nil t ts)).2, !ts.isEmpty⟩] else [] := by
  induction ts generalizing t with
  | nil =>
    simp only [List.length_nil, List.replicate_zero, List.nil_append, group_rows, List.map_nil,
      List.map_cons, filter_block_cons, filter_block_nil_left, List.append_nil,
      List.getLast_singleton, List.isEmpty_nil, Bool.not_true]
  | cons u us ih =>
    have e : (group_rows i (t :: u :: us)).map f =
        f ⟨i, t.1, t.2, false⟩ :: f ⟨i, u.1, u.2, true⟩ ::
          (us.map fun w => f ⟨i, w.1, w.2, true⟩) := by
      simp [group_rows]
    have e2 : (group_rows i (u :: us)).map f =
        f ⟨i, u.1, u.2, false⟩ :: (us.map fun w => f ⟨i, w.1, w.2, true⟩) := by
      simp [group_rows]
    rw [e, List.length_cons, List.replicate_succ, List.cons_append, filter_block_cons]
    simp only [Bool.false_eq_true, if_false, List.nil_append]
    have ih' := ih u
    rw [e2] at ih'
    cases us with
    | nil =>
      simp only [List.length_nil, List.replicate_zero, List.nil_append, List.map_nil,
        filter_block_cons, filter_block_nil_left, List.append_nil]
      simp
    | cons w ws =>
      rw [List.length_cons, List.replicate_succ, List.cons_append, filter_block_cons] at ih' ⊢
      simp only [Bool.false_eq_true, if_false, List.nil_append] at ih' ⊢
      rw [ih']
      simp

/-- The rows a per-group filter column keeps of a column of the scratch records: of every
non-empty group with value `true`, the last record. -/
theorem filter_block_cells {α : Type} (f : ScratchRow → α)
    (v : Nat → List (RowRef × Bool) → Bool) (G : List (Nat × List (RowRef × Bool))) :
    filter_block (groups_cells v G) ((groups_rows G).map f) =
      G.flatMap fun g =>
        match g.2.getLast? with
        | none => []
        | some t => if v g.1 g.2 then [f ⟨g.1, t.1, t.2, decide (1 < g.2.length)⟩] else [] := by
  induction G with
  | nil => simp [groups_cells, groups_rows, filter_block_nil_left]
  | cons g G ih =>
    obtain ⟨i, ts⟩ := g
    rw [groups_cells_cons, groups_rows_cons, List.map_append, filter_block_append _ _ _ _ (by
      rw [groups_cells_length, groups_rows_single, List.length_map]), ih, List.flatMap_cons]
    congr 1
    cases ts with
    | nil => simp [groups_cells, group_rows, filter_block_nil_left]
    | cons t ts =>
      simp only [groups_cells, List.flatMap_cons, List.flatMap_nil, List.append_nil]
      rw [filter_block_group, List.getLast?_eq_getLast _ (List.cons_ne_nil t ts)]
      simp only [List.length_cons]
      have : (!ts.isEmpty) = decide (1 < ts.length + 1) := by
        cases ts <;> simp
      rw [this]

theorem filter_block_cells_probe (v : Nat → List (RowRef × Bool) → Bool)
    (G : List (Nat × List (RowRef × Bool))) :
    filter_block (groups_cells v G) ((groups_rows G).map ScratchRow.probe_index) =
      G.flatMap fun g => if !g.2.isEmpty && v g.1 g.2 then [g.1] else [] := by
  rw [filter_block_cells]
  congr 1
  funext g
  obtain ⟨i, ts⟩ := g
  cases ts with
  | nil => rfl
  | cons t ts =>
    rw [List.getLast?_eq_getLast _ (List.cons_ne_nil t ts)]
    simp

theorem filter_block_cells_build (v : Nat → List (RowRef × Bool) → Bool)
    (G : List (Nat × List (RowRef × Bool))) :
    filter_block (groups_cells v G) ((groups_rows G).map ScratchRow.build) =
      G.flatMap fun g =>
        match g.2.getLast? with
        | none => []
        | some t => if v g.1 g.2 then [t.1] else [] :=
  filter_block_cells ScratchRow.build v G

theorem scratch_stp_range (d : ProbeState) (lo m : Nat) (h : lo + m ≤ d.current_offset) :
    ((List.range' lo m).map fun i => d.same_to_prev.getD i false) =
      (((scratch_rows d).drop lo).take m).map ScratchRow.same_to_prev := by
  rw [scratch_rows_drop, ← List.map_take, List.map_map]
  have e : d.current_offset - lo = m + (d.current_offset - lo - m) := by omega
  have e2 : List.range' lo (d.current_offset - lo) =
      List.range' lo m ++ List.range' (lo + m) (d.current_offset - lo - m) := by
    rw [List.range'_append_1]
    congr 1
    omega
  rw [e2, List.take_left' (by simp)]
  rfl

/-- The grouping bits the inversion loop and the mark loop read for the groups `Mid` that
follow `lo` resumed tuples in the scratch vectors. -/
theorem scratch_next_bits (d : ProbeState) (lo : Nat) (Mid : List (Nat × List (RowRef × Bool)))
    (X Y : List ScratchRow) (hX : X.length = lo)
    (hRS : scratch_rows d = X ++ groups_rows Mid ++ Y) (hne : groups_rows Mid ≠ []) :
    ((List.range' (1 + lo) ((groups_rows Mid).length - 1)).map fun i =>
      d.same_to_prev.getD i false) ++ [false] = groups_next Mid := by
  have hlen := scratch_rows_length d
  rw [hRS] at hlen
  simp only [List.length_append] at hlen
  have h1 := scratch_stp_range d lo (groups_rows Mid).length (by omega)
  rw [hRS, List.append_assoc, List.drop_left' hX, List.take_left' rfl] at h1
  have hpos : 0 < (groups_rows Mid).length := List.length_pos.mpr hne
  obtain ⟨k, hk⟩ : ∃ k, (groups_rows Mid).length = k + 1 := ⟨_, (Nat.succ_pred_eq_of_pos hpos).symm⟩
  rw [hk, List.range'_succ, List.map_cons] at h1
  have h2 := groups_next_eq Mid
  rw [← h1, List.cons_append] at h2
  rw [hk, Nat.add_sub_cancel, Nat.add_comm 1 lo]
  exact (List.cons.inj h2).2

theorem replicate_snoc_set (k : Nat) (b : Bool) :
    (List.replicate k false ++ [b]).set k false = List.replicate (k + 1) false := by
  induction k with
  | zero => rfl
  | succ k ih => simp [List.replicate_succ, ih]

theorem replicate_snoc_getD (k : Nat) (b : Bool) :
    (List.replicate k false ++ [b]).getD k false = b := by
  induction k with
  | zero => rfl
  | succ k ih => simp [List.replicate_succ, ih]

theorem filter_block_first {α : Type} (k : Nat) (x : α) :
    filter_block ((List.replicate (k + 1) false).set 0 true) (List.replicate (k + 1) x) = [x] := by
  rw [List.replicate_succ, List.set_cons_zero, List.replicate_succ, filter_block_cons,
    filter_block_replicate_false]
  rfl

/-- The LEFT_ANTI / NULL_AWARE_LEFT_ANTI rewrite without mark join on a block made of the
resumed tuples `PT` of probe row `ps`, the groups `Mid` and the first tuples `ST` of the row
list of `pd`: the rows kept and the new `is_any_probe_match_row_output`. A resumed row is
kept only in its last sub-block, a row whose list does not fit is not kept yet. -/
theorem anti_applier (cfg : Config) (conj : OtherConjuncts) (d : ProbeState)
    (a0 : ApplierState) (ps pd : Nat) (PT ST : List (RowRef × Bool))
    (Mid : List (Nat × List (RowRef × Bool)))
    (hop : cfg.JoinOpType ≠ TJoinOp.LEFT_SEMI_JOIN)
    (hRS : scratch_rows d = group_rows ps PT ++ groups_rows Mid ++ group_rows pd ST)
    (hrc : d.row_count_from_last_probe = PT.length)
    (hmu : d.multi_matched_output_row_count = ST.length)
    (hn : 0 < d.current_offset) (fc : List Bool)
    (hfc : fc = (scratch_rows d).map fun r => conj r.probe_index r.build)
    (a : ApplierState) (ha : a = left_anti_rewrite d fc d.current_offset false a0) :
    filter_block a.filter_map ((scratch_rows d).map ScratchRow.probe_index) =
      (if PT ≠ [] ∧ a0.is_any_probe_match_row_output = false ∧
          d.is_the_last_sub_block = true ∧ PT.any (tuple_hit cfg conj ps) = false
        then [ps] else []) ++
      (Mid.flatMap fun g =>
        if !g.2.isEmpty && !g.2.any (tuple_hit cfg conj g.1) then [g.1] else []) ∧
    a.is_any_probe_match_row_output =
      (if ST ≠ [] then ST.any (tuple_hit cfg conj pd)
       else if PT ≠ [] ∧ a0.is_any_probe_match_row_output = false then
         PT.any (tuple_hit cfg conj ps)
       else a0.is_any_probe_match_row_output) ∧
    a.matched_map = a0.matched_map ∧ a.filter_map.length = d.current_offset := by
  have hlenRS := scratch_rows_length d
  have hG : scratch_rows d = groups_rows ((ps, PT) :: (Mid ++ [(pd, ST)])) := by
    rw [hRS]
    simp [groups_rows]
  have hG2 : (scratch_rows d).drop d.row_count_from_last_probe =
      groups_rows (Mid ++ [(pd, ST)]) := by
    rw [hRS, hrc, List.append_assoc]
    rw [List.drop_left' (group_rows_length ps PT)]
    simp [groups_rows]
  have hnval : d.current_offset =
      PT.length + (groups_rows Mid).length + ST.length := by
    rw [← hlenRS, hRS]
    simp [group_rows_length, Nat.add_assoc]
  have hH : ∀ i, i < d.current_offset →
      ((d.visited_map.getD i none).isSome && fc.getD i false) =
      (fun r : ScratchRow => tuple_hit cfg conj r.probe_index (r.build, r.has_build))
        ⟨d.probe_indexs.getD i 0,
          ⟨d.build_block_offsets.getD i 0, d.build_block_rows.getD i 0⟩,
          (d.visited_map.getD i none).isSome, d.same_to_prev.getD i false⟩ := by
    intro i hi
    rw [hfc, scratch_rows_getD_map d _ i hi]
    simp only [tuple_hit_anti cfg conj hop]
  have hp0 := scratch_pairs d
    (fun i => ((d.visited_map.getD i none).isSome && fc.getD i false))
    (fun r : ScratchRow => tuple_hit cfg conj r.probe_index (r.build, r.has_build)) hH 0
  have hp1 := scratch_pairs d
    (fun i => ((d.visited_map.getD i none).isSome && fc.getD i false))
    (fun r : ScratchRow => tuple_hit cfg conj r.probe_index (r.build, r.has_build)) hH
    d.row_count_from_last_probe
  simp only [Nat.sub_zero, List.drop_zero] at hp0 hp1
  rw [hG] at hp0
  rw [hG2] at hp1
  have hrcle : d.row_count_from_last_probe ≤ d.current_offset := by omega
  have key := left_anti_rewrite_fm d fc d.current_offset false a0 hn hrcle
  simp only [Bool.false_eq_true, if_false] at key
  rw [hp0, hp1, carry_fm_groups, carry_fm_groups, List.tail_cons, List.tail_cons] at key
  have hsplitG : groups_fm (tuple_hit cfg conj) ((ps, PT) :: (Mid ++ [(pd, ST)])) =
      groups_fm (tuple_hit cfg conj) [(ps, PT)] ++ groups_fm (tuple_hit cfg conj) Mid ++
        groups_fm (tuple_hit cfg conj) [(pd, ST)] := by
    rw [← groups_fm_append, ← groups_fm_append]
    rfl
  have hsplitM : groups_fm (tuple_hit cfg conj) (Mid ++ [(pd, ST)]) =
      groups_fm (tuple_hit cfg conj) Mid ++ groups_fm (tuple_hit cfg conj) [(pd, ST)] :=
    groups_fm_append _ _ _
  have hl1 : (groups_fm (tuple_hit cfg conj) [(ps, PT)]).length = PT.length := by
    rw [groups_fm_length, groups_rows_single, group_rows_length]
  have hl2 : (groups_fm (tuple_hit cfg conj) Mid).length = (groups_rows Mid).length :=
    groups_fm_length _ _
  have hl3 : (groups_fm (tuple_hit cfg conj) [(pd, ST)]).length = ST.length := by
    rw [groups_fm_length, groups_rows_single, group_rows_length]
  -- the three parts of the carried filter column
  obtain ⟨P, hPdef⟩ : ∃ P, P = if d.row_count_from_last_probe > 0 ∧
      a0.is_any_probe_match_row_output = true then
        List.replicate d.row_count_from_last_probe false
      else groups_fm (tuple_hit cfg conj) [(ps, PT)] := ⟨_, rfl⟩
  have hPlen : P.length = PT.length := by
    rw [hPdef]
    split_ifs
    · rw [List.length_replicate, hrc]
    · exact hl1
  have hfm : (if d.row_count_from_last_probe > 0 ∧ a0.is_any_probe_match_row_output = true then
        List.replicate d.row_count_from_last_probe false ++
          groups_fm (tuple_hit cfg conj) (Mid ++ [(pd, ST)])
      else groups_fm (tuple_hit cfg conj) ((ps, PT) :: (Mid ++ [(pd, ST)]))) =
      P ++ groups_fm (tuple_hit cfg conj) Mid ++ groups_fm (tuple_hit cfg conj) [(pd, ST)] := by
    rw [hPdef]
    split_ifs
    · rw [hsplitM, List.append_assoc]
    · rw [hsplitG]
  rw [hfm] at key
  have hcl := left_anti_invert_closed d d.current_offset PT.length ST.length
    { a0 with filter_map := P ++ groups_fm (tuple_hit cfg conj) Mid ++
        groups_fm (tuple_hit cfg conj) [(pd, ST)] }
    P (groups_fm (tuple_hit cfg conj) Mid) (groups_fm (tuple_hit cfg conj) [(pd, ST)])
    rfl hrc hmu hPlen hl3 (by rw [hPlen, hl2, hl3]; exact hnval)
  simp only at hcl
  rw [ha, key, hcl]
  -- the inverted middle part
  have hM1 : List.zipWith (fun x q => if q = true then x else !x)
      (groups_fm (tuple_hit cfg conj) Mid)
      (((List.range' (1 + PT.length) ((groups_fm (tuple_hit cfg conj) Mid).length - 1)).map
        fun i => d.same_to_prev.getD i false) ++ [false]) =
      groups_cells (fun i ts => !ts.any (tuple_hit cfg conj i)) Mid := by
    by_cases hne : groups_rows Mid = []
    · have h0 : (groups_fm (tuple_hit cfg conj) Mid) = [] := by
        apply List.eq_nil_of_length_eq_zero
        rw [hl2, hne]
        rfl
      have h1 : groups_cells (fun i ts => !ts.any (tuple_hit cfg conj i)) Mid = [] := by
        apply List.eq_nil_of_length_eq_zero
        rw [groups_cells_length, hne]
        rfl
      rw [h0, h1]
      rfl
    · rw [hl2, scratch_next_bits d PT.length Mid (group_rows ps PT) (group_rows pd ST)
        (group_rows_length ps PT) hRS hne]
      have := zipWith_groups (fun x q => if q = true then x else !x) (by simp)
        (tuple_hit cfg conj) Mid
      simpa using this
  rw [hM1]
  have hcol : (scratch_rows d).map ScratchRow.probe_index =
      List.replicate PT.length ps ++ (groups_rows Mid).map ScratchRow.probe_index ++
        List.replicate ST.length pd := by
    rw [hRS, List.map_append, List.map_append, group_rows_probe, group_rows_probe]
  have hS1 : (if ST.length > 0 then
      (groups_fm (tuple_hit cfg conj) [(pd, ST)]).set (ST.length - 1) false
      else groups_fm (tuple_hit cfg conj) [(pd, ST)]) = List.replicate ST.length false := by
    cases ST with
    | nil => rfl
    | cons t ts =>
      rw [if_pos (by simp), groups_fm_single_cons]
      simp only [List.length_cons, Nat.add_sub_cancel]
      exact replicate_snoc_set _ _
  have hSg : ST ≠ [] → (groups_fm (tuple_hit cfg conj) [(pd, ST)]).getD (ST.length - 1) false =
      ST.any (tuple_hit cfg conj pd) := by
    intro hne
    cases ST with
    | nil => exact absurd rfl hne
    | cons t ts =>
      rw [groups_fm_single_cons]
      simp only [List.length_cons, Nat.add_sub_cancel]
      exact replicate_snoc_getD _ _
  have hPg : PT ≠ [] → a0.is_any_probe_match_row_output = false →
      P.getD (PT.length - 1) false = PT.any (tuple_hit cfg conj ps) ∧
      P.set (PT.length - 1) false = List.replicate PT.length false := by
    intro hne hia
    rw [hPdef, if_neg (by rw [hia]; simp)]
    cases PT with
    | nil => exact absurd rfl hne
    | cons t ts =>
      rw [groups_fm_single_cons]
      simp only [List.length_cons, Nat.add_sub_cancel]
      exact ⟨replicate_snoc_getD _ _, replicate_snoc_set _ _⟩
  have hPelse : ¬(PT.length > 0 ∧ a0.is_any_probe_match_row_output = false) →
      P = List.replicate PT.length false := by
    intro hc
    rw [hPdef]
    by_cases h0 : PT.length > 0
    · have : a0.is_any_probe_match_row_output = true := by
        cases hia : a0.is_any_probe_match_row_output
        · exact absurd ⟨h0, hia⟩ hc
        · rfl
      rw [if_pos ⟨by rw [hrc]; exact h0, this⟩, hrc]
    · have : PT = [] := List.eq_nil_of_length_eq_zero (by omega)
      subst this
      rw [if_neg (by rw [hrc]; simp)]
      rfl
  have hPT0 : PT.length > 0 ↔ PT ≠ [] := List.length_pos
  have hST0 : ST.length > 0 ↔ ST ≠ [] := List.length_pos
  rw [hS1]
  refine ⟨?_, ?_, rfl, ?_⟩
  · show filter_block _ _ = _
    simp only
    rw [hcol, filter_block_append _ _ _ _ (by
        rw [List.length_append, groups_cells_length, List.length_append, List.length_replicate,
          List.length_map]
        congr 1
        split_ifs <;> simp [hPlen]),
      filter_block_replicate_false, List.append_nil,
      filter_block_append _ _ _ _ (by split_ifs <;> simp [hPlen]),
      filter_block_cells_probe]
    congr 1
    by_cases hc : PT.length > 0 ∧ a0.is_any_probe_match_row_output = false
    · obtain ⟨g1, g2⟩ := hPg (hPT0.mp hc.1) hc.2
      rw [if_pos hc, g1, g2]
      by_cases hk : d.is_the_last_sub_block = true ∧ PT.any (tuple_hit cfg conj ps) = false
      · rw [if_pos hk, if_pos ⟨hPT0.mp hc.1, hc.2, hk.1, hk.2⟩]
        obtain ⟨k, hk2⟩ : ∃ k, PT.length = k + 1 := ⟨_, (Nat.succ_pred_eq_of_pos hc.1).symm⟩
        rw [hk2]
        exact filter_block_first k ps
      · rw [if_neg hk, if_neg (fun h => hk ⟨h.2.2.1, h.2.2.2⟩), filter_block_replicate_false]
    · rw [if_neg hc, hPelse hc, filter_block_replicate_false,
        if_neg (fun h => hc ⟨hPT0.mpr h.1, h.2.1⟩)]
  · show (if ST.length > 0 then _ else _) = _
    by_cases hst : ST ≠ []
    · rw [if_pos (hST0.mpr hst), if_pos hst, hSg hst]
    · rw [if_neg (fun h => hst (hST0.mp h)), if_neg hst]
      by_cases hc : PT.length > 0 ∧ a0.is_any_probe_match_row_output = false
      · rw [if_pos hc, if_pos ⟨hPT0.mp hc.1, hc.2⟩, (hPg (hPT0.mp hc.1) hc.2).1]
      · rw [if_neg hc, if_neg (fun h => hc ⟨hPT0.mpr h.1, h.2⟩)]
  · show (_ ++ _ ++ _ : List Bool).length = _
    rw [List.length_append, List.length_append, groups_cells_length, List.length_replicate,
      hnval]
    congr 2
    split_ifs <;> simp [hPlen]

theorem do_probe_cols_len (cfg : Config) (probe : ProbeBatch) (probe_rows : Nat)
    (s : ProbeState) (ho : cfg.with_other_conjuncts = true) (hb : 1 ≤ cfg.batch_size)
    (hne : rows_nonempty s.hash_table)
    (hkind : s.hash_table.kind ≠ RowRefKind.RowRefListWithFlag) :
    ColsLen (do_probe cfg probe probe_rows s) := by
  obtain ⟨hinv, -, -⟩ := do_probe_inv cfg probe probe_rows s
  obtain ⟨l1, l2, l3⟩ := do_probe_scratch_len cfg probe probe_rows s ho
  obtain ⟨g1, -⟩ := do_probe_group cfg probe probe_rows s ho hb hne hkind
  exact ⟨hinv.1, l1, l2, l3, g1⟩

/-- With other conjuncts the assembled block holds the scratch vectors as they are. -/
theorem assemble_other (cfg : Config) (probe : ProbeBatch) (probe_rows : Nat)
    (s : ProbeState) (ho : cfg.with_other_conjuncts = true) :
    let v := do_probe cfg probe probe_rows s
    assemble cfg s.probe_index v =
      (v, ⟨v.probe_indexs, List.zipWith RowRef.mk v.build_block_offsets v.build_block_rows,
        v.mark_column⟩) := by
  intro v
  obtain ⟨hinv, -, hsize⟩ := do_probe_inv cfg probe probe_rows s
  obtain ⟨l1, l2, -⟩ := do_probe_scratch_len cfg probe probe_rows s ho
  have hv : do_probe cfg probe probe_rows s = v := rfl
  rw [hv] at hinv hsize l1 l2
  have hw : (cfg.with_other_conjuncts || (cfg.JoinOpType != TJoinOp.RIGHT_SEMI_JOIN &&
      cfg.JoinOpType != TJoinOp.RIGHT_ANTI_JOIN)) = true := by rw [ho]; rfl
  have hsa : (!is_semi_anti_join cfg.JoinOpType || cfg.with_other_conjuncts) = true := by
    rw [ho]; simp
  obtain ⟨ap, am⟩ := assemble_probe cfg s.probe_index v hinv hsize hw
  have ab := assemble_build cfg s.probe_index v l1 l2 hsa
  have af := assemble_fst_other cfg s.probe_index v ho
  apply Prod.ext
  · exact af
  · show (assemble cfg s.probe_index v).2 = _
    cases hb : (assemble cfg s.probe_index v).2 with
    | mk pr bu ma =>
      rw [hb] at ap am ab
      simp only at ap am ab
      rw [ap, am, ab]

theorem zipWith_map_same {α β γ δ : Type} (g : β → γ → δ) (f1 : α → β) (f2 : α → γ)
    (l : List α) :
    List.zipWith g (l.map f1) (l.map f2) = l.map fun r => g (f1 r) (f2 r) := by
  induction l with
  | nil => rfl
  | cons a l ih => simp [ih]

/-- A call with other conjuncts whose probe loop produced no tuple: the output block is
empty and the applier does nothing. -/
theorem do_process_other_empty (cfg : Config) (conj : OtherConjuncts) (probe : ProbeBatch)
    (probe_rows : Nat) (s : ProbeState) (ho : cfg.with_other_conjuncts = true)
    (h0 : (do_probe cfg probe probe_rows s).current_offset = 0) :
    do_process cfg conj probe probe_rows s =
      (Status.OK, do_probe cfg probe probe_rows s,
        ⟨[], [], (do_probe cfg probe probe_rows s).mark_column⟩) := by
  have hA := assemble_other cfg probe probe_rows s ho
  simp only at hA
  obtain ⟨hinv, -, -⟩ := do_probe_inv cfg probe probe_rows s
  obtain ⟨l1, l2, -⟩ := do_probe_scratch_len cfg probe probe_rows s ho
  have e1 : (do_probe cfg probe probe_rows s).probe_indexs = [] :=
    List.eq_nil_of_length_eq_zero (by rw [hinv.1, h0])
  have e2 : (do_probe cfg probe probe_rows s).build_block_offsets = [] :=
    List.eq_nil_of_length_eq_zero (by rw [l1, h0])
  rw [e1, e2] at hA
  simp only [List.zipWith_nil_left] at hA
  unfold do_process
  simp only [hA, ho, if_true]
  unfold do_other_join_conjuncts
  simp [Block.rows]

/-- A LEFT_SEMI / LEFT_ANTI / NULL_AWARE_LEFT_ANTI call with other conjuncts that produced
tuples: the output block is the scratch vectors filtered by the rewritten filter column, and
only `is_any_probe_match_row_output` changes after the probe loop. -/
theorem do_process_left_semi_anti (cfg : Config) (conj : OtherConjuncts) (probe : ProbeBatch)
    (probe_rows : Nat) (s : ProbeState) (ho : cfg.with_other_conjuncts = true)
    (hb : 1 ≤ cfg.batch_size) (hne : rows_nonempty s.hash_table)
    (hkind : s.hash_table.kind ≠ RowRefKind.RowRefListWithFlag)
    (hop : cfg.JoinOpType = TJoinOp.LEFT_SEMI_JOIN ∨
      cfg.JoinOpType = TJoinOp.LEFT_ANTI_JOIN ∨
      cfg.JoinOpType = TJoinOp.NULL_AWARE_LEFT_ANTI_JOIN)
    (hpos : 0 < (do_probe cfg probe probe_rows s).current_offset) :
    let v := do_probe cfg probe probe_rows s
    let fc := (scratch_rows v).map fun r => conj r.probe_index r.build
    let a0 : ApplierState := ⟨fc, [], v.mark_column, v.hash_table, v.is_any_probe_match_row_output⟩
    let a :=
      if cfg.JoinOpType == TJoinOp.LEFT_SEMI_JOIN then
        left_semi_rewrite v fc v.current_offset cfg.is_mark_join a0
      else left_anti_rewrite v fc v.current_offset cfg.is_mark_join a0
    do_process cfg conj probe probe_rows s =
      (Status.OK,
       { v with is_any_probe_match_row_output := a.is_any_probe_match_row_output },
       ⟨filter_block a.filter_map ((scratch_rows v).map ScratchRow.probe_index),
        if cfg.is_mark_join then filter_block a.filter_map ((scratch_rows v).map ScratchRow.build)
        else [],
        a.matched_map⟩) := by
  intro v fc a0 a
  have hA := assemble_other cfg probe probe_rows s ho
  simp only at hA
  obtain ⟨hinv, -, -⟩ := do_probe_inv cfg probe probe_rows s
  obtain ⟨l1, l2, -⟩ := do_probe_scratch_len cfg probe probe_rows s ho
  obtain ⟨c1, c2⟩ := scratch_rows_columns v
    (do_probe_cols_len cfg probe probe_rows s ho hb hne hkind)
  have hv : do_probe cfg probe probe_rows s = v := rfl
  rw [hv] at hinv l1 l2 hpos hA
  have hrows : (⟨v.probe_indexs,
      List.zipWith RowRef.mk v.build_block_offsets v.build_block_rows,
      v.mark_column⟩ : Block).rows = v.current_offset := hinv.1
  have hlenB : (List.zipWith RowRef.mk v.build_block_offsets v.build_block_rows).length =
      v.current_offset := by simp [l1, l2]
  have hhit : ((List.range v.current_offset).map fun i =>
      conj (v.probe_indexs.getD i 0)
        ((List.zipWith RowRef.mk v.build_block_offsets v.build_block_rows).getD i ⟨0, 0⟩)) =
      fc := by
    rw [range_map_zipWith conj _ _ 0 ⟨0, 0⟩ _ hinv.1 hlenB, c1, c2, zipWith_map_same]
  have hneq : (v.current_offset == 0) = false := by
    cases h : v.current_offset == 0
    · rfl
    · have := beq_iff_eq.mp h; omega
  have hop1 : (cfg.JoinOpType == TJoinOp.LEFT_OUTER_JOIN ||
      cfg.JoinOpType == TJoinOp.FULL_OUTER_JOIN) = false := by
    rcases hop with h | h | h <;> rw [h] <;> rfl
  have hop2 : (cfg.JoinOpType == TJoinOp.LEFT_SEMI_JOIN ||
      cfg.JoinOpType == TJoinOp.LEFT_ANTI_JOIN ||
      cfg.JoinOpType == TJoinOp.NULL_AWARE_LEFT_ANTI_JOIN) = true := by
    rcases hop with h | h | h <;> rw [h] <;> rfl
  unfold do_process
  simp only [hv, hA, ho, if_true]
  unfold do_other_join_conjuncts
  simp only [hrows, hneq, Bool.false_eq_true, if_false, hhit, hop1, hop2, if_true]
  rw [← c1, ← c2]

/-- The LEFT_ANTI / NULL_AWARE_LEFT_ANTI rewrite with mark join on a block made of whole
groups: the last tuple of every group is kept, and the value pushed for the group is the
negation of "some tuple of the group has a build row and passes the conjuncts". -/
theorem anti_mark_applier (cfg : Config) (conj : OtherConjuncts) (d : ProbeState)
    (a0 : ApplierState) (Mid : List (Nat × List (RowRef × Bool)))
    (hop : cfg.JoinOpType ≠ TJoinOp.LEFT_SEMI_JOIN)
    (hRS : scratch_rows d = groups_rows Mid)
    (hrc : d.row_count_from_last_probe = 0)
    (hn : 0 < d.current_offset) (fc : List Bool)
    (hfc : fc = (scratch_rows d).map fun r => conj r.probe_index r.build)
    (a : ApplierState) (ha : a = left_anti_rewrite d fc d.current_offset true a0) :
    a.filter_map = groups_cells (fun _ _ => true) Mid ∧
    a.matched_map = a0.matched_map ++
      (Mid.flatMap fun g =>
        if g.2.isEmpty then [] else [!g.2.any (tuple_hit cfg conj g.1)]) ∧
    a.is_any_probe_match_row_output = a0.is_any_probe_match_row_output := by
  have hlenRS := scratch_rows_length d
  have hH : ∀ i, i < d.current_offset →
      ((d.visited_map.getD i none).isSome && fc.getD i false) =
      (fun r : ScratchRow => tuple_hit cfg conj r.probe_index (r.build, r.has_build))
        ⟨d.probe_indexs.getD i 0,
          ⟨d.build_block_offsets.getD i 0, d.build_block_rows.getD i 0⟩,
          (d.visited_map.getD i none).isSome, d.same_to_prev.getD i false⟩ := by
    intro i hi
    rw [hfc, scratch_rows_getD_map d _ i hi]
    simp only [tuple_hit_anti cfg conj hop]
  have hp0 := scratch_pairs d
    (fun i => ((d.visited_map.getD i none).isSome && fc.getD i false))
    (fun r : ScratchRow => tuple_hit cfg conj r.probe_index (r.build, r.has_build)) hH 0
  simp only [Nat.sub_zero, List.drop_zero] at hp0
  rw [hRS] at hp0
  have key := left_anti_rewrite_fm d fc d.current_offset true a0 hn (by omega)
  simp only [if_true, hrc, Nat.lt_irrefl, gt_iff_lt, false_and, if_false] at key
  rw [hp0, carry_fm_groups, List.tail_cons] at key
  have hl : (groups_fm (tuple_hit cfg conj) Mid).length = d.current_offset := by
    rw [groups_fm_length, ← hRS, hlenRS]
  have hne : groups_rows Mid ≠ [] := by
    intro h
    rw [← hRS] at h
    rw [h] at hlenRS
    simp at hlenRS
    omega
  have hcl := mark_rewrite_closed d.same_to_prev d.current_offset true
    { a0 with filter_map := groups_fm (tuple_hit cfg conj) Mid } hn hl
  have hQ := scratch_next_bits d 0 Mid [] [] rfl (by rw [hRS]; simp) hne
  rw [← hRS, hlenRS, Nat.add_zero] at hQ
  simp only [hQ] at hcl
  rw [ha, key, hcl]
  refine ⟨?_, ?_, rfl⟩
  · show List.zipWith _ _ _ = _
    exact zipWith_groups (fun x q => if q = true then x else true) (by simp)
      (tuple_hit cfg conj) Mid
  · show a0.matched_map ++ _ = _
    congr 1
    have := zip_groups_marks true (tuple_hit cfg conj) Mid
    simpa using this

theorem groups_rows_nil_row_out (cfg : Config) (conj : OtherConjuncts)
    (Mid : List (Nat × List (RowRef × Bool))) (h : groups_rows Mid = []) :
    (Mid.flatMap fun g => if row_out cfg conj g.1 g.2 then [g.1] else []) = [] := by
  rw [List.flatMap_eq_nil_iff]
  intro g hg
  have hg2 : g.2 = [] := by
    unfold groups_rows at h
    rw [List.flatMap_eq_nil_iff] at h
    have := h g hg
    exact List.eq_nil_of_length_eq_zero (by rw [← group_rows_length g.1 g.2, this]; rfl)
  rw [hg2]
  simp [row_out]

/-- One LEFT_SEMI / LEFT_ANTI / NULL_AWARE_LEFT_ANTI call with other conjuncts and without
mark join, on the scratch vectors made of the resumed tuples `PT` of probe row `ps`, the
groups `Mid` and the first tuples `ST` of the row list of `pd`: the probe rows output and the
state left. -/
theorem call_out (cfg : Config) (conj : OtherConjuncts) (probe : ProbeBatch)
    (probe_rows : Nat) (s : ProbeState) (ho : cfg.with_other_conjuncts = true)
    (hm : cfg.is_mark_join = false)
    (hb : 1 ≤ cfg.batch_size) (hne : rows_nonempty s.hash_table)
    (hkind : s.hash_table.kind ≠ RowRefKind.RowRefListWithFlag)
    (hop : cfg.JoinOpType = TJoinOp.LEFT_SEMI_JOIN ∨
      cfg.JoinOpType = TJoinOp.LEFT_ANTI_JOIN ∨
      cfg.JoinOpType = TJoinOp.NULL_AWARE_LEFT_ANTI_JOIN)
    (ps pd : Nat) (PT ST : List (RowRef × Bool)) (Mid : List (Nat × List (RowRef × Bool)))
    (hRS : scratch_rows (do_probe cfg probe probe_rows s) =
      group_rows ps PT ++ groups_rows Mid ++ group_rows pd ST)
    (hrc : (do_probe cfg probe probe_rows s).row_count_from_last_probe = PT.length)
    (hmu : (do_probe cfg probe probe_rows s).multi_matched_output_row_count = ST.length)
    (hmc : (do_probe cfg probe probe_rows s).mark_column = []) :
    let v := do_probe cfg probe probe_rows s
    do_process cfg conj probe probe_rows s =
      (Status.OK,
       { v with is_any_probe_match_row_output :=
          if ST ≠ [] then ST.any (tuple_hit cfg conj pd)
          else if PT ≠ [] ∧ v.is_any_probe_match_row_output = false then
            PT.any (tuple_hit cfg conj ps)
          else v.is_any_probe_match_row_output },
       ⟨(if v.is_any_probe_match_row_output = false ∧ PT ≠ [] ∧
            (if cfg.JoinOpType = TJoinOp.LEFT_SEMI_JOIN then PT.any (tuple_hit cfg conj ps)
             else (v.is_the_last_sub_block && !PT.any (tuple_hit cfg conj ps))) = true
          then [ps] else []) ++
        (Mid.flatMap fun g => if row_out cfg conj g.1 g.2 then [g.1] else []) ++
        (if cfg.JoinOpType = TJoinOp.LEFT_SEMI_JOIN ∧ ST.any (tuple_hit cfg conj pd) = true
          then [pd] else []), [], []⟩) := by
  intro v
  have hv : do_probe cfg probe probe_rows s = v := rfl
  rw [hv] at hRS hrc hmu hmc
  by_cases hn : 0 < v.current_offset
  · have key := do_process_left_semi_anti cfg conj probe probe_rows s ho hb hne hkind hop hn
    by_cases hsemi : cfg.JoinOpType = TJoinOp.LEFT_SEMI_JOIN
    · have hsb : (cfg.JoinOpType == TJoinOp.LEFT_SEMI_JOIN) = true := by rw [hsemi]; rfl
      simp only [hv, hm, Bool.false_eq_true, if_false, hsb, if_true] at key
      rw [key]
      simp only [hsemi, true_and, if_true]
      obtain ⟨a1, a2, a3, -⟩ := semi_applier cfg conj v _ ps pd PT ST Mid hsemi hRS hrc hmu hn
        _ rfl _ rfl
      rw [a1, a2, a3, hmc]
      have hro : (fun g : Nat × List (RowRef × Bool) =>
          if row_out cfg conj g.1 g.2 = true then [g.1] else []) =
          fun g => if g.2.any (tuple_hit cfg conj g.1) = true then [g.1] else [] := by
        funext g
        simp only [row_out, hsb, if_true]
      rw [hro]
      have hpre : (if v.is_any_probe_match_row_output = true then []
          else if PT.any (tuple_hit cfg conj ps) = true then [ps] else []) =
          (if v.is_any_probe_match_row_output = false ∧ PT ≠ [] ∧
            PT.any (tuple_hit cfg conj ps) = true then [ps] else []) := by
        cases v.is_any_probe_match_row_output
        · cases hpt : PT.any (tuple_hit cfg conj ps)
          · simp
          · have : PT ≠ [] := by
              intro h
              rw [h] at hpt
              simp at hpt
            simp [this]
        · simp
      rw [hpre]
    · have hsb : (cfg.JoinOpType == TJoinOp.LEFT_SEMI_JOIN) = false :=
        beq_eq_false_iff_ne.mpr hsemi
      simp only [hv, hm, Bool.false_eq_true, if_false, hsb] at key
      rw [key]
      simp only [hsemi, false_and, if_false, List.append_nil]
      obtain ⟨a1, a2, a3, -⟩ := anti_applier cfg conj v _ ps pd PT ST Mid hsemi hRS hrc hmu hn
        _ rfl _ rfl
      rw [a1, a2, a3, hmc]
      have hro : (fun g : Nat × List (RowRef × Bool) =>
          if row_out cfg conj g.1 g.2 = true then [g.1] else []) =
          fun g => if (!g.2.isEmpty && !g.2.any (tuple_hit cfg conj g.1)) = true
            then [g.1] else [] := by
        funext g
        simp only [row_out, hsb, Bool.false_eq_true, if_false]
      rw [hro]
      have hpre : (if PT ≠ [] ∧ v.is_any_probe_match_row_output = false ∧
          v.is_the_last_sub_block = true ∧ PT.any (tuple_hit cfg conj ps) = false
          then [ps] else []) =
          (if v.is_any_probe_match_row_output = false ∧ PT ≠ [] ∧
            (v.is_the_last_sub_block && !PT.any (tuple_hit cfg conj ps)) = true
          then [ps] else []) := by
        cases v.is_any_probe_match_row_output <;> cases v.is_the_last_sub_block <;>
          cases PT.any (tuple_hit cfg conj ps) <;> simp
      rw [hpre]
  · have h0 : v.current_offset = 0 := by omega
    have hlen := scratch_rows_length v
    rw [hRS, h0] at hlen
    simp only [List.length_append, group_rows_length] at hlen
    have hPT : PT = [] := List.eq_nil_of_length_eq_zero (by omega)
    have hST : ST = [] := List.eq_nil_of_length_eq_zero (by omega)
    have hMid : groups_rows Mid = [] := List.eq_nil_of_length_eq_zero (by omega)
    rw [do_process_other_empty cfg conj probe probe_rows s ho h0, hv, hmc,
      groups_rows_nil_row_out cfg conj Mid hMid, hPT, hST]
    simp only [ne_eq, not_true_eq_false, if_false, false_and, and_false, List.any_nil,
      Bool.false_eq_true, List.append_nil]
    rw [← hmc]

theorem range'_split (lo mid hi : Nat) (h1 : lo ≤ mid) (h2 : mid ≤ hi) :
    List.range' lo (hi - lo) = List.range' lo (mid - lo) ++ List.range' mid (hi - mid) := by
  have e : lo + (mid - lo) = mid := by omega
  have := List.range'_append_1 lo (mid - lo) (hi - mid)
  rw [e] at this
  rw [this]
  congr 1
  omega

theorem rows_out_split (cfg : Config) (conj : OtherConjuncts) (probe : ProbeBatch)
    (entries : List (Int × Mapped)) (lo mid hi : Nat) (h1 : lo ≤ mid) (h2 : mid ≤ hi) :
    rows_out cfg conj probe entries lo hi =
      rows_out cfg conj probe entries lo mid ++ rows_out cfg conj probe entries mid hi := by
  unfold rows_out
  rw [range'_split lo mid hi h1 h2, List.filter_append]

theorem rows_out_first (cfg : Config) (conj : OtherConjuncts) (probe : ProbeBatch)
    (entries : List (Int × Mapped)) (lo hi : Nat) (h : lo < hi) :
    rows_out cfg conj probe entries lo hi =
      (if row_out cfg conj lo (other_row_tuples cfg probe entries lo) then [lo] else []) ++
        rows_out cfg conj probe entries (lo + 1) hi := by
  unfold rows_out
  obtain ⟨k, hk⟩ : ∃ k, hi - lo = k + 1 := ⟨hi - lo - 1, by omega⟩
  have e : hi - (lo + 1) = k := by omega
  rw [hk, e, List.range'_succ, List.filter_cons]
  split_ifs <;> rfl

theorem rows_out_mem (cfg : Config) (conj : OtherConjuncts) (probe : ProbeBatch)
    (entries : List (Int × Mapped)) (lo hi i : Nat)
    (h : i ∈ rows_out cfg conj probe entries lo hi) : lo ≤ i ∧ i < hi := by
  unfold rows_out at h
  have := List.mem_range'_1.mp (List.mem_filter.mp h).1
  omega

theorem rows_bound_split (cfg : Config) (probe : ProbeBatch)
    (entries : List (Int × Mapped)) (lo mid hi : Nat) (h1 : lo ≤ mid) (h2 : mid ≤ hi) :
    rows_bound cfg probe entries lo hi =
      rows_bound cfg probe entries lo mid + rows_bound cfg probe entries mid hi := by
  unfold rows_bound
  rw [range'_split lo mid hi h1 h2, List.map_append, List.sum_append]

theorem rows_bound_first (cfg : Config) (probe : ProbeBatch)
    (entries : List (Int × Mapped)) (lo hi : Nat) (h : lo < hi) :
    rows_bound cfg probe entries lo hi =
      (other_row_tuples cfg probe entries lo).length + 1 +
        rows_bound cfg probe entries (lo + 1) hi := by
  unfold rows_bound
  obtain ⟨k, hk⟩ : ∃ k, hi - lo = k + 1 := ⟨hi - lo - 1, by omega⟩
  have e : hi - (lo + 1) = k := by omega
  rw [hk, e, List.range'_succ, List.map_cons, List.sum_cons]

theorem rows_bound_pos (cfg : Config) (probe : ProbeBatch)
    (entries : List (Int × Mapped)) (lo hi : Nat) (h : lo < hi) :
    0 < rows_bound cfg probe entries lo hi := by
  rw [rows_bound_first cfg probe entries lo hi h]
  omega

theorem rows_records_groups (cfg : Config) (probe : ProbeBatch)
    (entries : List (Int × Mapped)) (lo hi : Nat) :
    rows_records cfg probe entries lo hi =
      groups_rows ((List.range' lo (hi - lo)).map fun i =>
        (i, other_row_tuples cfg probe entries i)) := by
  unfold rows_records groups_rows
  rw [List.flatMap_map]

theorem groups_out_filter (cfg : Config) (conj : OtherConjuncts) (probe : ProbeBatch)
    (entries : List (Int × Mapped)) (lo hi : Nat) :
    (((List.range' lo (hi - lo)).map fun i =>
      (i, other_row_tuples cfg probe entries i)).flatMap fun g =>
        if row_out cfg conj g.1 g.2 then [g.1] else []) =
      rows_out cfg conj probe entries lo hi := by
  unfold rows_out
  rw [List.flatMap_map]
  generalize List.range' lo (hi - lo) = l
  induction l with
  | nil => rfl
  | cons a l ih =>
    rw [List.flatMap_cons, ih, List.filter_cons]
    split_ifs <;> rfl

/-- The output of a sub-block `A` of a probe row followed by what stays pending with the
rest `B` of its tuples is what was pending before the sub-block. -/
theorem pending_combine (cfg : Config) (conj : OtherConjuncts) (i : Nat)
    (A B : List (RowRef × Bool)) (ia : Bool) (hA : A ≠ []) (hB : B ≠ []) :
    (if ia = false ∧ A ≠ [] ∧
        (if cfg.JoinOpType = TJoinOp.LEFT_SEMI_JOIN then A.any (tuple_hit cfg conj i)
         else (false && !A.any (tuple_hit cfg conj i))) = true then [i] else []) ++
      (if (true && !(if A ≠ [] ∧ ia = false then A.any (tuple_hit cfg conj i) else ia) &&
        row_out cfg conj i B) = true then [i] else []) =
    if (true && !ia && row_out cfg conj i (A ++ B)) = true then [i] else [] := by
  have hBe : B.isEmpty = false := by cases B <;> simp_all
  have hABe : (A ++ B).isEmpty = false := by cases A <;> simp_all
  unfold row_out
  rw [List.any_append, hBe, hABe]
  by_cases hs : cfg.JoinOpType = TJoinOp.LEFT_SEMI_JOIN
  · have hsb : (cfg.JoinOpType == TJoinOp.LEFT_SEMI_JOIN) = true := by rw [hs]; rfl
    simp only [hs, hsb, if_true]
    cases ia <;> cases A.any (tuple_hit cfg conj i) <;> cases B.any (tuple_hit cfg conj i) <;>
      simp [hA]
  · have hsb : (cfg.JoinOpType == TJoinOp.LEFT_SEMI_JOIN) = false := beq_eq_false_iff_ne.mpr hs
    simp only [hs, hsb, if_false, Bool.false_eq_true]
    cases ia <;> cases A.any (tuple_hit cfg conj i) <;> cases B.any (tuple_hit cfg conj i) <;>
      simp [hA]

/-- A call whose resumed row list does not fit in the batch. -/
theorem call_step_split (cfg : Config) (conj : OtherConjuncts) (probe : ProbeBatch)
    (probe_rows : Nat) (s : ProbeState) (ho : cfg.with_other_conjuncts = true)
    (hm : cfg.is_mark_join = false)
    (hb : 1 ≤ cfg.batch_size) (hne : rows_nonempty s.hash_table)
    (hkind : s.hash_table.kind ≠ RowRefKind.RowRefListWithFlag)
    (hop : cfg.JoinOpType = TJoinOp.LEFT_SEMI_JOIN ∨
      cfg.JoinOpType = TJoinOp.LEFT_ANTI_JOIN ∨
      cfg.JoinOpType = TJoinOp.NULL_AWARE_LEFT_ANTI_JOIN)
    (hw : s.probe_index + s.probe_row_match_iter.ok.toNat ≤ probe_rows)
    (hok : s.probe_row_match_iter.ok = true)
    (hlt : cfg.batch_size < s.probe_row_match_iter.rest.length) :
    CallOk cfg conj probe probe_rows s (do_process cfg conj probe probe_rows s) := by
  obtain ⟨c1, c2, -, -, c5⟩ := do_probe_shape_common cfg probe probe_rows s ho hkind
  obtain ⟨c5a, c5b⟩ := c5 hok
  obtain ⟨h1, h2, h3, h4, h5⟩ := do_probe_shape_split cfg probe probe_rows s ho hb hok hlt
  have hmin : min cfg.batch_size s.probe_row_match_iter.rest.length = cfg.batch_size :=
    Nat.min_eq_left (by omega)
  have hls : (do_probe cfg probe probe_rows s).is_the_last_sub_block = false := by
    rw [c5b]
    exact decide_eq_false (by omega)
  obtain ⟨A, hAdef⟩ : ∃ A, A =
      (s.probe_row_match_iter.rest.map fun r => (r, true)).take cfg.batch_size := ⟨_, rfl⟩
  obtain ⟨B, hBdef⟩ : ∃ B, B =
      (s.probe_row_match_iter.rest.drop cfg.batch_size).map fun r => (r, true) := ⟨_, rfl⟩
  have hAB : (s.probe_row_match_iter.rest.map fun r => (r, true)) = A ++ B := by
    rw [hAdef, hBdef, List.map_drop, List.take_append_drop]
  have hAlen : A.length = cfg.batch_size := by
    rw [hAdef, List.length_take, List.length_map]
    omega
  have hA : A ≠ [] := by
    intro h
    rw [h] at hAlen
    simp at hAlen
    omega
  have hB : B ≠ [] := by
    intro h
    have : B.length = s.probe_row_match_iter.rest.length - cfg.batch_size := by
      rw [hBdef, List.length_map, List.length_drop]
    rw [h] at this
    simp at this
    omega
  rw [← hAdef] at h1
  have key := call_out cfg conj probe probe_rows s ho hm hb hne hkind hop s.probe_index 0
    A [] [] (by rw [h1]; simp [groups_rows, group_rows]) (by rw [c5a, hmin, hAlen])
    (by rw [h4]; rfl) h5
  simp only [c2, hls, List.flatMap_nil, List.append_nil, ne_eq, not_true_eq_false, if_false,
    List.any_nil, Bool.false_eq_true, and_false] at key
  have hok' : (do_probe cfg probe probe_rows s).probe_row_match_iter.ok = true := by
    rw [h3, ok_eq_true_iff]
    intro h
    apply hB
    rw [hBdef]
    simp only at h
    rw [h]
    rfl
  have hok2 := hok'
  rw [h3] at hok2
  rw [key]
  refine ⟨rfl, c1, ?_, ?_, ?_, rfl, rfl, ?_⟩
  · show (do_probe cfg probe probe_rows s).probe_index +
      (do_probe cfg probe probe_rows s).probe_row_match_iter.ok.toNat ≤ probe_rows
    rw [h2, hok']
    rw [hok] at hw
    exact hw
  · unfold expected_out pending_out
    simp only [hok', h2, hok, h3, hok2, ← hBdef, hAB]
    rw [← List.append_assoc]
    congr 1
    exact pending_combine cfg conj s.probe_index A B s.is_any_probe_match_row_output hA hB
  · intro _
    unfold calls_bound
    simp only [hok', h2, hok, h3, hok2, List.length_drop]
    omega
  · intro hanti i hi
    simp only [hanti, if_false, Bool.false_and, Bool.false_eq_true, and_false,
      List.not_mem_nil] at hi

theorem pending_prefix (cfg : Config) (conj : OtherConjuncts) (i : Nat)
    (T : List (RowRef × Bool)) (ia ls ok : Bool) (h1 : ok = true ↔ T ≠ [])
    (h2 : ok = true → ls = true) :
    (if ia = false ∧ T ≠ [] ∧
        (if cfg.JoinOpType = TJoinOp.LEFT_SEMI_JOIN then T.any (tuple_hit cfg conj i)
         else (ls && !T.any (tuple_hit cfg conj i))) = true then [i] else []) =
    if (ok && !ia && row_out cfg conj i T) = true then [i] else [] := by
  unfold row_out
  cases hok : ok
  · have hT : T = [] := by
      by_contra hne
      have := h1.mpr hne
      rw [hok] at this
      exact Bool.noConfusion this
    simp [hT]
  · have hT : T ≠ [] := h1.mp hok
    have hTe : T.isEmpty = false := by cases T <;> simp_all
    rw [h2 hok, hTe]
    by_cases hs : cfg.JoinOpType = TJoinOp.LEFT_SEMI_JOIN
    · have hsb : (cfg.JoinOpType == TJoinOp.LEFT_SEMI_JOIN) = true := by rw [hs]; rfl
      simp only [hs, hsb, if_true]
      cases ia <;> cases T.any (tuple_hit cfg conj i) <;> simp [hT]
    · have hsb : (cfg.JoinOpType == TJoinOp.LEFT_SEMI_JOIN) = false :=
        beq_eq_false_iff_ne.mpr hs
      simp only [hs, hsb, if_false, Bool.false_eq_true]
      cases ia <;> cases T.any (tuple_hit cfg conj i) <;> simp [hT]

theorem suffix_combine (cfg : Config) (conj : OtherConjuncts) (i : Nat)
    (A B : List (RowRef × Bool)) (x : Bool) (hA : A ≠ []) (hB : B ≠ []) :
    (if cfg.JoinOpType = TJoinOp.LEFT_SEMI_JOIN ∧ A.any (tuple_hit cfg conj i) = true
        then [i] else []) ++
      (if (true && !(if A ≠ [] then A.any (tuple_hit cfg conj i) else x) &&
        row_out cfg conj i B) = true then [i] else []) =
    if row_out cfg conj i (A ++ B) = true then [i] else [] := by
  have hBe : B.isEmpty = false := by cases B <;> simp_all
  have hABe : (A ++ B).isEmpty = false := by cases A <;> simp_all
  unfold row_out
  rw [List.any_append, hBe, hABe, if_pos hA]
  by_cases hs : cfg.JoinOpType = TJoinOp.LEFT_SEMI_JOIN
  · have hsb : (cfg.JoinOpType == TJoinOp.LEFT_SEMI_JOIN) = true := by rw [hs]; rfl
    simp only [hs, hsb, if_true]
    cases A.any (tuple_hit cfg conj i) <;> cases B.any (tuple_hit cfg conj i) <;> simp
  · have hsb : (cfg.JoinOpType == TJoinOp.LEFT_SEMI_JOIN) = false := beq_eq_false_iff_ne.mpr hs
    simp only [hs, hsb, if_false, Bool.false_eq_true]
    cases A.any (tuple_hit cfg conj i) <;> cases B.any (tuple_hit cfg conj i) <;> simp

/-- A call that finishes the resumed row list (if any) and runs the probe loop. -/
theorem call_step_run (cfg : Config) (conj : OtherConjuncts) (probe : ProbeBatch)
    (probe_rows : Nat) (s : ProbeState) (ho : cfg.with_other_conjuncts = true)
    (hm : cfg.is_mark_join = false)
    (hb : 1 ≤ cfg.batch_size) (hne : rows_nonempty s.hash_table)
    (hkind : s.hash_table.kind ≠ RowRefKind.RowRefListWithFlag)
    (hop : cfg.JoinOpType = TJoinOp.LEFT_SEMI_JOIN ∨
      cfg.JoinOpType = TJoinOp.LEFT_ANTI_JOIN ∨
      cfg.JoinOpType = TJoinOp.NULL_AWARE_LEFT_ANTI_JOIN)
    (hw : s.probe_index + s.probe_row_match_iter.ok.toNat ≤ probe_rows)
    (hfit : s.probe_row_match_iter.rest.length ≤ cfg.batch_size) :
    CallOk cfg conj probe probe_rows s (do_process cfg conj probe probe_rows s) := by
  obtain ⟨c1, c2, c3, c4, c5⟩ := do_probe_shape_common cfg probe probe_rows s ho hkind
  obtain ⟨r1, r2, r3, r4, r5⟩ := do_probe_shape_run cfg probe probe_rows s ho hb hkind hne hfit
  have hwithin := do_probe_within cfg probe probe_rows s hw
  obtain ⟨T, hT⟩ : ∃ T, T = s.probe_row_match_iter.rest.map fun r => (r, true) := ⟨_, rfl⟩
  obtain ⟨p, hp⟩ : ∃ p, p = s.probe_index + s.probe_row_match_iter.ok.toNat := ⟨_, rfl⟩
  obtain ⟨d, hd⟩ : ∃ d, d = do_probe cfg probe probe_rows s := ⟨_, rfl⟩
  rw [← hT, ← hp, ← hd] at r4 r5
  rw [← hp, ← hd] at r1
  rw [← hd] at r2 r3 c1 c2 c3 c4 c5 hwithin
  rw [← hp] at hw
  have hTlen : T.length = s.probe_row_match_iter.rest.length := by rw [hT, List.length_map]
  have hokT : s.probe_row_match_iter.ok = true ↔ T ≠ [] := by
    rw [ok_eq_true_iff, hT]
    simp
  have hrcT : d.row_count_from_last_probe = T.length := by
    cases hok : s.probe_row_match_iter.ok
    · rw [c4 hok, hTlen, (ok_eq_false_iff _).mp hok]
      rfl
    · rw [(c5 hok).1, hTlen]
      exact Nat.min_eq_right hfit
  have hls : s.probe_row_match_iter.ok = true → d.is_the_last_sub_block = true := by
    intro hok
    rw [(c5 hok).2]
    exact decide_eq_true hfit
  have hpre := pending_prefix cfg conj s.probe_index T s.is_any_probe_match_row_output
    d.is_the_last_sub_block s.probe_row_match_iter.ok hokT hls
  have hps : s.probe_index ≤ p := by omega
  obtain ⟨Mid, hMid⟩ : ∃ Mid, Mid = (List.range' p (d.probe_index - p)).map fun i =>
      (i, other_row_tuples cfg probe s.hash_table.entries i) := ⟨_, rfl⟩
  have hrec : rows_records cfg probe s.hash_table.entries p d.probe_index = groups_rows Mid := by
    rw [hMid]
    exact rows_records_groups cfg probe s.hash_table.entries p d.probe_index
  have hmid : (Mid.flatMap fun g => if row_out cfg conj g.1 g.2 then [g.1] else []) =
      rows_out cfg conj probe s.hash_table.entries p d.probe_index := by
    rw [hMid]
    exact groups_out_filter cfg conj probe s.hash_table.entries p d.probe_index
  cases hdok : d.probe_row_match_iter.ok
  · obtain ⟨q1, q2⟩ := r4 hdok
    have hpR : d.probe_index ≤ probe_rows := by
      rw [hdok] at hwithin
      simpa using hwithin
    have key := call_out cfg conj probe probe_rows s ho hm hb hne hkind hop s.probe_index 0
      T [] Mid (by rw [← hd, q1, hrec]; simp [group_rows]) (by rw [← hd, hrcT])
      (by rw [← hd, q2]; rfl) (by rw [← hd, r2])
    simp only [← hd, c2, List.append_nil, ne_eq, not_true_eq_false, if_false,
      List.any_nil, Bool.false_eq_true, and_false, hmid] at key
    rw [hpre] at key
    rw [key]
    refine ⟨rfl, c1, hwithin, ?_, ?_, rfl, rfl, ?_⟩
    · unfold expected_out pending_out
      simp only [hdok, Bool.false_and, Bool.false_eq_true, if_false, List.nil_append,
        Bool.toNat_false, Nat.add_zero, ← hT, ← hp]
      rw [rows_out_split cfg conj probe s.hash_table.entries p d.probe_index probe_rows r1 hpR,
        List.append_assoc]
    · intro hex
      unfold calls_bound
      simp only [hdok, Bool.toNat_false, Nat.add_zero, ← hp]
      have hrest : d.probe_row_match_iter.rest = [] := (ok_eq_false_iff _).mp hdok
      rw [hrest, rows_bound_split cfg probe s.hash_table.entries p d.probe_index probe_rows r1 hpR]
      simp only [List.length_nil, Nat.zero_add]
      cases hok : s.probe_row_match_iter.ok
      · have hne2 : s.probe_index ≠ probe_rows := by
          intro h
          have := (batch_exhausted_iff probe_rows s).mpr ⟨h, hok⟩
          rw [this] at hex
          exact Bool.noConfusion hex
        have hpe : p = s.probe_index := by rw [hp, hok]; rfl
        have hlt : p < d.probe_index := by
          by_contra hcon
          have hpeq : d.probe_index = p := by omega
          apply r3
          have hTnil : T = [] := by
            by_contra hne3
            have := hokT.mpr hne3
            rw [hok] at this
            exact Bool.noConfusion this
          have hco : d.current_offset = 0 := by
            rw [c3, q1, hpeq, rows_records_self, hTnil]
            rfl
          exact ⟨by omega, by omega⟩
        have := rows_bound_pos cfg probe s.hash_table.entries p d.probe_index hlt
        omega
      · have : 0 < s.probe_row_match_iter.rest.length :=
          List.length_pos.mpr ((ok_eq_true_iff _).mp hok)
        omega
    · intro hanti i hi
      rw [List.mem_append] at hi
      rcases hi with hi | hi
      · by_cases hc : (s.probe_row_match_iter.ok && !s.is_any_probe_match_row_output &&
            row_out cfg conj s.probe_index T) = true
        · rw [if_pos hc, List.mem_singleton] at hi
          have hok : s.probe_row_match_iter.ok = true := by
            simp only [Bool.and_eq_true] at hc
            exact hc.1.1
          rw [hok] at hp
          show s.probe_index ≤ i ∧ i < d.probe_index
          rw [hi]
          simp only [Bool.toNat_true] at hp
          omega
        · rw [if_neg hc] at hi
          exact absurd hi (List.not_mem_nil _)
      · have := rows_out_mem cfg conj probe s.hash_table.entries p d.probe_index i hi
        show s.probe_index ≤ i ∧ i < d.probe_index
        omega
  · obtain ⟨-, e, q1, q2, q3, q4, q5⟩ := r5 hdok
    have hpR : d.probe_index < probe_rows := by
      rw [hdok] at hwithin
      simp only [Bool.toNat_true] at hwithin
      omega
    obtain ⟨rows, hrows⟩ : ∃ rows, rows = entry_rows s.hash_table.entries e := ⟨_, rfl⟩
    rw [← hrows] at q3 q4 q5
    obtain ⟨A, hAdef⟩ : ∃ A, A =
        (rows.map fun r => (r, true)).take d.multi_matched_output_row_count := ⟨_, rfl⟩
    obtain ⟨B, hBdef⟩ : ∃ B, B =
        (rows.drop d.multi_matched_output_row_count).map fun r => (r, true) := ⟨_, rfl⟩
    have hAB : other_row_tuples cfg probe s.hash_table.entries d.probe_index = A ++ B := by
      rw [other_row_tuples_found cfg probe s.hash_table.entries d.probe_index e q1, ← hrows,
        hAdef, hBdef, List.map_drop, List.take_append_drop]
    have hAlen : A.length = d.multi_matched_output_row_count := by
      rw [hAdef, List.length_take, List.length_map]
      omega
    have hA : A ≠ [] := by
      intro h
      rw [h] at hAlen
      simp at hAlen
      omega
    have hBlen : B.length = rows.length - d.multi_matched_output_row_count := by
      rw [hBdef, List.length_map, List.length_drop]
    have hB : B ≠ [] := by
      intro h
      rw [h] at hBlen
      simp at hBlen
      omega
    rw [← hAdef] at q5
    have key := call_out cfg conj probe probe_rows s ho hm hb hne hkind hop s.probe_index
      d.probe_index T A Mid (by rw [← hd, q5, hrec]) (by rw [← hd, hrcT])
      (by rw [← hd, hAlen]) (by rw [← hd, r2])
    simp only [← hd, c2, hmid] at key
    rw [hpre] at key
    rw [key]
    have hok2 := hdok
    rw [q4] at hok2
    refine ⟨rfl, c1, hwithin, ?_, ?_, rfl, rfl, ?_⟩
    · unfold expected_out pending_out
      simp only [hdok, q4, hok2, Bool.toNat_true, ← hT, ← hp, ← hBdef]
      rw [rows_out_split cfg conj probe s.hash_table.entries p d.probe_index probe_rows r1
          (by omega),
        rows_out_first cfg conj probe s.hash_table.entries d.probe_index probe_rows hpR, hAB,
        ← suffix_combine cfg conj d.probe_index A B
          (if T ≠ [] ∧ s.is_any_probe_match_row_output = false then
            T.any (tuple_hit cfg conj s.probe_index)
           else s.is_any_probe_match_row_output) hA hB]
      simp only [List.append_assoc]
    · intro _
      unfold calls_bound
      simp only [hdok, q4, hok2, Bool.toNat_true, ← hp, List.length_drop]
      rw [rows_bound_split cfg probe s.hash_table.entries p d.probe_index probe_rows r1
          (by omega),
        rows_bound_first cfg probe s.hash_table.entries d.probe_index probe_rows hpR, hAB,
        List.length_append, hBlen]
      omega
    · intro hanti i hi
      simp only [hanti, false_and, if_false, List.append_nil] at hi
      rw [List.mem_append] at hi
      rcases hi with hi | hi
      · by_cases hc : (s.probe_row_match_iter.ok && !s.is_any_probe_match_row_output &&
            row_out cfg conj s.probe_index T) = true
        · rw [if_pos hc, List.mem_singleton] at hi
          have hok : s.probe_row_match_iter.ok = true := by
            simp only [Bool.and_eq_true] at hc
            exact hc.1.1
          rw [hok] at hp
          show s.probe_index ≤ i ∧ i < d.probe_index
          rw [hi]
          simp only [Bool.toNat_true] at hp
          omega
        · rw [if_neg hc] at hi
          exact absurd hi (List.not_mem_nil _)
      · have := rows_out_mem cfg conj probe s.hash_table.entries p d.probe_index i hi
        show s.probe_index ≤ i ∧ i < d.probe_index
        omega

/-- One LEFT_SEMI / LEFT_ANTI / NULL_AWARE_LEFT_ANTI call with other conjuncts, without mark
join, on a hash table with per-row flags. -/
theorem call_step (cfg : Config) (conj : OtherConjuncts) (probe : ProbeBatch)
    (probe_rows : Nat) (s : ProbeState) (ho : cfg.with_other_conjuncts = true)
    (hm : cfg.is_mark_join = false)
    (hb : 1 ≤ cfg.batch_size) (hne : rows_nonempty s.hash_table)
    (hkind : s.hash_table.kind = RowRefKind.RowRefListWithFlags)
    (hop : cfg.JoinOpType = TJoinOp.LEFT_SEMI_JOIN ∨
      cfg.JoinOpType = TJoinOp.LEFT_ANTI_JOIN ∨
      cfg.JoinOpType = TJoinOp.NULL_AWARE_LEFT_ANTI_JOIN)
    (hw : s.probe_index + s.probe_row_match_iter.ok.toNat ≤ probe_rows) :
    CallOk cfg conj probe probe_rows s (process cfg conj probe probe_rows s Block.empty) := by
  rw [process_other_eq cfg conj probe probe_rows s Block.empty hkind]
  have hk : s.hash_table.kind ≠ RowRefKind.RowRefListWithFlag := by
    rw [hkind]
    exact fun h => RowRefKind.noConfusion h
  by_cases hfit : s.probe_row_match_iter.rest.length ≤ cfg.batch_size
  · exact call_step_run cfg conj probe probe_rows s ho hm hb hne hk hop hw hfit
  · have hok : s.probe_row_match_iter.ok = true := by
      rw [ok_eq_true_iff]
      intro h
      rw [h] at hfit
      exact hfit (Nat.zero_le _)
    exact call_step_split cfg conj probe probe_rows s ho hm hb hne hk hop hw hok (by omega)

theorem expected_out_exhausted (cfg : Config) (conj : OtherConjuncts) (probe : ProbeBatch)
    (entries : List (Int × Mapped)) (probe_rows : Nat) (s : ProbeState)
    (h : batch_exhausted probe_rows s = true) :
    expected_out cfg conj probe entries probe_rows s = [] := by
  obtain ⟨h1, h2⟩ := (batch_exhausted_iff probe_rows s).mp h
  unfold expected_out pending_out rows_out
  simp [h1, h2]

/-- Repeated LEFT_SEMI / LEFT_ANTI / NULL_AWARE_LEFT_ANTI calls with other conjuncts and
without mark join: given enough calls the batch is exhausted, and the probe rows output over
all calls are those expected at the start. -/
theorem process_until_exhausted_out (cfg : Config) (conj : OtherConjuncts)
    (probe : ProbeBatch) (probe_rows : Nat) (ht : HashTable)
    (ho : cfg.with_other_conjuncts = true) (hm : cfg.is_mark_join = false)
    (hb : 1 ≤ cfg.batch_size) (hne : rows_nonempty ht)
    (hkind : ht.kind = RowRefKind.RowRefListWithFlags)
    (hop : cfg.JoinOpType = TJoinOp.LEFT_SEMI_JOIN ∨
      cfg.JoinOpType = TJoinOp.LEFT_ANTI_JOIN ∨
      cfg.JoinOpType = TJoinOp.NULL_AWARE_LEFT_ANTI_JOIN) :
    ∀ (fuel : Nat) (s : ProbeState), s.hash_table = ht →
      s.probe_index + s.probe_row_match_iter.ok.toNat ≤ probe_rows →
      calls_bound cfg probe ht.entries probe_rows s +
        (if batch_exhausted probe_rows s then 0 else 1) ≤ fuel →
      ((process_until_exhausted cfg conj probe probe_rows fuel s).1.flatMap Block.probe =
        expected_out cfg conj probe ht.entries probe_rows s) ∧
      batch_exhausted probe_rows
        (process_until_exhausted cfg conj probe probe_rows fuel s).2 = true := by
  intro fuel
  induction fuel with
  | zero =>
    intro s _ _ hf
    have hex : batch_exhausted probe_rows s = true := by
      by_contra hne2
      simp [hne2] at hf
    simp [process_until_exhausted, hex, expected_out_exhausted cfg conj probe ht.entries
      probe_rows s hex]
  | succ n ih =>
    intro s hs hw hf
    by_cases hex : batch_exhausted probe_rows s = true
    · simp [process_until_exhausted, hex, expected_out_exhausted cfg conj probe ht.entries
        probe_rows s hex]
    · have hexf : batch_exhausted probe_rows s = false := by
        cases h : batch_exhausted probe_rows s
        · rfl
        · exact absurd h hex
      simp only [hexf, Bool.false_eq_true, if_false] at hf
      obtain ⟨-, s2, s3, s4, s5, -, -, -⟩ := call_step cfg conj probe probe_rows s ho hm hb
        (by rw [hs]; exact hne) (by rw [hs]; exact hkind) hop hw
      rw [hs] at s2 s4 s5
      have hlt := s5 hexf
      obtain ⟨i1, i2⟩ := ih _ s2 s3 (by split_ifs <;> omega)
      simp only [process_until_exhausted, hexf, Bool.false_eq_true, if_false]
      refine ⟨?_, i2⟩
      rw [List.flatMap_cons, i1, s4]

theorem count_filter_range (f : Nat → Bool) (n i : Nat) :
    ((List.range n).filter f).count i = if i < n ∧ f i = true then 1 else 0 := by
  by_cases h : i < n ∧ f i = true
  · rw [if_pos h, List.count_filter h.2]
    exact List.count_eq_one_of_mem (List.nodup_range n) (List.mem_range.mpr h.1)
  · rw [if_neg h, List.count_eq_zero]
    intro hmem
    obtain ⟨h1, h2⟩ := List.mem_filter.mp hmem
    exact h ⟨List.mem_range.mp h1, h2⟩

theorem expected_out_fresh (cfg : Config) (conj : OtherConjuncts) (probe : ProbeBatch)
    (ht : HashTable) (probe_rows : Nat) :
    expected_out cfg conj probe ht.entries probe_rows (ProbeState.fresh ht) =
      (List.range probe_rows).filter fun i =>
        row_out cfg conj i (other_row_tuples cfg probe ht.entries i) := by
  unfold expected_out pending_out rows_out
  simp [ProbeState.fresh, ForwardIterator.empty, ForwardIterator.ok, List.range_eq_range']

theorem calls_bound_fresh (cfg : Config) (probe : ProbeBatch) (ht : HashTable)
    (probe_rows : Nat) :
    calls_bound cfg probe ht.entries probe_rows (ProbeState.fresh ht) =
      rows_bound cfg probe ht.entries 0 probe_rows := by
  unfold calls_bound
  simp [ProbeState.fresh, ForwardIterator.empty, ForwardIterator.ok]

/-- The tuples of a probe row in LEFT_SEMI with other conjuncts and without mark join: the
row list of its key when the key is found, none otherwise. -/
theorem semi_row_tuples (cfg : Config) (probe : ProbeBatch) (entries : List (Int × Mapped))
    (i : Nat) (hop : cfg.JoinOpType = TJoinOp.LEFT_SEMI_JOIN) (hm : cfg.is_mark_join = false) :
    other_row_tuples cfg probe entries i =
      match find_result cfg probe entries i with
      | some e => (entry_rows entries e).map fun r => (r, true)
      | none => [] := by
  cases hf : find_result cfg probe entries i with
  | some e => exact other_row_tuples_found cfg probe entries i e hf
  | none =>
    unfold other_row_tuples pads_not_found
    rw [hf, hop, hm]
    simp [probe_all]

/-- What the calls that exhaust a probe batch output in LEFT_SEMI / LEFT_ANTI /
NULL_AWARE_LEFT_ANTI with other conjuncts and without mark join, from the fresh state: the
probe rows `i` with `row_out` on their tuples, each once. -/
theorem exhausted_out_count (cfg : Config) (conj : OtherConjuncts) (probe : ProbeBatch)
    (probe_rows : Nat) (ht : HashTable) (fuel : Nat)
    (ho : cfg.with_other_conjuncts = true) (hm : cfg.is_mark_join = false)
    (hb : 1 ≤ cfg.batch_size) (hne : rows_nonempty ht)
    (hkind : ht.kind = RowRefKind.RowRefListWithFlags)
    (hop : cfg.JoinOpType = TJoinOp.LEFT_SEMI_JOIN ∨
      cfg.JoinOpType = TJoinOp.LEFT_ANTI_JOIN ∨
      cfg.JoinOpType = TJoinOp.NULL_AWARE_LEFT_ANTI_JOIN)
    (hfuel : rows_bound cfg probe ht.entries 0 probe_rows < fuel) :
    batch_exhausted probe_rows
        (process_until_exhausted cfg conj probe probe_rows fuel (ProbeState.fresh ht)).2 =
      true ∧
    ∀ i, ((process_until_exhausted cfg conj probe probe_rows fuel
        (ProbeState.fresh ht)).1.flatMap Block.probe).count i =
      if i < probe_rows ∧ row_out cfg conj i (other_row_tuples cfg probe ht.entries i) = true
      then 1 else 0 := by
  obtain ⟨h1, h2⟩ := process_until_exhausted_out cfg conj probe probe_rows ht ho hm hb hne hkind
    hop fuel (ProbeState.fresh ht) rfl (fresh_within ht probe_rows) (by
      rw [calls_bound_fresh]
      split_ifs <;> omega)
  refine ⟨h2, ?_⟩
  intro i
  rw [h1, expected_out_fresh, count_filter_range]

/-- C11: LEFT_SEMI with other conjuncts, without mark join, on a hash table with per-row
flags and non-empty row lists, `batch_size ≥ 1`. Over the calls that exhaust a probe batch
(`fuel` calls are enough as soon as `fuel` exceeds the number of equi-matched tuples plus the
number of probe rows), every probe row is output at most once over all the calls that handle
its tuples, whether or not its row list is split across calls, and exactly once iff its key
is found and at least one build row of the key's row list passes the other conjuncts. -/
theorem C11_left_semi_at_most_one (cfg : Config) (conj : OtherConjuncts) (probe : ProbeBatch)
    (probe_rows : Nat) (ht : HashTable) (fuel : Nat)
    (hop : cfg.JoinOpType = TJoinOp.LEFT_SEMI_JOIN)
    (ho : cfg.with_other_conjuncts = true) (hm : cfg.is_mark_join = false)
    (hkind : ht.kind = RowRefKind.RowRefListWithFlags) (hne : rows_nonempty ht)
    (hb : 1 ≤ cfg.batch_size)
    (hfuel : rows_bound cfg probe ht.entries 0 probe_rows < fuel) :
    batch_exhausted probe_rows
        (process_until_exhausted cfg conj probe probe_rows fuel (ProbeState.fresh ht)).2 =
      true ∧
    ∀ i,
      ((process_until_exhausted cfg conj probe probe_rows fuel
        (ProbeState.fresh ht)).1.flatMap Block.probe).count i ≤ 1 ∧
      (((process_until_exhausted cfg conj probe probe_rows fuel
        (ProbeState.fresh ht)).1.flatMap Block.probe).count i = 1 ↔
        i < probe_rows ∧ ∃ e, find_result cfg probe ht.entries i = some e ∧
          ∃ r ∈ entry_rows ht.entries e, conj i r = true) := by
  obtain ⟨h1, h2⟩ := exhausted_out_count cfg conj probe probe_rows ht fuel ho hm hb hne hkind
    (Or.inl hop) hfuel
  refine ⟨h1, ?_⟩
  intro i
  have hsb : (cfg.JoinOpType == TJoinOp.LEFT_SEMI_JOIN) = true := by rw [hop]; rfl
  have hro : row_out cfg conj i (other_row_tuples cfg probe ht.entries i) = true ↔
      ∃ e, find_result cfg probe ht.entries i = some e ∧
        ∃ r ∈ entry_rows ht.entries e, conj i r = true := by
    unfold row_out
    rw [semi_row_tuples cfg probe ht.entries i hop hm]
    simp only [hsb, if_true]
    cases hf : find_result cfg probe ht.entries i with
    | none => simp
    | some e =>
      simp only [List.any_eq_true, tuple_hit_semi cfg conj hop,
        Option.some.injEq, exists_eq_left', List.mem_map]
      constructor
      · rintro ⟨x, ⟨r, hr, rfl⟩, hx⟩
        exact ⟨r, hr, hx⟩
      · rintro ⟨r, hr, hx⟩
        exact ⟨(r, true), ⟨r, hr, rfl⟩, hx⟩
  rw [h2 i]
  refine ⟨by split_ifs <;> omega, ?_⟩
  rw [← hro]
  by_cases hc : i < probe_rows ∧
      row_out cfg conj i (other_row_tuples cfg probe ht.entries i) = true
  · rw [if_pos hc]
    exact ⟨fun _ => hc, fun _ => rfl⟩
  · rw [if_neg hc]
    exact ⟨fun h => absurd h (by omega), fun h => absurd h hc⟩

theorem C11_left_semi_at_most_one_witness :
    (⟨TJoinOp.LEFT_SEMI_JOIN, 2, false, false, true, false⟩ : Config).JoinOpType =
      TJoinOp.LEFT_SEMI_JOIN ∧
    (⟨TJoinOp.LEFT_SEMI_JOIN, 2, false, false, true, false⟩ : Config).with_other_conjuncts =
      true ∧
    (⟨TJoinOp.LEFT_SEMI_JOIN, 2, false, false, true, false⟩ : Config).is_mark_join = false ∧
    (single_key_table RowRefKind.RowRefListWithFlags 7 3).kind =
      RowRefKind.RowRefListWithFlags ∧
    rows_nonempty (single_key_table RowRefKind.RowRefListWithFlags 7 3) ∧
    1 ≤ (⟨TJoinOp.LEFT_SEMI_JOIN, 2, false, false, true, false⟩ : Config).batch_size ∧
    rows_bound ⟨TJoinOp.LEFT_SEMI_JOIN, 2, false, false, true, false⟩ ⟨[7, 9, 7], []⟩
      (single_key_table RowRefKind.RowRefListWithFlags 7 3).entries 0 3 < 10 ∧
    (process_until_exhausted ⟨TJoinOp.LEFT_SEMI_JOIN, 2, false, false, true, false⟩
        (fun _ r => r.row_num == 2) ⟨[7, 9, 7], []⟩ 3 10
        (ProbeState.fresh (single_key_table RowRefKind.RowRefListWithFlags 7 3))).1.flatMap
          Block.probe = [0, 2] ∧
    (batch_exhausted 3
        (process_until_exhausted ⟨TJoinOp.LEFT_SEMI_JOIN, 2, false, false, true, false⟩
          (fun _ r => r.row_num == 2) ⟨[7, 9, 7], []⟩ 3 10
          (ProbeState.fresh (single_key_table RowRefKind.RowRefListWithFlags 7 3))).2 =
      true ∧
    ∀ i,
      ((process_until_exhausted ⟨TJoinOp.LEFT_SEMI_JOIN, 2, false, false, true, false⟩
        (fun _ r => r.row_num == 2) ⟨[7, 9, 7], []⟩ 3 10
        (ProbeState.fresh (single_key_table RowRefKind.RowRefListWithFlags 7 3))).1.flatMap
          Block.probe).count i ≤ 1 ∧
      (((process_until_exhausted ⟨TJoinOp.LEFT_SEMI_JOIN, 2, false, false, true, false⟩
        (fun _ r => r.row_num == 2) ⟨[7, 9, 7], []⟩ 3 10
        (ProbeState.fresh (single_key_table RowRefKind.RowRefListWithFlags 7 3))).1.flatMap
          Block.probe).count i = 1 ↔
        i < 3 ∧ ∃ e, find_result ⟨TJoinOp.LEFT_SEMI_JOIN, 2, false, false, true, false⟩
            ⟨[7, 9, 7], []⟩ (single_key_table RowRefKind.RowRefListWithFlags 7 3).entries i =
              some e ∧
          ∃ r ∈ entry_rows (single_key_table RowRefKind.RowRefListWithFlags 7 3).entries e,
            (fun (_ : Nat) (r : RowRef) => r.row_num == 2) i r = true)) :=
  ⟨rfl, rfl, rfl, rfl, by decide, by decide, by decide, by decide,
    C11_left_semi_at_most_one ⟨TJoinOp.LEFT_SEMI_JOIN, 2, false, false, true, false⟩
      (fun _ r => r.row_num == 2) ⟨[7, 9, 7], []⟩ 3
      (single_key_table RowRefKind.RowRefListWithFlags 7 3) 10 rfl rfl rfl rfl (by decide)
      (by decide) (by decide)⟩

/-- C12: LEFT_ANTI / NULL_AWARE_LEFT_ANTI with other conjuncts, without mark join, on a hash
table with per-row flags and non-empty row lists, `batch_size ≥ 1`. Over the calls that
exhaust a probe batch, every probe row is output at most once, and exactly once iff it has
tuples and none of them has both a build row and a passing conjunct (a row without tuples, a
null key that is ignored, is never output). Moreover every row a call outputs lies at or
after the probe index the call started from and strictly before the probe index it leaves:
a row whose row list is split across calls is output by the call that finishes the list. -/
theorem C12_left_anti_survivor (cfg : Config) (conj : OtherConjuncts) (probe : ProbeBatch)
    (probe_rows : Nat) (ht : HashTable) (fuel : Nat)
    (hop : cfg.JoinOpType = TJoinOp.LEFT_ANTI_JOIN ∨
      cfg.JoinOpType = TJoinOp.NULL_AWARE_LEFT_ANTI_JOIN)
    (ho : cfg.with_other_conjuncts = true) (hm : cfg.is_mark_join = false)
    (hkind : ht.kind = RowRefKind.RowRefListWithFlags) (hne : rows_nonempty ht)
    (hb : 1 ≤ cfg.batch_size)
    (hfuel : rows_bound cfg probe ht.entries 0 probe_rows < fuel) :
    batch_exhausted probe_rows
        (process_until_exhausted cfg conj probe probe_rows fuel (ProbeState.fresh ht)).2 =
      true ∧
    (∀ i,
      ((process_until_exhausted cfg conj probe probe_rows fuel
        (ProbeState.fresh ht)).1.flatMap Block.probe).count i ≤ 1 ∧
      (((process_until_exhausted cfg conj probe probe_rows fuel
        (ProbeState.fresh ht)).1.flatMap Block.probe).count i = 1 ↔
        i < probe_rows ∧ other_row_tuples cfg probe ht.entries i ≠ [] ∧
          ∀ t ∈ other_row_tuples cfg probe ht.entries i,
            ¬(t.2 = true ∧ conj i t.1 = true))) ∧
    ∀ s : ProbeState, s.hash_table = ht →
      s.probe_index + s.probe_row_match_iter.ok.toNat ≤ probe_rows →
      ∀ i ∈ (process cfg conj probe probe_rows s Block.empty).2.2.probe,
        s.probe_index ≤ i ∧
        i < (process cfg conj probe probe_rows s Block.empty).2.1.probe_index := by
  have hop3 : cfg.JoinOpType = TJoinOp.LEFT_SEMI_JOIN ∨
      cfg.JoinOpType = TJoinOp.LEFT_ANTI_JOIN ∨
      cfg.JoinOpType = TJoinOp.NULL_AWARE_LEFT_ANTI_JOIN := Or.inr hop
  have hns : cfg.JoinOpType ≠ TJoinOp.LEFT_SEMI_JOIN := by
    rcases hop with h | h <;> rw [h] <;> exact fun h2 => TJoinOp.noConfusion h2
  obtain ⟨h1, h2⟩ := exhausted_out_count cfg conj probe probe_rows ht fuel ho hm hb hne hkind
    hop3 hfuel
  refine ⟨h1, ?_, ?_⟩
  · intro i
    have hsb : (cfg.JoinOpType == TJoinOp.LEFT_SEMI_JOIN) = false :=
      beq_eq_false_iff_ne.mpr hns
    have hro : row_out cfg conj i (other_row_tuples cfg probe ht.entries i) = true ↔
        other_row_tuples cfg probe ht.entries i ≠ [] ∧
          ∀ t ∈ other_row_tuples cfg probe ht.entries i,
            ¬(t.2 = true ∧ conj i t.1 = true) := by
      unfold row_out
      generalize other_row_tuples cfg probe ht.entries i = ts
      simp only [hsb, Bool.false_eq_true, if_false, Bool.and_eq_true, Bool.not_eq_true',
        List.isEmpty_eq_false, List.any_eq_false, tuple_hit_anti cfg conj hns,
        Bool.and_eq_true, ne_eq]
    rw [h2 i]
    refine ⟨by split_ifs <;> omega, ?_⟩
    rw [← hro]
    by_cases hc : i < probe_rows ∧
        row_out cfg conj i (other_row_tuples cfg probe ht.entries i) = true
    · rw [if_pos hc]
      exact ⟨fun _ => hc, fun _ => rfl⟩
    · rw [if_neg hc]
      exact ⟨fun h => absurd h (by omega), fun h => absurd h hc⟩
  · intro s hs hw i hi
    obtain ⟨-, -, -, -, -, -, -, s8⟩ := call_step cfg conj probe probe_rows s ho hm hb
      (by rw [hs]; exact hne) (by rw [hs]; exact hkind) hop3 hw
    exact s8 hns i hi

theorem C12_left_anti_survivor_witness :
    ((⟨TJoinOp.LEFT_ANTI_JOIN, 2, false, false, true, false⟩ : Config).JoinOpType =
        TJoinOp.LEFT_ANTI_JOIN ∨
      (⟨TJoinOp.LEFT_ANTI_JOIN, 2, false, false, true, false⟩ : Config).JoinOpType =
        TJoinOp.NULL_AWARE_LEFT_ANTI_JOIN) ∧
    (⟨TJoinOp.LEFT_ANTI_JOIN, 2, false, false, true, false⟩ : Config).with_other_conjuncts =
      true ∧
    (⟨TJoinOp.LEFT_ANTI_JOIN, 2, false, false, true, false⟩ : Config).is_mark_join = false ∧
    (single_key_table RowRefKind.RowRefListWithFlags 7 3).kind =
      RowRefKind.RowRefListWithFlags ∧
    rows_nonempty (single_key_table RowRefKind.RowRefListWithFlags 7 3) ∧
    1 ≤ (⟨TJoinOp.LEFT_ANTI_JOIN, 2, false, false, true, false⟩ : Config).batch_size ∧
    rows_bound ⟨TJoinOp.LEFT_ANTI_JOIN, 2, false, false, true, false⟩ ⟨[7], []⟩
      (single_key_table RowRefKind.RowRefListWithFlags 7 3).entries 0 1 < 5 ∧
    (process_until_exhausted ⟨TJoinOp.LEFT_ANTI_JOIN, 2, false, false, true, false⟩
        (fun _ r => decide (10 < r.row_num + 1)) ⟨[7], []⟩ 1 5
        (ProbeState.fresh (single_key_table RowRefKind.RowRefListWithFlags 7 3))).1 =
      [⟨[], [], []⟩, ⟨[0], [], []⟩] ∧
    (batch_exhausted 1
        (process_until_exhausted ⟨TJoinOp.LEFT_ANTI_JOIN, 2, false, false, true, false⟩
          (fun _ r => decide (10 < r.row_num + 1)) ⟨[7], []⟩ 1 5
          (ProbeState.fresh (single_key_table RowRefKind.RowRefListWithFlags 7 3))).2 =
      true ∧
    (∀ i,
      ((process_until_exhausted ⟨TJoinOp.LEFT_ANTI_JOIN, 2, false, false, true, false⟩
        (fun _ r => decide (10 < r.row_num + 1)) ⟨[7], []⟩ 1 5
        (ProbeState.fresh (single_key_table RowRefKind.RowRefListWithFlags 7 3))).1.flatMap
          Block.probe).count i ≤ 1 ∧
      (((process_until_exhausted ⟨TJoinOp.LEFT_ANTI_JOIN, 2, false, false, true, false⟩
        (fun _ r => decide (10 < r.row_num + 1)) ⟨[7], []⟩ 1 5
        (ProbeState.fresh (single_key_table RowRefKind.RowRefListWithFlags 7 3))).1.flatMap
          Block.probe).count i = 1 ↔
        i < 1 ∧ other_row_tuples ⟨TJoinOp.LEFT_ANTI_JOIN, 2, false, false, true, false⟩
            ⟨[7], []⟩ (single_key_table RowRefKind.RowRefListWithFlags 7 3).entries i ≠ [] ∧
          ∀ t ∈ other_row_tuples ⟨TJoinOp.LEFT_ANTI_JOIN, 2, false, false, true, false⟩
              ⟨[7], []⟩ (single_key_table RowRefKind.RowRefListWithFlags 7 3).entries i,
            ¬(t.2 = true ∧
              (fun (_ : Nat) (r : RowRef) => decide (10 < r.row_num + 1)) i t.1 = true))) ∧
    ∀ s : ProbeState, s.hash_table = single_key_table RowRefKind.RowRefListWithFlags 7 3 →
      s.probe_index + s.probe_row_match_iter.ok.toNat ≤ 1 →
      ∀ i ∈ (process ⟨TJoinOp.LEFT_ANTI_JOIN, 2, false, false, true, false⟩
          (fun _ r => decide (10 < r.row_num + 1)) ⟨[7], []⟩ 1 s Block.empty).2.2.probe,
        s.probe_index ≤ i ∧
        i < (process ⟨TJoinOp.LEFT_ANTI_JOIN, 2, false, false, true, false⟩
          (fun _ r => decide (10 < r.row_num + 1)) ⟨[7], []⟩ 1 s Block.empty).2.1.probe_index) :=
  ⟨Or.inl rfl, rfl, rfl, rfl, by decide, by decide, by decide, by decide,
    C12_left_anti_survivor ⟨TJoinOp.LEFT_ANTI_JOIN, 2, false, false, true, false⟩
      (fun _ r => decide (10 < r.row_num + 1)) ⟨[7], []⟩ 1
      (single_key_table RowRefKind.RowRefListWithFlags 7 3) 5 (Or.inl rfl) rfl rfl rfl
      (by decide) (by decide) (by decide)⟩

theorem groups_rows_nil_empty (Mid : List (Nat × List (RowRef × Bool)))
    (h : groups_rows Mid = []) : ∀ g ∈ Mid, g.2 = [] := by
  intro g hg
  unfold groups_rows at h
  rw [List.flatMap_eq_nil_iff] at h
  have := h g hg
  exact List.eq_nil_of_length_eq_zero (by rw [← group_rows_length g.1 g.2, this]; rfl)

theorem flatMap_groups_map {β : Type} (f : Nat → List (RowRef × Bool))
    (P : Nat → List (RowRef × Bool) → Bool) (g : Nat → List (RowRef × Bool) → β)
    (l : List Nat) :
    ((l.map fun i => (i, f i)).flatMap fun x => if P x.1 x.2 then [g x.1 x.2] else []) =
      (l.filter fun i => P i (f i)).map fun i => g i (f i) := by
  induction l with
  | nil => rfl
  | cons a l ih =>
    rw [List.map_cons, List.flatMap_cons, ih, List.filter_cons]
    split_ifs <;> rfl

/-- One LEFT_ANTI / NULL_AWARE_LEFT_ANTI call with other conjuncts and mark join, entered
without a suspended iterator: the block holds one row per probe row examined that has
tuples, with the build coordinate of the row's last tuple and, as mark, the negation of
"some tuple of the row has a build row and passes the conjuncts". -/
theorem anti_mark_call (cfg : Config) (conj : OtherConjuncts) (probe : ProbeBatch)
    (probe_rows : Nat) (s : ProbeState) (ho : cfg.with_other_conjuncts = true)
    (hm : cfg.is_mark_join = true)
    (hb : 1 ≤ cfg.batch_size) (hne : rows_nonempty s.hash_table)
    (hkind : s.hash_table.kind ≠ RowRefKind.RowRefListWithFlag)
    (hop : cfg.JoinOpType = TJoinOp.LEFT_ANTI_JOIN ∨
      cfg.JoinOpType = TJoinOp.NULL_AWARE_LEFT_ANTI_JOIN)
    (hok : s.probe_row_match_iter.ok = false) :
    let r := do_process cfg conj probe probe_rows s
    let Mid := (List.range' s.probe_index (r.2.1.probe_index - s.probe_index)).map fun i =>
      (i, other_row_tuples cfg probe s.hash_table.entries i)
    r.1 = Status.OK ∧ r.2.1.probe_row_match_iter.ok = false ∧
    s.probe_index ≤ r.2.1.probe_index ∧
    r.2.2.probe = (Mid.flatMap fun g => if !g.2.isEmpty && true then [g.1] else []) ∧
    r.2.2.build = (Mid.flatMap fun g =>
      match g.2.getLast? with
      | none => []
      | some t => if true then [t.1] else []) ∧
    r.2.2.mark = (Mid.flatMap fun g =>
      if g.2.isEmpty then [] else [!g.2.any (tuple_hit cfg conj g.1)]) := by
  have hns : cfg.JoinOpType ≠ TJoinOp.LEFT_SEMI_JOIN := by
    rcases hop with h | h <;> rw [h] <;> exact fun h2 => TJoinOp.noConfusion h2
  have hsb : (cfg.JoinOpType == TJoinOp.LEFT_SEMI_JOIN) = false := beq_eq_false_iff_ne.mpr hns
  have hop3 : cfg.JoinOpType = TJoinOp.LEFT_SEMI_JOIN ∨
      cfg.JoinOpType = TJoinOp.LEFT_ANTI_JOIN ∨
      cfg.JoinOpType = TJoinOp.NULL_AWARE_LEFT_ANTI_JOIN := Or.inr hop
  have hrest : s.probe_row_match_iter.rest = [] := (ok_eq_false_iff _).mp hok
  obtain ⟨-, -, c3, c4, -⟩ := do_probe_shape_common cfg probe probe_rows s ho hkind
  obtain ⟨r1, r2, -, r4, r5⟩ := do_probe_shape_run cfg probe probe_rows s ho hb hkind hne
    (by rw [hrest]; exact Nat.zero_le _)
  obtain ⟨d, hd⟩ : ∃ d, d = do_probe cfg probe probe_rows s := ⟨_, rfl⟩
  rw [← hd] at c3 c4 r1 r2 r4 r5
  simp only [hok, hrest, Bool.toNat_false, Nat.add_zero, List.map_nil] at r1 r4 r5
  have hdok : d.probe_row_match_iter.ok = false := by
    cases h : d.probe_row_match_iter.ok
    · rfl
    · have := (r5 h).1
      rw [hm] at this
      exact Bool.noConfusion this
  obtain ⟨q1, -⟩ := r4 hdok
  obtain ⟨Mid, hMid⟩ : ∃ Mid, Mid = (List.range' s.probe_index
      (d.probe_index - s.probe_index)).map fun i =>
      (i, other_row_tuples cfg probe s.hash_table.entries i) := ⟨_, rfl⟩
  have hRS : scratch_rows d = groups_rows Mid := by
    rw [q1, rows_records_groups, hMid]
    rfl
  by_cases hn : 0 < d.current_offset
  · have key := do_process_left_semi_anti cfg conj probe probe_rows s ho hb hne hkind hop3
      (by rw [← hd]; exact hn)
    simp only [← hd, hm, hsb, Bool.false_eq_true, if_false, if_true] at key
    obtain ⟨a1, a2, -⟩ := anti_mark_applier cfg conj d _ Mid hns hRS (c4 hok) hn _ rfl _ rfl
    rw [a1, a2, r2, hRS, filter_block_cells_probe, filter_block_cells_build,
      List.nil_append] at key
    simp only
    rw [key]
    simp only [← hMid]
    exact ⟨trivial, hdok, r1, trivial, trivial, trivial⟩
  · have h0 : d.current_offset = 0 := by omega
    have hnil : groups_rows Mid = [] := by
      apply List.eq_nil_of_length_eq_zero
      rw [← hRS, scratch_rows_length, h0]
    have hall := groups_rows_nil_empty Mid hnil
    have key := do_process_other_empty cfg conj probe probe_rows s ho (by rw [← hd]; exact h0)
    rw [← hd, r2] at key
    simp only
    rw [key]
    simp only [← hMid]
    refine ⟨trivial, hdok, r1, ?_, ?_, ?_⟩
    · symm
      rw [List.flatMap_eq_nil_iff]
      intro g hg
      rw [hall g hg]
      rfl
    · symm
      rw [List.flatMap_eq_nil_iff]
      intro g hg
      rw [hall g hg]
      rfl
    · symm
      rw [List.flatMap_eq_nil_iff]
      intro g hg
      rw [hall g hg]
      rfl

/-- C13, the code at the failing input: LEFT_SEMI with mark join and other conjuncts,
per-row-flags table holding key 7 only, one probe row with key 9. The key is not found, the
row is emitted as one `(-1,-1)` padding tuple, and the mark written for it is the value of
the conjuncts on the padded row: `true` when they evaluate to true there, `false` when they
evaluate to false. -/
theorem C13_padded_row_mark_is_conjunct_value :
    find_result ⟨TJoinOp.LEFT_SEMI_JOIN, 2, false, false, true, true⟩ ⟨[9], []⟩
      (single_key_table RowRefKind.RowRefListWithFlags 7 1).entries 0 = none ∧
    (do_probe ⟨TJoinOp.LEFT_SEMI_JOIN, 2, false, false, true, true⟩ ⟨[9], []⟩ 1
      (ProbeState.fresh (single_key_table RowRefKind.RowRefListWithFlags 7 1))).visited_map =
      [none] ∧
    (process ⟨TJoinOp.LEFT_SEMI_JOIN, 2, false, false, true, true⟩ (fun _ _ => true)
      ⟨[9], []⟩ 1 (ProbeState.fresh (single_key_table RowRefKind.RowRefListWithFlags 7 1))
      Block.empty).2.2 = ⟨[0], [⟨-1, -1⟩], [true]⟩ ∧
    (process ⟨TJoinOp.LEFT_SEMI_JOIN, 2, false, false, true, true⟩ (fun _ _ => false)
      ⟨[9], []⟩ 1 (ProbeState.fresh (single_key_table RowRefKind.RowRefListWithFlags 7 1))
      Block.empty).2.2 = ⟨[0], [⟨-1, -1⟩], [false]⟩ := by
  decide

/-- C14, counterexample: LEFT_ANTI with mark join and other conjuncts accepting every row,
per-row-flags table holding key 7 with one build row, probe keys `[7, 9]`. Probe row 0 has a
tuple with a build row that passes the conjuncts and gets mark `false`; probe row 1 has no
such tuple (its only tuple is the padding) and gets mark `true`. -/
theorem C14_counterexample :
    let cfg : Config := ⟨TJoinOp.LEFT_ANTI_JOIN, 2, false, false, true, true⟩
    let ht := single_key_table RowRefKind.RowRefListWithFlags 7 1
    let r := process cfg (fun _ _ => true) ⟨[7, 9], []⟩ 2 (ProbeState.fresh ht) Block.empty
    other_row_tuples cfg ⟨[7, 9], []⟩ ht.entries 0 = [(⟨0, 0⟩, true)] ∧
    other_row_tuples cfg ⟨[7, 9], []⟩ ht.entries 1 = [(⟨-1, -1⟩, false)] ∧
    r.2.2 = ⟨[0, 1], [⟨0, 0⟩, ⟨-1, -1⟩], [false, true]⟩ := by
  decide

/-- C14 (amended: the value pushed is "survives"): LEFT_ANTI / NULL_AWARE_LEFT_ANTI with
mark join and other conjuncts, on a hash table with per-row flags and non-empty row lists,
`batch_size ≥ 1`. A `process` call entered without a suspended iterator leaves none
suspended, and its block holds exactly one row for every probe row examined that has tuples
(every probe-row group): the row carries the build coordinate of the last tuple of the
group, and the value pushed to the mark column for it is `true` iff no tuple of the group
has both a build row and a passing conjunct. -/
theorem C14_left_anti_mark_is_survives (cfg : Config) (conj : OtherConjuncts)
    (probe : ProbeBatch) (probe_rows : Nat) (s : ProbeState)
    (hop : cfg.JoinOpType = TJoinOp.LEFT_ANTI_JOIN ∨
      cfg.JoinOpType = TJoinOp.NULL_AWARE_LEFT_ANTI_JOIN)
    (ho : cfg.with_other_conjuncts = true) (hm : cfg.is_mark_join = true)
    (hkind : s.hash_table.kind = RowRefKind.RowRefListWithFlags)
    (hne : rows_nonempty s.hash_table) (hb : 1 ≤ cfg.batch_size)
    (hok : s.probe_row_match_iter.ok = false) :
    let r := process cfg conj probe probe_rows s Block.empty
    let rows := (List.range' s.probe_index (r.2.1.probe_index - s.probe_index)).filter
      fun i => !(other_row_tuples cfg probe s.hash_table.entries i).isEmpty
    r.1 = Status.OK ∧ r.2.1.probe_row_match_iter.ok = false ∧
    s.probe_index ≤ r.2.1.probe_index ∧
    r.2.2.probe = rows ∧
    r.2.2.mark = (rows.map fun i =>
      !(other_row_tuples cfg probe s.hash_table.entries i).any fun t => t.2 && conj i t.1) ∧
    r.2.2.build = (rows.map fun i =>
      ((other_row_tuples cfg probe s.hash_table.entries i).getLast?.getD (⟨0, 0⟩, false)).1) := by
  have hns : cfg.JoinOpType ≠ TJoinOp.LEFT_SEMI_JOIN := by
    rcases hop with h | h <;> rw [h] <;> exact fun h2 => TJoinOp.noConfusion h2
  have hk : s.hash_table.kind ≠ RowRefKind.RowRefListWithFlag := by
    rw [hkind]
    exact fun h => RowRefKind.noConfusion h
  obtain ⟨h1, h2, h3, h4, h5, h6⟩ := anti_mark_call cfg conj probe probe_rows s ho hm hb hne hk
    hop hok
  rw [← process_other_eq cfg conj probe probe_rows s Block.empty hkind] at h1 h2 h3 h4 h5 h6
  refine ⟨h1, h2, h3, ?_, ?_, ?_⟩
  · rw [h4]
    have := flatMap_groups_map (other_row_tuples cfg probe s.hash_table.entries)
      (fun _ ts => !ts.isEmpty && true) (fun i _ => i)
      (List.range' s.probe_index
        ((process cfg conj probe probe_rows s Block.empty).2.1.probe_index - s.probe_index))
    simp only [Bool.and_true, List.map_id'] at this ⊢
    exact this
  · rw [h6]
    have := flatMap_groups_map (other_row_tuples cfg probe s.hash_table.entries)
      (fun _ ts => !ts.isEmpty) (fun i ts => !ts.any fun t => t.2 && conj i t.1)
      (List.range' s.probe_index
        ((process cfg conj probe probe_rows s Block.empty).2.1.probe_index - s.probe_index))
    rw [← this]
    congr 1
    funext g
    have ht : tuple_hit cfg conj g.1 = fun t => t.2 && conj g.1 t.1 := by
      funext t
      exact tuple_hit_anti cfg conj hns g.1 t
    rw [ht]
    cases g.2.isEmpty <;> rfl
  · rw [h5]
    have := flatMap_groups_map (other_row_tuples cfg probe s.hash_table.entries)
      (fun _ ts => !ts.isEmpty) (fun _ ts => (ts.getLast?.getD (⟨0, 0⟩, false)).1)
      (List.range' s.probe_index
        ((process cfg conj probe probe_rows s Block.empty).2.1.probe_index - s.probe_index))
    rw [← this]
    congr 1
    funext g
    obtain ⟨i, ts⟩ := g
    cases ts with
    | nil => rfl
    | cons t ts =>
      simp only [List.getLast?_eq_getLast _ (List.cons_ne_nil t ts), if_true, List.isEmpty_cons,
        Bool.not_false, Option.getD_some]

theorem C14_left_anti_mark_is_survives_witness :
    ((⟨TJoinOp.LEFT_ANTI_JOIN, 2, false, false, true, true⟩ : Config).JoinOpType =
        TJoinOp.LEFT_ANTI_JOIN ∨
      (⟨TJoinOp.LEFT_ANTI_JOIN, 2, false, false, true, true⟩ : Config).JoinOpType =
        TJoinOp.NULL_AWARE_LEFT_ANTI_JOIN) ∧
    (⟨TJoinOp.LEFT_ANTI_JOIN, 2, false, false, true, true⟩ : Config).with_other_conjuncts =
      true ∧
    (⟨TJoinOp.LEFT_ANTI_JOIN, 2, false, false, true, true⟩ : Config).is_mark_join = true ∧
    (ProbeState.fresh (single_key_table RowRefKind.RowRefListWithFlags 7 3)).hash_table.kind =
      RowRefKind.RowRefListWithFlags ∧
    rows_nonempty
      (ProbeState.fresh (single_key_table RowRefKind.RowRefListWithFlags 7 3)).hash_table ∧
    1 ≤ (⟨TJoinOp.LEFT_ANTI_JOIN, 2, false, false, true, true⟩ : Config).batch_size ∧
    (ProbeState.fresh
      (single_key_table RowRefKind.RowRefListWithFlags 7 3)).probe_row_match_iter.ok = false ∧
    (process ⟨TJoinOp.LEFT_ANTI_JOIN, 2, false, false, true, true⟩
      (fun i r => i == 0 && r.row_num == 1) ⟨[7, 9, 7], []⟩ 3
      (ProbeState.fresh (single_key_table RowRefKind.RowRefListWithFlags 7 3))
      Block.empty).2.2 = ⟨[0], [⟨0, 2⟩], [false]⟩ ∧
    (let r := process ⟨TJoinOp.LEFT_ANTI_JOIN, 2, false, false, true, true⟩
      (fun i r => i == 0 && r.row_num == 1) ⟨[7, 9, 7], []⟩ 3
      (ProbeState.fresh (single_key_table RowRefKind.RowRefListWithFlags 7 3)) Block.empty
    let rows := (List.range'
        (ProbeState.fresh (single_key_table RowRefKind.RowRefListWithFlags 7 3)).probe_index
        (r.2.1.probe_index -
          (ProbeState.fresh
            (single_key_table RowRefKind.RowRefListWithFlags 7 3)).probe_index)).filter
      fun i => !(other_row_tuples ⟨TJoinOp.LEFT_ANTI_JOIN, 2, false, false, true, true⟩
        ⟨[7, 9, 7], []⟩
        (ProbeState.fresh
          (single_key_table RowRefKind.RowRefListWithFlags 7 3)).hash_table.entries i).isEmpty
    r.1 = Status.OK ∧ r.2.1.probe_row_match_iter.ok = false ∧
    (ProbeState.fresh (single_key_table RowRefKind.RowRefListWithFlags 7 3)).probe_index ≤
      r.2.1.probe_index ∧
    r.2.2.probe = rows ∧
    r.2.2.mark = (rows.map fun i =>
      !(other_row_tuples ⟨TJoinOp.LEFT_ANTI_JOIN, 2, false, false, true, true⟩
        ⟨[7, 9, 7], []⟩
        (ProbeState.fresh
          (single_key_table RowRefKind.RowRefListWithFlags 7 3)).hash_table.entries i).any
        fun t => t.2 && (fun (i : Nat) (r : RowRef) => i == 0 && r.row_num == 1) i t.1) ∧
    r.2.2.build = (rows.map fun i =>
      ((other_row_tuples ⟨TJoinOp.LEFT_ANTI_JOIN, 2, false, false, true, true⟩
        ⟨[7, 9, 7], []⟩
        (ProbeState.fresh
          (single_key_table RowRefKind.RowRefListWithFlags 7 3)).hash_table.entries
        i).getLast?.getD (⟨0, 0⟩, false)).1)) :=
  ⟨Or.inl rfl, rfl, rfl, rfl, by decide, by decide, rfl, by decide,
    C14_left_anti_mark_is_survives ⟨TJoinOp.LEFT_ANTI_JOIN, 2, false, false, true, true⟩
      (fun i r => i == 0 && r.row_num == 1) ⟨[7, 9, 7], []⟩ 3
      (ProbeState.fresh (single_key_table RowRefKind.RowRefListWithFlags 7 3))
      (Or.inl rfl) rfl rfl rfl (by decide) (by decide) rfl⟩

theorem do_process_status (cfg : Config) (conj : OtherConjuncts) (probe : ProbeBatch)
    (probe_rows : Nat) (s : ProbeState) :
    (do_process cfg conj probe probe_rows s).1 = Status.OK := by
  unfold do_process
  simp only
  split_ifs <;> rfl

theorem external_error_status (e : ExternalError) : e.status ≠ Status.InvalidArgument := by
  cases e <;> exact fun h => Status.noConfusion h

theorem do_other_join_conjuncts_fallible_status (ext : ExternalCalls) (cfg : Config)
    (conj : OtherConjuncts) (s : ProbeState) (b : Block) :
    (do_other_join_conjuncts_fallible ext cfg conj s b).1 ≠ Status.InvalidArgument := by
  unfold do_other_join_conjuncts_fallible
  by_cases h0 : (b.rows == 0) = true
  · rw [if_pos h0]
    exact fun h => Status.noConfusion h
  · rw [if_neg h0]
    cases he : ext.conjunct_error b with
    | some e => exact external_error_status e
    | none =>
      cases hq : do_other_join_conjuncts cfg conj s b with
      | mk s1 b1 =>
        simp only [hq]
        exact fun h => Status.noConfusion h

/-- When the evaluator does not fail, `do_other_join_conjuncts` returns `OK` with the state
and the block of the rewrite. -/
theorem do_other_join_conjuncts_fallible_ok (ext : ExternalCalls) (cfg : Config)
    (conj : OtherConjuncts) (s : ProbeState) (b : Block)
    (h : ∀ b, ext.conjunct_error b = none) :
    do_other_join_conjuncts_fallible ext cfg conj s b =
      (Status.OK, do_other_join_conjuncts cfg conj s b) := by
  unfold do_other_join_conjuncts_fallible
  by_cases h0 : (b.rows == 0) = true
  · rw [if_pos h0]
    unfold do_other_join_conjuncts
    simp only [h0, if_true]
  · rw [if_neg h0, h b]

/-- The status of `do_process` is never `InvalidArgument`: it is `OK` or an error handed on
from a call out of this file. -/
theorem do_process_fallible_status (ext : ExternalCalls) (cfg : Config)
    (conj : OtherConjuncts) (probe : ProbeBatch) (probe_rows : Nat) (s : ProbeState)
    (b : Block) :
    (do_process_fallible ext cfg conj probe probe_rows s b).1 ≠ Status.InvalidArgument := by
  unfold do_process_fallible
  simp only
  split
  · exact external_error_status _
  · cases hp : assemble cfg s.probe_index (do_probe cfg probe probe_rows s) with
    | mk s1 b1 =>
      simp only
      split_ifs
      · exact do_other_join_conjuncts_fallible_status ext cfg conj s1 b1
      · exact fun h => Status.noConfusion h

/-- When no call out of this file fails, `do_process_fallible` is `do_process`. -/
theorem do_process_fallible_ok (ext : ExternalCalls) (cfg : Config) (conj : OtherConjuncts)
    (probe : ProbeBatch) (probe_rows : Nat) (s : ProbeState) (b : Block)
    (h1 : ext.column_error = none) (h2 : ∀ b, ext.conjunct_error b = none) :
    do_process_fallible ext cfg conj probe probe_rows s b =
      do_process cfg conj probe probe_rows s := by
  unfold do_process_fallible do_process
  simp only [h1, ite_self]
  cases hp : assemble cfg s.probe_index (do_probe cfg probe probe_rows s) with
  | mk s1 b1 =>
    simp only
    split_ifs
    · rw [do_other_join_conjuncts_fallible_ok ext cfg conj s1 b1 h2]
    · rfl

/-- When no call out of this file fails, `process_fallible` is `process`. -/
theorem process_fallible_ok (ext : ExternalCalls) (cfg : Config) (conj : OtherConjuncts)
    (probe : ProbeBatch) (probe_rows : Nat) (s : ProbeState) (b : Block)
    (h1 : ext.column_error = none) (h2 : ∀ b, ext.conjunct_error b = none) :
    process_fallible ext cfg conj probe probe_rows s b =
      process cfg conj probe probe_rows s b := by
  unfold process_fallible process
  split_ifs <;> first | rfl | exact do_process_fallible_ok ext _ conj probe probe_rows s b h1 h2

/-- The evaluator failing on an accepted combination: `process` hands its error on. -/
theorem process_fallible_conjunct_error :
    (process_fallible ⟨none, fun _ => some ExternalError.ExpressionEvaluation⟩
      ⟨TJoinOp.INNER_JOIN, 2, false, false, true, false⟩ (fun _ _ => true) ⟨[7], []⟩ 1
      (ProbeState.fresh (single_key_table RowRefKind.RowRefListWithFlags 7 1))
      Block.empty).1 = Status.ExpressionEvaluation := by
  decide

/-- A column operation of `probe_side_output_column` failing: `process` hands the error
on, and the output block is the one handed in. -/
theorem process_fallible_column_error :
    (process_fallible ⟨some ExternalError.MemoryLimit, fun _ => none⟩
      ⟨TJoinOp.INNER_JOIN, 2, false, false, false, false⟩ (fun _ _ => true) ⟨[7], []⟩ 1
      (ProbeState.fresh (single_key_table RowRefKind.RowRefList 7 1))
      ⟨[5], [⟨0, 0⟩], []⟩).1 = Status.MemoryLimit ∧
    (process_fallible ⟨some ExternalError.MemoryLimit, fun _ => none⟩
      ⟨TJoinOp.INNER_JOIN, 2, false, false, false, false⟩ (fun _ _ => true) ⟨[7], []⟩ 1
      (ProbeState.fresh (single_key_table RowRefKind.RowRefList 7 1))
      ⟨[5], [⟨0, 0⟩], []⟩).2.2 = ⟨[5], [⟨0, 0⟩], []⟩ := by
  decide

/-- C21: `process` returns `InvalidArgument` iff `have_other_join_conjunct` is set and the
row list is not the per-row-flags list, whatever the calls out of this file do. In that case
`do_process` is not run: the whole engine state (probe index, suspended iterator, scratch
vectors, hash table with its visited bits) and the output block come back as they were
handed in. In every other case `process` returns what `do_process` returns, with the two
runtime flags as given: `OK`, the error of the evaluator or the error of a column
operation, none of which is `InvalidArgument`. When no call fails the result is the one of
the error-free `process`. -/
theorem C21_invalid_argument (ext : ExternalCalls) (cfg : Config) (conj : OtherConjuncts)
    (probe : ProbeBatch) (probe_rows : Nat) (s : ProbeState) (output_block : Block) :
    ((process_fallible ext cfg conj probe probe_rows s output_block).1 =
        Status.InvalidArgument ↔
      (cfg.with_other_conjuncts = true ∧
        s.hash_table.kind ≠ RowRefKind.RowRefListWithFlags)) ∧
    ((cfg.with_other_conjuncts = true ∧
        s.hash_table.kind ≠ RowRefKind.RowRefListWithFlags) →
      process_fallible ext cfg conj probe probe_rows s output_block =
        (Status.InvalidArgument, s, output_block)) ∧
    (¬(cfg.with_other_conjuncts = true ∧
        s.hash_table.kind ≠ RowRefKind.RowRefListWithFlags) →
      process_fallible ext cfg conj probe probe_rows s output_block =
        do_process_fallible ext cfg conj probe probe_rows s output_block ∧
      (do_process_fallible ext cfg conj probe probe_rows s output_block).1 ≠
        Status.InvalidArgument) ∧
    (ext.column_error = none → (∀ b, ext.conjunct_error b = none) →
      process_fallible ext cfg conj probe probe_rows s output_block =
        process cfg conj probe probe_rows s output_block) := by
  have hbad : (cfg.with_other_conjuncts = true ∧
      s.hash_table.kind ≠ RowRefKind.RowRefListWithFlags) →
      process_fallible ext cfg conj probe probe_rows s output_block =
        (Status.InvalidArgument, s, output_block) := by
    rintro ⟨h1, h2⟩
    have hk : (s.hash_table.kind != RowRefKind.RowRefListWithFlags) = true := by
      simpa using h2
    unfold process_fallible
    rw [hk, h1]
    rfl
  have hgood : ¬(cfg.with_other_conjuncts = true ∧
      s.hash_table.kind ≠ RowRefKind.RowRefListWithFlags) →
      process_fallible ext cfg conj probe probe_rows s output_block =
        do_process_fallible ext cfg conj probe probe_rows s output_block := by
    intro h
    by_cases hk : s.hash_table.kind = RowRefKind.RowRefListWithFlags
    · unfold process_fallible
      simp [hk]
    · have ho : cfg.with_other_conjuncts = false := by
        cases hc : cfg.with_other_conjuncts
        · rfl
        · exact absurd ⟨hc, hk⟩ h
      have hcfg : { cfg with with_other_conjuncts := false } = cfg := by
        cases cfg; simp_all
      unfold process_fallible
      rw [hcfg]
      simp [ho]
  refine ⟨⟨?_, fun h => by rw [hbad h]⟩, hbad,
    fun h => ⟨hgood h, do_process_fallible_status ext cfg conj probe probe_rows s output_block⟩,
    process_fallible_ok ext cfg conj probe probe_rows s output_block⟩
  intro h
  by_contra hn
  rw [hgood hn] at h
  exact do_process_fallible_status ext cfg conj probe probe_rows s output_block h

theorem C21_invalid_argument_witness :
    ((process_fallible ExternalCalls.fail ⟨TJoinOp.INNER_JOIN, 2, false, false, true, false⟩
        (fun _ _ => true) ⟨[7], []⟩ 1
        (ProbeState.fresh (single_key_table RowRefKind.RowRefList 7 1)) ⟨[5], [⟨0, 0⟩], []⟩).1 =
        Status.InvalidArgument ↔
      ((⟨TJoinOp.INNER_JOIN, 2, false, false, true, false⟩ : Config).with_other_conjuncts =
          true ∧
        (ProbeState.fresh (single_key_table RowRefKind.RowRefList 7 1)).hash_table.kind ≠
          RowRefKind.RowRefListWithFlags)) ∧
    (((⟨TJoinOp.INNER_JOIN, 2, false, false, true, false⟩ : Config).with_other_conjuncts =
          true ∧
        (ProbeState.fresh (single_key_table RowRefKind.RowRefList 7 1)).hash_table.kind ≠
          RowRefKind.RowRefListWithFlags) →
      process_fallible ExternalCalls.fail ⟨TJoinOp.INNER_JOIN, 2, false, false, true, false⟩
        (fun _ _ => true) ⟨[7], []⟩ 1
        (ProbeState.fresh (single_key_table RowRefKind.RowRefList 7 1)) ⟨[5], [⟨0, 0⟩], []⟩ =
        (Status.InvalidArgument,
          ProbeState.fresh (single_key_table RowRefKind.RowRefList 7 1), ⟨[5], [⟨0, 0⟩], []⟩)) ∧
    (¬((⟨TJoinOp.INNER_JOIN, 2, false, false, true, false⟩ : Config).with_other_conjuncts =
          true ∧
        (ProbeState.fresh (single_key_table RowRefKind.RowRefList 7 1)).hash_table.kind ≠
          RowRefKind.RowRefListWithFlags) →
      process_fallible ExternalCalls.fail ⟨TJoinOp.INNER_JOIN, 2, false, false, true, false⟩
        (fun _ _ => true) ⟨[7], []⟩ 1
        (ProbeState.fresh (single_key_table RowRefKind.RowRefList 7 1)) ⟨[5], [⟨0, 0⟩], []⟩ =
        do_process_fallible ExternalCalls.fail
          ⟨TJoinOp.INNER_JOIN, 2, false, false, true, false⟩ (fun _ _ => true) ⟨[7], []⟩ 1
          (ProbeState.fresh (single_key_table RowRefKind.RowRefList 7 1)) ⟨[5], [⟨0, 0⟩], []⟩ ∧
      (do_process_fallible ExternalCalls.fail
          ⟨TJoinOp.INNER_JOIN, 2, false, false, true, false⟩ (fun _ _ => true) ⟨[7], []⟩ 1
          (ProbeState.fresh (single_key_table RowRefKind.RowRefList 7 1)) ⟨[5], [⟨0, 0⟩], []⟩).1 ≠
        Status.InvalidArgument) ∧
    (ExternalCalls.fail.column_error = none →
      (∀ b, ExternalCalls.fail.conjunct_error b = none) →
      process_fallible ExternalCalls.fail ⟨TJoinOp.INNER_JOIN, 2, false, false, true, false⟩
        (fun _ _ => true) ⟨[7], []⟩ 1
        (ProbeState.fresh (single_key_table RowRefKind.RowRefList 7 1)) ⟨[5], [⟨0, 0⟩], []⟩ =
        process ⟨TJoinOp.INNER_JOIN, 2, false, false, true, false⟩ (fun _ _ => true)
          ⟨[7], []⟩ 1 (ProbeState.fresh (single_key_table RowRefKind.RowRefList 7 1))
          ⟨[5], [⟨0, 0⟩], []⟩) :=
  C21_invalid_argument ExternalCalls.fail ⟨TJoinOp.INNER_JOIN, 2, false, false, true, false⟩
    (fun _ _ => true) ⟨[7], []⟩ 1
    (ProbeState.fresh (single_key_table RowRefKind.RowRefList 7 1)) ⟨[5], [⟨0, 0⟩], []⟩

/-- C27: soundness of `all_match_one`, in every mode and from every state. Whenever
`all_match_one` is true at the end of the probe loop, `probe_size` is the number of tuples
emitted (`current_offset`) and `_probe_indexs` is the contiguous run
`last_probe_index, ..., last_probe_index + probe_size - 1`. Hence the range copy of a probe
column that `probe_side_output_column` makes equals the gather of that column by
`_probe_indexs`, and the probe-side column written with `all_match_one` is the one written
without it. -/
theorem C27_all_match_one_sound (cfg : Config) (probe : ProbeBatch) (probe_rows : Nat)
    (s : ProbeState) (h : (do_probe cfg probe probe_rows s).all_match_one = true) :
    let d := do_probe cfg probe probe_rows s
    d.probe_size = d.current_offset ∧
    d.probe_indexs = List.range' s.probe_index d.probe_size ∧
    (∀ (col : List Int),
      ((List.range' s.probe_index d.probe_size).map fun i => col.getD i 0) =
        ((List.range d.current_offset).map fun i => col.getD (d.probe_indexs.getD i 0) 0)) ∧
    probe_side_output_column d d.current_offset s.probe_index d.probe_size true =
      probe_side_output_column d d.current_offset s.probe_index d.probe_size false := by
  intro d
  obtain ⟨hinv, -, hsize⟩ := do_probe_inv cfg probe probe_rows s
  obtain ⟨l1, -, -, l4, l5⟩ := hinv
  obtain ⟨h6, h7⟩ := l4 h
  have hd : do_probe cfg probe probe_rows s = d := rfl
  rw [hd] at hsize l1 l5 h6 h7
  have hps : d.probe_size = d.current_offset := by
    rw [hsize]
    omega
  refine ⟨hps, by rw [hps]; exact h7, ?_, ?_⟩
  · intro col
    rw [hps, ← h7]
    apply List.ext_getElem
    · simp [l1]
    · intro i h1 h2
      simp only [List.length_map] at h1
      simp [List.getD_eq_getElem?_getD, List.getElem?_eq_getElem h1]
  · unfold probe_side_output_column
    simp only [if_true, Bool.false_eq_true, if_false]
    rw [hps, ← h7]
    apply List.ext_getElem
    · simp [l1]
    · intro i h1 h2
      simp [List.getD_eq_getElem?_getD, List.getElem?_eq_getElem h1]

theorem C27_all_match_one_sound_witness :
    (do_probe ⟨TJoinOp.INNER_JOIN, 10, false, false, false, false⟩ ⟨[3, 1, 1], []⟩ 3
      (ProbeState.fresh (build_123 RowRefKind.RowRefList))).all_match_one = true ∧
    (let d := do_probe ⟨TJoinOp.INNER_JOIN, 10, false, false, false, false⟩ ⟨[3, 1, 1], []⟩ 3
      (ProbeState.fresh (build_123 RowRefKind.RowRefList))
    d.probe_size = d.current_offset ∧
    d.probe_indexs = List.range' (ProbeState.fresh (build_123 RowRefKind.RowRefList)).probe_index
      d.probe_size ∧
    (∀ (col : List Int),
      ((List.range' (ProbeState.fresh (build_123 RowRefKind.RowRefList)).probe_index
          d.probe_size).map fun i => col.getD i 0) =
        ((List.range d.current_offset).map fun i => col.getD (d.probe_indexs.getD i 0) 0)) ∧
    probe_side_output_column d d.current_offset
        (ProbeState.fresh (build_123 RowRefKind.RowRefList)).probe_index d.probe_size true =
      probe_side_output_column d d.current_offset
        (ProbeState.fresh (build_123 RowRefKind.RowRefList)).probe_index d.probe_size false) :=
  ⟨by decide,
    C27_all_match_one_sound ⟨TJoinOp.INNER_JOIN, 10, false, false, false, false⟩
      ⟨[3, 1, 1], []⟩ 3 (ProbeState.fresh (build_123 RowRefKind.RowRefList)) (by decide)⟩

theorem do_probe_left_flags (cfg : Config) (probe : ProbeBatch) (probe_rows : Nat)
    (s : ProbeState) :
    (do_probe cfg probe probe_rows s).tuple_is_null_left_flags = s.tuple_is_null_left_flags := by
  obtain ⟨-, -, -, r4, -⟩ := resume_probe_ext cfg s
  obtain ⟨-, -, -, -, -, -, -, -, e9, -⟩ := probe_loop_ext cfg probe probe_rows
    (probe_rows - (resume_probe cfg s).probe_index) (resume_probe cfg s)
  exact e9.trans r4

theorem process_splited_lengths (vm : List (Option (Nat × Nat))) (hit : List Bool)
    (start cnt : Nat) (a : ApplierState) :
    (process_splited_equal_matched_tuples vm hit start cnt a).filter_map.length =
      a.filter_map.length ∧
    (process_splited_equal_matched_tuples vm hit start cnt a).null_map_data.length =
      a.null_map_data.length := by
  obtain ⟨f1, f2, -, -⟩ := process_splited_fields vm hit start cnt a
  rw [f1, f2, foldl_set_length, foldl_set_length]
  exact ⟨rfl, rfl⟩

/-- The LEFT_OUTER / FULL_OUTER rewrite leaves one filter cell and one null-map cell per
row. -/
theorem left_outer_rewrite_lengths (s : ProbeState) (hit : List Bool) (row_count : Nat)
    (a0 : ApplierState) :
    (left_outer_rewrite s hit row_count a0).filter_map.length = row_count ∧
    (left_outer_rewrite s hit row_count a0).null_map_data.length = row_count := by
  unfold left_outer_rewrite
  simp only
  generalize ha : ({ a0 with filter_map := List.replicate row_count false
                             null_map_data := List.replicate row_count false } :
    ApplierState) = a
  have h1 : a.filter_map.length = row_count := by rw [← ha]; simp
  have h2 : a.null_map_data.length = row_count := by rw [← ha]; simp
  have hp : ( left_outer_prefix s hit a).filter_map.length = row_count ∧
      ( left_outer_prefix s hit a).null_map_data.length = row_count := by
    unfold left_outer_prefix
    obtain ⟨p1, p2⟩ := process_splited_lengths s.visited_map hit 0
      s.row_count_from_last_probe a
    by_cases hrc : s.row_count_from_last_probe > 0
    · rw [if_pos hrc]
      simp only
      split_ifs
      · simp only [List.length_set]
        exact ⟨p1.trans h1, p2.trans h2⟩
      · exact ⟨p1.trans h1, p2.trans h2⟩
    · rw [if_neg hrc]
      exact ⟨h1, h2⟩
  obtain ⟨-, -, m3, m4, -⟩ := left_outer_middle_frame s hit row_count
    ( left_outer_prefix s hit a)
  unfold left_outer_suffix
  split_ifs
  · obtain ⟨p1, p2⟩ := process_splited_lengths s.visited_map hit
      (row_count - s.multi_matched_output_row_count) s.multi_matched_output_row_count
      { left_outer_middle s hit row_count ( left_outer_prefix s hit a) with
        is_any_probe_match_row_output := false }
    exact ⟨p1.trans (m3.trans hp.1), p2.trans (m4.trans hp.2)⟩
  · exact ⟨m3.trans hp.1, m4.trans hp.2⟩

/-- `filter_block` on one column, cell by cell: the cells at the indices whose filter cell
is set, in increasing order. -/
theorem filter_block_eq_range {α : Type} (d : α) :
    ∀ (fm : List Bool) (col : List α), fm.length = col.length →
      filter_block fm col =
        ((List.range fm.length).filter fun i => fm.getD i false).map fun i => col.getD i d := by
  intro fm
  induction fm with
  | nil => intro col _; simp [filter_block_nil_left]
  | cons x fm ih =>
    intro col hlen
    cases col with
    | nil => simp at hlen
    | cons y col =>
      have hl : fm.length = col.length := by simpa using hlen
      rw [filter_block_cons, ih col hl, List.length_cons, List.range_succ_eq_map]
      cases x <;> simp [List.filter_map, Function.comp_def]

theorem filter_block_length_sum {α : Type} :
    ∀ (fm : List Bool) (col : List α), fm.length = col.length →
      (filter_block fm col).length = (fm.map Bool.toNat).sum := by
  intro fm
  induction fm with
  | nil => intro col _; simp [filter_block_nil_left]
  | cons x fm ih =>
    intro col hlen
    cases col with
    | nil => simp at hlen
    | cons y col =>
      have hl : fm.length = col.length := by simpa using hlen
      rw [filter_block_cons, List.length_append, ih col hl, List.map_cons, List.sum_cons]
      cases x <;> simp

/-- C23, counterexample: LEFT_OUTER with other conjuncts that reject every row, build key 7
with one row, one probe row with key 7. The rewrite keeps the tuple (`filter_map[0]` is
true) with `null_map_data[0] = 1`; after the call the left null-flag column is still empty
and the value has been appended to the right null-flag column. -/
theorem C23_counterexample :
    let cfg : Config := ⟨TJoinOp.LEFT_OUTER_JOIN, 10, false, false, true, false⟩
    let ht := single_key_table RowRefKind.RowRefListWithFlags 7 1
    let v := do_probe cfg ⟨[7], []⟩ 1 (ProbeState.fresh ht)
    let a := left_outer_rewrite v [false] 1 ⟨[false], [], [], v.hash_table, false⟩
    let r := process cfg (fun _ _ => false) ⟨[7], []⟩ 1 (ProbeState.fresh ht) Block.empty
    a.filter_map = [true] ∧ a.null_map_data = [true] ∧
    r.2.2.tuples = [(0, ⟨0, 0⟩)] ∧
    r.2.1.tuple_is_null_left_flags = [] ∧
    r.2.1.tuple_is_null_right_flags = [true] := by
  decide

/-- C23 (amended: the flags go to the right null-flag column): LEFT_OUTER / FULL_OUTER with
other conjuncts on a per-row-flags table, non-empty block. `a` being the state of the filter
rewrite at its end, the call appends to the right null-flag column `null_map_data[i]` for
every `i` whose `filter_map[i]` is set, in increasing order of `i`, and leaves the left
null-flag column as it was. -/
theorem C23_null_flags_appended_right (cfg : Config) (conj : OtherConjuncts)
    (probe : ProbeBatch) (probe_rows : Nat) (s : ProbeState)
    (hop : cfg.JoinOpType = TJoinOp.LEFT_OUTER_JOIN ∨
      cfg.JoinOpType = TJoinOp.FULL_OUTER_JOIN)
    (ho : cfg.with_other_conjuncts = true)
    (hkind : s.hash_table.kind = RowRefKind.RowRefListWithFlags)
    (hpos : 0 < (do_probe cfg probe probe_rows s).current_offset) :
    let v := do_probe cfg probe probe_rows s
    let hit := List.zipWith conj v.probe_indexs
      (List.zipWith RowRef.mk v.build_block_offsets v.build_block_rows)
    let a := left_outer_rewrite v hit v.current_offset
      ⟨hit, [], v.mark_column, v.hash_table, v.is_any_probe_match_row_output⟩
    let r := process cfg conj probe probe_rows s Block.empty
    r.2.1.tuple_is_null_right_flags =
      s.tuple_is_null_right_flags ++
        ((List.range v.current_offset).filter fun i => a.filter_map.getD i false).map
          (fun i => a.null_map_data.getD i false) ∧
    r.2.1.tuple_is_null_left_flags = s.tuple_is_null_left_flags := by
  intro v hit a r
  have hr : r = do_process cfg conj probe probe_rows s :=
    process_other_eq cfg conj probe probe_rows s Block.empty hkind
  have key := do_process_left_outer cfg conj probe probe_rows s ho hop hpos
  simp only at key
  obtain ⟨l1, l2⟩ := left_outer_rewrite_lengths v hit v.current_offset
    ⟨hit, [], v.mark_column, v.hash_table, v.is_any_probe_match_row_output⟩
  have hfb := filter_block_eq_range false a.filter_map a.null_map_data (l1.trans l2.symm)
  have hl1 : a.filter_map.length = v.current_offset := l1
  rw [hl1] at hfb
  rw [hr, key]
  refine ⟨?_, ?_⟩
  · show v.tuple_is_null_right_flags ++ filter_block a.filter_map a.null_map_data = _
    rw [hfb, (do_probe_frame cfg probe probe_rows s).1]
  · exact do_probe_left_flags cfg probe probe_rows s

theorem C23_null_flags_appended_right_witness :
    ((⟨TJoinOp.LEFT_OUTER_JOIN, 2, false, false, true, false⟩ : Config).JoinOpType =
        TJoinOp.LEFT_OUTER_JOIN ∨
      (⟨TJoinOp.LEFT_OUTER_JOIN, 2, false, false, true, false⟩ : Config).JoinOpType =
        TJoinOp.FULL_OUTER_JOIN) ∧
    (⟨TJoinOp.LEFT_OUTER_JOIN, 2, false, false, true, false⟩ : Config).with_other_conjuncts =
      true ∧
    (ProbeState.fresh (single_key_table RowRefKind.RowRefListWithFlags 7 1)).hash_table.kind =
      RowRefKind.RowRefListWithFlags ∧
    0 < (do_probe ⟨TJoinOp.LEFT_OUTER_JOIN, 2, false, false, true, false⟩ ⟨[7, 9], []⟩ 2
      (ProbeState.fresh (single_key_table RowRefKind.RowRefListWithFlags 7 1))).current_offset ∧
    (process ⟨TJoinOp.LEFT_OUTER_JOIN, 2, false, false, true, false⟩ (fun _ _ => true)
      ⟨[7, 9], []⟩ 2 (ProbeState.fresh (single_key_table RowRefKind.RowRefListWithFlags 7 1))
      Block.empty).2.1.tuple_is_null_right_flags = [false, true] ∧
    (let v := do_probe ⟨TJoinOp.LEFT_OUTER_JOIN, 2, false, false, true, false⟩ ⟨[7, 9], []⟩ 2
      (ProbeState.fresh (single_key_table RowRefKind.RowRefListWithFlags 7 1))
    let hit := List.zipWith (fun (_ : Nat) (_ : RowRef) => true) v.probe_indexs
      (List.zipWith RowRef.mk v.build_block_offsets v.build_block_rows)
    let a := left_outer_rewrite v hit v.current_offset
      ⟨hit, [], v.mark_column, v.hash_table, v.is_any_probe_match_row_output⟩
    let r := process ⟨TJoinOp.LEFT_OUTER_JOIN, 2, false, false, true, false⟩
      (fun _ _ => true) ⟨[7, 9], []⟩ 2
      (ProbeState.fresh (single_key_table RowRefKind.RowRefListWithFlags 7 1)) Block.empty
    r.2.1.tuple_is_null_right_flags =
      (ProbeState.fresh
        (single_key_table RowRefKind.RowRefListWithFlags 7 1)).tuple_is_null_right_flags ++
        ((List.range v.current_offset).filter fun i => a.filter_map.getD i false).map
          (fun i => a.null_map_data.getD i false) ∧
    r.2.1.tuple_is_null_left_flags =
      (ProbeState.fresh
        (single_key_table RowRefKind.RowRefListWithFlags 7 1)).tuple_is_null_left_flags) :=
  ⟨Or.inl rfl, rfl, rfl, by decide, by decide,
    C23_null_flags_appended_right ⟨TJoinOp.LEFT_OUTER_JOIN, 2, false, false, true, false⟩
      (fun _ _ => true) ⟨[7, 9], []⟩ 2
      (ProbeState.fresh (single_key_table RowRefKind.RowRefListWithFlags 7 1))
      (Or.inl rfl) rfl rfl (by decide)⟩

theorem filter_block_map_self {α : Type} (f : α → Bool) (l : List α) :
    filter_block (l.map f) l = l.filter f := by
  induction l with
  | nil => simp [filter_block_nil_left]
  | cons a l ih =>
    rw [List.map_cons, filter_block_cons, ih, List.filter_cons]
    cases f a <;> simp

theorem zipWith_eq_map_zip {α β γ : Type} (g : α → β → γ) (l1 : List α) (l2 : List β) :
    List.zipWith g l1 l2 = (List.zip l1 l2).map fun t => g t.1 t.2 := by
  induction l1 generalizing l2 with
  | nil => simp
  | cons a l1 ih =>
    cases l2 with
    | nil => simp
    | cons b l2 => simp [ih]

theorem resize_nil {α : Type} (n : Nat) (v : α) : resize ([] : List α) n v = List.replicate n v := by
  simp [resize]

/-- What `do_process` returns for RIGHT_OUTER with other conjuncts and a non-empty block, in
terms of the state after the probe loop. -/
theorem do_process_right_outer (cfg : Config) (conj : OtherConjuncts) (probe : ProbeBatch)
    (probe_rows : Nat) (s : ProbeState) (ho : cfg.with_other_conjuncts = true)
    (hop : cfg.JoinOpType = TJoinOp.RIGHT_OUTER_JOIN)
    (hpos : 0 < (do_probe cfg probe probe_rows s).current_offset) :
    let v := do_probe cfg probe probe_rows s
    let hit := List.zipWith conj v.probe_indexs
      (List.zipWith RowRef.mk v.build_block_offsets v.build_block_rows)
    do_process cfg conj probe probe_rows s =
      (Status.OK,
       { v with hash_table := right_visited_rewrite v hit v.current_offset v.hash_table
                tuple_is_null_left_flags :=
                  resize v.tuple_is_null_left_flags (hit.map Bool.toNat).sum false },
       ⟨filter_block hit v.probe_indexs,
        filter_block hit (List.zipWith RowRef.mk v.build_block_offsets v.build_block_rows),
        v.mark_column⟩) := by
  intro v hit
  obtain ⟨hinv, -, hsize⟩ := do_probe_inv cfg probe probe_rows s
  obtain ⟨l1, l2, -⟩ := do_probe_scratch_len cfg probe probe_rows s ho
  have hA := assemble_other cfg probe probe_rows s ho
  simp only at hA
  have hv : do_probe cfg probe probe_rows s = v := rfl
  rw [hv] at hinv hsize l1 l2 hpos hA
  have hrows : (⟨v.probe_indexs,
      List.zipWith RowRef.mk v.build_block_offsets v.build_block_rows,
      v.mark_column⟩ : Block).rows = v.current_offset := hinv.1
  have hlenB : (List.zipWith RowRef.mk v.build_block_offsets v.build_block_rows).length =
      v.current_offset := by simp [l1, l2]
  have hhit : ((List.range v.current_offset).map fun i =>
      conj (v.probe_indexs.getD i 0)
        ((List.zipWith RowRef.mk v.build_block_offsets v.build_block_rows).getD i ⟨0, 0⟩)) =
      hit := range_map_zipWith conj _ _ 0 ⟨0, 0⟩ _ hinv.1 hlenB
  have hne : (v.current_offset == 0) = false := by
    cases h : v.current_offset == 0
    · rfl
    · have := beq_iff_eq.mp h; omega
  unfold do_process
  simp only [hv, hA, ho, if_true]
  unfold do_other_join_conjuncts
  simp only [hrows, hne, Bool.false_eq_true, if_false, hhit, hop]
  rfl

/-- C24: with the left null-flag column empty on entry. RIGHT_OUTER `process`: on return
the column holds one `false` per row of the output block; without other conjuncts the block
rows are the tuples the probe loop emitted, with other conjuncts (per-row-flags table) they
are the emitted tuples that pass the conjuncts. RIGHT_OUTER / FULL_OUTER drain: on return
the column holds one `true` per location registered by the call. -/
theorem C24_left_null_flags (cfg : Config) (conj : OtherConjuncts) (probe : ProbeBatch)
    (probe_rows : Nat) (s : ProbeState) (build_blocks : Nat) (ht : HashTable)
    (st : DrainState)
    (hs : s.tuple_is_null_left_flags = []) (hst : st.tuple_is_null_left_flags = []) :
    (cfg.JoinOpType = TJoinOp.RIGHT_OUTER_JOIN →
      let v := do_probe cfg probe probe_rows s
      let r := process cfg conj probe probe_rows s Block.empty
      r.2.1.tuple_is_null_left_flags = List.replicate r.2.2.rows false ∧
      (cfg.with_other_conjuncts = false →
        r.2.2.rows = v.current_offset ∧ r.2.2.tuples = scratch_tuples v) ∧
      (cfg.with_other_conjuncts = true →
        s.hash_table.kind = RowRefKind.RowRefListWithFlags →
        r.2.2.tuples = (scratch_tuples v).filter fun t => conj t.1 t.2)) ∧
    ((cfg.JoinOpType = TJoinOp.RIGHT_OUTER_JOIN ∨ cfg.JoinOpType = TJoinOp.FULL_OUTER_JOIN) →
      let d := process_data_in_hashtable cfg build_blocks ht st
      d.state.tuple_is_null_left_flags = List.replicate d.locs.length true) := by
  refine ⟨?_, ?_⟩
  · intro hop v r
    have hvl : v.tuple_is_null_left_flags = [] :=
      (do_probe_left_flags cfg probe probe_rows s).trans hs
    obtain ⟨hinv, -, hsize⟩ := do_probe_inv cfg probe probe_rows s
    have hv : do_probe cfg probe probe_rows s = v := rfl
    rw [hv] at hinv hsize
    cases ho : cfg.with_other_conjuncts
    · -- without other conjuncts
      have hr : r = do_process cfg conj probe probe_rows s :=
        process_eq_do_process cfg conj probe probe_rows s Block.empty ho
      have hw : (cfg.with_other_conjuncts || (cfg.JoinOpType != TJoinOp.RIGHT_SEMI_JOIN &&
          cfg.JoinOpType != TJoinOp.RIGHT_ANTI_JOIN)) = true := by rw [ho, hop]; rfl
      have hsa : (!is_semi_anti_join cfg.JoinOpType || cfg.with_other_conjuncts) = true := by
        rw [ho, hop]; rfl
      obtain ⟨ap, -⟩ := assemble_probe cfg s.probe_index v hinv hsize hw
      have hd : do_process cfg conj probe probe_rows s =
          (Status.OK, (assemble cfg s.probe_index v).1, (assemble cfg s.probe_index v).2) := by
        unfold do_process
        simp only [hv, ho, Bool.false_eq_true, if_false]
      have hfl : (assemble cfg s.probe_index v).1.tuple_is_null_left_flags =
          List.replicate v.current_offset false := by
        unfold assemble probe_side_null_flags
        simp only [hw, if_true, ho, hop, Bool.not_false, Bool.and_true, beq_self_eq_true]
        show resize v.tuple_is_null_left_flags v.current_offset false = _
        rw [hvl, resize_nil]
      have hrows : (assemble cfg s.probe_index v).2.rows = v.current_offset := by
        show (assemble cfg s.probe_index v).2.probe.length = _
        rw [ap]; exact hinv.1
      rw [hr, hd]
      refine ⟨?_, ?_, ?_⟩
      · show (assemble cfg s.probe_index v).1.tuple_is_null_left_flags =
          List.replicate (assemble cfg s.probe_index v).2.rows false
        rw [hfl, hrows]
      · intro _
        refine ⟨hrows, ?_⟩
        obtain ⟨-, -, -, h2, h3⟩ := do_probe_emit cfg probe probe_rows s ho (by rw [hop]; rfl)
        exact assemble_tuples cfg s.probe_index v hinv hsize h2 h3 hsa
      · intro h; cases h
    · -- with other conjuncts
      by_cases hkind : s.hash_table.kind = RowRefKind.RowRefListWithFlags
      · have hr : r = do_process cfg conj probe probe_rows s :=
          process_other_eq cfg conj probe probe_rows s Block.empty hkind
        obtain ⟨l1, l2, -⟩ := do_probe_scratch_len cfg probe probe_rows s ho
        rw [hv] at l1 l2
        have hlenB : (List.zipWith RowRef.mk v.build_block_offsets v.build_block_rows).length =
            v.current_offset := by simp [l1, l2]
        by_cases hpos : 0 < v.current_offset
        · have key := do_process_right_outer cfg conj probe probe_rows s ho hop hpos
          simp only at key
          rw [hv] at key
          rw [hr, key]
          have hhl : (List.zipWith conj v.probe_indexs
              (List.zipWith RowRef.mk v.build_block_offsets v.build_block_rows)).length =
              v.probe_indexs.length := by
            simp [hinv.1, hlenB]
          refine ⟨?_, ?_, ?_⟩
          · show resize v.tuple_is_null_left_flags _ false =
              List.replicate (filter_block _ v.probe_indexs).length false
            rw [hvl, resize_nil, filter_block_length_sum _ _ hhl]
          · intro h; cases h
          · intro _ _
            show List.zip (filter_block _ v.probe_indexs) (filter_block _ _) = _
            rw [← filter_block_zip, zipWith_eq_map_zip]
            exact filter_block_map_self (fun (t : Nat × RowRef) => conj t.1 t.2) _
        · have h0 : v.current_offset = 0 := by omega
          have key := do_process_other_empty cfg conj probe probe_rows s ho h0
          rw [hv] at key
          have e1 : v.probe_indexs = [] :=
            List.eq_nil_of_length_eq_zero (by rw [hinv.1, h0])
          rw [hr, key]
          refine ⟨?_, ?_, ?_⟩
          · show v.tuple_is_null_left_flags = List.replicate 0 false
            rw [hvl]; rfl
          · intro h; cases h
          · intro _ _
            show List.zip [] [] = List.filter _ (scratch_tuples v)
            unfold scratch_tuples
            rw [e1]; rfl
      · have hr : r = (Status.InvalidArgument, s, Block.empty) := by
          show process cfg conj probe probe_rows s Block.empty = _
          unfold process
          simp [ho, hkind]
        rw [hr]
        refine ⟨?_, ?_, ?_⟩
        · show s.tuple_is_null_left_flags = List.replicate 0 false
          rw [hs]; rfl
        · intro h; cases h
        · intro _ h; exact absurd h hkind
  · intro hop d
    have hopb : (cfg.JoinOpType == TJoinOp.RIGHT_OUTER_JOIN ||
        cfg.JoinOpType == TJoinOp.FULL_OUTER_JOIN) = true := by
      rcases hop with h | h <;> rw [h] <;> rfl
    have hi : (init_once st).tuple_is_null_left_flags = [] := by
      unfold init_once
      split_ifs
      · exact hst
      · exact hst
    show (process_data_in_hashtable cfg build_blocks ht st).state.tuple_is_null_left_flags =
      List.replicate (process_data_in_hashtable cfg build_blocks ht st).locs.length true
    unfold process_data_in_hashtable
    by_cases hk : (ht.kind == RowRefKind.RowRefList) = true
    · rw [if_pos hk]
      show st.tuple_is_null_left_flags = List.replicate 0 true
      rw [hst]; rfl
    · rw [if_neg hk]
      simp only [hopb, if_true, hi, resize_nil]

theorem C24_left_null_flags_witness :
    (ProbeState.fresh (single_key_table RowRefKind.RowRefListWithFlags 7 2)
      ).tuple_is_null_left_flags = [] ∧
    DrainState.fresh.tuple_is_null_left_flags = [] ∧
    (process ⟨TJoinOp.RIGHT_OUTER_JOIN, 10, false, false, true, false⟩
      (fun _ r => r.row_num == 1) ⟨[7, 9], []⟩ 2
      (ProbeState.fresh (single_key_table RowRefKind.RowRefListWithFlags 7 2))
      Block.empty).2.1.tuple_is_null_left_flags = [false] ∧
    (process_data_in_hashtable ⟨TJoinOp.RIGHT_OUTER_JOIN, 10, false, false, true, false⟩ 1
      (single_key_table RowRefKind.RowRefListWithFlags 7 2)
      DrainState.fresh).state.tuple_is_null_left_flags = [true, true] ∧
    ((TJoinOp.RIGHT_OUTER_JOIN = TJoinOp.RIGHT_OUTER_JOIN →
      let v := do_probe ⟨TJoinOp.RIGHT_OUTER_JOIN, 10, false, false, true, false⟩ ⟨[7, 9], []⟩
        2 (ProbeState.fresh (single_key_table RowRefKind.RowRefListWithFlags 7 2))
      let r := process ⟨TJoinOp.RIGHT_OUTER_JOIN, 10, false, false, true, false⟩
        (fun _ r => r.row_num == 1) ⟨[7, 9], []⟩ 2
        (ProbeState.fresh (single_key_table RowRefKind.RowRefListWithFlags 7 2)) Block.empty
      r.2.1.tuple_is_null_left_flags = List.replicate r.2.2.rows false ∧
      (true = false →
        r.2.2.rows = v.current_offset ∧ r.2.2.tuples = scratch_tuples v) ∧
      (true = true →
        (ProbeState.fresh (single_key_table RowRefKind.RowRefListWithFlags 7 2)
          ).hash_table.kind = RowRefKind.RowRefListWithFlags →
        r.2.2.tuples = (scratch_tuples v).filter fun t => (fun _ r => r.row_num == 1) t.1 t.2)) ∧
    ((TJoinOp.RIGHT_OUTER_JOIN = TJoinOp.RIGHT_OUTER_JOIN ∨
        TJoinOp.RIGHT_OUTER_JOIN = TJoinOp.FULL_OUTER_JOIN) →
      let d := process_data_in_hashtable
        ⟨TJoinOp.RIGHT_OUTER_JOIN, 10, false, false, true, false⟩ 1
        (single_key_table RowRefKind.RowRefListWithFlags 7 2) DrainState.fresh
      d.state.tuple_is_null_left_flags = List.replicate d.locs.length true)) :=
  ⟨rfl, rfl, by decide, by decide,
    C24_left_null_flags ⟨TJoinOp.RIGHT_OUTER_JOIN, 10, false, false, true, false⟩
      (fun _ r => r.row_num == 1) ⟨[7, 9], []⟩ 2
      (ProbeState.fresh (single_key_table RowRefKind.RowRefListWithFlags 7 2)) 1
      (single_key_table RowRefKind.RowRefListWithFlags 7 2) DrainState.fresh rfl rfl⟩

theorem getLast?_append_replicate {α : Type} (l : List α) (n : Nat) (a : α) (h : 0 < n) :
    (l ++ List.replicate n a).getLast? = some a := by
  obtain ⟨m, rfl⟩ : ∃ m, n = m + 1 := ⟨n - 1, by omega⟩
  rw [List.replicate_succ', ← List.append_assoc, List.getLast?_concat]

/-- The probe indices recorded by the probe loop against `probe_index`, in every mode: with
the iterator suspended, the last tuple emitted belongs to the probe row `probe_index`
designates; otherwise every tuple emitted belongs to a probe row below `probe_index`. -/
theorem do_probe_index_inv (cfg : Config) (probe : ProbeBatch) (probe_rows : Nat)
    (s : ProbeState) (hb : 1 ≤ cfg.batch_size) :
    let d := do_probe cfg probe probe_rows s
    (d.probe_row_match_iter.ok = false → ∀ x ∈ d.probe_indexs, x < d.probe_index) ∧
    (d.probe_row_match_iter.ok = true → d.probe_indexs.getLast? = some d.probe_index) := by
  intro d
  have key := probe_loop_induct cfg probe probe_rows
    (fun t => LoopInv cfg s.probe_index t ∧
      (t.probe_row_match_iter.ok = false → ∀ x ∈ t.probe_indexs, x < t.probe_index) ∧
      (t.probe_row_match_iter.ok = true → t.probe_indexs.getLast? = some t.probe_index))
    (fun t ht hc _ => by
      obtain ⟨hL, r1, -⟩ := ht
      have hok : t.probe_row_match_iter.ok = false := by
        cases hk : t.probe_row_match_iter.ok
        · rfl
        · have := hL.2.1 hk; omega
      obtain ⟨g1, g2, g3, g4, -⟩ := probe_step_summary cfg probe t hL.1 hok hc
      refine ⟨probe_step_inv cfg probe _ t hL hc, ?_, ?_⟩
      · intro h x hx
        rw [h] at g3
        rw [g2] at hx
        simp only [Bool.toNat_false, Nat.add_zero] at g3
        rcases List.mem_append.mp hx with hx | hx
        · have := r1 hok x hx; omega
        · have := (List.mem_replicate.mp hx).2; omega
      · intro h
        have hb' := g4 h
        rw [h] at g3
        simp only [Bool.toNat_true] at g3
        have hpi : (probe_step cfg probe t).probe_index = t.probe_index := by omega
        rw [g2, hpi]
        exact getLast?_append_replicate _ _ _ (by omega))
    (probe_rows - (resume_probe cfg s).probe_index) (resume_probe cfg s)
    (by
      refine ⟨resume_probe_inv cfg s, ?_⟩
      cases hok : s.probe_row_match_iter.ok
      · rw [resume_probe_not_ok cfg s hok]
        refine ⟨fun _ x hx => ?_, fun h => ?_⟩
        · simp [init_probe_side] at hx
        · have : (init_probe_side cfg s).probe_row_match_iter = s.probe_row_match_iter := rfl
          rw [this, hok] at h; cases h
      · obtain ⟨h1, h2, h3, h4, -⟩ := resume_probe_ok cfg s hok
        have hlen : 0 < s.probe_row_match_iter.rest.length :=
          List.length_pos.mpr ((ok_eq_true_iff _).mp hok)
        rw [h2, h3, h4, ok_drop]
        refine ⟨fun h x hx => ?_, fun h => ?_⟩
        · have hk : ¬ min cfg.batch_size s.probe_row_match_iter.rest.length <
              s.probe_row_match_iter.rest.length := by simpa using h
          rw [if_neg hk]
          have := (List.mem_replicate.mp hx).2
          omega
        · have hk : min cfg.batch_size s.probe_row_match_iter.rest.length <
              s.probe_row_match_iter.rest.length := by simpa using h
          rw [if_pos hk, Nat.add_zero]
          have := getLast?_append_replicate [] (min cfg.batch_size
            s.probe_row_match_iter.rest.length) s.probe_index (by omega)
          simpa using this)
  exact ⟨key.2.1, key.2.2⟩

/-- One iteration of the probe loop and the iterator, in every mode: the keys and row
coordinates of the table stay as they are, and when the iteration leaves the iterator
non-empty, the key of the probe row was found and the iterator stands in its row list
behind the rows the iteration emitted. -/
theorem probe_step_iter (cfg : Config) (probe : ProbeBatch) (s : ProbeState)
    (hok : s.probe_row_match_iter.ok = false)
    (hc : s.current_offset < cfg.batch_size) :
    skeleton (probe_step cfg probe s).hash_table.entries = skeleton s.hash_table.entries ∧
    ((probe_step cfg probe s).probe_row_match_iter.ok = true →
      ∃ e, find_result cfg probe s.hash_table.entries s.probe_index = some e ∧
        0 < min (cfg.batch_size - s.current_offset) (entry_rows s.hash_table.entries e).length ∧
        (probe_step cfg probe s).probe_row_match_iter =
          ⟨e, min (cfg.batch_size - s.current_offset) (entry_rows s.hash_table.entries e).length,
            (entry_rows s.hash_table.entries e).drop
              (min (cfg.batch_size - s.current_offset)
                (entry_rows s.hash_table.entries e).length)⟩) := by
  unfold probe_step
  by_cases hn : is_ignored_null cfg probe s.probe_index = true
  · rw [if_pos hn]
    obtain ⟨f1, -⟩ := null_key_branch_frame cfg s
    have hht : (null_key_branch cfg s).hash_table = s.hash_table := by
      unfold null_key_branch
      cases hp : probe_all cfg.JoinOpType <;> cases ho : cfg.with_other_conjuncts <;>
        simp [emplace_element]
    refine ⟨by rw [hht], fun h => ?_⟩
    rw [f1, hok] at h; cases h
  · rw [if_neg hn]
    have fin : ∀ (i : Nat) (t : ProbeState),
        (finish_step i t).probe_row_match_iter = t.probe_row_match_iter ∧
        (finish_step i t).hash_table = t.hash_table := fun _ _ => ⟨rfl, rfl⟩
    unfold dispatch
    by_cases hd : (!cfg.with_other_conjuncts && is_left_semi_anti cfg.JoinOpType) = true
    · rw [if_pos hd, (fin _ _).1, (fin _ _).2]
      have h1 : ∀ f, (semi_anti_branch cfg f s).probe_row_match_iter =
          s.probe_row_match_iter ∧ (semi_anti_branch cfg f s).hash_table = s.hash_table := by
        intro f
        unfold semi_anti_branch
        split_ifs <;> exact ⟨rfl, rfl⟩
      rw [(h1 _).1, (h1 _).2]
      refine ⟨rfl, fun h => ?_⟩
      rw [hok] at h; cases h
    · rw [if_neg hd, (fin _ _).1, (fin _ _).2]
      cases hf : find_result cfg probe s.hash_table.entries s.probe_index with
      | none =>
        simp only
        obtain ⟨f1, -⟩ := not_found_branch_frame cfg s
        have hht : (not_found_branch cfg s).hash_table = s.hash_table := by
          unfold not_found_branch
          split_ifs <;> simp [emplace_element]
        refine ⟨by rw [hht], fun h => ?_⟩
        rw [f1, hok] at h; cases h
      | some en =>
        simp only
        obtain ⟨-, -, -, -, -, f6, -, -, -, -, -, -, -, -, -, -, f17⟩ :=
          found_branch_fields cfg en (s.hash_table.entries.getD en (0, ⟨[], false⟩)).2 s
        have hrows : List.map Prod.fst (s.hash_table.entries.getD en (0, ⟨[], false⟩)).2.rows =
            entry_rows s.hash_table.entries en := rfl
        simp only [hrows] at f6
        refine ⟨?_, fun h => ?_⟩
        · rw [f17]
          split_ifs
          · exact skeleton_set_key_visited _ _
          · rfl
        · by_cases hcap : (!(cfg.is_mark_join && cfg.with_other_conjuncts) &&
              (cfg.with_other_conjuncts || !is_right_semi_anti_join cfg.JoinOpType)) = true
          · have hu : (cfg.is_mark_join && cfg.with_other_conjuncts) = false := by
              cases hx : (cfg.is_mark_join && cfg.with_other_conjuncts)
              · rfl
              · rw [hx] at hcap; simp at hcap
            simp only [hcap, if_true] at f6
            simp only [hu, Bool.false_eq_true, if_false] at f6
            rw [f6] at h ⊢
            rw [ok_drop] at h
            have hk := of_decide_eq_true h
            exact ⟨en, rfl, by omega, rfl⟩
          · rw [if_neg hcap] at f6
            rw [f6, hok] at h; cases h

/-- The iterator after the probe loop, in every mode: coherent with `probe_index` (in the
table on entry) when it was so on entry; the keys and row coordinates of the table are
unchanged. -/
theorem do_probe_suspended (cfg : Config) (probe : ProbeBatch) (probe_rows : Nat)
    (s : ProbeState) (hb : 1 ≤ cfg.batch_size)
    (hs : SuspendedAt cfg probe s.hash_table.entries s) :
    skeleton (do_probe cfg probe probe_rows s).hash_table.entries =
      skeleton s.hash_table.entries ∧
    SuspendedAt cfg probe s.hash_table.entries (do_probe cfg probe probe_rows s) := by
  have key := probe_loop_induct cfg probe probe_rows
    (fun t => LoopInv cfg s.probe_index t ∧
      skeleton t.hash_table.entries = skeleton s.hash_table.entries ∧
      SuspendedAt cfg probe s.hash_table.entries t)
    (fun t ht hc _ => by
      obtain ⟨hL, hsk, -⟩ := ht
      have hok : t.probe_row_match_iter.ok = false := by
        cases hk : t.probe_row_match_iter.ok
        · rfl
        · have := hL.2.1 hk; omega
      obtain ⟨i1, i2⟩ := probe_step_iter cfg probe t hok hc
      obtain ⟨-, -, g3, -⟩ := probe_step_summary cfg probe t hL.1 hok hc
      refine ⟨probe_step_inv cfg probe _ t hL hc, i1.trans hsk, ?_⟩
      intro h
      obtain ⟨e, h1, h2, h3⟩ := i2 h
      rw [h] at g3
      simp only [Bool.toNat_true] at g3
      have hpi : (probe_step cfg probe t).probe_index = t.probe_index := by omega
      rw [find_result_skeleton cfg probe _ _ _ hsk] at h1
      rw [entry_rows_skeleton e _ _ hsk] at h2 h3
      exact ⟨e, _, by rw [hpi]; exact h1, h2, h3⟩)
    (probe_rows - (resume_probe cfg s).probe_index) (resume_probe cfg s)
    (by
      refine ⟨resume_probe_inv cfg s, ?_, ?_⟩
      · cases hok : s.probe_row_match_iter.ok
        · rw [resume_probe_not_ok cfg s hok]; rfl
        · obtain ⟨-, -, -, -, -, -, -, -, h9, -⟩ := resume_probe_ok cfg s hok
          rw [h9]
      · cases hok : s.probe_row_match_iter.ok
        · rw [resume_probe_not_ok cfg s hok]
          intro h
          have : (init_probe_side cfg s).probe_row_match_iter = s.probe_row_match_iter := rfl
          rw [this, hok] at h; cases h
        · obtain ⟨-, -, h3, h4, -⟩ := resume_probe_ok cfg s hok
          obtain ⟨e, k, q1, q2, q3⟩ := hs hok
          have hlen : 0 < s.probe_row_match_iter.rest.length :=
            List.length_pos.mpr ((ok_eq_true_iff _).mp hok)
          intro h
          rw [h3, ok_drop] at h
          have hk := of_decide_eq_true h
          rw [h4, if_pos hk, Nat.add_zero]
          refine ⟨e, k + min cfg.batch_size s.probe_row_match_iter.rest.length, q1, by omega, ?_⟩
          rw [h3]
          have hrest : s.probe_row_match_iter.rest = (entry_rows s.hash_table.entries e).drop k := by
            rw [q3]
          have he : s.probe_row_match_iter.entry = e := by rw [q3]
          have hp : s.probe_row_match_iter.pos = k := by rw [q3]
          rw [he, hp]
          congr 1
          rw [hrest, List.drop_drop, Nat.add_comm])
  exact ⟨key.2.1, key.2.2⟩

theorem left_outer_rewrite_skeleton (s : ProbeState) (hit : List Bool) (row_count : Nat)
    (a : ApplierState) :
    skeleton (left_outer_rewrite s hit row_count a).hash_table.entries =
      skeleton a.hash_table.entries := by
  unfold left_outer_rewrite
  simp only
  rw [left_outer_suffix_hash_table, (visited_fold_entries_length _ _ _ _).2,
    left_outer_middle_eq_hash_table, (visited_fold_entries_length _ _ _ _).2,
    left_outer_prefix_hash_table, (visited_fold_entries_length _ _ _ _).2]

/-- The applier leaves `probe_index`, the iterator and the keys and row coordinates of the
table as they are. -/
theorem do_other_join_conjuncts_state (cfg : Config) (conj : OtherConjuncts) (s : ProbeState)
    (b : Block) :
    (do_other_join_conjuncts cfg conj s b).1.probe_index = s.probe_index ∧
    (do_other_join_conjuncts cfg conj s b).1.probe_row_match_iter = s.probe_row_match_iter ∧
    skeleton (do_other_join_conjuncts cfg conj s b).1.hash_table.entries =
      skeleton s.hash_table.entries := by
  unfold do_other_join_conjuncts
  simp only
  split_ifs <;>
    first
    | exact ⟨rfl, rfl, rfl⟩
    | exact ⟨rfl, rfl, left_outer_rewrite_skeleton _ _ _ _⟩
    | exact ⟨rfl, rfl, (visited_fold_entries_length _ _ _ _).2⟩

/-- The state `do_process` returns has the `probe_index` and the iterator the probe loop
left, and a table with the same keys and row coordinates. -/
theorem do_process_iter (cfg : Config) (conj : OtherConjuncts) (probe : ProbeBatch)
    (probe_rows : Nat) (s : ProbeState) :
    (do_process cfg conj probe probe_rows s).2.1.probe_index =
      (do_probe cfg probe probe_rows s).probe_index ∧
    (do_process cfg conj probe probe_rows s).2.1.probe_row_match_iter =
      (do_probe cfg probe probe_rows s).probe_row_match_iter ∧
    skeleton (do_process cfg conj probe probe_rows s).2.1.hash_table.entries =
      skeleton (do_probe cfg probe probe_rows s).hash_table.entries := by
  have hA := assemble_state cfg s.probe_index (do_probe cfg probe probe_rows s)
  unfold do_process
  simp only
  cases hp : assemble cfg s.probe_index (do_probe cfg probe probe_rows s) with
  | mk s1 b1 =>
    rw [hp] at hA
    simp only at hA
    obtain ⟨a1, a2, a3⟩ := hA
    cases ho : cfg.with_other_conjuncts
    · simp only [Bool.false_eq_true, if_false]
      exact ⟨a1, a2, by rw [a3]⟩
    · simp only [if_true]
      have hD := do_other_join_conjuncts_state cfg conj s1 b1
      cases hq : do_other_join_conjuncts cfg conj s1 b1 with
      | mk s2 b2 =>
        rw [hq] at hD
        simp only at hD ⊢
        obtain ⟨d1, d2, d3⟩ := hD
        exact ⟨d1.trans a1, d2.trans a2, d3.trans (by rw [a3])⟩

theorem find_result_some_not_ignored (cfg : Config) (probe : ProbeBatch)
    (entries : List (Int × Mapped)) (i e : Nat)
    (h : find_result cfg probe entries i = some e) :
    is_ignored_null cfg probe i = false := by
  unfold find_result at h
  unfold is_ignored_null
  cases hn : (cfg.need_null_map_for_probe && probe.null_map.getD i false)
  · rw [Bool.and_assoc, hn, Bool.and_false]
  · rw [hn] at h
    simp at h

theorem filter_fst_map_eq (p : Nat) (l : List RowRef) :
    (l.map fun b => (p, b)).filter (fun t => t.1 == p) = l.map fun b => (p, b) := by
  apply List.filter_eq_self.mpr
  intro a ha
  obtain ⟨b, -, rfl⟩ := List.mem_map.mp ha
  simp

theorem filter_fst_map_ne (p q : Nat) (l : List RowRef) (h : q ≠ p) :
    (l.map fun b => (q, b)).filter (fun t => t.1 == p) = [] := by
  apply List.filter_eq_nil_iff.mpr
  intro a ha
  obtain ⟨b, -, rfl⟩ := List.mem_map.mp ha
  simp [h]

theorem filter_fst_of_lt (p : Nat) (l : List (Nat × RowRef)) (h : ∀ x ∈ l, x.1 < p) :
    l.filter (fun t => t.1 == p) = [] := by
  apply List.filter_eq_nil_iff.mpr
  intro a ha
  have := h a ha
  simp
  omega

/-- One iteration of the probe loop on a path that walks row lists under the cap (other
conjuncts without the mark column, or a row-expanding mode without other conjuncts): the
build coordinates appended are those of a list `l`; when the key of the probe row is found,
`l` is the first rows of its row list, as many as fit in the batch, and `probe_index`
advances exactly when the whole list fitted. -/
theorem probe_step_tuples (cfg : Config) (probe : ProbeBatch) (t : ProbeState)
    (hpath : ¬(cfg.is_mark_join = true ∧ cfg.with_other_conjuncts = true))
    (hcap : cfg.with_other_conjuncts = true ∨ expands_rows cfg.JoinOpType = true) :
    ∃ l : List RowRef,
      (probe_step cfg probe t).build_block_offsets =
        t.build_block_offsets ++ l.map RowRef.block_offset ∧
      (probe_step cfg probe t).build_block_rows =
        t.build_block_rows ++ l.map RowRef.row_num ∧
      (probe_step cfg probe t).current_offset = t.current_offset + l.length ∧
      (∀ e, find_result cfg probe t.hash_table.entries t.probe_index = some e →
        l = (entry_rows t.hash_table.entries e).take
          (min (cfg.batch_size - t.current_offset) (entry_rows t.hash_table.entries e).length) ∧
        (probe_step cfg probe t).probe_index = t.probe_index +
          (if min (cfg.batch_size - t.current_offset)
              (entry_rows t.hash_table.entries e).length <
            (entry_rows t.hash_table.entries e).length then 0 else 1)) := by
  unfold probe_step
  by_cases hn : is_ignored_null cfg probe t.probe_index = true
  · rw [if_pos hn]
    refine ⟨if probe_all cfg.JoinOpType then [⟨-1, -1⟩] else [], ?_, ?_, ?_, ?_⟩
    · unfold null_key_branch
      cases hp : probe_all cfg.JoinOpType <;> cases ho : cfg.with_other_conjuncts <;>
        simp [emplace_element]
    · unfold null_key_branch
      cases hp : probe_all cfg.JoinOpType <;> cases ho : cfg.with_other_conjuncts <;>
        simp [emplace_element]
    · unfold null_key_branch
      cases hp : probe_all cfg.JoinOpType <;> cases ho : cfg.with_other_conjuncts <;>
        simp [emplace_element]
    · intro e he
      rw [find_result_some_not_ignored cfg probe _ _ e he] at hn
      cases hn
  · rw [if_neg hn]
    have hd : (!cfg.with_other_conjuncts && is_left_semi_anti cfg.JoinOpType) = false := by
      rcases hcap with ho | hm
      · rw [ho]; rfl
      · rw [(expands_rows_cases _ hm).1, Bool.and_false]
    unfold dispatch finish_step
    rw [hd]
    simp only [Bool.false_eq_true, if_false]
    cases hf : find_result cfg probe t.hash_table.entries t.probe_index with
    | none =>
      simp only
      refine ⟨if (probe_all cfg.JoinOpType || cfg.JoinOpType == TJoinOp.LEFT_ANTI_JOIN ||
          cfg.JoinOpType == TJoinOp.NULL_AWARE_LEFT_ANTI_JOIN ||
          (cfg.JoinOpType == TJoinOp.LEFT_SEMI_JOIN && cfg.is_mark_join)) = true
          then [⟨-1, -1⟩] else [], ?_, ?_, ?_, ?_⟩
      · unfold not_found_branch
        split_ifs <;> simp [emplace_element]
      · unfold not_found_branch
        split_ifs <;> simp [emplace_element]
      · unfold not_found_branch
        split_ifs <;> simp [emplace_element]
      · intro e he
        cases he
    | some en =>
      simp only
      obtain ⟨f1, f2, f3, -, -, -, f7, -⟩ :=
        found_branch_fields cfg en (t.hash_table.entries.getD en (0, ⟨[], false⟩)).2 t
      have hrows : List.map Prod.fst (t.hash_table.entries.getD en (0, ⟨[], false⟩)).2.rows =
          entry_rows t.hash_table.entries en := rfl
      simp only [hrows] at f1 f2 f3 f7
      have hu : (cfg.is_mark_join && cfg.with_other_conjuncts) = false := by
        cases hm : cfg.is_mark_join <;> cases ho : cfg.with_other_conjuncts <;>
          first | rfl | exact absurd ⟨hm, ho⟩ hpath
      have hcp : (cfg.with_other_conjuncts || !is_right_semi_anti_join cfg.JoinOpType) =
          true := by
        rcases hcap with ho | hm
        · rw [ho]; rfl
        · rw [(expands_rows_cases _ hm).2.1]; simp
      simp only [hu, hcp, Bool.not_false, Bool.true_and, Bool.false_eq_true, if_false,
        if_true] at f1 f2 f3 f7
      refine ⟨(entry_rows t.hash_table.entries en).take
        (min (cfg.batch_size - t.current_offset) (entry_rows t.hash_table.entries en).length),
        f1, f2, ?_, ?_⟩
      · rw [f3, List.length_take]
        congr 1
        omega
      · intro e he
        cases he
        refine ⟨rfl, ?_⟩
        rw [f7]
        by_cases hlt : min (cfg.batch_size - t.current_offset)
            (entry_rows t.hash_table.entries en).length <
            (entry_rows t.hash_table.entries en).length
        · simp [hlt]
        · simp [hlt]

theorem matches_inv_step (cfg : Config) (probe : ProbeBatch) (s t : ProbeState)
    (hpath : ¬(cfg.is_mark_join = true ∧ cfg.with_other_conjuncts = true))
    (hcap : cfg.with_other_conjuncts = true ∨ expands_rows cfg.JoinOpType = true)
    (hL : LoopInv cfg s.probe_index t) (hc : t.current_offset < cfg.batch_size)
    (h : MatchesInv cfg probe s t) : MatchesInv cfg probe s (probe_step cfg probe t) := by
  obtain ⟨m1, m2, m3, m4, m5, m6, m7⟩ := h
  have hok : t.probe_row_match_iter.ok = false := by
    cases hk : t.probe_row_match_iter.ok
    · rfl
    · have := hL.2.1 hk; omega
  obtain ⟨g1, g2, g3, -⟩ := probe_step_summary cfg probe t hL.1 hok hc
  obtain ⟨i1, -⟩ := probe_step_iter cfg probe t hok hc
  obtain ⟨l, t1, t2, t3, t4⟩ := probe_step_tuples cfg probe t hpath hcap
  have hlen : (probe_step cfg probe t).current_offset - t.current_offset = l.length := by
    omega
  rw [hlen] at g2
  have hst : scratch_tuples (probe_step cfg probe t) =
      scratch_tuples t ++ l.map fun r => (t.probe_index, r) :=
    scratch_tuples_append t _ t.probe_index l hL.1 m2 m3 g2 t1 t2
  rw [hok] at m4 m5
  simp only [Bool.toNat_false, Nat.add_zero] at m4 m5 g3
  have hle : (probe_step cfg probe t).probe_index ≤ t.probe_index + 1 := by omega
  refine ⟨i1.trans m1, ?_, ?_, by omega, ?_, ?_, ?_⟩
  · rw [t1, List.length_append, List.length_map, m2, t3]
  · rw [t2, List.length_append, List.length_map, m3, t3]
  · intro x hx
    rw [hst] at hx
    rcases List.mem_append.mp hx with hx | hx
    · have := m5 x hx; omega
    · obtain ⟨b, -, rfl⟩ := List.mem_map.mp hx
      simp only
      omega
  · intro hs hlt
    rw [hst, List.filter_append]
    have hne : t.probe_index ≠ s.probe_index := by
      rw [hs] at m4
      simp only [Bool.toNat_true] at m4
      omega
    rw [filter_fst_map_ne s.probe_index t.probe_index l hne, List.append_nil]
    exact m6 hs (by rw [hs] at m4; simp only [Bool.toNat_true] at m4; omega)
  · intro p e hp1 hp2 hf
    rw [hst, List.filter_append]
    by_cases hpt : p < t.probe_index
    · rw [filter_fst_map_ne p t.probe_index l (by omega), List.append_nil]
      exact m7 p e hp1 hpt hf
    · have hpe : p = t.probe_index := by omega
      subst hpe
      rw [filter_fst_of_lt t.probe_index (scratch_tuples t) m5, List.nil_append]
      rw [← find_result_skeleton cfg probe _ _ _ m1] at hf
      obtain ⟨u1, u2⟩ := t4 e hf
      rw [entry_rows_skeleton e _ _ m1] at u1 u2
      have hk : ¬ min (cfg.batch_size - t.current_offset)
          (entry_rows s.hash_table.entries e).length <
          (entry_rows s.hash_table.entries e).length := by
        intro hlt
        rw [if_pos hlt] at u2
        omega
      have hall : l = entry_rows s.hash_table.entries e := by
        rw [u1]
        apply List.take_of_length_le
        omega
      rw [filter_fst_map_eq, hall]

theorem matches_inv_resume (cfg : Config) (probe : ProbeBatch) (s : ProbeState) :
    MatchesInv cfg probe s (resume_probe cfg s) := by
  cases hok : s.probe_row_match_iter.ok
  · rw [resume_probe_not_ok cfg s hok]
    have hit : (init_probe_side cfg s).probe_row_match_iter = s.probe_row_match_iter := rfl
    have hpi : (init_probe_side cfg s).probe_index = s.probe_index := rfl
    have hsc : scratch_tuples (init_probe_side cfg s) = [] := rfl
    refine ⟨rfl, rfl, rfl, ?_, ?_, ?_, ?_⟩
    · rw [hit, hpi, hok]
    · intro x hx
      rw [hsc] at hx
      cases hx
    · intro h
      rw [hok] at h
      cases h
    · intro p e h1 h2 _
      rw [hpi] at h2
      omega
  · obtain ⟨h1, h2, h3, h4, -, h6, h7, -, h9, -⟩ := resume_probe_ok cfg s hok
    have hpos : 0 < s.probe_row_match_iter.rest.length :=
      List.length_pos.mpr ((ok_eq_true_iff _).mp hok)
    have hl : (s.probe_row_match_iter.rest.take
        (min cfg.batch_size s.probe_row_match_iter.rest.length)).length =
        min cfg.batch_size s.probe_row_match_iter.rest.length := by
      rw [List.length_take]
      omega
    have hsc : scratch_tuples (resume_probe cfg s) =
        (s.probe_row_match_iter.rest.take
          (min cfg.batch_size s.probe_row_match_iter.rest.length)).map
          fun b => (s.probe_index, b) := by
      unfold scratch_tuples
      rw [h2, h6, h7]
      exact zip_replicate_rows_of_length _ _ _ hl
    have hsum : (resume_probe cfg s).probe_index +
        (resume_probe cfg s).probe_row_match_iter.ok.toNat = s.probe_index + 1 := by
      rw [h3, h4, ok_drop]
      by_cases hk : min cfg.batch_size s.probe_row_match_iter.rest.length <
          s.probe_row_match_iter.rest.length
      · simp [hk]
      · simp [hk]
    refine ⟨by rw [h9], ?_, ?_, ?_, ?_, ?_, ?_⟩
    · rw [h6, List.length_map, hl, h1]
    · rw [h7, List.length_map, hl, h1]
    · rw [hsum]
      have := Bool.toNat_le s.probe_row_match_iter.ok
      omega
    · intro x hx
      rw [hsc] at hx
      obtain ⟨b, -, rfl⟩ := List.mem_map.mp hx
      rw [hsum]
      simp
    · intro _ hlt
      rw [hsc]
      have hk : ¬ min cfg.batch_size s.probe_row_match_iter.rest.length <
          s.probe_row_match_iter.rest.length := by
        intro hk
        rw [h4, if_pos hk] at hlt
        omega
      rw [List.take_of_length_le (by omega), filter_fst_map_eq]
    · intro p e hp1 hp2 _
      have : (resume_probe cfg s).probe_index ≤ s.probe_index + 1 := by omega
      rw [hok] at hp1
      simp only [Bool.toNat_true] at hp1
      omega

/-- The matches of the probe rows a call passes, on a path that walks row lists under the
cap: when `probe_index` is beyond the probe row that was suspended on entry, the tuples
emitted for that row are all the rows the iterator had left; for every other probe row
below `probe_index` that the call handled and whose key is found, the tuples emitted for it
are its whole row list. -/
theorem do_probe_matches (cfg : Config) (probe : ProbeBatch) (probe_rows : Nat)
    (s : ProbeState)
    (hpath : ¬(cfg.is_mark_join = true ∧ cfg.with_other_conjuncts = true))
    (hcap : cfg.with_other_conjuncts = true ∨ expands_rows cfg.JoinOpType = true) :
    MatchesInv cfg probe s (do_probe cfg probe probe_rows s) := by
  have key := probe_loop_induct cfg probe probe_rows
    (fun t => LoopInv cfg s.probe_index t ∧ MatchesInv cfg probe s t)
    (fun t ht hc _ => ⟨probe_step_inv cfg probe _ t ht.1 hc,
      matches_inv_step cfg probe s t hpath hcap ht.1 hc ht.2⟩)
    (probe_rows - (resume_probe cfg s).probe_index) (resume_probe cfg s)
    ⟨resume_probe_inv cfg s, matches_inv_resume cfg probe s⟩
  exact key.2

/-- C26: a `process` call with `batch_size ≥ 1` that is not the mark join with other
conjuncts and is not refused, from a state whose iterator is coherent (`SuspendedAt`; the
empty iterator is). On return the iterator is coherent again, in the returned table, whose
keys and row coordinates are those on entry. The iterator is non-empty exactly when the row
list of the probe row `probe_index` designates has rows left, `k` of them being passed: then
the probe loop emitted exactly `batch_size` tuples and the last of them is of probe row
`probe_index`. Otherwise every tuple emitted is of a probe row below `probe_index`, and no
probe row the call handled has a match left to emit. On the paths that walk row lists under
the cap (other conjuncts, or a row-expanding mode without them), for every probe row below
the returned `probe_index` that the call handled, the tuples the probe loop emitted for it
are all its matches not emitted before: the rows the iterator had left on entry for the
probe row suspended on entry (which the call has passed whenever it returns with the
iterator empty), the whole row list of its key for every other probe row whose key is found.
The tuples emitted are the `current_offset` scratch tuples. -/
theorem C26_suspended_iterator (cfg : Config) (conj : OtherConjuncts) (probe : ProbeBatch)
    (probe_rows : Nat) (s : ProbeState)
    (hb : 1 ≤ cfg.batch_size)
    (hpath : ¬(cfg.is_mark_join = true ∧ cfg.with_other_conjuncts = true))
    (hkind : cfg.with_other_conjuncts = true →
      s.hash_table.kind = RowRefKind.RowRefListWithFlags)
    (hs : SuspendedAt cfg probe s.hash_table.entries s) :
    let d := do_probe cfg probe probe_rows s
    let r := process cfg conj probe probe_rows s Block.empty
    r.1 = Status.OK ∧
    skeleton r.2.1.hash_table.entries = skeleton s.hash_table.entries ∧
    SuspendedAt cfg probe r.2.1.hash_table.entries r.2.1 ∧
    (r.2.1.probe_row_match_iter.ok = true →
      (∃ e k, find_result cfg probe s.hash_table.entries r.2.1.probe_index = some e ∧
        0 < k ∧ k < (entry_rows s.hash_table.entries e).length ∧
        r.2.1.probe_row_match_iter = ⟨e, k, (entry_rows s.hash_table.entries e).drop k⟩) ∧
      d.current_offset = cfg.batch_size ∧
      d.probe_indexs.length = cfg.batch_size ∧
      d.probe_indexs.getLast? = some r.2.1.probe_index) ∧
    (r.2.1.probe_row_match_iter.ok = false →
      r.2.1.probe_row_match_iter.rest = [] ∧
      ∀ x ∈ d.probe_indexs, x < r.2.1.probe_index) ∧
    ((cfg.with_other_conjuncts = true ∨ expands_rows cfg.JoinOpType = true) →
      (scratch_tuples d).length = d.current_offset ∧
      (r.2.1.probe_row_match_iter.ok = false → s.probe_row_match_iter.ok = true →
        s.probe_index < r.2.1.probe_index) ∧
      (s.probe_row_match_iter.ok = true → s.probe_index < r.2.1.probe_index →
        (scratch_tuples d).filter (fun x => x.1 == s.probe_index) =
          s.probe_row_match_iter.rest.map fun b => (s.probe_index, b)) ∧
      (∀ p e, s.probe_index + s.probe_row_match_iter.ok.toNat ≤ p →
        p < r.2.1.probe_index →
        find_result cfg probe s.hash_table.entries p = some e →
        (scratch_tuples d).filter (fun x => x.1 == p) =
          (entry_rows s.hash_table.entries e).map fun b => (p, b))) := by
  intro d r
  have hr : r = do_process cfg conj probe probe_rows s := by
    cases ho : cfg.with_other_conjuncts
    · exact process_eq_do_process cfg conj probe probe_rows s Block.empty ho
    · exact process_other_eq cfg conj probe probe_rows s Block.empty (hkind ho)
  obtain ⟨p1, p2, p3⟩ := do_process_iter cfg conj probe probe_rows s
  obtain ⟨q1, q2⟩ := do_probe_suspended cfg probe probe_rows s hb hs
  obtain ⟨i1, i2⟩ := do_probe_index_inv cfg probe probe_rows s hb
  obtain ⟨hL, -, -⟩ := do_probe_inv cfg probe probe_rows s
  have hd : do_probe cfg probe probe_rows s = d := rfl
  rw [← hr] at p1 p2 p3
  rw [hd] at p1 p2 p3 q1 q2 i1 i2 hL
  have hsk : skeleton r.2.1.hash_table.entries = skeleton s.hash_table.entries := p3.trans q1
  refine ⟨?_, hsk, ?_, ?_, ?_, ?_⟩
  · rw [hr]; exact do_process_status cfg conj probe probe_rows s
  · intro h
    rw [p2] at h
    obtain ⟨e, k, h1, h2, h3⟩ := q2 h
    refine ⟨e, k, ?_, h2, ?_⟩
    · rw [find_result_skeleton cfg probe _ _ _ hsk, p1]; exact h1
    · rw [entry_rows_skeleton e _ _ hsk, p2]; exact h3
  · intro h
    rw [p2] at h
    obtain ⟨e, k, h1, h2, h3⟩ := q2 h
    have hk : k < (entry_rows s.hash_table.entries e).length := by
      have h' := h
      rw [h3, ok_drop] at h'
      exact of_decide_eq_true h'
    have hco : d.current_offset = cfg.batch_size :=
      Nat.le_antisymm (hL.2.2.1 hpath) (hL.2.1 h)
    refine ⟨⟨e, k, ?_, h2, hk, ?_⟩, hco, hL.1.trans hco, ?_⟩
    · rw [p1]; exact h1
    · rw [p2]; exact h3
    · rw [p1]; exact i2 h
  · intro h
    rw [p2] at h
    refine ⟨?_, ?_⟩
    · rw [p2]; exact (ok_eq_false_iff _).mp h
    · rw [p1]; exact i1 h
  · intro hcap
    obtain ⟨-, m2, m3, m4, -, m6, m7⟩ := do_probe_matches cfg probe probe_rows s hpath hcap
    rw [hd] at m2 m3 m4 m6 m7
    rw [p1, p2]
    refine ⟨scratch_tuples_length d hL.1 m2 m3, ?_, m6, m7⟩
    intro h1 h2
    rw [h1, h2] at m4
    simp only [Bool.toNat_true, Bool.toNat_false, Nat.add_zero] at m4
    omega

theorem C26_suspended_iterator_witness :
    1 ≤ inner_batch_4.batch_size ∧
    ¬(inner_batch_4.is_mark_join = true ∧ inner_batch_4.with_other_conjuncts = true) ∧
    SuspendedAt inner_batch_4 ⟨[9, 7, 7], []⟩ suspended_inner.hash_table.entries
      suspended_inner ∧
    suspended_inner.probe_row_match_iter = ⟨0, 2, [⟨0, 2⟩]⟩ ∧
    suspended_inner.probe_index = 1 ∧
    (process inner_batch_4 (fun _ _ => true) ⟨[9, 7, 7], []⟩ 3 suspended_inner Block.empty).2.1.probe_row_match_iter.ok = false ∧
    (process inner_batch_4 (fun _ _ => true) ⟨[9, 7, 7], []⟩ 3 suspended_inner Block.empty).2.1.probe_index = 3 ∧
    scratch_tuples (do_probe inner_batch_4 ⟨[9, 7, 7], []⟩ 3 suspended_inner) =
      [(1, ⟨0, 2⟩), (2, ⟨0, 0⟩), (2, ⟨0, 1⟩), (2, ⟨0, 2⟩)] ∧
    (let d := do_probe inner_batch_4 ⟨[9, 7, 7], []⟩ 3 suspended_inner
    let r := process inner_batch_4 (fun _ _ => true) ⟨[9, 7, 7], []⟩ 3 suspended_inner Block.empty
    r.1 = Status.OK ∧
    skeleton r.2.1.hash_table.entries = skeleton suspended_inner.hash_table.entries ∧
    SuspendedAt inner_batch_4 ⟨[9, 7, 7], []⟩ r.2.1.hash_table.entries r.2.1 ∧
    (r.2.1.probe_row_match_iter.ok = true →
      (∃ e k, find_result inner_batch_4 ⟨[9, 7, 7], []⟩ suspended_inner.hash_table.entries r.2.1.probe_index = some e ∧
        0 < k ∧ k < (entry_rows suspended_inner.hash_table.entries e).length ∧
        r.2.1.probe_row_match_iter = ⟨e, k, (entry_rows suspended_inner.hash_table.entries e).drop k⟩) ∧
      d.current_offset = inner_batch_4.batch_size ∧
      d.probe_indexs.length = inner_batch_4.batch_size ∧
      d.probe_indexs.getLast? = some r.2.1.probe_index) ∧
    (r.2.1.probe_row_match_iter.ok = false →
      r.2.1.probe_row_match_iter.rest = [] ∧
      ∀ x ∈ d.probe_indexs, x < r.2.1.probe_index) ∧
    ((inner_batch_4.with_other_conjuncts = true ∨ expands_rows inner_batch_4.JoinOpType = true) →
      (scratch_tuples d).length = d.current_offset ∧
      (r.2.1.probe_row_match_iter.ok = false → suspended_inner.probe_row_match_iter.ok = true →
        suspended_inner.probe_index < r.2.1.probe_index) ∧
      (suspended_inner.probe_row_match_iter.ok = true → suspended_inner.probe_index < r.2.1.probe_index →
        (scratch_tuples d).filter (fun x => x.1 == suspended_inner.probe_index) =
          suspended_inner.probe_row_match_iter.rest.map fun b => (suspended_inner.probe_index, b)) ∧
      (∀ p e, suspended_inner.probe_index + suspended_inner.probe_row_match_iter.ok.toNat ≤ p →
        p < r.2.1.probe_index →
        find_result inner_batch_4 ⟨[9, 7, 7], []⟩ suspended_inner.hash_table.entries p = some e →
        (scratch_tuples d).filter (fun x => x.1 == p) =
          (entry_rows suspended_inner.hash_table.entries e).map fun b => (p, b)))) :=
  ⟨by decide, by decide, fun _ => ⟨0, 2, by decide, by decide, by decide⟩, by decide,
    by decide, by decide, by decide, by decide,
    C26_suspended_iterator inner_batch_4 (fun _ _ => true) ⟨[9, 7, 7], []⟩ 3 suspended_inner
      (by decide) (by decide) (fun h => absurd h (by decide))
      (fun _ => ⟨0, 2, by decide, by decide, by decide⟩)⟩

theorem range_map_getD_comp {α β : Type} (f : α → β) (l : List α) (d : α) (n : Nat)
    (h : l.length = n) : ((List.range n).map fun i => f (l.getD i d)) = l.map f := by
  have := congrArg (List.map f) (range_map_getD l d n h)
  rw [List.map_map] at this
  exact this

theorem zip_map_row_num : ∀ (c : List Int) (a : List Nat) (b : List Int),
    a.length = c.length → b.length = c.length →
    (List.zip a (List.zipWith RowRef.mk b c)).map (fun t => t.2.row_num) = c := by
  intro c
  induction c with
  | nil =>
    intro a b ha hb
    have : a = [] := List.eq_nil_of_length_eq_zero ha
    subst this
    rfl
  | cons x c ih =>
    intro a b ha hb
    cases a with
    | nil => simp at ha
    | cons y a =>
      cases b with
      | nil => simp at hb
      | cons z b =>
        simp only [List.zipWith_cons_cons, List.zip_cons_cons, List.map_cons, List.cons.injEq,
          true_and]
        exact ih a b (by simpa using ha) (by simpa using hb)

theorem assemble_right_flags (cfg : Config) (p0 : Nat) (s : ProbeState) :
    (assemble cfg p0 s).1.tuple_is_null_right_flags =
      build_side_null_flags cfg s s.current_offset := by
  unfold assemble
  simp only
  split_ifs <;> rfl

theorem entry_rows_mem (entries : List (Int × Mapped)) (e : Nat) (r : RowRef)
    (h : r ∈ entry_rows entries e) : ∃ en ∈ entries, ∃ x ∈ en.2.rows, x.1 = r := by
  unfold entry_rows at h
  obtain ⟨x, hx, rfl⟩ := List.mem_map.mp h
  by_cases he : e < entries.length
  · refine ⟨entries[e], List.getElem_mem _, x, ?_, rfl⟩
    rw [List.getD_eq_getElem?_getD, List.getElem?_eq_getElem he] at hx
    exact hx
  · rw [List.getD_eq_getElem?_getD, List.getElem?_eq_none (by omega)] at hx
    simp at hx

/-- In LEFT_OUTER / FULL_OUTER without other conjuncts, on a table whose rows are valid and
from a coherent iterator: every tuple still to be emitted has the build row number `-1`
exactly when the lookup of its probe row finds nothing (null or unmatched key), and then
its build coordinate is the padding `(-1,-1)`. -/
theorem remaining_padded (cfg : Config) (probe : ProbeBatch) (probe_rows : Nat)
    (s : ProbeState) (hpa : probe_all cfg.JoinOpType = true)
    (hwf : rows_valid s.hash_table)
    (hs : SuspendedAt cfg probe s.hash_table.entries s) :
    ∀ t ∈ remaining cfg probe s.hash_table.entries probe_rows s,
      (t.2.row_num == -1) = (find_result cfg probe s.hash_table.entries t.1).isNone ∧
      (t.2.row_num = -1 → t.2 = ⟨-1, -1⟩) := by
  have hrow : ∀ e r, r ∈ entry_rows s.hash_table.entries e → r.row_num ≠ -1 := by
    intro e r hr
    obtain ⟨en, hen, x, hx, rfl⟩ := entry_rows_mem _ _ _ hr
    exact hwf en hen x hx
  intro t ht
  unfold remaining at ht
  rcases List.mem_append.mp ht with ht | ht
  · obtain ⟨r, hr, rfl⟩ := List.mem_map.mp ht
    have hok : s.probe_row_match_iter.ok = true :=
      (ok_eq_true_iff _).mpr (List.ne_nil_of_mem hr)
    obtain ⟨e, k, h1, -, h3⟩ := hs hok
    have hrest : s.probe_row_match_iter.rest = (entry_rows s.hash_table.entries e).drop k := by
      rw [h3]
    rw [hrest] at hr
    have hne := hrow e r (List.mem_of_mem_drop hr)
    simp only [h1, Option.isNone_some]
    exact ⟨by simpa using hne, fun h => absurd h hne⟩
  · obtain ⟨i, -, hi⟩ := List.mem_flatMap.mp ht
    unfold row_tuples at hi
    by_cases hn : is_ignored_null cfg probe i = true
    · rw [if_pos hn, if_pos hpa] at hi
      have ht' : t = (i, ⟨-1, -1⟩) := by simpa using hi
      subst ht'
      have hnone : find_result cfg probe s.hash_table.entries i = none := by
        unfold is_ignored_null at hn
        simp only [Bool.and_eq_true] at hn
        simp only [find_result, hn.1.2, hn.2, Bool.and_self, if_true]
      rw [hnone]
      exact ⟨rfl, fun _ => rfl⟩
    · rw [if_neg hn] at hi
      cases hf : find_result cfg probe s.hash_table.entries i with
      | none =>
        rw [hf] at hi
        simp only [hpa, if_true] at hi
        have ht' : t = (i, ⟨-1, -1⟩) := by simpa using hi
        subst ht'
        rw [hf]
        exact ⟨rfl, fun _ => rfl⟩
      | some e =>
        rw [hf] at hi
        simp only at hi
        obtain ⟨r, hr, rfl⟩ := List.mem_map.mp hi
        have hne := hrow e r hr
        simp only [hf, Option.isNone_some]
        exact ⟨by simpa using hne, fun h => absurd h hne⟩

/-- C22: LEFT_OUTER / FULL_OUTER without other conjuncts, on a table whose build rows are
valid, from a coherent iterator (the empty one is). After `process` the right null-flag
column has one entry per output tuple; entry `i` is set exactly when the build coordinate
of tuple `i` is the padding `(-1,-1)`, and exactly when the lookup of the probe row of tuple
`i` finds nothing (its key is null or unmatched). -/
theorem C22_right_null_flags (cfg : Config) (conj : OtherConjuncts) (probe : ProbeBatch)
    (probe_rows : Nat) (s : ProbeState)
    (hop : cfg.JoinOpType = TJoinOp.LEFT_OUTER_JOIN ∨
      cfg.JoinOpType = TJoinOp.FULL_OUTER_JOIN)
    (ho : cfg.with_other_conjuncts = false)
    (hwf : rows_valid s.hash_table)
    (hs : SuspendedAt cfg probe s.hash_table.entries s) :
    let r := process cfg conj probe probe_rows s Block.empty
    r.2.1.tuple_is_null_right_flags.length = r.2.2.tuples.length ∧
    r.2.2.tuples.length = r.2.2.rows ∧
    r.2.1.tuple_is_null_right_flags =
      r.2.2.tuples.map (fun t => decide (t.2 = (⟨-1, -1⟩ : RowRef))) ∧
    r.2.1.tuple_is_null_right_flags =
      r.2.2.tuples.map
        (fun t => (find_result cfg probe s.hash_table.entries t.1).isNone) := by
  intro r
  have hr : r = do_process cfg conj probe probe_rows s :=
    process_eq_do_process cfg conj probe probe_rows s Block.empty ho
  have hpa : probe_all cfg.JoinOpType = true := by
    rcases hop with h | h <;> rw [h] <;> rfl
  have hm : expands_rows cfg.JoinOpType = true := by
    rcases hop with h | h <;> rw [h] <;> rfl
  obtain ⟨hL, -, hsize⟩ := do_probe_inv cfg probe probe_rows s
  obtain ⟨e1, -, -, e4, e5⟩ := do_probe_emit cfg probe probe_rows s ho hm
  generalize hv : do_probe cfg probe probe_rows s = v at hL hsize e1 e4 e5
  have hsa : (!is_semi_anti_join cfg.JoinOpType || cfg.with_other_conjuncts) = true := by
    rcases hop with h | h <;> rw [h] <;> rfl
  have hw : (cfg.with_other_conjuncts || (cfg.JoinOpType != TJoinOp.RIGHT_SEMI_JOIN &&
      cfg.JoinOpType != TJoinOp.RIGHT_ANTI_JOIN)) = true := by
    rcases hop with h | h <;> rw [h, ho] <;> rfl
  have hd : do_process cfg conj probe probe_rows s =
      (Status.OK, (assemble cfg s.probe_index v).1, (assemble cfg s.probe_index v).2) := by
    unfold do_process
    simp only [hv, ho, Bool.false_eq_true, if_false]
  have ht := assemble_tuples cfg s.probe_index v hL hsize e4 e5 hsa
  obtain ⟨ap, -⟩ := assemble_probe cfg s.probe_index v hL hsize hw
  have hfl : (assemble cfg s.probe_index v).1.tuple_is_null_right_flags =
      (scratch_tuples v).map (fun t => t.2.row_num == -1) := by
    rw [assemble_right_flags]
    unfold build_side_null_flags
    simp only [hpa, ho, Bool.not_false, Bool.and_true, if_true]
    rw [range_map_getD_comp (fun x => x == (-1 : Int)) v.build_block_rows 0 v.current_offset e5]
    have := zip_map_row_num v.build_block_rows v.probe_indexs v.build_block_offsets
      (hL.1.trans e5.symm) (e4.trans e5.symm)
    unfold scratch_tuples
    have h2 : (List.zip v.probe_indexs
        (List.zipWith RowRef.mk v.build_block_offsets v.build_block_rows)).map
          (fun t => t.2.row_num == -1) =
        ((List.zip v.probe_indexs
          (List.zipWith RowRef.mk v.build_block_offsets v.build_block_rows)).map
            (fun t => t.2.row_num)).map (fun x => x == (-1 : Int)) := by
      rw [List.map_map]; rfl
    rw [h2, this]
  have hpad := remaining_padded cfg probe probe_rows s hpa hwf hs
  have hmem : ∀ t ∈ scratch_tuples v,
      (t.2.row_num == -1) = (find_result cfg probe s.hash_table.entries t.1).isNone ∧
      (t.2.row_num = -1 → t.2 = ⟨-1, -1⟩) := by
    intro t htm
    rw [e1] at htm
    exact hpad t (List.mem_of_mem_take htm)
  have hrt : r.2.2.tuples = scratch_tuples v := by rw [hr, hd]; exact ht
  have hrf : r.2.1.tuple_is_null_right_flags =
      (scratch_tuples v).map (fun t => t.2.row_num == -1) := by rw [hr, hd]; exact hfl
  have hrr : r.2.2.rows = v.current_offset := by
    rw [hr, hd]
    show (assemble cfg s.probe_index v).2.probe.length = _
    rw [ap]; exact hL.1
  rw [hrt, hrf]
  refine ⟨by simp, ?_, ?_, ?_⟩
  · rw [hrr]; exact scratch_tuples_length v hL.1 e4 e5
  · apply List.map_congr_left
    intro t htm
    obtain ⟨-, h2⟩ := hmem t htm
    by_cases hq : t.2.row_num = -1
    · have := h2 hq
      simp [this]
    · have hne : t.2 ≠ ⟨-1, -1⟩ := fun h => hq (by rw [h])
      simp [hq, hne]
  · apply List.map_congr_left
    intro t htm
    exact (hmem t htm).1

theorem C22_right_null_flags_witness :
    ((⟨TJoinOp.LEFT_OUTER_JOIN, 10, true, true, false, false⟩ : Config).JoinOpType =
        TJoinOp.LEFT_OUTER_JOIN ∨
      (⟨TJoinOp.LEFT_OUTER_JOIN, 10, true, true, false, false⟩ : Config).JoinOpType =
        TJoinOp.FULL_OUTER_JOIN) ∧
    (⟨TJoinOp.LEFT_OUTER_JOIN, 10, true, true, false, false⟩ : Config).with_other_conjuncts =
      false ∧
    rows_valid (ProbeState.fresh (single_key_table RowRefKind.RowRefList 7 2)).hash_table ∧
    SuspendedAt ⟨TJoinOp.LEFT_OUTER_JOIN, 10, true, true, false, false⟩
      ⟨[7, 0, 9], [false, true, false]⟩
      (ProbeState.fresh (single_key_table RowRefKind.RowRefList 7 2)).hash_table.entries
      (ProbeState.fresh (single_key_table RowRefKind.RowRefList 7 2)) ∧
    (process ⟨TJoinOp.LEFT_OUTER_JOIN, 10, true, true, false, false⟩ (fun _ _ => true)
      ⟨[7, 0, 9], [false, true, false]⟩ 3
      (ProbeState.fresh (single_key_table RowRefKind.RowRefList 7 2))
      Block.empty).2.1.tuple_is_null_right_flags = [false, false, true, true] ∧
    (let r := process ⟨TJoinOp.LEFT_OUTER_JOIN, 10, true, true, false, false⟩
      (fun _ _ => true) ⟨[7, 0, 9], [false, true, false]⟩ 3
      (ProbeState.fresh (single_key_table RowRefKind.RowRefList 7 2)) Block.empty
    r.2.1.tuple_is_null_right_flags.length = r.2.2.tuples.length ∧
    r.2.2.tuples.length = r.2.2.rows ∧
    r.2.1.tuple_is_null_right_flags =
      r.2.2.tuples.map (fun t => decide (t.2 = (⟨-1, -1⟩ : RowRef))) ∧
    r.2.1.tuple_is_null_right_flags =
      r.2.2.tuples.map
        (fun t => (find_result ⟨TJoinOp.LEFT_OUTER_JOIN, 10, true, true, false, false⟩
          ⟨[7, 0, 9], [false, true, false]⟩
          (ProbeState.fresh (single_key_table RowRefKind.RowRefList 7 2)).hash_table.entries
          t.1).isNone)) :=
  ⟨Or.inl rfl, rfl, by decide, fun h => absurd h (by decide), by decide,
    C22_right_null_flags ⟨TJoinOp.LEFT_OUTER_JOIN, 10, true, true, false, false⟩
      (fun _ _ => true) ⟨[7, 0, 9], [false, true, false]⟩ 3
      (ProbeState.fresh (single_key_table RowRefKind.RowRefList 7 2))
      (Or.inl rfl) rfl (by decide) (fun h => absurd h (by decide))⟩

theorem same_to_prev_of_append (l m : List Nat) : ∀ prev : Option Nat,
    same_to_prev_of prev (l ++ m) =
      same_to_prev_of prev l ++ same_to_prev_of (last_or prev l) m := by
  induction l with
  | nil => intro prev; rfl
  | cons x l ih =>
    intro prev
    show decide (prev = some x) :: same_to_prev_of (some x) (l ++ m) = _
    rw [ih]
    rfl

theorem last_or_ne (p : Nat) (l : List Nat) : ∀ prev : Option Nat, prev ≠ some p →
    (∀ x ∈ l, x < p) → last_or prev l ≠ some p := by
  induction l with
  | nil => intro prev h _; exact h
  | cons x l ih =>
    intro prev _ hl
    refine ih (some x) ?_ (fun y hy => hl y (List.mem_cons_of_mem _ hy))
    intro h
    have hx := hl x (List.mem_cons_self _ _)
    have : x = p := Option.some.inj h
    omega

theorem same_to_prev_of_replicate_same (i n : Nat) :
    same_to_prev_of (some i) (List.replicate n i) = List.replicate n true := by
  induction n with
  | zero => rfl
  | succ n ih => simp [List.replicate_succ, same_to_prev_of, ih]

theorem same_to_prev_of_replicate (q : Option Nat) (i n : Nat) (hq : q ≠ some i) :
    same_to_prev_of q (List.replicate (n + 1) i) = false :: List.replicate n true := by
  simp [List.replicate_succ, same_to_prev_of, same_to_prev_of_replicate_same, hq]

theorem group_rows_same_to_prev (i : Nat) (t : RowRef × Bool) (ts : List (RowRef × Bool)) :
    (group_rows i (t :: ts)).map ScratchRow.same_to_prev =
      false :: List.replicate ts.length true := by
  simp only [group_rows, List.map_cons, List.map_map, List.cons.injEq, true_and]
  apply List.ext_getElem
  · simp
  · intro n h1 h2
    simp

/-- Appending the group of a probe row above every probe row recorded keeps the grouping
bits those the probe indices determine. -/
theorem grouping_append (R : List ScratchRow) (i : Nat) (ts : List (RowRef × Bool))
    (hlt : ∀ x ∈ R.map ScratchRow.probe_index, x < i)
    (h : R.map ScratchRow.same_to_prev = same_to_prev_of none (R.map ScratchRow.probe_index)) :
    (R ++ group_rows i ts).map ScratchRow.same_to_prev =
      same_to_prev_of none ((R ++ group_rows i ts).map ScratchRow.probe_index) := by
  cases ts with
  | nil => simpa [group_rows] using h
  | cons t ts =>
    rw [List.map_append, List.map_append, same_to_prev_of_append, ← h, group_rows_probe,
      group_rows_same_to_prev, List.length_cons,
      same_to_prev_of_replicate _ _ _ (last_or_ne i _ none (by simp) hlt)]

theorem scratch_rows_same_to_prev (d : ProbeState) (hlen : ColsLen d) :
    d.same_to_prev = (scratch_rows d).map ScratchRow.same_to_prev := by
  obtain ⟨-, -, -, -, l5⟩ := hlen
  apply List.ext_getElem?
  intro i
  unfold scratch_rows
  rw [List.map_map, List.getElem?_map]
  by_cases hi : i < d.current_offset
  · rw [List.getElem?_range hi, List.getElem?_eq_getElem (by omega)]
    simp only [Option.map_some', Function.comp]
    rw [List.getD_eq_getElem?_getD, List.getElem?_eq_getElem (by omega)]
    rfl
  · rw [List.getElem?_eq_none (by omega), List.getElem?_eq_none (by simp; omega)]
    rfl

theorem same_to_prev_of_getD (l : List Nat) : ∀ (prev : Option Nat) (i : Nat), i < l.length →
    (same_to_prev_of prev l).getD i false =
      if i = 0 then decide (prev = some (l.getD 0 0))
      else decide (l.getD i 0 = l.getD (i - 1) 0) := by
  induction l with
  | nil => intro prev i hi; simp at hi
  | cons x xs ih =>
    intro prev i hi
    cases i with
    | zero => simp [same_to_prev_of]
    | succ j =>
      have hj : j < xs.length := by simpa using hi
      simp only [same_to_prev_of, List.getD_cons_succ, Nat.add_sub_cancel]
      rw [ih (some x) j hj]
      cases j with
      | zero =>
        simp only [if_true, List.getD_cons_zero, Nat.succ_ne_zero, if_false]
        simp only [Option.some.injEq, decide_eq_decide]
        exact eq_comm
      | succ m =>
        simp only [Nat.succ_ne_zero, if_false, List.getD_cons_succ, Nat.add_sub_cancel]

/-- With other conjuncts, non-empty row lists and `batch_size ≥ 1`: after the probe loop
the grouping bits are those the column of probe indices determines. -/
theorem do_probe_grouping (cfg : Config) (probe : ProbeBatch) (probe_rows : Nat)
    (s : ProbeState) (ho : cfg.with_other_conjuncts = true) (hb : 1 ≤ cfg.batch_size)
    (hne : rows_nonempty s.hash_table)
    (hkind : s.hash_table.kind ≠ RowRefKind.RowRefListWithFlag) :
    let d := do_probe cfg probe probe_rows s
    ColsLen d ∧ d.same_to_prev = same_to_prev_of none d.probe_indexs := by
  intro d
  have key := probe_loop_induct cfg probe probe_rows
    (fun t => LoopInv cfg s.probe_index t ∧ ColsLen t ∧ t.hash_table = s.hash_table ∧
      (t.probe_row_match_iter.ok = false → ∀ x ∈ t.probe_indexs, x < t.probe_index) ∧
      (scratch_rows t).map ScratchRow.same_to_prev =
        same_to_prev_of none ((scratch_rows t).map ScratchRow.probe_index))
    (fun t ht hc _ => by
      obtain ⟨hL, hcl, hht, r1, hg⟩ := ht
      have hok : t.probe_row_match_iter.ok = false := by
        cases hk : t.probe_row_match_iter.ok
        · rfl
        · have := hL.2.1 hk; omega
      obtain ⟨g1, g2, g3, g4, -⟩ := probe_step_summary cfg probe t hL.1 hok hc
      obtain ⟨o1, o2, -, o4, -⟩ := probe_step_other cfg probe t ho (by rw [hht]; exact hkind)
        (by rw [hht]; exact hne) hcl hok hc
      refine ⟨probe_step_inv cfg probe _ t hL hc, o2, o4.trans hht, ?_, ?_⟩
      · intro h x hx
        rw [h] at g3
        rw [g2] at hx
        simp only [Bool.toNat_false, Nat.add_zero] at g3
        rcases List.mem_append.mp hx with hx | hx
        · have := r1 hok x hx; omega
        · have := (List.mem_replicate.mp hx).2; omega
      · rw [o1]
        apply grouping_append _ _ _ _ hg
        rw [← (scratch_rows_columns t hcl).1]
        exact r1 hok)
    (probe_rows - (resume_probe cfg s).probe_index) (resume_probe cfg s)
    (by
      refine ⟨resume_probe_inv cfg s, ?_⟩
      cases hok : s.probe_row_match_iter.ok
      · rw [resume_probe_not_ok cfg s hok]
        obtain ⟨c1, c2⟩ := init_probe_side_cols cfg s ho
        refine ⟨c1, rfl, fun _ x hx => ?_, ?_⟩
        · simp [init_probe_side] at hx
        · rw [c2]; rfl
      · obtain ⟨-, h2, h3, h4, -, -, -, -, h9, -⟩ := resume_probe_ok cfg s hok
        obtain ⟨p1, p2⟩ := resume_probe_shape cfg s ho hb hok
        have hlen : 0 < s.probe_row_match_iter.rest.length :=
          List.length_pos.mpr ((ok_eq_true_iff _).mp hok)
        refine ⟨p2, h9, ?_, ?_⟩
        · rw [h2, h3, h4, ok_drop]
          intro h x hx
          have hk : ¬ min cfg.batch_size s.probe_row_match_iter.rest.length <
              s.probe_row_match_iter.rest.length := by simpa using h
          rw [if_neg hk]
          have := (List.mem_replicate.mp hx).2
          omega
        · rw [p1]
          have := grouping_append [] s.probe_index
            ((s.probe_row_match_iter.rest.map fun r => (r, true)).take
              (min cfg.batch_size s.probe_row_match_iter.rest.length))
            (by simp) rfl
          simpa using this)
  obtain ⟨-, k2, -, -, k5⟩ := key
  have hcl : ColsLen d := k2
  have e1 : scratch_rows d = scratch_rows (probe_loop cfg probe probe_rows
      (probe_rows - (resume_probe cfg s).probe_index) (resume_probe cfg s)) := rfl
  refine ⟨hcl, ?_⟩
  rw [scratch_rows_same_to_prev d hcl, (scratch_rows_columns d hcl).1, e1]
  exact k5

/-- C28: with other conjuncts, non-empty row lists, `batch_size ≥ 1`, on the per-row-flags
table. After the probe loop `_same_to_prev` has one bit per tuple, bit 0 is false, and for
every `i ≥ 1` bit `i` is true iff `_probe_indexs[i] == _probe_indexs[i - 1]`, whichever arm
(resumption, found, null-key padding, not-found padding) produced the tuples. -/
theorem C28_same_to_prev_grouping (cfg : Config) (probe : ProbeBatch) (probe_rows : Nat)
    (s : ProbeState) (ho : cfg.with_other_conjuncts = true) (hb : 1 ≤ cfg.batch_size)
    (hne : rows_nonempty s.hash_table)
    (hkind : s.hash_table.kind = RowRefKind.RowRefListWithFlags) :
    let d := do_probe cfg probe probe_rows s
    d.same_to_prev.length = d.current_offset ∧
    d.probe_indexs.length = d.current_offset ∧
    (0 < d.current_offset → d.same_to_prev.getD 0 true = false) ∧
    ∀ i, 1 ≤ i → i < d.current_offset →
      (d.same_to_prev.getD i false = true ↔
        d.probe_indexs.getD i 0 = d.probe_indexs.getD (i - 1) 0) := by
  intro d
  obtain ⟨hcl, hg⟩ := do_probe_grouping cfg probe probe_rows s ho hb hne
    (by rw [hkind]; decide)
  have hd : do_probe cfg probe probe_rows s = d := rfl
  rw [hd] at hcl hg
  obtain ⟨l1, -, -, -, l5⟩ := hcl
  refine ⟨l5, l1, ?_, ?_⟩
  · intro hpos
    have h0 := same_to_prev_of_getD d.probe_indexs none 0 (by omega)
    rw [← hg] at h0
    simp only [if_true] at h0
    rw [List.getD_eq_getElem?_getD, List.getElem?_eq_getElem (by omega)] at h0 ⊢
    simpa using h0
  · intro i hi1 hi2
    have h0 := same_to_prev_of_getD d.probe_indexs none i (by omega)
    rw [← hg, if_neg (by omega)] at h0
    rw [h0]
    simp

theorem C28_same_to_prev_grouping_witness :
    (⟨TJoinOp.LEFT_OUTER_JOIN, 5, true, true, true, false⟩ : Config).with_other_conjuncts =
      true ∧
    1 ≤ (⟨TJoinOp.LEFT_OUTER_JOIN, 5, true, true, true, false⟩ : Config).batch_size ∧
    rows_nonempty (process ⟨TJoinOp.LEFT_OUTER_JOIN, 5, true, true, true, false⟩
      (fun _ _ => true) ⟨[7, 0, 9, 7], [false, true, false, false]⟩ 4
      (ProbeState.fresh (single_key_table RowRefKind.RowRefListWithFlags 7 7))
      Block.empty).2.1.hash_table ∧
    (process ⟨TJoinOp.LEFT_OUTER_JOIN, 5, true, true, true, false⟩
      (fun _ _ => true) ⟨[7, 0, 9, 7], [false, true, false, false]⟩ 4
      (ProbeState.fresh (single_key_table RowRefKind.RowRefListWithFlags 7 7))
      Block.empty).2.1.hash_table.kind = RowRefKind.RowRefListWithFlags ∧
    (do_probe ⟨TJoinOp.LEFT_OUTER_JOIN, 5, true, true, true, false⟩
      ⟨[7, 0, 9, 7], [false, true, false, false]⟩ 4
      (process ⟨TJoinOp.LEFT_OUTER_JOIN, 5, true, true, true, false⟩
        (fun _ _ => true) ⟨[7, 0, 9, 7], [false, true, false, false]⟩ 4
        (ProbeState.fresh (single_key_table RowRefKind.RowRefListWithFlags 7 7))
        Block.empty).2.1).probe_indexs = [0, 0, 1, 2, 3] ∧
    (do_probe ⟨TJoinOp.LEFT_OUTER_JOIN, 5, true, true, true, false⟩
      ⟨[7, 0, 9, 7], [false, true, false, false]⟩ 4
      (process ⟨TJoinOp.LEFT_OUTER_JOIN, 5, true, true, true, false⟩
        (fun _ _ => true) ⟨[7, 0, 9, 7], [false, true, false, false]⟩ 4
        (ProbeState.fresh (single_key_table RowRefKind.RowRefListWithFlags 7 7))
        Block.empty).2.1).same_to_prev = [false, true, false, false, false] ∧
    (let d := do_probe ⟨TJoinOp.LEFT_OUTER_JOIN, 5, true, true, true, false⟩
      ⟨[7, 0, 9, 7], [false, true, false, false]⟩ 4
      (process ⟨TJoinOp.LEFT_OUTER_JOIN, 5, true, true, true, false⟩
        (fun _ _ => true) ⟨[7, 0, 9, 7], [false, true, false, false]⟩ 4
        (ProbeState.fresh (single_key_table RowRefKind.RowRefListWithFlags 7 7))
        Block.empty).2.1
    d.same_to_prev.length = d.current_offset ∧
    d.probe_indexs.length = d.current_offset ∧
    (0 < d.current_offset → d.same_to_prev.getD 0 true = false) ∧
    ∀ i, 1 ≤ i → i < d.current_offset →
      (d.same_to_prev.getD i false = true ↔
        d.probe_indexs.getD i 0 = d.probe_indexs.getD (i - 1) 0)) :=
  ⟨rfl, by decide, by decide, by decide, by decide, by decide,
    C28_same_to_prev_grouping ⟨TJoinOp.LEFT_OUTER_JOIN, 5, true, true, true, false⟩
      ⟨[7, 0, 9, 7], [false, true, false, false]⟩ 4
      (process ⟨TJoinOp.LEFT_OUTER_JOIN, 5, true, true, true, false⟩
        (fun _ _ => true) ⟨[7, 0, 9, 7], [false, true, false, false]⟩ 4
        (ProbeState.fresh (single_key_table RowRefKind.RowRefListWithFlags 7 7))
        Block.empty).2.1
      rfl (by decide) (by decide) (by decide)⟩

/-- The cells `_process_splited_equal_matched_tuples` writes are as owed; the others stay
as they are. -/
theorem process_splited_cells (vm : List (Option (Nat × Nat))) (hit : List Bool)
    (start cnt : Nat) (a : ApplierState)
    (h1 : start + cnt ≤ a.filter_map.length) (h2 : start + cnt ≤ a.null_map_data.length) :
    let a' := process_splited_equal_matched_tuples vm hit start cnt a
    (∀ j, start ≤ j → j < start + cnt →
      a'.filter_map[j]? = some (hit.getD j false) ∧
      a'.null_map_data[j]? = some (!(vm.getD j none).isSome || !hit.getD j false)) ∧
    (∀ j, ¬(start ≤ j ∧ j < start + cnt) →
      a'.filter_map[j]? = a.filter_map[j]? ∧ a'.null_map_data[j]? = a.null_map_data[j]?) := by
  intro a'
  obtain ⟨f1, f2, -, -⟩ := process_splited_fields vm hit start cnt a
  have e1 : a'.filter_map = _ := f1
  have e2 : a'.null_map_data = _ := f2
  refine ⟨?_, ?_⟩
  · intro j hj1 hj2
    have hm : j ∈ List.range' start cnt := List.mem_range'_1.mpr ⟨hj1, hj2⟩
    rw [e1, e2, foldl_set_getElem?, foldl_set_getElem?, if_pos ⟨hm, by omega⟩,
      if_pos ⟨hm, by omega⟩]
    exact ⟨rfl, rfl⟩
  · intro j hj
    have hm : ¬ j ∈ List.range' start cnt := fun h => hj (List.mem_range'_1.mp h)
    rw [e1, e2, foldl_set_getElem?, foldl_set_getElem?, if_neg (fun h => hm h.1),
      if_neg (fun h => hm h.1)]
    exact ⟨rfl, rfl⟩

theorem contains_true_false (l : List Bool) (h : l.contains true = false) (j : Nat)
    (hj : j < l.length) : l[j]? = some false := by
  rw [List.getElem?_eq_getElem hj]
  cases hx : l[j]
  · rfl
  · have hmem : true ∈ l := hx ▸ List.getElem_mem hj
    have : l.contains true = true := List.contains_iff_exists_mem_beq.mpr ⟨true, hmem, rfl⟩
    rw [h] at this; cases this

/-- The prefix part leaves the cells of the resumed tuples as owed. -/
theorem left_outer_prefix_cells (s : ProbeState) (hit : List Bool) (row_count : Nat)
    (a : ApplierState) (hle : s.row_count_from_last_probe ≤ row_count)
    (h1 : a.filter_map.length = row_count) (h2 : a.null_map_data.length = row_count) :
    ∀ j, j < s.row_count_from_last_probe →
      OuterCell s.visited_map hit ( left_outer_prefix s hit a) j := by
  intro j hj
  have hrc : s.row_count_from_last_probe > 0 := by omega
  obtain ⟨c1, -⟩ := process_splited_cells s.visited_map hit 0 s.row_count_from_last_probe a
    (by omega) (by omega)
  obtain ⟨f1, -, -, f4⟩ := process_splited_fields s.visited_map hit 0
    s.row_count_from_last_probe a
  rw [← f1] at f4
  obtain ⟨p1, p2⟩ := process_splited_lengths s.visited_map hit 0
    s.row_count_from_last_probe a
  unfold left_outer_prefix
  rw [if_pos hrc]
  simp only
  generalize process_splited_equal_matched_tuples s.visited_map hit 0
    s.row_count_from_last_probe a = a1 at c1 f4 p1 p2
  obtain ⟨cj1, cj2⟩ := c1 j (Nat.zero_le _) (by omega)
  by_cases hc : (s.is_the_last_sub_block && !a1.is_any_probe_match_row_output) = true
  · rw [if_pos hc]
    by_cases hj0 : j = 0
    · subst hj0
      have hany : a1.is_any_probe_match_row_output = false := by
        simp only [Bool.and_eq_true, Bool.not_eq_true'] at hc
        exact hc.2
      have hhit : hit.getD 0 false = false := by
        rw [f4] at hany
        simp only [Bool.or_eq_false_iff] at hany
        have h0 := contains_true_false _ hany.2 0 (by simp; omega)
        rw [List.getElem?_take_of_lt (by omega), List.drop_zero, cj1] at h0
        exact Option.some.inj h0
      refine ⟨?_, fun _ hh => ?_⟩
      · show (a1.null_map_data.set 0 true)[0]? = _
        rw [List.getElem?_set_self (by omega), hhit]
        simp
      · rw [hhit] at hh; cases hh
    · refine ⟨?_, fun _ hh => ?_⟩
      · show (a1.null_map_data.set 0 true)[j]? = _
        rw [List.getElem?_set_ne (fun h => hj0 h.symm)]
        exact cj2
      · show (a1.filter_map.set 0 true)[j]? = _
        rw [List.getElem?_set_ne (fun h => hj0 h.symm), cj1, hh]
  · rw [if_neg hc]
    refine ⟨cj2, fun _ hh => ?_⟩
    rw [cj1, hh]

/-- One iteration of the middle loop leaves cell `i` as owed and keeps every other cell
that was as owed so. -/
theorem left_outer_middle_step_cells (vm : List (Option (Nat × Nat)))
    (same hit : List Bool) (a : ApplierState) (i : Nat)
    (h1 : i < a.filter_map.length) (h2 : i < a.null_map_data.length) :
    OuterCell vm hit (left_outer_middle_step vm same hit a i) i ∧
    ∀ j, j ≠ i → OuterCell vm hit a j →
      OuterCell vm hit (left_outer_middle_step vm same hit a i) j := by
  unfold left_outer_middle_step OuterCell
  simp only
  refine ⟨?_, ?_⟩
  · by_cases hjh : (vm.getD i none).isSome = true
    · rw [if_pos hjh]
      refine ⟨?_, fun _ hh => ?_⟩
      · split_ifs <;> simp [List.getElem?_set_self h2]
      · split_ifs with hc
        · by_cases hi0 : i - 1 = i
          · have : i = 0 := by omega
            subst this
            simp only [Bool.and_eq_true, Bool.not_eq_true'] at hc
            rw [hc.2] at hh; cases hh
          · simp only
            rw [List.getElem?_set_ne hi0, List.getElem?_set_self h1, hh]
            rfl
        · simp only
          rw [List.getElem?_set_self h1, hh]
          rfl
    · rw [if_neg hjh]
      refine ⟨?_, fun h => absurd h hjh⟩
      simp [List.getElem?_set_self h2]
  · intro j hji ⟨q1, q2⟩
    have hij : i ≠ j := fun h => hji h.symm
    by_cases hjh : (vm.getD i none).isSome = true
    · rw [if_pos hjh]
      refine ⟨?_, fun hb hh => ?_⟩
      · split_ifs <;> simp only <;> rw [List.getElem?_set_ne hij] <;> exact q1
      · split_ifs with hc
        · simp only
          by_cases hi1 : i - 1 = j
          · simp only [Bool.and_eq_true, Bool.not_eq_true'] at hc
            rw [hi1, hh] at hc
            exact absurd hc.2 (by simp)
          · rw [List.getElem?_set_ne hi1, List.getElem?_set_ne hij]
            exact q2 hb hh
        · simp only
          rw [List.getElem?_set_ne hij]
          exact q2 hb hh
    · rw [if_neg hjh]
      simp only
      refine ⟨?_, fun hb hh => ?_⟩
      · rw [List.getElem?_set_ne hij]; exact q1
      · rw [List.getElem?_set_ne hij]; exact q2 hb hh

theorem left_outer_middle_fold_cells (vm : List (Option (Nat × Nat)))
    (same hit : List Bool) (n : Nat) (is : List Nat) (his : ∀ i ∈ is, i < n) :
    ∀ a : ApplierState, a.filter_map.length = n → a.null_map_data.length = n →
      ∀ j, (j ∈ is ∨ OuterCell vm hit a j) →
        OuterCell vm hit (is.foldl (left_outer_middle_step vm same hit) a) j := by
  induction is with
  | nil =>
    intro a _ _ j hj
    rcases hj with hj | hj
    · cases hj
    · exact hj
  | cons i is ih =>
    intro a h1 h2 j hj
    have hi : i < n := his i (List.mem_cons_self _ _)
    obtain ⟨-, -, l1, l2, -⟩ := left_outer_middle_step_frame vm same hit a i
    obtain ⟨s1, s2⟩ := left_outer_middle_step_cells vm same hit a i (by omega) (by omega)
    rw [List.foldl_cons]
    apply ih (fun x hx => his x (List.mem_cons_of_mem _ hx)) _ (l1.trans h1) (l2.trans h2)
    by_cases hmem : j ∈ is
    · exact Or.inl hmem
    · right
      by_cases hji : j = i
      · rw [hji]; exact s1
      · rcases hj with hj | hj
        · rcases List.mem_cons.mp hj with h | h
          · exact absurd h hji
          · exact absurd h hmem
        · exact s2 j hji hj

/-- The LEFT_OUTER / FULL_OUTER rewrite leaves every cell as owed: the null-map cell of
tuple `j` is `!join_hit || !other_hit`, and a tuple with a build row that passes the other
conjuncts has its filter cell set, in the prefix, the middle and the suffix alike. -/
theorem left_outer_rewrite_cells (s : ProbeState) (hit : List Bool) (row_count : Nat)
    (a0 : ApplierState)
    (hsum : s.row_count_from_last_probe + s.multi_matched_output_row_count ≤ row_count) :
    ∀ j, j < row_count →
      OuterCell s.visited_map hit (left_outer_rewrite s hit row_count a0) j := by
  intro j hj
  unfold left_outer_rewrite
  simp only
  generalize ha : ({ a0 with filter_map := List.replicate row_count false
                             null_map_data := List.replicate row_count false } :
    ApplierState) = a
  have h1 : a.filter_map.length = row_count := by rw [← ha]; simp
  have h2 : a.null_map_data.length = row_count := by rw [← ha]; simp
  obtain ⟨p1, p2⟩ := left_outer_prefix_length s hit row_count a (by omega) h1 h2
  have hpre := left_outer_prefix_cells s hit row_count a (by omega) h1 h2
  generalize ( left_outer_prefix s hit a) = a1 at p1 p2 hpre
  obtain ⟨-, -, m3, m4, -⟩ := left_outer_middle_frame s hit row_count a1
  have hmid : ∀ j, j < row_count - s.multi_matched_output_row_count →
      OuterCell s.visited_map hit (left_outer_middle s hit row_count a1) j := by
    intro j hj
    unfold left_outer_middle
    simp only
    apply left_outer_middle_fold_cells s.visited_map s.same_to_prev hit row_count _
      (fun i hi => by have := List.mem_range'_1.mp hi; omega) a1 p1 p2
    by_cases hjr : j < s.row_count_from_last_probe
    · exact Or.inr (hpre j hjr)
    · exact Or.inl (List.mem_range'_1.mpr ⟨by omega, by omega⟩)
  generalize (left_outer_middle s hit row_count a1) = a2 at m3 m4 hmid
  have q1 : a2.filter_map.length = row_count := m3.trans p1
  have q2 : a2.null_map_data.length = row_count := m4.trans p2
  unfold left_outer_suffix
  by_cases hm : s.multi_matched_output_row_count > 0
  · rw [if_pos hm]
    simp only
    obtain ⟨c1, c2⟩ := process_splited_cells s.visited_map hit
      (row_count - s.multi_matched_output_row_count) s.multi_matched_output_row_count
      { a2 with is_any_probe_match_row_output := false }
      (by show _ ≤ a2.filter_map.length; omega) (by show _ ≤ a2.null_map_data.length; omega)
    by_cases hjs : row_count - s.multi_matched_output_row_count ≤ j
    · obtain ⟨d1, d2⟩ := c1 j hjs (by omega)
      exact ⟨d2, fun _ hh => by rw [d1, hh]⟩
    · obtain ⟨d1, d2⟩ := c2 j (fun h => hjs h.1)
      obtain ⟨r1, r2⟩ := hmid j (by omega)
      exact ⟨d2.trans r1, fun hb hh => d1.trans (r2 hb hh)⟩
  · rw [if_neg hm]
    exact hmid j (by omega)

theorem zipWith_getD {α β γ : Type} (g : α → β → γ) (l1 : List α) (l2 : List β)
    (d1 : α) (d2 : β) (d : γ) (j : Nat) (h1 : j < l1.length) (h2 : j < l2.length) :
    (List.zipWith g l1 l2).getD j d = g (l1.getD j d1) (l2.getD j d2) := by
  rw [List.getD_eq_getElem?_getD, List.getD_eq_getElem?_getD, List.getD_eq_getElem?_getD,
    List.getElem?_eq_getElem (by simp; omega), List.getElem?_eq_getElem h1,
    List.getElem?_eq_getElem h2]
  simp

theorem getD_of_getElem? {α : Type} (l : List α) (j : Nat) (d x : α) (h : l[j]? = some x) :
    l.getD j d = x := by
  rw [List.getD_eq_getElem?_getD, h]; rfl

/-- C29: LEFT_OUTER / FULL_OUTER with other conjuncts on the per-row-flags table. `a` is
the state of the filter rewrite at its end, `hit` the other conjuncts evaluated on the
tuples the probe loop emitted. For every tuple `j`: the null flag recorded is
`null_map_data[j] = !join_hit || !other_hit` (`join_hit`: `_visited_map[j]` is not null),
and when the tuple has a build row and passes the other conjuncts, `filter_map[j]` is set
and the tuple is in the output block. The block is the compaction by `filter_map`. -/
theorem C29_left_outer_passing_kept (cfg : Config) (conj : OtherConjuncts)
    (probe : ProbeBatch) (probe_rows : Nat) (s : ProbeState)
    (hop : cfg.JoinOpType = TJoinOp.LEFT_OUTER_JOIN ∨
      cfg.JoinOpType = TJoinOp.FULL_OUTER_JOIN)
    (ho : cfg.with_other_conjuncts = true)
    (hkind : s.hash_table.kind = RowRefKind.RowRefListWithFlags) :
    let v := do_probe cfg probe probe_rows s
    let build := List.zipWith RowRef.mk v.build_block_offsets v.build_block_rows
    let hit := List.zipWith conj v.probe_indexs build
    let a := left_outer_rewrite v hit v.current_offset
      ⟨hit, [], v.mark_column, v.hash_table, v.is_any_probe_match_row_output⟩
    let r := process cfg conj probe probe_rows s Block.empty
    ∀ j, j < v.current_offset →
      r.2.2.tuples = filter_block a.filter_map (scratch_tuples v) ∧
      hit.getD j false = conj (v.probe_indexs.getD j 0) (build.getD j ⟨0, 0⟩) ∧
      a.null_map_data.getD j false =
        (!(v.visited_map.getD j none).isSome || !hit.getD j false) ∧
      ((v.visited_map.getD j none).isSome = true → hit.getD j false = true →
        a.filter_map.getD j false = true ∧
        (v.probe_indexs.getD j 0, build.getD j ⟨0, 0⟩) ∈ r.2.2.tuples) := by
  intro v build hit a r j hj
  have hr : r = do_process cfg conj probe probe_rows s :=
    process_other_eq cfg conj probe probe_rows s Block.empty hkind
  have hpos : 0 < (do_probe cfg probe probe_rows s).current_offset :=
    Nat.lt_of_le_of_lt (Nat.zero_le _) hj
  have key := do_process_left_outer cfg conj probe probe_rows s ho hop hpos
  simp only at key
  obtain ⟨hinv, -, -⟩ := do_probe_inv cfg probe probe_rows s
  obtain ⟨l1, l2, -⟩ := do_probe_scratch_len cfg probe probe_rows s ho
  have hsum := do_probe_rc_multi cfg probe probe_rows s
  have hv : do_probe cfg probe probe_rows s = v := rfl
  rw [hv] at hinv l1 l2 hsum
  have hlenB : build.length = v.current_offset := by
    show (List.zipWith RowRef.mk v.build_block_offsets v.build_block_rows).length = _
    simp [l1, l2]
  have hlenP : v.probe_indexs.length = v.current_offset := hinv.1
  obtain ⟨c1, c2⟩ := left_outer_rewrite_cells v hit v.current_offset
    ⟨hit, [], v.mark_column, v.hash_table, v.is_any_probe_match_row_output⟩ hsum j hj
  obtain ⟨f1, -⟩ := left_outer_rewrite_lengths v hit v.current_offset
    ⟨hit, [], v.mark_column, v.hash_table, v.is_any_probe_match_row_output⟩
  have hfm : a.filter_map.length = v.current_offset := f1
  have hc1 : a.null_map_data[j]? = _ := c1
  have hc2 : (v.visited_map.getD j none).isSome = true → hit.getD j false = true →
      a.filter_map[j]? = some true := c2
  have htup : r.2.2.tuples = filter_block a.filter_map (scratch_tuples v) := by
    rw [hr, key]
    show List.zip (filter_block a.filter_map v.probe_indexs)
      (filter_block a.filter_map build) = _
    rw [← filter_block_zip]
    rfl
  have hzl : (scratch_tuples v).length = v.current_offset := by
    show (List.zip v.probe_indexs build).length = _
    simp [hlenP, hlenB]
  refine ⟨htup, ?_, ?_, ?_⟩
  · exact zipWith_getD conj v.probe_indexs build 0 ⟨0, 0⟩ false j (by omega) (by omega)
  · exact getD_of_getElem? _ _ _ _ hc1
  · intro hb hh
    have hfj : a.filter_map.getD j false = true := getD_of_getElem? _ _ _ _ (hc2 hb hh)
    refine ⟨hfj, ?_⟩
    rw [htup, filter_block_eq_range (0, (⟨0, 0⟩ : RowRef)) a.filter_map (scratch_tuples v)
      (hfm.trans hzl.symm)]
    refine List.mem_map.mpr ⟨j, List.mem_filter.mpr ⟨List.mem_range.mpr (by omega), hfj⟩, ?_⟩
    exact zipWith_getD Prod.mk v.probe_indexs build 0 ⟨0, 0⟩ (0, ⟨0, 0⟩) j (by omega)
      (by omega)

theorem C29_left_outer_passing_kept_witness :
    ((⟨TJoinOp.LEFT_OUTER_JOIN, 10, false, false, true, false⟩ : Config).JoinOpType =
        TJoinOp.LEFT_OUTER_JOIN ∨
      (⟨TJoinOp.LEFT_OUTER_JOIN, 10, false, false, true, false⟩ : Config).JoinOpType =
        TJoinOp.FULL_OUTER_JOIN) ∧
    (⟨TJoinOp.LEFT_OUTER_JOIN, 10, false, false, true, false⟩ : Config).with_other_conjuncts =
      true ∧
    (ProbeState.fresh (single_key_table RowRefKind.RowRefListWithFlags 7 2)).hash_table.kind =
      RowRefKind.RowRefListWithFlags ∧
    (process ⟨TJoinOp.LEFT_OUTER_JOIN, 10, false, false, true, false⟩
      (fun _ r => r.row_num == 1) ⟨[7, 9], []⟩ 2
      (ProbeState.fresh (single_key_table RowRefKind.RowRefListWithFlags 7 2))
      Block.empty).2.2.tuples = [(0, ⟨0, 1⟩), (1, ⟨-1, -1⟩)] ∧
    (let v := do_probe ⟨TJoinOp.LEFT_OUTER_JOIN, 10, false, false, true, false⟩ ⟨[7, 9], []⟩ 2
      (ProbeState.fresh (single_key_table RowRefKind.RowRefListWithFlags 7 2))
    let build := List.zipWith RowRef.mk v.build_block_offsets v.build_block_rows
    let hit := List.zipWith (fun (_ : Nat) (r : RowRef) => r.row_num == 1) v.probe_indexs build
    let a := left_outer_rewrite v hit v.current_offset
      ⟨hit, [], v.mark_column, v.hash_table, v.is_any_probe_match_row_output⟩
    let r := process ⟨TJoinOp.LEFT_OUTER_JOIN, 10, false, false, true, false⟩
      (fun _ r => r.row_num == 1) ⟨[7, 9], []⟩ 2
      (ProbeState.fresh (single_key_table RowRefKind.RowRefListWithFlags 7 2)) Block.empty
    ∀ j, j < v.current_offset →
      r.2.2.tuples = filter_block a.filter_map (scratch_tuples v) ∧
      hit.getD j false =
        (fun (_ : Nat) (r : RowRef) => r.row_num == 1) (v.probe_indexs.getD j 0)
          (build.getD j ⟨0, 0⟩) ∧
      a.null_map_data.getD j false =
        (!(v.visited_map.getD j none).isSome || !hit.getD j false) ∧
      ((v.visited_map.getD j none).isSome = true → hit.getD j false = true →
        a.filter_map.getD j false = true ∧
        (v.probe_indexs.getD j 0, build.getD j ⟨0, 0⟩) ∈ r.2.2.tuples)) :=
  ⟨Or.inl rfl, rfl, rfl, by decide,
    C29_left_outer_passing_kept ⟨TJoinOp.LEFT_OUTER_JOIN, 10, false, false, true, false⟩
      (fun _ r => r.row_num == 1) ⟨[7, 9], []⟩ 2
      (ProbeState.fresh (single_key_table RowRefKind.RowRefListWithFlags 7 2))
      (Or.inl rfl) rfl rfl⟩

theorem carry_fm_length : ∀ (l : List (Bool × Bool)) (c : Bool),
    (carry_fm c l).length = l.length + 1 := by
  intro l
  induction l with
  | nil => intro c; rfl
  | cons p l ih =>
    intro c
    obtain ⟨s, h⟩ := p
    simp only [carry_fm, List.length_cons, ih]

theorem flatMap_marks_length (g : Bool → Bool) : ∀ (Q X : List Bool), X.length = Q.length →
    ((List.zip X Q).flatMap fun p => if p.2 then [] else [g p.1]).length = Q.count false := by
  intro Q
  induction Q with
  | nil => intro X _; simp
  | cons q Q ih =>
    intro X hX
    cases X with
    | nil => simp at hX
    | cons x X =>
      have hl : X.length = Q.length := by simpa using hX
      rw [List.zip_cons_cons, List.flatMap_cons, List.length_append, ih X hl, List.count_cons]
      cases q <;> first | (simp; omega) | simp

theorem sum_not_toNat : ∀ Q : List Bool,
    ((Q.map fun q => !q).map Bool.toNat).sum = Q.count false := by
  intro Q
  induction Q with
  | nil => rfl
  | cons q Q ih =>
    rw [List.map_cons, List.map_cons, List.sum_cons, ih, List.count_cons]
    cases q <;> first | (simp; omega) | simp

/-- The mark-join loop, cell by cell, when its result keeps at most the last cell of every
group: the filter cell of a tuple is set exactly when the next tuple does not continue its
group, and one value is pushed to the mark column per such tuple. -/
theorem mark_rewrite_cells (stp : List Bool) (n : Nat) (negate : Bool) (a : ApplierState)
    (hn : 1 ≤ n) (hlen : a.filter_map.length = n)
    (hol : OnlyLast stp (mark_rewrite stp n negate (n - 1) a).filter_map n) :
    let Q := ((List.range' 1 (n - 1)).map fun i => stp.getD i false) ++ [false]
    (mark_rewrite stp n negate (n - 1) a).filter_map = Q.map (fun q => !q) ∧
    (mark_rewrite stp n negate (n - 1) a).matched_map.length =
      a.matched_map.length + Q.count false := by
  intro Q
  have hQ : Q = ((List.range' 1 (n - 1)).map fun i => stp.getD i false) ++ [false] := rfl
  have hQlen : Q.length = n := by rw [hQ]; simp; omega
  have key := mark_rewrite_closed stp n negate a hn hlen
  simp only at key
  rw [← hQ] at key
  rw [key] at hol ⊢
  clear_value Q
  refine ⟨?_, ?_⟩
  · show List.zipWith (fun x q => if q = true then x else true) a.filter_map Q = _
    apply List.ext_getElem
    · simp [hlen, hQlen]
    · intro j h1 h2
      have hj : j < n := by simpa [hlen, hQlen] using h1
      rw [List.getElem_zipWith, List.getElem_map]
      cases hq : Q[j]
      · simp
      · simp only [if_true, Bool.not_true]
        have hjn : j + 1 < n := by
          by_contra hc
          have hje : j = n - 1 := by omega
          have : Q[j] = false := by
            subst hQ
            rw [List.getElem_append_right (by simp; omega)]
            simp
          rw [this] at hq; cases hq
        have hs : stp.getD (j + 1) false = true := by
          rw [← hq]
          subst hQ
          rw [List.getElem_append_left (by simp; omega), List.getElem_map,
            List.getElem_range']
          congr 1
          omega
        have := hol j hjn hs
        rw [List.getD_eq_getElem?_getD, List.getElem?_eq_getElem (by simp [hlen, hQlen]; omega),
          List.getElem_zipWith] at this
        simp only [Option.getD_some, hq, if_true] at this
        exact this
  · show (a.matched_map ++ _).length = _
    rw [List.length_append, flatMap_marks_length _ Q a.filter_map (hlen.trans hQlen.symm)]

theorem left_semi_rewrite_mark (s : ProbeState) (fc : List Bool) (n : Nat) (a : ApplierState) :
    left_semi_rewrite s fc n true a =
      mark_rewrite s.same_to_prev n false
        ((left_semi_rewrite s fc n false a).filter_map.length - 1)
        (left_semi_rewrite s fc n false a) := by
  unfold left_semi_rewrite
  simp only [if_true, Bool.false_eq_true, if_false]

theorem carry_fm_shape_length (stp : List Bool) (rc n : Nat) (b : Bool) (g : Nat → Bool)
    (hrc : rc ≤ n) :
    let pairs := fun (lo m : Nat) => (List.range' lo m).map fun i => (stp.getD i false, g i)
    (if rc > 0 ∧ b = true then
        List.replicate rc false ++ (carry_fm false (pairs rc (n - rc))).tail
      else (carry_fm false (pairs 0 n)).tail).length = n := by
  intro pairs
  split_ifs
  · simp [pairs, carry_fm_length]; omega
  · simp [pairs, carry_fm_length]

/-- LEFT_SEMI and the anti modes with mark join, any block of `n ≥ 1` tuples: after the
rewrite the filter cell of tuple `j` is set exactly when tuple `j + 1` does not continue its
group, and the number of values pushed to the mark column is the number of such tuples. -/
theorem mark_applier_cells (s : ProbeState) (fc : List Bool) (n : Nat) (a0 : ApplierState)
    (semi : Bool) (hn : 1 ≤ n) (hrc : s.row_count_from_last_probe ≤ n) :
    let a := if semi then left_semi_rewrite s fc n true a0
      else left_anti_rewrite s fc n true a0
    let Q := ((List.range' 1 (n - 1)).map fun i => s.same_to_prev.getD i false) ++ [false]
    a.filter_map = Q.map (fun q => !q) ∧
    a.matched_map.length = a0.matched_map.length + Q.count false := by
  intro a Q
  cases semi
  · -- anti modes
    have ha : a = left_anti_rewrite s fc n true a0 := rfl
    obtain ⟨-, hol⟩ := left_anti_rewrite_only_last s fc n a0
    have key := left_anti_rewrite_fm s fc n true a0 hn hrc
    simp only [if_true] at key
    have hl := carry_fm_shape_length s.same_to_prev s.row_count_from_last_probe n
      a0.is_any_probe_match_row_output
      (fun i => ((s.visited_map.getD i none).isSome && fc.getD i false)) hrc
    simp only at hl
    rw [key] at hol
    rw [ha, key]
    exact mark_rewrite_cells s.same_to_prev n true _ hn hl hol
  · have ha : a = left_semi_rewrite s fc n true a0 := rfl
    obtain ⟨-, hol⟩ := left_semi_rewrite_only_last s fc n a0 hn hrc
    have key := left_semi_rewrite_fm s fc n a0 hn hrc
    simp only at key
    have hl := carry_fm_shape_length s.same_to_prev s.row_count_from_last_probe n
      a0.is_any_probe_match_row_output (fun i => fc.getD i false) hrc
    simp only at hl
    rw [left_semi_rewrite_mark, key] at hol
    rw [ha, left_semi_rewrite_mark, key]
    have hl2 : ∀ (X : ApplierState), X.filter_map.length = n →
        OnlyLast s.same_to_prev
          (mark_rewrite s.same_to_prev n false (X.filter_map.length - 1) X).filter_map n →
        (mark_rewrite s.same_to_prev n false (X.filter_map.length - 1) X).filter_map =
          Q.map (fun q => !q) ∧
        (mark_rewrite s.same_to_prev n false (X.filter_map.length - 1) X).matched_map.length =
          X.matched_map.length + Q.count false := by
      intro X hX hO
      rw [hX] at hO ⊢
      exact mark_rewrite_cells s.same_to_prev n false X hn hX hO
    exact hl2 _ hl hol

theorem next_bits_count (stp : List Bool) (n : Nat) (hn : 1 ≤ n) (hlen : stp.length = n)
    (hh : stp.head?.getD false = false) :
    (((List.range' 1 (n - 1)).map fun i => stp.getD i false) ++ [false]).count false =
      stp.count false := by
  cases stp with
  | nil => simp at hlen; omega
  | cons x t =>
    simp only [List.head?_cons, Option.getD_some] at hh
    subst hh
    have ht : t.length = n - 1 := by simp at hlen; omega
    have e : ((List.range' 1 (n - 1)).map fun i => (false :: t).getD i false) = t := by
      rw [List.range'_eq_map_range, List.map_map]
      have := range_map_getD t false (n - 1) ht
      rw [← this]
      apply List.map_congr_left
      intro i _
      simp only [Function.comp]
      rw [this, Nat.add_comm 1 i, List.getD_cons_succ]
    rw [e, List.count_append, List.count_cons]
    simp

theorem next_bits_getD (stp : List Bool) (n j : Nat) (hj : j < n) :
    ((((List.range' 1 (n - 1)).map fun i => stp.getD i false) ++ [false]).map
        fun q => !q).getD j false =
      (decide (j + 1 = n) || !stp.getD (j + 1) false) := by
  rw [List.getD_eq_getElem?_getD, List.getElem?_map]
  by_cases hl : j + 1 = n
  · rw [List.getElem?_append_right (by simp; omega)]
    have : j - (List.map (fun i => stp.getD i false) (List.range' 1 (n - 1))).length = 0 := by
      simp; omega
    rw [this]
    simp [hl]
  · rw [List.getElem?_append_left (by simp; omega), List.getElem?_map,
      List.getElem?_range' _ _ (by omega)]
    simp only [Option.map_some', Option.getD_some, Nat.one_mul, hl, decide_False,
      Bool.false_or]
    rw [Nat.add_comm 1 j]

theorem groups_next_not (G : List (Nat × List (RowRef × Bool))) :
    (groups_next G).map (fun q => !q) = groups_cells (fun _ _ => true) G := by
  induction G with
  | nil => rfl
  | cons g G ih =>
    obtain ⟨i, ts⟩ := g
    rw [groups_next_cons, groups_cells_cons, List.map_append, ih]
    congr 1
    cases ts with
    | nil => rfl
    | cons t ts =>
      simp [groups_next, groups_cells]

/-- In the modes that pad the not-found arm but not the null-key arm, on a table with
non-empty row lists: a probe row contributes no tuple exactly when its key is an ignored
null. -/
theorem other_row_tuples_isEmpty (cfg : Config) (probe : ProbeBatch) (ht : HashTable)
    (hne : rows_nonempty ht) (hpad : pads_not_found cfg = true)
    (hpa : probe_all cfg.JoinOpType = false) (i : Nat) :
    (other_row_tuples cfg probe ht.entries i).isEmpty = is_ignored_null cfg probe i := by
  unfold other_row_tuples
  cases hn : is_ignored_null cfg probe i
  · simp only [Bool.false_eq_true, if_false]
    cases hf : find_result cfg probe ht.entries i with
    | none => simp [hpad]
    | some e =>
      simp only
      have := rows_length_pos ht e hne (find_result_lt _ _ _ _ _ hf)
      have hlen : 0 < ((entry_rows ht.entries e).map fun r => (r, true)).length := by
        rw [List.length_map]; exact this
      cases hx : (entry_rows ht.entries e).map fun r => (r, true) with
      | nil => rw [hx] at hlen; simp at hlen
      | cons _ _ => rfl
  · simp [hpa]

/-- C30, counterexample: LEFT_SEMI with mark join and other conjuncts, null keys ignored,
per-row-flags table holding key 7 with one build row, probe rows with key 7 and with a null
key. The call examines both probe rows (`probe_index` goes from 0 to 2), the scratch vectors
hold one group, and the compacted block and the mark column hold one row, not two. -/
theorem C30_counterexample :
    let cfg : Config := ⟨TJoinOp.LEFT_SEMI_JOIN, 10, true, true, true, true⟩
    let ht := single_key_table RowRefKind.RowRefListWithFlags 7 1
    let r := process cfg (fun _ _ => true) ⟨[7, 0], [false, true]⟩ 2 (ProbeState.fresh ht)
      Block.empty
    (ProbeState.fresh ht).probe_index = 0 ∧ r.2.1.probe_index = 2 ∧
    r.2.1.probe_row_match_iter.ok = false ∧
    is_ignored_null cfg ⟨[7, 0], [false, true]⟩ 1 = true ∧
    (do_probe cfg ⟨[7, 0], [false, true]⟩ 2 (ProbeState.fresh ht)).same_to_prev = [false] ∧
    r.2.2 = ⟨[0], [⟨0, 0⟩], [true]⟩ ∧ r.2.2.rows = 1 := by
  decide

/-- C30 (amended: one row per probe row examined whose key is not an ignored null):
LEFT_SEMI / LEFT_ANTI / NULL_AWARE_LEFT_ANTI with mark join and other conjuncts, per-row-flags
table with non-empty row lists, `batch_size ≥ 1`, no iterator suspended on entry, non-empty
block. `a` is the applier state after the filter rewrite. The filter cell of tuple `j` is set
exactly when `j` is the last tuple of its probe-row group (the next tuple, if any, has
another probe index); the number of values pushed to the mark column is the number of
groups; the compacted block and the mark column have that many rows; and the probe rows of
the block are the probe rows examined whose key is not an ignored null, each once. -/
theorem C30_mark_join_group_rows (cfg : Config) (conj : OtherConjuncts) (probe : ProbeBatch)
    (probe_rows : Nat) (s : ProbeState)
    (hop : cfg.JoinOpType = TJoinOp.LEFT_SEMI_JOIN ∨
      cfg.JoinOpType = TJoinOp.LEFT_ANTI_JOIN ∨
      cfg.JoinOpType = TJoinOp.NULL_AWARE_LEFT_ANTI_JOIN)
    (ho : cfg.with_other_conjuncts = true) (hm : cfg.is_mark_join = true)
    (hkind : s.hash_table.kind = RowRefKind.RowRefListWithFlags)
    (hne : rows_nonempty s.hash_table) (hb : 1 ≤ cfg.batch_size)
    (hok : s.probe_row_match_iter.ok = false)
    (hpos : 0 < (do_probe cfg probe probe_rows s).current_offset) :
    let v := do_probe cfg probe probe_rows s
    let n := v.current_offset
    let fc := (scratch_rows v).map fun r => conj r.probe_index r.build
    let a0 : ApplierState := ⟨fc, [], v.mark_column, v.hash_table, v.is_any_probe_match_row_output⟩
    let a :=
      if cfg.JoinOpType == TJoinOp.LEFT_SEMI_JOIN then left_semi_rewrite v fc n true a0
      else left_anti_rewrite v fc n true a0
    let r := process cfg conj probe probe_rows s Block.empty
    let groups := v.same_to_prev.count false
    (∀ j, j < n →
      a.filter_map.getD j false = (decide (j + 1 = n) || !v.same_to_prev.getD (j + 1) false)) ∧
    (∀ j, j + 1 < n →
      (v.same_to_prev.getD (j + 1) false = true ↔
        v.probe_indexs.getD (j + 1) 0 = v.probe_indexs.getD j 0)) ∧
    a.matched_map.length = groups ∧
    r.2.2.probe = filter_block a.filter_map v.probe_indexs ∧
    r.2.2.mark = a.matched_map ∧
    r.2.2.rows = groups ∧ r.2.2.mark.length = groups ∧
    r.2.1.probe_row_match_iter.ok = false ∧
    r.2.2.probe = (List.range' s.probe_index (r.2.1.probe_index - s.probe_index)).filter
      fun i => !is_ignored_null cfg probe i := by
  intro v n fc a0 a r groups
  have hk : s.hash_table.kind ≠ RowRefKind.RowRefListWithFlag := by
    rw [hkind]
    exact fun h => RowRefKind.noConfusion h
  have hr : r = do_process cfg conj probe probe_rows s :=
    process_other_eq cfg conj probe probe_rows s Block.empty hkind
  have hv : do_probe cfg probe probe_rows s = v := rfl
  have hrest : s.probe_row_match_iter.rest = [] := (ok_eq_false_iff _).mp hok
  -- the shape of the scratch vectors
  obtain ⟨-, r2, -, r4, r5⟩ := do_probe_shape_run cfg probe probe_rows s ho hb hk hne
    (by rw [hrest]; exact Nat.zero_le _)
  rw [hv] at r2 r4 r5
  simp only [hok, hrest, Bool.toNat_false, Nat.add_zero, List.map_nil] at r4 r5
  have hdok : v.probe_row_match_iter.ok = false := by
    cases h : v.probe_row_match_iter.ok
    · rfl
    · have := (r5 h).1
      rw [hm] at this
      exact Bool.noConfusion this
  obtain ⟨q1, -⟩ := r4 hdok
  obtain ⟨Mid, hMid⟩ : ∃ Mid, Mid = (List.range' s.probe_index
      (v.probe_index - s.probe_index)).map fun i =>
      (i, other_row_tuples cfg probe s.hash_table.entries i) := ⟨_, rfl⟩
  have hRS : scratch_rows v = groups_rows Mid := by
    rw [q1, rows_records_groups, hMid]
    rfl
  have hcl := do_probe_cols_len cfg probe probe_rows s ho hb hne hk
  obtain ⟨hg, hgp⟩ := do_probe_grouping cfg probe probe_rows s ho hb hne hk
  obtain ⟨g1, -, -, g4⟩ := do_probe_group cfg probe probe_rows s ho hb hne hk
  have hsum := do_probe_rc_multi cfg probe probe_rows s
  rw [hv] at hcl hg hgp g1 g4 hsum hpos
  obtain ⟨c1, -⟩ := scratch_rows_columns v hcl
  have hn : 1 ≤ n := hpos
  -- the applier, cell by cell
  obtain ⟨m1, m2⟩ := mark_applier_cells v fc n a0 (cfg.JoinOpType == TJoinOp.LEFT_SEMI_JOIN)
    hn (by omega)
  have ha : (if (cfg.JoinOpType == TJoinOp.LEFT_SEMI_JOIN) = true then
      left_semi_rewrite v fc n true a0 else left_anti_rewrite v fc n true a0) = a := rfl
  rw [ha] at m1 m2
  have hcount := next_bits_count v.same_to_prev n hn g1 g4
  have ha0 : a0.matched_map = [] := r2
  rw [ha0, List.length_nil, Nat.zero_add, hcount] at m2
  -- the call
  have key := do_process_left_semi_anti cfg conj probe probe_rows s ho hb hne hk hop
    (by rw [hv]; exact hpos)
  simp only [hv, hm, if_true] at key
  have hkey : do_process cfg conj probe probe_rows s =
      (Status.OK, { v with is_any_probe_match_row_output := a.is_any_probe_match_row_output },
        ⟨filter_block a.filter_map ((scratch_rows v).map ScratchRow.probe_index),
         filter_block a.filter_map ((scratch_rows v).map ScratchRow.build),
         a.matched_map⟩) := key
  have hprobe : r.2.2.probe = filter_block a.filter_map v.probe_indexs := by
    rw [hr, hkey, c1]
  have hmark : r.2.2.mark = a.matched_map := by rw [hr, hkey]
  have hfl : a.filter_map.length = v.probe_indexs.length := by
    rw [m1, hcl.1]
    simp
    omega
  refine ⟨?_, ?_, m2, hprobe, hmark, ?_, ?_, ?_, ?_⟩
  · intro j hj
    rw [m1]
    exact next_bits_getD v.same_to_prev n j hj
  · intro j hj
    have h0 := same_to_prev_of_getD v.probe_indexs none (j + 1) (by rw [hcl.1]; exact hj)
    rw [← hgp, if_neg (by omega)] at h0
    rw [h0]
    simp
  · show r.2.2.probe.length = groups
    rw [hprobe, filter_block_length_sum _ _ hfl, m1, sum_not_toNat, hcount]
  · rw [hmark, m2]
  · rw [hr, hkey]
    exact hdok
  · have hpi : r.2.1.probe_index = v.probe_index := by rw [hr, hkey]
    have hneMid : groups_rows Mid ≠ [] := by
      intro h
      have := scratch_rows_length v
      rw [hRS, h] at this
      simp at this
      omega
    have hQ := scratch_next_bits v 0 Mid [] [] rfl (by simpa using hRS) hneMid
    have hlenM : (groups_rows Mid).length = n := by
      rw [← hRS]; exact scratch_rows_length v
    rw [hlenM, Nat.add_zero] at hQ
    rw [hprobe, m1, hQ, groups_next_not, c1, hRS, filter_block_cells_probe, hMid, hpi]
    have := flatMap_groups_map (other_row_tuples cfg probe s.hash_table.entries)
      (fun _ ts => !ts.isEmpty && true) (fun i _ => i)
      (List.range' s.probe_index (v.probe_index - s.probe_index))
    simp only [List.map_id'] at this
    rw [this]
    apply List.filter_congr
    intro i _
    have hpad : pads_not_found cfg = true := by
      unfold pads_not_found
      rcases hop with h | h | h <;> rw [h, hm] <;> rfl
    have hpa : probe_all cfg.JoinOpType = false := by
      rcases hop with h | h | h <;> rw [h] <;> rfl
    rw [other_row_tuples_isEmpty cfg probe s.hash_table hne hpad hpa i, Bool.and_true]

theorem C30_mark_join_group_rows_witness :
    ((⟨TJoinOp.LEFT_SEMI_JOIN, 10, true, true, true, true⟩ : Config).JoinOpType =
        TJoinOp.LEFT_SEMI_JOIN ∨
      (⟨TJoinOp.LEFT_SEMI_JOIN, 10, true, true, true, true⟩ : Config).JoinOpType =
        TJoinOp.LEFT_ANTI_JOIN ∨
      (⟨TJoinOp.LEFT_SEMI_JOIN, 10, true, true, true, true⟩ : Config).JoinOpType =
        TJoinOp.NULL_AWARE_LEFT_ANTI_JOIN) ∧
    (⟨TJoinOp.LEFT_SEMI_JOIN, 10, true, true, true, true⟩ : Config).with_other_conjuncts =
      true ∧
    (⟨TJoinOp.LEFT_SEMI_JOIN, 10, true, true, true, true⟩ : Config).is_mark_join = true ∧
    (ProbeState.fresh (single_key_table RowRefKind.RowRefListWithFlags 7 2)).hash_table.kind =
      RowRefKind.RowRefListWithFlags ∧
    rows_nonempty
      (ProbeState.fresh (single_key_table RowRefKind.RowRefListWithFlags 7 2)).hash_table ∧
    1 ≤ (⟨TJoinOp.LEFT_SEMI_JOIN, 10, true, true, true, true⟩ : Config).batch_size ∧
    (ProbeState.fresh
      (single_key_table RowRefKind.RowRefListWithFlags 7 2)).probe_row_match_iter.ok = false ∧
    0 < (do_probe ⟨TJoinOp.LEFT_SEMI_JOIN, 10, true, true, true, true⟩
      ⟨[7, 0, 9], [false, true, false]⟩ 3
      (ProbeState.fresh (single_key_table RowRefKind.RowRefListWithFlags 7 2))).current_offset ∧
    (process ⟨TJoinOp.LEFT_SEMI_JOIN, 10, true, true, true, true⟩
      (fun _ r => r.row_num == 0) ⟨[7, 0, 9], [false, true, false]⟩ 3
      (ProbeState.fresh (single_key_table RowRefKind.RowRefListWithFlags 7 2))
      Block.empty).2.2 = ⟨[0, 2], [⟨0, 1⟩, ⟨-1, -1⟩], [true, false]⟩ ∧
    (let v := do_probe ⟨TJoinOp.LEFT_SEMI_JOIN, 10, true, true, true, true⟩
      ⟨[7, 0, 9], [false, true, false]⟩ 3
      (ProbeState.fresh (single_key_table RowRefKind.RowRefListWithFlags 7 2))
    let n := v.current_offset
    let fc := (scratch_rows v).map fun r =>
      (fun (_ : Nat) (r : RowRef) => r.row_num == 0) r.probe_index r.build
    let a0 : ApplierState := ⟨fc, [], v.mark_column, v.hash_table, v.is_any_probe_match_row_output⟩
    let a :=
      if (⟨TJoinOp.LEFT_SEMI_JOIN, 10, true, true, true, true⟩ : Config).JoinOpType ==
          TJoinOp.LEFT_SEMI_JOIN then left_semi_rewrite v fc n true a0
      else left_anti_rewrite v fc n true a0
    let r := process ⟨TJoinOp.LEFT_SEMI_JOIN, 10, true, true, true, true⟩
      (fun _ r => r.row_num == 0) ⟨[7, 0, 9], [false, true, false]⟩ 3
      (ProbeState.fresh (single_key_table RowRefKind.RowRefListWithFlags 7 2)) Block.empty
    let groups := v.same_to_prev.count false
    (∀ j, j < n →
      a.filter_map.getD j false = (decide (j + 1 = n) || !v.same_to_prev.getD (j + 1) false)) ∧
    (∀ j, j + 1 < n →
      (v.same_to_prev.getD (j + 1) false = true ↔
        v.probe_indexs.getD (j + 1) 0 = v.probe_indexs.getD j 0)) ∧
    a.matched_map.length = groups ∧
    r.2.2.probe = filter_block a.filter_map v.probe_indexs ∧
    r.2.2.mark = a.matched_map ∧
    r.2.2.rows = groups ∧ r.2.2.mark.length = groups ∧
    r.2.1.probe_row_match_iter.ok = false ∧
    r.2.2.probe = (List.range'
        (ProbeState.fresh (single_key_table RowRefKind.RowRefListWithFlags 7 2)).probe_index
        (r.2.1.probe_index -
          (ProbeState.fresh
            (single_key_table RowRefKind.RowRefListWithFlags 7 2)).probe_index)).filter
      fun i => !is_ignored_null ⟨TJoinOp.LEFT_SEMI_JOIN, 10, true, true, true, true⟩
        ⟨[7, 0, 9], [false, true, false]⟩ i) :=
  ⟨Or.inl rfl, rfl, rfl, rfl, by decide, by decide, by decide, by decide, by decide,
    C30_mark_join_group_rows ⟨TJoinOp.LEFT_SEMI_JOIN, 10, true, true, true, true⟩
      (fun _ r => r.row_num == 0) ⟨[7, 0, 9], [false, true, false]⟩ 3
      (ProbeState.fresh (single_key_table RowRefKind.RowRefListWithFlags 7 2))
      (Or.inl rfl) rfl rfl rfl (by decide) (by decide) (by decide) (by decide)⟩

theorem max_one_row_fold_exact : ∀ (cols : List KeyColumn) (acc : Nat),
    acc + (cols.map KeyColumn.max_row_byte_size).sum < size_t_mod →
    cols.foldl (fun acc c => (acc + c.max_row_byte_size) % size_t_mod) acc =
      acc + (cols.map KeyColumn.max_row_byte_size).sum := by
  intro cols
  induction cols with
  | nil => intro acc _; simp
  | cons c cols ih =>
    intro acc h
    simp only [List.map_cons, List.sum_cons] at h
    have h1 : (acc + c.max_row_byte_size) % size_t_mod = acc + c.max_row_byte_size :=
      Nat.mod_eq_of_lt (by omega)
    rw [List.foldl_cons, h1, ih _ (by omega), List.map_cons, List.sum_cons]
    omega

/-- Without wrap-around the estimate is the exact product. -/
theorem total_bytes_exact (cols : List KeyColumn) (key_rows : Nat)
    (h : (cols.map KeyColumn.max_row_byte_size).sum * key_rows < size_t_mod) (hk : 0 < key_rows) :
    total_bytes cols key_rows = key_rows * (cols.map KeyColumn.max_row_byte_size).sum := by
  have hs : (cols.map KeyColumn.max_row_byte_size).sum < size_t_mod :=
    Nat.lt_of_le_of_lt (Nat.le_mul_of_pos_right _ hk) h
  unfold total_bytes max_one_row_byte_size
  rw [max_one_row_fold_exact cols 0 (by omega), Nat.zero_add, Nat.mod_eq_of_lt h,
    Nat.mul_comm]

theorem total_bytes_zero_rows (cols : List KeyColumn) : total_bytes cols 0 = 0 := by
  unfold total_bytes
  simp

/-- The per-row loop of the arena arm, from a cleared arena: one allocation per row, in row
order, and slot `i` refers to allocation `i`. -/
theorem per_row_fold (cols : List KeyColumn) (keys : List StringRef) :
    ∀ n, n ≤ keys.length →
      let r := (List.range n).foldl (fun (p : List StringRef × Arena) i =>
        let k := serialize_keys_to_pool_contiguous i cols p.2
        (p.1.set i k.1, k.2)) (keys, (⟨[]⟩ : Arena))
      r.2.chunks = (List.range n).map (fun i => (cols.map fun c => c.row_byte_size.getD i 0).sum) ∧
      r.1.length = keys.length ∧
      (∀ i, i < n → r.1[i]? =
        some ⟨KeyLoc.arena i, (cols.map fun c => c.row_byte_size.getD i 0).sum⟩) ∧
      (∀ i, n ≤ i → r.1[i]? = keys[i]?) := by
  intro n
  induction n with
  | zero => intro _; exact ⟨rfl, rfl, fun i hi => absurd hi (Nat.not_lt_zero _), fun _ _ => rfl⟩
  | succ n ih =>
    intro hn
    obtain ⟨h1, h2, h3, h4⟩ := ih (by omega)
    simp only at h1 h2 h3 h4 ⊢
    rw [List.range_succ, List.foldl_append, List.foldl_cons, List.foldl_nil]
    generalize (List.range n).foldl (fun (p : List StringRef × Arena) i =>
        let k := serialize_keys_to_pool_contiguous i cols p.2
        (p.1.set i k.1, k.2)) (keys, (⟨[]⟩ : Arena)) = r at h1 h2 h3 h4
    simp only [serialize_keys_to_pool_contiguous, Arena.alloc]
    refine ⟨?_, ?_, ?_, ?_⟩
    · rw [h1, List.map_append]
      rfl
    · simp [h2]
    · intro i hi
      by_cases hin : i = n
      · subst hin
        rw [List.getElem?_set_self (by omega), h1]
        simp
      · rw [List.getElem?_set_ne (fun h => hin h.symm)]
        exact h3 i (by omega)
    · intro i hi
      rw [List.getElem?_set_ne (by omega)]
      exact h4 i (by omega)

/-- `serialize_vec`, slot by slot: the slots below `num_rows` grow by the size of their
row; the others stay. -/
theorem serialize_vec_getElem? (c : KeyColumn) (keys : List StringRef) :
    ∀ n, (serialize_vec c keys n).length = keys.length ∧
      ∀ j, (serialize_vec c keys n)[j]? =
        if j < n then keys[j]?.map fun k => { k with size := k.size + c.row_byte_size.getD j 0 }
        else keys[j]? := by
  intro n
  induction n with
  | zero => exact ⟨rfl, fun j => by simp [serialize_vec]⟩
  | succ n ih =>
    obtain ⟨h1, h2⟩ := ih
    unfold serialize_vec at h1 h2 ⊢
    rw [List.range_succ, List.foldl_append, List.foldl_cons, List.foldl_nil]
    generalize (List.range n).foldl (fun (keys : List StringRef) i =>
      let k := keys.getD i ⟨KeyLoc.null, 0⟩
      keys.set i { k with size := k.size + c.row_byte_size.getD i 0 }) keys = ks at h1 h2
    simp only
    refine ⟨by simp [h1], ?_⟩
    intro j
    by_cases hjn : j = n
    · subst hjn
      have hk := h2 j
      rw [if_neg (Nat.lt_irrefl _)] at hk
      rw [if_pos (Nat.lt_succ_self _)]
      by_cases hl : j < ks.length
      · rw [List.getElem?_set_self hl, List.getD_eq_getElem?_getD, hk]
        rw [List.getElem?_eq_getElem (by omega)]
        rfl
      · rw [List.getElem?_eq_none (by simp; omega), List.getElem?_eq_none (by omega)]
        rfl
    · rw [List.getElem?_set_ne (fun h => hjn h.symm), h2 j]
      by_cases hj : j < n
      · rw [if_pos hj, if_pos (by omega)]
      · rw [if_neg hj, if_neg (by omega)]

/-- Every key column serialized in turn into the slots: slot `i` ends with the sizes of
row `i` in all the columns added to it. -/
theorem serialize_cols_getElem? (n : Nat) : ∀ (cols : List KeyColumn) (keys : List StringRef),
    (cols.foldl (fun keys c => serialize_vec c keys n) keys).length = keys.length ∧
    ∀ j, j < n → (cols.foldl (fun keys c => serialize_vec c keys n) keys)[j]? =
      keys[j]?.map fun k =>
        { k with size := k.size + (cols.map fun c => c.row_byte_size.getD j 0).sum } := by
  intro cols
  induction cols with
  | nil =>
    intro keys
    refine ⟨rfl, fun j _ => ?_⟩
    simp only [List.foldl_nil, List.map_nil, List.sum_nil, Nat.add_zero]
    cases keys[j]? with
    | none => rfl
    | some k => rfl
  | cons c cols ih =>
    intro keys
    obtain ⟨s1, s2⟩ := serialize_vec_getElem? c keys n
    obtain ⟨i1, i2⟩ := ih (serialize_vec c keys n)
    rw [List.foldl_cons]
    refine ⟨i1.trans s1, fun j hj => ?_⟩
    rw [i2 j hj, s2 j, if_pos hj]
    cases keys[j]? with
    | none => rfl
    | some k =>
      simp only [Option.map_some', List.map_cons, List.sum_cons]
      congr 2
      omega

theorem resize_keys_length (keys : List StringRef) (key_rows : Nat) :
    key_rows ≤ (if keys.length < key_rows then resize keys key_rows ⟨KeyLoc.null, 0⟩
      else keys).length := by
  split_ifs with h
  · simp [resize]
    omega
  · omega

/-- The `size_t` estimate wraps: one key column whose `get_max_row_byte_size()` is `2^63`,
two key rows, limit 16777216. Twice `2^63` is `2^64`, above the limit, but `total_bytes` is 0
and the bounded reusable buffer arm runs. -/
theorem total_bytes_wraps :
    let cols : List KeyColumn := [⟨9223372036854775808, [1, 1]⟩]
    let r := pre_serialize_key 16777216 cols 2 ⟨none, none, 0, none, 0⟩ []
    2 * (cols.map KeyColumn.max_row_byte_size).sum = 18446744073709551616 ∧
    ¬ (2 * (cols.map KeyColumn.max_row_byte_size).sum ≤ 16777216) ∧
    total_bytes cols 2 = 0 ∧
    r.strategy = KeyStrategy.bounded_buffer ∧
    r.serialized_keys = [⟨KeyLoc.buffer 0, 1⟩, ⟨KeyLoc.buffer 9223372036854775808, 1⟩] := by
  decide

/-- C25: `_pre_serialize_key` runs the bounded reusable buffer arm iff the estimate
`total_bytes` (`key_rows` times the sum of the key columns' max row byte sizes, as the code
computes it in `size_t`) is at most the limit, and the per-row arena arm iff the estimate is
above the limit. In the arena arm the arena is cleared first and then holds one allocation
per row, the contiguous serialization of the row, which slot `i` refers to. In the buffer
arm `_arena` is untouched, the buffer is at least `total_bytes` long and slot `i` starts
`i * max_one_row_byte_size` bytes into it. In both arms `serialized_keys` has at least
`key_rows` entries afterwards. Whenever the exact product is below `2^64`, the estimate is
that product. -/
theorem C25_strategy_by_size_t_estimate (limit : Nat) (key_columns : List KeyColumn)
    (key_rows : Nat) (st : KeyEncoderState) (serialized_keys : List StringRef) :
    let r := pre_serialize_key limit key_columns key_rows st serialized_keys
    let est := total_bytes key_columns key_rows
    let row_size := fun i => (key_columns.map fun c => c.row_byte_size.getD i 0).sum
    (r.strategy = KeyStrategy.bounded_buffer ↔ est ≤ limit) ∧
    (r.strategy = KeyStrategy.per_row_arena ↔ limit < est) ∧
    key_rows ≤ r.serialized_keys.length ∧
    (limit < est →
      r.state.arena = some ⟨(List.range key_rows).map row_size⟩ ∧
      ∀ i, i < key_rows → r.serialized_keys[i]? = some ⟨KeyLoc.arena i, row_size i⟩) ∧
    (est ≤ limit →
      r.state.arena = st.arena ∧ r.state.serialize_key_arena.isSome = true ∧
      est ≤ r.state.serialized_key_buffer_size ∧
      ∀ i, i < key_rows → r.serialized_keys[i]? =
        some ⟨KeyLoc.buffer ((i * max_one_row_byte_size key_columns) % size_t_mod),
          row_size i⟩) ∧
    ((key_columns.map KeyColumn.max_row_byte_size).sum * key_rows < size_t_mod →
      est = key_rows * (key_columns.map KeyColumn.max_row_byte_size).sum) := by
  intro r est row_size
  have hest : est = total_bytes key_columns key_rows := rfl
  have hrow : row_size = fun i => (key_columns.map fun c => c.row_byte_size.getD i 0).sum := rfl
  have hlen := resize_keys_length serialized_keys key_rows
  have hexact : (key_columns.map KeyColumn.max_row_byte_size).sum * key_rows < size_t_mod →
      est = key_rows * (key_columns.map KeyColumn.max_row_byte_size).sum := by
    intro h
    by_cases hk : 0 < key_rows
    · exact total_bytes_exact key_columns key_rows h hk
    · have h0 : key_rows = 0 := by omega
      rw [hest, h0, total_bytes_zero_rows, Nat.zero_mul]
  have hr : r = pre_serialize_key limit key_columns key_rows st serialized_keys := rfl
  unfold pre_serialize_key at hr
  simp only at hr
  rw [← hest] at hr
  generalize (if serialized_keys.length < key_rows then
      resize serialized_keys key_rows ⟨KeyLoc.null, 0⟩ else serialized_keys) = keys at hr hlen
  clear_value r est row_size
  by_cases hgt : est > limit
  · rw [if_pos hgt] at hr
    obtain ⟨p1, p2, p3, -⟩ := per_row_fold key_columns keys key_rows hlen
    simp only at p1 p2 p3
    have hclear : ∀ a : Arena, a.clear = ⟨[]⟩ := fun _ => rfl
    rw [hclear] at hr
    generalize (List.range key_rows).foldl (fun (p : List StringRef × Arena) i =>
        let k := serialize_keys_to_pool_contiguous i key_columns p.2
        (p.1.set i k.1, k.2)) (keys, (⟨[]⟩ : Arena)) = q at hr p1 p2 p3
    subst hr
    refine ⟨?_, ?_, ?_, ?_, ?_, hexact⟩
    · constructor
      · intro h; cases h
      · intro h; omega
    · exact ⟨fun _ => hgt, fun _ => rfl⟩
    · show key_rows ≤ q.1.length
      rw [p2]; exact hlen
    · intro _
      refine ⟨?_, ?_⟩
      · show some q.2 = _
        rw [hrow, ← p1]
      · intro i hi
        show q.1[i]? = _
        rw [hrow]
        exact p3 i hi
    · intro h; omega
  · rw [if_neg hgt] at hr
    obtain ⟨s1, s2⟩ := serialize_cols_getElem? key_rows key_columns
      ((List.range key_rows).foldl (fun (keys : List StringRef) i =>
        keys.set i ⟨KeyLoc.buffer ((i * max_one_row_byte_size key_columns) % size_t_mod), 0⟩)
        keys)
    have hset := foldl_set_getElem?
      (fun i => (⟨KeyLoc.buffer ((i * max_one_row_byte_size key_columns) % size_t_mod), 0⟩ :
        StringRef)) (List.range key_rows) keys
    have hsl := foldl_set_length
      (fun i => (⟨KeyLoc.buffer ((i * max_one_row_byte_size key_columns) % size_t_mod), 0⟩ :
        StringRef)) (List.range key_rows) keys
    subst hr
    refine ⟨?_, ?_, ?_, ?_, ?_, hexact⟩
    · exact ⟨fun _ => by omega, fun _ => rfl⟩
    · constructor
      · intro h; cases h
      · intro h; omega
    · exact Nat.le_trans hlen (Nat.le_of_eq (s1.trans hsl).symm)
    · intro h; omega
    · intro _
      refine ⟨?_, ?_, ?_, ?_⟩
      · simp only
        split_ifs <;> rfl
      · simp only
        split_ifs <;> rfl
      · simp only
        split_ifs with hb
        · exact Nat.le_refl _
        · show est ≤ st.serialized_key_buffer_size
          have : ¬ est > st.serialized_key_buffer_size := hb
          omega
      · intro i hi
        refine (s2 i hi).trans ?_
        rw [hset i, if_pos ⟨List.mem_range.mpr hi, by omega⟩, hrow]
        simp

theorem C25_strategy_by_size_t_estimate_witness :
    (pre_serialize_key 10 [⟨8, [3, 5]⟩, ⟨4, [1, 2]⟩] 2 ⟨some ⟨[100]⟩, none, 0, none, 0⟩
      []).strategy = KeyStrategy.per_row_arena ∧
    (pre_serialize_key 10 [⟨8, [3, 5]⟩, ⟨4, [1, 2]⟩] 2 ⟨some ⟨[100]⟩, none, 0, none, 0⟩
      []).state.arena = some ⟨[4, 7]⟩ ∧
    (pre_serialize_key 100 [⟨8, [3, 5]⟩, ⟨4, [1, 2]⟩] 2 ⟨some ⟨[100]⟩, none, 0, none, 0⟩
      []).serialized_keys = [⟨KeyLoc.buffer 0, 4⟩, ⟨KeyLoc.buffer 12, 7⟩] ∧
    ([⟨8, [3, 5]⟩, ⟨4, [1, 2]⟩].map KeyColumn.max_row_byte_size).sum * 2 < size_t_mod ∧
    (let r := pre_serialize_key 10 [⟨8, [3, 5]⟩, ⟨4, [1, 2]⟩] 2
      ⟨some ⟨[100]⟩, none, 0, none, 0⟩ []
    let est := total_bytes [⟨8, [3, 5]⟩, ⟨4, [1, 2]⟩] 2
    let row_size := fun i =>
      (([⟨8, [3, 5]⟩, ⟨4, [1, 2]⟩] : List KeyColumn).map fun c => c.row_byte_size.getD i 0).sum
    (r.strategy = KeyStrategy.bounded_buffer ↔ est ≤ 10) ∧
    (r.strategy = KeyStrategy.per_row_arena ↔ 10 < est) ∧
    2 ≤ r.serialized_keys.length ∧
    (10 < est →
      r.state.arena = some ⟨(List.range 2).map row_size⟩ ∧
      ∀ i, i < 2 → r.serialized_keys[i]? = some ⟨KeyLoc.arena i, row_size i⟩) ∧
    (est ≤ 10 →
      r.state.arena = (⟨some ⟨[100]⟩, none, 0, none, 0⟩ : KeyEncoderState).arena ∧
      r.state.serialize_key_arena.isSome = true ∧
      est ≤ r.state.serialized_key_buffer_size ∧
      ∀ i, i < 2 → r.serialized_keys[i]? =
        some ⟨KeyLoc.buffer
          ((i * max_one_row_byte_size [⟨8, [3, 5]⟩, ⟨4, [1, 2]⟩]) % size_t_mod),
          row_size i⟩) ∧
    (([⟨8, [3, 5]⟩, ⟨4, [1, 2]⟩].map KeyColumn.max_row_byte_size).sum * 2 < size_t_mod →
      est = 2 * ([⟨8, [3, 5]⟩, ⟨4, [1, 2]⟩].map KeyColumn.max_row_byte_size).sum)) :=
  ⟨by decide, by decide, by decide, by decide,
    C25_strategy_by_size_t_estimate 10 [⟨8, [3, 5]⟩, ⟨4, [1, 2]⟩] 2
      ⟨some ⟨[100]⟩, none, 0, none, 0⟩ []⟩

/-! ## `ignore_null` outside the anti modes (C37) -/

theorem found_match_loop_ignore_null (op : TJoinOp) (bs : Nat) (nn i1 i2 wo mj : Bool)
    (entry : Nat) : ∀ (rows : List RowRef) (pos : Nat) (s : ProbeState),
    found_match_loop ⟨op, bs, nn, i1, wo, mj⟩ entry pos rows s =
      found_match_loop ⟨op, bs, nn, i2, wo, mj⟩ entry pos rows s := by
  intro rows
  induction rows with
  | nil => intro pos s; rfl
  | cons r rest ih =>
    intro pos s
    simp only [found_match_loop]
    split_ifs <;> first | exact ih _ _ | rfl

theorem probe_row_match_loop_ignore_null (op : TJoinOp) (bs : Nat) (nn i1 i2 wo mj : Bool)
    (entry : Nat) : ∀ (rows : List RowRef) (pos : Nat) (s : ProbeState),
    probe_row_match_loop ⟨op, bs, nn, i1, wo, mj⟩ entry pos rows s =
      probe_row_match_loop ⟨op, bs, nn, i2, wo, mj⟩ entry pos rows s := by
  intro rows
  induction rows with
  | nil => intro pos s; rfl
  | cons r rest ih =>
    intro pos s
    simp only [probe_row_match_loop]
    split_ifs <;> first | exact ih _ _ | rfl

theorem found_branch_ignore_null (op : TJoinOp) (bs : Nat) (nn i1 i2 wo mj : Bool)
    (entry : Nat) (m : Mapped) (s : ProbeState) :
    found_branch ⟨op, bs, nn, i1, wo, mj⟩ entry m s =
      found_branch ⟨op, bs, nn, i2, wo, mj⟩ entry m s := by
  unfold found_branch
  simp only [found_match_loop_ignore_null op bs nn i1 i2 wo mj]

theorem resume_probe_ignore_null (op : TJoinOp) (bs : Nat) (nn i1 i2 wo mj : Bool)
    (s : ProbeState) :
    resume_probe ⟨op, bs, nn, i1, wo, mj⟩ s = resume_probe ⟨op, bs, nn, i2, wo, mj⟩ s := by
  unfold resume_probe probe_row_match
  simp only [probe_row_match_loop_ignore_null op bs nn i1 i2 wo mj]
  rfl

theorem resize_succ_of_length {α : Type} (l : List α) (n : Nat) (v : α) (h : l.length = n) :
    resize l (n + 1) v = l ++ [v] := by
  unfold resize
  rw [List.take_of_length_le (by omega), h]
  simp

theorem resize_same_of_length {α : Type} (l : List α) (n : Nat) (v : α) (h : l.length = n) :
    resize l n v = l := by
  unfold resize
  rw [List.take_of_length_le (by omega), h]
  simp

/-- One loop iteration does the same with `ignore_null` set and cleared, outside the anti
modes and mark join: for a null probe key the null-key arm and the not-found arm (or the
LEFT_SEMI arm) leave the same state. -/
theorem probe_step_ignore_null (op : TJoinOp) (bs : Nat) (nn wo : Bool)
    (probe : ProbeBatch) (s : ProbeState)
    (h1 : op ≠ TJoinOp.LEFT_ANTI_JOIN) (h2 : op ≠ TJoinOp.NULL_AWARE_LEFT_ANTI_JOIN)
    (hl : s.probe_indexs.length = s.current_offset) :
    probe_step ⟨op, bs, nn, true, wo, false⟩ probe s =
      probe_step ⟨op, bs, nn, false, wo, false⟩ probe s := by
  unfold probe_step is_ignored_null find_result
  simp only [Bool.true_and, Bool.false_and, Bool.false_eq_true, if_false]
  by_cases hn : (nn && probe.null_map.getD s.probe_index false) = true
  · rw [if_pos hn, if_pos hn]
    cases op <;> cases wo <;>
      first
      | exact absurd rfl h1
      | exact absurd rfl h2
      | simp [null_key_branch, dispatch, finish_step, not_found_branch, semi_anti_branch,
          probe_all, is_left_semi_anti, emplace_element, resize_succ_of_length _ _ _ hl,
          resize_same_of_length _ _ _ hl, hl]
  · rw [if_neg hn, if_neg hn]
    unfold dispatch
    simp only [found_branch_ignore_null op bs nn true false wo false]
    rfl

theorem probe_loop_ignore_null (op : TJoinOp) (bs : Nat) (nn wo : Bool)
    (probe : ProbeBatch) (probe_rows p0 : Nat)
    (h1 : op ≠ TJoinOp.LEFT_ANTI_JOIN) (h2 : op ≠ TJoinOp.NULL_AWARE_LEFT_ANTI_JOIN) :
    ∀ (fuel : Nat) (s : ProbeState), LoopInv ⟨op, bs, nn, true, wo, false⟩ p0 s →
      probe_loop ⟨op, bs, nn, true, wo, false⟩ probe probe_rows fuel s =
        probe_loop ⟨op, bs, nn, false, wo, false⟩ probe probe_rows fuel s := by
  intro fuel
  induction fuel with
  | zero => intro s _; rfl
  | succ n ih =>
    intro s hs
    by_cases hc : s.current_offset < bs ∧ s.probe_index < probe_rows
    · rw [probe_loop_step _ _ _ _ _ hc, probe_loop_step _ _ _ _ _ hc,
        ← probe_step_ignore_null op bs nn wo probe s h1 h2 hs.1]
      exact ih _ (probe_step_inv _ probe p0 s hs hc.1)
    · rw [probe_loop_stop _ _ _ _ _ hc, probe_loop_stop _ _ _ _ _ hc]

theorem do_probe_ignore_null (op : TJoinOp) (bs : Nat) (nn wo : Bool)
    (probe : ProbeBatch) (probe_rows : Nat) (s : ProbeState)
    (h1 : op ≠ TJoinOp.LEFT_ANTI_JOIN) (h2 : op ≠ TJoinOp.NULL_AWARE_LEFT_ANTI_JOIN) :
    do_probe ⟨op, bs, nn, true, wo, false⟩ probe probe_rows s =
      do_probe ⟨op, bs, nn, false, wo, false⟩ probe probe_rows s := by
  unfold do_probe
  simp only
  rw [probe_loop_ignore_null op bs nn wo probe probe_rows s.probe_index h1 h2 _ _
    (resume_probe_inv _ s), resume_probe_ignore_null op bs nn true false wo false s]

/-- C37 (`ignore_null` is irrelevant outside the anti modes). Without mark join and for
every join mode other than LEFT_ANTI and NULL_AWARE_LEFT_ANTI, `do_process` instantiated
with `ignore_null` set and with `ignore_null` cleared returns the same status, the same
engine state and the same output block on the same inputs, whatever the null map of the
probe batch; in particular the scratch vectors (`build_block_offsets`, `build_block_rows`,
`probe_indexs`, `visited_map`, `same_to_prev`), `all_match_one`, `probe_size`,
`probe_index` and the suspended iterator agree after the probe loop. -/
theorem C37_ignore_null_irrelevant (cfg : Config) (conj : OtherConjuncts)
    (probe : ProbeBatch) (probe_rows : Nat) (s : ProbeState)
    (hm : cfg.is_mark_join = false)
    (h1 : cfg.JoinOpType ≠ TJoinOp.LEFT_ANTI_JOIN)
    (h2 : cfg.JoinOpType ≠ TJoinOp.NULL_AWARE_LEFT_ANTI_JOIN) :
    do_probe { cfg with ignore_null := true } probe probe_rows s =
      do_probe { cfg with ignore_null := false } probe probe_rows s ∧
    do_process { cfg with ignore_null := true } conj probe probe_rows s =
      do_process { cfg with ignore_null := false } conj probe probe_rows s := by
  obtain ⟨op, bs, nn, ig, wo, mj⟩ := cfg
  simp only at hm h1 h2
  subst hm
  have hp := do_probe_ignore_null op bs nn wo probe probe_rows s h1 h2
  refine ⟨hp, ?_⟩
  unfold do_process
  simp only
  rw [hp]
  rfl

theorem C37_ignore_null_irrelevant_witness :
    (⟨TJoinOp.LEFT_OUTER_JOIN, 4, true, true, false, false⟩ : Config).is_mark_join = false ∧
    (⟨TJoinOp.LEFT_OUTER_JOIN, 4, true, true, false, false⟩ : Config).JoinOpType ≠
      TJoinOp.LEFT_ANTI_JOIN ∧
    (⟨TJoinOp.LEFT_OUTER_JOIN, 4, true, true, false, false⟩ : Config).JoinOpType ≠
      TJoinOp.NULL_AWARE_LEFT_ANTI_JOIN ∧
    (do_probe ⟨TJoinOp.LEFT_OUTER_JOIN, 4, true, true, false, false⟩
      ⟨[7, 0, 9], [false, true, false]⟩ 3
      (ProbeState.fresh (single_key_table RowRefKind.RowRefList 7 2))).probe_indexs =
      [0, 0, 1, 2] ∧
    (do_probe { (⟨TJoinOp.LEFT_OUTER_JOIN, 4, true, true, false, false⟩ : Config) with
        ignore_null := true } ⟨[7, 0, 9], [false, true, false]⟩ 3
      (ProbeState.fresh (single_key_table RowRefKind.RowRefList 7 2)) =
      do_probe { (⟨TJoinOp.LEFT_OUTER_JOIN, 4, true, true, false, false⟩ : Config) with
        ignore_null := false } ⟨[7, 0, 9], [false, true, false]⟩ 3
      (ProbeState.fresh (single_key_table RowRefKind.RowRefList 7 2)) ∧
    do_process { (⟨TJoinOp.LEFT_OUTER_JOIN, 4, true, true, false, false⟩ : Config) with
        ignore_null := true } (fun _ _ => true) ⟨[7, 0, 9], [false, true, false]⟩ 3
      (ProbeState.fresh (single_key_table RowRefKind.RowRefList 7 2)) =
      do_process { (⟨TJoinOp.LEFT_OUTER_JOIN, 4, true, true, false, false⟩ : Config) with
        ignore_null := false } (fun _ _ => true) ⟨[7, 0, 9], [false, true, false]⟩ 3
      (ProbeState.fresh (single_key_table RowRefKind.RowRefList 7 2))) :=
  ⟨by decide, by decide, by decide, by decide,
    C37_ignore_null_irrelevant ⟨TJoinOp.LEFT_OUTER_JOIN, 4, true, true, false, false⟩
      (fun _ _ => true) ⟨[7, 0, 9], [false, true, false]⟩ 3
      (ProbeState.fresh (single_key_table RowRefKind.RowRefList 7 2))
      (by decide) (by decide) (by decide)⟩

/-! ## The lengths of the scratch vectors (C32) -/

theorem finish_step_build (p : Nat) (s : ProbeState) :
    (finish_step p s).build_block_offsets = s.build_block_offsets ∧
    (finish_step p s).build_block_rows = s.build_block_rows ∧
    (finish_step p s).current_offset = s.current_offset := ⟨rfl, rfl, rfl⟩

theorem probe_step_build_len (cfg : Config) (probe : ProbeBatch) (s : ProbeState)
    (h : BuildLen cfg s) : BuildLen cfg (probe_step cfg probe s) := by
  obtain ⟨h1, h2, h3⟩ := h
  unfold probe_step
  split_ifs with hn
  · unfold null_key_branch
    cases hp : probe_all cfg.JoinOpType <;> cases ho : cfg.with_other_conjuncts <;>
      simp only [BuildLen, emplace_element, Bool.false_eq_true, if_false, if_true,
        List.length_append, List.length_singleton] <;>
      refine ⟨by omega, by omega, fun hx => ?_⟩ <;> have := h3 hx <;> omega
  · unfold BuildLen
    rw [(finish_step_build _ _).1, (finish_step_build _ _).2.1, (finish_step_build _ _).2.2]
    unfold dispatch
    split_ifs with hs
    · simp only [Bool.and_eq_true, Bool.not_eq_true'] at hs
      unfold semi_anti_branch
      split_ifs <;> simp only <;>
        exact ⟨h1, by omega, fun hx => absurd hs hx⟩
    · cases hf : find_result cfg probe s.hash_table.entries s.probe_index with
      | none =>
        simp only
        unfold not_found_branch
        split_ifs <;>
          simp only [emplace_element, List.length_append, List.length_singleton] <;>
          refine ⟨by omega, by omega, fun hx => ?_⟩ <;> have := h3 hx <;> omega
      | some e =>
        simp only
        obtain ⟨f1, f2, f3, -⟩ := found_branch_fields cfg e
          ((s.hash_table.entries.getD e (0, ⟨[], false⟩)).2) s
        rw [f1, f2, f3]
        simp only [List.length_append, List.length_map]
        have hx : ¬(cfg.with_other_conjuncts = false ∧
            is_left_semi_anti cfg.JoinOpType = true) := by
          simpa using hs
        have := h3 hx
        refine ⟨by omega, ?_, fun _ => ?_⟩
        · rw [List.length_take]; omega
        · rw [List.length_take]
          split_ifs <;> simp <;> omega

theorem resume_probe_build_len (cfg : Config) (s : ProbeState) :
    BuildLen cfg (resume_probe cfg s) := by
  cases hok : s.probe_row_match_iter.ok
  · rw [resume_probe_not_ok cfg s hok]
    simp [BuildLen, init_probe_side]
  · obtain ⟨g1, -, -, -, -, g6, g7, -⟩ := resume_probe_ok cfg s hok
    unfold BuildLen
    rw [g1, g6, g7]
    simp

theorem do_probe_build_len (cfg : Config) (probe : ProbeBatch) (probe_rows : Nat)
    (s : ProbeState) : BuildLen cfg (do_probe cfg probe probe_rows s) :=
  probe_loop_induct cfg probe probe_rows (BuildLen cfg)
    (fun t ht _ _ => probe_step_build_len cfg probe t ht)
    (probe_rows - (resume_probe cfg s).probe_index) (resume_probe cfg s)
    (resume_probe_build_len cfg s)

theorem assemble_scratch (cfg : Config) (p0 : Nat) (s : ProbeState) :
    (assemble cfg p0 s).1.build_block_offsets = s.build_block_offsets ∧
    (assemble cfg p0 s).1.build_block_rows = s.build_block_rows ∧
    (assemble cfg p0 s).1.probe_indexs = s.probe_indexs ∧
    (assemble cfg p0 s).1.visited_map = s.visited_map ∧
    (assemble cfg p0 s).1.same_to_prev = s.same_to_prev ∧
    (assemble cfg p0 s).1.current_offset = s.current_offset := by
  unfold assemble
  simp only
  split_ifs <;> exact ⟨rfl, rfl, rfl, rfl, rfl, rfl⟩

theorem do_other_join_conjuncts_scratch (cfg : Config) (conj : OtherConjuncts)
    (s : ProbeState) (b : Block) :
    (do_other_join_conjuncts cfg conj s b).1.build_block_offsets = s.build_block_offsets ∧
    (do_other_join_conjuncts cfg conj s b).1.build_block_rows = s.build_block_rows ∧
    (do_other_join_conjuncts cfg conj s b).1.probe_indexs = s.probe_indexs ∧
    (do_other_join_conjuncts cfg conj s b).1.visited_map = s.visited_map ∧
    (do_other_join_conjuncts cfg conj s b).1.same_to_prev = s.same_to_prev ∧
    (do_other_join_conjuncts cfg conj s b).1.current_offset = s.current_offset := by
  unfold do_other_join_conjuncts
  simp only
  split_ifs <;> exact ⟨rfl, rfl, rfl, rfl, rfl, rfl⟩

/-- The output assembly and the applier leave the scratch vectors and `current_offset` as
the probe loop left them. -/
theorem do_process_scratch (cfg : Config) (conj : OtherConjuncts) (probe : ProbeBatch)
    (probe_rows : Nat) (s : ProbeState) :
    (do_process cfg conj probe probe_rows s).2.1.build_block_offsets =
      (do_probe cfg probe probe_rows s).build_block_offsets ∧
    (do_process cfg conj probe probe_rows s).2.1.build_block_rows =
      (do_probe cfg probe probe_rows s).build_block_rows ∧
    (do_process cfg conj probe probe_rows s).2.1.probe_indexs =
      (do_probe cfg probe probe_rows s).probe_indexs ∧
    (do_process cfg conj probe probe_rows s).2.1.visited_map =
      (do_probe cfg probe probe_rows s).visited_map ∧
    (do_process cfg conj probe probe_rows s).2.1.same_to_prev =
      (do_probe cfg probe probe_rows s).same_to_prev ∧
    (do_process cfg conj probe probe_rows s).2.1.current_offset =
      (do_probe cfg probe probe_rows s).current_offset := by
  have hA := assemble_scratch cfg s.probe_index (do_probe cfg probe probe_rows s)
  unfold do_process
  simp only
  cases hp : assemble cfg s.probe_index (do_probe cfg probe probe_rows s) with
  | mk s1 b1 =>
    rw [hp] at hA
    simp only at hA
    obtain ⟨a1, a2, a3, a4, a5, a6⟩ := hA
    cases ho : cfg.with_other_conjuncts
    · simp only [Bool.false_eq_true, if_false]
      exact ⟨a1, a2, a3, a4, a5, a6⟩
    · simp only [if_true]
      have hD := do_other_join_conjuncts_scratch cfg conj s1 b1
      cases hq : do_other_join_conjuncts cfg conj s1 b1 with
      | mk s2 b2 =>
        rw [hq] at hD
        simp only at hD ⊢
        obtain ⟨d1, d2, d3, d4, d5, d6⟩ := hD
        exact ⟨d1.trans a1, d2.trans a2, d3.trans a3, d4.trans a4, d5.trans a5, d6.trans a6⟩

/-- C32 (as stated, refuted): a LEFT_SEMI call without other conjuncts and without mark
join counts the probe row `0`, whose key is in the table, as an output row:
`probe_indexs` is resized to one cell, and no build coordinate is stored, so
`build_block_offsets` and `build_block_rows` stay empty. The three vectors do not have
the same length. -/
theorem C32_counterexample :
    (process ⟨TJoinOp.LEFT_SEMI_JOIN, 4, false, false, false, false⟩ (fun _ _ => true)
      ⟨[7], [false]⟩ 1 (ProbeState.fresh (single_key_table RowRefKind.RowRefList 7 1))
      Block.empty).1 = Status.OK ∧
    (process ⟨TJoinOp.LEFT_SEMI_JOIN, 4, false, false, false, false⟩ (fun _ _ => true)
      ⟨[7], [false]⟩ 1 (ProbeState.fresh (single_key_table RowRefKind.RowRefList 7 1))
      Block.empty).2.1.probe_indexs = [0] ∧
    (process ⟨TJoinOp.LEFT_SEMI_JOIN, 4, false, false, false, false⟩ (fun _ _ => true)
      ⟨[7], [false]⟩ 1 (ProbeState.fresh (single_key_table RowRefKind.RowRefList 7 1))
      Block.empty).2.1.build_block_offsets = [] ∧
    (process ⟨TJoinOp.LEFT_SEMI_JOIN, 4, false, false, false, false⟩ (fun _ _ => true)
      ⟨[7], [false]⟩ 1 (ProbeState.fresh (single_key_table RowRefKind.RowRefList 7 1))
      Block.empty).2.1.build_block_rows = [] ∧
    ¬((process ⟨TJoinOp.LEFT_SEMI_JOIN, 4, false, false, false, false⟩ (fun _ _ => true)
      ⟨[7], [false]⟩ 1 (ProbeState.fresh (single_key_table RowRefKind.RowRefList 7 1))
      Block.empty).2.1.build_block_offsets.length =
      (process ⟨TJoinOp.LEFT_SEMI_JOIN, 4, false, false, false, false⟩ (fun _ _ => true)
      ⟨[7], [false]⟩ 1 (ProbeState.fresh (single_key_table RowRefKind.RowRefList 7 1))
      Block.empty).2.1.probe_indexs.length) := by
  decide

/-- C32 (amended): after every `process` call that is not a mark join, in every join mode:
a refused call (`InvalidArgument`) leaves the engine state as it was; a call that runs
leaves `build_block_offsets` and `build_block_rows` equally long, `probe_indexs` as long as
`current_offset`, and both lengths at most `batch_size`; and in every mode but LEFT_SEMI /
LEFT_ANTI / NULL_AWARE_LEFT_ANTI without other conjuncts (where output rows are counted
without a build coordinate) the three vectors have the same length. -/
theorem C32_scratch_lengths (cfg : Config) (conj : OtherConjuncts) (probe : ProbeBatch)
    (probe_rows : Nat) (s : ProbeState) (output_block : Block)
    (hm : cfg.is_mark_join = false) :
    let r := process cfg conj probe probe_rows s output_block
    (r.1 = Status.InvalidArgument ∧ r.2.1 = s) ∨
    (r.1 = Status.OK ∧
      r.2.1.build_block_offsets.length = r.2.1.build_block_rows.length ∧
      r.2.1.probe_indexs.length = r.2.1.current_offset ∧
      r.2.1.probe_indexs.length ≤ cfg.batch_size ∧
      r.2.1.build_block_offsets.length ≤ r.2.1.probe_indexs.length ∧
      (¬(cfg.with_other_conjuncts = false ∧ is_left_semi_anti cfg.JoinOpType = true) →
        r.2.1.build_block_offsets.length = r.2.1.probe_indexs.length)) := by
  intro r
  by_cases hr : cfg.with_other_conjuncts = true ∧
      s.hash_table.kind ≠ RowRefKind.RowRefListWithFlags
  · left
    have : r = (Status.InvalidArgument, s, output_block) := by
      show process cfg conj probe probe_rows s output_block = _
      unfold process
      simp [hr.1, hr.2]
    rw [this]
    exact ⟨rfl, rfl⟩
  · right
    have hrun : r = do_process cfg conj probe probe_rows s := by
      show process cfg conj probe probe_rows s output_block = _
      cases ho : cfg.with_other_conjuncts
      · exact process_eq_do_process cfg conj probe probe_rows s output_block ho
      · have hk : s.hash_table.kind = RowRefKind.RowRefListWithFlags := by
          by_contra hk
          exact hr ⟨ho, hk⟩
        exact process_other_eq cfg conj probe probe_rows s output_block hk
    obtain ⟨p1, p2, p3, -, -, p6⟩ := do_process_scratch cfg conj probe probe_rows s
    obtain ⟨hL, -, -⟩ := do_probe_inv cfg probe probe_rows s
    obtain ⟨b1, b2, b3⟩ := do_probe_build_len cfg probe probe_rows s
    have hco := hL.2.2.1 (by rw [hm]; simp)
    rw [hrun, p1, p2, p3, p6, hL.1]
    exact ⟨do_process_status cfg conj probe probe_rows s, b1, rfl, hco, b2, b3⟩

theorem C32_scratch_lengths_witness :
    (⟨TJoinOp.FULL_OUTER_JOIN, 3, true, false, false, false⟩ : Config).is_mark_join = false ∧
    full_outer_call.2.1.probe_indexs = [0, 0, 1] ∧
    full_outer_call.2.1.build_block_rows = [0, 1, -1] ∧
    ((full_outer_call.1 = Status.InvalidArgument ∧
        full_outer_call.2.1 =
          ProbeState.fresh (single_key_table RowRefKind.RowRefListWithFlag 7 2)) ∨
      (full_outer_call.1 = Status.OK ∧
        full_outer_call.2.1.build_block_offsets.length =
          full_outer_call.2.1.build_block_rows.length ∧
        full_outer_call.2.1.probe_indexs.length = full_outer_call.2.1.current_offset ∧
        full_outer_call.2.1.probe_indexs.length ≤
          (⟨TJoinOp.FULL_OUTER_JOIN, 3, true, false, false, false⟩ : Config).batch_size ∧
        full_outer_call.2.1.build_block_offsets.length ≤
          full_outer_call.2.1.probe_indexs.length ∧
        (¬((⟨TJoinOp.FULL_OUTER_JOIN, 3, true, false, false, false⟩ :
              Config).with_other_conjuncts = false ∧
            is_left_semi_anti (⟨TJoinOp.FULL_OUTER_JOIN, 3, true, false, false, false⟩ :
              Config).JoinOpType = true) →
          full_outer_call.2.1.build_block_offsets.length =
            full_outer_call.2.1.probe_indexs.length))) :=
  ⟨by decide, by decide, by decide,
    C32_scratch_lengths ⟨TJoinOp.FULL_OUTER_JOIN, 3, true, false, false, false⟩
      (fun _ _ => true) ⟨[7, 0, 9], [false, true, false]⟩ 3
      (ProbeState.fresh (single_key_table RowRefKind.RowRefListWithFlag 7 2)) Block.empty
      (by decide)⟩

/-! ## Progress of the probe loop and of repeated calls (C36) -/

/-- More fuel than the loop needs changes nothing: once the loop condition is false in the
state returned, every larger bound returns the same state. -/
theorem probe_loop_fuel_stable (cfg : Config) (probe : ProbeBatch) (probe_rows : Nat) :
    ∀ (n m : Nat) (s : ProbeState),
      ¬((probe_loop cfg probe probe_rows n s).current_offset < cfg.batch_size ∧
        (probe_loop cfg probe probe_rows n s).probe_index < probe_rows) →
      probe_loop cfg probe probe_rows (n + m) s = probe_loop cfg probe probe_rows n s := by
  intro n
  induction n with
  | zero =>
    intro m s h
    have hs : probe_loop cfg probe probe_rows 0 s = s := rfl
    rw [hs] at h ⊢
    rw [Nat.zero_add]
    exact probe_loop_stop cfg probe probe_rows m s h
  | succ n ih =>
    intro m s h
    by_cases hc : s.current_offset < cfg.batch_size ∧ s.probe_index < probe_rows
    · rw [probe_loop_step _ _ _ _ _ hc] at h ⊢
      have e : n + 1 + m = (n + m) + 1 := by omega
      rw [e, probe_loop_step _ _ _ _ _ hc]
      exact ih m _ h
    · rw [probe_loop_stop _ _ _ _ _ hc, probe_loop_stop _ _ _ _ _ hc]

/-- When the loop runs at all it gets past the probe row it starts at. -/
theorem probe_loop_progress (cfg : Config) (probe : ProbeBatch) (probe_rows p0 : Nat)
    (t0 : ProbeState) (hL : LoopInv cfg p0 t0)
    (hc : t0.current_offset < cfg.batch_size ∧ t0.probe_index < probe_rows) :
    t0.probe_index + 1 ≤
      (probe_loop cfg probe probe_rows (probe_rows - t0.probe_index) t0).probe_index +
      (probe_loop cfg probe probe_rows (probe_rows - t0.probe_index)
        t0).probe_row_match_iter.ok.toNat := by
  have hok0 : t0.probe_row_match_iter.ok = false := by
    cases hk : t0.probe_row_match_iter.ok
    · rfl
    · have := hL.2.1 hk; omega
  obtain ⟨n, hn⟩ : ∃ n, probe_rows - t0.probe_index = n + 1 :=
    ⟨probe_rows - t0.probe_index - 1, by omega⟩
  rw [hn, probe_loop_step _ _ _ _ _ hc]
  have key := probe_loop_induct cfg probe probe_rows
    (fun t => LoopInv cfg p0 t ∧
      t0.probe_index + 1 ≤ t.probe_index + t.probe_row_match_iter.ok.toNat)
    (fun t ht hc2 _ => by
      have hok : t.probe_row_match_iter.ok = false := by
        cases hk : t.probe_row_match_iter.ok
        · rfl
        · have := ht.1.2.1 hk; omega
      obtain ⟨-, -, g3, -⟩ := probe_step_summary cfg probe t ht.1.1 hok hc2
      have := ht.2
      rw [hok] at this
      simp only [Bool.toNat_false, Nat.add_zero] at this
      exact ⟨probe_step_inv cfg probe _ t ht.1 hc2, by omega⟩)
    n (probe_step cfg probe t0) ?_
  · exact key.2
  · obtain ⟨-, -, g3, -⟩ := probe_step_summary cfg probe t0 hL.1 hok0 hc.1
    exact ⟨probe_step_inv cfg probe _ t0 hL hc.1, by omega⟩

/-- One run of the probe loop makes progress when there is something left to do: the
number of probe rows not yet examined (the row of a suspended iterator counting as
examined) decreases, or it stays and the suspended iterator gets shorter. -/
theorem do_probe_progress (cfg : Config) (probe : ProbeBatch) (probe_rows : Nat)
    (s : ProbeState) (hb : 1 ≤ cfg.batch_size)
    (hw : s.probe_index < probe_rows ∨ s.probe_row_match_iter.ok = true) :
    probe_rows - ((do_probe cfg probe probe_rows s).probe_index +
        (do_probe cfg probe probe_rows s).probe_row_match_iter.ok.toNat) <
      probe_rows - (s.probe_index + s.probe_row_match_iter.ok.toNat) ∨
    (probe_rows - ((do_probe cfg probe probe_rows s).probe_index +
        (do_probe cfg probe probe_rows s).probe_row_match_iter.ok.toNat) =
      probe_rows - (s.probe_index + s.probe_row_match_iter.ok.toNat) ∧
      (do_probe cfg probe probe_rows s).probe_row_match_iter.rest.length <
        s.probe_row_match_iter.rest.length) := by
  have hd1 : (do_probe cfg probe probe_rows s).probe_index =
      (probe_loop cfg probe probe_rows (probe_rows - (resume_probe cfg s).probe_index)
        (resume_probe cfg s)).probe_index := rfl
  have hd2 : (do_probe cfg probe probe_rows s).probe_row_match_iter =
      (probe_loop cfg probe probe_rows (probe_rows - (resume_probe cfg s).probe_index)
        (resume_probe cfg s)).probe_row_match_iter := rfl
  rw [hd1, hd2]
  have hL := resume_probe_inv cfg s
  by_cases hc : (resume_probe cfg s).current_offset < cfg.batch_size ∧
      (resume_probe cfg s).probe_index < probe_rows
  · have hp := probe_loop_progress cfg probe probe_rows s.probe_index _ hL hc
    have hok0 : (resume_probe cfg s).probe_row_match_iter.ok = false := by
      cases hk : (resume_probe cfg s).probe_row_match_iter.ok
      · rfl
      · have := hL.2.1 hk; omega
    left
    cases hok : s.probe_row_match_iter.ok
    · rw [resume_probe_not_ok cfg s hok] at hp hc
      have e1 : (init_probe_side cfg s).probe_index = s.probe_index := rfl
      rw [e1] at hp hc
      rw [resume_probe_not_ok cfg s hok]
      simp only [Bool.toNat_false, Nat.add_zero]
      rw [e1]
      omega
    · obtain ⟨-, -, h3, h4, -⟩ := resume_probe_ok cfg s hok
      rw [h3, ok_drop] at hok0
      have hk : ¬(min cfg.batch_size s.probe_row_match_iter.rest.length <
          s.probe_row_match_iter.rest.length) := by simpa using hok0
      rw [if_neg hk] at h4
      rw [h4] at hp hc
      simp only [Bool.toNat_true]
      rw [h4] 
      omega
  · rw [probe_loop_stop _ _ _ _ _ hc]
    cases hok : s.probe_row_match_iter.ok
    · exfalso
      rw [resume_probe_not_ok cfg s hok] at hc
      rw [hok] at hw
      simp only [Bool.false_eq_true, or_false] at hw
      apply hc
      exact ⟨by show 0 < cfg.batch_size; omega, hw⟩
    · obtain ⟨-, -, h3, h4, -⟩ := resume_probe_ok cfg s hok
      have hlen : 0 < s.probe_row_match_iter.rest.length :=
        List.length_pos.mpr ((ok_eq_true_iff _).mp hok)
      right
      rw [h3, h4, ok_drop]
      simp only [Bool.toNat_true, List.length_drop]
      by_cases hk : min cfg.batch_size s.probe_row_match_iter.rest.length <
          s.probe_row_match_iter.rest.length
      · rw [if_pos hk]
        simp only [hk, decide_True, Bool.toNat_true]
        exact ⟨trivial, by omega⟩
      · rw [if_neg hk]
        simp only [hk, decide_False, Bool.toNat_false]
        refine ⟨?_, ?_⟩ <;> first | trivial | rfl | omega

/-- The probe loop keeps the keys and row coordinates of the table, and the suspended
iterator is never longer than the longest row list. -/
theorem do_probe_rest_le (cfg : Config) (probe : ProbeBatch) (probe_rows : Nat)
    (s : ProbeState) (L : Nat)
    (hL : ∀ e, (entry_rows s.hash_table.entries e).length ≤ L)
    (hr : s.probe_row_match_iter.rest.length ≤ L) :
    skeleton (do_probe cfg probe probe_rows s).hash_table.entries =
      skeleton s.hash_table.entries ∧
    (do_probe cfg probe probe_rows s).probe_row_match_iter.rest.length ≤ L := by
  have key := probe_loop_induct cfg probe probe_rows
    (fun t => LoopInv cfg s.probe_index t ∧
      skeleton t.hash_table.entries = skeleton s.hash_table.entries ∧
      t.probe_row_match_iter.rest.length ≤ L)
    (fun t ht hc _ => by
      obtain ⟨hI, hsk, -⟩ := ht
      have hok : t.probe_row_match_iter.ok = false := by
        cases hk : t.probe_row_match_iter.ok
        · rfl
        · have := hI.2.1 hk; omega
      obtain ⟨i1, i2⟩ := probe_step_iter cfg probe t hok hc
      refine ⟨probe_step_inv cfg probe _ t hI hc, i1.trans hsk, ?_⟩
      cases hk : (probe_step cfg probe t).probe_row_match_iter.ok
      · rw [(ok_eq_false_iff _).mp hk]
        exact Nat.zero_le _
      · obtain ⟨e, -, -, h3⟩ := i2 hk
        rw [h3]
        simp only [List.length_drop]
        have := hL e
        rw [← entry_rows_of_skeleton _ _ hsk e] at this
        omega)
    (probe_rows - (resume_probe cfg s).probe_index) (resume_probe cfg s) ?_
  · exact key.2
  · refine ⟨resume_probe_inv cfg s, by rw [(resume_probe_ext cfg s).1], ?_⟩
    cases hok : s.probe_row_match_iter.ok
    · rw [resume_probe_not_ok cfg s hok]
      exact hr
    · obtain ⟨-, -, h3, -⟩ := resume_probe_ok cfg s hok
      rw [h3]
      simp only [List.length_drop]
      omega

theorem right_visited_rewrite_kind (s : ProbeState) (hit : List Bool) (row_count : Nat)
    (ht : HashTable) : (right_visited_rewrite s hit row_count ht).kind = ht.kind := by
  unfold right_visited_rewrite
  generalize List.range row_count = l
  induction l generalizing ht with
  | nil => rfl
  | cons x l ih => rw [List.foldl_cons, ih, or_visited_kind]

theorem do_other_join_conjuncts_kind (cfg : Config) (conj : OtherConjuncts) (s : ProbeState)
    (b : Block) :
    (do_other_join_conjuncts cfg conj s b).1.hash_table.kind = s.hash_table.kind := by
  unfold do_other_join_conjuncts
  simp only
  split_ifs <;>
    first
    | rfl
    | exact left_outer_rewrite_kind _ _ _ _
    | exact right_visited_rewrite_kind _ _ _ _

/-- The row-list flavor of the table is the same after `do_process`. -/
theorem do_process_kind (cfg : Config) (conj : OtherConjuncts) (probe : ProbeBatch)
    (probe_rows : Nat) (s : ProbeState) :
    (do_process cfg conj probe probe_rows s).2.1.hash_table.kind = s.hash_table.kind := by
  have hA := assemble_state cfg s.probe_index (do_probe cfg probe probe_rows s)
  have hF := (do_probe_frame cfg probe probe_rows s).2.2.1
  unfold do_process
  simp only
  cases hp : assemble cfg s.probe_index (do_probe cfg probe probe_rows s) with
  | mk s1 b1 =>
    rw [hp] at hA
    simp only at hA
    obtain ⟨-, -, a3⟩ := hA
    cases ho : cfg.with_other_conjuncts
    · simp only [Bool.false_eq_true, if_false]
      rw [a3, hF]
    · simp only [if_true]
      have hD := do_other_join_conjuncts_kind cfg conj s1 b1
      cases hq : do_other_join_conjuncts cfg conj s1 b1 with
      | mk s2 b2 =>
        rw [hq] at hD
        simp only at hD ⊢
        rw [hD, a3, hF]

theorem entry_rows_length_le (entries : List (Int × Mapped)) (L : Nat)
    (h : ∀ e ∈ entries, e.2.rows.length ≤ L) (e : Nat) :
    (entry_rows entries e).length ≤ L := by
  unfold entry_rows
  rw [List.length_map, List.getD_eq_getElem?_getD]
  cases hq : entries[e]? with
  | none => exact Nat.zero_le _
  | some x =>
    obtain ⟨hlt, hx⟩ := List.getElem?_eq_some.mp hq
    exact h x (hx ▸ List.getElem_mem hlt)

/-- A call that is not refused is the call of `do_process`. -/
theorem process_run (cfg : Config) (conj : OtherConjuncts) (probe : ProbeBatch)
    (probe_rows : Nat) (s : ProbeState) (b : Block)
    (hrun : cfg.with_other_conjuncts = true →
      s.hash_table.kind = RowRefKind.RowRefListWithFlags) :
    process cfg conj probe probe_rows s b = do_process cfg conj probe probe_rows s := by
  cases ho : cfg.with_other_conjuncts
  · exact process_eq_do_process cfg conj probe probe_rows s b ho
  · exact process_other_eq cfg conj probe probe_rows s b (hrun ho)

/-- One call that runs, on a batch that is not exhausted, lowers the bound on the calls
left, and keeps what the bound rests on. -/
theorem process_calls_left (cfg : Config) (conj : OtherConjuncts) (probe : ProbeBatch)
    (probe_rows L : Nat) (s : ProbeState) (b : Block) (hb : 1 ≤ cfg.batch_size)
    (hrun : cfg.with_other_conjuncts = true →
      s.hash_table.kind = RowRefKind.RowRefListWithFlags)
    (hw : s.probe_index + s.probe_row_match_iter.ok.toNat ≤ probe_rows)
    (hL : ∀ e, (entry_rows s.hash_table.entries e).length ≤ L)
    (hr : s.probe_row_match_iter.rest.length ≤ L)
    (hex : batch_exhausted probe_rows s = false) :
    let r := process cfg conj probe probe_rows s b
    r.2.1.hash_table.kind = s.hash_table.kind ∧
    r.2.1.probe_index + r.2.1.probe_row_match_iter.ok.toNat ≤ probe_rows ∧
    (∀ e, (entry_rows r.2.1.hash_table.entries e).length ≤ L) ∧
    r.2.1.probe_row_match_iter.rest.length ≤ L ∧
    calls_left probe_rows L r.2.1 < calls_left probe_rows L s := by
  intro r
  have hr' : r = do_process cfg conj probe probe_rows s :=
    process_run cfg conj probe probe_rows s b hrun
  obtain ⟨i1, i2, i3⟩ := do_process_iter cfg conj probe probe_rows s
  obtain ⟨k1, k2⟩ := do_probe_rest_le cfg probe probe_rows s L hL hr
  have hwi := do_probe_within cfg probe probe_rows s hw
  have hne : s.probe_index < probe_rows ∨ s.probe_row_match_iter.ok = true := by
    cases hok : s.probe_row_match_iter.ok
    · left
      rw [hok] at hw
      simp only [Bool.toNat_false, Nat.add_zero] at hw
      have : s.probe_index ≠ probe_rows := by
        intro h
        have := (batch_exhausted_iff probe_rows s).mpr ⟨h, hok⟩
        rw [hex] at this; cases this
      omega
    · right; rfl
  have hp := do_probe_progress cfg probe probe_rows s hb hne
  rw [hr', i1, i2]
  refine ⟨do_process_kind cfg conj probe probe_rows s, hwi, ?_, k2, ?_⟩
  · intro e
    rw [entry_rows_of_skeleton _ _ (i3.trans k1) e]
    exact hL e
  · unfold calls_left
    rw [i1, i2]
    rcases hp with h | ⟨h1, h2⟩
    · have hm := Nat.mul_le_mul_right (L + 1) (Nat.succ_le_of_lt h)
      rw [Nat.succ_mul] at hm
      omega
    · rw [h1]
      omega

/-- Repeated calls that run reach the end of the probe batch: `calls_left` calls are
enough. -/
theorem process_until_exhausted_reached (cfg : Config) (conj : OtherConjuncts)
    (probe : ProbeBatch) (probe_rows L : Nat) (hb : 1 ≤ cfg.batch_size) :
    ∀ (fuel : Nat) (s : ProbeState),
      (cfg.with_other_conjuncts = true →
        s.hash_table.kind = RowRefKind.RowRefListWithFlags) →
      s.probe_index + s.probe_row_match_iter.ok.toNat ≤ probe_rows →
      (∀ e, (entry_rows s.hash_table.entries e).length ≤ L) →
      s.probe_row_match_iter.rest.length ≤ L →
      calls_left probe_rows L s ≤ fuel →
      batch_exhausted probe_rows
        (process_until_exhausted cfg conj probe probe_rows fuel s).2 = true := by
  intro fuel
  induction fuel with
  | zero =>
    intro s _ hw _ _ hf
    unfold calls_left at hf
    have h0 : (probe_rows - (s.probe_index + s.probe_row_match_iter.ok.toNat)) * (L + 1) = 0 :=
      by omega
    have h1 : s.probe_row_match_iter.rest.length = 0 := by omega
    have hrest : s.probe_row_match_iter.rest = [] := List.length_eq_zero.mp h1
    have hok : s.probe_row_match_iter.ok = false := (ok_eq_false_iff _).mpr hrest
    rw [hok] at hw h0
    simp only [Bool.toNat_false, Nat.add_zero] at hw h0
    have h2 : probe_rows - s.probe_index = 0 := by
      rcases Nat.mul_eq_zero.mp h0 with h | h
      · exact h
      · omega
    show batch_exhausted probe_rows s = true
    exact (batch_exhausted_iff probe_rows s).mpr ⟨by omega, hok⟩
  | succ n ih =>
    intro s hrun hw hL hr hf
    by_cases hex : batch_exhausted probe_rows s = true
    · simp [process_until_exhausted, hex]
    · have hexf : batch_exhausted probe_rows s = false := by
        cases h : batch_exhausted probe_rows s
        · rfl
        · exact absurd h hex
      obtain ⟨c1, c2, c3, c4, c5⟩ := process_calls_left cfg conj probe probe_rows L s
        Block.empty hb hrun hw hL hr hexf
      simp only [process_until_exhausted, hexf, Bool.false_eq_true, if_false]
      exact ih _ (fun ho => by rw [c1]; exact hrun ho) c2 c3 c4 (by omega)

/-- C36 (as stated, refuted): an INNER call with `batch_size = 2` on a fresh engine, the
one probe row matching a key stored with three build rows. The call is entered with
`probe_index = 0 < 1 = probe_rows` and an empty iterator, so the pair (`probe_rows -
probe_index`, matches left in the suspended iterator) is `(1, 0)`. The call emits two
tuples and suspends the iterator on the third row without advancing `probe_index`: the pair
is `(1, 1)`, which is larger, not smaller, in lexicographic order. -/
theorem C36_counterexample :
    1 ≤ inner_batch_2.batch_size ∧
    rows_nonempty fresh_three_rows.hash_table ∧
    fresh_three_rows.probe_index < 1 ∧
    (process inner_batch_2 (fun _ _ => true) ⟨[7], [false]⟩ 1 fresh_three_rows
      Block.empty).1 = Status.OK ∧
    1 - fresh_three_rows.probe_index = 1 ∧
    fresh_three_rows.probe_row_match_iter.rest.length = 0 ∧
    1 - (process inner_batch_2 (fun _ _ => true) ⟨[7], [false]⟩ 1 fresh_three_rows
      Block.empty).2.1.probe_index = 1 ∧
    (process inner_batch_2 (fun _ _ => true) ⟨[7], [false]⟩ 1 fresh_three_rows
      Block.empty).2.1.probe_row_match_iter.rest.length = 1 ∧
    ¬(1 - (process inner_batch_2 (fun _ _ => true) ⟨[7], [false]⟩ 1 fresh_three_rows
          Block.empty).2.1.probe_index < 1 - fresh_three_rows.probe_index ∨
      (1 - (process inner_batch_2 (fun _ _ => true) ⟨[7], [false]⟩ 1 fresh_three_rows
          Block.empty).2.1.probe_index = 1 - fresh_three_rows.probe_index ∧
        (process inner_batch_2 (fun _ _ => true) ⟨[7], [false]⟩ 1 fresh_three_rows
          Block.empty).2.1.probe_row_match_iter.rest.length <
          fresh_three_rows.probe_row_match_iter.rest.length)) := by
  decide

/-- C36 (amended): progress and termination for `batch_size ≥ 1`, for a call that is not
refused. (1) The probe loop of the call terminates: with the `probe_rows - probe_index`
iterations the call allows, the loop condition is false in the state returned, and allowing
`n` more iterations returns the same state. (2) A call entered with `probe_index <
probe_rows` or with a non-empty suspended iterator strictly decreases, in lexicographic
order, the pair (number of probe rows not yet examined, the probe row of a non-empty
suspended iterator counting as examined; number of matches left in the suspended iterator).
(3) Hence repeated calls on one probe batch reach `probe_index == probe_rows` with no
suspended iterator after finitely many calls: when no row list and no suspended iterator is
longer than `L`, `calls_left probe_rows L s` calls are enough. -/
theorem C36_progress (cfg : Config) (conj : OtherConjuncts) (probe : ProbeBatch)
    (probe_rows L : Nat) (s : ProbeState) (output_block : Block)
    (hb : 1 ≤ cfg.batch_size)
    (hrun : cfg.with_other_conjuncts = true →
      s.hash_table.kind = RowRefKind.RowRefListWithFlags) :
    (∀ n, probe_loop cfg probe probe_rows
        (probe_rows - (resume_probe cfg s).probe_index + n) (resume_probe cfg s) =
      probe_loop cfg probe probe_rows
        (probe_rows - (resume_probe cfg s).probe_index) (resume_probe cfg s)) ∧
    ¬((do_probe cfg probe probe_rows s).current_offset < cfg.batch_size ∧
      (do_probe cfg probe probe_rows s).probe_index < probe_rows) ∧
    ((s.probe_index < probe_rows ∨ s.probe_row_match_iter.ok = true) →
      (probe_rows -
          ((process cfg conj probe probe_rows s output_block).2.1.probe_index +
            (process cfg conj probe probe_rows s
              output_block).2.1.probe_row_match_iter.ok.toNat) <
        probe_rows - (s.probe_index + s.probe_row_match_iter.ok.toNat) ∨
      (probe_rows -
          ((process cfg conj probe probe_rows s output_block).2.1.probe_index +
            (process cfg conj probe probe_rows s
              output_block).2.1.probe_row_match_iter.ok.toNat) =
        probe_rows - (s.probe_index + s.probe_row_match_iter.ok.toNat) ∧
        (process cfg conj probe probe_rows s
            output_block).2.1.probe_row_match_iter.rest.length <
          s.probe_row_match_iter.rest.length))) ∧
    (s.probe_index + s.probe_row_match_iter.ok.toNat ≤ probe_rows →
      (∀ e ∈ s.hash_table.entries, e.2.rows.length ≤ L) →
      s.probe_row_match_iter.rest.length ≤ L →
      ∀ fuel, calls_left probe_rows L s ≤ fuel →
        batch_exhausted probe_rows
          (process_until_exhausted cfg conj probe probe_rows fuel s).2 = true) := by
  obtain ⟨-, hex, -⟩ := do_probe_inv cfg probe probe_rows s
  refine ⟨fun n => probe_loop_fuel_stable cfg probe probe_rows _ n _ hex, hex, ?_, ?_⟩
  · intro hw
    obtain ⟨i1, i2, -⟩ := do_process_iter cfg conj probe probe_rows s
    rw [process_run cfg conj probe probe_rows s output_block hrun, i1, i2]
    exact do_probe_progress cfg probe probe_rows s hb hw
  · intro hw hL hr fuel hf
    exact process_until_exhausted_reached cfg conj probe probe_rows L hb fuel s hrun hw
      (entry_rows_length_le _ L hL) hr hf

theorem C36_progress_witness :
    1 ≤ inner_batch_2.batch_size ∧
    (inner_batch_2.with_other_conjuncts = true →
      fresh_three_rows.hash_table.kind = RowRefKind.RowRefListWithFlags) ∧
    calls_left 1 3 fresh_three_rows = 4 ∧
    (process_until_exhausted inner_batch_2 (fun _ _ => true) ⟨[7], [false]⟩ 1 4
      fresh_three_rows).1.map Block.build =
      [[⟨0, 0⟩, ⟨0, 1⟩], [⟨0, 2⟩]] ∧
    ((∀ n, probe_loop inner_batch_2 ⟨[7], [false]⟩ 1
        (1 - (resume_probe inner_batch_2 fresh_three_rows).probe_index + n)
        (resume_probe inner_batch_2 fresh_three_rows) =
      probe_loop inner_batch_2 ⟨[7], [false]⟩ 1
        (1 - (resume_probe inner_batch_2 fresh_three_rows).probe_index)
        (resume_probe inner_batch_2 fresh_three_rows)) ∧
    ¬((do_probe inner_batch_2 ⟨[7], [false]⟩ 1 fresh_three_rows).current_offset <
        inner_batch_2.batch_size ∧
      (do_probe inner_batch_2 ⟨[7], [false]⟩ 1 fresh_three_rows).probe_index < 1) ∧
    ((fresh_three_rows.probe_index < 1 ∨ fresh_three_rows.probe_row_match_iter.ok = true) →
      (1 -
          ((process inner_batch_2 (fun _ _ => true) ⟨[7], [false]⟩ 1 fresh_three_rows
              Block.empty).2.1.probe_index +
            (process inner_batch_2 (fun _ _ => true) ⟨[7], [false]⟩ 1 fresh_three_rows
              Block.empty).2.1.probe_row_match_iter.ok.toNat) <
        1 - (fresh_three_rows.probe_index +
          fresh_three_rows.probe_row_match_iter.ok.toNat) ∨
      (1 -
          ((process inner_batch_2 (fun _ _ => true) ⟨[7], [false]⟩ 1 fresh_three_rows
              Block.empty).2.1.probe_index +
            (process inner_batch_2 (fun _ _ => true) ⟨[7], [false]⟩ 1 fresh_three_rows
              Block.empty).2.1.probe_row_match_iter.ok.toNat) =
        1 - (fresh_three_rows.probe_index +
          fresh_three_rows.probe_row_match_iter.ok.toNat) ∧
        (process inner_batch_2 (fun _ _ => true) ⟨[7], [false]⟩ 1 fresh_three_rows
            Block.empty).2.1.probe_row_match_iter.rest.length <
          fresh_three_rows.probe_row_match_iter.rest.length))) ∧
    (fresh_three_rows.probe_index + fresh_three_rows.probe_row_match_iter.ok.toNat ≤ 1 →
      (∀ e ∈ fresh_three_rows.hash_table.entries, e.2.rows.length ≤ 3) →
      fresh_three_rows.probe_row_match_iter.rest.length ≤ 3 →
      ∀ fuel, calls_left 1 3 fresh_three_rows ≤ fuel →
        batch_exhausted 1
          (process_until_exhausted inner_batch_2 (fun _ _ => true) ⟨[7], [false]⟩ 1 fuel
            fresh_three_rows).2 = true)) :=
  ⟨by decide, by decide, by decide, by decide,
    C36_progress inner_batch_2 (fun _ _ => true) ⟨[7], [false]⟩ 1 3 fresh_three_rows
      Block.empty (by decide) (by decide)⟩

/-! ## The gathers of the drain (C34) -/

theorem gather_runs_zero (l : List RowRef) : gather_runs 0 l = [] := by
  cases l <;> rfl

theorem gather_runs_cons (fuel : Nat) (x : RowRef) (xs : List RowRef) :
    gather_runs (fuel + 1) (x :: xs) =
      (x.block_offset,
        (x :: xs.takeWhile (fun y => x.block_offset == y.block_offset)).map RowRef.row_num) ::
      gather_runs fuel (xs.dropWhile (fun y => x.block_offset == y.block_offset)) := by
  simp only [gather_runs, List.takeWhile_cons, List.dropWhile_cons, beq_self_eq_true, if_true]

theorem run_map_eq (b : Int) (l : List RowRef) (h : ∀ y ∈ l, y.block_offset = b) :
    (l.map RowRef.row_num).map (RowRef.mk b) = l := by
  induction l with
  | nil => rfl
  | cons y l ih =>
    have hy := h y (List.mem_cons_self _ _)
    rw [List.map_cons, List.map_cons, ih (fun z hz => h z (List.mem_cons_of_mem _ hz))]
    cases y with
    | mk o r => simp only at hy; rw [hy]

/-- With one iteration allowed per location the grouping loop consumes the whole list: the
runs it gathers, concatenated in order, are the list. -/
theorem gather_runs_concat : ∀ (fuel : Nat) (l : List RowRef), l.length ≤ fuel →
    (gather_runs fuel l).flatMap (fun g => g.2.map (RowRef.mk g.1)) = l := by
  intro fuel
  induction fuel with
  | zero =>
    intro l hl
    have : l = [] := List.length_eq_zero.mp (by omega)
    rw [this]; rfl
  | succ n ih =>
    intro l hl
    cases l with
    | nil => rfl
    | cons x xs =>
      rw [gather_runs_cons, List.flatMap_cons]
      have hlen : (xs.dropWhile (fun y => x.block_offset == y.block_offset)).length ≤ n := by
        have := (List.dropWhile_sublist (fun y => x.block_offset == y.block_offset)
          (l := xs)).length_le
        simp only [List.length_cons] at hl
        omega
      rw [ih _ hlen]
      simp only
      rw [run_map_eq x.block_offset]
      · rw [List.cons_append, List.takeWhile_append_dropWhile]
      · intro y hy
        rcases List.mem_cons.mp hy with h | h
        · rw [h]
        · have := List.mem_takeWhile_imp h
          simp only [beq_iff_eq] at this
          exact this.symm

theorem gather_runs_nonempty : ∀ (fuel : Nat) (l : List RowRef),
    ∀ g ∈ gather_runs fuel l, g.2 ≠ [] := by
  intro fuel
  induction fuel with
  | zero => intro l g hg; rw [gather_runs_zero] at hg; cases hg
  | succ n ih =>
    intro l g hg
    cases l with
    | nil => cases hg
    | cons x xs =>
      rw [gather_runs_cons] at hg
      rcases List.mem_cons.mp hg with h | h
      · rw [h]; simp
      · exact ih _ g h

theorem gather_runs_fst_mem : ∀ (fuel : Nat) (l : List RowRef),
    ∀ g ∈ gather_runs fuel l, ∃ y ∈ l, y.block_offset = g.1 := by
  intro fuel
  induction fuel with
  | zero => intro l g hg; rw [gather_runs_zero] at hg; cases hg
  | succ n ih =>
    intro l g hg
    cases l with
    | nil => cases hg
    | cons x xs =>
      rw [gather_runs_cons] at hg
      rcases List.mem_cons.mp hg with h | h
      · exact ⟨x, List.mem_cons_self _ _, by rw [h]⟩
      · obtain ⟨y, hy, e⟩ := ih _ g h
        exact ⟨y, List.mem_cons_of_mem _
          ((List.dropWhile_sublist _ (l := xs)).subset hy), e⟩

/-- On a list in descending block offset the runs are maximal: the block offsets of the
gathers are strictly decreasing, so that no two gathers read the same block. -/
theorem gather_runs_decreasing : ∀ (fuel : Nat) (l : List RowRef),
    l.Pairwise (fun a b => b.block_offset ≤ a.block_offset) →
    ((gather_runs fuel l).map Prod.fst).Pairwise (fun a b => b < a) := by
  intro fuel
  induction fuel with
  | zero => intro l _; rw [gather_runs_zero]; exact List.Pairwise.nil
  | succ n ih =>
    intro l hs
    cases l with
    | nil => exact List.Pairwise.nil
    | cons x xs =>
      rw [gather_runs_cons, List.map_cons, List.pairwise_cons]
      obtain ⟨hx, hxs⟩ := List.pairwise_cons.mp hs
      have hsub := List.dropWhile_sublist (fun y => x.block_offset == y.block_offset) (l := xs)
      have hrest := hxs.sublist hsub
      refine ⟨?_, ih _ hrest⟩
      intro b hb
      obtain ⟨g, hg, rfl⟩ := List.mem_map.mp hb
      obtain ⟨y, hy, e⟩ := gather_runs_fst_mem n _ g hg
      simp only
      rw [← e]
      -- every location left after the run lies strictly below the run's block offset
      cases hd : xs.dropWhile (fun y => x.block_offset == y.block_offset) with
      | nil => rw [hd] at hy; cases hy
      | cons z zs =>
        have hz : ¬((fun y => x.block_offset == y.block_offset) z = true) := by
          have := List.head_dropWhile_not (fun y => x.block_offset == y.block_offset) xs
            (by rw [hd]; simp)
          simpa [hd] using this
        simp only [beq_iff_eq] at hz
        have hzx : z.block_offset ≤ x.block_offset :=
          hx z (hsub.subset (by rw [hd]; exact List.mem_cons_self _ _))
        have hzlt : z.block_offset < x.block_offset := by omega
        rw [hd] at hy hrest
        rcases List.mem_cons.mp hy with h | h
        · rw [h]; exact hzlt
        · have := (List.pairwise_cons.mp hrest).1 y h
          omega

theorem sort_locs_sorted (locs : List RowRef) :
    (sort_locs locs).Pairwise (fun a b => b.block_offset ≤ a.block_offset) := by
  haveI : IsTotal RowRef (fun a b => b.block_offset ≤ a.block_offset) :=
    ⟨fun a b => le_total b.block_offset a.block_offset⟩
  haveI : IsTrans RowRef (fun a b => b.block_offset ≤ a.block_offset) :=
    ⟨fun a b c hab hbc => le_trans hbc hab⟩
  exact List.sorted_insertionSort (fun a b => b.block_offset ≤ a.block_offset) locs

theorem sort_locs_perm (locs : List RowRef) : (sort_locs locs).Perm locs :=
  List.perm_insertionSort _ locs

/-- The gathers of a drain call on a table with flags, from the locations it registered. -/
theorem drain_gathers (cfg : Config) (n : Nat) (ht : HashTable) (st : DrainState)
    (hk : ht.kind ≠ RowRefKind.RowRefList) :
    (process_data_in_hashtable cfg n ht st).gathers =
      if n > 1 then
        gather_runs (process_data_in_hashtable cfg n ht st).locs.length
          (sort_locs (process_data_in_hashtable cfg n ht st).locs)
      else if n == 1 then
        [(0, (process_data_in_hashtable cfg n ht st).locs.map RowRef.row_num)]
      else [] := by
  have hkb : (ht.kind == RowRefKind.RowRefList) = false := by
    cases hq : ht.kind <;> first | rfl | exact absurd hq hk
  unfold process_data_in_hashtable
  rw [hkb]
  rfl

/-- C34: the gathers of one drain call on a table with flags, `locs` being the (block
offset, row number) pairs the call accumulated. With several build blocks the pairs are
sorted by descending block offset (a permutation of `locs`), and the grouping loop, which
is given one iteration per pair, cuts the sorted list into consecutive non-empty runs: the
runs concatenated are the sorted list, every run holds one block offset, and the block
offsets of consecutive runs strictly decrease, so the runs are maximal and there is exactly
one gather per distinct block offset of `locs`. The pairs gathered are a permutation of
`locs`: none is dropped or duplicated. With a single build block there is one gather, of
block `0`, with the row numbers in accumulation order. -/
theorem C34_drain_gathers (cfg : Config) (build_blocks : Nat) (ht : HashTable)
    (st : DrainState) (hk : ht.kind ≠ RowRefKind.RowRefList) :
    (1 < build_blocks →
      (sort_locs (process_data_in_hashtable cfg build_blocks ht st).locs).Pairwise
        (fun a b => b.block_offset ≤ a.block_offset) ∧
      (sort_locs (process_data_in_hashtable cfg build_blocks ht st).locs).Perm
        (process_data_in_hashtable cfg build_blocks ht st).locs ∧
      (process_data_in_hashtable cfg build_blocks ht st).gathers =
        gather_runs (process_data_in_hashtable cfg build_blocks ht st).locs.length
          (sort_locs (process_data_in_hashtable cfg build_blocks ht st).locs) ∧
      (process_data_in_hashtable cfg build_blocks ht st).gathers.flatMap
          (fun g => g.2.map (RowRef.mk g.1)) =
        sort_locs (process_data_in_hashtable cfg build_blocks ht st).locs ∧
      (∀ g ∈ (process_data_in_hashtable cfg build_blocks ht st).gathers, g.2 ≠ []) ∧
      ((process_data_in_hashtable cfg build_blocks ht st).gathers.map Prod.fst).Pairwise
        (fun a b => b < a) ∧
      ((process_data_in_hashtable cfg build_blocks ht st).gathers.map Prod.fst).Nodup ∧
      (∀ b, b ∈ (process_data_in_hashtable cfg build_blocks ht st).gathers.map Prod.fst ↔
        b ∈ (process_data_in_hashtable cfg build_blocks ht st).locs.map
          RowRef.block_offset) ∧
      ((process_data_in_hashtable cfg build_blocks ht st).gathers.flatMap
          (fun g => g.2.map (RowRef.mk g.1))).Perm
        (process_data_in_hashtable cfg build_blocks ht st).locs) ∧
    (build_blocks = 1 →
      (process_data_in_hashtable cfg build_blocks ht st).gathers =
        [(0, (process_data_in_hashtable cfg build_blocks ht st).locs.map
          RowRef.row_num)]) := by
  have hg := drain_gathers cfg build_blocks ht st hk
  generalize process_data_in_hashtable cfg build_blocks ht st = r at hg ⊢
  refine ⟨fun hn => ?_, fun hn => ?_⟩
  · have hr : r.gathers = gather_runs r.locs.length (sort_locs r.locs) := by
      rw [if_pos hn] at hg
      exact hg
    have hlen : (sort_locs r.locs).length ≤ r.locs.length :=
      Nat.le_of_eq (sort_locs_perm r.locs).length_eq
    have hcat := gather_runs_concat r.locs.length (sort_locs r.locs) hlen
    have hdec := gather_runs_decreasing r.locs.length (sort_locs r.locs)
      (sort_locs_sorted r.locs)
    rw [← hr] at hcat hdec
    refine ⟨sort_locs_sorted r.locs, sort_locs_perm r.locs, hr, hcat, ?_, hdec, ?_, ?_, ?_⟩
    · rw [hr]
      exact gather_runs_nonempty _ _
    · exact hdec.imp (fun h => (ne_of_lt h).symm)
    · intro b
      constructor
      · intro hb
        obtain ⟨g, hg1, rfl⟩ := List.mem_map.mp hb
        rw [hr] at hg1
        obtain ⟨y, hy, e⟩ := gather_runs_fst_mem _ _ g hg1
        exact List.mem_map.mpr ⟨y, (sort_locs_perm r.locs).subset hy, e⟩
      · intro hb
        obtain ⟨y, hy, rfl⟩ := List.mem_map.mp hb
        have hy2 : y ∈ r.gathers.flatMap (fun g => g.2.map (RowRef.mk g.1)) := by
          rw [hcat]
          exact (sort_locs_perm r.locs).symm.subset hy
        obtain ⟨g, hg1, hg2⟩ := List.mem_flatMap.mp hy2
        obtain ⟨q, -, rfl⟩ := List.mem_map.mp hg2
        exact List.mem_map.mpr ⟨g, hg1, rfl⟩
    · rw [hcat]
      exact sort_locs_perm r.locs
  · rw [hn] at hg
    simpa using hg

theorem C34_drain_gathers_witness :
    build_two_blocks.kind ≠ RowRefKind.RowRefList ∧
    drain_two_blocks.locs = [⟨0, 0⟩, ⟨1, 0⟩, ⟨0, 1⟩, ⟨1, 1⟩] ∧
    drain_two_blocks.gathers = [(1, [0, 1]), (0, [0, 1])] ∧
    ((1 < 2 →
      (sort_locs drain_two_blocks.locs).Pairwise
        (fun a b => b.block_offset ≤ a.block_offset) ∧
      (sort_locs drain_two_blocks.locs).Perm drain_two_blocks.locs ∧
      drain_two_blocks.gathers =
        gather_runs drain_two_blocks.locs.length (sort_locs drain_two_blocks.locs) ∧
      drain_two_blocks.gathers.flatMap (fun g => g.2.map (RowRef.mk g.1)) =
        sort_locs drain_two_blocks.locs ∧
      (∀ g ∈ drain_two_blocks.gathers, g.2 ≠ []) ∧
      (drain_two_blocks.gathers.map Prod.fst).Pairwise (fun a b => b < a) ∧
      (drain_two_blocks.gathers.map Prod.fst).Nodup ∧
      (∀ b, b ∈ drain_two_blocks.gathers.map Prod.fst ↔
        b ∈ drain_two_blocks.locs.map RowRef.block_offset) ∧
      (drain_two_blocks.gathers.flatMap (fun g => g.2.map (RowRef.mk g.1))).Perm
        drain_two_blocks.locs) ∧
    (2 = 1 →
      drain_two_blocks.gathers = [(0, drain_two_blocks.locs.map RowRef.row_num)])) :=
  ⟨by decide, by decide, by decide,
    C34_drain_gathers ⟨TJoinOp.RIGHT_OUTER_JOIN, 8, false, false, false, false⟩ 2
      build_two_blocks DrainState.fresh (by decide)⟩

/-! ## The slots of the reusable key buffer (C33) -/

/-- The buffer arm of `_pre_serialize_key`, field by field: the buffer is allocated anew, in
the cleared arena and with the size of the estimate, exactly when the estimate exceeds the
current buffer size; the keys are the slots with every column serialized into them. -/
theorem pre_serialize_key_buffer_arm (limit : Nat) (cols : List KeyColumn) (key_rows : Nat)
    (st : KeyEncoderState) (keys : List StringRef)
    (h : total_bytes cols key_rows ≤ limit) :
    (pre_serialize_key limit cols key_rows st keys).serialized_keys =
      cols.foldl (fun keys c => serialize_vec c keys key_rows)
        (assign_slots key_rows (max_one_row_byte_size cols) (resize_keys key_rows keys)) ∧
    (pre_serialize_key limit cols key_rows st keys).state.serialized_key_buffer_size =
      (if total_bytes cols key_rows > st.serialized_key_buffer_size then
        total_bytes cols key_rows else st.serialized_key_buffer_size) ∧
    (pre_serialize_key limit cols key_rows st keys).state.serialized_key_buffer =
      (if total_bytes cols key_rows > st.serialized_key_buffer_size then some 0
        else st.serialized_key_buffer) ∧
    (pre_serialize_key limit cols key_rows st keys).state.serialize_key_arena =
      (if total_bytes cols key_rows > st.serialized_key_buffer_size then
        some ⟨[total_bytes cols key_rows]⟩
        else some (st.serialize_key_arena.getD ⟨[]⟩)) ∧
    (pre_serialize_key limit cols key_rows st keys).state.probe_arena_memory_usage =
      (if total_bytes cols key_rows > st.serialized_key_buffer_size then
        st.probe_arena_memory_usage - st.serialized_key_buffer_size +
          total_bytes cols key_rows
        else st.probe_arena_memory_usage) := by
  have hgt : ¬ total_bytes cols key_rows > limit := by omega
  unfold pre_serialize_key
  simp only [if_neg hgt]
  by_cases hb : total_bytes cols key_rows > st.serialized_key_buffer_size
  · simp only [if_pos hb]
    exact ⟨rfl, trivial, rfl, rfl, trivial⟩
  · simp only [if_neg hb]
    refine ⟨?_, ?_, ?_, ?_, ?_⟩ <;>
      first | trivial | rfl | (cases st.serialize_key_arena <;> rfl)

/-- The arena arm of `_pre_serialize_key` leaves the reusable buffer alone. -/
theorem pre_serialize_key_arena_arm (limit : Nat) (cols : List KeyColumn) (key_rows : Nat)
    (st : KeyEncoderState) (keys : List StringRef)
    (h : limit < total_bytes cols key_rows) :
    (pre_serialize_key limit cols key_rows st keys).state.serialized_key_buffer_size =
      st.serialized_key_buffer_size ∧
    (pre_serialize_key limit cols key_rows st keys).state.serialized_key_buffer =
      st.serialized_key_buffer := by
  have hgt : total_bytes cols key_rows > limit := h
  unfold pre_serialize_key
  simp only [if_pos hgt]
  exact ⟨trivial, trivial⟩

/-- One call never shrinks the reusable buffer. -/
theorem pre_serialize_key_size_mono (limit : Nat) (cols : List KeyColumn) (key_rows : Nat)
    (st : KeyEncoderState) (keys : List StringRef) :
    st.serialized_key_buffer_size ≤
      (pre_serialize_key limit cols key_rows st keys).state.serialized_key_buffer_size := by
  by_cases h : total_bytes cols key_rows ≤ limit
  · rw [(pre_serialize_key_buffer_arm limit cols key_rows st keys h).2.1]
    split_ifs <;> omega
  · rw [(pre_serialize_key_arena_arm limit cols key_rows st keys (by omega)).1]

/-- Over any sequence of calls the reusable buffer never shrinks. -/
theorem pre_serialize_key_calls_size_mono (limit : Nat) :
    ∀ (calls : List (List KeyColumn × Nat)) (st : KeyEncoderState) (keys : List StringRef),
      st.serialized_key_buffer_size ≤
        (pre_serialize_key_calls limit calls st keys).1.serialized_key_buffer_size := by
  intro calls
  induction calls with
  | nil => intro st keys; exact Nat.le_refl _
  | cons c cs ih =>
    intro st keys
    simp only [pre_serialize_key_calls]
    exact Nat.le_trans (pre_serialize_key_size_mono limit c.1 c.2 st keys) (ih _ _)

/-- The slots before any column is serialized: slot `i` is at `i * max_one_row` (in
`size_t`) with length 0. -/
theorem assign_slots_getElem? (key_rows m : Nat) (keys : List StringRef)
    (hlen : key_rows ≤ keys.length) (i : Nat) (hi : i < key_rows) :
    (assign_slots key_rows m keys)[i]? = some ⟨KeyLoc.buffer ((i * m) % size_t_mod), 0⟩ := by
  unfold assign_slots
  rw [foldl_set_getElem? (fun i => (⟨KeyLoc.buffer ((i * m) % size_t_mod), 0⟩ : StringRef)),
    if_pos ⟨List.mem_range.mpr hi, by omega⟩]

theorem assign_slots_length (key_rows m : Nat) (keys : List StringRef) :
    (assign_slots key_rows m keys).length = keys.length := by
  unfold assign_slots
  exact foldl_set_length
    (fun i => (⟨KeyLoc.buffer ((i * m) % size_t_mod), 0⟩ : StringRef)) _ _

/-- Without `size_t` overflow of the estimate, the computed row stride is the sum of the
columns' max row byte sizes, the estimate is the exact product, and no slot offset wraps. -/
theorem slots_exact (cols : List KeyColumn) (key_rows : Nat)
    (hnw : (cols.map KeyColumn.max_row_byte_size).sum * key_rows < size_t_mod) :
    total_bytes cols key_rows = key_rows * max_one_row_byte_size cols ∧
    (0 < key_rows →
      max_one_row_byte_size cols = (cols.map KeyColumn.max_row_byte_size).sum) ∧
    ∀ i, i < key_rows →
      (i * max_one_row_byte_size cols) % size_t_mod = i * max_one_row_byte_size cols := by
  have hm : 0 < key_rows →
      max_one_row_byte_size cols = (cols.map KeyColumn.max_row_byte_size).sum := by
    intro hk
    have hs : (cols.map KeyColumn.max_row_byte_size).sum < size_t_mod :=
      Nat.lt_of_le_of_lt (Nat.le_mul_of_pos_right _ hk) hnw
    unfold max_one_row_byte_size
    rw [max_one_row_fold_exact cols 0 (by omega), Nat.zero_add]
  refine ⟨?_, hm, ?_⟩
  · by_cases hk : 0 < key_rows
    · rw [total_bytes_exact cols key_rows hnw hk, hm hk]
    · have h0 : key_rows = 0 := by omega
      rw [h0, total_bytes_zero_rows, Nat.zero_mul]
  · intro i hi
    have hk : 0 < key_rows := by omega
    rw [hm hk]
    apply Nat.mod_eq_of_lt
    have : i * (cols.map KeyColumn.max_row_byte_size).sum ≤
        key_rows * (cols.map KeyColumn.max_row_byte_size).sum :=
      Nat.mul_le_mul_right _ (by omega)
    rw [Nat.mul_comm key_rows] at this
    omega

/-- The keys the buffer arm returns: slot `i` keeps its place and holds the serializations
of row `i` of every key column. -/
theorem pre_serialize_key_slots (limit : Nat) (cols : List KeyColumn) (key_rows : Nat)
    (st : KeyEncoderState) (keys : List StringRef)
    (hbuf : total_bytes cols key_rows ≤ limit)
    (hnw : (cols.map KeyColumn.max_row_byte_size).sum * key_rows < size_t_mod)
    (i : Nat) (hi : i < key_rows) :
    (pre_serialize_key limit cols key_rows st keys).serialized_keys[i]? =
      some ⟨KeyLoc.buffer (i * max_one_row_byte_size cols),
        (cols.map fun c => c.row_byte_size.getD i 0).sum⟩ := by
  obtain ⟨-, -, e3⟩ := slots_exact cols key_rows hnw
  obtain ⟨b1, -⟩ := pre_serialize_key_buffer_arm limit cols key_rows st keys hbuf
  have hlen : key_rows ≤ (resize_keys key_rows keys).length := resize_keys_length keys key_rows
  rw [b1, (serialize_cols_getElem? key_rows cols _).2 i hi,
    assign_slots_getElem? key_rows _ _ hlen i hi, e3 i hi]
  simp

/-- C33: a `_pre_serialize_key` call that takes the reusable-buffer arm (`total_bytes` at
most the limit), the estimate `key_rows` times the sum of the columns' max row byte sizes
not overflowing `size_t`. With `max_one_row_byte_size` the row stride the code computes
(the sum of the max row byte sizes when there is a row): the buffer size after the call is
at least `key_rows * max_one_row_byte_size`; before any column is serialized, slot `i` (for
`i < key_rows`) starts `i * max_one_row_byte_size` bytes into the buffer with recorded
length 0, and the keys returned are these slots with every column serialized into them,
each slot at its place; any two of the `key_rows` slots are a full stride apart, so they
are pairwise disjoint, and every slot ends inside the buffer; when every row of a column
takes at most the column's max row byte size, the bytes recorded in a slot fit the stride.
The buffer is reallocated (a single allocation of `total_bytes` bytes in the cleared arena)
exactly when `total_bytes` exceeds the current buffer size and is left as it is otherwise;
the call does not decrease the buffer size, and over any sequence of calls, whatever arm
they take, the buffer size never decreases. -/
theorem C33_bounded_buffer_slots (limit : Nat) (cols : List KeyColumn) (key_rows : Nat)
    (st : KeyEncoderState) (keys : List StringRef)
    (hbuf : total_bytes cols key_rows ≤ limit)
    (hnw : (cols.map KeyColumn.max_row_byte_size).sum * key_rows < size_t_mod) :
    (pre_serialize_key limit cols key_rows st keys).strategy = KeyStrategy.bounded_buffer ∧
    (0 < key_rows →
      max_one_row_byte_size cols = (cols.map KeyColumn.max_row_byte_size).sum) ∧
    key_rows * max_one_row_byte_size cols ≤
      (pre_serialize_key limit cols key_rows st keys).state.serialized_key_buffer_size ∧
    (pre_serialize_key limit cols key_rows st keys).serialized_keys =
      cols.foldl (fun keys c => serialize_vec c keys key_rows)
        (assign_slots key_rows (max_one_row_byte_size cols) (resize_keys key_rows keys)) ∧
    (∀ i, i < key_rows →
      (assign_slots key_rows (max_one_row_byte_size cols) (resize_keys key_rows keys))[i]? =
        some ⟨KeyLoc.buffer (i * max_one_row_byte_size cols), 0⟩) ∧
    (∀ i, i < key_rows →
      (pre_serialize_key limit cols key_rows st keys).serialized_keys[i]? =
        some ⟨KeyLoc.buffer (i * max_one_row_byte_size cols),
          (cols.map fun c => c.row_byte_size.getD i 0).sum⟩) ∧
    (∀ i j oi oj ni nj, i < j → j < key_rows →
      (pre_serialize_key limit cols key_rows st keys).serialized_keys[i]? =
        some ⟨KeyLoc.buffer oi, ni⟩ →
      (pre_serialize_key limit cols key_rows st keys).serialized_keys[j]? =
        some ⟨KeyLoc.buffer oj, nj⟩ →
      oi + max_one_row_byte_size cols ≤ oj) ∧
    (∀ i oi ni, i < key_rows →
      (pre_serialize_key limit cols key_rows st keys).serialized_keys[i]? =
        some ⟨KeyLoc.buffer oi, ni⟩ →
      oi + max_one_row_byte_size cols ≤
        (pre_serialize_key limit cols key_rows st keys).state.serialized_key_buffer_size) ∧
    ((∀ c ∈ cols, ∀ i, c.row_byte_size.getD i 0 ≤ c.max_row_byte_size) →
      ∀ i, i < key_rows →
        (cols.map fun c => c.row_byte_size.getD i 0).sum ≤ max_one_row_byte_size cols) ∧
    (total_bytes cols key_rows ≤ st.serialized_key_buffer_size →
      (pre_serialize_key limit cols key_rows st keys).state.serialized_key_buffer_size =
        st.serialized_key_buffer_size ∧
      (pre_serialize_key limit cols key_rows st keys).state.serialized_key_buffer =
        st.serialized_key_buffer ∧
      (pre_serialize_key limit cols key_rows st keys).state.serialize_key_arena =
        some (st.serialize_key_arena.getD ⟨[]⟩)) ∧
    (st.serialized_key_buffer_size < total_bytes cols key_rows →
      (pre_serialize_key limit cols key_rows st keys).state.serialized_key_buffer_size =
        total_bytes cols key_rows ∧
      (pre_serialize_key limit cols key_rows st keys).state.serialized_key_buffer = some 0 ∧
      (pre_serialize_key limit cols key_rows st keys).state.serialize_key_arena =
        some ⟨[total_bytes cols key_rows]⟩) ∧
    st.serialized_key_buffer_size ≤
      (pre_serialize_key limit cols key_rows st keys).state.serialized_key_buffer_size ∧
    ∀ (calls : List (List KeyColumn × Nat)) (st0 : KeyEncoderState) (keys0 : List StringRef),
      st0.serialized_key_buffer_size ≤
        (pre_serialize_key_calls limit calls st0 keys0).1.serialized_key_buffer_size := by
  obtain ⟨e1, e2, e3⟩ := slots_exact cols key_rows hnw
  obtain ⟨b1, b2, b3, b4, -⟩ := pre_serialize_key_buffer_arm limit cols key_rows st keys hbuf
  have hslot := pre_serialize_key_slots limit cols key_rows st keys hbuf hnw
  have hsize : key_rows * max_one_row_byte_size cols ≤
      (pre_serialize_key limit cols key_rows st keys).state.serialized_key_buffer_size := by
    rw [b2, ← e1]
    split_ifs <;> omega
  have hlen : key_rows ≤ (resize_keys key_rows keys).length := resize_keys_length keys key_rows
  refine ⟨?_, e2, hsize, b1, ?_, hslot, ?_, ?_, ?_, ?_, ?_,
    pre_serialize_key_size_mono limit cols key_rows st keys,
    pre_serialize_key_calls_size_mono limit⟩
  · have hgt : ¬ total_bytes cols key_rows > limit := by omega
    unfold pre_serialize_key
    simp only [if_neg hgt]
  · intro i hi
    rw [assign_slots_getElem? key_rows _ _ hlen i hi, e3 i hi]
  · intro i j oi oj ni nj hij hj hi1 hj1
    rw [hslot i (by omega)] at hi1
    rw [hslot j hj] at hj1
    have ho1 : i * max_one_row_byte_size cols = oi := by
      have := Option.some.inj hi1
      injection this with h1 h2
      injection h1
    have ho2 : j * max_one_row_byte_size cols = oj := by
      have := Option.some.inj hj1
      injection this with h1 h2
      injection h1
    rw [← ho1, ← ho2]
    have := Nat.mul_le_mul_right (max_one_row_byte_size cols) (Nat.succ_le_of_lt hij)
    rw [Nat.succ_mul] at this
    exact this
  · intro i oi ni hi hi1
    rw [hslot i hi] at hi1
    have ho1 : i * max_one_row_byte_size cols = oi := by
      have := Option.some.inj hi1
      injection this with h1 h2
      injection h1
    rw [← ho1]
    have := Nat.mul_le_mul_right (max_one_row_byte_size cols) (Nat.succ_le_of_lt hi)
    rw [Nat.succ_mul] at this
    omega
  · intro hc i hi
    rw [e2 (by omega)]
    exact List.sum_le_sum (fun c hcm => hc c hcm i)
  · intro h
    have hb : ¬ total_bytes cols key_rows > st.serialized_key_buffer_size := by omega
    rw [b2, b3, b4, if_neg hb, if_neg hb, if_neg hb]
    exact ⟨rfl, rfl, rfl⟩
  · intro h
    have hb : total_bytes cols key_rows > st.serialized_key_buffer_size := h
    rw [b2, b3, b4, if_pos hb, if_pos hb, if_pos hb]
    exact ⟨rfl, rfl, rfl⟩

theorem C33_bounded_buffer_slots_witness :
    total_bytes two_key_columns 2 ≤ 100 ∧
    (two_key_columns.map KeyColumn.max_row_byte_size).sum * 2 < size_t_mod ∧
    two_rows_call.serialized_keys = [⟨KeyLoc.buffer 0, 4⟩, ⟨KeyLoc.buffer 12, 7⟩] ∧
    two_rows_call.state.serialized_key_buffer_size = 24 ∧
    (two_rows_call.strategy = KeyStrategy.bounded_buffer ∧
    (0 < 2 →
      max_one_row_byte_size two_key_columns =
        (two_key_columns.map KeyColumn.max_row_byte_size).sum) ∧
    2 * max_one_row_byte_size two_key_columns ≤
      two_rows_call.state.serialized_key_buffer_size ∧
    two_rows_call.serialized_keys =
      two_key_columns.foldl (fun keys c => serialize_vec c keys 2)
        (assign_slots 2 (max_one_row_byte_size two_key_columns) (resize_keys 2 [])) ∧
    (∀ i, i < 2 →
      (assign_slots 2 (max_one_row_byte_size two_key_columns) (resize_keys 2 []))[i]? =
        some ⟨KeyLoc.buffer (i * max_one_row_byte_size two_key_columns), 0⟩) ∧
    (∀ i, i < 2 →
      two_rows_call.serialized_keys[i]? =
        some ⟨KeyLoc.buffer (i * max_one_row_byte_size two_key_columns),
          (two_key_columns.map fun c => c.row_byte_size.getD i 0).sum⟩) ∧
    (∀ i j oi oj ni nj, i < j → j < 2 →
      two_rows_call.serialized_keys[i]? =
        some ⟨KeyLoc.buffer oi, ni⟩ →
      two_rows_call.serialized_keys[j]? =
        some ⟨KeyLoc.buffer oj, nj⟩ →
      oi + max_one_row_byte_size two_key_columns ≤ oj) ∧
    (∀ i oi ni, i < 2 →
      two_rows_call.serialized_keys[i]? =
        some ⟨KeyLoc.buffer oi, ni⟩ →
      oi + max_one_row_byte_size two_key_columns ≤
        two_rows_call.state.serialized_key_buffer_size) ∧
    ((∀ c ∈ two_key_columns, ∀ i, c.row_byte_size.getD i 0 ≤ c.max_row_byte_size) →
      ∀ i, i < 2 →
        (two_key_columns.map fun c => c.row_byte_size.getD i 0).sum ≤
          max_one_row_byte_size two_key_columns) ∧
    (total_bytes two_key_columns 2 ≤ encoder_fresh.serialized_key_buffer_size →
      two_rows_call.state.serialized_key_buffer_size =
        encoder_fresh.serialized_key_buffer_size ∧
      two_rows_call.state.serialized_key_buffer =
        encoder_fresh.serialized_key_buffer ∧
      two_rows_call.state.serialize_key_arena =
        some (encoder_fresh.serialize_key_arena.getD ⟨[]⟩)) ∧
    (encoder_fresh.serialized_key_buffer_size < total_bytes two_key_columns 2 →
      two_rows_call.state.serialized_key_buffer_size =
        total_bytes two_key_columns 2 ∧
      two_rows_call.state.serialized_key_buffer = some 0 ∧
      two_rows_call.state.serialize_key_arena =
        some ⟨[total_bytes two_key_columns 2]⟩) ∧
    encoder_fresh.serialized_key_buffer_size ≤
      two_rows_call.state.serialized_key_buffer_size ∧
    ∀ (calls : List (List KeyColumn × Nat)) (st0 : KeyEncoderState) (keys0 : List StringRef),
      st0.serialized_key_buffer_size ≤
        (pre_serialize_key_calls 100 calls st0 keys0).1.serialized_key_buffer_size) :=
  ⟨by decide, by decide, by decide, by decide,
    C33_bounded_buffer_slots 100 two_key_columns 2 encoder_fresh [] (by decide) (by decide)⟩

/-! ## The three padding tests agree (C38) -/

theorem coords_nonneg_entry_rows (ht : HashTable) (h : coords_nonneg ht) (e : Nat)
    (r : RowRef) (hr : r ∈ entry_rows ht.entries e) :
    0 ≤ r.block_offset ∧ 0 ≤ r.row_num := by
  obtain ⟨en, hen, x, hx, rfl⟩ := entry_rows_mem ht.entries e r hr
  exact h en hen x hx

/-- Appending cells that satisfy `PadInv` to equally long scratch vectors keeps it. -/
theorem pad_inv_append (cfg : Config) (s s' : ProbeState) (A B : List Int)
    (V : List (Option (Nat × Nat)))
    (hP : PadInv cfg s)
    (hl : s.build_block_offsets.length = s.build_block_rows.length)
    (hv : cfg.with_other_conjuncts = true → s.build_block_rows.length = s.visited_map.length)
    (g1 : s'.build_block_offsets = s.build_block_offsets ++ A)
    (g2 : s'.build_block_rows = s.build_block_rows ++ B)
    (g3 : cfg.with_other_conjuncts = true → s'.visited_map = s.visited_map ++ V)
    (hA : ∀ x ∈ List.zip A B, (x.1 = -1 ∧ x.2 = -1) ∨ (0 ≤ x.1 ∧ 0 ≤ x.2))
    (hB : cfg.with_other_conjuncts = true → ∀ x ∈ List.zip B V,
      (x.1 = -1 ∧ x.2 = none) ∨ (0 ≤ x.1 ∧ x.2.isSome = true)) :
    PadInv cfg s' := by
  obtain ⟨p1, p2⟩ := hP
  refine ⟨?_, fun ho => ?_⟩
  · rw [g1, g2, List.zip_append hl]
    intro x hx
    rcases List.mem_append.mp hx with h | h
    · exact p1 x h
    · exact hA x h
  · rw [g2, g3 ho, List.zip_append (hv ho)]
    intro x hx
    rcases List.mem_append.mp hx with h | h
    · exact p2 ho x h
    · exact hB ho x h

theorem pad_cells_rows (R : List RowRef) (k : Nat) (e : Nat)
    (hR : ∀ r ∈ R, 0 ≤ r.block_offset ∧ 0 ≤ r.row_num) (p0 : Nat) :
    (∀ x ∈ List.zip ((R.take k).map RowRef.block_offset) ((R.take k).map RowRef.row_num),
      (x.1 = -1 ∧ x.2 = -1) ∨ (0 ≤ x.1 ∧ 0 ≤ x.2)) ∧
    (∀ n, ∀ x ∈ List.zip ((R.take k).map RowRef.row_num)
        ((List.range' p0 n).map (fun p => some (e, p))),
      (x.1 = -1 ∧ x.2 = none) ∨ (0 ≤ x.1 ∧ x.2.isSome = true)) := by
  constructor
  · intro x hx
    obtain ⟨h1, h2⟩ := List.of_mem_zip hx
    obtain ⟨r1, hr1, e1⟩ := List.mem_map.mp h1
    obtain ⟨r2, hr2, e2⟩ := List.mem_map.mp h2
    right
    rw [← e1, ← e2]
    exact ⟨(hR r1 (List.mem_of_mem_take hr1)).1, (hR r2 (List.mem_of_mem_take hr2)).2⟩
  · intro n x hx
    obtain ⟨h1, h2⟩ := List.of_mem_zip hx
    obtain ⟨r1, hr1, e1⟩ := List.mem_map.mp h1
    obtain ⟨q, -, e2⟩ := List.mem_map.mp h2
    right
    rw [← e1, ← e2]
    exact ⟨(hR r1 (List.mem_of_mem_take hr1)).2, rfl⟩

theorem pad_cells_padding :
    (∀ x ∈ List.zip [(-1 : Int)] [(-1 : Int)],
      (x.1 = -1 ∧ x.2 = -1) ∨ (0 ≤ x.1 ∧ 0 ≤ x.2)) ∧
    (∀ x ∈ List.zip [(-1 : Int)] [(none : Option (Nat × Nat))],
      (x.1 = -1 ∧ x.2 = none) ∨ (0 ≤ x.1 ∧ x.2.isSome = true)) := by
  constructor <;> intro x hx <;> simp at hx <;> subst hx <;> left <;> exact ⟨rfl, rfl⟩

theorem pad_cells_nil :
    (∀ x ∈ List.zip ([] : List Int) ([] : List Int),
      (x.1 = -1 ∧ x.2 = -1) ∨ (0 ≤ x.1 ∧ 0 ≤ x.2)) ∧
    (∀ x ∈ List.zip ([] : List Int) ([] : List (Option (Nat × Nat))),
      (x.1 = -1 ∧ x.2 = none) ∨ (0 ≤ x.1 ∧ x.2.isSome = true)) := by
  constructor <;> intro x hx <;> simp at hx

/-- One loop iteration keeps `PadInv`, on a table with non-negative coordinates. -/
theorem probe_step_pad_inv (cfg : Config) (probe : ProbeBatch) (s : ProbeState)
    (hT : ∀ e r, r ∈ entry_rows s.hash_table.entries e →
      0 ≤ r.block_offset ∧ 0 ≤ r.row_num)
    (hB : BuildLen cfg s) (hS : cfg.with_other_conjuncts = true → ScratchLen s)
    (hP : PadInv cfg s) : PadInv cfg (probe_step cfg probe s) := by
  have hl := hB.1
  have hv : cfg.with_other_conjuncts = true →
      s.build_block_rows.length = s.visited_map.length := by
    intro ho
    obtain ⟨-, s2, s3⟩ := hS ho
    omega
  unfold probe_step
  split_ifs with hn
  · unfold null_key_branch
    cases hp : probe_all cfg.JoinOpType
    · exact pad_inv_append cfg s _ [] [] [] hP hl hv (by simp) (by simp)
        (fun ho => by simp) pad_cells_nil.1 (fun _ => pad_cells_nil.2)
    · exact pad_inv_append cfg s _ [-1] [-1] [none] hP hl hv
        (by simp [emplace_element]; split_ifs <;> rfl)
        (by simp [emplace_element]; split_ifs <;> rfl)
        (fun ho => by simp [emplace_element, ho])
        pad_cells_padding.1 (fun _ => pad_cells_padding.2)
  · have hfin : ∀ (i : Nat) (t : ProbeState), PadInv cfg t → PadInv cfg (finish_step i t) :=
      fun _ _ h => h
    apply hfin
    unfold dispatch
    split_ifs with hs
    · have hx : cfg.with_other_conjuncts = false := by
        simp only [Bool.and_eq_true, Bool.not_eq_true'] at hs
        exact hs.1
      refine pad_inv_append cfg s _ [] [] [] hP hl hv ?_ ?_ (fun ho => ?_)
        pad_cells_nil.1 (fun _ => pad_cells_nil.2)
      · unfold semi_anti_branch; split_ifs <;> simp
      · unfold semi_anti_branch; split_ifs <;> simp
      · rw [hx] at ho; cases ho
    · cases hf : find_result cfg probe s.hash_table.entries s.probe_index with
      | none =>
        simp only
        unfold not_found_branch
        split_ifs with h1 h2
        · exact pad_inv_append cfg s _ [-1] [-1] [none] hP hl hv
            (by simp [emplace_element]) (by simp [emplace_element])
            (fun ho => by simp [emplace_element]) pad_cells_padding.1
            (fun _ => pad_cells_padding.2)
        · exact pad_inv_append cfg s _ [-1] [-1] [none] hP hl hv
            (by simp [emplace_element]) (by simp [emplace_element])
            (fun ho => absurd ho h2) pad_cells_padding.1
            (fun _ => pad_cells_padding.2)
        · exact pad_inv_append cfg s _ [] [] [] hP hl hv (by simp) (by simp)
            (fun ho => by simp) pad_cells_nil.1 (fun _ => pad_cells_nil.2)
      | some e =>
        simp only
        obtain ⟨f1, f2, -, f4, -⟩ := found_branch_fields cfg e
          ((s.hash_table.entries.getD e (0, ⟨[], false⟩)).2) s
        obtain ⟨c1, c2⟩ := pad_cells_rows
          ((s.hash_table.entries.getD e (0, ⟨[], false⟩)).2.rows.map Prod.fst)
          (if (cfg.is_mark_join && cfg.with_other_conjuncts) = true then
            ((s.hash_table.entries.getD e (0, ⟨[], false⟩)).2.rows.map Prod.fst).length
          else if (!(cfg.is_mark_join && cfg.with_other_conjuncts) &&
              (cfg.with_other_conjuncts || !is_right_semi_anti_join cfg.JoinOpType)) = true
            then min (cfg.batch_size - s.current_offset)
              ((s.hash_table.entries.getD e (0, ⟨[], false⟩)).2.rows.map Prod.fst).length
          else 0) e (hT e) 0
        exact pad_inv_append cfg s _ _ _ _ hP hl hv f1 f2
          (fun ho => by rw [f4, if_pos ho]) c1 (fun _ => c2 _)

theorem resume_probe_pad_inv (cfg : Config) (s : ProbeState)
    (hI : ∀ r ∈ s.probe_row_match_iter.rest, 0 ≤ r.block_offset ∧ 0 ≤ r.row_num) :
    PadInv cfg (resume_probe cfg s) := by
  cases hok : s.probe_row_match_iter.ok
  · rw [resume_probe_not_ok cfg s hok]
    refine ⟨?_, fun ho => ?_⟩
    · intro x hx
      simp [init_probe_side] at hx
    · intro x hx
      simp [init_probe_side] at hx
  · obtain ⟨-, -, -, -, -, g6, g7, -⟩ := resume_probe_ok cfg s hok
    obtain ⟨c1, c2⟩ := pad_cells_rows s.probe_row_match_iter.rest
      (min cfg.batch_size s.probe_row_match_iter.rest.length) s.probe_row_match_iter.entry hI
      s.probe_row_match_iter.pos
    refine ⟨?_, fun ho => ?_⟩
    · rw [g6, g7]
      exact c1
    · obtain ⟨o1, -⟩ := resume_probe_ok_other cfg s hok ho
      rw [g7, o1]
      exact c2 _

/-- The scratch vectors after the probe loop, on a table with non-negative coordinates and
from an iterator that stands in the table: every cell is padding or a table row. -/
theorem do_probe_pad_inv (cfg : Config) (probe : ProbeBatch) (probe_rows : Nat)
    (s : ProbeState) (hT : coords_nonneg s.hash_table)
    (hI : ∀ r ∈ s.probe_row_match_iter.rest,
      ∃ e ∈ s.hash_table.entries, r ∈ e.2.rows.map Prod.fst) :
    PadInv cfg (do_probe cfg probe probe_rows s) := by
  have hrows : ∀ e r, r ∈ entry_rows s.hash_table.entries e →
      0 ≤ r.block_offset ∧ 0 ≤ r.row_num := fun e r hr =>
    coords_nonneg_entry_rows s.hash_table hT e r hr
  have key := probe_loop_induct cfg probe probe_rows
    (fun t => LoopInv cfg s.probe_index t ∧
      skeleton t.hash_table.entries = skeleton s.hash_table.entries ∧
      BuildLen cfg t ∧ (cfg.with_other_conjuncts = true → ScratchLen t) ∧ PadInv cfg t)
    (fun t ht hc _ => by
      obtain ⟨hL, hsk, hB, hS, hP⟩ := ht
      have hok : t.probe_row_match_iter.ok = false := by
        cases hk : t.probe_row_match_iter.ok
        · rfl
        · have := hL.2.1 hk; omega
      obtain ⟨i1, -⟩ := probe_step_iter cfg probe t hok hc
      refine ⟨probe_step_inv cfg probe _ t hL hc, i1.trans hsk,
        probe_step_build_len cfg probe t hB,
        fun ho => probe_step_scratch_len cfg probe t ho (hS ho), ?_⟩
      apply probe_step_pad_inv cfg probe t _ hB hS hP
      intro e r hr
      rw [entry_rows_of_skeleton _ _ hsk e] at hr
      exact hrows e r hr)
    (probe_rows - (resume_probe cfg s).probe_index) (resume_probe cfg s) ?_
  · exact key.2.2.2.2
  · refine ⟨resume_probe_inv cfg s, by rw [(resume_probe_ext cfg s).1],
      resume_probe_build_len cfg s, fun ho => resume_probe_scratch_len cfg s ho, ?_⟩
    apply resume_probe_pad_inv
    intro r hr
    obtain ⟨e, he, hm⟩ := hI r hr
    obtain ⟨x, hx, rfl⟩ := List.mem_map.mp hm
    exact hT e he x hx

theorem zip_getD_mem {α β : Type} (l1 : List α) (l2 : List β) (a : α) (b : β) (i : Nat)
    (h1 : i < l1.length) (h2 : i < l2.length) :
    (l1.getD i a, l2.getD i b) ∈ List.zip l1 l2 := by
  rw [List.getD_eq_getElem _ _ h1, List.getD_eq_getElem _ _ h2]
  have hz : i < (List.zip l1 l2).length := by simp; omega
  have := List.getElem_mem hz
  rw [List.getElem_zip] at this
  exact this

/-- C38: the three padding tests agree. On a table whose build row coordinates are all
non-negative, and from a suspended iterator (if any) that stands in a row list of the
table: after the probe loop `build_block_offsets` and `build_block_rows` are equally long
(with other conjuncts `visited_map` too), and for every scratch tuple `i`,
`build_block_offsets[i] == -1` iff `build_block_rows[i] == -1`; with other conjuncts the
`visited_map` entry `i` is null iff tuple `i` is the `(-1, -1)` padding tuple, iff its row
number is `-1`, iff its block offset is `-1`. -/
theorem C38_padding_tests_agree (cfg : Config) (probe : ProbeBatch) (probe_rows : Nat)
    (s : ProbeState) (hT : coords_nonneg s.hash_table)
    (hI : ∀ r ∈ s.probe_row_match_iter.rest,
      ∃ e ∈ s.hash_table.entries, r ∈ e.2.rows.map Prod.fst) :
    (do_probe cfg probe probe_rows s).build_block_offsets.length =
      (do_probe cfg probe probe_rows s).build_block_rows.length ∧
    (cfg.with_other_conjuncts = true →
      (do_probe cfg probe probe_rows s).visited_map.length =
        (do_probe cfg probe probe_rows s).build_block_rows.length) ∧
    ∀ i, i < (do_probe cfg probe probe_rows s).build_block_rows.length →
      ((do_probe cfg probe probe_rows s).build_block_offsets.getD i 0 = -1 ↔
        (do_probe cfg probe probe_rows s).build_block_rows.getD i 0 = -1) ∧
      (cfg.with_other_conjuncts = true →
        ((do_probe cfg probe probe_rows s).visited_map.getD i none = none ↔
          ((do_probe cfg probe probe_rows s).build_block_offsets.getD i 0 = -1 ∧
            (do_probe cfg probe probe_rows s).build_block_rows.getD i 0 = -1)) ∧
        ((do_probe cfg probe probe_rows s).visited_map.getD i none = none ↔
          (do_probe cfg probe probe_rows s).build_block_rows.getD i 0 = -1) ∧
        ((do_probe cfg probe probe_rows s).visited_map.getD i none = none ↔
          (do_probe cfg probe probe_rows s).build_block_offsets.getD i 0 = -1)) := by
  obtain ⟨p1, p2⟩ := do_probe_pad_inv cfg probe probe_rows s hT hI
  obtain ⟨b1, -, -⟩ := do_probe_build_len cfg probe probe_rows s
  have hvl : cfg.with_other_conjuncts = true →
      (do_probe cfg probe probe_rows s).visited_map.length =
        (do_probe cfg probe probe_rows s).build_block_rows.length := by
    intro ho
    obtain ⟨-, s2, s3⟩ := do_probe_scratch_len cfg probe probe_rows s ho
    omega
  generalize do_probe cfg probe probe_rows s = d at p1 p2 b1 hvl ⊢
  refine ⟨b1, hvl, fun i hi => ?_⟩
  have hA := p1 _ (zip_getD_mem d.build_block_offsets d.build_block_rows 0 0 i
    (by omega) hi)
  simp only at hA
  refine ⟨?_, fun ho => ?_⟩
  · rcases hA with ⟨a1, a2⟩ | ⟨a1, a2⟩
    · exact ⟨fun _ => a2, fun _ => a1⟩
    · constructor <;> intro h <;> omega
  · have hB := p2 ho _ (zip_getD_mem d.build_block_rows d.visited_map 0 none i hi
      (by rw [hvl ho]; exact hi))
    simp only at hB
    rcases hB with ⟨c1, c2⟩ | ⟨c1, c2⟩
    · have ho1 : d.build_block_offsets.getD i 0 = -1 := by
        rcases hA with ⟨a1, -⟩ | ⟨-, a2⟩
        · exact a1
        · omega
      exact ⟨⟨fun _ => ⟨ho1, c1⟩, fun _ => c2⟩, ⟨fun _ => c1, fun _ => c2⟩,
        ⟨fun _ => ho1, fun _ => c2⟩⟩
    · have hne : d.visited_map.getD i none ≠ none := by
        intro h
        rw [h] at c2
        cases c2
      have ho1 : d.build_block_offsets.getD i 0 ≠ -1 := by
        rcases hA with ⟨-, a2⟩ | ⟨a1, -⟩
        · omega
        · omega
      have hr1 : d.build_block_rows.getD i 0 ≠ -1 := by omega
      exact ⟨⟨fun h => absurd h hne, fun h => absurd h.1 ho1⟩,
        ⟨fun h => absurd h hne, fun h => absurd h hr1⟩,
        ⟨fun h => absurd h hne, fun h => absurd h ho1⟩⟩

theorem C38_padding_tests_agree_witness :
    coords_nonneg suspended_three_rows.hash_table ∧
    (∀ r ∈ suspended_three_rows.probe_row_match_iter.rest,
      ∃ e ∈ suspended_three_rows.hash_table.entries, r ∈ e.2.rows.map Prod.fst) ∧
    suspended_three_rows.probe_row_match_iter.rest = [⟨0, 2⟩] ∧
    padded_probe.build_block_offsets = [0, -1] ∧
    padded_probe.build_block_rows = [2, -1] ∧
    padded_probe.visited_map = [some (0, 2), none] ∧
    (padded_probe.build_block_offsets.length =
      padded_probe.build_block_rows.length ∧
    (left_outer_other_2.with_other_conjuncts = true →
      padded_probe.visited_map.length =
        padded_probe.build_block_rows.length) ∧
    ∀ i, i < padded_probe.build_block_rows.length →
      (padded_probe.build_block_offsets.getD i 0 = -1 ↔
        padded_probe.build_block_rows.getD i 0 = -1) ∧
      (left_outer_other_2.with_other_conjuncts = true →
        (padded_probe.visited_map.getD i none = none ↔
          (padded_probe.build_block_offsets.getD i 0 = -1 ∧
            padded_probe.build_block_rows.getD i 0 = -1)) ∧
        (padded_probe.visited_map.getD i none = none ↔
          padded_probe.build_block_rows.getD i 0 = -1) ∧
        (padded_probe.visited_map.getD i none = none ↔
          padded_probe.build_block_offsets.getD i 0 = -1))) :=
  ⟨by decide, by decide, by decide, by decide, by decide, by decide,
    C38_padding_tests_agree left_outer_other_2 ⟨[7, 9], []⟩ 2 suspended_three_rows
      (by decide) (by decide)⟩

/-! ## RIGHT_OUTER / FULL_OUTER without other conjuncts: emitted rows are marked (C31) -/

/-- One iteration keeps `VisitedInv`, given the rows `l` it emitted for its probe row. -/
theorem visited_inv_step (cfg : Config) (probe : ProbeBatch) (entries : List (Int × Mapped))
    (s s' : ProbeState) (l : List RowRef)
    (hV : VisitedInv cfg probe entries s)
    (h1 : s.probe_indexs.length = s.current_offset)
    (h2 : s.build_block_offsets.length = s.current_offset)
    (h3 : s.build_block_rows.length = s.current_offset)
    (g1 : s'.probe_indexs = s.probe_indexs ++ List.replicate l.length s.probe_index)
    (g2 : s'.build_block_offsets = s.build_block_offsets ++ l.map RowRef.block_offset)
    (g3 : s'.build_block_rows = s.build_block_rows ++ l.map RowRef.row_num)
    (hmono : ∀ e, key_visited s.hash_table e = true → key_visited s'.hash_table e = true)
    (hnew : ∀ r ∈ l, r = ⟨-1, -1⟩ ∨
      ∃ e, find_result cfg probe entries s.probe_index = some e ∧ r ∈ entry_rows entries e ∧
        key_visited s'.hash_table e = true) :
    VisitedInv cfg probe entries s' := by
  intro x hx
  rw [scratch_tuples_append s s' s.probe_index l h1 h2 h3 g1 g2 g3] at hx
  rcases List.mem_append.mp hx with h | h
  · rcases hV x h with hp | ⟨e, a, b, c⟩
    · exact Or.inl hp
    · exact Or.inr ⟨e, a, b, hmono e c⟩
  · obtain ⟨r, hr, rfl⟩ := List.mem_map.mp h
    exact hnew r hr

/-- One loop iteration of RIGHT_OUTER / FULL_OUTER without other conjuncts over the
key-level flag: the tuples emitted are padding or rows of the key found, which is marked;
marks are never cleared; an iterator left suspended stands in the row list of the key
found. -/
theorem probe_step_visited (cfg : Config) (probe : ProbeBatch) (entries : List (Int × Mapped))
    (p0 : Nat) (s : ProbeState)
    (ho : cfg.with_other_conjuncts = false) (hm : expands_rows cfg.JoinOpType = true)
    (hkind : s.hash_table.kind = RowRefKind.RowRefListWithFlag)
    (hsk : skeleton s.hash_table.entries = skeleton entries)
    (hL : LoopInv cfg p0 s)
    (h2 : s.build_block_offsets.length = s.current_offset)
    (h3 : s.build_block_rows.length = s.current_offset)
    (hc : s.current_offset < cfg.batch_size)
    (hV : VisitedInv cfg probe entries s) :
    VisitedInv cfg probe entries (probe_step cfg probe s) ∧
    SuspendedVisited cfg probe entries (probe_step cfg probe s) ∧
    (∀ e, key_visited s.hash_table e = true →
      key_visited (probe_step cfg probe s).hash_table e = true) := by
  have h1 := hL.1
  have hok : s.probe_row_match_iter.ok = false := by
    cases hk : s.probe_row_match_iter.ok
    · rfl
    · have := hL.2.1 hk; omega
  obtain ⟨hsa, hrsa, ha1, ha2, ha3⟩ := expands_rows_cases _ hm
  unfold probe_step
  by_cases hn : is_ignored_null cfg probe s.probe_index = true
  · rw [if_pos hn]
    have hht : (null_key_branch cfg s).hash_table = s.hash_table := by
      unfold null_key_branch
      cases hp : probe_all cfg.JoinOpType <;> simp [emplace_element, ho]
    have hit : (null_key_branch cfg s).probe_row_match_iter = s.probe_row_match_iter :=
      (null_key_branch_frame cfg s).1
    refine ⟨?_, fun h => ?_, fun e he => by rw [hht]; exact he⟩
    · cases hp : probe_all cfg.JoinOpType
      · refine visited_inv_step cfg probe entries s _ [] hV h1 h2 h3 ?_ ?_ ?_
          (fun e he => by rw [hht]; exact he) (fun r hr => by cases hr) <;>
          simp [hp, null_key_branch]
      · refine visited_inv_step cfg probe entries s _ [⟨-1, -1⟩] hV h1 h2 h3 ?_ ?_ ?_
          (fun e he => by rw [hht]; exact he)
          (fun r hr => Or.inl (List.mem_singleton.mp hr)) <;>
          simp [hp, null_key_branch, ho, emplace_element]
    · rw [hit, hok] at h; cases h
  · rw [if_neg hn]
    have hfr := find_result_skeleton cfg probe s.probe_index _ _ hsk
    unfold dispatch
    simp only [ho, hsa, Bool.not_false, Bool.and_false, Bool.false_eq_true, if_false]
    cases hf : find_result cfg probe s.hash_table.entries s.probe_index with
    | none =>
      simp only
      have hht : (finish_step s.probe_index (not_found_branch cfg s)).hash_table =
          s.hash_table := by
        unfold finish_step not_found_branch
        simp only
        split_ifs <;> simp [emplace_element, ho]
      have hit : (finish_step s.probe_index (not_found_branch cfg s)).probe_row_match_iter =
          s.probe_row_match_iter := (not_found_branch_frame cfg s).1
      refine ⟨?_, fun h => ?_, fun e he => by rw [hht]; exact he⟩
      · cases hp : probe_all cfg.JoinOpType
        · refine visited_inv_step cfg probe entries s _ [] hV h1 h2 h3 ?_ ?_ ?_
            (fun e he => by rw [hht]; exact he) (fun r hr => by cases hr) <;>
            simp [hp, not_found_branch, finish_step, ha1, ha2, ha3, resize, h1]
        · refine visited_inv_step cfg probe entries s _ [⟨-1, -1⟩] hV h1 h2 h3 ?_ ?_ ?_
            (fun e he => by rw [hht]; exact he)
            (fun r hr => Or.inl (List.mem_singleton.mp hr)) <;>
            simp [hp, not_found_branch, finish_step, ha1, ha2, ha3, resize, h1, ho,
              emplace_element]
      · rw [hit, hok] at h; cases h
    | some en =>
      simp only
      rw [hf] at hfr
      obtain ⟨f1, f2, f3, f4, f5, f6, -⟩ :=
        found_step_expand cfg en (s.hash_table.entries.getD en (0, ⟨[], false⟩)).2 s ho hm h1
      have hrows : List.map Prod.fst (s.hash_table.entries.getD en (0, ⟨[], false⟩)).2.rows =
          entry_rows entries en := entry_rows_skeleton en _ _ hsk
      rw [hrows] at f1 f2 f3 f4 f5 f6
      have hht : (finish_step s.probe_index (found_branch cfg en
          (s.hash_table.entries.getD en (0, ⟨[], false⟩)).2 s)).hash_table =
          set_key_visited s.hash_table en := by
        have := (found_branch_fields cfg en
          (s.hash_table.entries.getD en (0, ⟨[], false⟩)).2 s).2.2.2.2.2.2.2.2.2.2.2.2.2.2.2.2
        show (found_branch cfg en
          (s.hash_table.entries.getD en (0, ⟨[], false⟩)).2 s).hash_table = _
        rw [this, hkind]
        rfl
      have hlt := find_result_lt cfg probe s.hash_table.entries s.probe_index en hf
      have hkv : ∀ e, key_visited (set_key_visited s.hash_table en) e =
          (key_visited s.hash_table e || decide (en = e)) := fun e =>
        key_visited_set_key_visited s.hash_table en e hlt
      have hklen : (List.take (min (cfg.batch_size - s.current_offset)
          (entry_rows entries en).length) (entry_rows entries en)).length =
          min (cfg.batch_size - s.current_offset) (entry_rows entries en).length := by
        simp
      refine ⟨?_, fun h => ?_, fun e he => ?_⟩
      · refine visited_inv_step cfg probe entries s _
          ((entry_rows entries en).take
            (min (cfg.batch_size - s.current_offset) (entry_rows entries en).length))
          hV h1 h2 h3 ?_ ?_ ?_ (fun e he => ?_) (fun r hr => ?_)
        · rw [f2, hklen]
        · rw [f3]
        · rw [f4]
        · rw [hht, hkv, he]; rfl
        · right
          refine ⟨en, hfr.symm, List.mem_of_mem_take hr, ?_⟩
          rw [hht, hkv]
          simp
      · rw [f5, ok_drop] at h
        have hk := of_decide_eq_true h
        refine ⟨en, ?_, ?_, ?_⟩
        · rw [f6, if_pos hk, Nat.add_zero]
          exact hfr.symm
        · intro r hr
          rw [f5] at hr
          exact List.mem_of_mem_drop hr
        · rw [hht, hkv]
          simp
      · rw [hht, hkv, he]; rfl

theorem resume_probe_visited (cfg : Config) (probe : ProbeBatch) (s : ProbeState)
    (hs : SuspendedVisited cfg probe s.hash_table.entries s) :
    VisitedInv cfg probe s.hash_table.entries (resume_probe cfg s) ∧
    SuspendedVisited cfg probe s.hash_table.entries (resume_probe cfg s) := by
  cases hok : s.probe_row_match_iter.ok
  · rw [resume_probe_not_ok cfg s hok]
    refine ⟨?_, fun h => ?_⟩
    · intro x hx
      simp [scratch_tuples, init_probe_side] at hx
    · have : (init_probe_side cfg s).probe_row_match_iter = s.probe_row_match_iter := rfl
      rw [this, hok] at h; cases h
  · obtain ⟨e, a, b, c⟩ := hs hok
    obtain ⟨-, g2, g3, g4, -, g6, g7, -, g9, -⟩ := resume_probe_ok cfg s hok
    have hklen : (List.take (min cfg.batch_size s.probe_row_match_iter.rest.length)
        s.probe_row_match_iter.rest).length =
        min cfg.batch_size s.probe_row_match_iter.rest.length := by simp
    have hst : scratch_tuples (resume_probe cfg s) =
        (List.take (min cfg.batch_size s.probe_row_match_iter.rest.length)
          s.probe_row_match_iter.rest).map fun r => (s.probe_index, r) := by
      unfold scratch_tuples
      rw [g2, g6, g7]
      exact zip_replicate_rows_of_length _ _ _ hklen
    refine ⟨?_, fun h => ?_⟩
    · intro x hx
      rw [hst] at hx
      obtain ⟨r, hr, rfl⟩ := List.mem_map.mp hx
      exact Or.inr ⟨e, a, b r (List.mem_of_mem_take hr), by rw [g9]; exact c⟩
    · rw [g3, ok_drop] at h
      have hk := of_decide_eq_true h
      refine ⟨e, ?_, ?_, by rw [g9]; exact c⟩
      · rw [g4, if_pos hk, Nat.add_zero]
        exact a
      · intro r hr
        rw [g3] at hr
        exact b r (List.mem_of_mem_drop hr)

/-- The probe loop of RIGHT_OUTER / FULL_OUTER without other conjuncts over the key-level
flag, from a coherent iterator: every scratch tuple is padding or a row of the key its
probe row found, and that key is marked; marks are never cleared; the iterator is coherent
again. -/
theorem do_probe_visited (cfg : Config) (probe : ProbeBatch) (probe_rows : Nat)
    (s : ProbeState)
    (ho : cfg.with_other_conjuncts = false) (hm : expands_rows cfg.JoinOpType = true)
    (hkind : s.hash_table.kind = RowRefKind.RowRefListWithFlag)
    (hs : SuspendedVisited cfg probe s.hash_table.entries s) :
    VisitedInv cfg probe s.hash_table.entries (do_probe cfg probe probe_rows s) ∧
    SuspendedVisited cfg probe s.hash_table.entries (do_probe cfg probe probe_rows s) ∧
    (∀ e, key_visited s.hash_table e = true →
      key_visited (do_probe cfg probe probe_rows s).hash_table e = true) ∧
    skeleton (do_probe cfg probe probe_rows s).hash_table.entries =
      skeleton s.hash_table.entries := by
  obtain ⟨r1, -⟩ := resume_probe_ext cfg s
  obtain ⟨v0, s0⟩ := resume_probe_visited cfg probe s hs
  obtain ⟨k1, k2, k3, -⟩ := resume_probe_emit cfg probe probe_rows s
  have key := probe_loop_induct cfg probe probe_rows
    (fun t => LoopInv cfg s.probe_index t ∧
      skeleton t.hash_table.entries = skeleton s.hash_table.entries ∧
      t.hash_table.kind = RowRefKind.RowRefListWithFlag ∧
      t.build_block_offsets.length = t.current_offset ∧
      t.build_block_rows.length = t.current_offset ∧
      VisitedInv cfg probe s.hash_table.entries t ∧
      SuspendedVisited cfg probe s.hash_table.entries t ∧
      (∀ e, key_visited s.hash_table e = true → key_visited t.hash_table e = true))
    (fun t ht hc _ => by
      obtain ⟨hL, hsk, hk, h2, h3, hV, -, hmono⟩ := ht
      have hok : t.probe_row_match_iter.ok = false := by
        cases hq : t.probe_row_match_iter.ok
        · rfl
        · have := hL.2.1 hq; omega
      obtain ⟨i1, -⟩ := probe_step_iter cfg probe t hok hc
      obtain ⟨b1, -, b3⟩ := probe_step_build_len cfg probe t
        ⟨by omega, by omega, fun _ => h2⟩
      have hx : ¬(cfg.with_other_conjuncts = false ∧
          is_left_semi_anti cfg.JoinOpType = true) := by
        intro hq
        rw [(expands_rows_cases _ hm).1] at hq
        cases hq.2
      obtain ⟨q1, q2, q3⟩ := probe_step_visited cfg probe s.hash_table.entries _ t ho hm hk
        hsk hL h2 h3 hc hV
      refine ⟨probe_step_inv cfg probe _ t hL hc, i1.trans hsk, ?_, b3 hx, ?_, q1, q2,
        fun e he => q3 e (hmono e he)⟩
      · rw [(probe_step_ext cfg probe t).2.2.2.2.2.2.2.2.2.2.1, hk]
      · rw [← b1]; exact b3 hx)
    (probe_rows - (resume_probe cfg s).probe_index) (resume_probe cfg s)
    ⟨resume_probe_inv cfg s, by rw [r1], by rw [r1]; exact hkind, k2, k3, v0, s0,
      fun e he => by rw [r1]; exact he⟩
  obtain ⟨-, a2, -, -, -, a6, a7, a8⟩ := key
  exact ⟨a6, a7, a8, a2⟩

/-- C31 (as stated, refuted): a RIGHT_OUTER call without other conjuncts on a table with
per-row flags, which `process` accepts. The probe row `0` matches the key `7`, stored with
the one build row `(0, 0)`; the call emits the tuple `(0, (0, 0))` and leaves the flag of
that row clear (per-row flags are set only by the conjunct applier, and the key-level
statement `mapped.visited = true` is compiled for the key-level flavor only). The drain
then registers the row `(0, 0)` as unmatched. -/
theorem C31_counterexample :
    (process ⟨TJoinOp.RIGHT_OUTER_JOIN, 4, false, false, false, false⟩ (fun _ _ => true)
      ⟨[7], [false]⟩ 1 (ProbeState.fresh (single_key_table RowRefKind.RowRefListWithFlags 7 1))
      Block.empty).1 = Status.OK ∧
    (process ⟨TJoinOp.RIGHT_OUTER_JOIN, 4, false, false, false, false⟩ (fun _ _ => true)
      ⟨[7], [false]⟩ 1 (ProbeState.fresh (single_key_table RowRefKind.RowRefListWithFlags 7 1))
      Block.empty).2.2.tuples = [(0, ⟨0, 0⟩)] ∧
    row_visited (process ⟨TJoinOp.RIGHT_OUTER_JOIN, 4, false, false, false, false⟩
      (fun _ _ => true) ⟨[7], [false]⟩ 1
      (ProbeState.fresh (single_key_table RowRefKind.RowRefListWithFlags 7 1))
      Block.empty).2.1.hash_table 0 0 = false ∧
    (process_data_in_hashtable ⟨TJoinOp.RIGHT_OUTER_JOIN, 4, false, false, false, false⟩ 1
      (process ⟨TJoinOp.RIGHT_OUTER_JOIN, 4, false, false, false, false⟩
        (fun _ _ => true) ⟨[7], [false]⟩ 1
        (ProbeState.fresh (single_key_table RowRefKind.RowRefListWithFlags 7 1))
        Block.empty).2.1.hash_table DrainState.fresh).locs = [⟨0, 0⟩] := by
  decide

/-- C31 (amended): RIGHT_OUTER / FULL_OUTER without other conjuncts on a table with the
key-level flag, from a state whose suspended iterator (if any) stands in the row list of
the key probe row `probe_index` found, that key being marked. After the `process` call,
every non-padded tuple of the output block pairs its probe row with a build row of the key
that probe row found, and that key's bit is set in the returned table; no bit set before is
cleared, the keys and rows of the table are unchanged, the iterator is coherent again, and
the drain for unmatched rows registers no row of a key whose bit is set. -/
theorem C31_key_flag_marks_emitted (cfg : Config) (conj : OtherConjuncts)
    (probe : ProbeBatch) (probe_rows : Nat) (s : ProbeState) (output_block : Block)
    (ho : cfg.with_other_conjuncts = false)
    (hop : cfg.JoinOpType = TJoinOp.RIGHT_OUTER_JOIN ∨
      cfg.JoinOpType = TJoinOp.FULL_OUTER_JOIN)
    (hkind : s.hash_table.kind = RowRefKind.RowRefListWithFlag)
    (hs : SuspendedVisited cfg probe s.hash_table.entries s) :
    (process cfg conj probe probe_rows s output_block).1 = Status.OK ∧
    (∀ x ∈ (process cfg conj probe probe_rows s output_block).2.2.tuples,
      x.2 ≠ ⟨-1, -1⟩ →
      ∃ e, find_result cfg probe s.hash_table.entries x.1 = some e ∧
        x.2 ∈ entry_rows s.hash_table.entries e ∧
        key_visited (process cfg conj probe probe_rows s output_block).2.1.hash_table e =
          true) ∧
    (∀ e, key_visited s.hash_table e = true →
      key_visited (process cfg conj probe probe_rows s output_block).2.1.hash_table e =
        true) ∧
    skeleton (process cfg conj probe probe_rows s output_block).2.1.hash_table.entries =
      skeleton s.hash_table.entries ∧
    (process cfg conj probe probe_rows s output_block).2.1.hash_table.kind =
      RowRefKind.RowRefListWithFlag ∧
    SuspendedVisited cfg probe s.hash_table.entries
      (process cfg conj probe probe_rows s output_block).2.1 ∧
    (∀ e, key_visited (process cfg conj probe probe_rows s output_block).2.1.hash_table e =
        true →
      qual_entry RowRefKind.RowRefListWithFlag false
        ((process cfg conj probe probe_rows s output_block).2.1.hash_table.entries.getD e
          (0, ⟨[], false⟩)) = []) := by
  have hm : expands_rows cfg.JoinOpType = true := by
    rcases hop with h | h <;> rw [h] <;> rfl
  have hsa : (!is_semi_anti_join cfg.JoinOpType || cfg.with_other_conjuncts) = true := by
    rcases hop with h | h <;> rw [h] <;> rfl
  obtain ⟨v1, v2, v3, v4⟩ := do_probe_visited cfg probe probe_rows s ho hm hkind hs
  obtain ⟨hL, -, hsize⟩ := do_probe_inv cfg probe probe_rows s
  obtain ⟨-, -, -, e4, e5⟩ := do_probe_emit cfg probe probe_rows s ho hm
  have htup := assemble_tuples cfg s.probe_index (do_probe cfg probe probe_rows s) hL hsize
    e4 e5 hsa
  obtain ⟨a1, a2, a3⟩ := assemble_state cfg s.probe_index (do_probe cfg probe probe_rows s)
  have hr : process cfg conj probe probe_rows s output_block =
      (Status.OK, assemble cfg s.probe_index (do_probe cfg probe probe_rows s)) := by
    rw [process_eq_do_process cfg conj probe probe_rows s output_block ho]
    unfold do_process
    simp [ho]
  rw [hr]
  simp only
  rw [htup, a3]
  refine ⟨trivial, ?_, v3, v4, ?_, ?_, ?_⟩
  · intro x hx hne
    rcases v1 x hx with h | h
    · exact absurd h hne
    · exact h
  · rw [(do_probe_frame cfg probe probe_rows s).2.2.1, hkind]
  · intro h
    rw [a2] at h
    obtain ⟨e, b1, b2, b3⟩ := v2 h
    exact ⟨e, by rw [a1]; exact b1, by rw [a2]; exact b2, by rw [a3]; exact b3⟩
  · intro e he
    unfold key_visited at he
    unfold qual_entry
    rw [he]
    rfl

theorem C31_key_flag_marks_emitted_witness :
    right_outer_2.with_other_conjuncts = false ∧
    (right_outer_2.JoinOpType = TJoinOp.RIGHT_OUTER_JOIN ∨
      right_outer_2.JoinOpType = TJoinOp.FULL_OUTER_JOIN) ∧
    suspended_key_flag.hash_table.kind = RowRefKind.RowRefListWithFlag ∧
    suspended_key_flag.probe_row_match_iter.rest = [⟨0, 2⟩] ∧
    SuspendedVisited right_outer_2 ⟨[7, 9], []⟩ suspended_key_flag.hash_table.entries
      suspended_key_flag ∧
    resumed_key_flag_call.2.2.tuples = [(0, ⟨0, 2⟩)] ∧
    (resumed_key_flag_call.1 = Status.OK ∧
    (∀ x ∈ resumed_key_flag_call.2.2.tuples,
      x.2 ≠ ⟨-1, -1⟩ →
      ∃ e, find_result right_outer_2 ⟨[7, 9], []⟩ suspended_key_flag.hash_table.entries
          x.1 = some e ∧
        x.2 ∈ entry_rows suspended_key_flag.hash_table.entries e ∧
        key_visited resumed_key_flag_call.2.1.hash_table e =
          true) ∧
    (∀ e, key_visited suspended_key_flag.hash_table e = true →
      key_visited resumed_key_flag_call.2.1.hash_table e =
        true) ∧
    skeleton resumed_key_flag_call.2.1.hash_table.entries =
      skeleton suspended_key_flag.hash_table.entries ∧
    resumed_key_flag_call.2.1.hash_table.kind =
      RowRefKind.RowRefListWithFlag ∧
    SuspendedVisited right_outer_2 ⟨[7, 9], []⟩ suspended_key_flag.hash_table.entries
      resumed_key_flag_call.2.1 ∧
    (∀ e, key_visited resumed_key_flag_call.2.1.hash_table e =
        true →
      qual_entry RowRefKind.RowRefListWithFlag false
        (resumed_key_flag_call.2.1.hash_table.entries.getD e
          (0, ⟨[], false⟩)) = [])) :=
  ⟨by decide, by decide, by decide, by decide,
    fun _ => ⟨0, by decide, by decide, by decide⟩, by decide,
    C31_key_flag_marks_emitted right_outer_2 (fun _ _ => true) ⟨[7, 9], []⟩ 2
      suspended_key_flag Block.empty (by decide) (by decide) (by decide)
      (fun _ => ⟨0, by decide, by decide, by decide⟩)⟩

/-! ## The applier subscripts within the block (C35) -/

theorem mem_loop_indices (l : List Nat) (f : Nat → Bool) (x : Int)
    (h : x ∈ l.flatMap fun (i : Nat) =>
      [(i : Int)] ++ if f i then [(i : Int) - 1] else []) :
    ∃ i ∈ l, x = (i : Int) ∨ (f i = true ∧ x = (i : Int) - 1) := by
  obtain ⟨i, hi, hx⟩ := List.mem_flatMap.mp h
  refine ⟨i, hi, ?_⟩
  rcases List.mem_append.mp hx with h1 | h1
  · exact Or.inl (List.mem_singleton.mp h1)
  · by_cases hf : f i = true
    · rw [if_pos hf] at h1
      exact Or.inr ⟨hf, List.mem_singleton.mp h1⟩
    · rw [if_neg hf] at h1
      cases h1

theorem process_splited_indices_mem (start : Int) (n : Nat) (x : Int)
    (h : x ∈ process_splited_indices start n) : start ≤ x ∧ x < start + (n : Int) := by
  unfold process_splited_indices at h
  obtain ⟨j, hj, rfl⟩ := List.mem_map.mp h
  have := List.mem_range.mp hj
  omega

theorem range_indices_mem (n : Nat) (x : Int) (h : x ∈ (List.range n).map Int.ofNat) :
    0 ≤ x ∧ x < (n : Int) := by
  obtain ⟨j, hj, rfl⟩ := List.mem_map.mp h
  have := List.mem_range.mp hj
  simp only [Int.ofNat_eq_coe]
  omega

theorem mark_indices_mem (same_to_prev : List Bool) (row_count : Nat) (last : Int)
    (hl : 0 ≤ last ∧ last < (row_count : Int)) (x : Int)
    (h : x ∈ mark_indices same_to_prev row_count last) : 0 ≤ x ∧ x < (row_count : Int) := by
  unfold mark_indices at h
  rcases List.mem_append.mp h with h1 | h1
  · obtain ⟨i, hi, hx⟩ := mem_loop_indices _ (fun i => !same_to_prev.getD i false) x h1
    have := List.mem_range'_1.mp hi
    rcases hx with rfl | ⟨-, rfl⟩ <;> omega
  · rw [List.mem_singleton.mp h1]
    exact hl

/-- The LEFT_OUTER / FULL_OUTER rewrite stays inside the block when the segments fit
(`row_count_from_last_probe + multi_matched_output_row_count ≤ row_count`) and the first
grouping bit is clear. -/
theorem left_outer_indices_mem (s : ProbeState) (fc : List Bool) (row_count : Nat)
    (a : ApplierState) (hpos : 0 < row_count)
    (hrc : s.row_count_from_last_probe + s.multi_matched_output_row_count ≤ row_count)
    (h0 : s.same_to_prev.getD 0 false = false) (x : Int)
    (h : x ∈ left_outer_indices s fc row_count a) : 0 ≤ x ∧ x < (row_count : Int) := by
  unfold left_outer_indices at h
  simp only at h
  rcases List.mem_append.mp h with h1 | h1
  · rcases List.mem_append.mp h1 with h2 | h2
    · rcases List.mem_append.mp h2 with h3 | h3
      · by_cases hr : s.row_count_from_last_probe > 0
        · rw [if_pos hr] at h3
          rcases List.mem_append.mp h3 with h4 | h4
          · have := process_splited_indices_mem _ _ _ h4
            omega
          · split_ifs at h4
            · rw [List.mem_singleton.mp h4]; omega
            · cases h4
        · rw [if_neg hr] at h3
          cases h3
      · obtain ⟨i, hi, hx⟩ := mem_loop_indices _
          (fun i => (s.visited_map.getD i none).isSome && s.same_to_prev.getD i false) x h3
        have hb := List.mem_range'_1.mp hi
        rcases hx with rfl | ⟨hf, rfl⟩
        · omega
        · have hi0 : i ≠ 0 := by
            rintro rfl
            simp only [Bool.and_eq_true] at hf
            rw [h0] at hf
            cases hf.2
          omega
    · by_cases hm : s.multi_matched_output_row_count > 0
      · rw [if_pos hm] at h2
        have := process_splited_indices_mem _ _ _ h2
        omega
      · rw [if_neg hm] at h2
        cases h2
  · exact range_indices_mem _ _ h1

/-- The LEFT_SEMI rewrite stays inside the block when the resumed segment fits. -/
theorem left_semi_indices_mem (s : ProbeState) (fc : List Bool) (row_count : Nat)
    (is_mark_join : Bool) (a : ApplierState) (hpos : 0 < row_count)
    (hrc : s.row_count_from_last_probe + s.multi_matched_output_row_count ≤ row_count)
    (x : Int) (h : x ∈ left_semi_indices s fc row_count is_mark_join a) :
    0 ≤ x ∧ x < (row_count : Int) := by
  unfold left_semi_indices at h
  simp only at h
  -- the three shapes of the first step
  have hinit : ∀ (init : Nat × List Int × Nat),
      init = (if s.row_count_from_last_probe > 0 then
        if a.is_any_probe_match_row_output then
          (1 + s.row_count_from_last_probe,
            if s.row_count_from_last_probe < row_count then
              ([(s.row_count_from_last_probe : Int)], s.row_count_from_last_probe + 1)
            else ([], s.row_count_from_last_probe))
        else (1, [0], 1)
      else (1, [0], 1)) →
      1 ≤ init.1 ∧ (∀ y ∈ init.2.1, 0 ≤ y ∧ y < (row_count : Int)) ∧
      1 ≤ init.2.2 + (row_count - init.1) ∧ init.2.2 + (row_count - init.1) ≤ row_count := by
    intro init hi
    subst hi
    by_cases c1 : s.row_count_from_last_probe > 0
    · rw [if_pos c1]
      by_cases c2 : a.is_any_probe_match_row_output = true
      · rw [if_pos c2]
        by_cases c3 : s.row_count_from_last_probe < row_count
        · rw [if_pos c3]
          refine ⟨by dsimp only; omega, ?_, by dsimp only; omega, by dsimp only; omega⟩
          intro y hy
          rw [List.mem_singleton.mp hy]; omega
        · rw [if_neg c3]
          exact ⟨by dsimp only; omega, fun y hy => (List.not_mem_nil y hy).elim,
            by dsimp only; omega, by dsimp only; omega⟩
      · rw [if_neg c2]
        refine ⟨by dsimp only; omega, ?_, by dsimp only; omega, by dsimp only; omega⟩
        intro y hy
        rw [List.mem_singleton.mp hy]; omega
    · rw [if_neg c1]
      refine ⟨by dsimp only; omega, ?_, by dsimp only; omega, by dsimp only; omega⟩
      intro y hy
      rw [List.mem_singleton.mp hy]; omega
  obtain ⟨i1, i2, i3, i4⟩ := hinit _ rfl
  rcases List.mem_append.mp h with h1 | h1
  · rcases List.mem_append.mp h1 with h2 | h2
    · rcases List.mem_append.mp h2 with h3 | h3
      · exact i2 x h3
      · obtain ⟨i, hi, hx⟩ := mem_loop_indices _
          (fun i => fc.getD i false || s.same_to_prev.getD i false) x h3
        have hb := List.mem_range'_1.mp hi
        rcases hx with rfl | ⟨-, rfl⟩ <;> omega
    · split_ifs at h2 with c1 c2
      · rw [List.mem_singleton.mp h2]; omega
      · simp only [Bool.and_eq_true, decide_eq_true_eq] at c2
        rw [List.mem_singleton.mp h2]; omega
      · cases h2
  · by_cases hmk : is_mark_join = true
    · rw [if_pos hmk] at h1
      exact mark_indices_mem _ _ _ (by omega) x h1
    · rw [if_neg hmk] at h1
      cases h1

/-- The bookkeeping and inversion of the LEFT_ANTI / NULL_AWARE_LEFT_ANTI rewrite stay
inside the block when the segments fit. -/
theorem left_anti_invert_indices_mem (s : ProbeState) (row_count : Nat) (a : ApplierState)
    (hpos : 0 < row_count)
    (hrc : s.row_count_from_last_probe + s.multi_matched_output_row_count ≤ row_count)
    (x : Int) (h : x ∈ left_anti_invert_indices s row_count a) :
    0 ≤ x ∧ x < (row_count : Int) := by
  unfold left_anti_invert_indices at h
  simp only at h
  have hr : ∀ (r : Int × List Int),
      r = (if s.row_count_from_last_probe > 0 then
        ((row_count : Int) - (s.multi_matched_output_row_count : Int),
          (if (!a.is_any_probe_match_row_output) = true then
            [(s.row_count_from_last_probe : Int) - 1] ++
              (if (s.is_the_last_sub_block &&
                  !a.filter_map.getD (s.row_count_from_last_probe - 1) false) = true
                then [0] else [])
          else []) ++
          (if s.multi_matched_output_row_count > 0 then [(row_count : Int) - 1] else []))
      else if s.multi_matched_output_row_count > 0 then
        ((row_count : Int) - (s.multi_matched_output_row_count : Int),
          [(row_count : Int) - 1])
      else ((row_count : Int), [])) →
      r.1 ≤ (row_count : Int) ∧
      r.1 = (row_count : Int) - (s.multi_matched_output_row_count : Int) ∧
      (∀ y ∈ r.2, 0 ≤ y ∧ y < (row_count : Int)) := by
    intro r hrr
    subst hrr
    by_cases c1 : s.row_count_from_last_probe > 0
    · rw [if_pos c1]
      refine ⟨by simp, rfl, ?_⟩
      intro y hy
      rcases List.mem_append.mp hy with h1 | h1
      · by_cases c2 : (!a.is_any_probe_match_row_output) = true
        · rw [if_pos c2] at h1
          rcases List.mem_append.mp h1 with h2 | h2
          · rw [List.mem_singleton.mp h2]; omega
          · by_cases c3 : (s.is_the_last_sub_block &&
                !a.filter_map.getD (s.row_count_from_last_probe - 1) false) = true
            · rw [if_pos c3] at h2
              rw [List.mem_singleton.mp h2]; omega
            · rw [if_neg c3] at h2
              cases h2
        · rw [if_neg c2] at h1
          cases h1
      · by_cases c4 : s.multi_matched_output_row_count > 0
        · rw [if_pos c4] at h1
          rw [List.mem_singleton.mp h1]; omega
        · rw [if_neg c4] at h1
          cases h1
    · rw [if_neg c1]
      by_cases c4 : s.multi_matched_output_row_count > 0
      · rw [if_pos c4]
        refine ⟨by simp, rfl, ?_⟩
        intro y hy
        rw [List.mem_singleton.mp hy]; omega
      · rw [if_neg c4]
        exact ⟨by simp, by simp; omega, fun y hy => (List.not_mem_nil y hy).elim⟩
  obtain ⟨r1, r2, r3⟩ := hr _ rfl
  rcases List.mem_append.mp h with h1 | h1
  · rcases List.mem_append.mp h1 with h2 | h2
    · exact r3 x h2
    · obtain ⟨i, hi, hx⟩ := mem_loop_indices _
        (fun i => !s.same_to_prev.getD i false) x h2
      have hb := List.mem_range'_1.mp hi
      rcases hx with rfl | ⟨-, rfl⟩ <;> omega
  · by_cases c : ((row_count : Int) - (s.row_count_from_last_probe : Int) -
        (s.multi_matched_output_row_count : Int)) % (size_t_mod : Int) ≠ 0
    · rw [if_pos c] at h1
      rw [List.mem_singleton.mp h1]
      have hne : (row_count : Int) - (s.row_count_from_last_probe : Int) -
          (s.multi_matched_output_row_count : Int) ≠ 0 := by
        intro h0
        apply c
        rw [h0]
        rfl
      omega
    · rw [if_neg c] at h1
      cases h1

/-- The LEFT_ANTI / NULL_AWARE_LEFT_ANTI rewrite stays inside the block when the segments
fit. -/
theorem left_anti_indices_mem (s : ProbeState) (fc : List Bool) (row_count : Nat)
    (is_mark_join : Bool) (a : ApplierState) (hpos : 0 < row_count)
    (hrc : s.row_count_from_last_probe + s.multi_matched_output_row_count ≤ row_count)
    (x : Int) (h : x ∈ left_anti_indices s fc row_count is_mark_join a) :
    0 ≤ x ∧ x < (row_count : Int) := by
  unfold left_anti_indices at h
  simp only at h
  have hinit : ∀ (init : Nat × List Int),
      init = (if (decide (s.row_count_from_last_probe > 0) &&
          a.is_any_probe_match_row_output) = true then
        (1 + s.row_count_from_last_probe,
          (List.range s.row_count_from_last_probe).map Int.ofNat ++
            (if s.row_count_from_last_probe < row_count then
              [(s.row_count_from_last_probe : Int)] else []))
      else (1, [0])) →
      1 ≤ init.1 ∧ (∀ y ∈ init.2, 0 ≤ y ∧ y < (row_count : Int)) := by
    intro init hi
    subst hi
    by_cases c1 : (decide (s.row_count_from_last_probe > 0) &&
        a.is_any_probe_match_row_output) = true
    · rw [if_pos c1]
      refine ⟨by dsimp only; omega, ?_⟩
      intro y hy
      rcases List.mem_append.mp hy with h1 | h1
      · have := range_indices_mem _ _ h1
        omega
      · by_cases c3 : s.row_count_from_last_probe < row_count
        · rw [if_pos c3] at h1
          rw [List.mem_singleton.mp h1]; omega
        · rw [if_neg c3] at h1
          exact (List.not_mem_nil y h1).elim
    · rw [if_neg c1]
      refine ⟨by dsimp only; omega, ?_⟩
      intro y hy
      rw [List.mem_singleton.mp hy]; omega
  obtain ⟨i1, i2⟩ := hinit _ rfl
  rcases List.mem_append.mp h with h1 | h1
  · rcases List.mem_append.mp h1 with h2 | h2
    · exact i2 x h2
    · obtain ⟨i, hi, hx⟩ := mem_loop_indices _
        (fun i => ((s.visited_map.getD i none).isSome && fc.getD i false) ||
          s.same_to_prev.getD i false) x h2
      have hb := List.mem_range'_1.mp hi
      rcases hx with rfl | ⟨-, rfl⟩ <;> omega
  · by_cases hmk : is_mark_join = true
    · rw [if_pos hmk] at h1
      exact mark_indices_mem _ _ _ (by omega) x h1
    · rw [if_neg hmk] at h1
      exact left_anti_invert_indices_mem s row_count _ hpos hrc x h1

/-- Every row index the applier subscripts with lies inside the block, when the segments
of the block fit in it and the first grouping bit is clear. -/
theorem do_other_join_conjuncts_indices_mem (cfg : Config) (conj : OtherConjuncts)
    (s : ProbeState) (b : Block)
    (hrc : s.row_count_from_last_probe + s.multi_matched_output_row_count ≤ b.rows)
    (h0 : s.same_to_prev.getD 0 false = false) (x : Int)
    (h : x ∈ do_other_join_conjuncts_indices cfg conj s b) :
    0 ≤ x ∧ x < (b.rows : Int) := by
  unfold do_other_join_conjuncts_indices at h
  simp only at h
  by_cases hz : (b.rows == 0) = true
  · rw [if_pos hz] at h
    exact (List.not_mem_nil x h).elim
  · rw [if_neg hz] at h
    have hpos : 0 < b.rows := by
      simp only [beq_iff_eq] at hz
      omega
    split_ifs at h
    · exact left_outer_indices_mem s _ _ _ hpos hrc h0 x h
    · exact left_semi_indices_mem s _ _ _ _ hpos hrc x h
    · exact left_anti_indices_mem s _ _ _ _ hpos hrc x h
    · exact range_indices_mem _ _ h
    · exact (List.not_mem_nil x h).elim

/-- The carry loop is the loop of `left_anti_rewrite`: the rewrite is the mark-join step or
the inversion applied to its result. -/
theorem left_anti_rewrite_carry (s : ProbeState) (fc : List Bool) (row_count : Nat)
    (is_mark_join : Bool) (a : ApplierState) :
    left_anti_rewrite s fc row_count is_mark_join a =
      if is_mark_join then
        mark_rewrite s.same_to_prev row_count true (row_count - 1)
          { a with filter_map := left_anti_carry s fc row_count a }
      else left_anti_invert s row_count
        { a with filter_map := left_anti_carry s fc row_count a } := rfl

theorem same_to_prev_of_head (l : List Nat) :
    (same_to_prev_of none l).getD 0 false = false := by
  cases l with
  | nil => rfl
  | cons x xs => simp [same_to_prev_of]

/-- C35: the inputs of the applier are well formed. With other conjuncts (so on a table
with per-row flags), `batch_size ≥ 1` and non-empty row lists: at the end of the probe loop
`visited_map`, `same_to_prev`, `probe_indexs`, `build_block_offsets` and `build_block_rows`
all have length `current_offset`, and `row_count_from_last_probe +
multi_matched_output_row_count ≤ current_offset`; the assembled block, which `do_process`
hands to `do_other_join_conjuncts` with the state the probe loop left, has `current_offset`
rows; and every row index `do_other_join_conjuncts` subscripts with on these arguments
(`i - 1` included, for `filter_map[i - 1]` and `filter_column_ptr[i - 1]`) is at least 0 and
below the row count of the block. -/
theorem C35_applier_inputs_well_formed (cfg : Config) (conj : OtherConjuncts)
    (probe : ProbeBatch) (probe_rows : Nat) (s : ProbeState)
    (ho : cfg.with_other_conjuncts = true) (hb : 1 ≤ cfg.batch_size)
    (hne : rows_nonempty s.hash_table)
    (hkind : s.hash_table.kind = RowRefKind.RowRefListWithFlags) :
    (do_probe cfg probe probe_rows s).visited_map.length =
      (do_probe cfg probe probe_rows s).current_offset ∧
    (do_probe cfg probe probe_rows s).same_to_prev.length =
      (do_probe cfg probe probe_rows s).current_offset ∧
    (do_probe cfg probe probe_rows s).probe_indexs.length =
      (do_probe cfg probe probe_rows s).current_offset ∧
    (do_probe cfg probe probe_rows s).build_block_offsets.length =
      (do_probe cfg probe probe_rows s).current_offset ∧
    (do_probe cfg probe probe_rows s).build_block_rows.length =
      (do_probe cfg probe probe_rows s).current_offset ∧
    (do_probe cfg probe probe_rows s).row_count_from_last_probe +
        (do_probe cfg probe probe_rows s).multi_matched_output_row_count ≤
      (do_probe cfg probe probe_rows s).current_offset ∧
    (assemble cfg s.probe_index (do_probe cfg probe probe_rows s)).1 =
      do_probe cfg probe probe_rows s ∧
    (assemble cfg s.probe_index (do_probe cfg probe probe_rows s)).2.rows =
      (do_probe cfg probe probe_rows s).current_offset ∧
    do_process cfg conj probe probe_rows s =
      (Status.OK, do_other_join_conjuncts cfg conj
        (assemble cfg s.probe_index (do_probe cfg probe probe_rows s)).1
        (assemble cfg s.probe_index (do_probe cfg probe probe_rows s)).2) ∧
    ∀ x ∈ do_other_join_conjuncts_indices cfg conj
        (assemble cfg s.probe_index (do_probe cfg probe probe_rows s)).1
        (assemble cfg s.probe_index (do_probe cfg probe probe_rows s)).2,
      0 ≤ x ∧
      x < ((assemble cfg s.probe_index (do_probe cfg probe probe_rows s)).2.rows : Int) := by
  have hk : s.hash_table.kind ≠ RowRefKind.RowRefListWithFlag := by rw [hkind]; decide
  obtain ⟨hcl, hg⟩ := do_probe_grouping cfg probe probe_rows s ho hb hne hk
  obtain ⟨l1, l2, l3, l4, l5⟩ := hcl
  have hrc := do_probe_rc_multi cfg probe probe_rows s
  have hA := assemble_other cfg probe probe_rows s ho
  simp only at hA hg
  have hrows : (assemble cfg s.probe_index (do_probe cfg probe probe_rows s)).2.rows =
      (do_probe cfg probe probe_rows s).current_offset := by
    rw [hA]
    exact l1
  have hst : (assemble cfg s.probe_index (do_probe cfg probe probe_rows s)).1 =
      do_probe cfg probe probe_rows s := by rw [hA]
  refine ⟨l4, l5, l1, l2, l3, hrc, hst, hrows, ?_, ?_⟩
  · unfold do_process
    simp only [ho, if_true]
  · intro x hx
    refine do_other_join_conjuncts_indices_mem cfg conj _ _ ?_ ?_ x hx
    · rw [hst, hrows]
      exact hrc
    · rw [hst, hg]
      exact same_to_prev_of_head _

theorem C35_applier_inputs_well_formed_witness :
    left_anti_other_2.with_other_conjuncts = true ∧
    1 ≤ left_anti_other_2.batch_size ∧
    rows_nonempty suspended_left_anti.hash_table ∧
    suspended_left_anti.hash_table.kind = RowRefKind.RowRefListWithFlags ∧
    resumed_left_anti.row_count_from_last_probe = 1 ∧
    resumed_left_anti.same_to_prev = [false, false] ∧
    do_other_join_conjuncts_indices left_anti_other_2 (fun _ _ => false)
      (assemble left_anti_other_2 suspended_left_anti.probe_index resumed_left_anti).1
      (assemble left_anti_other_2 suspended_left_anti.probe_index resumed_left_anti).2 =
      [0, 1, 0, 0, 1] ∧
    (resumed_left_anti.visited_map.length =
      resumed_left_anti.current_offset ∧
    resumed_left_anti.same_to_prev.length =
      resumed_left_anti.current_offset ∧
    resumed_left_anti.probe_indexs.length =
      resumed_left_anti.current_offset ∧
    resumed_left_anti.build_block_offsets.length =
      resumed_left_anti.current_offset ∧
    resumed_left_anti.build_block_rows.length =
      resumed_left_anti.current_offset ∧
    resumed_left_anti.row_count_from_last_probe +
        resumed_left_anti.multi_matched_output_row_count ≤
      resumed_left_anti.current_offset ∧
    (assemble left_anti_other_2 suspended_left_anti.probe_index resumed_left_anti).1 =
      resumed_left_anti ∧
    (assemble left_anti_other_2 suspended_left_anti.probe_index resumed_left_anti).2.rows =
      resumed_left_anti.current_offset ∧
    do_process left_anti_other_2 (fun _ _ => false) ⟨[7, 9], []⟩ 2 suspended_left_anti =
      (Status.OK, do_other_join_conjuncts left_anti_other_2 (fun _ _ => false)
        (assemble left_anti_other_2 suspended_left_anti.probe_index resumed_left_anti).1
        (assemble left_anti_other_2 suspended_left_anti.probe_index resumed_left_anti).2) ∧
    ∀ x ∈ do_other_join_conjuncts_indices left_anti_other_2 (fun _ _ => false)
        (assemble left_anti_other_2 suspended_left_anti.probe_index resumed_left_anti).1
        (assemble left_anti_other_2 suspended_left_anti.probe_index resumed_left_anti).2,
      0 ≤ x ∧
      x < ((assemble left_anti_other_2 suspended_left_anti.probe_index
        resumed_left_anti).2.rows : Int)) :=
  ⟨by decide, by decide, by decide, by decide, by decide, by decide, by decide,
    C35_applier_inputs_well_formed left_anti_other_2 (fun _ _ => false) ⟨[7, 9], []⟩ 2
      suspended_left_anti (by decide) (by decide) (by decide) (by decide)⟩

end doris
